import Mathlib

/-!
# CoinModel: element storage and dual indexing

A shallow embedding of `src/src/CoinModel.cpp` (CoinUtils).  The model follows the
release build of the library: `assert` is compiled out (`NDEBUG`), `abort()` ends the
run and is recorded together with the state in which it was called.  Heap arrays are
total maps together with a presence flag (`none` is the C++ `NULL`), the allocated
length being tracked by the `maximum*` fields exactly as in the source; a freshly
allocated cell reads as zero (the `ZEROFAULT` build of `resize`).

The helper classes `CoinModelHash`, `CoinModelHash2` and `CoinModelLinkedList`, the
triple record, `CoinSort_2` and the numeric constants live in files that are not part of
`src/`; they are modelled from the specification and from the way `CoinModel.cpp`
calls them.
-/

namespace CoinUtils

/-! ## Values and constants -/

/-- The `double` payload of a coefficient, bound or objective entry.  `CoinModel.cpp`
only stores, copies and compares these numbers, so a finite double is represented by
the rational number it denotes. -/
abbrev Value := ℚ

/-- Modelled from the spec: the constant `COIN_DBL_MAX` (declared in `CoinFinite.hpp`,
absent from the sources) that stands for an infinite bound; it is the largest finite
double, `2^1024 - 2^971`. -/
def COIN_DBL_MAX : Value :=
  179769313486231570814527423731704356798070567525844996598917476803157260780028538760589558632766878171540458953514382464234321326889464182768467546703537516986049910576551282076245490090389328944075868508455133942304583236903222948165808559332123348274797826204144723168738177180919299881250404026184124858368

/-- Modelled from the spec: the "unset" sentinel of the associated-values table
(`unsetValue()` of `CoinModel.hpp`, absent from the sources), `-1.23456787654321e-97`. -/
def unsetValue : Value :=
  ⟨-123456787654321, 10 ^ 111, by norm_num, by norm_num⟩

/-- C++ integer division of two `int`s (truncation toward zero). -/
def cdiv (a b : Int) : Int := Int.tdiv a b

/-- The positions `0, 1, ..., n-1` of an array of `n` cells. -/
def positionsBelow (n : Int) : List Int := (List.range n.toNat).map Int.ofNat

/-- `CoinMemcpyN(src, n, fresh)`: the first `n` cells of a freshly allocated block are
copied from `src`, every other cell holds `junk`. -/
def copyN {α : Type} (src : Option (Int → α)) (n : Int) (junk : α) : Int → α :=
  fun i => if 0 ≤ i ∧ i < n then (match src with | some f => f i | none => junk) else junk

/-- Read cell `i` of a possibly absent array. -/
def load {α : Type} (a : Option (Int → α)) (junk : α) (i : Int) : α :=
  match a with
  | some f => f i
  | none => junk

/-- Write cell `i` of a possibly absent array (`a[i] = v`). -/
def store {α : Type} (a : Option (Int → α)) (i : Int) (v : α) : Option (Int → α) :=
  a.map (fun f => Function.update f i v)

/-- The loop `for (i = lo; i <= hi; i++) a[i] = v`. -/
def fillRange {α : Type} (a : Option (Int → α)) (lo hi : Int) (v : α) : Option (Int → α) :=
  a.map (fun f => fun i => if lo ≤ i ∧ i ≤ hi then v else f i)

/-- The update `x &= ~bit` on a 32-bit flag word. -/
def clearBit (x bit : Nat) : Nat := x &&& (4294967295 - bit)

/-! ## Coefficient triples -/

/-- Modelled from the spec: the coefficient triple
`{row: int32, column: int32, value: float64, isSymbolic: bool}` of `CoinModelUseful.hpp`;
`column = -1` marks a deleted slot, `string` is the "value is a string id" bit. -/
structure CoinModelTriple where
  row : Int
  string : Bool
  column : Int
  value : Value
deriving DecidableEq

/-- The all-zero triple of a zero-filled element block. -/
def CoinModelTriple.zero : CoinModelTriple := ⟨0, false, 0, 0⟩

/-- Modelled from the spec: accessor of the row number of a triple. -/
def rowInTriple (t : CoinModelTriple) : Int := t.row

/-- Modelled from the spec: accessor of the symbolic flag of a triple. -/
def stringInTriple (t : CoinModelTriple) : Bool := t.string

/-- Modelled from the spec: sets the row number, keeping the symbolic flag. -/
def setRowInTriple (t : CoinModelTriple) (iRow : Int) : CoinModelTriple :=
  { t with row := iRow }

/-- Modelled from the spec: sets the symbolic flag, keeping the row number. -/
def setStringInTriple (t : CoinModelTriple) (s : Bool) : CoinModelTriple :=
  { t with string := s }

/-- Modelled from the spec: sets row number and symbolic flag together. -/
def setRowAndStringInTriple (t : CoinModelTriple) (iRow : Int) (s : Bool) :
    CoinModelTriple :=
  { t with row := iRow, string := s }

/-- The triple at a position holds the pair `(row, column)`. -/
def holds (t : CoinModelTriple) (row column : Int) : Bool :=
  decide (rowInTriple t = row) && decide (t.column = column)

/-! ## Sorting -/

/-- Modelled from the spec: `CoinSort_2(keys, keys + n, values)` of `CoinSort.hpp`, which
sorts the keys into ascending order and carries each value with its key. -/
def CoinSort_2 (l : List (Int × Value)) : List (Int × Value) :=
  l.insertionSort (fun a b => a.1 ≤ b.1)

/-! ## Hash index over the element store -/

/-- Modelled from the spec: the Hash Index `CoinModelHash2` (§4.5), which maps
`(row, column)` to an element position.  `index` lists the hashed positions;
`numberItems_` is the number of leading triples the table covers and `maximumItems_`
its capacity (zero until the table is first sized). -/
structure CoinModelHash2 where
  numberItems_ : Int
  maximumItems_ : Int
  index : List Int

namespace CoinModelHash2

/-- Modelled from the spec: the empty, unsized hash index. -/
def empty : CoinModelHash2 := ⟨0, 0, []⟩

/-- Modelled from the spec: number of items covered by the index. -/
def numberItems (h : CoinModelHash2) : Int := h.numberItems_

/-- Modelled from the spec: capacity of the index. -/
def maximumItems (h : CoinModelHash2) : Int := h.maximumItems_

/-- Modelled from the spec: `setNumberItems(n)` tells the index how many leading
triples the next rebuild has to cover. -/
def setNumberItems (h : CoinModelHash2) (n : Int) : CoinModelHash2 :=
  { h with numberItems_ := n }

/-- Modelled from the spec: `lookup(row, column)`, the position of the hashed triple
that holds `(row, column)`, or `-1`. -/
def hash (h : CoinModelHash2) (row column : Int) (triples : Int → CoinModelTriple) : Int :=
  match h.index.find? (fun p => holds (triples p) row column) with
  | some p => p
  | none => -1

/-- Modelled from the spec: `resize(maxItems, triples, forceReHash)`.  Nothing happens
when the capacity suffices and no rehash is forced; otherwise the table is rebuilt over
the non-deleted triples among the first `numberItems_` positions (the call has no
other way to know how many triples exist). -/
def resize (h : CoinModelHash2) (maxItems : Int) (triples : Int → CoinModelTriple)
    (forceReHash : Bool) : CoinModelHash2 :=
  if maxItems ≤ h.maximumItems_ ∧ forceReHash = false then h
  else
    { numberItems_ := h.numberItems_,
      maximumItems_ := max maxItems h.maximumItems_,
      index := (positionsBelow h.numberItems_).filter (fun p => decide (0 ≤ (triples p).column)) }

/-- Modelled from the spec: `insert(position, row, column)`; the table grows when it is
full and afterwards covers at least `index + 1` items. -/
def addHash (h : CoinModelHash2) (index : Int) (_row _column : Int)
    (triples : Int → CoinModelTriple) : CoinModelHash2 :=
  let h1 :=
    if h.numberItems_ ≥ h.maximumItems_ ∨ index + 1 ≥ h.maximumItems_ then
      h.resize (max (1000 + cdiv (3 * h.numberItems_) 2) (index + 1)) triples false
    else h
  { numberItems_ := max h1.numberItems_ (index + 1),
    maximumItems_ := h1.maximumItems_,
    index := if index ∈ h1.index then h1.index else h1.index ++ [index] }

/-- Modelled from the spec: removal of the entry of one position. -/
def deleteHash (h : CoinModelHash2) (index : Int) (_row _column : Int) : CoinModelHash2 :=
  { h with index := h.index.filter (fun p => decide (p ≠ index)) }

end CoinModelHash2

/-! ## Name tables -/

/-- Modelled from the spec: the Name Table `CoinModelHash` (§4.3), a positional table of
optional names with lookup by name. -/
structure CoinModelHash where
  numberItems_ : Int
  maximumItems_ : Int
  names : Int → Option String

namespace CoinModelHash

/-- Modelled from the spec: the empty name table. -/
def empty : CoinModelHash := ⟨0, 0, fun _ => none⟩

/-- Modelled from the spec: number of name slots in use. -/
def numberItems (h : CoinModelHash) : Int := h.numberItems_

/-- Modelled from the spec: capacity of the table. -/
def maximumItems (h : CoinModelHash) : Int := h.maximumItems_

/-- Modelled from the spec: `id → name`; absent names and ids outside the table read as
`none`. -/
def name (h : CoinModelHash) (which : Int) : Option String :=
  if 0 ≤ which ∧ which < h.numberItems_ then h.names which else none

/-- Modelled from the spec: `name → id`, `-1` when the name is not in the table. -/
def hash (h : CoinModelHash) (n : String) : Int :=
  match (positionsBelow h.numberItems_).find? (fun i => decide (h.names i = some n)) with
  | some i => i
  | none => -1

/-- Modelled from the spec: growth of the table in step with the row/column capacity. -/
def resize (h : CoinModelHash) (maxItems : Int) : CoinModelHash :=
  { h with maximumItems_ := max maxItems h.maximumItems_ }

/-- Modelled from the spec: association of a name with an id. -/
def addHash (h : CoinModelHash) (index : Int) (n : String) : CoinModelHash :=
  { numberItems_ := max h.numberItems_ (index + 1),
    maximumItems_ := max h.maximumItems_ (index + 1),
    names := Function.update h.names index (some n) }

/-- Modelled from the spec: `deleteName(id)` leaves a positional gap. -/
def deleteHash (h : CoinModelHash) (index : Int) : CoinModelHash :=
  { h with names := Function.update h.names index none }

end CoinModelHash

/-! ## Linked list index -/

/-- Modelled from the spec: the Linked List Index `CoinModelLinkedList` (§4.6).  For
every major index `k` the list `chain k` gives the positions of the chain of `k` from
first to last; `free` is the free list of deleted slots, from first to last.  The
`next`/`previous` links of the source are the successor/predecessor in these lists.
`type_` is `0` for the row list and `1` for the column list. -/
structure CoinModelLinkedList where
  numberMajor_ : Int
  maximumMajor_ : Int
  numberElements_ : Int
  maximumElements_ : Int
  type_ : Int
  chain : Int → List Int
  free : List Int

namespace CoinModelLinkedList

/-- Modelled from the spec: the default-constructed, empty list. -/
def empty : CoinModelLinkedList := ⟨0, 0, 0, 0, -1, fun _ => [], []⟩

/-- Modelled from the spec: number of major indices known to the list. -/
def numberMajor (l : CoinModelLinkedList) : Int := l.numberMajor_

/-- Modelled from the spec: capacity in major indices. -/
def maximumMajor (l : CoinModelLinkedList) : Int := l.maximumMajor_

/-- Modelled from the spec: number of element slots known to the list. -/
def numberElements (l : CoinModelLinkedList) : Int := l.numberElements_

/-- Modelled from the spec: capacity in element slots. -/
def maximumElements (l : CoinModelLinkedList) : Int := l.maximumElements_

/-- Modelled from the spec: first slot of the free list, `-1` if there is none. -/
def firstFree (l : CoinModelLinkedList) : Int := l.free.head?.getD (-1)

/-- Modelled from the spec: last slot of the free list, `-1` if there is none. -/
def lastFree (l : CoinModelLinkedList) : Int := l.free.getLast?.getD (-1)

/-- The major index of a triple for a list of the given type. -/
def majorOf (type : Int) (t : CoinModelTriple) : Int :=
  if type = 0 then rowInTriple t else t.column

/-- The element after `p` in a list of positions. -/
def successor (xs : List Int) (p : Int) : Int :=
  match xs.dropWhile (fun q => decide (q ≠ p)) with
  | _ :: q :: _ => q
  | _ => -1

/-- Modelled from the spec: the `next` link of every position (`-1` at the end of a
chain). -/
def next (l : CoinModelLinkedList) : Int → Int := fun p =>
  match (l.free :: (positionsBelow l.numberMajor_).map l.chain).find? (fun xs => decide (p ∈ xs)) with
  | some xs => successor xs p
  | none => -1

/-- The positions reached from `p` by following `next` links. -/
def follow (nxt : Int → Int) : Nat → Int → List Int
  | 0, _ => []
  | n + 1, p => if p < 0 then [] else p :: follow nxt n (nxt p)

/-- Modelled from the spec: `create(...)`, which builds the chains over an existing
populated element store; deleted slots go to the free list. -/
def create (l : CoinModelLinkedList) (maxMajor maxElements numberMajor _numberMinor type
    numberElements : Int) (triples : Int → CoinModelTriple) : CoinModelLinkedList :=
  { numberMajor_ := numberMajor,
    maximumMajor_ := max (max maxMajor l.maximumMajor_) numberMajor,
    numberElements_ := numberElements,
    maximumElements_ := max (max maxElements l.maximumElements_) numberElements,
    type_ := type,
    chain := fun k => (positionsBelow numberElements).filter
      (fun p => decide (0 ≤ (triples p).column) && decide (majorOf type (triples p) = k)),
    free := (positionsBelow numberElements).filter (fun p => decide ((triples p).column < 0)) }

/-- Modelled from the spec: growth of the list capacity; it never shrinks. -/
def resize (l : CoinModelLinkedList) (maxMajor maxElements : Int) : CoinModelLinkedList :=
  { l with maximumMajor_ := max maxMajor l.maximumMajor_,
           maximumElements_ := max maxElements l.maximumElements_ }

/-- Modelled from the spec: `synchronize(other)`, which takes over the free list of the
other index. -/
def synchronize (l other : CoinModelLinkedList) : CoinModelLinkedList :=
  { l with free := other.free }

/-- The slot used by the next insertion: the last free slot if there is one (slot reuse
is global), else a new slot at the end of the element store. -/
def takeSlot (l : CoinModelLinkedList) : Int × CoinModelLinkedList :=
  match l.free.getLast? with
  | some p => (p, { l with free := l.free.dropLast })
  | none => (l.numberElements_, { l with numberElements_ := l.numberElements_ + 1 })

/-- Thread position `p` at the end of the chain of major index `k`. -/
def link (l : CoinModelLinkedList) (p k : Int) : CoinModelLinkedList :=
  { l with numberMajor_ := max l.numberMajor_ (k + 1),
           numberElements_ := max l.numberElements_ (p + 1),
           chain := Function.update l.chain k (l.chain k ++ [p]) }

/-- State threaded through an insertion: position of the first inserted element, the
list, the element store and the hash index. -/
abbrev AddState := Int × CoinModelLinkedList × (Int → CoinModelTriple) × CoinModelHash2

/-- One step of `addEasy`: store `(majorIndex, index, value)` in the next slot. -/
def addEasyStep (majorIndex : Int) (doHash : Bool) (s : AddState) (e : Int × Value) :
    AddState :=
  let (first, l, triples, hash) := s
  let (put, l) := l.takeSlot
  let t : CoinModelTriple :=
    if l.type_ = 0 then
      { setRowAndStringInTriple (triples put) majorIndex false with column := e.1, value := e.2 }
    else
      { setRowAndStringInTriple (triples put) e.1 false with column := majorIndex, value := e.2 }
  let triples := Function.update triples put t
  let hash := if doHash then hash.addHash put (rowInTriple t) t.column triples else hash
  (if first < 0 then put else first, l.link put majorIndex, triples, hash)

/-- Modelled from the spec: `insertSorted(k, minorIndices[], values[])` in the form
`addEasy(majorIndex, numberOfElements, indices, elements, triples, hash)`: the batch is
inserted into the chain of `majorIndex`, each new triple is entered in the hash index
once that index has been sized, and the position of the first inserted element is
returned (`-1` for an empty batch). -/
def addEasy (l : CoinModelLinkedList) (majorIndex numberOfElements : Int)
    (entries : List (Int × Value)) (triples : Int → CoinModelTriple)
    (hash : CoinModelHash2) : AddState :=
  let l :=
    if numberOfElements + l.numberElements_ > l.maximumElements_ then
      l.resize l.maximumMajor_ (cdiv (3 * (l.numberElements_ + numberOfElements)) 2 + 1000)
    else l
  if numberOfElements ≠ 0 then
    let doHash := decide (hash.maximumItems ≠ 0)
    let l := if majorIndex ≥ l.numberMajor_ then { l with numberMajor_ := majorIndex + 1 } else l
    (entries.take numberOfElements.toNat).foldl (addEasyStep majorIndex doHash)
      (-1, l, triples, hash)
  else (-1, l, triples, hash)

/-- One step of `addHard`: store `(index, minorIndex, value)`, the major index being the
entry index. -/
def addHardStep (minorIndex : Int) (doHash : Bool) (s : AddState) (e : Int × Value) :
    AddState :=
  let (first, l, triples, hash) := s
  let (put, l) := l.takeSlot
  let t : CoinModelTriple :=
    if l.type_ = 0 then
      { setRowAndStringInTriple (triples put) e.1 false with column := minorIndex, value := e.2 }
    else
      { setRowAndStringInTriple (triples put) minorIndex false with column := e.1, value := e.2 }
  let triples := Function.update triples put t
  let hash := if doHash then hash.addHash put (rowInTriple t) t.column triples else hash
  (if first < 0 then put else first, l.link put e.1, triples, hash)

/-- Modelled from the spec: insertion of a batch given by its minor index,
`addHard(minorIndex, numberOfElements, indices, elements, triples, hash)`: every entry
goes to the chain of its own major index `indices[i]`. -/
def addHard (l : CoinModelLinkedList) (minorIndex numberOfElements : Int)
    (entries : List (Int × Value)) (triples : Int → CoinModelTriple)
    (hash : CoinModelHash2) : AddState :=
  let doHash := decide (hash.maximumItems ≠ 0)
  (entries.take numberOfElements.toNat).foldl (addHardStep minorIndex doHash)
    (-1, l, triples, hash)

/-- Modelled from the spec: the second index is brought up to date after an insertion
made through the first one, `addHard(first, triples, firstFree, lastFree, next)`: the
positions reached from `first` along the `next` links of the other index are threaded
into the chains of this one, and the free list of the other index is taken over. -/
def addHardLinks (l : CoinModelLinkedList) (first : Int) (triples : Int → CoinModelTriple)
    (firstFree _lastFree : Int) (nxt : Int → Int) : CoinModelLinkedList :=
  let fuel := l.maximumElements_.toNat + 1
  let l1 := (follow nxt fuel first).foldl
    (fun acc p => acc.link p (majorOf acc.type_ (triples p))) l
  { l1 with free := follow nxt fuel firstFree }

end CoinModelLinkedList

/-! ## The model builder -/

/-- The state of a `CoinModel` object (the members of `CoinBaseModel` and `CoinModel`
that the element storage uses).  `type_` is the storage mode: `-1` uninitialized, `0`
row-oriented, `1` column-oriented, `2` mixed, `3` externally packed.  `links_` has bit
`1` set when the row list exists and bit `2` set when the column list exists. -/
structure CoinModel where
  numberRows_ : Int
  numberColumns_ : Int
  maximumRows_ : Int
  maximumColumns_ : Int
  numberElements_ : Int
  maximumElements_ : Int
  rowLower_ : Option (Int → Value)
  rowUpper_ : Option (Int → Value)
  rowType_ : Option (Int → Nat)
  objective_ : Option (Int → Value)
  columnLower_ : Option (Int → Value)
  columnUpper_ : Option (Int → Value)
  integerType_ : Option (Int → Int)
  columnType_ : Option (Int → Nat)
  start_ : Option (Int → Int)
  elements_ : Int → CoinModelTriple
  rowName_ : CoinModelHash
  columnName_ : CoinModelHash
  string_ : CoinModelHash
  hashElements_ : CoinModelHash2
  rowList_ : CoinModelLinkedList
  columnList_ : CoinModelLinkedList
  sortSize_ : Int
  sizeAssociated_ : Int
  associated_ : Option (Int → Value)
  type_ : Int
  noNames_ : Bool
  links_ : Nat

/-- The result of running a member function: it returned, or `abort()` was called (the
state reached at that point is kept), or a nested call went deeper than the source ever
does. -/
inductive Outcome (α : Type) where
  | returned : α → Outcome α
  | aborted : CoinModel → Outcome α
  | stuck : Outcome α

namespace Outcome

/-- Sequencing of two calls: the second one runs only if the first one returned. -/
def bind {α β : Type} (x : Outcome α) (f : α → Outcome β) : Outcome β :=
  match x with
  | returned a => f a
  | aborted m => aborted m
  | stuck => stuck

/-- The call ended in `abort()`. -/
def isAborted {α : Type} : Outcome α → Bool
  | aborted _ => true
  | _ => false

/-- The call returned. -/
def isReturned {α : Type} : Outcome α → Bool
  | returned _ => true
  | _ => false

end Outcome

namespace CoinModel

open Outcome

/-- The default constructor `CoinModel::CoinModel()`. -/
def default : CoinModel :=
  { numberRows_ := 0, numberColumns_ := 0, maximumRows_ := 0, maximumColumns_ := 0,
    numberElements_ := 0, maximumElements_ := 0,
    rowLower_ := none, rowUpper_ := none, rowType_ := none, objective_ := none,
    columnLower_ := none, columnUpper_ := none, integerType_ := none, columnType_ := none,
    start_ := none, elements_ := fun _ => CoinModelTriple.zero,
    rowName_ := CoinModelHash.empty, columnName_ := CoinModelHash.empty,
    string_ := CoinModelHash.empty, hashElements_ := CoinModelHash2.empty,
    rowList_ := CoinModelLinkedList.empty, columnList_ := CoinModelLinkedList.empty,
    sortSize_ := 0, sizeAssociated_ := 0, associated_ := none,
    type_ := -1, noNames_ := false, links_ := 0 }

/-- The member `badType()`: prints a message and aborts. -/
def badType {α : Type} (m : CoinModel) : Outcome α := aborted m

/-- The member `createList(type)`: creates the row list (`type = 1`) or the column list
and synchronizes its free list with the list that already exists. -/
def createList (m : CoinModel) (type : Int) : CoinModel :=
  let m := { m with type_ := 2 }
  if type = 1 then
    let l := m.rowList_.create m.maximumRows_ m.maximumElements_ m.numberRows_
      m.numberColumns_ 0 m.numberElements_ m.elements_
    let l := if m.links_ = 2 then l.synchronize m.columnList_ else l
    { m with rowList_ := l, links_ := m.links_ ||| 1 }
  else
    let l := m.columnList_.create m.maximumColumns_ m.maximumElements_ m.numberColumns_
      m.numberRows_ 1 m.numberElements_ m.elements_
    let l := if m.links_ = 1 then l.synchronize m.rowList_ else l
    { m with columnList_ := l, links_ := m.links_ ||| 2 }

/-- The row part of `resize` (the block guarded by `type_ == 0 || type_ == 2`); the
nested call of `fillRows` is the parameter `fillRowsN`. -/
def resizeRows (fillRowsN : CoinModel → Int → Bool → Bool → Outcome CoinModel)
    (m : CoinModel) (maximumRows maximumElements : Int) : Outcome CoinModel :=
  if m.type_ = 0 ∨ m.type_ = 2 then
    let maximumRows := max maximumRows m.numberRows_
    if maximumRows > m.maximumRows_ then
      let needFill := m.rowLower_.isNone
      let m := { m with rowLower_ := some (copyN m.rowLower_ m.numberRows_ 0),
                        rowUpper_ := some (copyN m.rowUpper_ m.numberRows_ 0),
                        rowType_ := some (copyN m.rowType_ m.numberRows_ 0) }
      let m := if m.noNames_ = false then { m with rowName_ := m.rowName_.resize maximumRows } else m
      let m := if m.links_ &&& 1 ≠ 0 then
          { m with rowList_ := m.rowList_.resize maximumRows maximumElements } else m
      let m := if m.type_ = 0 then
          { m with start_ := some (match m.start_ with
              | some s => copyN (some s) (m.numberRows_ + 1) 0
              | none => Function.update (fun _ => 0) 0 0) }
        else m
      let m := { m with maximumRows_ := maximumRows }
      if needFill then
        let save := m.numberRows_ - 1
        fillRowsN { m with numberRows_ := 0 } save true false
      else returned m
    else returned m
  else if m.type_ = 3 then badType m
  else returned m

/-- The column part of `resize` (the block guarded by `type_ == 1 || type_ == 2`). -/
def resizeColumns (fillColumnsN : CoinModel → Int → Bool → Bool → Outcome CoinModel)
    (m : CoinModel) (maximumColumns maximumElements : Int) : Outcome CoinModel :=
  if m.type_ = 1 ∨ m.type_ = 2 then
    let maximumColumns := max maximumColumns m.numberColumns_
    if maximumColumns > m.maximumColumns_ then
      let needFill := m.columnLower_.isNone
      let m := { m with columnLower_ := some (copyN m.columnLower_ m.numberColumns_ 0),
                        columnUpper_ := some (copyN m.columnUpper_ m.numberColumns_ 0),
                        objective_ := some (copyN m.objective_ m.numberColumns_ 0),
                        columnType_ := some (copyN m.columnType_ m.numberColumns_ 0),
                        integerType_ := some (copyN m.integerType_ m.numberColumns_ 0) }
      let m := if m.noNames_ = false then
          { m with columnName_ := m.columnName_.resize maximumColumns } else m
      let m := if m.links_ &&& 2 ≠ 0 then
          { m with columnList_ := m.columnList_.resize maximumColumns maximumElements } else m
      let m := if m.type_ = 1 then
          { m with start_ := some (match m.start_ with
              | some s => copyN (some s) (m.numberColumns_ + 1) 0
              | none => Function.update (fun _ => 0) 0 0) }
        else m
      let m := { m with maximumColumns_ := maximumColumns }
      if needFill then
        let save := m.numberColumns_ - 1
        fillColumnsN { m with numberColumns_ := 0 } save true false
      else returned m
    else returned m
  else returned m

/-- The element part of `resize`: the element block grows, the hash index and the
linked lists follow. -/
def resizeElements (m : CoinModel) (maximumElements : Int) : CoinModel :=
  if maximumElements > m.maximumElements_ then
    let m := { m with elements_ := copyN (some m.elements_) m.numberElements_ CoinModelTriple.zero }
    let m := if m.hashElements_.numberItems ≠ 0 then
        { m with hashElements_ := m.hashElements_.resize maximumElements m.elements_ false }
      else m
    let m := { m with maximumElements_ := maximumElements }
    let m := if m.links_ &&& 1 ≠ 0 then
        { m with rowList_ := m.rowList_.resize m.maximumRows_ m.maximumElements_ } else m
    if m.links_ &&& 2 ≠ 0 then
      { m with columnList_ := m.columnList_.resize m.maximumColumns_ m.maximumElements_ }
    else m
  else m

/-- The member `resize(maximumRows, maximumColumns, maximumElements)`, with its nested
calls of `fillRows` and `fillColumns` as parameters. -/
def resizeWith (fillRowsN fillColumnsN : CoinModel → Int → Bool → Bool → Outcome CoinModel)
    (m : CoinModel) (maximumRows maximumColumns maximumElements : Int) :
    Outcome CoinModel :=
  let maximumElements := max maximumElements m.maximumElements_
  (resizeRows fillRowsN m maximumRows maximumElements).bind fun m =>
  (resizeColumns fillColumnsN m maximumColumns maximumElements).bind fun m =>
  if m.type_ = 3 then badType m
  else returned (resizeElements m maximumElements)

/-- The first block of `fillRows` (the body of `if (forceCreation || fromAddRow)`):
the row arrays are created or extended.  The calls of `resize` are the parameter `rsz`;
the result carries the local `whichRow`, which the block may overwrite. -/
def fillRowsCreate (rsz : CoinModel → Int → Int → Int → Outcome CoinModel)
    (m : CoinModel) (whichRow : Int) : Outcome (CoinModel × Int) :=
  (if m.type_ = -1 then
      -- initial
      rsz { m with type_ := 0 } (max 100 (whichRow + 1)) 0 1000
    else if m.type_ = 1 then returned { m with type_ := 2 }
    else returned m).bind fun m =>
  (if m.rowLower_.isNone then
      -- need to set all
      let whichRow := m.numberRows_ - 1
      let m := { m with numberRows_ := 0 }
      (if m.type_ ≠ 3 then rsz m (max 100 (whichRow + 1)) 0 0
       else rsz m (max 1 (whichRow + 1)) 0 0).bind fun m => returned (m, whichRow)
    else returned (m, whichRow)).bind fun (m, whichRow) =>
  if whichRow ≥ m.maximumRows_ then
    (if m.type_ ≠ 3 then rsz m (max (cdiv (3 * m.maximumRows_) 2) (whichRow + 1)) 0 0
     else rsz m (max 1 (whichRow + 1)) 0 0).bind fun m => returned (m, whichRow)
  else returned (m, whichRow)

/-- The rest of `fillRows`: new rows get default bounds, and unless the call comes from
`addRow` the row count is raised and a compact `start_` array is given up for the row
list. -/
def fillRowsFill (m : CoinModel) (whichRow : Int) (fromAddRow : Bool) : CoinModel :=
  let m :=
    if whichRow ≥ m.numberRows_ ∧ m.rowLower_.isSome then
      -- Need to fill
      { m with rowLower_ := fillRange m.rowLower_ m.numberRows_ whichRow (-COIN_DBL_MAX),
               rowUpper_ := fillRange m.rowUpper_ m.numberRows_ whichRow COIN_DBL_MAX,
               rowType_ := fillRange m.rowType_ m.numberRows_ whichRow 0 }
    else m
  if fromAddRow = false then
    let m := { m with numberRows_ := max (whichRow + 1) m.numberRows_ }
    -- If simple minded then delete start
    if m.start_.isSome then
      -- mixed - do linked lists for rows
      createList { m with start_ := none } 1
    else m
  else m

/-- The member `fillRows(whichRow, forceCreation, fromAddRow)`, with its calls of
`resize` as the parameter `rsz`. -/
def fillRowsWith (rsz : CoinModel → Int → Int → Int → Outcome CoinModel)
    (m : CoinModel) (whichRow : Int) (forceCreation fromAddRow : Bool) :
    Outcome CoinModel :=
  (if forceCreation ∨ fromAddRow then fillRowsCreate rsz m whichRow
    else returned (m, whichRow)).bind fun (m, whichRow) =>
  returned (fillRowsFill m whichRow fromAddRow)

/-- The first block of `fillColumns` (the body of
`if (forceCreation || fromAddColumn)`). -/
def fillColumnsCreate (rsz : CoinModel → Int → Int → Int → Outcome CoinModel)
    (m : CoinModel) (whichColumn : Int) : Outcome (CoinModel × Int) :=
  (if m.type_ = -1 then
      -- initial
      rsz { m with type_ := 1 } 0 (max 100 (whichColumn + 1)) 1000
    else if m.type_ = 0 then returned { m with type_ := 2 }
    else returned m).bind fun m =>
  (if m.objective_.isNone then
      -- need to set all
      let whichColumn := m.numberColumns_ - 1
      let m := { m with numberColumns_ := 0 }
      (if m.type_ ≠ 3 then rsz m 0 (max 100 (whichColumn + 1)) 0
       else rsz m 0 (max 1 (whichColumn + 1)) 0).bind fun m => returned (m, whichColumn)
    else returned (m, whichColumn)).bind fun (m, whichColumn) =>
  if whichColumn ≥ m.maximumColumns_ then
    (if m.type_ ≠ 3 then
        rsz m 0 (max (cdiv (3 * m.maximumColumns_) 2) (whichColumn + 1)) 0
     else rsz m 0 (max 1 (whichColumn + 1)) 0).bind fun m => returned (m, whichColumn)
  else returned (m, whichColumn)

/-- The rest of `fillColumns`: new columns get default bounds, objective and type, and
unless the call comes from `addColumn` the column count is raised and a compact
`start_` array is given up for the column list. -/
def fillColumnsFill (m : CoinModel) (whichColumn : Int) (fromAddColumn : Bool) : CoinModel :=
  let m :=
    if whichColumn ≥ m.numberColumns_ ∧ m.objective_.isSome then
      -- Need to fill
      { m with columnLower_ := fillRange m.columnLower_ m.numberColumns_ whichColumn 0,
               columnUpper_ := fillRange m.columnUpper_ m.numberColumns_ whichColumn COIN_DBL_MAX,
               objective_ := fillRange m.objective_ m.numberColumns_ whichColumn 0,
               integerType_ := fillRange m.integerType_ m.numberColumns_ whichColumn 0,
               columnType_ := fillRange m.columnType_ m.numberColumns_ whichColumn 0 }
    else m
  if fromAddColumn = false then
    let m := { m with numberColumns_ := max (whichColumn + 1) m.numberColumns_ }
    -- If simple minded then delete start
    if m.start_.isSome then
      -- mixed - do linked lists for columns
      createList { m with start_ := none } 2
    else m
  else m

/-- The member `fillColumns(whichColumn, forceCreation, fromAddColumn)`, with its calls
of `resize` as the parameter `rsz`. -/
def fillColumnsWith (rsz : CoinModel → Int → Int → Int → Outcome CoinModel)
    (m : CoinModel) (whichColumn : Int) (forceCreation fromAddColumn : Bool) :
    Outcome CoinModel :=
  (if forceCreation ∨ fromAddColumn then fillColumnsCreate rsz m whichColumn
    else returned (m, whichColumn)).bind fun (m, whichColumn) =>
  returned (fillColumnsFill m whichColumn fromAddColumn)

/-- A call of `resize` below the nesting depth of the source (`resize` calls
`fillRows`, which here never calls `resize` again). -/
def resizeStuck : CoinModel → Int → Int → Int → Outcome CoinModel :=
  fun _ _ _ _ => stuck

/-- The member `resize`: its nested `fillRows`/`fillColumns` calls are the ones that
need no further `resize`. -/
def resize (m : CoinModel) (maximumRows maximumColumns maximumElements : Int) :
    Outcome CoinModel :=
  resizeWith (fillRowsWith resizeStuck) (fillColumnsWith resizeStuck) m
    maximumRows maximumColumns maximumElements

/-- The member `fillRows`. -/
def fillRows (m : CoinModel) (whichRow : Int) (forceCreation fromAddRow : Bool) :
    Outcome CoinModel :=
  fillRowsWith resize m whichRow forceCreation fromAddRow

/-- The member `fillColumns`. -/
def fillColumns (m : CoinModel) (whichColumn : Int) (forceCreation fromAddColumn : Bool) :
    Outcome CoinModel :=
  fillColumnsWith resize m whichColumn forceCreation fromAddColumn

end CoinModel

/-! ## Adding rows and columns, setting elements -/

/-- The seven decimal digits of `n`, zero padded (`%7.7d`). -/
def digits7 (n : Nat) : List Char :=
  [6, 5, 4, 3, 2, 1, 0].map (fun k => Char.ofNat (48 + (n / 10 ^ k) % 10))

/-- The base-26 letters of `n`, most significant first (the `while (number >= 26)` loop
followed by the leading letter). -/
def letters26 : Nat → Nat → List Char
  | 0, _ => []
  | fuel + 1, n =>
    if n ≥ 26 then letters26 fuel (n / 26) ++ [Char.ofNat (97 + n % 26)]
    else if n ≠ 0 then [Char.ofNat (97 + n % 26)] else []

/-- The member `Coin8CharacterName(rowColumn, number, field)`: the name generated for
row or column `number`. -/
def Coin8CharacterName (rowColumn : Char) (number : Int) : String :=
  if number < 10000000 then
    String.mk (rowColumn :: ((if number < 0 then [Char.ofNat 45] else []) ++ digits7 number.natAbs))
  else
    let ls := letters26 8 number.toNat
    String.mk (rowColumn :: (ls ++ List.replicate (7 - ls.length) (Char.ofNat 48)))

/-- The loop that copies the indices and finds out whether they are already strictly
increasing (`sorted` becomes false as soon as `k <= last`). -/
def sortedFrom : Int → List Int → Bool
  | _, [] => true
  | last, k :: ks => if k ≤ last then false else sortedFrom k ks

/-- The loop that looks for two equal neighbours in the sorted indices. -/
def duplicateFrom : Int → List Int → Bool
  | _, [] => false
  | last, k :: ks => decide (k = last) || duplicateFrom k ks

/-- The first `n` cells of the caller's index and value arrays, paired. -/
def entriesOf (n : Int) (indices : List Int) (elements : List Value) : List (Int × Value) :=
  (List.range n.toNat).map (fun i => (indices.getD i 0, elements.getD i 0))

namespace CoinModel

open Outcome

/-- The "move and sort" block shared by `addRow` and `addColumn`: the entries are
copied to the sort buffers, sorted if needed and checked; a negative index or a
duplicate aborts.  Returns the model, the sorted entries and the largest index (`-1`
for an empty batch). -/
def sortAndCheck (m : CoinModel) (numberIn : Int) (indices : List Int)
    (elements : List Value) : Outcome (CoinModel × List (Int × Value) × Int) :=
  if numberIn > 0 then
    -- Move and sort
    let m := if numberIn > m.sortSize_ then { m with sortSize_ := numberIn + 100 } else m
    let entries := entriesOf numberIn indices elements
    let sorted := sortedFrom (-1) (entries.map Prod.fst)
    let entries := if sorted = false then CoinSort_2 entries else entries
    -- check for duplicates etc
    if (entries.map Prod.fst).headD 0 < 0 then aborted m
    else if duplicateFrom (-1) (entries.map Prod.fst) then aborted m
    else returned (m, entries, max (-1) ((entries.map Prod.fst).getLastD (-1)))
  else returned (m, [], -1)

/-- The compact ("can do simply") store loop of `addRow`/`addColumn`: the entries are
written from position `put` on; `byRow` says whether `major` is the row. -/
def storeCompact (byRow : Bool) (major : Int) (doHash : Bool) :
    List (Int × Value) → Int → (Int → CoinModelTriple) → CoinModelHash2 →
    Int × (Int → CoinModelTriple) × CoinModelHash2
  | [], put, triples, hash => (put, triples, hash)
  | e :: es, put, triples, hash =>
    let t : CoinModelTriple :=
      if byRow then
        { setRowAndStringInTriple (triples put) major false with column := e.1, value := e.2 }
      else
        { setRowAndStringInTriple (triples put) e.1 false with column := major, value := e.2 }
    let triples := Function.update triples put t
    let hash := if doHash then hash.addHash put (rowInTriple t) t.column triples else hash
    storeCompact byRow major doHash es (put + 1) triples hash

/-- The first block of `addRow`: the storage mode is initialized, a column-oriented
model gets its row list, an externally packed model aborts. -/
def addRowMode (m : CoinModel) : Outcome CoinModel :=
  if m.type_ = -1 then
    -- initial
    resize { m with type_ := 0 } 100 0 1000
  else if m.type_ = 1 then
    -- mixed - do linked lists for rows
    returned (createList m 1)
  else if m.type_ = 3 then badType m
  else returned m

/-- The part of `addRow` after the index check: capacity, bounds, name and the storing
of the sorted entries. -/
def addRowStore (m : CoinModel) (numberInRow : Int) (sortEntries : List (Int × Value))
    (newColumn : Int) (rowLower rowUpper : Value) (name : Option String) :
    Outcome CoinModel :=
  let newElement : Int :=
    if m.numberElements_ + numberInRow > m.maximumElements_ then
      cdiv (3 * (m.numberElements_ + numberInRow)) 2 + 1000
    else 0
  let newRow : Int :=
    if m.numberElements_ + numberInRow > m.maximumElements_ ∧
        m.numberRows_ * 10 > m.maximumRows_ * 9 then
      cdiv (m.maximumRows_ * 3) 2 + 100
    else 0
  let newRow : Int :=
    if m.numberRows_ = m.maximumRows_ then cdiv (m.maximumRows_ * 3) 2 + 100 else newRow
  (if newRow ≠ 0 ∨ newColumn ≥ m.maximumColumns_ ∨ newElement ≠ 0 then
      if newColumn < m.maximumColumns_ then
        -- columns okay
        resize m newRow 0 newElement
      else
        -- newColumn will be new numberColumns_
        resize m newRow (cdiv (3 * newColumn) 2 + 100) newElement
    else returned m).bind fun m =>
  -- If rows extended - take care of that
  (fillRows m m.numberRows_ false true).bind fun m =>
  -- Do name
  let m :=
    match name with
    | some n => { m with rowName_ := m.rowName_.addHash m.numberRows_ n }
    | none =>
      if m.noNames_ = false then
        { m with rowName_ := (m.rowName_.addHash m.numberRows_
            (Coin8CharacterName (Char.ofNat 114) m.numberRows_)) }
      else m
  let m := { m with rowLower_ := store m.rowLower_ m.numberRows_ rowLower,
                    rowUpper_ := store m.rowUpper_ m.numberRows_ rowUpper }
  -- If columns extended - take care of that
  (fillColumns m newColumn false false).bind fun m =>
  let m :=
    if m.type_ = 0 then
      -- can do simply
      let put := load m.start_ 0 m.numberRows_
      let doHash := decide (m.hashElements_.numberItems ≠ 0)
      let (put, triples, hash) :=
        storeCompact true m.numberRows_ doHash sortEntries put m.elements_ m.hashElements_
      { m with elements_ := triples, hashElements_ := hash,
               start_ := store m.start_ (m.numberRows_ + 1) put,
               numberElements_ := m.numberElements_ + numberInRow }
    else
      let m :=
        if numberInRow ≠ 0 then
          -- must update at least one link
          if m.links_ = 1 ∨ m.links_ = 3 then
            let (first, l, triples, hash) :=
              m.rowList_.addEasy m.numberRows_ numberInRow sortEntries m.elements_ m.hashElements_
            let m := { m with rowList_ := l, elements_ := triples, hashElements_ := hash }
            let m :=
              if m.links_ = 3 then
                { m with columnList_ := (m.columnList_.addHardLinks first m.elements_
                    m.rowList_.firstFree m.rowList_.lastFree m.rowList_.next) }
              else m
            { m with numberElements_ := max m.numberElements_ m.rowList_.numberElements }
          else if m.links_ = 2 then
            let (_, l, triples, hash) :=
              m.columnList_.addHard m.numberRows_ numberInRow sortEntries m.elements_
                m.hashElements_
            let m := { m with columnList_ := l, elements_ := triples, hashElements_ := hash }
            { m with numberElements_ := max m.numberElements_ m.columnList_.numberElements }
          else m
        else m
      { m with numberElements_ := max m.numberElements_ m.hashElements_.numberItems }
  returned { m with numberRows_ := m.numberRows_ + 1 }

/-- The member `addRow(numberInRow, columns, elements, rowLower, rowUpper, name)`. -/
def addRow (m : CoinModel) (numberInRow : Int) (columns : List Int) (elements : List Value)
    (rowLower rowUpper : Value) (name : Option String) : Outcome CoinModel :=
  (addRowMode m).bind fun m =>
  (sortAndCheck m numberInRow columns elements).bind fun (m, sortEntries, newColumn) =>
  addRowStore m numberInRow sortEntries newColumn rowLower rowUpper name

/-- The first block of `addColumn`: the storage mode is initialized, a row-oriented
model gets its column list, an externally packed model aborts. -/
def addColumnMode (m : CoinModel) : Outcome CoinModel :=
  if m.type_ = -1 then
    -- initial
    resize { m with type_ := 1 } 0 100 1000
  else if m.type_ = 0 then
    -- mixed - do linked lists for columns
    returned (createList m 2)
  else if m.type_ = 3 then badType m
  else returned m

/-- The part of `addColumn` after the index check: capacity, bounds, objective, name and
the storing of the sorted entries. -/
def addColumnStore (m : CoinModel) (numberInColumn : Int) (sortEntries : List (Int × Value))
    (newRow : Int) (columnLower columnUpper objectiveValue : Value)
    (name : Option String) (isInteger : Bool) : Outcome CoinModel :=
  let newElement : Int :=
    if m.numberElements_ + numberInColumn > m.maximumElements_ then
      cdiv (3 * (m.numberElements_ + numberInColumn)) 2 + 1000
    else 0
  let newColumn : Int :=
    if m.numberElements_ + numberInColumn > m.maximumElements_ ∧
        m.numberColumns_ * 10 > m.maximumColumns_ * 9 then
      cdiv (m.maximumColumns_ * 3) 2 + 100
    else 0
  let newColumn : Int :=
    if m.numberColumns_ = m.maximumColumns_ then cdiv (m.maximumColumns_ * 3) 2 + 100
    else newColumn
  (if newColumn ≠ 0 ∨ newRow ≥ m.maximumRows_ ∨ newElement ≠ 0 then
      if newRow < m.maximumRows_ then
        -- rows okay
        resize m 0 newColumn newElement
      else
        -- newRow will be new numberRows_
        resize m (cdiv (3 * newRow) 2 + 100) newColumn newElement
    else returned m).bind fun m =>
  -- If columns extended - take care of that
  (fillColumns m m.numberColumns_ false true).bind fun m =>
  -- Do name
  let m :=
    match name with
    | some n => { m with columnName_ := m.columnName_.addHash m.numberColumns_ n }
    | none =>
      if m.noNames_ = false then
        { m with columnName_ := (m.columnName_.addHash m.numberColumns_
            (Coin8CharacterName (Char.ofNat 99) m.numberColumns_)) }
      else m
  let m := { m with columnLower_ := store m.columnLower_ m.numberColumns_ columnLower,
                    columnUpper_ := store m.columnUpper_ m.numberColumns_ columnUpper,
                    objective_ := store m.objective_ m.numberColumns_ objectiveValue,
                    integerType_ := store m.integerType_ m.numberColumns_
                      (if isInteger then 1 else 0) }
  -- If rows extended - take care of that
  (fillRows m newRow false false).bind fun m =>
  let m :=
    if m.type_ = 1 then
      -- can do simply
      let put := load m.start_ 0 m.numberColumns_
      let doHash := decide (m.hashElements_.numberItems ≠ 0)
      let (put, triples, hash) :=
        storeCompact false m.numberColumns_ doHash sortEntries put m.elements_ m.hashElements_
      { m with elements_ := triples, hashElements_ := hash,
               start_ := store m.start_ (m.numberColumns_ + 1) put,
               numberElements_ := m.numberElements_ + numberInColumn }
    else
      if numberInColumn ≠ 0 then
        -- must update at least one link
        if m.links_ = 2 ∨ m.links_ = 3 then
          let (first, l, triples, hash) :=
            m.columnList_.addEasy m.numberColumns_ numberInColumn sortEntries m.elements_
              m.hashElements_
          let m := { m with columnList_ := l, elements_ := triples, hashElements_ := hash }
          let m :=
            if m.links_ = 3 then
              { m with rowList_ := (m.rowList_.addHardLinks first m.elements_
                  m.columnList_.firstFree m.columnList_.lastFree m.columnList_.next) }
            else m
          { m with numberElements_ := max m.numberElements_ m.columnList_.numberElements }
        else if m.links_ = 1 then
          let (_, l, triples, hash) :=
            m.rowList_.addHard m.numberColumns_ numberInColumn sortEntries m.elements_
              m.hashElements_
          let m := { m with rowList_ := l, elements_ := triples, hashElements_ := hash }
          { m with numberElements_ := max m.numberElements_ m.rowList_.numberElements }
        else m
      else m
  returned { m with numberColumns_ := m.numberColumns_ + 1 }

/-- The member `addColumn(numberInColumn, rows, elements, columnLower, columnUpper,
objectiveValue, name, isInteger)`. -/
def addColumn (m : CoinModel) (numberInColumn : Int) (rows : List Int)
    (elements : List Value) (columnLower columnUpper objectiveValue : Value)
    (name : Option String) (isInteger : Bool) : Outcome CoinModel :=
  (addColumnMode m).bind fun m =>
  (sortAndCheck m numberInColumn rows elements).bind fun (m, sortEntries, newRow) =>
  addColumnStore m numberInColumn sortEntries newRow columnLower columnUpper objectiveValue
    name isInteger

/-- The first block of `setElement`: the mode is initialized and the linked list that the
insertion needs is created. -/
def setElementMode (m : CoinModel) : Outcome CoinModel :=
  if m.type_ = -1 then
    -- initial
    (resize { m with type_ := 0 } 100 100 1000).bind fun m => returned (createList m 2)
  else if m.type_ = 3 then badType m
  else if m.links_ = 0 then
    if m.type_ = 0 ∨ m.type_ = 2 then returned (createList m 1)
    else if m.type_ = 1 then returned (createList m 2)
    else returned m
  else returned m

/-- The sizing of the hash index in `setElement`:
`if (!hashElements_.maximumItems()) hashElements_.resize(maximumElements_, elements_)`. -/
def setElementHash (m : CoinModel) : CoinModel :=
  if m.hashElements_.maximumItems = 0 then
    { m with hashElements_ := m.hashElements_.resize m.maximumElements_ m.elements_ false }
  else m

/-- The last block of `setElement`, for a pair that the hash index did not find: the
element is inserted through the lists that exist and the counts are updated. -/
def setElementStore (m : CoinModel) (i j : Int) (value : Value) : CoinModel :=
  -- treat as addRow unless only columnList_ exists
  let m :=
    if m.links_ &&& 1 ≠ 0 then
      let (first, l, triples, hash) :=
        m.rowList_.addEasy i 1 [(j, value)] m.elements_ m.hashElements_
      let m := { m with rowList_ := l, elements_ := triples, hashElements_ := hash }
      let m :=
        if m.links_ = 3 then
          { m with columnList_ := (m.columnList_.addHardLinks first m.elements_
              m.rowList_.firstFree m.rowList_.lastFree m.rowList_.next) }
        else m
      { m with numberElements_ := max m.numberElements_ m.rowList_.numberElements }
    else if m.links_ = 2 then
      let (_, l, triples, hash) :=
        m.columnList_.addHard i 1 [(j, value)] m.elements_ m.hashElements_
      let m := { m with columnList_ := l, elements_ := triples, hashElements_ := hash }
      { m with numberElements_ := max m.numberElements_ m.columnList_.numberElements }
    else m
  { m with numberRows_ := max m.numberRows_ (i + 1),
           numberColumns_ := max m.numberColumns_ (j + 1) }

/-- The capacity that `setElement` asks of `resize` for a new element at `(i, j)`, if
any: `(newRow, newColumn, newElement)`. -/
def setElementGrow (m : CoinModel) (i j : Int) : Outcome CoinModel :=
  let newColumn : Int := if j ≥ m.maximumColumns_ then j + 1 else 0
  let newRow : Int := if i ≥ m.maximumRows_ then i + 1 else 0
  let newElement : Int :=
    if m.numberElements_ = m.maximumElements_ then cdiv (3 * m.numberElements_) 2 + 1000
    else 0
  if newRow ≠ 0 ∨ newColumn ≠ 0 ∨ newElement ≠ 0 then
    let newColumn := if newColumn ≠ 0 then cdiv (3 * newColumn) 2 + 100 else newColumn
    let newRow := if newRow ≠ 0 then cdiv (3 * newRow) 2 + 100 else newRow
    resize m newRow newColumn newElement
  else returned m

/-- The member `setElement(i, j, value)` for a numeric value. -/
def setElement (m : CoinModel) (i j : Int) (value : Value) : Outcome CoinModel :=
  (setElementMode m).bind fun m =>
  let m := setElementHash m
  let position := m.hashElements_.hash i j m.elements_
  if position ≥ 0 then
    returned { m with elements_ := (Function.update m.elements_ position
      (setStringInTriple { m.elements_ position with value := value } false)) }
  else
    (setElementGrow m i j).bind fun m =>
    -- If columns extended - take care of that
    (fillColumns m j false false).bind fun m =>
    -- If rows extended - take care of that
    (fillRows m i false false).bind fun m =>
    returned (setElementStore m i j value)

/-- The lazy build of the hash index done by the `const` readers (`hashElements_` is
`mutable`): `if (!hashElements_.numberItems()) { setNumberItems(numberElements_);
resize(maximumElements_, elements_, force); }`. -/
def buildHash (m : CoinModel) (force : Bool) : CoinModel :=
  if m.hashElements_.numberItems = 0 then
    { m with hashElements_ :=
        ((m.hashElements_.setNumberItems m.numberElements_).resize m.maximumElements_
          m.elements_ force) }
  else m

/-- The member `getElement(i, j)`: the value read and the model with its hash index
built. -/
def getElement (m : CoinModel) (i j : Int) : Value × CoinModel :=
  let m := buildHash m false
  let position := m.hashElements_.hash i j m.elements_
  if position ≥ 0 then ((m.elements_ position).value, m) else (0, m)

/-- The member `position(i, j)`: `-1` if the element does not exist. -/
def position (m : CoinModel) (i j : Int) : Int × CoinModel :=
  let m := buildHash m true
  (m.hashElements_.hash i j m.elements_, m)

/-- The member `getRowLower(whichRow)`. -/
def getRowLower (m : CoinModel) (whichRow : Int) : Value :=
  if whichRow < m.numberRows_ ∧ m.rowLower_.isSome then load m.rowLower_ 0 whichRow
  else -COIN_DBL_MAX

/-- The member `getRowUpper(whichRow)`. -/
def getRowUpper (m : CoinModel) (whichRow : Int) : Value :=
  if whichRow < m.numberRows_ ∧ m.rowUpper_.isSome then load m.rowUpper_ 0 whichRow
  else COIN_DBL_MAX

/-- The member `getColumnLower(whichColumn)`. -/
def getColumnLower (m : CoinModel) (whichColumn : Int) : Value :=
  if whichColumn < m.numberColumns_ ∧ m.columnLower_.isSome then
    load m.columnLower_ 0 whichColumn
  else 0

/-- The member `getColumnUpper(whichColumn)`. -/
def getColumnUpper (m : CoinModel) (whichColumn : Int) : Value :=
  if whichColumn < m.numberColumns_ ∧ m.columnUpper_.isSome then
    load m.columnUpper_ 0 whichColumn
  else COIN_DBL_MAX

/-- The member `getColumnObjective(whichColumn)`. -/
def getColumnObjective (m : CoinModel) (whichColumn : Int) : Value :=
  if whichColumn < m.numberColumns_ ∧ m.objective_.isSome then
    load m.objective_ 0 whichColumn
  else 0

/-- The member `getColumnIsInteger(whichColumn)`. -/
def getColumnIsInteger (m : CoinModel) (whichColumn : Int) : Bool :=
  if whichColumn < m.numberColumns_ ∧ m.integerType_.isSome then
    decide (load m.integerType_ 0 whichColumn ≠ 0)
  else false

/-- The member `setRowLower(whichRow, rowLower)` for a numeric bound. -/
def setRowLower (m : CoinModel) (whichRow : Int) (rowLower : Value) : Outcome CoinModel :=
  -- make sure enough room and fill
  (fillRows m whichRow true false).bind fun m =>
  returned { m with rowLower_ := store m.rowLower_ whichRow rowLower,
                    rowType_ := store m.rowType_ whichRow
                      (clearBit (load m.rowType_ 0 whichRow) 1) }

/-- The member `setRowUpper(whichRow, rowUpper)` for a numeric bound. -/
def setRowUpper (m : CoinModel) (whichRow : Int) (rowUpper : Value) : Outcome CoinModel :=
  (fillRows m whichRow true false).bind fun m =>
  returned { m with rowUpper_ := store m.rowUpper_ whichRow rowUpper,
                    rowType_ := store m.rowType_ whichRow
                      (clearBit (load m.rowType_ 0 whichRow) 2) }

/-- The member `setColumnLower(whichColumn, columnLower)` for a numeric bound. -/
def setColumnLower (m : CoinModel) (whichColumn : Int) (columnLower : Value) :
    Outcome CoinModel :=
  (fillColumns m whichColumn true false).bind fun m =>
  returned { m with columnLower_ := store m.columnLower_ whichColumn columnLower,
                    columnType_ := store m.columnType_ whichColumn
                      (clearBit (load m.columnType_ 0 whichColumn) 1) }

/-- The member `setColumnUpper(whichColumn, columnUpper)` for a numeric bound. -/
def setColumnUpper (m : CoinModel) (whichColumn : Int) (columnUpper : Value) :
    Outcome CoinModel :=
  (fillColumns m whichColumn true false).bind fun m =>
  returned { m with columnUpper_ := store m.columnUpper_ whichColumn columnUpper,
                    columnType_ := store m.columnType_ whichColumn
                      (clearBit (load m.columnType_ 0 whichColumn) 2) }

/-- The member `setColumnObjective(whichColumn, columnObjective)` for a number. -/
def setColumnObjective (m : CoinModel) (whichColumn : Int) (columnObjective : Value) :
    Outcome CoinModel :=
  (fillColumns m whichColumn true false).bind fun m =>
  returned { m with objective_ := store m.objective_ whichColumn columnObjective,
                    columnType_ := store m.columnType_ whichColumn
                      (clearBit (load m.columnType_ 0 whichColumn) 4) }

end CoinModel

/-! ## Export to a packed matrix -/

/-- Modelled from the spec: the immutable packed matrix handed to the solver
(`CoinPackedMatrix`, an external collaborator).  The record holds the arguments that
`createPackedMatrix` passes to its constructor: column ordering, dimensions, number of
stored elements, values, row indices, column starts and column lengths. -/
structure CoinPackedMatrix where
  colOrdered : Bool
  minorDim : Int
  majorDim : Int
  numberElements : Int
  element : Int → Value
  index : Int → Int
  start : Int → Int
  length : Int → Int

namespace CoinPackedMatrix

/-- Modelled from the spec: the default-constructed, empty matrix. -/
def empty : CoinPackedMatrix := ⟨true, 0, 0, 0, fun _ => 0, fun _ => 0, fun _ => 0, fun _ => 0⟩

/-- The stored entries `(row, value)` of column `c`, in storage order. -/
def column (M : CoinPackedMatrix) (c : Int) : List (Int × Value) :=
  (positionsBelow (M.length c)).map (fun k => (M.index (M.start c + k), M.element (M.start c + k)))

end CoinPackedMatrix

/-- One step of the counting loop of `createPackedMatrix`: `length[column]++` and
`numberElements++` for a non-deleted triple. -/
def countStep (elements : Int → CoinModelTriple) (s : (Int → Int) × Int) (p : Int) :
    (Int → Int) × Int :=
  let column := (elements p).column
  if column ≥ 0 then (Function.update s.1 column (s.1 column + 1), s.2 + 1) else s

/-- The counting loop of `createPackedMatrix` over the first `n` triples. -/
def countLengths (elements : Int → CoinModelTriple) (n : Int) : (Int → Int) × Int :=
  (positionsBelow n).foldl (countStep elements) (fun _ => 0, 0)

/-- One step of the loop `start[i + 1] = start[i] + length[i]`. -/
def startStep (length : Int → Int) (start : Int → Int) (i : Int) : Int → Int :=
  Function.update start (i + 1) (start i + length i)

/-- The column starts computed by `createPackedMatrix`. -/
def buildStarts (numberColumns : Int) (length : Int → Int) : Int → Int :=
  (positionsBelow numberColumns).foldl (startStep length) (Function.update (fun _ => 0) 0 0)

/-- The locals of the fill loop of `createPackedMatrix`. -/
structure FillState where
  numberErrors : Int
  numberElements : Int
  length : Int → Int
  row : Int → Int
  element : Int → Value

/-- The conversion `static_cast<int>(value)` of a double (truncation). -/
def toInt (v : Value) : Int := Int.tdiv v.num v.den

/-- One step of the fill loop of `createPackedMatrix`: a non-deleted triple is resolved
(a string triple through `associated`, an unset value counting as an error and as
zero) and stored in its column if its value is not zero. -/
def fillStep (elements : Int → CoinModelTriple) (associated : Int → Value)
    (start : Int → Int) (s : FillState) (p : Int) : FillState :=
  let t := elements p
  let column := t.column
  if column ≥ 0 then
    let resolved : Value × Int :=
      if stringInTriple t then
        let position := toInt t.value
        let value := associated position
        if value = unsetValue then (0, s.numberErrors + 1) else (value, s.numberErrors)
      else (t.value, s.numberErrors)
    if resolved.1 ≠ 0 then
      let put := start column + s.length column
      { numberErrors := resolved.2,
        numberElements := s.numberElements + 1,
        length := Function.update s.length column (s.length column + 1),
        row := Function.update s.row put (rowInTriple t),
        element := Function.update s.element put resolved.1 }
    else { s with numberErrors := resolved.2 }
  else s

/-- One step of the final loop of `createPackedMatrix`:
`CoinSort_2(row + put, row + put + length[i], element + put)` for column `i`. -/
def sortColumn (start length : Int → Int) (re : (Int → Int) × (Int → Value)) (i : Int) :
    (Int → Int) × (Int → Value) :=
  let put := start i
  let seg := CoinSort_2 ((positionsBelow (length i)).map (fun k => (re.1 (put + k), re.2 (put + k))))
  (fun q => if put ≤ q ∧ q < put + length i then (seg.getD (q - put).toNat (0, 0)).1 else re.1 q,
   fun q => if put ≤ q ∧ q < put + length i then (seg.getD (q - put).toNat (0, 0)).2 else re.2 q)

/-- The matrix and the error count that `createPackedMatrix` computes from the element
store (everything after its call of `resize`). -/
def exportMatrix (numberRows numberColumns numberElements : Int)
    (elements : Int → CoinModelTriple) (associated : Int → Value) : CoinPackedMatrix × Int :=
  -- Do counts for CoinPackedMatrix
  let length := (countLengths elements numberElements).1
  let start := buildStarts numberColumns length
  let s := (positionsBelow numberElements).foldl (fillStep elements associated start)
    ⟨0, 0, fun _ => 0, fun _ => 0, fun _ => 0⟩
  let re := (positionsBelow numberColumns).foldl (sortColumn start s.length) (s.row, s.element)
  (⟨true, numberRows, numberColumns, s.numberElements, re.2, re.1, start, s.length⟩,
   s.numberErrors)

namespace CoinModel

open Outcome

/-- The member `createPackedMatrix(matrix, associated)`: returns the model (its mode is
set to "all parts"), the matrix and the number of errors. -/
def createPackedMatrix (m : CoinModel) (matrix : CoinPackedMatrix)
    (associated : Int → Value) : Outcome (CoinModel × CoinPackedMatrix × Int) :=
  if m.type_ = 3 then returned (m, matrix, 0)
  else
    -- Set to say all parts
    (resize { m with type_ := 2 } m.numberRows_ m.numberColumns_ m.numberElements_).bind
      fun m =>
    let r := exportMatrix m.numberRows_ m.numberColumns_ m.numberElements_ m.elements_
      associated
    returned (m, r.1, r.2)

end CoinModel

/-! ## Vocabulary of the statements -/

namespace Outcome

/-- The call returned a result that satisfies `P`. -/
def Returns {α : Type} (o : Outcome α) (P : α → Prop) : Prop :=
  ∃ a, o = returned a ∧ P a

/-- The call ended in `abort()`, in a state that satisfies `P`. -/
def Aborts {α : Type} (o : Outcome α) (P : CoinModel → Prop) : Prop :=
  ∃ m, o = aborted m ∧ P m

instance decidableReturns {α : Type} (o : Outcome α) (P : α → Prop) [DecidablePred P] :
    Decidable (o.Returns P) :=
  match o with
  | returned a =>
    if h : P a then isTrue ⟨a, rfl, h⟩
    else isFalse (fun ⟨b, hb, hP⟩ => by cases hb; exact h hP)
  | aborted _ => isFalse (fun ⟨_, hb, _⟩ => by cases hb)
  | stuck => isFalse (fun ⟨_, hb, _⟩ => by cases hb)

instance decidableAborts {α : Type} (o : Outcome α) (P : CoinModel → Prop) [DecidablePred P] :
    Decidable (o.Aborts P) :=
  match o with
  | aborted m =>
    if h : P m then isTrue ⟨m, rfl, h⟩
    else isFalse (fun ⟨b, hb, hP⟩ => by cases hb; exact h hP)
  | returned _ => isFalse (fun ⟨_, hb, _⟩ => by cases hb)
  | stuck => isFalse (fun ⟨_, hb, _⟩ => by cases hb)

end Outcome

/-- The positions of the non-deleted triples among the first `numberElements_` slots. -/
def storedPositions (m : CoinModel) : List Int :=
  (positionsBelow m.numberElements_).filter (fun p => decide (0 ≤ (m.elements_ p).column))

/-- The pairs `(row, column)` of the non-deleted triples, in storage order. -/
def storedPairs (m : CoinModel) : List (Int × Int) :=
  (storedPositions m).map (fun p => (rowInTriple (m.elements_ p), (m.elements_ p).column))

/-- The triples `(row, column, value)` of the non-deleted slots, in storage order. -/
def storedTriples (m : CoinModel) : List (Int × Int × Value) :=
  (storedPositions m).map
    (fun p => (rowInTriple (m.elements_ p), (m.elements_ p).column, (m.elements_ p).value))

/-- A linked list index of the given type (`0` row list, `1` column list) is in step
with a model: its slot count and every slot of its free list are non-negative and within
the element count of the model. -/
def ListOK (type : Int) (l : CoinModelLinkedList) (numberElements : Int) : Prop :=
  l.type_ = type ∧ 0 ≤ l.numberElements_ ∧ l.numberElements_ ≤ numberElements ∧
  ∀ p ∈ l.free, 0 ≤ p ∧ p < numberElements

/-- The linked lists that exist (by `links_`) are in step with the model. -/
def ListsOK (m : CoinModel) : Prop :=
  m.links_ ≤ 3 ∧ 0 ≤ m.numberElements_ ∧
  (m.links_ &&& 1 ≠ 0 → ListOK 0 m.rowList_ m.numberElements_) ∧
  (m.links_ &&& 2 ≠ 0 → ListOK 1 m.columnList_ m.numberElements_)

/-- What `resize`, `fillRows`, `fillColumns` and `createList` keep of a model `m` in
the model `m'` they produce: the element count and the stored triples, the number of
items of the hash index (whose entries are old entries or positions below that
number), the existence of the lists; the mode does not become 3. -/
def Keeps (m m' : CoinModel) : Prop :=
  m'.numberElements_ = m.numberElements_ ∧
  (∀ p, 0 ≤ p → p < m.numberElements_ → m'.elements_ p = m.elements_ p) ∧
  m'.type_ ≠ 3 ∧
  m'.hashElements_.numberItems_ = m.hashElements_.numberItems_ ∧
  (∀ q ∈ m'.hashElements_.index,
    q ∈ m.hashElements_.index ∨ (0 ≤ q ∧ q < m.hashElements_.numberItems_)) ∧
  m.hashElements_.maximumItems_ ≤ m'.hashElements_.maximumItems_ ∧
  (m.links_ ≠ 0 → m'.links_ ≠ 0) ∧
  (ListsOK m → ListsOK m')

/-- The index batch of an `addRow`/`addColumn` call that the source rejects: it is not
empty and holds a negative index or the same index twice. -/
def BadIndices (indices : List Int) : Prop :=
  indices ≠ [] ∧ ((∃ k ∈ indices, k < 0) ∨ ¬ indices.Nodup)

/-- The fields of the model that hold its logical content and its capacities; `m'` has
them as `m` has them. -/
def SameFields (m m' : CoinModel) : Prop :=
  m'.numberRows_ = m.numberRows_ ∧ m'.numberColumns_ = m.numberColumns_ ∧
  m'.numberElements_ = m.numberElements_ ∧ m'.elements_ = m.elements_ ∧
  m'.rowLower_ = m.rowLower_ ∧ m'.rowUpper_ = m.rowUpper_ ∧
  m'.columnLower_ = m.columnLower_ ∧ m'.columnUpper_ = m.columnUpper_ ∧
  m'.objective_ = m.objective_ ∧ m'.integerType_ = m.integerType_ ∧
  m'.maximumRows_ = m.maximumRows_ ∧ m'.maximumColumns_ = m.maximumColumns_ ∧
  m'.maximumElements_ = m.maximumElements_

/-- The logical content of the model as its readers see it: the counts, the stored
triples and the bounds, objective and integrality of every row and column. -/
def SameContent (m m' : CoinModel) : Prop :=
  m'.numberRows_ = m.numberRows_ ∧ m'.numberColumns_ = m.numberColumns_ ∧
  m'.numberElements_ = m.numberElements_ ∧
  (∀ p, 0 ≤ p → p < m.numberElements_ → m'.elements_ p = m.elements_ p) ∧
  (∀ i, 0 ≤ i →
    m'.getRowLower i = m.getRowLower i ∧ m'.getRowUpper i = m.getRowUpper i ∧
    m'.getColumnLower i = m.getColumnLower i ∧ m'.getColumnUpper i = m.getColumnUpper i ∧
    m'.getColumnObjective i = m.getColumnObjective i ∧
    m'.getColumnIsInteger i = m.getColumnIsInteger i)

/-- The capacities of the model are those of `m`. -/
def SameCapacity (m m' : CoinModel) : Prop :=
  m'.maximumRows_ = m.maximumRows_ ∧ m'.maximumColumns_ = m.maximumColumns_ ∧
  m'.maximumElements_ = m.maximumElements_

/-- The value that `createPackedMatrix` exports for a triple: the value itself, or for
a string triple its associated value (zero when that is unset). -/
def resolvedValue (associated : Int → Value) (t : CoinModelTriple) : Value :=
  if stringInTriple t then
    (if associated (toInt t.value) = unsetValue then 0 else associated (toInt t.value))
  else t.value

/-- The positions among `l` whose triple goes to column `c` of the export: the triple is
in column `c` and its resolved value is not zero. -/
def exportedTo (elements : Int → CoinModelTriple) (associated : Int → Value) (c : Int)
    (l : List Int) : List Int :=
  l.filter (fun p => decide ((elements p).column = c) &&
    decide (resolvedValue associated (elements p) ≠ 0))

/-- The positions among `l` whose triple is exported at all: non-deleted, with a
resolved value that is not zero. -/
def exported (elements : Int → CoinModelTriple) (associated : Int → Value)
    (l : List Int) : List Int :=
  l.filter (fun p => decide (0 ≤ (elements p).column) &&
    decide (resolvedValue associated (elements p) ≠ 0))

/-- The entry `(row, value)` that the export holds for the triple at position `p`. -/
def exportEntry (elements : Int → CoinModelTriple) (associated : Int → Value) (p : Int) :
    Int × Value :=
  (rowInTriple (elements p), resolvedValue associated (elements p))

/-- The invariant of the fill loop of `createPackedMatrix` after the positions `done`:
`length[c]` and `numberElements` count the exported triples, and the `k`-th exported
triple of column `c` is stored at `start[c] + k`. -/
def FillInv (E : Int → CoinModelTriple) (assoc : Int → Value) (start : Int → Int) (nc : Int)
    (s : FillState) (done : List Int) : Prop :=
  (∀ c, 0 ≤ c → s.length c = ((exportedTo E assoc c done).length : Int)) ∧
  s.numberElements = ((exported E assoc done).length : Int) ∧
  ∀ c, 0 ≤ c → c < nc → ∀ (k : Nat) (p : Int), (exportedTo E assoc c done)[k]? = some p →
    (s.row (start c + k), s.element (start c + k)) = exportEntry E assoc p

/-- The entries that the arrays `(row, element)` hold for column `c`: the cells
`start[c], ..., start[c] + length[c] - 1`. -/
def segment (start length : Int → Int) (re : (Int → Int) × (Int → Value)) (c : Int) :
    List (Int × Value) :=
  (positionsBelow (length c)).map (fun k => (re.1 (start c + k), re.2 (start c + k)))

/-- The result of a call that returned, and `a` for a call that did not. -/
def Outcome.resultOr {α : Type} (o : Outcome α) (a : α) : α :=
  match o with
  | Outcome.returned x => x
  | _ => a

/-- The model built by `addRow(1, {0}, {1.0}, 2.0, 5.0)` and `setElement(0, 2, 0.0)` on a
default model: one row, with the coefficient 1.0 at `(0, 0)` and an explicit zero at
`(0, 2)`. -/
def rowWithExplicitZero : CoinModel :=
  ((CoinModel.addRow CoinModel.default 1 [0] [1] 2 5 none).bind
    fun m1 => CoinModel.setElement m1 0 2 0).resultOr CoinModel.default

/-- The hash index of `m` is in step with the element store as far as the pair `(r, c)`
is concerned: its capacity is not negative, it covers at most the stored slots, its
entries are positions it covers, and every position it covers that holds `(r, c)` is one
of its entries. -/
def HashOK (m : CoinModel) (r c : Int) : Prop :=
  0 ≤ m.hashElements_.maximumItems_ ∧
  m.hashElements_.numberItems_ ≤ m.numberElements_ ∧
  (∀ q ∈ m.hashElements_.index, 0 ≤ q ∧ q < m.hashElements_.numberItems_) ∧
  ∀ p ∈ positionsBelow m.hashElements_.numberItems_, holds (m.elements_ p) r c = true →
    p ∈ m.hashElements_.index

instance decidableHashOK (m : CoinModel) (r c : Int) : Decidable (HashOK m r c) := by
  unfold HashOK
  infer_instance

instance decidableListOK (t : Int) (l : CoinModelLinkedList) (n : Int) :
    Decidable (ListOK t l n) := by
  unfold ListOK
  infer_instance

instance decidableListsOK (m : CoinModel) : Decidable (ListsOK m) := by
  unfold ListsOK
  infer_instance

/-- The model is uninitialized and empty, or it is in one of the modes 0, 1, 2 with room
for elements. -/
def Usable (m : CoinModel) : Prop :=
  (m.type_ = -1 ∧ m.numberElements_ = 0) ∨
  ((m.type_ = 0 ∨ m.type_ = 1 ∨ m.type_ = 2) ∧ 0 < m.maximumElements_)

instance decidableUsable (m : CoinModel) : Decidable (Usable m) := by
  unfold Usable
  infer_instance

/-- The state of `setElement(r, c, ·)` at its hash lookup: a list exists, the lists are
in step with the model, and the hash index is sized and in step with the element
store. -/
def Ready (m : CoinModel) (r c : Int) : Prop :=
  m.type_ ≠ 3 ∧ m.links_ ≠ 0 ∧ ListsOK m ∧ 0 < m.hashElements_.maximumItems_ ∧
  m.hashElements_.numberItems_ ≤ m.numberElements_ ∧
  (∀ q ∈ m.hashElements_.index, 0 ≤ q ∧ q < m.hashElements_.numberItems_) ∧
  ∀ p, 0 ≤ p → p < m.hashElements_.numberItems_ → holds (m.elements_ p) r c = true →
    p ∈ m.hashElements_.index

/-- The state of `setElement(r, c, ·)` after a lookup that found nothing: as `Ready`, and
no entry of the hash index and no position the index covers holds `(r, c)`. -/
def Fresh (m : CoinModel) (r c : Int) : Prop :=
  m.type_ ≠ 3 ∧ m.links_ ≠ 0 ∧ ListsOK m ∧ 0 < m.hashElements_.maximumItems_ ∧
  m.hashElements_.numberItems_ ≤ m.numberElements_ ∧
  (∀ q ∈ m.hashElements_.index, 0 ≤ q ∧ q < m.hashElements_.numberItems_) ∧
  ∀ p, 0 ≤ p → p < m.hashElements_.numberItems_ → holds (m.elements_ p) r c = false

/-! ## Strings, deletion and packing -/

namespace CoinModelHash

/-- Modelled from the spec: `setNumberItems(n)`, the number of name slots in use. -/
def setNumberItems (h : CoinModelHash) (n : Int) : CoinModelHash :=
  { h with numberItems_ := n }

/-- Modelled from the spec: `getName(id)`, the same `id → name` lookup as `name`
(`none` is the C++ `NULL`). -/
def getName (h : CoinModelHash) (index : Int) : Option String := h.name index

/-- Modelled from the spec: `setName(id, name)` overwrites the name of slot `id`. -/
def setName (h : CoinModelHash) (index : Int) (n : Option String) : CoinModelHash :=
  { h with names := Function.update h.names index n }

/-- Modelled from the spec: `resize(maxItems, true)`, the forced rebuild of the lookup
over the slots in use; the positional table itself does not change. -/
def rebuild (h : CoinModelHash) (maxItems : Int) : CoinModelHash :=
  { h with maximumItems_ := max maxItems h.maximumItems_ }

end CoinModelHash

namespace CoinModelLinkedList

/-- Modelled from the spec: `markDeleted(position)` for every position of `ps`: the
sentinel column is set and the value is zeroed. -/
def zap (triples : Int → CoinModelTriple) (ps : List Int) : Int → CoinModelTriple :=
  fun p => if p ∈ ps then { triples p with column := -1, value := 0 } else triples p

/-- Modelled from the spec: `deleteChain(k)` in the form
`deleteSame(which, triples, hash, zapTriples)`: every position of the chain of `which`
is unlinked and put on the free list; its hash entry is removed when the hash index has
been built, and the triple is marked deleted when `zapTriples` is set. -/
def deleteSame (l : CoinModelLinkedList) (which : Int) (triples : Int → CoinModelTriple)
    (hash : CoinModelHash2) (zapTriples : Bool) :
    CoinModelLinkedList × (Int → CoinModelTriple) × CoinModelHash2 :=
  let ps := l.chain which
  let hash :=
    if hash.numberItems ≠ 0 then
      ps.foldl (fun h p => h.deleteHash p (rowInTriple (triples p)) (triples p).column) hash
    else hash
  let triples := if zapTriples then zap triples ps else triples
  ({ l with chain := Function.update l.chain which [], free := l.free ++ ps }, triples, hash)

/-- Modelled from the spec: `updateDeleted(which, triples, otherList)`, by which the
second index follows a `deleteChain` made through the first one: the positions that the
other list has freed are unlinked from the chains of this list, their triples are marked
deleted, and the free list of the other list is taken over. -/
def updateDeleted (l : CoinModelLinkedList) (_which : Int) (triples : Int → CoinModelTriple)
    (otherList : CoinModelLinkedList) : CoinModelLinkedList × (Int → CoinModelTriple) :=
  let freed := otherList.free.filter (fun p => decide (p ∉ l.free))
  ({ l with chain := fun k => (l.chain k).filter (fun p => decide (p ∉ freed)),
            free := otherList.free },
   zap triples freed)

end CoinModelLinkedList

namespace CoinModel

open Outcome

/-- The member `addString(string)`: the id of the string, which is added to the string
table if it is not there. -/
def addString (m : CoinModel) (s : String) : Int × CoinModel :=
  let position := m.string_.hash s
  if position < 0 then
    let position := m.string_.numberItems
    (position, { m with string_ := m.string_.addHash position s })
  else (position, m)

/-- The sizing of the hash index in the string form of `setElement`:
`if (!hashElements_.maximumItems()) { hashElements_.setNumberItems(numberElements_);
hashElements_.resize(maximumElements_, elements_); }`. -/
def setElementStringHash (m : CoinModel) : CoinModel :=
  if m.hashElements_.maximumItems = 0 then
    -- set up number of items
    { m with hashElements_ :=
        ((m.hashElements_.setNumberItems m.numberElements_).resize m.maximumElements_
          m.elements_ false) }
  else m

/-- The last statements of both branches of the string form of `setElement`:
`iValue = addString(value); elements_[position].value = iValue;
setStringInTriple(elements_[position], true)`. -/
def setElementStringValue (m : CoinModel) (position : Int) (value : String) : CoinModel :=
  let (iValue, m) := addString m value
  { m with elements_ := (Function.update m.elements_ position
      (setStringInTriple { m.elements_ position with value := (iValue : Value) } true)) }

/-- The member `setElement(i, j, value)` for a string value. -/
def setElementString (m : CoinModel) (i j : Int) (value : String) : Outcome CoinModel :=
  let dummyValue : Value := 1
  (setElementMode m).bind fun m =>
  let m := setElementStringHash m
  let position := m.hashElements_.hash i j m.elements_
  if position ≥ 0 then returned (setElementStringValue m position value)
  else
    (setElementGrow m i j).bind fun m =>
    -- If columns extended - take care of that
    (fillColumns m j false false).bind fun m =>
    -- If rows extended - take care of that
    (fillRows m i false false).bind fun m =>
    let m := setElementStore m i j dummyValue
    let position := m.hashElements_.hash i j m.elements_
    returned (setElementStringValue m position value)

/-- The body of the loop of `computeAssociated` for the string id `i`: a string whose
associated value is unset is evaluated, and counted if it stays unset.  The evaluator
`getDoubleFromString` (the expression parser of `CoinModelUseful2.cpp`, absent from the
sources) is a parameter. -/
def computeAssociatedStep (m : CoinModel) (getDoubleFromString : String → Value)
    (s : (Int → Value) × Int) (i : Int) : (Int → Value) × Int :=
  match m.string_.name i with
  | some n =>
    if s.1 i = unsetValue then
      let a := Function.update s.1 i (getDoubleFromString n)
      if a i = unsetValue then (a, s.2 + 1) else (a, s.2)
    else s
  | none => s

/-- The member `computeAssociated(associated)`: every string of the table whose
associated value is unset is evaluated; the new table and the number of strings that
stay unset are returned. -/
def computeAssociated (m : CoinModel) (getDoubleFromString : String → Value)
    (associated : Int → Value) : (Int → Value) × Int :=
  (positionsBelow m.string_.numberItems).foldl
    (computeAssociatedStep m getDoubleFromString) (associated, 0)

/-- The member `passInMatrix(matrix)`: the model switches to the externally packed
mode.  The copy of the matrix, `packedMatrix_`, is not read by any member embedded here
and is not part of the state. -/
def passInMatrix (m : CoinModel) (_matrix : CoinPackedMatrix) : CoinModel :=
  { m with type_ := 3 }

/-- The member `setColumnIsInteger(whichColumn, columnIsInteger)` for a flag. -/
def setColumnIsInteger (m : CoinModel) (whichColumn : Int) (columnIsInteger : Bool) :
    Outcome CoinModel :=
  (fillColumns m whichColumn true false).bind fun m =>
  returned { m with integerType_ := store m.integerType_ whichColumn
                      (if columnIsInteger then 1 else 0),
                    columnType_ := store m.columnType_ whichColumn
                      (clearBit (load m.columnType_ 0 whichColumn) 8) }

end CoinModel

namespace CoinModel

open Outcome

/-- The member `deleteRow(whichRow)`: the bounds of the row are reset and its entries
are deleted. -/
def deleteRow (m : CoinModel) (whichRow : Int) : Outcome CoinModel :=
  if whichRow < m.numberRows_ then
    let m :=
      if m.rowLower_.isSome then
        let m := { m with rowLower_ := store m.rowLower_ whichRow (-COIN_DBL_MAX),
                          rowUpper_ := store m.rowUpper_ whichRow COIN_DBL_MAX,
                          rowType_ := store m.rowType_ whichRow 0 }
        if m.noNames_ = false then { m with rowName_ := m.rowName_.deleteHash whichRow }
        else m
      else m
    -- need lists
    let m := if m.type_ = 0 then { m with start_ := none } else m
    let m := if m.links_ &&& 1 = 0 then createList m 1 else m
    -- row links guaranteed to exist
    let (l, triples, hash) :=
      m.rowList_.deleteSame whichRow m.elements_ m.hashElements_ (decide (m.links_ ≠ 3))
    let m := { m with rowList_ := l, elements_ := triples, hashElements_ := hash }
    -- Just need to set first and last and take out
    let m :=
      if m.links_ = 3 then
        let (l, triples) := m.columnList_.updateDeleted whichRow m.elements_ m.rowList_
        { m with columnList_ := l, elements_ := triples }
      else m
    returned m
  else returned m

/-- The member `deleteColumn(whichColumn)`: the bounds, objective and integrality of the
column are reset and its entries are deleted. -/
def deleteColumn (m : CoinModel) (whichColumn : Int) : Outcome CoinModel :=
  if whichColumn < m.numberColumns_ then
    let m :=
      if m.columnLower_.isSome then
        let m := { m with columnLower_ := store m.columnLower_ whichColumn 0,
                          columnUpper_ := store m.columnUpper_ whichColumn COIN_DBL_MAX,
                          objective_ := store m.objective_ whichColumn 0,
                          integerType_ := store m.integerType_ whichColumn 0,
                          columnType_ := store m.columnType_ whichColumn 0 }
        if m.noNames_ = false then
          { m with columnName_ := m.columnName_.deleteHash whichColumn }
        else m
      else m
    -- need lists
    (if m.type_ = 0 then returned { m with start_ := none }
      else if m.type_ = 3 then badType m
      else returned m).bind fun m =>
    let m := if m.links_ &&& 2 = 0 then createList m 2 else m
    -- column links guaranteed to exist
    let (l, triples, hash) :=
      m.columnList_.deleteSame whichColumn m.elements_ m.hashElements_
        (decide (m.links_ ≠ 3))
    let m := { m with columnList_ := l, elements_ := triples, hashElements_ := hash }
    -- Just need to set first and last and take out
    let m :=
      if m.links_ = 3 then
        let (l, triples) := m.rowList_.updateDeleted whichColumn m.elements_ m.columnList_
        { m with rowList_ := l, elements_ := triples }
      else m
    returned m
  else returned m

end CoinModel

/-- The element counting loop of `packRows`/`packColumns`: `count[key]++` for every
non-deleted triple, `key` being its row or its column. -/
def packCount (key : CoinModelTriple → Int) (elements : Int → CoinModelTriple)
    (count : Int → Int) (i : Int) : Int → Int :=
  if (elements i).column ≥ 0 then
    Function.update count (key (elements i)) (count (key (elements i)) + 1)
  else count

/-- The loop of `packRows`/`packColumns` that moves the surviving triples to the front
of the element block and renumbers them (`renumber t k` writes the new index `k` into
the copy of `t`).  The state is the number of triples written and the block. -/
def packMove (key : CoinModelTriple → Int)
    (renumber : CoinModelTriple → Int → CoinModelTriple) (newIndex : Int → Int)
    (s : Int × (Int → CoinModelTriple)) (i : Int) : Int × (Int → CoinModelTriple) :=
  if (s.2 i).column ≥ 0 then
    let e := Function.update s.2 s.1 (s.2 i)
    (s.1 + 1, Function.update e s.1 (renumber (e s.1) (newIndex (key (e i)))))
  else s

/-- One step of the loops of `packRows`/`packColumns` that redo `start_`, for the major
index `now` of the next triple: when it is beyond `last`, the cells `last + 1, ..., now`
are set to `numberElements`. -/
def packStartStep (numberElements : Int) (major : Int → Int)
    (s : Int × Option (Int → Int)) (i : Int) : Int × Option (Int → Int) :=
  let now := major i
  if now > s.1 then (now, fillRange s.2 (s.1 + 1) now numberElements) else s

/-- The block `if (start_) { ... }` of `packRows`/`packColumns`. -/
def packStarts (m : CoinModel) : CoinModel :=
  if m.start_.isSome then
    if m.type_ = 0 then
      let s := (positionsBelow m.numberElements_).foldl
        (packStartStep m.numberElements_ (fun i => rowInTriple (m.elements_ i)))
        (-1, m.start_)
      { m with start_ := fillRange s.2 (s.1 + 2) m.numberRows_ m.numberElements_ }
    else
      let s := (positionsBelow m.numberElements_).foldl
        (packStartStep m.numberElements_ (fun i => (m.elements_ i).column))
        (-1, m.start_)
      { m with start_ := fillRange s.2 (s.1 + 2) m.numberColumns_ m.numberElements_ }
  else m

/-- The end of `packRows`/`packColumns`: the hash index is rebuilt if it had been built,
`start_` is redone and the linked lists that exist are created again. -/
def packRedo (m : CoinModel) : CoinModel :=
  let m :=
    if m.hashElements_.numberItems ≠ 0 then
      { m with hashElements_ :=
          ((m.hashElements_.setNumberItems m.numberElements_).resize
            m.hashElements_.maximumItems m.elements_ true) }
    else m
  let m := packStarts m
  let m :=
    if m.links_ &&& 1 ≠ 0 then
      CoinModel.createList
        { m with rowList_ := CoinModelLinkedList.empty, links_ := clearBit m.links_ 1 } 1
    else m
  if m.links_ &&& 2 ≠ 0 then
    CoinModel.createList
      { m with columnList_ := CoinModelLinkedList.empty, links_ := clearBit m.links_ 2 } 2
  else m

/-- The first loop of `packRows`: a row counts once for each of a lower bound, an upper
bound and a name that it has. -/
def packRowsMark (m : CoinModel) (newRow : Int → Int) (iRow : Int) : Int → Int :=
  let newRow :=
    if load m.rowLower_ 0 iRow ≠ -COIN_DBL_MAX then
      Function.update newRow iRow (newRow iRow + 1)
    else newRow
  let newRow :=
    if load m.rowUpper_ 0 iRow ≠ COIN_DBL_MAX then
      Function.update newRow iRow (newRow iRow + 1)
    else newRow
  if m.noNames_ = false ∧ (m.rowName_.name iRow).isSome then
    Function.update newRow iRow (newRow iRow + 1)
  else newRow

/-- The locals and the row arrays of the renumbering loop of `packRows`. -/
structure PackRowsState where
  n : Int
  newRow : Int → Int
  rowLower : Option (Int → Value)
  rowUpper : Option (Int → Value)
  rowType : Option (Int → Nat)
  rowName : CoinModelHash

/-- One step of the renumbering loop of `packRows`: a row that counts is moved down to
index `n`, any other row gets the new index `-1`. -/
def packRowsKeep (doRowNames : Bool) (s : PackRowsState) (iRow : Int) : PackRowsState :=
  if s.newRow iRow ≠ 0 then
    { n := s.n + 1,
      newRow := Function.update s.newRow iRow s.n,
      rowLower := store s.rowLower s.n (load s.rowLower 0 iRow),
      rowUpper := store s.rowUpper s.n (load s.rowUpper 0 iRow),
      rowType := store s.rowType s.n (load s.rowType 0 iRow),
      rowName := if doRowNames then s.rowName.setName s.n (s.rowName.getName iRow)
        else s.rowName }
  else { s with newRow := Function.update s.newRow iRow (-1) }

/-- The rows of `packRows` after its counting and renumbering loops. -/
def packRowsScan (m : CoinModel) : PackRowsState :=
  let newRow := (positionsBelow m.numberRows_).foldl (packRowsMark m) (fun _ => 0)
  let newRow := (positionsBelow m.numberElements_).foldl
    (packCount rowInTriple m.elements_) newRow
  let doRowNames := decide (m.rowName_.numberItems ≠ 0)
  (positionsBelow m.numberRows_).foldl (packRowsKeep doRowNames)
    ⟨0, newRow, m.rowLower_, m.rowUpper_, m.rowType_, m.rowName_⟩

namespace CoinModel

open Outcome

/-- The member `packRows()`: rows without an element, a bound or a name are removed;
the number of rows removed is returned with the model. -/
def packRows (m : CoinModel) : Outcome (CoinModel × Int) :=
  (if m.type_ = 3 then badType m else returned m).bind fun m =>
  let s := packRowsScan m
  let doRowNames := decide (m.rowName_.numberItems ≠ 0)
  let m := { m with rowLower_ := s.rowLower, rowUpper_ := s.rowUpper, rowType_ := s.rowType,
                    rowName_ := s.rowName }
  let numberDeleted := m.numberRows_ - s.n
  if numberDeleted ≠ 0 then
    let m := { m with numberRows_ := s.n }
    let e := (positionsBelow m.numberElements_).foldl
      (packMove rowInTriple setRowInTriple s.newRow) (0, m.elements_)
    let m := { m with elements_ := e.2, numberElements_ := e.1 }
    -- now redo
    let m :=
      if doRowNames then
        { m with rowName_ :=
            ((m.rowName_.setNumberItems m.numberRows_).rebuild m.rowName_.maximumItems) }
      else m
    returned (packRedo m, numberDeleted)
  else returned (m, numberDeleted)

end CoinModel

/-- The first loop of `packColumns`: a column counts once for each of a lower bound, an
upper bound, an objective coefficient and a name that it has. -/
def packColumnsMark (m : CoinModel) (newColumn : Int → Int) (iColumn : Int) : Int → Int :=
  let newColumn :=
    if load m.columnLower_ 0 iColumn ≠ 0 then
      Function.update newColumn iColumn (newColumn iColumn + 1)
    else newColumn
  let newColumn :=
    if load m.columnUpper_ 0 iColumn ≠ COIN_DBL_MAX then
      Function.update newColumn iColumn (newColumn iColumn + 1)
    else newColumn
  let newColumn :=
    if load m.objective_ 0 iColumn ≠ 0 then
      Function.update newColumn iColumn (newColumn iColumn + 1)
    else newColumn
  if m.noNames_ = false ∧ (m.columnName_.name iColumn).isSome then
    Function.update newColumn iColumn (newColumn iColumn + 1)
  else newColumn

/-- The locals and the column arrays of the renumbering loop of `packColumns`. -/
structure PackColumnsState where
  n : Int
  newColumn : Int → Int
  columnLower : Option (Int → Value)
  columnUpper : Option (Int → Value)
  objective : Option (Int → Value)
  integerType : Option (Int → Int)
  columnType : Option (Int → Nat)
  columnName : CoinModelHash

/-- One step of the renumbering loop of `packColumns`: a column that counts is moved
down to index `n`, any other column gets the new index `-1`. -/
def packColumnsKeep (doColumnNames : Bool) (s : PackColumnsState) (iColumn : Int) :
    PackColumnsState :=
  if s.newColumn iColumn ≠ 0 then
    { n := s.n + 1,
      newColumn := Function.update s.newColumn iColumn s.n,
      columnLower := store s.columnLower s.n (load s.columnLower 0 iColumn),
      columnUpper := store s.columnUpper s.n (load s.columnUpper 0 iColumn),
      objective := store s.objective s.n (load s.objective 0 iColumn),
      integerType := store s.integerType s.n (load s.integerType 0 iColumn),
      columnType := store s.columnType s.n (load s.columnType 0 iColumn),
      columnName :=
        if doColumnNames then s.columnName.setName s.n (s.columnName.getName iColumn)
        else s.columnName }
  else { s with newColumn := Function.update s.newColumn iColumn (-1) }

/-- The columns of `packColumns` after its counting and renumbering loops. -/
def packColumnsScan (m : CoinModel) : PackColumnsState :=
  let newColumn := (positionsBelow m.numberColumns_).foldl (packColumnsMark m) (fun _ => 0)
  let newColumn := (positionsBelow m.numberElements_).foldl
    (packCount (fun t => t.column) m.elements_) newColumn
  let doColumnNames := decide (m.columnName_.numberItems ≠ 0)
  (positionsBelow m.numberColumns_).foldl (packColumnsKeep doColumnNames)
    ⟨0, newColumn, m.columnLower_, m.columnUpper_, m.objective_, m.integerType_,
      m.columnType_, m.columnName_⟩

namespace CoinModel

open Outcome

/-- The member `packColumns()`: columns without an element, a bound, an objective
coefficient or a name are removed; the number of columns removed is returned with the
model. -/
def packColumns (m : CoinModel) : Outcome (CoinModel × Int) :=
  (if m.type_ = 3 then badType m else returned m).bind fun m =>
  let s := packColumnsScan m
  let doColumnNames := decide (m.columnName_.numberItems ≠ 0)
  let m := { m with columnLower_ := s.columnLower, columnUpper_ := s.columnUpper,
                    objective_ := s.objective, integerType_ := s.integerType,
                    columnType_ := s.columnType, columnName_ := s.columnName }
  let numberDeleted := m.numberColumns_ - s.n
  if numberDeleted ≠ 0 then
    let m := { m with numberColumns_ := s.n }
    let e := (positionsBelow m.numberElements_).foldl
      (packMove (fun t => t.column) (fun t k => { t with column := k }) s.newColumn)
      (0, m.elements_)
    let m := { m with elements_ := e.2, numberElements_ := e.1 }
    -- now redo
    let m :=
      if doColumnNames then
        { m with columnName_ :=
            ((m.columnName_.setNumberItems m.numberColumns_).rebuild
              m.columnName_.maximumItems) }
      else m
    returned (packRedo m, numberDeleted)
  else returned (m, numberDeleted)

/-- The member `pack()`, `return packRows() + packColumns()`, with the rows packed
first. -/
def pack (m : CoinModel) : Outcome (CoinModel × Int) :=
  (packRows m).bind fun (m, rows) =>
  (packColumns m).bind fun (m, columns) =>
  returned (m, rows + columns)

end CoinModel

/-- The scenario of the specification: on a default model, `addRow` with
`{0: 1.0, 2: 3.0}` and bounds `[2, 5]`, `addRow` with `{1: -1.0}` and bounds
`[0, +inf]`, then `setElement(0, 1, 7.0)`. -/
def scenario : Outcome CoinModel :=
  (CoinModel.addRow CoinModel.default 2 [0, 2] [1, 3] 2 5 none).bind fun m1 =>
  (CoinModel.addRow m1 1 [1] [-1] 0 COIN_DBL_MAX none).bind fun m2 =>
  CoinModel.setElement m2 0 1 7

/-- The triple counts as an error of the export: it is not deleted, its value is a string
id, and the associated value of that id is unset. -/
def isUnresolved (associated : Int → Value) (t : CoinModelTriple) : Bool :=
  decide (0 ≤ t.column) && stringInTriple t &&
    decide (associated (toInt t.value) = unsetValue)

/-- The positions among `l` whose triple counts as an error of the export. -/
def unresolved (elements : Int → CoinModelTriple) (associated : Int → Value)
    (l : List Int) : List Int :=
  l.filter (fun p => isUnresolved associated (elements p))

/-- The string id `i` counts as an error of `computeAssociated`: the string exists, its
associated value is unset and the evaluator leaves it unset. -/
def isUnevaluated (m : CoinModel) (getDoubleFromString : String → Value)
    (associated : Int → Value) (i : Int) : Bool :=
  match m.string_.name i with
  | some n => decide (associated i = unsetValue) &&
      decide (getDoubleFromString n = unsetValue)
  | none => false

/-- The ids among `l` that count as an error of `computeAssociated`. -/
def unevaluated (m : CoinModel) (getDoubleFromString : String → Value)
    (associated : Int → Value) (l : List Int) : List Int :=
  l.filter (isUnevaluated m getDoubleFromString associated)

/-- The model built by `setElement(0, 0, "x")` and `setElement(1, 1, "x")` on a default
model: two coefficients that use the one string `x`. -/
def twoUsesOfOneString : CoinModel :=
  ((CoinModel.setElementString CoinModel.default 0 0 "x").bind
    fun m1 => CoinModel.setElementString m1 1 1 "x").resultOr CoinModel.default

/-! ### Vocabulary of the statements about packing -/

/-- The number of indices below `i` that `count` keeps (those with a count other than
zero): the new index of a kept row or column `i`. -/
def packRank (count : Int → Int) (i : Int) : Int :=
  (((positionsBelow i).filter (fun j => decide (count j ≠ 0))).length : Int)

/-- The array `newRow` of `packRows` after its two counting loops. -/
def rowCounts (m : CoinModel) : Int → Int :=
  (positionsBelow m.numberElements_).foldl (packCount rowInTriple m.elements_)
    ((positionsBelow m.numberRows_).foldl (packRowsMark m) (fun _ => 0))

/-- The array `newColumn` of `packColumns` after its two counting loops. -/
def columnCounts (m : CoinModel) : Int → Int :=
  (positionsBelow m.numberElements_).foldl (packCount (fun t => t.column) m.elements_)
    ((positionsBelow m.numberColumns_).foldl (packColumnsMark m) (fun _ => 0))

/-- Row `i` has nothing that `packRows` looks at: no lower bound, no upper bound, no name
and no non-deleted element. -/
def RowIsBare (m : CoinModel) (i : Int) : Prop :=
  load m.rowLower_ 0 i = -COIN_DBL_MAX ∧ load m.rowUpper_ 0 i = COIN_DBL_MAX ∧
  ¬ (m.noNames_ = false ∧ (m.rowName_.name i).isSome = true) ∧
  ∀ p ∈ storedPositions m, rowInTriple (m.elements_ p) ≠ i

/-- Column `i` has nothing that `packColumns` looks at: lower bound 0, no upper bound,
objective coefficient 0, no name and no non-deleted element.  Whether the column is
integer is not looked at. -/
def ColumnIsBare (m : CoinModel) (i : Int) : Prop :=
  load m.columnLower_ 0 i = 0 ∧ load m.columnUpper_ 0 i = COIN_DBL_MAX ∧
  load m.objective_ 0 i = 0 ∧
  ¬ (m.noNames_ = false ∧ (m.columnName_.name i).isSome = true) ∧
  ∀ p ∈ storedPositions m, (m.elements_ p).column ≠ i

instance decidableRowIsBare (m : CoinModel) (i : Int) : Decidable (RowIsBare m i) := by
  unfold RowIsBare
  infer_instance

instance decidableColumnIsBare (m : CoinModel) (i : Int) : Decidable (ColumnIsBare m i) := by
  unfold ColumnIsBare
  infer_instance

/-- What the end of `packRows`/`packColumns` (the rebuilding of the hash index, of
`start_` and of the lists) keeps of a model: the counts, the element block, the row and
column arrays and the name and string tables. -/
def SameData (m m' : CoinModel) : Prop :=
  m'.numberRows_ = m.numberRows_ ∧ m'.numberColumns_ = m.numberColumns_ ∧
  m'.numberElements_ = m.numberElements_ ∧ m'.elements_ = m.elements_ ∧
  m'.rowLower_ = m.rowLower_ ∧ m'.rowUpper_ = m.rowUpper_ ∧ m'.rowType_ = m.rowType_ ∧
  m'.columnLower_ = m.columnLower_ ∧ m'.columnUpper_ = m.columnUpper_ ∧
  m'.objective_ = m.objective_ ∧ m'.integerType_ = m.integerType_ ∧
  m'.columnType_ = m.columnType_ ∧ m'.rowName_ = m.rowName_ ∧
  m'.columnName_ = m.columnName_ ∧ m'.string_ = m.string_ ∧ m'.noNames_ = m.noNames_ ∧
  (m.type_ ≠ 3 → m'.type_ ≠ 3)

/-- The row arrays of the model exist and the row count is not negative. -/
def RowArrays (m : CoinModel) : Prop :=
  0 ≤ m.numberRows_ ∧ m.rowLower_.isSome = true ∧ m.rowUpper_.isSome = true ∧
  m.rowType_.isSome = true

/-- The column arrays of the model exist and the column count is not negative. -/
def ColumnArrays (m : CoinModel) : Prop :=
  0 ≤ m.numberColumns_ ∧ m.columnLower_.isSome = true ∧ m.columnUpper_.isSome = true ∧
  m.objective_.isSome = true ∧ m.integerType_.isSome = true ∧ m.columnType_.isSome = true

instance decidableRowArrays (m : CoinModel) : Decidable (RowArrays m) := by
  unfold RowArrays
  infer_instance

instance decidableColumnArrays (m : CoinModel) : Decidable (ColumnArrays m) := by
  unfold ColumnArrays
  infer_instance

/-- No deleted slot remains among the first `numberElements_` slots. -/
def Compact (m : CoinModel) : Prop :=
  ∀ p ∈ positionsBelow m.numberElements_, 0 ≤ (m.elements_ p).column

instance decidableCompact (m : CoinModel) : Decidable (Compact m) := by
  unfold Compact
  infer_instance

/-- The non-deleted triples among the first `numberElements_` slots, with their four
fields, in storage order. -/
def storedRecords (m : CoinModel) : List CoinModelTriple :=
  (storedPositions m).map m.elements_

/-- The row index of every stored triple is a row of the model. -/
def RowsInRange (m : CoinModel) : Prop :=
  0 ≤ m.numberElements_ ∧
  ∀ p ∈ storedPositions m,
    0 ≤ rowInTriple (m.elements_ p) ∧ rowInTriple (m.elements_ p) < m.numberRows_

/-- The column index of every stored triple is a column of the model. -/
def ColumnsInRange (m : CoinModel) : Prop :=
  0 ≤ m.numberElements_ ∧
  ∀ p ∈ storedPositions m, (m.elements_ p).column < m.numberColumns_

instance decidableRowsInRange (m : CoinModel) : Decidable (RowsInRange m) := by
  unfold RowsInRange
  infer_instance

instance decidableColumnsInRange (m : CoinModel) : Decidable (ColumnsInRange m) := by
  unfold ColumnsInRange
  infer_instance

/-- The model built by `setElement(0, 0, 1.0)` and `setElement(2, 0, 1.0)` on a default
model: three rows, of which row 1 has no coefficient, no bound and no name. -/
def modelWithBareRow : CoinModel :=
  ((CoinModel.setElement CoinModel.default 0 0 1).bind
    fun m1 => CoinModel.setElement m1 2 0 1).resultOr CoinModel.default

/-- The new index that `packColumns` gives to a column `c` that it keeps: the number of
columns below `c` that are not bare. -/
def newColumnIndex (m : CoinModel) (c : Int) : Int :=
  (((positionsBelow c).filter (fun j => decide (¬ ColumnIsBare m j))).length : Int)

/-- The new index that `packRows` gives to a row `i` that it keeps: the number of rows
below `i` that are not bare. -/
def newRowIndex (m : CoinModel) (i : Int) : Int :=
  (((positionsBelow i).filter (fun j => decide (¬ RowIsBare m j))).length : Int)

/-- The model built by `setElement(0, 0, 1.0)` and `setColumnIsInteger(1, true)` on a
default model: column 1 has no coefficient, default bounds and objective and no name,
and is integer. -/
def modelWithIntegerColumn : CoinModel :=
  ((CoinModel.setElement CoinModel.default 0 0 1).bind
    fun m1 => CoinModel.setColumnIsInteger m1 1 true).resultOr CoinModel.default

/-! ### Vocabulary of the statements about deletion -/

/-- What `deleteRow(r)` relies on in the linked lists that exist: `links_` is one of
0, ..., 3; if the row list exists, the chain of row `r` holds exactly the positions of
the non-deleted triples of row `r` and every slot of its free list is a deleted one; if
the column list exists, every slot of its free list is a deleted one. -/
def RowChainOK (m : CoinModel) (r : Int) : Prop :=
  m.links_ ≤ 3 ∧
  (m.links_ &&& 1 ≠ 0 →
    (∀ p ∈ m.rowList_.chain r, p ∈ storedPositions m ∧ rowInTriple (m.elements_ p) = r) ∧
    (∀ p ∈ storedPositions m, rowInTriple (m.elements_ p) = r → p ∈ m.rowList_.chain r) ∧
    (∀ p ∈ m.rowList_.free, (m.elements_ p).column < 0)) ∧
  (m.links_ &&& 2 ≠ 0 → ∀ p ∈ m.columnList_.free, (m.elements_ p).column < 0)

instance decidableRowChainOK (m : CoinModel) (r : Int) : Decidable (RowChainOK m r) := by
  unfold RowChainOK
  infer_instance

/-- The first block of `deleteRow`: the bounds and flags of the row are reset and its
name is removed. -/
def deleteRowReset (m : CoinModel) (whichRow : Int) : CoinModel :=
  if m.rowLower_.isSome then
    let m := { m with rowLower_ := store m.rowLower_ whichRow (-COIN_DBL_MAX),
                      rowUpper_ := store m.rowUpper_ whichRow COIN_DBL_MAX,
                      rowType_ := store m.rowType_ whichRow 0 }
    if m.noNames_ = false then { m with rowName_ := m.rowName_.deleteHash whichRow }
    else m
  else m

/-- The block `need lists` of `deleteRow`: `start_` is dropped and the row list is
created if it does not exist. -/
def deleteRowLists (m : CoinModel) : CoinModel :=
  let m := if m.type_ = 0 then { m with start_ := none } else m
  if m.links_ &&& 1 = 0 then CoinModel.createList m 1 else m

/-- The end of `deleteRow`: the chain of the row is deleted from the row list and the
column list follows. -/
def deleteRowUnlink (m : CoinModel) (whichRow : Int) : CoinModel :=
  let (l, triples, hash) :=
    m.rowList_.deleteSame whichRow m.elements_ m.hashElements_ (decide (m.links_ ≠ 3))
  let m := { m with rowList_ := l, elements_ := triples, hashElements_ := hash }
  if m.links_ = 3 then
    let (l, triples) := m.columnList_.updateDeleted whichRow m.elements_ m.rowList_
    { m with columnList_ := l, elements_ := triples }
  else m

/-- The new index that `packRows` gives, after `deleteRow(r)`, to a row `i` that it
keeps: the number of rows below `i` other than `r` that are not bare. -/
def newRowIndexAfterDelete (m : CoinModel) (r i : Int) : Int :=
  (((positionsBelow i).filter (fun j => decide (j ≠ r ∧ ¬ RowIsBare m j))).length : Int)

/-- The model built by `addRow(2, {0, 2}, {1, 3}, 2, 5)`, `addRow(1, {1}, {-1}, 0)` and
`setElement(0, 1, 7.0)` on a default model. -/
def scenarioModel : CoinModel := scenario.resultOr CoinModel.default

/-- The linked list `l'` is the list `l` up to its capacities. -/
def SameList (l l' : CoinModelLinkedList) : Prop :=
  l'.type_ = l.type_ ∧ l'.numberElements_ = l.numberElements_ ∧
  l'.numberMajor_ = l.numberMajor_ ∧ l'.free = l.free ∧ l'.chain = l.chain

/-- The bound arrays that exist in `m` exist in `m'`. -/
def ArraysStay (m m' : CoinModel) : Prop :=
  (m.rowLower_.isSome = true → m'.rowLower_.isSome = true) ∧
  (m.rowUpper_.isSome = true → m'.rowUpper_.isSome = true) ∧
  (m.rowType_.isSome = true → m'.rowType_.isSome = true) ∧
  (m.columnLower_.isSome = true → m'.columnLower_.isSome = true) ∧
  (m.columnUpper_.isSome = true → m'.columnUpper_.isSome = true) ∧
  (m.objective_.isSome = true → m'.objective_.isSome = true) ∧
  (m.integerType_.isSome = true → m'.integerType_.isSome = true) ∧
  (m.columnType_.isSome = true → m'.columnType_.isSome = true)

/-- What `resize`, `fillRows` and `fillColumns` keep of a model in the mixed mode that
has no `start_` array, besides what `Keeps` says: the mode, the lists that exist, the
counts, the linked lists up to their capacities, and the existence of the bound
arrays. -/
def Steady (m m' : CoinModel) : Prop :=
  m'.type_ = m.type_ ∧ m'.links_ = m.links_ ∧ m'.start_ = m.start_ ∧
  m'.numberRows_ = m.numberRows_ ∧ m'.numberColumns_ = m.numberColumns_ ∧
  m'.numberElements_ = m.numberElements_ ∧
  SameList m.rowList_ m'.rowList_ ∧ SameList m.columnList_ m'.columnList_ ∧
  ArraysStay m m'

/-- A linked list index of the given type that is in step with an element store of `n`
slots none of which has been deleted: it covers the `n` slots, its free list is empty and
its chains hold positions below `n`. -/
def ListExact (t : Int) (l : CoinModelLinkedList) (n : Int) : Prop :=
  l.type_ = t ∧ l.numberElements_ = n ∧ l.free = [] ∧ ∀ k, ∀ p ∈ l.chain k, p < n

/-- The hash index covers at most `n` slots and its entries are slots that it covers. -/
def HashBelow (H : CoinModelHash2) (n : Int) : Prop :=
  H.numberItems_ ≤ n ∧ ∀ q ∈ H.index, 0 ≤ q ∧ q < H.numberItems_

/-- The triples in the first `numberElements_` slots of the element store, in storage
order. -/
def records (m : CoinModel) : List CoinModelTriple :=
  (positionsBelow m.numberElements_).map m.elements_

/-- The triple that an insertion through a list stores for the entry `e` of the major
index `major`: `(major, e.1, e.2)` through the row list, `(e.1, major, e.2)` through the
column list. -/
def tripleOf (byRow : Bool) (major : Int) (e : Int × Value) : CoinModelTriple :=
  if byRow then ⟨major, false, e.1, e.2⟩ else ⟨e.1, false, major, e.2⟩

/-- A model in the mixed mode in which nothing has been deleted: it has no `start_`
array, its counts are not negative, at least one linked list exists and the lists that
exist are in step with the element store, as is the hash index. -/
def Plain (m : CoinModel) : Prop :=
  m.type_ = 2 ∧ m.start_ = none ∧ 0 ≤ m.numberRows_ ∧ 0 ≤ m.numberColumns_ ∧
  0 ≤ m.numberElements_ ∧ (m.links_ = 1 ∨ m.links_ = 2 ∨ m.links_ = 3) ∧
  (m.links_ ≠ 2 → ListExact 0 m.rowList_ m.numberElements_) ∧
  (m.links_ ≠ 1 → ListExact 1 m.columnList_ m.numberElements_) ∧
  HashBelow m.hashElements_ m.numberElements_

/-- The block `Do name` of `addRow` and the stores of the bounds that follow it. -/
def addRowNamed (m : CoinModel) (rowLower rowUpper : Value) (name : Option String) :
    CoinModel :=
  let m :=
    match name with
    | some n => { m with rowName_ := m.rowName_.addHash m.numberRows_ n }
    | none =>
      if m.noNames_ = false then
        { m with rowName_ := (m.rowName_.addHash m.numberRows_
            (Coin8CharacterName (Char.ofNat 114) m.numberRows_)) }
      else m
  { m with rowLower_ := store m.rowLower_ m.numberRows_ rowLower,
           rowUpper_ := store m.rowUpper_ m.numberRows_ rowUpper }

/-- The last block of `addRow`: the sorted entries are stored and the row count is
raised. -/
def addRowLinks (m : CoinModel) (numberInRow : Int) (sortEntries : List (Int × Value)) :
    CoinModel :=
  let m :=
    if m.type_ = 0 then
      -- can do simply
      let put := load m.start_ 0 m.numberRows_
      let doHash := decide (m.hashElements_.numberItems ≠ 0)
      let (put, triples, hash) :=
        CoinModel.storeCompact true m.numberRows_ doHash sortEntries put m.elements_
          m.hashElements_
      { m with elements_ := triples, hashElements_ := hash,
               start_ := store m.start_ (m.numberRows_ + 1) put,
               numberElements_ := m.numberElements_ + numberInRow }
    else
      let m :=
        if numberInRow ≠ 0 then
          -- must update at least one link
          if m.links_ = 1 ∨ m.links_ = 3 then
            let (first, l, triples, hash) :=
              m.rowList_.addEasy m.numberRows_ numberInRow sortEntries m.elements_ m.hashElements_
            let m := { m with rowList_ := l, elements_ := triples, hashElements_ := hash }
            let m :=
              if m.links_ = 3 then
                { m with columnList_ := (m.columnList_.addHardLinks first m.elements_
                    m.rowList_.firstFree m.rowList_.lastFree m.rowList_.next) }
              else m
            { m with numberElements_ := max m.numberElements_ m.rowList_.numberElements }
          else if m.links_ = 2 then
            let (_, l, triples, hash) :=
              m.columnList_.addHard m.numberRows_ numberInRow sortEntries m.elements_
                m.hashElements_
            let m := { m with columnList_ := l, elements_ := triples, hashElements_ := hash }
            { m with numberElements_ := max m.numberElements_ m.columnList_.numberElements }
          else m
        else m
      { m with numberElements_ := max m.numberElements_ m.hashElements_.numberItems }
  { m with numberRows_ := m.numberRows_ + 1 }

/-- The block `Do name` of `addColumn` and the stores of the bounds, the objective and
the integrality that follow it. -/
def addColumnNamed (m : CoinModel) (columnLower columnUpper objectiveValue : Value)
    (name : Option String) (isInteger : Bool) : CoinModel :=
  let m :=
    match name with
    | some n => { m with columnName_ := m.columnName_.addHash m.numberColumns_ n }
    | none =>
      if m.noNames_ = false then
        { m with columnName_ := (m.columnName_.addHash m.numberColumns_
            (Coin8CharacterName (Char.ofNat 99) m.numberColumns_)) }
      else m
  { m with columnLower_ := store m.columnLower_ m.numberColumns_ columnLower,
           columnUpper_ := store m.columnUpper_ m.numberColumns_ columnUpper,
           objective_ := store m.objective_ m.numberColumns_ objectiveValue,
           integerType_ := store m.integerType_ m.numberColumns_
             (if isInteger then 1 else 0) }

/-- The last block of `addColumn`: the sorted entries are stored and the column count is
raised. -/
def addColumnLinks (m : CoinModel) (numberInColumn : Int)
    (sortEntries : List (Int × Value)) : CoinModel :=
  let m :=
    if m.type_ = 1 then
      -- can do simply
      let put := load m.start_ 0 m.numberColumns_
      let doHash := decide (m.hashElements_.numberItems ≠ 0)
      let (put, triples, hash) :=
        CoinModel.storeCompact false m.numberColumns_ doHash sortEntries put m.elements_
          m.hashElements_
      { m with elements_ := triples, hashElements_ := hash,
               start_ := store m.start_ (m.numberColumns_ + 1) put,
               numberElements_ := m.numberElements_ + numberInColumn }
    else
      if numberInColumn ≠ 0 then
        -- must update at least one link
        if m.links_ = 2 ∨ m.links_ = 3 then
          let (first, l, triples, hash) :=
            m.columnList_.addEasy m.numberColumns_ numberInColumn sortEntries m.elements_
              m.hashElements_
          let m := { m with columnList_ := l, elements_ := triples, hashElements_ := hash }
          let m :=
            if m.links_ = 3 then
              { m with rowList_ := (m.rowList_.addHardLinks first m.elements_
                  m.columnList_.firstFree m.columnList_.lastFree m.columnList_.next) }
            else m
          { m with numberElements_ := max m.numberElements_ m.columnList_.numberElements }
        else if m.links_ = 1 then
          let (_, l, triples, hash) :=
            m.rowList_.addHard m.numberColumns_ numberInColumn sortEntries m.elements_
              m.hashElements_
          let m := { m with rowList_ := l, elements_ := triples, hashElements_ := hash }
          { m with numberElements_ := max m.numberElements_ m.rowList_.numberElements }
        else m
      else m
  { m with numberColumns_ := m.numberColumns_ + 1 }

/-! ### Vocabulary of the statements about the three ways of building a model -/

/-- The entries `(column, value)` of row `i` in a list of coefficients
`(row, column, value)`. -/
def rowEntries (es : List (Int × Int × Value)) (i : Int) : List (Int × Value) :=
  (es.filter (fun e => decide (e.1 = i))).map (fun e => (e.2.1, e.2.2))

/-- The entries `(row, value)` of column `j` in a list of coefficients. -/
def columnEntries (es : List (Int × Int × Value)) (j : Int) : List (Int × Value) :=
  (es.filter (fun e => decide (e.2.1 = j))).map (fun e => (e.1, e.2.2))

/-- One more than the largest row index of a list of coefficients (0 for no coefficient). -/
def rowsOf (es : List (Int × Int × Value)) : Int :=
  es.foldl (fun n e => max n (e.1 + 1)) 0

/-- One more than the largest column index of a list of coefficients. -/
def columnsOf (es : List (Int × Int × Value)) : Int :=
  es.foldl (fun n e => max n (e.2.1 + 1)) 0

/-- The model built purely by `addRow` calls, one for each row index up to the largest,
with the default bounds and no explicit name. -/
def buildByRows (es : List (Int × Int × Value)) : Outcome CoinModel :=
  (positionsBelow (rowsOf es)).foldl
    (fun o i => o.bind fun m =>
      CoinModel.addRow m ((rowEntries es i).length : Int) ((rowEntries es i).map Prod.fst)
        ((rowEntries es i).map Prod.snd) (-COIN_DBL_MAX) COIN_DBL_MAX none)
    (Outcome.returned CoinModel.default)

/-- The model built purely by `addColumn` calls, one for each column index up to the
largest, with the default bounds and objective and no explicit name. -/
def buildByColumns (es : List (Int × Int × Value)) : Outcome CoinModel :=
  (positionsBelow (columnsOf es)).foldl
    (fun o j => o.bind fun m =>
      CoinModel.addColumn m ((columnEntries es j).length : Int)
        ((columnEntries es j).map Prod.fst) ((columnEntries es j).map Prod.snd)
        0 COIN_DBL_MAX 0 none false)
    (Outcome.returned CoinModel.default)

/-- The model built purely by `setElement` calls, one for each coefficient. -/
def buildByElements (es : List (Int × Int × Value)) : Outcome CoinModel :=
  es.foldl (fun o e => o.bind fun m => CoinModel.setElement m e.1 e.2.1 e.2.2)
    (Outcome.returned CoinModel.default)

/-- The triple that stores the coefficient `(row, column, value)`. -/
def toRecord (e : Int × Int × Value) : CoinModelTriple := ⟨e.1, false, e.2.1, e.2.2⟩

/-- The model on which the first `addRow` of a build works: the default model after the
change of mode that `addRow` starts with. -/
def rowBuildStart : CoinModel :=
  (CoinModel.addRowMode CoinModel.default).resultOr CoinModel.default

/-- The model on which the first `addColumn` of a build works. -/
def columnBuildStart : CoinModel :=
  (CoinModel.addColumnMode CoinModel.default).resultOr CoinModel.default

/-- The model on which the first `setElement` of a build works. -/
def elementBuildStart : CoinModel :=
  (CoinModel.setElementMode CoinModel.default).resultOr CoinModel.default

/-- The model `m` holds exactly the coefficients `es`: nothing has been deleted, the row
and column arrays exist, the counts are one more than the largest indices, and the
element store holds the coefficients of `es`, in some order. -/
def Built (es : List (Int × Int × Value)) (m : CoinModel) : Prop :=
  Plain m ∧ RowArrays m ∧ ColumnArrays m ∧ m.numberRows_ = rowsOf es ∧
  m.numberColumns_ = columnsOf es ∧ (records m).Perm (es.map toRecord)

/-- The call of `pack()` on the result of a build, followed by the export
`createPackedMatrix` into an empty matrix: the packed model, the matrix and the number
of errors. -/
def packedExport (o : Outcome CoinModel) (associated : Int → Value) :
    Outcome (CoinModel × CoinPackedMatrix × Int) :=
  o.bind fun m => (CoinModel.pack m).bind fun r =>
    (CoinModel.createPackedMatrix r.1 CoinPackedMatrix.empty associated).bind fun x =>
      Outcome.returned (r.1, x.2.1, x.2.2)

/-- The matrices `M` and `M'` have the same content: the ordering, the dimensions, the
number of elements, the start of every column and the length and the entries, in
storage order, of every column. -/
def SameMatrix (M M' : CoinPackedMatrix) : Prop :=
  M'.colOrdered = M.colOrdered ∧ M'.minorDim = M.minorDim ∧ M'.majorDim = M.majorDim ∧
  M'.numberElements = M.numberElements ∧
  (∀ c, 0 ≤ c → c ≤ M.majorDim → M'.start c = M.start c) ∧
  ∀ c, 0 ≤ c → c < M.majorDim → M'.length c = M.length c ∧ M'.column c = M.column c

/-- The entries `(row, value)` that the export holds for column `c` of the triples `ts`:
those of the triples of column `c` whose resolved value is not zero. -/
def exportEntries (associated : Int → Value) (ts : List CoinModelTriple) (c : Int) :
    List (Int × Value) :=
  (ts.filter (fun t => decide (t.column = c) &&
      decide (resolvedValue associated t ≠ 0))).map
    (fun t => (rowInTriple t, resolvedValue associated t))

/-- The pair `x` of a matrix and an error count is an export of the triples `ts` to a
matrix with `nr` rows and `nc` columns. -/
def ExportOf (associated : Int → Value) (ts : List CoinModelTriple) (nr nc : Int)
    (x : CoinPackedMatrix × Int) : Prop :=
  x.1.colOrdered = true ∧ x.1.minorDim = nr ∧ x.1.majorDim = nc ∧
  x.1.numberElements = (((ts.filter (fun t => decide (0 ≤ t.column) &&
    decide (resolvedValue associated t ≠ 0))).length : Nat) : Int) ∧
  x.2 = (((ts.filter (isUnresolved associated)).length : Nat) : Int) ∧
  x.1.start = buildStarts nc (fun c => ((ts.countP
    (fun t => decide (0 ≤ t.column) && decide (t.column = c)) : Nat) : Int)) ∧
  ∀ c, 0 ≤ c → c < nc →
    x.1.length c = (((exportEntries associated ts c).length : Nat) : Int) ∧
    (x.1.column c).Perm (exportEntries associated ts c) ∧
    ((x.1.column c).map Prod.fst).Sorted (fun a b => a ≤ b)

/-- The invariant of the build by rows after the rows `0, ..., k - 1`: the model holds
exactly the coefficients of these rows. -/
def RowsBuilt (es : List (Int × Int × Value)) (k : Nat) (m : CoinModel) : Prop :=
  Plain m ∧ m.links_ = 1 ∧ RowArrays m ∧ m.numberRows_ = (k : Int) ∧
  (0 < k → ColumnArrays m) ∧ (k = 0 → m.maximumColumns_ ≤ 0 ∧ m.numberColumns_ = 0) ∧
  (∀ e ∈ es, e.1 < (k : Int) → e.2.1 < m.numberColumns_) ∧
  (0 < k → ∃ e ∈ es, m.numberColumns_ = e.2.1 + 1) ∧
  (records m).Perm ((es.filter (fun e => decide (e.1 < (k : Int)))).map toRecord)

/-- The invariant of the build by columns after the columns `0, ..., k - 1`. -/
def ColumnsBuilt (es : List (Int × Int × Value)) (k : Nat) (m : CoinModel) : Prop :=
  Plain m ∧ m.links_ = 2 ∧ ColumnArrays m ∧ m.numberColumns_ = (k : Int) ∧
  (0 < k → RowArrays m) ∧ (k = 0 → m.maximumRows_ ≤ 0 ∧ m.numberRows_ = 0) ∧
  (∀ e ∈ es, e.2.1 < (k : Int) → e.1 < m.numberRows_) ∧
  (0 < k → ∃ e ∈ es, m.numberRows_ = e.1 + 1) ∧
  (records m).Perm ((es.filter (fun e => decide (e.2.1 < (k : Int)))).map toRecord)

/-! ## Symbolic bounds and their readers -/

/-- The text `"Numeric"` that the `...AsString` readers return for a field that holds a
number. -/
def numeric : String := "Numeric"

namespace CoinModel

open Outcome

/-- The member `setRowLower(whichRow, rowLower)` for a string (`none` is the C++
`NULL`). -/
def setRowLowerString (m : CoinModel) (whichRow : Int) (rowLower : Option String) :
    Outcome CoinModel :=
  -- make sure enough room and fill
  (fillRows m whichRow true false).bind fun m =>
  match rowLower with
  | some s =>
    let (value, m) := addString m s
    returned { m with rowLower_ := store m.rowLower_ whichRow (value : Value),
                      rowType_ := store m.rowType_ whichRow
                        (load m.rowType_ 0 whichRow ||| 1) }
  | none => returned { m with rowLower_ := store m.rowLower_ whichRow (-COIN_DBL_MAX) }

/-- The member `setRowUpper(whichRow, rowUpper)` for a string. -/
def setRowUpperString (m : CoinModel) (whichRow : Int) (rowUpper : Option String) :
    Outcome CoinModel :=
  (fillRows m whichRow true false).bind fun m =>
  match rowUpper with
  | some s =>
    let (value, m) := addString m s
    returned { m with rowUpper_ := store m.rowUpper_ whichRow (value : Value),
                      rowType_ := store m.rowType_ whichRow
                        (load m.rowType_ 0 whichRow ||| 2) }
  | none => returned { m with rowUpper_ := store m.rowUpper_ whichRow COIN_DBL_MAX }

/-- The member `setColumnLower(whichColumn, columnLower)` for a string. -/
def setColumnLowerString (m : CoinModel) (whichColumn : Int) (columnLower : Option String) :
    Outcome CoinModel :=
  (fillColumns m whichColumn true false).bind fun m =>
  match columnLower with
  | some s =>
    let (value, m) := addString m s
    returned { m with columnLower_ := store m.columnLower_ whichColumn (value : Value),
                      columnType_ := store m.columnType_ whichColumn
                        (load m.columnType_ 0 whichColumn ||| 1) }
  | none => returned { m with columnLower_ := store m.columnLower_ whichColumn 0 }

/-- The member `setColumnUpper(whichColumn, columnUpper)` for a string. -/
def setColumnUpperString (m : CoinModel) (whichColumn : Int) (columnUpper : Option String) :
    Outcome CoinModel :=
  (fillColumns m whichColumn true false).bind fun m =>
  match columnUpper with
  | some s =>
    let (value, m) := addString m s
    returned { m with columnUpper_ := store m.columnUpper_ whichColumn (value : Value),
                      columnType_ := store m.columnType_ whichColumn
                        (load m.columnType_ 0 whichColumn ||| 2) }
  | none => returned { m with columnUpper_ := store m.columnUpper_ whichColumn COIN_DBL_MAX }

/-- The member `setColumnObjective(whichColumn, columnObjective)` for a string. -/
def setColumnObjectiveString (m : CoinModel) (whichColumn : Int)
    (columnObjective : Option String) : Outcome CoinModel :=
  (fillColumns m whichColumn true false).bind fun m =>
  match columnObjective with
  | some s =>
    let (value, m) := addString m s
    returned { m with objective_ := store m.objective_ whichColumn (value : Value),
                      columnType_ := store m.columnType_ whichColumn
                        (load m.columnType_ 0 whichColumn ||| 4) }
  | none => returned { m with objective_ := store m.objective_ whichColumn 0 }

/-- The member `setColumnIsInteger(whichColumn, columnIsInteger)` for a string. -/
def setColumnIsIntegerString (m : CoinModel) (whichColumn : Int)
    (columnIsInteger : Option String) : Outcome CoinModel :=
  (fillColumns m whichColumn true false).bind fun m =>
  match columnIsInteger with
  | some s =>
    let (value, m) := addString m s
    returned { m with integerType_ := store m.integerType_ whichColumn value,
                      columnType_ := store m.columnType_ whichColumn
                        (load m.columnType_ 0 whichColumn ||| 8) }
  | none => returned { m with integerType_ := store m.integerType_ whichColumn 0 }

/-- The member `getRowLowerAsString(whichRow)` (`none` is the C++ `NULL`). -/
def getRowLowerAsString (m : CoinModel) (whichRow : Int) : Option String :=
  if whichRow < m.numberRows_ ∧ m.rowLower_.isSome then
    if load m.rowType_ 0 whichRow &&& 1 ≠ 0 then
      let position := toInt (load m.rowLower_ 0 whichRow)
      m.string_.name position
    else some numeric
  else some numeric

/-- The member `getRowUpperAsString(whichRow)`. -/
def getRowUpperAsString (m : CoinModel) (whichRow : Int) : Option String :=
  if whichRow < m.numberRows_ ∧ m.rowUpper_.isSome then
    if load m.rowType_ 0 whichRow &&& 2 ≠ 0 then
      let position := toInt (load m.rowUpper_ 0 whichRow)
      m.string_.name position
    else some numeric
  else some numeric

/-- The member `getColumnLowerAsString(whichColumn)`. -/
def getColumnLowerAsString (m : CoinModel) (whichColumn : Int) : Option String :=
  if whichColumn < m.numberColumns_ ∧ m.columnLower_.isSome then
    if load m.columnType_ 0 whichColumn &&& 1 ≠ 0 then
      let position := toInt (load m.columnLower_ 0 whichColumn)
      m.string_.name position
    else some numeric
  else some numeric

/-- The member `getColumnUpperAsString(whichColumn)`. -/
def getColumnUpperAsString (m : CoinModel) (whichColumn : Int) : Option String :=
  if whichColumn < m.numberColumns_ ∧ m.columnUpper_.isSome then
    if load m.columnType_ 0 whichColumn &&& 2 ≠ 0 then
      let position := toInt (load m.columnUpper_ 0 whichColumn)
      m.string_.name position
    else some numeric
  else some numeric

/-- The member `getColumnObjectiveAsString(whichColumn)`. -/
def getColumnObjectiveAsString (m : CoinModel) (whichColumn : Int) : Option String :=
  if whichColumn < m.numberColumns_ ∧ m.objective_.isSome then
    if load m.columnType_ 0 whichColumn &&& 4 ≠ 0 then
      let position := toInt (load m.objective_ 0 whichColumn)
      m.string_.name position
    else some numeric
  else some numeric

/-- The member `getColumnIsIntegerAsString(whichColumn)`. -/
def getColumnIsIntegerAsString (m : CoinModel) (whichColumn : Int) : Option String :=
  if whichColumn < m.numberColumns_ ∧ m.integerType_.isSome then
    if load m.columnType_ 0 whichColumn &&& 8 ≠ 0 then
      let position := load m.integerType_ 0 whichColumn
      m.string_.name position
    else some numeric
  else some numeric

/-- The member `getElementAsString(i, j)`: the text read (`none` is the C++ `NULL`) and
the model with its hash index built. -/
def getElementAsString (m : CoinModel) (i j : Int) : Option String × CoinModel :=
  let m := buildHash m false
  let position := m.hashElements_.hash i j m.elements_
  if position ≥ 0 then
    if stringInTriple (m.elements_ position) then
      let iString := toInt (m.elements_ position).value
      (m.string_.name iString, m)
    else (some numeric, m)
  else (none, m)

end CoinModel

/-! ## What `resize` keeps of the rows and columns -/

/-- What the model shows of row `i`: its bounds as the readers return them and its flag
word (no flag is set while the array of flag words does not exist). -/
def rowView (m : CoinModel) (i : Int) : Value × Value × Nat :=
  (m.getRowLower i, m.getRowUpper i, load m.rowType_ 0 i)

/-- What the model shows of column `i`: its bounds, objective and integrality as the
readers return them and its flag word. -/
def columnView (m : CoinModel) (i : Int) : Value × Value × Value × Bool × Nat :=
  (m.getColumnLower i, m.getColumnUpper i, m.getColumnObjective i, m.getColumnIsInteger i,
    load m.columnType_ 0 i)

/-- The row fields of `m'` are those of `m`. -/
def RowFields (m m' : CoinModel) : Prop :=
  m'.numberRows_ = m.numberRows_ ∧ m'.maximumRows_ = m.maximumRows_ ∧
  m'.rowLower_ = m.rowLower_ ∧ m'.rowUpper_ = m.rowUpper_ ∧ m'.rowType_ = m.rowType_

/-- The column fields of `m'` are those of `m`. -/
def ColumnFields (m m' : CoinModel) : Prop :=
  m'.numberColumns_ = m.numberColumns_ ∧ m'.maximumColumns_ = m.maximumColumns_ ∧
  m'.columnLower_ = m.columnLower_ ∧ m'.columnUpper_ = m.columnUpper_ ∧
  m'.objective_ = m.objective_ ∧ m'.integerType_ = m.integerType_ ∧
  m'.columnType_ = m.columnType_

/-- The rows of `m` in a model `m'` whose row capacity has grown: the capacity is not
smaller, the count is the same when the row arrays existed, and every existing row
shows what it showed. -/
def RowsGrown (m m' : CoinModel) : Prop :=
  m.maximumRows_ ≤ m'.maximumRows_ ∧
  (m.rowLower_.isSome = true → m'.numberRows_ = m.numberRows_) ∧
  ∀ i, 0 ≤ i → i < m.numberRows_ → rowView m' i = rowView m i

/-- The columns of `m` in a model `m'` whose column capacity has grown. -/
def ColumnsGrown (m m' : CoinModel) : Prop :=
  m.maximumColumns_ ≤ m'.maximumColumns_ ∧
  (m.columnLower_.isSome = true → m'.numberColumns_ = m.numberColumns_) ∧
  ∀ i, 0 ≤ i → i < m.numberColumns_ → columnView m' i = columnView m i

/-- The row arrays exist together. -/
def RowsTogether (m : CoinModel) : Prop :=
  m.rowUpper_.isSome = m.rowLower_.isSome ∧ m.rowType_.isSome = m.rowLower_.isSome

/-- The column arrays exist together. -/
def ColumnsTogether (m : CoinModel) : Prop :=
  m.columnUpper_.isSome = m.columnLower_.isSome ∧
  m.objective_.isSome = m.columnLower_.isSome ∧
  m.integerType_.isSome = m.columnLower_.isSome ∧
  m.columnType_.isSome = m.columnLower_.isSome

/-! ## Capacity growth -/

/-- A model in the mixed mode without `start_` whose counts are within its capacities
and whose row (column) arrays exist when its row (column) capacity is positive. -/
def Sized (m : CoinModel) : Prop :=
  m.type_ = 2 ∧ m.start_.isSome = false ∧
  0 ≤ m.numberRows_ ∧ m.numberRows_ ≤ m.maximumRows_ ∧
  0 ≤ m.numberColumns_ ∧ m.numberColumns_ ≤ m.maximumColumns_ ∧
  0 ≤ m.numberElements_ ∧ m.numberElements_ ≤ m.maximumElements_ ∧
  (0 < m.maximumRows_ → m.rowLower_.isSome = true) ∧
  (0 < m.maximumColumns_ → m.objective_.isSome = true)

instance decidableSized (m : CoinModel) : Decidable (Sized m) := by
  unfold Sized
  infer_instance

/-- The capacity `new` is the capacity `old`, or it is at least `1.5 * old + 99.5`
(stated over the integers, doubled). -/
def Slack (old new : Int) : Prop := new = old ∨ 3 * old + 199 ≤ 2 * new

/-- Each capacity of `m'` is that of `m` or exceeds it with slack. -/
def GrowsWithSlack (m m' : CoinModel) : Prop :=
  Slack m.maximumRows_ m'.maximumRows_ ∧ Slack m.maximumColumns_ m'.maximumColumns_ ∧
  Slack m.maximumElements_ m'.maximumElements_

/-- A capacity that has grown from `old` to `new` is at least `1.5 * old + 99.5`, in
exact rational arithmetic. -/
def SlackGrowth (old new : Int) : Prop :=
  old < new → (3 / 2 : ℚ) * (old : ℚ) + 199 / 2 ≤ (new : ℚ)

/-- The capacity after a scalar setter for the index `which`, when the capacity `old`
was positive: `max((3 * old) / 2, which + 1)` if the index is beyond the capacity, else
the capacity is unchanged. -/
def SetterGrowth (old new which : Int) : Prop :=
  0 < old → new = if which ≥ old then max (cdiv (3 * old) 2) (which + 1) else old

/-- Every capacity of `m'` that exceeds that of `m` exceeds it with slack. -/
def SlackGrowthAll (m m' : CoinModel) : Prop :=
  SlackGrowth m.maximumRows_ m'.maximumRows_ ∧
  SlackGrowth m.maximumColumns_ m'.maximumColumns_ ∧
  SlackGrowth m.maximumElements_ m'.maximumElements_

/-- The capacities after a scalar row setter for the row `which`: only the row capacity
can change, and it follows `SetterGrowth`. -/
def RowSetterGrowth (m m' : CoinModel) (which : Int) : Prop :=
  m'.maximumColumns_ = m.maximumColumns_ ∧ m'.maximumElements_ = m.maximumElements_ ∧
  SetterGrowth m.maximumRows_ m'.maximumRows_ which

/-- The capacities after a scalar column setter for the column `which`. -/
def ColumnSetterGrowth (m m' : CoinModel) (which : Int) : Prop :=
  m'.maximumRows_ = m.maximumRows_ ∧ m'.maximumElements_ = m.maximumElements_ ∧
  SetterGrowth m.maximumColumns_ m'.maximumColumns_ which

/-! ## Associated values, array setters, bounds as sense and range -/

namespace CoinModel

open Outcome

/-- The member `associateElement(stringValue, value)`: the id that is returned and the
model afterwards. -/
def associateElement (m : CoinModel) (stringValue : String) (value : Value) :
    Int × CoinModel :=
  let position := m.string_.hash stringValue
  let pm : Int × CoinModel :=
    if position < 0 then
      -- not there -add
      addString m stringValue
    else (position, m)
  let position := pm.1
  let m := pm.2
  let m :=
    if m.sizeAssociated_ ≤ position then
      let newSize := cdiv (3 * position) 2 + 100
      { m with associated_ := some (copyN m.associated_ m.sizeAssociated_ unsetValue),
               sizeAssociated_ := newSize }
    else m
  (position, { m with associated_ := store m.associated_ position value })

/-- The loop of an array setter for rows,
`for (i = 0; i < n; i++) { array[i] = values[i]; rowType_[i] &= ~bit; }`, one step. -/
def setRowArrayStep (upper : Bool) (values : List Value) (m : CoinModel) (i : Int) :
    CoinModel :=
  if upper then
    { m with rowUpper_ := store m.rowUpper_ i (values.getD i.toNat 0),
             rowType_ := store m.rowType_ i (clearBit (load m.rowType_ 0 i) 2) }
  else
    { m with rowLower_ := store m.rowLower_ i (values.getD i.toNat 0),
             rowType_ := store m.rowType_ i (clearBit (load m.rowType_ 0 i) 1) }

/-- The member `setRowLower(numberRows, rowLower)` that sets the whole array. -/
def setRowLowerArray (m : CoinModel) (numberRows : Int) (rowLower : List Value) :
    Outcome CoinModel :=
  (fillColumns m numberRows true true).bind fun m =>
  returned ((positionsBelow numberRows).foldl (setRowArrayStep false rowLower) m)

/-- The member `setRowUpper(numberRows, rowUpper)` that sets the whole array. -/
def setRowUpperArray (m : CoinModel) (numberRows : Int) (rowUpper : List Value) :
    Outcome CoinModel :=
  (fillColumns m numberRows true true).bind fun m =>
  returned ((positionsBelow numberRows).foldl (setRowArrayStep true rowUpper) m)

/-- The loop of an array setter for columns, one step; `which` is 0 for the objective,
1 for the lower bounds and 2 for the upper bounds. -/
def setColumnArrayStep (which : Nat) (values : List Value) (m : CoinModel) (i : Int) :
    CoinModel :=
  if which = 0 then
    { m with objective_ := store m.objective_ i (values.getD i.toNat 0),
             columnType_ := store m.columnType_ i (clearBit (load m.columnType_ 0 i) 4) }
  else if which = 1 then
    { m with columnLower_ := store m.columnLower_ i (values.getD i.toNat 0),
             columnType_ := store m.columnType_ i (clearBit (load m.columnType_ 0 i) 1) }
  else
    { m with columnUpper_ := store m.columnUpper_ i (values.getD i.toNat 0),
             columnType_ := store m.columnType_ i (clearBit (load m.columnType_ 0 i) 2) }

/-- The member `setObjective(numberColumns, objective)` that sets the whole array. -/
def setObjectiveArray (m : CoinModel) (numberColumns : Int) (objective : List Value) :
    Outcome CoinModel :=
  (fillColumns m numberColumns true true).bind fun m =>
  returned ((positionsBelow numberColumns).foldl (setColumnArrayStep 0 objective) m)

/-- The member `setColumnLower(numberColumns, columnLower)` that sets the whole array. -/
def setColumnLowerArray (m : CoinModel) (numberColumns : Int) (columnLower : List Value) :
    Outcome CoinModel :=
  (fillColumns m numberColumns true true).bind fun m =>
  returned ((positionsBelow numberColumns).foldl (setColumnArrayStep 1 columnLower) m)

/-- The member `setColumnUpper(numberColumns, columnUpper)` that sets the whole array. -/
def setColumnUpperArray (m : CoinModel) (numberColumns : Int) (columnUpper : List Value) :
    Outcome CoinModel :=
  (fillColumns m numberColumns true true).bind fun m =>
  returned ((positionsBelow numberColumns).foldl (setColumnArrayStep 2 columnUpper) m)

end CoinModel

/-- The function `convertBoundToSense(lower, upper, sense, right, range)`: the values
left in `sense`, `right` and `range`. -/
def convertBoundToSense (lower upper : Value) : Char × Value × Value :=
  let inf : Value := 1000000000000000000000000000000
  if lower > -inf then
    if upper < inf then
      if upper = lower then ('E', upper, 0) else ('R', upper, upper - lower)
    else ('G', lower, 0)
  else
    if upper < inf then ('L', upper, 0) else ('N', 0, 0)

/-- A model with one row and one column, built by one `addRow`. -/
def oneRowModel : CoinModel :=
  (CoinModel.addRow CoinModel.default 1 [0] [1] 2 5 none).resultOr CoinModel.default

/-! ## Reading generated names -/

/-- The number that a list of decimal digit characters writes. -/
def decimalValue (cs : List Char) : Nat :=
  cs.foldl (fun a c => 10 * a + (c.toNat - 48)) 0

/-- The number that a list of letters writes in base 26 (`a` is zero), most significant
letter first. -/
def lettersValue (cs : List Char) : Nat :=
  cs.foldl (fun a c => 26 * a + (c.toNat - 97)) 0

/-- The character is one of the decimal digits `0` to `9`. -/
def isDecimalDigit (c : Char) : Bool := decide (48 ≤ c.toNat ∧ c.toNat ≤ 57)

/-- The character is one of the letters `a` to `z`. -/
def isSmallLetter (c : Char) : Bool := decide (97 ≤ c.toNat ∧ c.toNat ≤ 122)

/-- The sequence number that a generated name stands for, read from the characters
after the leading letter: seven decimal digits, or base-26 letters padded with `0`. -/
def numberOfName (cs : List Char) : Nat :=
  if (cs.filter isSmallLetter).isEmpty then decimalValue cs
  else lettersValue (cs.filter isSmallLetter)

/-- What `resize`, `fillRows`, `fillColumns` and `createList` keep of the names of a
model `m` in the model `m'` they produce: the switch `noNames_`, the names and the number
of names of both tables (the tables themselves when names are switched off), and counts
of rows and columns that are not negative. -/
def NamesKept (m m' : CoinModel) : Prop :=
  m'.noNames_ = m.noNames_ ∧
  m'.rowName_.names = m.rowName_.names ∧
  m'.rowName_.numberItems_ = m.rowName_.numberItems_ ∧
  m'.columnName_.names = m.columnName_.names ∧
  m'.columnName_.numberItems_ = m.columnName_.numberItems_ ∧
  (m.noNames_ = true → m'.rowName_ = m.rowName_ ∧ m'.columnName_ = m.columnName_) ∧
  (0 ≤ m.numberRows_ → 0 ≤ m'.numberRows_) ∧
  (0 ≤ m.numberColumns_ → 0 ≤ m'.numberColumns_)

/-! ## The ±1 matrix -/

/-- The effect of `memset(array, 0, n * sizeof(int))` on an array of `int`: the cells
`0, ..., n - 1` are zero, the others are what they were. -/
def zeroFirst (array : Int → Int) (n : Int) : Int → Int :=
  fun i => if 0 ≤ i ∧ i < n then 0 else array i

/-- The locals and output arrays of the loop of `countPlusMinusOne`; `stopped` says
that the loop has been left by `break`. -/
structure CountState where
  startPositive : Int → Int
  startNegative : Int → Int
  numberErrors : Int
  numberElements : Int
  stopped : Bool

/-- One step of the loop of `countPlusMinusOne`. -/
def countPlusMinusOneStep (elements : Int → CoinModelTriple) (associated : Int → Value)
    (s : CountState) (i : Int) : CountState :=
  if s.stopped then s
  else
    let column := (elements i).column
    if column ≥ 0 then
      let value := (elements i).value
      if stringInTriple (elements i) ∧ associated (toInt value) = unsetValue then
        { s with numberErrors := s.numberErrors + 1,
                 startPositive := Function.update s.startPositive 0 (-1),
                 stopped := true }
      else
        let value := if stringInTriple (elements i) then associated (toInt value) else value
        if value ≠ 0 then
          let s := { s with numberElements := s.numberElements + 1 }
          if value = 1 then
            { s with startPositive :=
                Function.update s.startPositive column (s.startPositive column + 1) }
          else if value = -1 then
            { s with startNegative :=
                Function.update s.startNegative column (s.startNegative column + 1) }
          else
            { s with startPositive := Function.update s.startPositive 0 (-1),
                     stopped := true }
        else s
    else s

/-- One step of the first loop of `createPlusMinusOne`, which turns the counts into
starts; the third component is the local `size`. -/
def plusMinusStartStep (s : (Int → Int) × (Int → Int) × Int) (iColumn : Int) :
    (Int → Int) × (Int → Int) × Int :=
  let n := s.1 iColumn
  let startPositive := Function.update s.1 iColumn s.2.2
  let size := s.2.2 + n
  let n := s.2.1 iColumn
  let startNegative := Function.update s.2.1 iColumn size
  let size := size + n
  (startPositive, startNegative, size)

/-- One step of the second loop of `createPlusMinusOne`, which stores the row of a
triple with value +1 or -1; the components are `startPositive`, `startNegative` and
`indices`. -/
def plusMinusPlaceStep (elements : Int → CoinModelTriple) (associated : Int → Value)
    (s : (Int → Int) × (Int → Int) × (Int → Int)) (i : Int) :
    (Int → Int) × (Int → Int) × (Int → Int) :=
  let column := (elements i).column
  if column ≥ 0 then
    let value := (elements i).value
    let value := if stringInTriple (elements i) then associated (toInt value) else value
    let iRow := rowInTriple (elements i)
    if value = 1 then
      let position := s.1 column
      (Function.update s.1 column (position + 1), s.2.1, Function.update s.2.2 position iRow)
    else if value = -1 then
      let position := s.2.1 column
      (s.1, Function.update s.2.1 column (position + 1), Function.update s.2.2 position iRow)
    else s
  else s

/-- One step of the loop "and now redo starts" of `createPlusMinusOne`. -/
def plusMinusRedoStep (s : (Int → Int) × (Int → Int)) (iColumn : Int) :
    (Int → Int) × (Int → Int) :=
  let startPositive := Function.update s.1 (iColumn + 1) (s.2 iColumn)
  let startNegative := Function.update s.2 iColumn (startPositive iColumn)
  (startPositive, startNegative)

/-- Modelled from the spec: `std::sort(indices + start, indices + end)` of the C++
standard library, which sorts the cells `start, ..., end - 1` into ascending order. -/
def sortRange (indices : Int → Int) (start end_ : Int) : Int → Int :=
  let seg := ((positionsBelow (end_ - start)).map (fun k => indices (start + k))).insertionSort
    (fun a b => a ≤ b)
  fun q => if start ≤ q ∧ q < end_ then seg.getD (q - start).toNat 0 else indices q

/-- One step of the last loop of `createPlusMinusOne`: the two sorts for a column. -/
def plusMinusSortStep (startPositive startNegative : Int → Int) (indices : Int → Int)
    (iColumn : Int) : Int → Int :=
  let indices := sortRange indices (startPositive iColumn) (startNegative iColumn)
  sortRange indices (startNegative iColumn) (startPositive (iColumn + 1))

namespace CoinModel

open Outcome

/-- The member `countPlusMinusOne(startPositive, startNegative, associated)`: the model,
the two arrays and the number of errors that is returned. -/
def countPlusMinusOne (m : CoinModel) (startPositive startNegative : Int → Int)
    (associated : Int → Value) : Outcome (CoinModel × (Int → Int) × (Int → Int) × Int) :=
  (if m.type_ = 3 then badType m else returned m).bind fun m =>
  let startPositive := zeroFirst startPositive m.numberColumns_
  let startNegative := zeroFirst startNegative m.numberColumns_
  -- Set to say all parts
  (resize { m with type_ := 2 } m.numberRows_ m.numberColumns_ m.numberElements_).bind
    fun m =>
  let s := (positionsBelow m.numberElements_).foldl
    (countPlusMinusOneStep m.elements_ associated) ⟨startPositive, startNegative, 0, 0, false⟩
  let startPositive :=
    if s.startPositive 0 ≥ 0 then
      Function.update s.startPositive m.numberColumns_ s.numberElements
    else s.startPositive
  returned (m, startPositive, s.startNegative, s.numberErrors)

/-- The member `createPlusMinusOne(startPositive, startNegative, indices, associated)`:
the three arrays afterwards. -/
def createPlusMinusOne (m : CoinModel) (startPositive startNegative indices : Int → Int)
    (associated : Int → Value) : Outcome ((Int → Int) × (Int → Int) × (Int → Int)) :=
  (if m.type_ = 3 then badType m else returned m).bind fun m =>
  let s := (positionsBelow m.numberColumns_).foldl plusMinusStartStep
    (startPositive, startNegative, 0)
  let startPositive := Function.update s.1 m.numberColumns_ s.2.2
  let startNegative := s.2.1
  let s := (positionsBelow m.numberElements_).foldl
    (plusMinusPlaceStep m.elements_ associated) (startPositive, startNegative, indices)
  let indices := s.2.2
  -- and now redo starts
  let r := (positionsBelow m.numberColumns_).reverse.foldl plusMinusRedoStep (s.1, s.2.1)
  let startPositive := Function.update r.1 0 0
  let startNegative := r.2
  let indices := (positionsBelow m.numberColumns_).foldl
    (plusMinusSortStep startPositive startNegative) indices
  returned (startPositive, startNegative, indices)

end CoinModel

/-- The value that `countPlusMinusOne` and `createPlusMinusOne` use for a triple: the
value itself, or for a string triple its associated value. -/
def plusMinusValue (associated : Int → Value) (t : CoinModelTriple) : Value :=
  if stringInTriple t then associated (toInt t.value) else t.value

/-- The triple makes `countPlusMinusOne` give up: it is not deleted, and it is a string
triple whose associated value is unset, or its value is none of 0, +1 and -1. -/
def isNotPlusMinusOne (associated : Int → Value) (t : CoinModelTriple) : Bool :=
  decide (0 ≤ t.column) &&
    ((stringInTriple t && decide (associated (toInt t.value) = unsetValue)) ||
      (decide (plusMinusValue associated t ≠ 0) && decide (plusMinusValue associated t ≠ 1) &&
        decide (plusMinusValue associated t ≠ -1)))

/-- The positions among `l` of the non-deleted triples of column `c` with the value
`v`. -/
def withValue (elements : Int → CoinModelTriple) (associated : Int → Value) (v : Value)
    (c : Int) (l : List Int) : List Int :=
  l.filter (fun p => decide (0 ≤ (elements p).column) && decide ((elements p).column = c) &&
    decide (plusMinusValue associated (elements p) = v))

/-- The positions among `l` of the non-deleted triples whose value is not zero. -/
def nonzeroTriples (elements : Int → CoinModelTriple) (associated : Int → Value)
    (l : List Int) : List Int :=
  l.filter (fun p => decide (0 ≤ (elements p).column) &&
    decide (plusMinusValue associated (elements p) ≠ 0))

/-- The cells `lo, ..., hi - 1` of an array, as a list. -/
def cells (a : Int → Int) (lo hi : Int) : List Int :=
  (positionsBelow (hi - lo)).map (fun k => a (lo + k))

/-- The invariant of the loop of `countPlusMinusOne` after the positions `done`, for the
arrays `P0` and `N0` the loop started from: while the loop has not been left, no triple
seen made it give up and the arrays and `numberElements` have counted the triples seen;
once it has been left, `startPositive[0]` is -1 and a triple seen made it give up. -/
def CountInv (E : Int → CoinModelTriple) (assoc : Int → Value) (P0 N0 : Int → Int)
    (s : CountState) (done : List Int) : Prop :=
  (s.stopped = false →
    (∀ p ∈ done, isNotPlusMinusOne assoc (E p) = false) ∧
    (∀ c, s.startPositive c = P0 c + ((withValue E assoc 1 c done).length : Int)) ∧
    (∀ c, s.startNegative c = N0 c + ((withValue E assoc (-1) c done).length : Int)) ∧
    s.numberElements = ((nonzeroTriples E assoc done).length : Int)) ∧
  (s.stopped = true →
    s.startPositive 0 = -1 ∧ ∃ p ∈ done, isNotPlusMinusOne assoc (E p) = true)

/-- The number of cells that the columns before `c` take in `indices`, for the counts
`P` of the values +1 and `N` of the values -1. -/
def plusMinusOffset (P N : Int → Int) (c : Int) : Int :=
  ((positionsBelow c).map (fun j => P j + N j)).sum

/-- The invariant of the second loop of `createPlusMinusOne` after the positions `done`,
for the counts `P` and `N` the member was called with: the starts have advanced by the
number of triples stored, and the rows of the triples of column `c` with value +1 (-1)
stand, in storage order, from the start of that column's positive (negative) area
on. -/
def PlaceInv (E : Int → CoinModelTriple) (assoc : Int → Value) (P N : Int → Int) (nc : Int)
    (s : (Int → Int) × (Int → Int) × (Int → Int)) (done : List Int) : Prop :=
  (∀ c, 0 ≤ c → c < nc →
    s.1 c = plusMinusOffset P N c + ((withValue E assoc 1 c done).length : Int) ∧
    s.2.1 c = plusMinusOffset P N c + P c + ((withValue E assoc (-1) c done).length : Int)) ∧
  (∀ c, 0 ≤ c → c < nc → ∀ (k : Nat) (p : Int), (withValue E assoc 1 c done)[k]? = some p →
    s.2.2 (plusMinusOffset P N c + k) = rowInTriple (E p)) ∧
  (∀ c, 0 ≤ c → c < nc → ∀ (k : Nat) (p : Int), (withValue E assoc (-1) c done)[k]? = some p →
    s.2.2 (plusMinusOffset P N c + P c + k) = rowInTriple (E p))

/-- The positions among `l` of the non-deleted triples whose value is +1 or -1. -/
def plusMinusTriples (elements : Int → CoinModelTriple) (associated : Int → Value)
    (l : List Int) : List Int :=
  l.filter (fun p => decide (0 ≤ (elements p).column) &&
    (decide (plusMinusValue associated (elements p) = 1) ||
      decide (plusMinusValue associated (elements p) = -1)))

/-- The model built by `setElement(1, 0, 1.0)`, `setElement(0, 0, 1.0)` and
`setElement(0, 1, -1.0)` on a default model. -/
def plusMinusModel : CoinModel :=
  (((CoinModel.setElement CoinModel.default 1 0 1).bind fun m =>
    (CoinModel.setElement m 0 0 1).bind fun m =>
    CoinModel.setElement m 0 1 (-1)).resultOr CoinModel.default)

/-! ## Deleting a column or a single element -/

namespace CoinModelLinkedList

/-- Modelled from the spec: `deleteOne(position)` in the form
`deleteRowOne(position, triples, hash)` of the row list: the position is unlinked from
the chain of its row and put on the free list; its hash entry is removed when the hash
index has been built. -/
def deleteRowOne (l : CoinModelLinkedList) (position : Int) (triples : Int → CoinModelTriple)
    (hash : CoinModelHash2) : CoinModelLinkedList × CoinModelHash2 :=
  let row := rowInTriple (triples position)
  let hash :=
    if hash.numberItems ≠ 0 then hash.deleteHash position row (triples position).column
    else hash
  ({ l with chain := Function.update l.chain row
              ((l.chain row).filter (fun p => decide (p ≠ position))),
            free := l.free ++ [position] }, hash)

/-- Modelled from the spec: `updateDeletedOne(position, triples)`, by which the column
list follows a `deleteOne` made through the row list: the position is unlinked from the
chain of its column and put on the free list. -/
def updateDeletedOne (l : CoinModelLinkedList) (position : Int)
    (triples : Int → CoinModelTriple) : CoinModelLinkedList :=
  let column := (triples position).column
  { l with chain := Function.update l.chain column
             ((l.chain column).filter (fun p => decide (p ≠ position))),
           free := l.free ++ [position] }

end CoinModelLinkedList

namespace CoinModel

open Outcome

/-- The member `deleteThisElement(row, column, position)`. -/
def deleteThisElement (m : CoinModel) (_row _column position : Int) : CoinModel :=
  let m := if m.links_ &&& 1 = 0 then createList m 1 else m
  -- row links guaranteed to exist
  let lh := m.rowList_.deleteRowOne position m.elements_ m.hashElements_
  let m := { m with rowList_ := lh.1, hashElements_ := lh.2 }
  -- Just need to set first and last and take out
  let m :=
    if m.links_ = 3 then
      { m with columnList_ := m.columnList_.updateDeletedOne position m.elements_ }
    else m
  let t : CoinModelTriple := { m.elements_ position with column := -1, value := 0 }
  { m with elements_ := Function.update m.elements_ position t }

/-- The member `deleteElement(row, column)`: the position that is returned and the model
afterwards. -/
def deleteElement (m : CoinModel) (row column : Int) : Int × CoinModel :=
  let pm := position m row column
  let iPos := pm.1
  if iPos ≥ 0 then (iPos, deleteThisElement pm.2 row column iPos) else (iPos, pm.2)

end CoinModel

/-- The lists of a model as `deleteColumn(c)` needs them: `links_` is one of the values
0, ..., 3; if the column list exists, the chain of column `c` holds exactly the positions
of the non-deleted triples of column `c` and every slot of its free list is a deleted
one; if the row list exists, every slot of its free list is a deleted one. -/
def ColumnChainOK (m : CoinModel) (c : Int) : Prop :=
  m.links_ ≤ 3 ∧
  (m.links_ &&& 2 ≠ 0 →
    (∀ p ∈ m.columnList_.chain c, p ∈ storedPositions m ∧ (m.elements_ p).column = c) ∧
    (∀ p ∈ storedPositions m, (m.elements_ p).column = c → p ∈ m.columnList_.chain c) ∧
    (∀ p ∈ m.columnList_.free, (m.elements_ p).column < 0)) ∧
  (m.links_ &&& 1 ≠ 0 → ∀ p ∈ m.rowList_.free, (m.elements_ p).column < 0)

instance decidableColumnChainOK (m : CoinModel) (c : Int) : Decidable (ColumnChainOK m c) := by
  unfold ColumnChainOK
  infer_instance

/-- The first block of `deleteColumn`: the bounds, objective and flags of the column are
reset and its name is removed. -/
def deleteColumnReset (m : CoinModel) (whichColumn : Int) : CoinModel :=
  if m.columnLower_.isSome then
    let m := { m with columnLower_ := store m.columnLower_ whichColumn 0,
                      columnUpper_ := store m.columnUpper_ whichColumn COIN_DBL_MAX,
                      objective_ := store m.objective_ whichColumn 0,
                      integerType_ := store m.integerType_ whichColumn 0,
                      columnType_ := store m.columnType_ whichColumn 0 }
    if m.noNames_ = false then
      { m with columnName_ := m.columnName_.deleteHash whichColumn }
    else m
  else m

/-- The block `need lists` of `deleteColumn` on a model that is not externally packed:
`start_` is dropped in mode 0 and the column list is created if it does not exist. -/
def deleteColumnLists (m : CoinModel) : CoinModel :=
  let m := if m.type_ = 0 then { m with start_ := none } else m
  if m.links_ &&& 2 = 0 then CoinModel.createList m 2 else m

/-- The end of `deleteColumn`: the chain of the column is deleted from the column list
and the row list follows. -/
def deleteColumnUnlink (m : CoinModel) (whichColumn : Int) : CoinModel :=
  let (l, triples, hash) :=
    m.columnList_.deleteSame whichColumn m.elements_ m.hashElements_ (decide (m.links_ ≠ 3))
  let m := { m with columnList_ := l, elements_ := triples, hashElements_ := hash }
  if m.links_ = 3 then
    let (l, triples) := m.rowList_.updateDeleted whichColumn m.elements_ m.columnList_
    { m with rowList_ := l, elements_ := triples }
  else m

/-- The hash index of the model is in step with its element store: it has not been
built and the first reader will build it, or it covers exactly the non-deleted
triples. -/
def HashInStep (m : CoinModel) : Prop :=
  (m.hashElements_.numberItems_ = 0 ∧ m.hashElements_.index = [] ∧
    (m.hashElements_.maximumItems_ < m.maximumElements_ ∨ m.numberElements_ = 0)) ∨
  (m.hashElements_.numberItems_ ≠ 0 ∧
    m.hashElements_.numberItems_ = m.numberElements_ ∧
    ∀ q, q ∈ m.hashElements_.index ↔ q ∈ storedPositions m)

instance decidableHashInStep (m : CoinModel) : Decidable (HashInStep m) := by
  unfold HashInStep
  have : Decidable (∀ q, q ∈ m.hashElements_.index ↔ q ∈ storedPositions m) :=
    decidable_of_iff ((∀ q ∈ m.hashElements_.index, q ∈ storedPositions m) ∧
      (∀ q ∈ storedPositions m, q ∈ m.hashElements_.index))
      ⟨fun h q => ⟨h.1 q, h.2 q⟩, fun h => ⟨fun q => (h q).1, fun q => (h q).2⟩⟩
  infer_instance

/-! ## States that show the stale free list, the unsized hash index and the stale hash index -/

namespace CoinModel

open Outcome

/-- The model left by `addColumn(2, {1, 0}, {4, 5}, 0, 5, 0)`, `deleteRow(0)` and
`packRows()` on a default model: one row, one column, the triple `(0, 0, 4.0)`. -/
def packedAfterDeleteRow : CoinModel :=
  ((addColumn CoinModel.default 2 [1, 0] [4, 5] 0 5 0 none false).bind fun m =>
    (deleteRow m 0).bind fun m => (packRows m).bind fun r => returned r.1).resultOr
    CoinModel.default

/-- The model left by `addRow(2, {0, 1}, {1, 2}, 2, 5)`, `deleteColumn(0)` and
`packColumns()` on a default model: one row, one column, the triple `(0, 0, 2.0)`. -/
def packedAfterDeleteColumn : CoinModel :=
  ((addRow CoinModel.default 2 [0, 1] [1, 2] 2 5 none).bind fun m =>
    (deleteColumn m 0).bind fun m => (packColumns m).bind fun r => returned r.1).resultOr
    CoinModel.default

/-- The model left by `createPackedMatrix` on a default model. -/
def exportedDefault : CoinModel :=
  ((createPackedMatrix CoinModel.default CoinPackedMatrix.empty (fun _ => 0)).bind fun r =>
    returned r.1).resultOr CoinModel.default

/-- The scenario of `scenario` with a call of `getElement(0, 0)` before its `setElement`,
which makes the reader build the hash index over the triples of the two rows. -/
def scenarioWithReader : CoinModel :=
  ((CoinModel.addRow CoinModel.default 2 [0, 2] [1, 3] 2 5 none).bind fun m1 =>
    (CoinModel.addRow m1 1 [1] [-1] 0 COIN_DBL_MAX none).bind fun m2 =>
    CoinModel.setElement (CoinModel.getElement m2 0 0).2 0 1 7).resultOr CoinModel.default

end CoinModel

/-! ## A long row: the growth of the hash index -/

namespace CoinModel

open Outcome

end CoinModel

/-! ## Theorems -/

open CoinModel Outcome

theorem Outcome.returns_returned {α : Type} {P : α → Prop} {a : α} (h : P a) :
    (returned a).Returns P := ⟨a, rfl, h⟩

theorem Outcome.returns_bind {α β : Type} {o : Outcome α} {f : α → Outcome β}
    {P : α → Prop} {Q : β → Prop} (h : o.Returns P) (hf : ∀ a, P a → (f a).Returns Q) :
    (o.bind f).Returns Q := by
  obtain ⟨a, rfl, ha⟩ := h
  exact hf a ha

theorem Outcome.returns_mono {α : Type} {o : Outcome α} {P Q : α → Prop}
    (h : o.Returns P) (hPQ : ∀ a, P a → Q a) : o.Returns Q := by
  obtain ⟨a, rfl, ha⟩ := h
  exact ⟨a, rfl, hPQ a ha⟩

theorem mem_positionsBelow {n p : Int} : p ∈ positionsBelow n ↔ 0 ≤ p ∧ p < n := by
  unfold positionsBelow
  simp only [List.mem_map, List.mem_range]
  constructor
  · rintro ⟨k, hk, rfl⟩
    constructor
    · exact Int.ofNat_nonneg k
    · have : (k : Int) < (n.toNat : Int) := by exact_mod_cast hk
      have h2 : (n.toNat : Int) = max n 0 := Int.toNat_eq_max n
      simp only [Int.ofNat_eq_coe]
      omega
  · rintro ⟨h0, hn⟩
    refine ⟨p.toNat, ?_, ?_⟩
    · omega
    · simp only [Int.ofNat_eq_coe]; omega

theorem Keeps.refl (m : CoinModel) (h : m.type_ ≠ 3) : Keeps m m :=
  ⟨rfl, fun _ _ _ => rfl, h, rfl, fun _ hq => Or.inl hq, le_refl _, id, id⟩

theorem Keeps.trans {a b c : CoinModel} (h1 : Keeps a b) (h2 : Keeps b c) : Keeps a c := by
  obtain ⟨a1, a2, _, a4, a5, a6, a7, a8⟩ := h1
  obtain ⟨b1, b2, b3, b4, b5, b6, b7, b8⟩ := h2
  refine ⟨by rw [b1, a1], ?_, b3, by rw [b4, a4], ?_, le_trans a6 b6, fun h => b7 (a7 h),
    fun h => b8 (a8 h)⟩
  · intro p hp0 hp
    rw [b2 p hp0 (by rw [a1]; exact hp), a2 p hp0 hp]
  · intro q hq
    rcases b5 q hq with h | h
    · exact a5 q h
    · right; rw [← a4]; exact h

theorem links_cases {n : Nat} (h : n ≤ 3) : n = 0 ∨ n = 1 ∨ n = 2 ∨ n = 3 := by omega

theorem listOK_create (l : CoinModelLinkedList) (a b c d t n : Int)
    (E : Int → CoinModelTriple) (hn : 0 ≤ n) : ListOK t (l.create a b c d t n E) n := by
  refine ⟨rfl, hn, le_refl _, ?_⟩
  intro p hp
  have := List.mem_of_mem_filter hp
  exact mem_positionsBelow.1 this

theorem listOK_resize {t : Int} {l : CoinModelLinkedList} {n : Int} (a b : Int)
    (h : ListOK t l n) : ListOK t (l.resize a b) n := h

theorem lor_one_ne_zero (n : Nat) : n ||| 1 ≠ 0 := by
  intro h
  have := congrArg (fun x => x.testBit 0) h
  simp at this

theorem lor_two_ne_zero (n : Nat) : n ||| 2 ≠ 0 := by
  intro h
  have := congrArg (fun x => x.testBit 1) h
  simp only [Nat.testBit_or, Nat.zero_testBit, Bool.or_eq_false_iff] at this
  exact absurd this.2 (by decide)

theorem listsOK_createList (m : CoinModel) (t : Int) (h : ListsOK m) :
    ListsOK (createList m t) := by
  obtain ⟨hl, hn, hr, hc⟩ := h
  unfold createList
  dsimp only
  rcases links_cases hl with h0 | h0 | h0 | h0
  all_goals
    rw [h0] at hr hc
    split_ifs with h1 h2
    all_goals
      simp only [ListsOK, h0]
      refine ⟨by decide, hn, ?_, ?_⟩
  all_goals first
    | (intro _; exact listOK_create _ _ _ _ _ _ _ _ hn)
    | (intro _; exact hr (by decide))
    | (intro _; exact hc (by decide))
    | (intro h'; exact absurd h' (by decide))
    | (intro _; refine ⟨rfl, hn, le_refl _, ?_⟩; intro p hp; first
        | exact (hc (by decide)).2.2.2 p hp
        | exact (hr (by decide)).2.2.2 p hp)
    | simp_all

theorem keeps_createList (m : CoinModel) (t : Int) : Keeps m (createList m t) := by
  refine ⟨?_, ?_, ?_, ?_, ?_, ?_, ?_, listsOK_createList m t⟩
  all_goals
    unfold createList
    dsimp only
    split_ifs
  all_goals first
    | rfl
    | (intro _ _ _; rfl)
    | (intro _ hq; exact Or.inl hq)
    | exact le_refl _
    | (intro _; exact lor_one_ne_zero _)
    | (intro _; exact lor_two_ne_zero _)
    | simp

theorem hash_resize_numberItems (h : CoinModelHash2) (a : Int) (E : Int → CoinModelTriple)
    (f : Bool) : (h.resize a E f).numberItems_ = h.numberItems_ := by
  unfold CoinModelHash2.resize
  split_ifs <;> rfl

theorem hash_resize_index (h : CoinModelHash2) (a : Int) (E : Int → CoinModelTriple)
    (f : Bool) (q : Int) (hq : q ∈ (h.resize a E f).index) :
    q ∈ h.index ∨ (0 ≤ q ∧ q < h.numberItems_) := by
  unfold CoinModelHash2.resize at hq
  split_ifs at hq
  · exact Or.inl hq
  · exact Or.inr (mem_positionsBelow.1 (List.mem_of_mem_filter hq))

theorem hash_resize_max (h : CoinModelHash2) (a : Int) (E : Int → CoinModelTriple)
    (f : Bool) : h.maximumItems_ ≤ (h.resize a E f).maximumItems_ := by
  unfold CoinModelHash2.resize
  split_ifs
  · exact le_refl _
  · exact le_max_right _ _

/-- A model that differs from `m` only in fields outside the element store and the
hash index, and whose lists are the lists of `m` up to their capacity, keeps `m`. -/
theorem keeps_of_eq (m m' : CoinModel) (h1 : m'.numberElements_ = m.numberElements_)
    (h2 : m'.elements_ = m.elements_) (h3 : m'.type_ ≠ 3)
    (h4 : m'.hashElements_ = m.hashElements_) (h5 : m'.links_ = m.links_)
    (h6 : ∀ n, ListOK 0 m.rowList_ n → ListOK 0 m'.rowList_ n)
    (h7 : ∀ n, ListOK 1 m.columnList_ n → ListOK 1 m'.columnList_ n) : Keeps m m' := by
  refine ⟨h1, fun p _ _ => by rw [h2], h3, by rw [h4], fun q hq => Or.inl (by rwa [h4] at hq),
    by rw [h4], by rw [h5]; exact id, ?_⟩
  unfold ListsOK
  rw [h5, h1]
  exact fun ⟨a, b, c, d⟩ => ⟨a, b, fun h => h6 _ (c h), fun h => h7 _ (d h)⟩

theorem keeps_resizeElements (m : CoinModel) (E : Int) (h : m.type_ ≠ 3) :
    Keeps m (resizeElements m E) := by
  unfold resizeElements
  by_cases h1 : E > m.maximumElements_
  · rw [if_pos h1]
    dsimp only
    refine ⟨?_, ?_, ?_, ?_, ?_, ?_, ?_, ?_⟩
    · split_ifs <;> rfl
    · intro p hp0 hp
      have : copyN (some m.elements_) m.numberElements_ CoinModelTriple.zero p = m.elements_ p := by
        unfold copyN
        rw [if_pos ⟨hp0, hp⟩]
      split_ifs <;> exact this
    · split_ifs <;> exact h
    · split_ifs <;> first | rfl | exact hash_resize_numberItems _ _ _ _
    · intro q hq
      split_ifs at hq <;> first
        | exact Or.inl hq
        | exact hash_resize_index _ _ _ _ q hq
    · split_ifs <;> first | exact le_refl _ | exact hash_resize_max _ _ _ _
    · split_ifs <;> exact id
    · unfold ListsOK
      split_ifs <;> exact id
  · rw [if_neg h1]
    exact Keeps.refl m h

theorem keeps_fillRowsFill (m : CoinModel) (w : Int) (a : Bool) (h : m.type_ ≠ 3) :
    Keeps m (fillRowsFill m w a) := by
  unfold fillRowsFill
  dsimp only
  split_ifs
  all_goals first
    | exact Keeps.refl m h
    | exact keeps_of_eq _ _ rfl rfl h rfl rfl (fun _ h => h) (fun _ h => h)
    | exact Keeps.trans (keeps_of_eq _ _ rfl rfl h rfl rfl (fun _ h => h) (fun _ h => h))
        (keeps_createList _ _)

theorem keeps_fillColumnsFill (m : CoinModel) (w : Int) (a : Bool) (h : m.type_ ≠ 3) :
    Keeps m (fillColumnsFill m w a) := by
  unfold fillColumnsFill
  dsimp only
  split_ifs
  all_goals first
    | exact Keeps.refl m h
    | exact keeps_of_eq _ _ rfl rfl h rfl rfl (fun _ h => h) (fun _ h => h)
    | exact Keeps.trans (keeps_of_eq _ _ rfl rfl h rfl rfl (fun _ h => h) (fun _ h => h))
        (keeps_createList _ _)

theorem isNone_of_isSome {α : Type} {o : Option α} (h : o.isSome = true) :
    o.isNone = false := by
  cases o <;> simp_all

/-- The nested `fillRows` call made by `resize` needs no further `resize`. -/
theorem keeps_fillRows_nested (m : CoinModel) (w : Int) (h1 : m.type_ ≠ -1)
    (h0 : m.type_ ≠ 3) (h2 : m.rowLower_.isSome = true) (h3 : w < m.maximumRows_) :
    (fillRowsWith resizeStuck m w true false).Returns (Keeps m) := by
  have h2' := isNone_of_isSome h2
  unfold fillRowsWith
  apply Outcome.returns_bind (P := fun (x : CoinModel × Int) => Keeps m x.1)
  · rw [if_pos (by simp)]
    unfold fillRowsCreate
    apply Outcome.returns_bind
      (P := fun (x : CoinModel) => Keeps m x ∧ x.rowLower_.isNone = false ∧ w < x.maximumRows_)
    · rw [if_neg h1]
      split_ifs
      · exact Outcome.returns_returned
          ⟨keeps_of_eq _ _ rfl rfl (by simp) rfl rfl (fun _ h => h) (fun _ h => h), h2', h3⟩
      · exact Outcome.returns_returned ⟨Keeps.refl m h0, h2', h3⟩
    · intro a ha
      apply Outcome.returns_bind
        (P := fun (x : CoinModel × Int) => Keeps m x.1 ∧ x.2 < x.1.maximumRows_)
      · rw [if_neg (by simp [ha.2.1])]
        exact Outcome.returns_returned ⟨ha.1, ha.2.2⟩
      · rintro ⟨b, w'⟩ hb
        dsimp only at hb ⊢
        rw [if_neg (by omega)]
        exact Outcome.returns_returned hb.1
  · rintro ⟨a, w'⟩ ha
    exact Outcome.returns_returned (Keeps.trans ha (keeps_fillRowsFill _ _ _ ha.2.2.1))

/-- The nested `fillColumns` call made by `resize` needs no further `resize`. -/
theorem keeps_fillColumns_nested (m : CoinModel) (w : Int) (h1 : m.type_ ≠ -1)
    (h0 : m.type_ ≠ 3) (h2 : m.objective_.isSome = true) (h3 : w < m.maximumColumns_) :
    (fillColumnsWith resizeStuck m w true false).Returns (Keeps m) := by
  have h2' := isNone_of_isSome h2
  unfold fillColumnsWith
  apply Outcome.returns_bind (P := fun (x : CoinModel × Int) => Keeps m x.1)
  · rw [if_pos (by simp)]
    unfold fillColumnsCreate
    apply Outcome.returns_bind
      (P := fun (x : CoinModel) => Keeps m x ∧ x.objective_.isNone = false ∧
        w < x.maximumColumns_)
    · rw [if_neg h1]
      split_ifs
      · exact Outcome.returns_returned
          ⟨keeps_of_eq _ _ rfl rfl (by simp) rfl rfl (fun _ h => h) (fun _ h => h), h2', h3⟩
      · exact Outcome.returns_returned ⟨Keeps.refl m h0, h2', h3⟩
    · intro a ha
      apply Outcome.returns_bind
        (P := fun (x : CoinModel × Int) => Keeps m x.1 ∧ x.2 < x.1.maximumColumns_)
      · rw [if_neg (by simp [ha.2.1])]
        exact Outcome.returns_returned ⟨ha.1, ha.2.2⟩
      · rintro ⟨b, w'⟩ hb
        dsimp only at hb ⊢
        rw [if_neg (by omega)]
        exact Outcome.returns_returned hb.1
  · rintro ⟨a, w'⟩ ha
    exact Outcome.returns_returned (Keeps.trans ha (keeps_fillColumnsFill _ _ _ ha.2.2.1))

theorem keeps_resizeRows (m : CoinModel) (R E : Int) (h : m.type_ ≠ 3) :
    (resizeRows (fillRowsWith resizeStuck) m R E).Returns (Keeps m) := by
  unfold resizeRows
  by_cases ht : m.type_ = 0 ∨ m.type_ = 2
  · rw [if_pos ht]
    dsimp only
    by_cases hR : max R m.numberRows_ > m.maximumRows_
    · rw [if_pos hR]
      have hlt : m.numberRows_ - 1 < max R m.numberRows_ := by
        have := le_max_right R m.numberRows_
        omega
      have hne : m.type_ ≠ -1 := by rcases ht with h' | h' <;> omega
      split_ifs
      all_goals first
        | exact Outcome.returns_returned
            (keeps_of_eq _ _ rfl rfl h rfl rfl (fun _ h => h) (fun _ h => h))
        | exact Outcome.returns_mono (keeps_fillRows_nested _ _ hne h rfl hlt)
            (fun a ha => Keeps.trans
              (keeps_of_eq _ _ rfl rfl h rfl rfl (fun _ h => h) (fun _ h => h)) ha)
    · rw [if_neg hR]
      exact Outcome.returns_returned (Keeps.refl m h)
  · rw [if_neg ht, if_neg h]
    exact Outcome.returns_returned (Keeps.refl m h)

theorem keeps_resizeColumns (m : CoinModel) (C E : Int) (h : m.type_ ≠ 3) :
    (resizeColumns (fillColumnsWith resizeStuck) m C E).Returns (Keeps m) := by
  unfold resizeColumns
  by_cases ht : m.type_ = 1 ∨ m.type_ = 2
  · rw [if_pos ht]
    dsimp only
    by_cases hR : max C m.numberColumns_ > m.maximumColumns_
    · rw [if_pos hR]
      have hlt : m.numberColumns_ - 1 < max C m.numberColumns_ := by
        have := le_max_right C m.numberColumns_
        omega
      have hne : m.type_ ≠ -1 := by rcases ht with h' | h' <;> omega
      split_ifs
      all_goals first
        | exact Outcome.returns_returned
            (keeps_of_eq _ _ rfl rfl h rfl rfl (fun _ h => h) (fun _ h => h))
        | exact Outcome.returns_mono (keeps_fillColumns_nested _ _ hne h rfl hlt)
            (fun a ha => Keeps.trans
              (keeps_of_eq _ _ rfl rfl h rfl rfl (fun _ h => h) (fun _ h => h)) ha)
    · rw [if_neg hR]
      exact Outcome.returns_returned (Keeps.refl m h)
  · rw [if_neg ht]
    exact Outcome.returns_returned (Keeps.refl m h)

/-- `resize` returns on every model that is not externally packed, and keeps the
element store. -/
theorem keeps_resize (m : CoinModel) (R C E : Int) (h : m.type_ ≠ 3) :
    (resize m R C E).Returns (Keeps m) := by
  unfold resize resizeWith
  dsimp only
  apply Outcome.returns_bind (keeps_resizeRows m R _ h)
  intro a ha
  apply Outcome.returns_bind
    (Outcome.returns_mono (keeps_resizeColumns a C _ ha.2.2.1) (fun b hb => Keeps.trans ha hb))
  intro b hb
  rw [if_neg hb.2.2.1]
  exact Outcome.returns_returned (Keeps.trans hb (keeps_resizeElements _ _ hb.2.2.1))

theorem keeps_fillRowsCreate (m : CoinModel) (w : Int) (h : m.type_ ≠ 3) :
    (fillRowsCreate resize m w).Returns (fun x => Keeps m x.1) := by
  unfold fillRowsCreate
  apply Outcome.returns_bind (P := fun (x : CoinModel) => Keeps m x)
  · split_ifs
    · exact Outcome.returns_mono
        (keeps_resize { m with type_ := 0 } _ _ _ (by decide : (0 : Int) ≠ 3))
        (fun a ha => Keeps.trans
          (keeps_of_eq m { m with type_ := 0 } rfl rfl (by decide : (0 : Int) ≠ 3) rfl rfl
            (fun _ h => h) (fun _ h => h)) ha)
    · exact Outcome.returns_returned
        (keeps_of_eq m { m with type_ := 2 } rfl rfl (by decide : (2 : Int) ≠ 3) rfl rfl
          (fun _ h => h) (fun _ h => h))
    · exact Outcome.returns_returned (Keeps.refl m h)
  · intro a ha
    have hk : Keeps a { a with numberRows_ := 0 } :=
      keeps_of_eq a { a with numberRows_ := 0 } rfl rfl ha.2.2.1 rfl rfl (fun _ h => h) (fun _ h => h)
    apply Outcome.returns_bind (P := fun (x : CoinModel × Int) => Keeps m x.1)
    · dsimp only
      split_ifs
      all_goals first
        | exact Outcome.returns_returned ha
        | (apply Outcome.returns_bind
            (Outcome.returns_mono (keeps_resize { a with numberRows_ := 0 } _ _ _ ha.2.2.1)
              (fun b hb => Keeps.trans ha (Keeps.trans hk hb)))
           intro b hb
           exact Outcome.returns_returned hb)
    · rintro ⟨b, w'⟩ hb
      dsimp only at hb ⊢
      split_ifs
      all_goals first
        | exact Outcome.returns_returned hb
        | (apply Outcome.returns_bind
            (Outcome.returns_mono (keeps_resize _ _ _ _ hb.2.2.1)
              (fun c hc => Keeps.trans hb hc))
           intro c hc
           exact Outcome.returns_returned hc)

theorem keeps_fillColumnsCreate (m : CoinModel) (w : Int) (h : m.type_ ≠ 3) :
    (fillColumnsCreate resize m w).Returns (fun x => Keeps m x.1) := by
  unfold fillColumnsCreate
  apply Outcome.returns_bind (P := fun (x : CoinModel) => Keeps m x)
  · split_ifs
    · exact Outcome.returns_mono
        (keeps_resize { m with type_ := 1 } _ _ _ (by decide : (1 : Int) ≠ 3))
        (fun a ha => Keeps.trans
          (keeps_of_eq m { m with type_ := 1 } rfl rfl (by decide : (1 : Int) ≠ 3) rfl rfl
            (fun _ h => h) (fun _ h => h)) ha)
    · exact Outcome.returns_returned
        (keeps_of_eq m { m with type_ := 2 } rfl rfl (by decide : (2 : Int) ≠ 3) rfl rfl
          (fun _ h => h) (fun _ h => h))
    · exact Outcome.returns_returned (Keeps.refl m h)
  · intro a ha
    have hk : Keeps a { a with numberColumns_ := 0 } :=
      keeps_of_eq a { a with numberColumns_ := 0 } rfl rfl ha.2.2.1 rfl rfl (fun _ h => h) (fun _ h => h)
    apply Outcome.returns_bind (P := fun (x : CoinModel × Int) => Keeps m x.1)
    · dsimp only
      split_ifs
      all_goals first
        | exact Outcome.returns_returned ha
        | (apply Outcome.returns_bind
            (Outcome.returns_mono (keeps_resize { a with numberColumns_ := 0 } _ _ _ ha.2.2.1)
              (fun b hb => Keeps.trans ha (Keeps.trans hk hb)))
           intro b hb
           exact Outcome.returns_returned hb)
    · rintro ⟨b, w'⟩ hb
      dsimp only at hb ⊢
      split_ifs
      all_goals first
        | exact Outcome.returns_returned hb
        | (apply Outcome.returns_bind
            (Outcome.returns_mono (keeps_resize _ _ _ _ hb.2.2.1)
              (fun c hc => Keeps.trans hb hc))
           intro c hc
           exact Outcome.returns_returned hc)

/-- `fillRows` returns on every model that is not externally packed, and keeps the
element store. -/
theorem keeps_fillRows (m : CoinModel) (w : Int) (f a : Bool) (h : m.type_ ≠ 3) :
    (fillRows m w f a).Returns (Keeps m) := by
  unfold fillRows fillRowsWith
  apply Outcome.returns_bind (P := fun (x : CoinModel × Int) => Keeps m x.1)
  · split_ifs
    · exact keeps_fillRowsCreate m w h
    · exact Outcome.returns_returned (Keeps.refl m h)
  · rintro ⟨b, w'⟩ hb
    exact Outcome.returns_returned (Keeps.trans hb (keeps_fillRowsFill _ _ _ hb.2.2.1))

/-- `fillColumns` returns on every model that is not externally packed, and keeps the
element store. -/
theorem keeps_fillColumns (m : CoinModel) (w : Int) (f a : Bool) (h : m.type_ ≠ 3) :
    (fillColumns m w f a).Returns (Keeps m) := by
  unfold fillColumns fillColumnsWith
  apply Outcome.returns_bind (P := fun (x : CoinModel × Int) => Keeps m x.1)
  · split_ifs
    · exact keeps_fillColumnsCreate m w h
    · exact Outcome.returns_returned (Keeps.refl m h)
  · rintro ⟨b, w'⟩ hb
    exact Outcome.returns_returned (Keeps.trans hb (keeps_fillColumnsFill _ _ _ hb.2.2.1))

theorem entriesOf_keys (indices : List Int) (elements : List Value) :
    (entriesOf indices.length indices elements).map Prod.fst = indices := by
  unfold entriesOf
  rw [List.map_map]
  apply List.ext_getElem
  · simp
  · intro i h1 h2
    simp only [List.getElem_map, List.getElem_range, Function.comp]
    simp at h1
    rw [List.getD_eq_getElem _ _ h2]

theorem sortedFrom_spec : ∀ (l : List Int) (last : Int), sortedFrom last l = true →
    (∀ k ∈ l, last < k) ∧ l.Nodup ∧ duplicateFrom last l = false
  | [], _, _ => ⟨by simp, List.nodup_nil, rfl⟩
  | k :: ks, last, h => by
    unfold sortedFrom at h
    split_ifs at h with hk
    obtain ⟨h1, h2, h3⟩ := sortedFrom_spec ks k h
    refine ⟨?_, ?_, ?_⟩
    · intro j hj
      rcases List.mem_cons.1 hj with rfl | hj
      · omega
      · have := h1 j hj
        omega
    · refine List.nodup_cons.2 ⟨?_, h2⟩
      intro hmem
      have := h1 k hmem
      omega
    · unfold duplicateFrom
      rw [h3]
      simp only [Bool.or_false, decide_eq_false_iff_not]
      omega

theorem duplicateFrom_spec : ∀ (l : List Int) (last : Int), l.Sorted (fun a b => a ≤ b) →
    (∀ k ∈ l, last < k) → (duplicateFrom last l = true ↔ ¬ l.Nodup)
  | [], _, _, _ => by simp [duplicateFrom]
  | [k], last, _, h => by
    have := h k (List.mem_singleton.2 rfl)
    simp only [duplicateFrom, Bool.or_false, decide_eq_true_eq, List.nodup_cons,
      List.not_mem_nil, not_false_eq_true, List.nodup_nil, and_self, not_true_eq_false,
      iff_false]
    omega
  | k :: j :: js, last, hs, h => by
    have hk := h k (List.mem_cons_self _ _)
    have hs' : (j :: js).Sorted (fun a b => a ≤ b) := hs.of_cons
    have hkj : k ≤ j := List.rel_of_sorted_cons hs j (List.mem_cons_self _ _)
    unfold duplicateFrom
    have hne : decide (k = last) = false := by
      simp only [decide_eq_false_iff_not]; omega
    rw [hne, Bool.false_or]
    by_cases hjk : j = k
    · subst hjk
      simp [duplicateFrom]
    · have hlt : ∀ i ∈ j :: js, k < i := by
        intro i hi
        rcases List.mem_cons.1 hi with rfl | hi
        · omega
        · have := List.rel_of_sorted_cons hs' i hi
          omega
      rw [duplicateFrom_spec (j :: js) k hs' hlt]
      have hnot : k ∉ j :: js := fun hmem => by
        have := hlt k hmem
        omega
      simp only [List.nodup_cons (a := k), hnot, not_false_eq_true, true_and]

theorem head_negative_iff (l : List Int) (hs : l.Sorted (fun a b => a ≤ b)) :
    l.headD 0 < 0 ↔ ∃ k ∈ l, k < 0 := by
  cases l with
  | nil => simp
  | cons a as =>
    simp only [List.headD_cons]
    constructor
    · intro h
      exact ⟨a, List.mem_cons_self _ _, h⟩
    · rintro ⟨k, hk, hneg⟩
      rcases List.mem_cons.1 hk with rfl | hk
      · exact hneg
      · have := List.rel_of_sorted_cons hs k hk
        omega

instance keyTotal : IsTotal (Int × Value) (fun a b => a.1 ≤ b.1) :=
  ⟨fun a b => le_total a.1 b.1⟩

instance keyTrans : IsTrans (Int × Value) (fun a b => a.1 ≤ b.1) :=
  ⟨fun _ _ _ h1 h2 => le_trans h1 h2⟩

theorem CoinSort_2_keys_sorted (l : List (Int × Value)) :
    ((CoinSort_2 l).map Prod.fst).Sorted (fun a b => a ≤ b) := by
  unfold CoinSort_2
  have := List.sorted_insertionSort (fun a b : Int × Value => a.1 ≤ b.1) l
  exact List.pairwise_map.2 this

theorem CoinSort_2_perm (l : List (Int × Value)) : (CoinSort_2 l).Perm l :=
  List.perm_insertionSort _ l

/-- The keys that `sortAndCheck` examines are rejected exactly when the batch is bad. -/
theorem checked_keys_bad_iff (indices : List Int) (elements : List Value)
    (hne : indices ≠ []) :
    let entries := entriesOf indices.length indices elements
    let entries' := if sortedFrom (-1) (entries.map Prod.fst) = false then CoinSort_2 entries
      else entries
    ((entries'.map Prod.fst).headD 0 < 0 ∨ duplicateFrom (-1) (entries'.map Prod.fst) = true) ↔
      BadIndices indices := by
  intro entries entries'
  have hkeys : entries.map Prod.fst = indices := entriesOf_keys indices elements
  by_cases hs : sortedFrom (-1) (entries.map Prod.fst) = false
  · have he : entries' = CoinSort_2 entries := if_pos hs
    have hperm : (entries'.map Prod.fst).Perm indices := by
      rw [he, ← hkeys]
      exact (CoinSort_2_perm entries).map _
    have hsorted : (entries'.map Prod.fst).Sorted (fun a b => a ≤ b) := by
      rw [he]; exact CoinSort_2_keys_sorted entries
    rw [head_negative_iff _ hsorted]
    have hneg : (∃ k ∈ entries'.map Prod.fst, k < 0) ↔ ∃ k ∈ indices, k < 0 := by
      constructor
      · rintro ⟨k, hk, h⟩; exact ⟨k, hperm.mem_iff.1 hk, h⟩
      · rintro ⟨k, hk, h⟩; exact ⟨k, hperm.mem_iff.2 hk, h⟩
    unfold BadIndices
    by_cases hn : ∃ k ∈ indices, k < 0
    · exact ⟨fun _ => ⟨hne, Or.inl hn⟩, fun _ => Or.inl (hneg.2 hn)⟩
    · have hpos : ∀ k ∈ entries'.map Prod.fst, (-1 : Int) < k := by
        intro k hk
        by_contra hc
        exact hn ⟨k, hperm.mem_iff.1 hk, by omega⟩
      rw [duplicateFrom_spec _ _ hsorted hpos, hperm.nodup_iff]
      constructor
      · rintro (h | h)
        · exact absurd (hneg.1 h) hn
        · exact ⟨hne, Or.inr h⟩
      · rintro ⟨_, h | h⟩
        · exact absurd h hn
        · exact Or.inr h
  · have he : entries' = entries := if_neg hs
    have hs' : sortedFrom (-1) indices = true := by
      rw [hkeys] at hs
      simpa using hs
    obtain ⟨h1, h2, h3⟩ := sortedFrom_spec indices (-1) hs'
    rw [he, hkeys, h3]
    unfold BadIndices
    have hhead : ¬ (indices.headD 0 < 0) := by
      cases indices with
      | nil => simp
      | cons a as =>
        have := h1 a (List.mem_cons_self _ _)
        simp only [List.headD_cons]; omega
    have hn : ¬ ∃ k ∈ indices, k < 0 := by
      rintro ⟨k, hk, h⟩
      have := h1 k hk
      omega
    constructor
    · rintro (h | h)
      · exact absurd h hhead
      · cases h
    · rintro ⟨_, h | h⟩
      · exact absurd h hn
      · exact absurd h2 h

theorem keeps_addRowMode (m : CoinModel) (h : m.type_ ≠ 3) :
    (addRowMode m).Returns (Keeps m) := by
  unfold addRowMode
  split_ifs
  · exact Outcome.returns_mono
      (keeps_resize { m with type_ := 0 } _ _ _ (by decide : (0 : Int) ≠ 3))
      (fun a ha => Keeps.trans
        (keeps_of_eq m { m with type_ := 0 } rfl rfl (by decide : (0 : Int) ≠ 3) rfl rfl
          (fun _ h => h) (fun _ h => h)) ha)
  · exact Outcome.returns_returned (keeps_createList m 1)
  · exact Outcome.returns_returned (Keeps.refl m h)

theorem keeps_addColumnMode (m : CoinModel) (h : m.type_ ≠ 3) :
    (addColumnMode m).Returns (Keeps m) := by
  unfold addColumnMode
  split_ifs
  · exact Outcome.returns_mono
      (keeps_resize { m with type_ := 1 } _ _ _ (by decide : (1 : Int) ≠ 3))
      (fun a ha => Keeps.trans
        (keeps_of_eq m { m with type_ := 1 } rfl rfl (by decide : (1 : Int) ≠ 3) rfl rfl
          (fun _ h => h) (fun _ h => h)) ha)
  · exact Outcome.returns_returned (keeps_createList m 2)
  · exact Outcome.returns_returned (Keeps.refl m h)

theorem length_pos_of_ne_nil {l : List Int} (h : l ≠ []) : (l.length : Int) > 0 := by
  cases l with
  | nil => exact absurd rfl h
  | cons a as => simp only [List.length_cons]; omega

/-- A bad batch makes `sortAndCheck` abort; only the sort buffer size has changed. -/
theorem sortAndCheck_bad (m : CoinModel) (indices : List Int) (elements : List Value)
    (hb : BadIndices indices) :
    (sortAndCheck m indices.length indices elements).Aborts
      (fun m' => SameFields m m' ∧ m'.type_ = m.type_) := by
  have hkey := (checked_keys_bad_iff indices elements hb.1).2 hb
  have hpos := length_pos_of_ne_nil hb.1
  unfold sortAndCheck
  rw [if_pos hpos]
  dsimp only at hkey ⊢
  have hsame : ∀ m' : CoinModel, m' = (if (indices.length : Int) > m.sortSize_ then
      { m with sortSize_ := (indices.length : Int) + 100 } else m) →
      SameFields m m' ∧ m'.type_ = m.type_ := by
    intro m' hm'
    subst hm'
    split_ifs <;>
      exact ⟨⟨rfl, rfl, rfl, rfl, rfl, rfl, rfl, rfl, rfl, rfl, rfl, rfl, rfl⟩, rfl⟩
  rcases hkey with h | h
  · rw [if_pos h]
    exact ⟨_, rfl, hsame _ rfl⟩
  · by_cases h0 : (List.map Prod.fst
        (if sortedFrom (-1) (List.map Prod.fst (entriesOf (↑indices.length) indices elements)) =
            false then CoinSort_2 (entriesOf (↑indices.length) indices elements)
          else entriesOf (↑indices.length) indices elements)).headD 0 < 0
    · rw [if_pos h0]
      exact ⟨_, rfl, hsame _ rfl⟩
    · rw [if_neg h0, if_pos h]
      exact ⟨_, rfl, hsame _ rfl⟩

/-- A good batch passes `sortAndCheck`; only the sort buffer size has changed. -/
theorem sortAndCheck_good (m : CoinModel) (indices : List Int) (elements : List Value)
    (hb : ¬ BadIndices indices) :
    (sortAndCheck m indices.length indices elements).Returns
      (fun r => SameFields m r.1 ∧ r.1.type_ = m.type_) := by
  have hsame : ∀ m' : CoinModel, m' = (if (indices.length : Int) > m.sortSize_ then
      { m with sortSize_ := (indices.length : Int) + 100 } else m) →
      SameFields m m' ∧ m'.type_ = m.type_ := by
    intro m' hm'
    subst hm'
    split_ifs <;>
      exact ⟨⟨rfl, rfl, rfl, rfl, rfl, rfl, rfl, rfl, rfl, rfl, rfl, rfl, rfl⟩, rfl⟩
  unfold sortAndCheck
  by_cases hne : indices = []
  · subst hne
    rw [if_neg (by simp)]
    exact ⟨_, rfl, ⟨rfl, rfl, rfl, rfl, rfl, rfl, rfl, rfl, rfl, rfl, rfl, rfl, rfl⟩, rfl⟩
  · have hkey := (checked_keys_bad_iff indices elements hne).not.2 hb
    have hpos := length_pos_of_ne_nil hne
    rw [if_pos hpos]
    dsimp only at hkey ⊢
    rw [not_or] at hkey
    rw [if_neg hkey.1, if_neg hkey.2]
    exact ⟨_, rfl, hsame _ rfl⟩

/-- The storing part of `addRow` returns on every model that is not externally
packed. -/
theorem addRowStore_returns (m : CoinModel) (n : Int) (es : List (Int × Value))
    (newColumn : Int) (lo up : Value) (name : Option String) (h : m.type_ ≠ 3) :
    (addRowStore m n es newColumn lo up name).Returns (fun _ => True) := by
  unfold addRowStore
  dsimp only
  apply Outcome.returns_bind (P := fun (x : CoinModel) => x.type_ ≠ 3)
  · split_ifs
    all_goals first
      | exact Outcome.returns_returned h
      | exact Outcome.returns_mono (keeps_resize m _ _ _ h) (fun a ha => ha.2.2.1)
  · intro a ha
    apply Outcome.returns_bind (P := fun (x : CoinModel) => x.type_ ≠ 3)
    · exact Outcome.returns_mono (keeps_fillRows a _ _ _ ha) (fun b hb => hb.2.2.1)
    · intro b hb
      apply Outcome.returns_bind (P := fun (_ : CoinModel) => True)
      · cases name with
        | none =>
          dsimp only
          split_ifs
          all_goals
            exact Outcome.returns_mono (keeps_fillColumns _ _ _ _ hb) (fun _ _ => trivial)
        | some s =>
          exact Outcome.returns_mono (keeps_fillColumns _ _ _ _ hb) (fun _ _ => trivial)
      · intro c _
        exact Outcome.returns_returned trivial

/-- The storing part of `addColumn` returns on every model that is not externally
packed. -/
theorem addColumnStore_returns (m : CoinModel) (n : Int) (es : List (Int × Value))
    (newRow : Int) (lo up obj : Value) (name : Option String) (isInt : Bool)
    (h : m.type_ ≠ 3) :
    (addColumnStore m n es newRow lo up obj name isInt).Returns (fun _ => True) := by
  unfold addColumnStore
  dsimp only
  apply Outcome.returns_bind (P := fun (x : CoinModel) => x.type_ ≠ 3)
  · split_ifs
    all_goals first
      | exact Outcome.returns_returned h
      | exact Outcome.returns_mono (keeps_resize m _ _ _ h) (fun a ha => ha.2.2.1)
  · intro a ha
    apply Outcome.returns_bind (P := fun (x : CoinModel) => x.type_ ≠ 3)
    · exact Outcome.returns_mono (keeps_fillColumns a _ _ _ ha) (fun b hb => hb.2.2.1)
    · intro b hb
      apply Outcome.returns_bind (P := fun (_ : CoinModel) => True)
      · cases name with
        | none =>
          dsimp only
          split_ifs
          all_goals
            exact Outcome.returns_mono (keeps_fillRows _ _ _ _ hb) (fun _ _ => trivial)
        | some s =>
          exact Outcome.returns_mono (keeps_fillRows _ _ _ _ hb) (fun _ _ => trivial)
      · intro c _
        exact Outcome.returns_returned trivial

theorem Outcome.isAborted_of_aborts {α : Type} {o : Outcome α} {P : CoinModel → Prop}
    (h : o.Aborts P) : o.isAborted = true ∧ o.isReturned = false := by
  obtain ⟨m, rfl, _⟩ := h
  exact ⟨rfl, rfl⟩

theorem Outcome.isReturned_of_returns {α : Type} {o : Outcome α} {P : α → Prop}
    (h : o.Returns P) : o.isReturned = true ∧ o.isAborted = false := by
  obtain ⟨a, rfl, _⟩ := h
  exact ⟨rfl, rfl⟩

theorem Outcome.aborts_bind_of_returns {α β : Type} {o : Outcome α} {f : α → Outcome β}
    {P : α → Prop} {Q : CoinModel → Prop} (h : o.Returns P)
    (hf : ∀ a, P a → (f a).Aborts Q) : (o.bind f).Aborts Q := by
  obtain ⟨a, rfl, ha⟩ := h
  exact hf a ha

theorem Outcome.aborts_bind {α β : Type} {o : Outcome α} {f : α → Outcome β}
    {Q : CoinModel → Prop} (h : o.Aborts Q) : (o.bind f).Aborts Q := by
  obtain ⟨m, rfl, hm⟩ := h
  exact ⟨m, rfl, hm⟩

/-- `addRow` with a good batch returns. -/
theorem addRow_good (m : CoinModel) (h : m.type_ ≠ 3) (indices : List Int)
    (elements : List Value) (lo up : Value) (name : Option String)
    (hb : ¬ BadIndices indices) :
    (addRow m indices.length indices elements lo up name).Returns (fun _ => True) := by
  unfold addRow
  apply Outcome.returns_bind (keeps_addRowMode m h)
  intro a ha
  apply Outcome.returns_bind (sortAndCheck_good a indices elements hb)
  rintro ⟨b, es, nc⟩ hb'
  exact addRowStore_returns b _ es nc lo up name (by rw [hb'.2]; exact ha.2.2.1)

/-- `addColumn` with a good batch returns. -/
theorem addColumn_good (m : CoinModel) (h : m.type_ ≠ 3) (indices : List Int)
    (elements : List Value) (lo up obj : Value) (name : Option String) (isInt : Bool)
    (hb : ¬ BadIndices indices) :
    (addColumn m indices.length indices elements lo up obj name isInt).Returns
      (fun _ => True) := by
  unfold addColumn
  apply Outcome.returns_bind (keeps_addColumnMode m h)
  intro a ha
  apply Outcome.returns_bind (sortAndCheck_good a indices elements hb)
  rintro ⟨b, es, nc⟩ hb'
  exact addColumnStore_returns b _ es nc lo up obj name isInt (by rw [hb'.2]; exact ha.2.2.1)

/-- `addRow` with a bad batch aborts, in the state that its first block produced (up to
the size of the sort buffers). -/
theorem addRow_bad (m : CoinModel) (indices : List Int) (elements : List Value)
    (lo up : Value) (name : Option String) (hb : BadIndices indices)
    (P : CoinModel → Prop) (hP : (addRowMode m).Returns P) :
    (addRow m indices.length indices elements lo up name).Aborts
      (fun m' => ∃ a, P a ∧ SameFields a m' ∧ m'.type_ = a.type_) := by
  unfold addRow
  apply Outcome.aborts_bind_of_returns hP
  intro a ha
  apply Outcome.aborts_bind
  obtain ⟨m', h1, h2⟩ := sortAndCheck_bad a indices elements hb
  exact ⟨m', h1, a, ha, h2⟩

/-- `addColumn` with a bad batch aborts, in the state that its first block produced (up
to the size of the sort buffers). -/
theorem addColumn_bad (m : CoinModel) (indices : List Int) (elements : List Value)
    (lo up obj : Value) (name : Option String) (isInt : Bool) (hb : BadIndices indices)
    (P : CoinModel → Prop) (hP : (addColumnMode m).Returns P) :
    (addColumn m indices.length indices elements lo up obj name isInt).Aborts
      (fun m' => ∃ a, P a ∧ SameFields a m' ∧ m'.type_ = a.type_) := by
  unfold addColumn
  apply Outcome.aborts_bind_of_returns hP
  intro a ha
  apply Outcome.aborts_bind
  obtain ⟨m', h1, h2⟩ := sortAndCheck_bad a indices elements hb
  exact ⟨m', h1, a, ha, h2⟩

theorem sameFields_trans {a b c : CoinModel} (h1 : SameFields a b) (h2 : SameFields b c) :
    SameFields a c := by
  obtain ⟨a1, a2, a3, a4, a5, a6, a7, a8, a9, a10, a11, a12, a13⟩ := h1
  obtain ⟨b1, b2, b3, b4, b5, b6, b7, b8, b9, b10, b11, b12, b13⟩ := h2
  exact ⟨b1.trans a1, b2.trans a2, b3.trans a3, b4.trans a4, b5.trans a5, b6.trans a6,
    b7.trans a7, b8.trans a8, b9.trans a9, b10.trans a10, b11.trans a11, b12.trans a12,
    b13.trans a13⟩

theorem sameContent_of_sameFields {m m' : CoinModel} (h : SameFields m m') :
    SameContent m m' ∧ SameCapacity m m' := by
  obtain ⟨a1, a2, a3, a4, a5, a6, a7, a8, a9, a10, a11, a12, a13⟩ := h
  refine ⟨⟨a1, a2, a3, fun p _ _ => by rw [a4], fun i _ => ?_⟩, a11, a12, a13⟩
  unfold getRowLower getRowUpper getColumnLower getColumnUpper getColumnObjective
    getColumnIsInteger
  rw [a1, a2, a5, a6, a7, a8, a9, a10]
  exact ⟨rfl, rfl, rfl, rfl, rfl, rfl⟩

theorem sameContent_of_empty {m m' : CoinModel} (h1 : m.numberRows_ = 0)
    (h2 : m.numberColumns_ = 0) (h3 : m.numberElements_ = 0) (h1' : m'.numberRows_ = 0)
    (h2' : m'.numberColumns_ = 0) (h3' : m'.numberElements_ = 0) : SameContent m m' := by
  refine ⟨by rw [h1, h1'], by rw [h2, h2'], by rw [h3, h3'], ?_, fun i hi => ?_⟩
  · intro p hp0 hp
    rw [h3] at hp
    omega
  · unfold getRowLower getRowUpper getColumnLower getColumnUpper getColumnObjective
      getColumnIsInteger
    rw [h1, h2, h1', h2']
    have hn : ∀ P : Prop, ¬ (i < 0 ∧ P) := fun P h => by omega
    simp only [hn, if_false, and_self]

theorem createList_type (m : CoinModel) (t : Int) : (createList m t).type_ = 2 := by
  unfold createList
  dsimp only
  split_ifs <;> rfl

theorem sameFields_createList (m : CoinModel) (t : Int) : SameFields m (createList m t) := by
  unfold createList
  dsimp only
  split_ifs <;> exact ⟨rfl, rfl, rfl, rfl, rfl, rfl, rfl, rfl, rfl, rfl, rfl, rfl, rfl⟩

theorem addRowMode_same (m : CoinModel) (h1 : m.type_ ≠ -1) (h3 : m.type_ ≠ 3) :
    (addRowMode m).Returns
      (fun a => SameFields m a ∧ (a.type_ = m.type_ ∨ (m.type_ = 1 ∧ a.type_ = 2))) := by
  unfold addRowMode
  rw [if_neg h1]
  split_ifs with ht
  · exact Outcome.returns_returned
      ⟨sameFields_createList m 1, Or.inr ⟨ht, createList_type m 1⟩⟩
  · exact Outcome.returns_returned
      ⟨⟨rfl, rfl, rfl, rfl, rfl, rfl, rfl, rfl, rfl, rfl, rfl, rfl, rfl⟩, Or.inl rfl⟩

theorem addColumnMode_same (m : CoinModel) (h1 : m.type_ ≠ -1) (h3 : m.type_ ≠ 3) :
    (addColumnMode m).Returns
      (fun a => SameFields m a ∧ (a.type_ = m.type_ ∨ (m.type_ = 0 ∧ a.type_ = 2))) := by
  unfold addColumnMode
  rw [if_neg h1]
  split_ifs with ht
  · exact Outcome.returns_returned
      ⟨sameFields_createList m 2, Or.inr ⟨ht, createList_type m 2⟩⟩
  · exact Outcome.returns_returned
      ⟨⟨rfl, rfl, rfl, rfl, rfl, rfl, rfl, rfl, rfl, rfl, rfl, rfl, rfl⟩, Or.inl rfl⟩

theorem addRowMode_default :
    (addRowMode CoinModel.default).Returns
      (fun a => a.numberRows_ = 0 ∧ a.numberColumns_ = 0 ∧ a.numberElements_ = 0) := by
  decide!

theorem addColumnMode_default :
    (addColumnMode CoinModel.default).Returns
      (fun a => a.numberRows_ = 0 ∧ a.numberColumns_ = 0 ∧ a.numberElements_ = 0) := by
  decide!

/-! ### The export loops -/

theorem positionsBelow_succ (k : Nat) :
    positionsBelow ((k : Int) + 1) = positionsBelow k ++ [(k : Int)] := by
  unfold positionsBelow
  have h1 : ((k : Int) + 1).toNat = k + 1 := by omega
  have h2 : (k : Int).toNat = k := by omega
  rw [h1, h2, List.range_succ, List.map_append]
  rfl

theorem positionsBelow_nonpos {n : Int} (h : n ≤ 0) : positionsBelow n = [] := by
  unfold positionsBelow
  have : n.toNat = 0 := by omega
  rw [this]
  rfl

theorem positionsBelow_nodup (n : Int) : (positionsBelow n).Nodup := by
  unfold positionsBelow
  exact (List.nodup_range _).map (fun a b h => by simpa using h)

theorem positionsBelow_length (n : Int) : (positionsBelow n).length = n.toNat := by
  unfold positionsBelow
  simp

/-- The number of non-deleted triples of column `c` among the positions `l`. -/
theorem countStep_fold (E : Int → CoinModelTriple) (c : Int) :
    ∀ (l : List Int) (s : (Int → Int) × Int),
      (l.foldl (countStep E) s).1 c =
        s.1 c + (l.countP (fun p => decide (0 ≤ (E p).column) && decide ((E p).column = c)))
  | [], s => by simp
  | p :: l, s => by
    rw [List.foldl_cons, countStep_fold E c l, List.countP_cons]
    by_cases h0 : (E p).column ≥ 0
    · by_cases hc : (E p).column = c
      · have hd : (decide (0 ≤ (E p).column) && decide ((E p).column = c)) = true := by
          simp only [Bool.and_eq_true, decide_eq_true_eq]
          exact ⟨h0, hc⟩
        have hs : (countStep E s p).1 c = s.1 c + 1 := by
          unfold countStep
          simp only [h0, if_true]
          rw [← hc, Function.update_same]
        rw [hd, hs, if_pos rfl]
        push_cast
        omega
      · have hd : (decide (0 ≤ (E p).column) && decide ((E p).column = c)) = false := by
          simp [hc]
        have hs : (countStep E s p).1 c = s.1 c := by
          unfold countStep
          simp only [h0, if_true]
          rw [Function.update_noteq (Ne.symm hc)]
        rw [hd, hs, if_neg (by simp)]
        push_cast
        omega
    · have hd : (decide (0 ≤ (E p).column) && decide ((E p).column = c)) = false := by
        have : ¬ (0 ≤ (E p).column) := by omega
        simp [this]
      have hs : (countStep E s p).1 c = s.1 c := by
        unfold countStep
        simp only [h0, if_false]
      rw [hd, hs, if_neg (by simp)]
      push_cast
      omega

theorem countLengths_eq (E : Int → CoinModelTriple) (n c : Int) :
    (countLengths E n).1 c =
      ((positionsBelow n).countP
        (fun p => decide (0 ≤ (E p).column) && decide ((E p).column = c)) : Nat) := by
  unfold countLengths
  rw [countStep_fold]
  simp

theorem buildStarts_spec (L : Int → Int) : ∀ (k : Nat),
    buildStarts k L 0 = 0 ∧ ∀ i : Int, 0 ≤ i → i < k →
      buildStarts k L (i + 1) = buildStarts k L i + L i
  | 0 => by
    refine ⟨?_, fun i h0 h1 => by omega⟩
    unfold buildStarts
    rw [positionsBelow_nonpos (by simp)]
    simp
  | k + 1 => by
    obtain ⟨ih0, ih⟩ := buildStarts_spec L k
    have hstep : buildStarts ((k : Int) + 1) L =
        Function.update (buildStarts k L) ((k : Int) + 1) (buildStarts k L k + L k) := by
      unfold buildStarts
      rw [positionsBelow_succ, List.foldl_append]
      rfl
    have hcast : ((k + 1 : Nat) : Int) = (k : Int) + 1 := by push_cast; rfl
    rw [hcast, hstep]
    refine ⟨?_, fun i h0 h1 => ?_⟩
    · rw [Function.update_noteq (by omega)]
      exact ih0
    · by_cases hik : i = k
      · subst hik
        rw [Function.update_same, Function.update_noteq (by omega)]
      · rw [Function.update_noteq (by omega), Function.update_noteq (by omega)]
        exact ih i h0 (by omega)

theorem buildStarts_step (L : Int → Int) (nc i : Int) (h0 : 0 ≤ i) (h1 : i < nc) :
    buildStarts nc L (i + 1) = buildStarts nc L i + L i := by
  have := (buildStarts_spec L nc.toNat).2 i h0 (by omega)
  have hc : ((nc.toNat : Nat) : Int) = nc := by omega
  rw [hc] at this
  exact this

theorem buildStarts_mono (L : Int → Int) (nc : Int) (hL : ∀ i, 0 ≤ L i) :
    ∀ (d : Nat) (a : Int), 0 ≤ a → a + d ≤ nc →
      buildStarts nc L a ≤ buildStarts nc L (a + d)
  | 0, a, _, _ => by simp
  | d + 1, a, h0, h1 => by
    have ih := buildStarts_mono L nc hL d a h0 (by push_cast at h1; omega)
    have hs := buildStarts_step L nc (a + d) (by omega) (by push_cast at h1; omega)
    have := hL (a + d)
    have hc : a + ((d + 1 : Nat) : Int) = a + d + 1 := by push_cast; ring
    rw [hc, hs]
    omega

/-- The storage areas of two different columns do not overlap. -/
theorem buildStarts_disjoint (L : Int → Int) (nc : Int) (hL : ∀ i, 0 ≤ L i) (c c' : Int)
    (h0 : 0 ≤ c) (h1 : c < c') (h2 : c' < nc) :
    buildStarts nc L c + L c ≤ buildStarts nc L c' := by
  have hs := buildStarts_step L nc c h0 (by omega)
  have hm := buildStarts_mono L nc hL (c' - (c + 1)).toNat (c + 1) (by omega) (by omega)
  have hc : c + 1 + ((c' - (c + 1)).toNat : Int) = c' := by omega
  rw [hc, hs] at hm
  exact hm

theorem fillStep_deleted (E : Int → CoinModelTriple) (assoc : Int → Value) (start : Int → Int)
    (s : FillState) (p : Int) (h : ¬ (0 ≤ (E p).column)) : fillStep E assoc start s p = s := by
  unfold fillStep
  dsimp only
  rw [if_neg (by simpa using h)]

theorem fillStep_zero (E : Int → CoinModelTriple) (assoc : Int → Value) (start : Int → Int)
    (s : FillState) (p : Int) (h : 0 ≤ (E p).column)
    (hz : resolvedValue assoc (E p) = 0) :
    (fillStep E assoc start s p).length = s.length ∧
    (fillStep E assoc start s p).numberElements = s.numberElements ∧
    (fillStep E assoc start s p).row = s.row ∧
    (fillStep E assoc start s p).element = s.element := by
  unfold resolvedValue at hz
  unfold fillStep
  dsimp only
  rw [if_pos (by simpa using h)]
  split_ifs at hz ⊢ <;> first
    | exact ⟨rfl, rfl, rfl, rfl⟩
    | (exfalso; simp_all)

theorem fillStep_stored (E : Int → CoinModelTriple) (assoc : Int → Value) (start : Int → Int)
    (s : FillState) (p : Int) (h : 0 ≤ (E p).column)
    (hz : resolvedValue assoc (E p) ≠ 0) :
    (fillStep E assoc start s p).length =
      Function.update s.length (E p).column (s.length (E p).column + 1) ∧
    (fillStep E assoc start s p).numberElements = s.numberElements + 1 ∧
    (fillStep E assoc start s p).row =
      Function.update s.row (start (E p).column + s.length (E p).column) (rowInTriple (E p)) ∧
    (fillStep E assoc start s p).element =
      Function.update s.element (start (E p).column + s.length (E p).column)
        (resolvedValue assoc (E p)) := by
  unfold resolvedValue at hz ⊢
  unfold fillStep
  dsimp only
  rw [if_pos (by simpa using h)]
  split_ifs at hz ⊢ <;> exact ⟨rfl, rfl, rfl, rfl⟩

theorem exportedTo_append (E : Int → CoinModelTriple) (assoc : Int → Value) (c : Int)
    (l : List Int) (p : Int) :
    exportedTo E assoc c (l ++ [p]) =
      exportedTo E assoc c l ++
        (if (E p).column = c ∧ resolvedValue assoc (E p) ≠ 0 then [p] else []) := by
  unfold exportedTo
  rw [List.filter_append]
  congr 1
  by_cases h : (E p).column = c ∧ resolvedValue assoc (E p) ≠ 0
  · rw [if_pos h]
    simp [List.filter_cons, h.1, h.2]
  · rw [if_neg h]
    rw [not_and_or] at h
    rcases h with h | h
    · simp [List.filter_cons, h]
    · simp only [ne_eq, not_not] at h
      simp [List.filter_cons, h]

theorem exported_append (E : Int → CoinModelTriple) (assoc : Int → Value)
    (l : List Int) (p : Int) :
    exported E assoc (l ++ [p]) =
      exported E assoc l ++
        (if 0 ≤ (E p).column ∧ resolvedValue assoc (E p) ≠ 0 then [p] else []) := by
  unfold exported
  rw [List.filter_append]
  congr 1
  by_cases h : 0 ≤ (E p).column ∧ resolvedValue assoc (E p) ≠ 0
  · rw [if_pos h]
    simp [List.filter_cons, h.1, h.2]
  · rw [if_neg h]
    rw [not_and_or] at h
    rcases h with h | h
    · simp [List.filter_cons, h]
    · simp only [ne_eq, not_not] at h
      simp [List.filter_cons, h]

theorem getElem?_append_singleton {l : List Int} {p q : Int} {k : Nat}
    (h : (l ++ [p])[k]? = some q) : l[k]? = some q ∨ (k = l.length ∧ q = p) := by
  by_cases hk : k < l.length
  · left
    rw [List.getElem?_append_left hk] at h
    exact h
  · right
    rw [List.getElem?_append_right (by omega)] at h
    by_cases h0 : k - l.length = 0
    · rw [h0] at h
      simp at h
      exact ⟨by omega, h.symm⟩
    · have : [p][k - l.length]? = none := by
        apply List.getElem?_eq_none
        simp
        omega
      rw [this] at h
      cases h

theorem getElem?_lt {l : List Int} {q : Int} {k : Nat} (h : l[k]? = some q) : k < l.length := by
  by_contra hc
  rw [List.getElem?_eq_none (by omega)] at h
  cases h

/-- One step of the fill loop keeps the invariant. -/
theorem fillInv_step (E : Int → CoinModelTriple) (assoc : Int → Value) (start : Int → Int)
    (nc : Int) (cap : Int → Int) (s : FillState) (done : List Int) (p : Int)
    (hinv : FillInv E assoc start nc s done)
    (hcol : (E p).column < nc)
    (hdis : ∀ c c', 0 ≤ c → c < c' → c' < nc → start c + cap c ≤ start c')
    (hcap : ∀ c, 0 ≤ c → c < nc → ((exportedTo E assoc c (done ++ [p])).length : Int) ≤ cap c) :
    FillInv E assoc start nc (fillStep E assoc start s p) (done ++ [p]) := by
  obtain ⟨hlen, hnum, hpos⟩ := hinv
  by_cases h0 : 0 ≤ (E p).column
  · by_cases hz : resolvedValue assoc (E p) = 0
    · obtain ⟨e1, e2, e3, e4⟩ := fillStep_zero E assoc start s p h0 hz
      refine ⟨fun c hc => ?_, ?_, fun c hc hc' k q hq => ?_⟩
      · rw [e1, exportedTo_append, if_neg (by simp [hz]), List.append_nil]
        exact hlen c hc
      · rw [e2, exported_append, if_neg (by simp [hz]), List.append_nil]
        exact hnum
      · rw [exportedTo_append, if_neg (by simp [hz]), List.append_nil] at hq
        rw [e3, e4]
        exact hpos c hc hc' k q hq
    · obtain ⟨e1, e2, e3, e4⟩ := fillStep_stored E assoc start s p h0 hz
      refine ⟨fun c hc => ?_, ?_, fun c hc hc' k q hq => ?_⟩
      · rw [e1, exportedTo_append]
        by_cases hcc : (E p).column = c
        · rw [if_pos ⟨hcc, hz⟩, ← hcc, Function.update_same, List.length_append,
            hlen _ h0]
          simp
        · rw [if_neg (by simp [hcc]), List.append_nil, Function.update_noteq (Ne.symm hcc)]
          exact hlen c hc
      · rw [e2, exported_append, if_pos ⟨h0, hz⟩, List.length_append, hnum]
        simp
      · rw [e3, e4]
        rw [exportedTo_append] at hq
        have hcapc := hcap c hc hc'
        have hcap0 := hcap _ h0 hcol
        rw [exportedTo_append, List.length_append] at hcapc hcap0
        rw [if_pos ⟨rfl, hz⟩] at hcap0
        simp only [List.length_singleton] at hcap0
        by_cases hcc : (E p).column = c
        · rw [if_pos ⟨hcc, hz⟩] at hq
          rcases getElem?_append_singleton hq with hq' | ⟨hk, rfl⟩
          · have hk := getElem?_lt hq'
            have hne : start c + (k : Int) ≠ start (E p).column + s.length (E p).column := by
              rw [hcc, hlen c hc]
              omega
            rw [Function.update_noteq hne, Function.update_noteq hne]
            exact hpos c hc hc' k q hq'
          · have heq : start c + (k : Int) = start (E q).column + s.length (E q).column := by
              rw [hcc, hlen c hc, hk]
            rw [heq, Function.update_same, Function.update_same]
            rfl
        · rw [if_neg (by simp [hcc]), List.append_nil] at hq
          rw [if_neg (by simp [hcc])] at hcapc
          simp only [List.length_nil, Nat.add_zero] at hcapc
          have hk := getElem?_lt hq
          have hne : start c + (k : Int) ≠ start (E p).column + s.length (E p).column := by
            rw [hlen _ h0]
            rcases lt_or_gt_of_ne hcc with hlt | hgt
            · have := hdis _ _ h0 hlt hc'
              omega
            · have := hdis _ _ hc hgt hcol
              omega
          rw [Function.update_noteq hne, Function.update_noteq hne]
          exact hpos c hc hc' k q hq
  · rw [fillStep_deleted E assoc start s p h0]
    refine ⟨fun c hc => ?_, ?_, fun c hc hc' k q hq => ?_⟩
    · rw [exportedTo_append, if_neg (by intro h; rw [h.1] at h0; exact h0 hc), List.append_nil]
      exact hlen c hc
    · rw [exported_append, if_neg (by intro h; exact h0 h.1), List.append_nil]
      exact hnum
    · rw [exportedTo_append, if_neg (by intro h; rw [h.1] at h0; exact h0 hc),
        List.append_nil] at hq
      exact hpos c hc hc' k q hq

/-- The fill loop establishes the invariant for all the positions it runs over. -/
theorem fillInv_fold (E : Int → CoinModelTriple) (assoc : Int → Value) (start : Int → Int)
    (nc : Int) (cap : Int → Int)
    (hdis : ∀ c c', 0 ≤ c → c < c' → c' < nc → start c + cap c ≤ start c') :
    ∀ (rest done : List Int) (s : FillState), FillInv E assoc start nc s done →
      (∀ p ∈ rest, (E p).column < nc) →
      (∀ c, 0 ≤ c → c < nc →
        ((exportedTo E assoc c (done ++ rest)).length : Int) ≤ cap c) →
      FillInv E assoc start nc (rest.foldl (fillStep E assoc start) s) (done ++ rest)
  | [], done, s, hinv, _, _ => by
    rw [List.append_nil]
    exact hinv
  | p :: rest, done, s, hinv, hcol, hcap => by
    have happ : done ++ p :: rest = (done ++ [p]) ++ rest := by simp
    rw [List.foldl_cons, happ]
    apply fillInv_fold E assoc start nc cap hdis rest (done ++ [p])
    · apply fillInv_step E assoc start nc cap s done p hinv (hcol p (List.mem_cons_self _ _)) hdis
      intro c hc hc'
      have := hcap c hc hc'
      rw [happ] at this
      refine le_trans ?_ this
      unfold exportedTo
      rw [List.filter_append (done ++ [p]) rest]
      simp
    · intro q hq
      exact hcol q (List.mem_cons_of_mem _ hq)
    · rw [← happ]
      exact hcap

theorem map_getD_positionsBelow {α : Type} (xs : List α) (n : Int) (d : α)
    (h : xs.length = n.toNat) :
    (positionsBelow n).map (fun k => xs.getD k.toNat d) = xs := by
  unfold positionsBelow
  rw [List.map_map, ← h]
  apply List.ext_getElem
  · simp
  · intro j h1 h2
    simp only [List.getElem_map, List.getElem_range, Function.comp, Int.ofNat_eq_coe,
      Int.toNat_ofNat]
    exact List.getD_eq_getElem _ _ h2

theorem segment_congr (start length : Int → Int) (re re' : (Int → Int) × (Int → Value))
    (c : Int)
    (h : ∀ q, start c ≤ q → q < start c + length c → re'.1 q = re.1 q ∧ re'.2 q = re.2 q) :
    segment start length re' c = segment start length re c := by
  unfold segment
  apply List.map_congr_left
  intro k hk
  have hk' := mem_positionsBelow.1 hk
  have := h (start c + k) (by omega) (by omega)
  rw [this.1, this.2]

theorem segment_length (start length : Int → Int) (re : (Int → Int) × (Int → Value))
    (c : Int) : (segment start length re c).length = (length c).toNat := by
  unfold segment
  rw [List.length_map, positionsBelow_length]

theorem sortColumn_frame (start length : Int → Int) (re : (Int → Int) × (Int → Value))
    (i q : Int) (h : ¬ (start i ≤ q ∧ q < start i + length i)) :
    (sortColumn start length re i).1 q = re.1 q ∧ (sortColumn start length re i).2 q = re.2 q := by
  unfold sortColumn
  dsimp only
  rw [if_neg h, if_neg h]
  exact ⟨rfl, rfl⟩

theorem sortColumn_segment (start length : Int → Int) (re : (Int → Int) × (Int → Value))
    (i : Int) :
    segment start length (sortColumn start length re i) i =
      CoinSort_2 (segment start length re i) := by
  have hlen : (CoinSort_2 (segment start length re i)).length = (length i).toNat := by
    rw [(CoinSort_2_perm _).length_eq, segment_length]
  conv_rhs => rw [← map_getD_positionsBelow _ (length i) (0, 0) hlen]
  unfold segment sortColumn
  dsimp only
  apply List.map_congr_left
  intro k hk
  have hk' := mem_positionsBelow.1 hk
  have hr : start i ≤ start i + k ∧ start i + k < start i + length i := by
    constructor <;> omega
  rw [if_pos hr, if_pos hr]
  have : (start i + k - start i).toNat = k.toNat := by
    congr 1
    omega
  rw [this]

/-- The sorting loop sorts the area of every column it visits and touches nothing
else, provided the areas of the columns in `S` do not overlap. -/
theorem sortColumn_fold (start length : Int → Int) (S : Int → Prop)
    (hdis : ∀ c c', S c → S c' → c ≠ c' → ∀ q, start c ≤ q → q < start c + length c →
      ¬ (start c' ≤ q ∧ q < start c' + length c')) :
    ∀ (cs : List Int) (re : (Int → Int) × (Int → Value)), cs.Nodup → (∀ i ∈ cs, S i) →
      (∀ q, (∀ i ∈ cs, ¬ (start i ≤ q ∧ q < start i + length i)) →
        (cs.foldl (sortColumn start length) re).1 q = re.1 q ∧
        (cs.foldl (sortColumn start length) re).2 q = re.2 q) ∧
      (∀ c ∈ cs, segment start length (cs.foldl (sortColumn start length) re) c =
        CoinSort_2 (segment start length re c))
  | [], re, _, _ => ⟨fun _ _ => ⟨rfl, rfl⟩, fun c hc => by cases hc⟩
  | c0 :: cs, re, hnd, hS => by
    obtain ⟨hc0, hnd'⟩ := List.nodup_cons.1 hnd
    have hS' : ∀ i ∈ cs, S i := fun i hi => hS i (List.mem_cons_of_mem _ hi)
    have hS0 : S c0 := hS c0 (List.mem_cons_self _ _)
    obtain ⟨ih1, ih2⟩ :=
      sortColumn_fold start length S hdis cs (sortColumn start length re c0) hnd' hS'
    rw [List.foldl_cons]
    refine ⟨fun q hq => ?_, fun c hc => ?_⟩
    · have h1 := ih1 q (fun i hi => hq i (List.mem_cons_of_mem _ hi))
      have h2 := sortColumn_frame start length re c0 q (hq c0 (List.mem_cons_self _ _))
      exact ⟨h1.1.trans h2.1, h1.2.trans h2.2⟩
    · rcases List.mem_cons.1 hc with rfl | hc
      · rw [← sortColumn_segment]
        apply segment_congr
        intro q hq1 hq2
        apply ih1 q
        intro i hi
        have hne : c ≠ i := fun h => hc0 (h ▸ hi)
        exact hdis c i hS0 (hS' i hi) hne q hq1 hq2
      · rw [ih2 c hc]
        congr 1
        apply segment_congr
        intro q hq1 hq2
        apply sortColumn_frame
        have hne : c ≠ c0 := fun h => hc0 (h ▸ hc)
        exact hdis c c0 (hS' c hc) hS0 hne q hq1 hq2

theorem exportedTo_length_le (E : Int → CoinModelTriple) (assoc : Int → Value) (n c : Int)
    (hc : 0 ≤ c) :
    ((exportedTo E assoc c (positionsBelow n)).length : Int) ≤ (countLengths E n).1 c := by
  rw [countLengths_eq]
  unfold exportedTo
  rw [← List.countP_eq_length_filter]
  have := List.countP_mono_left (l := positionsBelow n)
    (p := fun p => decide ((E p).column = c) &&
      decide (resolvedValue assoc (E p) ≠ 0))
    (q := fun p => decide (0 ≤ (E p).column) && decide ((E p).column = c))
    (fun x _ hx => by
      simp only [Bool.and_eq_true, decide_eq_true_eq] at hx ⊢
      exact ⟨by rw [hx.1]; exact hc, hx.1⟩)
  exact_mod_cast this

theorem fillInv_init (E : Int → CoinModelTriple) (assoc : Int → Value) (start : Int → Int)
    (nc : Int) :
    FillInv E assoc start nc ⟨0, 0, fun _ => 0, fun _ => 0, fun _ => 0⟩ [] := by
  refine ⟨fun c _ => rfl, rfl, fun c _ _ k p h => ?_⟩
  simp [exportedTo] at h

/-- After the fill loop and the sorting loop the area of column `c` holds, in some
order, the entries of the exported triples of that column. -/
theorem sorted_segment_perm (E : Int → CoinModelTriple) (assoc : Int → Value)
    (start : Int → Int) (nc : Int) (s : FillState) (all : List Int)
    (hinv : FillInv E assoc start nc s all)
    (hdis : ∀ a b, (0 ≤ a ∧ a < nc) → (0 ≤ b ∧ b < nc) → a ≠ b → ∀ q,
      start a ≤ q → q < start a + s.length a → ¬ (start b ≤ q ∧ q < start b + s.length b))
    (c : Int) (hc : 0 ≤ c) (hc' : c < nc) :
    (segment start s.length
      ((positionsBelow nc).foldl (sortColumn start s.length) (s.row, s.element)) c).Perm
      ((exportedTo E assoc c all).map (exportEntry E assoc)) := by
  obtain ⟨hlen, _, hpos⟩ := hinv
  have hfold := (sortColumn_fold start s.length (fun i => 0 ≤ i ∧ i < nc) hdis
    (positionsBelow nc) (s.row, s.element) (positionsBelow_nodup nc)
    (fun i hi => mem_positionsBelow.1 hi)).2 c (mem_positionsBelow.2 ⟨hc, hc'⟩)
  rw [hfold]
  refine (CoinSort_2_perm _).trans ?_
  apply List.Perm.of_eq
  unfold segment
  dsimp only
  rw [hlen c hc]
  have hmap := map_getD_positionsBelow (exportedTo E assoc c all)
    ((exportedTo E assoc c all).length : Int) 0 (by simp)
  conv_rhs => rw [← hmap, List.map_map]
  apply List.map_congr_left
  intro k hk
  have hk' := mem_positionsBelow.1 hk
  have hkl : k.toNat < (exportedTo E assoc c all).length := by omega
  have hget : (exportedTo E assoc c all)[k.toNat]? =
      some ((exportedTo E assoc c all).getD k.toNat 0) := by
    rw [List.getD_eq_getElem _ _ hkl, List.getElem?_eq_getElem hkl]
  have := hpos c hc hc' k.toNat _ hget
  have hkk : ((k.toNat : Nat) : Int) = k := by omega
  rw [hkk] at this
  exact this

/-- What `createPackedMatrix` exports: the number of stored elements is the number of
non-deleted triples with a non-zero resolved value, and column `c` holds, in some order,
the entries of exactly those triples of column `c`. -/
theorem exportMatrix_spec (nr nc n : Int) (E : Int → CoinModelTriple) (assoc : Int → Value)
    (hcol : ∀ p, 0 ≤ p → p < n → (E p).column < nc) :
    (exportMatrix nr nc n E assoc).1.numberElements =
      ((exported E assoc (positionsBelow n)).length : Int) ∧
    ∀ c, 0 ≤ c → c < nc →
      ((exportMatrix nr nc n E assoc).1.column c).Perm
        ((exportedTo E assoc c (positionsBelow n)).map (exportEntry E assoc)) := by
  have hL : ∀ i, 0 ≤ (countLengths E n).1 i := by
    intro i
    rw [countLengths_eq]
    exact Int.ofNat_nonneg _
  have hdis0 := buildStarts_disjoint (countLengths E n).1 nc hL
  have hinv : FillInv E assoc (buildStarts nc (countLengths E n).1) nc
      ((positionsBelow n).foldl (fillStep E assoc (buildStarts nc (countLengths E n).1))
        ⟨0, 0, fun _ => 0, fun _ => 0, fun _ => 0⟩) ([] ++ positionsBelow n) := by
    apply fillInv_fold E assoc _ nc (countLengths E n).1 hdis0 _ _ _ (fillInv_init E assoc _ nc)
    · intro p hp
      have := mem_positionsBelow.1 hp
      exact hcol p this.1 this.2
    · intro c hc _
      rw [List.nil_append]
      exact exportedTo_length_le E assoc n c hc
  rw [List.nil_append] at hinv
  refine ⟨hinv.2.1, fun c hc hc' => ?_⟩
  apply sorted_segment_perm E assoc _ nc _ (positionsBelow n) hinv _ c hc hc'
  intro a b ha hb hab q h1 h2
  have la := hinv.1 a ha.1
  have la' := exportedTo_length_le E assoc n a ha.1
  have lb := hinv.1 b hb.1
  have lb' := exportedTo_length_le E assoc n b hb.1
  rcases lt_or_gt_of_ne hab with hlt | hgt
  · have := hdis0 a b ha.1 hlt hb.2
    omega
  · have := hdis0 b a hb.1 hgt ha.2
    omega

/-! ### `resize` does not lower the row and column counts -/

theorem Outcome.returns_and {α : Type} {o : Outcome α} {P Q : α → Prop}
    (h1 : o.Returns P) (h2 : o.Returns Q) : o.Returns (fun a => P a ∧ Q a) := by
  obtain ⟨a, rfl, ha⟩ := h1
  obtain ⟨b, hb, hq⟩ := h2
  cases hb
  exact ⟨a, rfl, ha, hq⟩

theorem fillRowsFill_counts (m : CoinModel) (w : Int) :
    (fillRowsFill m w false).numberRows_ = max (w + 1) m.numberRows_ ∧
    (fillRowsFill m w false).numberColumns_ = m.numberColumns_ := by
  unfold fillRowsFill
  dsimp only
  rw [if_pos rfl]
  split_ifs
  all_goals exact ⟨rfl, rfl⟩

theorem fillColumnsFill_counts (m : CoinModel) (w : Int) :
    (fillColumnsFill m w false).numberColumns_ = max (w + 1) m.numberColumns_ ∧
    (fillColumnsFill m w false).numberRows_ = m.numberRows_ := by
  unfold fillColumnsFill
  dsimp only
  rw [if_pos rfl]
  split_ifs
  all_goals exact ⟨rfl, rfl⟩

theorem counts_fillRows_nested (m : CoinModel) (w : Int) (h1 : m.type_ ≠ -1)
    (h2 : m.rowLower_.isSome = true) (h3 : w < m.maximumRows_) :
    (fillRowsWith resizeStuck m w true false).Returns
      (fun m' => w + 1 ≤ m'.numberRows_ ∧ m'.numberColumns_ = m.numberColumns_) := by
  have h2' := isNone_of_isSome h2
  unfold fillRowsWith
  apply Outcome.returns_bind
    (P := fun (x : CoinModel × Int) => x.2 = w ∧ x.1.numberColumns_ = m.numberColumns_)
  · rw [if_pos (by simp)]
    unfold fillRowsCreate
    apply Outcome.returns_bind
      (P := fun (x : CoinModel) => x.numberColumns_ = m.numberColumns_ ∧
        x.rowLower_.isNone = false ∧ w < x.maximumRows_)
    · rw [if_neg h1]
      split_ifs
      · exact Outcome.returns_returned ⟨rfl, h2', h3⟩
      · exact Outcome.returns_returned ⟨rfl, h2', h3⟩
    · intro a ha
      apply Outcome.returns_bind
        (P := fun (x : CoinModel × Int) => x.2 = w ∧ x.1.numberColumns_ = m.numberColumns_ ∧
          x.2 < x.1.maximumRows_)
      · rw [if_neg (by simp [ha.2.1])]
        exact Outcome.returns_returned ⟨rfl, ha.1, ha.2.2⟩
      · rintro ⟨b, w'⟩ hb
        dsimp only at hb ⊢
        rw [if_neg (by omega)]
        exact Outcome.returns_returned ⟨hb.1, hb.2.1⟩
  · rintro ⟨a, w'⟩ ha
    dsimp only at ha ⊢
    have := fillRowsFill_counts a w'
    refine Outcome.returns_returned ⟨?_, ?_⟩
    · rw [this.1, ha.1]
      exact le_max_left _ _
    · rw [this.2, ha.2]

theorem counts_fillColumns_nested (m : CoinModel) (w : Int) (h1 : m.type_ ≠ -1)
    (h2 : m.objective_.isSome = true) (h3 : w < m.maximumColumns_) :
    (fillColumnsWith resizeStuck m w true false).Returns
      (fun m' => w + 1 ≤ m'.numberColumns_ ∧ m'.numberRows_ = m.numberRows_) := by
  have h2' := isNone_of_isSome h2
  unfold fillColumnsWith
  apply Outcome.returns_bind
    (P := fun (x : CoinModel × Int) => x.2 = w ∧ x.1.numberRows_ = m.numberRows_)
  · rw [if_pos (by simp)]
    unfold fillColumnsCreate
    apply Outcome.returns_bind
      (P := fun (x : CoinModel) => x.numberRows_ = m.numberRows_ ∧
        x.objective_.isNone = false ∧ w < x.maximumColumns_)
    · rw [if_neg h1]
      split_ifs
      · exact Outcome.returns_returned ⟨rfl, h2', h3⟩
      · exact Outcome.returns_returned ⟨rfl, h2', h3⟩
    · intro a ha
      apply Outcome.returns_bind
        (P := fun (x : CoinModel × Int) => x.2 = w ∧ x.1.numberRows_ = m.numberRows_ ∧
          x.2 < x.1.maximumColumns_)
      · rw [if_neg (by simp [ha.2.1])]
        exact Outcome.returns_returned ⟨rfl, ha.1, ha.2.2⟩
      · rintro ⟨b, w'⟩ hb
        dsimp only at hb ⊢
        rw [if_neg (by omega)]
        exact Outcome.returns_returned ⟨hb.1, hb.2.1⟩
  · rintro ⟨a, w'⟩ ha
    dsimp only at ha ⊢
    have := fillColumnsFill_counts a w'
    refine Outcome.returns_returned ⟨?_, ?_⟩
    · rw [this.1, ha.1]
      exact le_max_left _ _
    · rw [this.2, ha.2]

theorem counts_resizeRows (m : CoinModel) (R E : Int) (h : m.type_ ≠ 3) :
    (resizeRows (fillRowsWith resizeStuck) m R E).Returns
      (fun m' => m.numberRows_ ≤ m'.numberRows_ ∧ m'.numberColumns_ = m.numberColumns_) := by
  unfold resizeRows
  by_cases ht : m.type_ = 0 ∨ m.type_ = 2
  · rw [if_pos ht]
    dsimp only
    by_cases hR : max R m.numberRows_ > m.maximumRows_
    · rw [if_pos hR]
      have hlt : m.numberRows_ - 1 < max R m.numberRows_ := by
        have := le_max_right R m.numberRows_
        omega
      have hne : m.type_ ≠ -1 := by rcases ht with h' | h' <;> omega
      split_ifs
      all_goals first
        | exact Outcome.returns_returned ⟨le_refl _, rfl⟩
        | exact Outcome.returns_mono (counts_fillRows_nested _ _ hne rfl hlt)
            (fun a ha => ⟨by have h1 := ha.1; dsimp only at h1; omega, ha.2⟩)
    · rw [if_neg hR]
      exact Outcome.returns_returned ⟨le_refl _, rfl⟩
  · rw [if_neg ht, if_neg h]
    exact Outcome.returns_returned ⟨le_refl _, rfl⟩

theorem counts_resizeColumns (m : CoinModel) (C E : Int) :
    (resizeColumns (fillColumnsWith resizeStuck) m C E).Returns
      (fun m' => m.numberColumns_ ≤ m'.numberColumns_ ∧ m'.numberRows_ = m.numberRows_) := by
  unfold resizeColumns
  by_cases ht : m.type_ = 1 ∨ m.type_ = 2
  · rw [if_pos ht]
    dsimp only
    by_cases hR : max C m.numberColumns_ > m.maximumColumns_
    · rw [if_pos hR]
      have hlt : m.numberColumns_ - 1 < max C m.numberColumns_ := by
        have := le_max_right C m.numberColumns_
        omega
      have hne : m.type_ ≠ -1 := by rcases ht with h' | h' <;> omega
      split_ifs
      all_goals first
        | exact Outcome.returns_returned ⟨le_refl _, rfl⟩
        | exact Outcome.returns_mono (counts_fillColumns_nested _ _ hne rfl hlt)
            (fun a ha => ⟨by have h1 := ha.1; dsimp only at h1; omega, ha.2⟩)
    · rw [if_neg hR]
      exact Outcome.returns_returned ⟨le_refl _, rfl⟩
  · rw [if_neg ht]
    exact Outcome.returns_returned ⟨le_refl _, rfl⟩

theorem resizeElements_counts (m : CoinModel) (E : Int) :
    (resizeElements m E).numberRows_ = m.numberRows_ ∧
    (resizeElements m E).numberColumns_ = m.numberColumns_ := by
  unfold resizeElements
  by_cases h1 : E > m.maximumElements_
  · rw [if_pos h1]
    dsimp only
    constructor <;> split_ifs <;> rfl
  · rw [if_neg h1]
    exact ⟨rfl, rfl⟩

/-- `resize` does not lower the number of rows or columns. -/
theorem counts_resize (m : CoinModel) (R C E : Int) (h : m.type_ ≠ 3) :
    (resize m R C E).Returns
      (fun m' => m.numberRows_ ≤ m'.numberRows_ ∧ m.numberColumns_ ≤ m'.numberColumns_) := by
  unfold resize resizeWith
  dsimp only
  apply Outcome.returns_bind
    (Outcome.returns_and (counts_resizeRows m R _ h) (keeps_resizeRows m R _ h))
  intro a ha
  apply Outcome.returns_bind
    (Outcome.returns_and (counts_resizeColumns a C _) (keeps_resizeColumns a C _ ha.2.2.2.1))
  intro b hb
  rw [if_neg hb.2.2.2.1]
  refine Outcome.returns_returned ⟨?_, ?_⟩
  · rw [(resizeElements_counts b _).1, hb.1.2]
    exact ha.1.1
  · rw [(resizeElements_counts b _).2]
    have := hb.1.1
    have := ha.1.2
    omega

theorem exportedTo_congr {E E' : Int → CoinModelTriple} (assoc : Int → Value) (c : Int)
    (l : List Int) (h : ∀ p ∈ l, E' p = E p) :
    exportedTo E' assoc c l = exportedTo E assoc c l := by
  unfold exportedTo
  apply List.filter_congr
  intro p hp
  rw [h p hp]

theorem exported_congr {E E' : Int → CoinModelTriple} (assoc : Int → Value)
    (l : List Int) (h : ∀ p ∈ l, E' p = E p) :
    exported E' assoc l = exported E assoc l := by
  unfold exported
  apply List.filter_congr
  intro p hp
  rw [h p hp]

theorem exportEntries_congr {E E' : Int → CoinModelTriple} (assoc : Int → Value) (c : Int)
    (l : List Int) (h : ∀ p ∈ l, E' p = E p) :
    (exportedTo E' assoc c l).map (exportEntry E' assoc) =
      (exportedTo E assoc c l).map (exportEntry E assoc) := by
  rw [exportedTo_congr assoc c l h]
  apply List.map_congr_left
  intro p hp
  unfold exportEntry
  rw [h p (List.mem_of_mem_filter hp)]

/-! ### `setElement` -/

theorem find_unique {l : List Int} {f : Int → Bool} {p : Int} (hp : p ∈ l) (hf : f p = true)
    (hu : ∀ q ∈ l, f q = true → q = p) : l.find? f = some p := by
  induction l with
  | nil => cases hp
  | cons a t ih =>
    by_cases ha : f a = true
    · have := hu a (List.mem_cons_self _ _) ha
      rw [List.find?_cons_of_pos _ ha, this]
    · rw [List.find?_cons_of_neg _ ha]
      rcases List.mem_cons.1 hp with h | h
      · rw [h] at hf
        exact absurd hf ha
      · exact ih h (fun q hq => hu q (List.mem_cons_of_mem _ hq))

theorem hash_eq_of_unique (h : CoinModelHash2) (r c p : Int) (E : Int → CoinModelTriple)
    (hp : p ∈ h.index) (hf : holds (E p) r c = true)
    (hu : ∀ q ∈ h.index, holds (E q) r c = true → q = p) : h.hash r c E = p := by
  unfold CoinModelHash2.hash
  rw [find_unique hp hf hu]

theorem hash_absent (h : CoinModelHash2) (r c : Int) (E : Int → CoinModelTriple)
    (hn : ∀ q ∈ h.index, holds (E q) r c = false) : h.hash r c E = -1 := by
  unfold CoinModelHash2.hash
  have : h.index.find? (fun p => holds (E p) r c) = none := by
    rw [List.find?_eq_none]
    intro q hq
    rw [hn q hq]
    decide
  rw [this]

theorem hash_found (h : CoinModelHash2) (r c : Int) (E : Int → CoinModelTriple)
    (hpos : h.hash r c E ≥ 0) :
    h.hash r c E ∈ h.index ∧ holds (E (h.hash r c E)) r c = true := by
  unfold CoinModelHash2.hash at hpos ⊢
  cases hf : h.index.find? (fun p => holds (E p) r c) with
  | none =>
    rw [hf] at hpos
    exact absurd hpos (by decide)
  | some p =>
    have h2 : holds (E p) r c = true :=
      @List.find?_some _ (fun p => holds (E p) r c) p h.index hf
    exact ⟨List.mem_of_find?_eq_some hf, h2⟩

theorem hash_notfound (h : CoinModelHash2) (r c : Int) (E : Int → CoinModelTriple)
    (hneg : ¬ h.hash r c E ≥ 0) (hb : ∀ q ∈ h.index, 0 ≤ q) :
    ∀ q ∈ h.index, holds (E q) r c = false := by
  unfold CoinModelHash2.hash at hneg
  cases hf : h.index.find? (fun p => holds (E p) r c) with
  | none =>
    intro q hq
    have := List.find?_eq_none.1 hf q hq
    simpa using this
  | some p =>
    rw [hf] at hneg
    exact absurd (hb p (List.mem_of_find?_eq_some hf)) hneg

theorem buildHash_frame (m : CoinModel) (f : Bool) :
    (buildHash m f).elements_ = m.elements_ ∧
    (buildHash m f).numberElements_ = m.numberElements_ ∧
    ∀ q ∈ (buildHash m f).hashElements_.index,
      q ∈ m.hashElements_.index ∨ (0 ≤ q ∧ q < m.numberElements_) := by
  unfold buildHash
  split_ifs
  · refine ⟨rfl, rfl, ?_⟩
    intro q hq
    exact hash_resize_index _ _ _ _ q hq
  · exact ⟨rfl, rfl, fun q hq => Or.inl hq⟩

theorem buildHash_of_ne (m : CoinModel) (f : Bool) (h : m.hashElements_.numberItems_ ≠ 0) :
    buildHash m f = m := by
  unfold buildHash
  rw [if_neg (show ¬ m.hashElements_.numberItems = 0 from h)]

/-- A pair that no stored position holds reads as `0.0` and has position `-1`. -/
theorem absent_reads_zero (m : CoinModel) (r c : Int)
    (h1 : m.hashElements_.numberItems_ ≤ m.numberElements_)
    (h2 : ∀ q ∈ m.hashElements_.index, 0 ≤ q ∧ q < m.hashElements_.numberItems_)
    (ha : ∀ p, 0 ≤ p → p < m.numberElements_ → holds (m.elements_ p) r c = false) :
    (getElement m r c).1 = 0 ∧ (position m r c).1 = -1 := by
  have key : ∀ f, (buildHash m f).hashElements_.hash r c (buildHash m f).elements_ = -1 := by
    intro f
    obtain ⟨e1, _, e3⟩ := buildHash_frame m f
    apply hash_absent
    intro q hq
    rw [e1]
    rcases e3 q hq with h | h
    · have := h2 q h
      exact ha q this.1 (by omega)
    · exact ha q h.1 h.2
  constructor
  · unfold getElement
    dsimp only
    rw [key false]
    rfl
  · unfold position
    dsimp only
    exact key true

theorem createList_hash (m : CoinModel) (t : Int) :
    (createList m t).hashElements_ = m.hashElements_ ∧ (createList m t).links_ ≠ 0 := by
  unfold createList
  dsimp only
  split_ifs
  all_goals first
    | exact ⟨rfl, lor_one_ne_zero _⟩
    | exact ⟨rfl, lor_two_ne_zero _⟩

theorem resizeElements_capacity (m : CoinModel) (E : Int) :
    E ≤ (resizeElements m E).maximumElements_ := by
  unfold resizeElements
  by_cases h1 : E > m.maximumElements_
  · rw [if_pos h1]
    dsimp only
    split_ifs <;> exact le_refl _
  · rw [if_neg h1]
    omega

/-- After `resize(R, C, E)` the element capacity is at least `E`. -/
theorem capacity_resize (m : CoinModel) (R C E : Int) (h : m.type_ ≠ 3) :
    (resize m R C E).Returns (fun m' => E ≤ m'.maximumElements_) := by
  unfold resize resizeWith
  dsimp only
  apply Outcome.returns_bind (keeps_resizeRows m R _ h)
  intro a ha
  apply Outcome.returns_bind (keeps_resizeColumns a C _ ha.2.2.1)
  intro b hb
  rw [if_neg hb.2.2.1]
  exact Outcome.returns_returned
    (le_trans (le_max_left E m.maximumElements_) (resizeElements_capacity b _))

theorem hashOK_createList (m : CoinModel) (t r c : Int) (h : HashOK m r c) :
    HashOK (createList m t) r c := by
  obtain ⟨_, _, e3, e4, _⟩ := sameFields_createList m t
  have e5 := (createList_hash m t).1
  unfold HashOK
  rw [e3, e4, e5]
  exact h

/-- The first block of `setElement` returns on a usable model. -/
theorem setElementMode_spec (m : CoinModel) (r c : Int) (hm : Usable m) (hl : ListsOK m)
    (hh : HashOK m r c) :
    (setElementMode m).Returns fun a =>
      a.type_ ≠ 3 ∧ a.links_ ≠ 0 ∧ ListsOK a ∧ 0 < a.maximumElements_ ∧ HashOK a r c := by
  unfold setElementMode
  rcases hm with ⟨h1, hn⟩ | ⟨h1, hcap⟩
  · rw [if_pos h1]
    have h0 : ({ m with type_ := 0 } : CoinModel).type_ ≠ 3 := by
      show (0 : Int) ≠ 3
      decide
    apply Outcome.returns_bind
      (Outcome.returns_and (keeps_resize { m with type_ := 0 } 100 100 1000 h0)
        (capacity_resize { m with type_ := 0 } 100 100 1000 h0))
    rintro a ⟨hk, hc⟩
    obtain ⟨k1, k2, k3, k4, k5, k6, k7, k8⟩ := hk
    have hka : HashOK a r c := by
      refine ⟨le_trans hh.1 k6, ?_, ?_, ?_⟩
      · rw [k4, k1]
        exact hh.2.1
      · intro q hq
        rw [k4]
        rcases k5 q hq with h | h
        · exact hh.2.2.1 q h
        · exact h
      · intro p hp
        obtain ⟨hp0, hp⟩ := mem_positionsBelow.1 hp
        rw [k4] at hp
        have h2 : m.hashElements_.numberItems_ ≤ m.numberElements_ := hh.2.1
        have h3 : ({ m with type_ := 0 } : CoinModel).hashElements_.numberItems_ =
          m.hashElements_.numberItems_ := rfl
        omega
    refine Outcome.returns_returned ⟨?_, (createList_hash a 2).2, listsOK_createList a 2 (k8 hl),
      ?_, hashOK_createList a 2 r c hka⟩
    · rw [createList_type]
      decide
    · rw [(sameFields_createList a 2).2.2.2.2.2.2.2.2.2.2.2.2]
      omega
  · have hn1 : m.type_ ≠ -1 := by omega
    have hn3 : m.type_ ≠ 3 := by omega
    rw [if_neg hn1, if_neg hn3]
    have hcl : ∀ t, (createList m t).type_ ≠ 3 ∧ (createList m t).links_ ≠ 0 ∧
        ListsOK (createList m t) ∧ 0 < (createList m t).maximumElements_ ∧
        HashOK (createList m t) r c := by
      intro t
      refine ⟨?_, (createList_hash m t).2, listsOK_createList m t hl, ?_,
        hashOK_createList m t r c hh⟩
      · rw [createList_type]
        decide
      · rw [(sameFields_createList m t).2.2.2.2.2.2.2.2.2.2.2.2]
        exact hcap
    split_ifs with hl0 h02 h1'
    · exact Outcome.returns_returned (hcl 1)
    · exact Outcome.returns_returned (hcl 2)
    · exact Outcome.returns_returned ⟨hn3, by omega, hl, hcap, hh⟩
    · exact Outcome.returns_returned ⟨hn3, hl0, hl, hcap, hh⟩

/-- The sizing of the hash index in `setElement` leaves the state `Ready`. -/
theorem setElementHash_ready (a : CoinModel) (r c : Int) (hc : 0 ≤ c) (h3 : a.type_ ≠ 3)
    (hl0 : a.links_ ≠ 0) (hl : ListsOK a) (hcap : 0 < a.maximumElements_)
    (hh : HashOK a r c) : Ready (setElementHash a) r c := by
  unfold setElementHash
  by_cases h0 : a.hashElements_.maximumItems = 0
  · rw [if_pos h0]
    have h0' : a.hashElements_.maximumItems_ = 0 := h0
    have hne : ¬ (a.maximumElements_ ≤ a.hashElements_.maximumItems_ ∧ false = false) := by
      rw [h0']
      intro h
      omega
    refine ⟨h3, hl0, hl, ?_, ?_, ?_, ?_⟩
    · show 0 < (a.hashElements_.resize a.maximumElements_ a.elements_ false).maximumItems_
      unfold CoinModelHash2.resize
      rw [if_neg hne]
      exact lt_of_lt_of_le hcap (le_max_left _ _)
    · show (a.hashElements_.resize a.maximumElements_ a.elements_ false).numberItems_ ≤ _
      rw [hash_resize_numberItems]
      exact hh.2.1
    · intro q hq
      have hq' : q ∈ (a.hashElements_.resize a.maximumElements_ a.elements_ false).index := hq
      show 0 ≤ q ∧ q < (a.hashElements_.resize a.maximumElements_ a.elements_ false).numberItems_
      rw [hash_resize_numberItems]
      rcases hash_resize_index _ _ _ _ q hq' with h | h
      · exact hh.2.2.1 q h
      · exact h
    · intro p hp0 hp hhold
      have hp' : p < (a.hashElements_.resize a.maximumElements_ a.elements_ false).numberItems_ :=
        hp
      rw [hash_resize_numberItems] at hp'
      show p ∈ (a.hashElements_.resize a.maximumElements_ a.elements_ false).index
      unfold CoinModelHash2.resize
      rw [if_neg hne]
      apply List.mem_filter.2
      refine ⟨mem_positionsBelow.2 ⟨hp0, hp'⟩, ?_⟩
      have hh2 : holds (a.elements_ p) r c = true := hhold
      unfold holds at hh2
      simp only [Bool.and_eq_true, decide_eq_true_eq] at hh2
      simp only [decide_eq_true_eq]
      omega
  · rw [if_neg h0]
    have h0' : a.hashElements_.maximumItems_ ≠ 0 := h0
    have := hh.1
    exact ⟨h3, hl0, hl, by omega, hh.2.1, hh.2.2.1,
      fun p hp0 hp => hh.2.2.2 p (mem_positionsBelow.2 ⟨hp0, hp⟩)⟩

theorem holds_update_same (E : Int → CoinModelTriple) (p q r c : Int) (v : Value) :
    holds (Function.update E p (setStringInTriple { E p with value := v } false) q) r c =
      holds (E q) r c := by
  by_cases h : q = p
  · rw [h, Function.update_same]
    rfl
  · rw [Function.update_noteq h]

theorem hash_congr (h : CoinModelHash2) (r c : Int) (E' E : Int → CoinModelTriple)
    (hq : ∀ q, holds (E' q) r c = holds (E q) r c) : h.hash r c E' = h.hash r c E := by
  unfold CoinModelHash2.hash
  have : (fun p => holds (E' p) r c) = fun p => holds (E p) r c := funext hq
  rw [this]

/-- The branch of `setElement` for a pair that the hash index found: afterwards the
pair reads as the new value, at a valid position. -/
theorem setElement_found_reads (m : CoinModel) (r c : Int) (v : Value) (hR : Ready m r c)
    (hpos : m.hashElements_.hash r c m.elements_ ≥ 0) (m' : CoinModel)
    (hm' : m' = { m with elements_ := (Function.update m.elements_
      (m.hashElements_.hash r c m.elements_)
      (setStringInTriple { m.elements_ (m.hashElements_.hash r c m.elements_) with
        value := v } false)) }) :
    (getElement m' r c).1 = v ∧ 0 ≤ (position m' r c).1 ∧
      (position m' r c).1 < m'.numberElements_ := by
  obtain ⟨_, _, _, _, h1, h2, _⟩ := hR
  obtain ⟨hmem, hhold⟩ := hash_found _ r c _ hpos
  have hb := h2 _ hmem
  have hni : m'.hashElements_.numberItems_ ≠ 0 := by
    rw [hm']
    show m.hashElements_.numberItems_ ≠ 0
    omega
  have hlook : m'.hashElements_.hash r c m'.elements_ = m.hashElements_.hash r c m.elements_ := by
    rw [hm']
    show m.hashElements_.hash r c (Function.update m.elements_ _ _) = _
    exact hash_congr _ r c _ _ (fun q => holds_update_same _ _ _ _ _ _)
  have hval : (m'.elements_ (m.hashElements_.hash r c m.elements_)).value = v := by
    rw [hm']
    show (Function.update m.elements_ _ _ _).value = v
    rw [Function.update_same]
    rfl
  have hne : m'.numberElements_ = m.numberElements_ := by
    rw [hm']
  refine ⟨?_, ?_, ?_⟩
  · unfold getElement
    dsimp only
    rw [buildHash_of_ne m' false hni, hlook, if_pos hpos]
    exact hval
  · unfold position
    dsimp only
    rw [buildHash_of_ne m' true hni, hlook]
    exact hpos
  · unfold position
    dsimp only
    rw [buildHash_of_ne m' true hni, hlook, hne]
    omega

theorem fresh_of_ready (m : CoinModel) (r c : Int) (hR : Ready m r c)
    (hneg : ¬ m.hashElements_.hash r c m.elements_ ≥ 0) : Fresh m r c := by
  obtain ⟨a1, a2, a3, a4, a5, a6, a7⟩ := hR
  have hn := hash_notfound _ r c _ hneg (fun q hq => (a6 q hq).1)
  refine ⟨a1, a2, a3, a4, a5, a6, ?_⟩
  intro p hp0 hp
  by_cases hh : holds (m.elements_ p) r c = true
  · exact absurd (hn p (a7 p hp0 hp hh)) (by rw [hh]; decide)
  · simpa using hh

theorem fresh_keeps {m d : CoinModel} (r c : Int) (hF : Fresh m r c) (hk : Keeps m d) :
    Fresh d r c := by
  obtain ⟨a1, a2, a3, a4, a5, a6, a7⟩ := hF
  obtain ⟨k1, k2, k3, k4, k5, k6, k7, k8⟩ := hk
  refine ⟨k3, k7 a2, k8 a3, lt_of_lt_of_le a4 k6, by rw [k4, k1]; exact a5, ?_, ?_⟩
  · intro q hq
    rw [k4]
    rcases k5 q hq with h | h
    · exact a6 q h
    · exact h
  · intro p hp0 hp
    rw [k4] at hp
    rw [k2 p hp0 (by omega)]
    exact a7 p hp0 hp

theorem takeSlot_spec {t : Int} {l : CoinModelLinkedList} {n : Int} (h : ListOK t l n) :
    0 ≤ l.takeSlot.1 ∧ ListOK t l.takeSlot.2 (max n (l.takeSlot.1 + 1)) := by
  unfold CoinModelLinkedList.takeSlot
  cases hf : l.free.getLast? with
  | none =>
    refine ⟨h.2.1, h.1, ?_, ?_, ?_⟩
    · show 0 ≤ l.numberElements_ + 1
      have := h.2.1
      omega
    · exact le_max_right _ _
    · intro p hp
      have := h.2.2.2 p hp
      exact ⟨this.1, lt_of_lt_of_le this.2 (le_max_left _ _)⟩
  | some p =>
    have hp : p ∈ l.free := List.mem_of_mem_getLast? hf
    refine ⟨(h.2.2.2 p hp).1, h.1, h.2.1, le_trans h.2.2.1 (le_max_left _ _), ?_⟩
    intro q hq
    have hq' : q ∈ l.free := List.mem_of_mem_dropLast hq
    have := h.2.2.2 q hq'
    exact ⟨this.1, lt_of_lt_of_le this.2 (le_max_left _ _)⟩

theorem addEasyStep_spec (l : CoinModelLinkedList) (n first i j : Int) (v : Value)
    (E : Int → CoinModelTriple) (H : CoinModelHash2) (hl : ListOK 0 l n) :
    ∃ put, 0 ≤ put ∧
      (CoinModelLinkedList.addEasyStep i true (first, l, E, H) (j, v)).2.2.1 =
        Function.update E put ⟨i, false, j, v⟩ ∧
      (CoinModelLinkedList.addEasyStep i true (first, l, E, H) (j, v)).2.2.2 =
        H.addHash put i j (Function.update E put ⟨i, false, j, v⟩) ∧
      put + 1 ≤ (CoinModelLinkedList.addEasyStep i true (first, l, E, H) (j, v)).2.1.numberElements_ := by
  obtain ⟨h0, h1⟩ := takeSlot_spec hl
  refine ⟨l.takeSlot.1, h0, ?_, ?_, ?_⟩
  · unfold CoinModelLinkedList.addEasyStep
    dsimp only
    rw [if_pos h1.1]
    rfl
  · unfold CoinModelLinkedList.addEasyStep
    dsimp only
    rw [if_pos h1.1, if_pos rfl]
    rfl
  · unfold CoinModelLinkedList.addEasyStep
    dsimp only
    exact le_max_right _ _

theorem addHardStep_spec (l : CoinModelLinkedList) (n first i j : Int) (v : Value)
    (E : Int → CoinModelTriple) (H : CoinModelHash2) (hl : ListOK 1 l n) :
    ∃ put, 0 ≤ put ∧
      (CoinModelLinkedList.addHardStep i true (first, l, E, H) (j, v)).2.2.1 =
        Function.update E put ⟨i, false, j, v⟩ ∧
      (CoinModelLinkedList.addHardStep i true (first, l, E, H) (j, v)).2.2.2 =
        H.addHash put i j (Function.update E put ⟨i, false, j, v⟩) ∧
      put + 1 ≤ (CoinModelLinkedList.addHardStep i true (first, l, E, H) (j, v)).2.1.numberElements_ := by
  obtain ⟨h0, h1⟩ := takeSlot_spec hl
  have hne : ¬ l.takeSlot.2.type_ = 0 := by
    rw [h1.1]
    decide
  refine ⟨l.takeSlot.1, h0, ?_, ?_, ?_⟩
  · unfold CoinModelLinkedList.addHardStep
    dsimp only
    rw [if_neg hne]
    rfl
  · unfold CoinModelLinkedList.addHardStep
    dsimp only
    rw [if_neg hne, if_pos rfl]
    rfl
  · unfold CoinModelLinkedList.addHardStep
    dsimp only
    exact le_max_right _ _

theorem addEasy_single (l : CoinModelLinkedList) (n i j : Int) (v : Value)
    (E : Int → CoinModelTriple) (H : CoinModelHash2) (hl : ListOK 0 l n)
    (hH : H.maximumItems_ ≠ 0) :
    ∃ put, 0 ≤ put ∧
      (l.addEasy i 1 [(j, v)] E H).2.2.1 = Function.update E put ⟨i, false, j, v⟩ ∧
      (l.addEasy i 1 [(j, v)] E H).2.2.2 =
        H.addHash put i j (Function.update E put ⟨i, false, j, v⟩) ∧
      put + 1 ≤ (l.addEasy i 1 [(j, v)] E H).2.1.numberElements_ := by
  have hd : decide (H.maximumItems ≠ 0) = true := by
    simp only [decide_eq_true_eq]
    exact hH
  unfold CoinModelLinkedList.addEasy
  dsimp only
  rw [if_pos (by decide : (1 : Int) ≠ 0), hd]
  have ht : List.take (1 : Int).toNat [(j, v)] = [(j, v)] := rfl
  rw [ht, List.foldl_cons, List.foldl_nil]
  apply addEasyStep_spec _ n
  split_ifs <;> exact hl

theorem addHard_single (l : CoinModelLinkedList) (n i j : Int) (v : Value)
    (E : Int → CoinModelTriple) (H : CoinModelHash2) (hl : ListOK 1 l n)
    (hH : H.maximumItems_ ≠ 0) :
    ∃ put, 0 ≤ put ∧
      (l.addHard i 1 [(j, v)] E H).2.2.1 = Function.update E put ⟨i, false, j, v⟩ ∧
      (l.addHard i 1 [(j, v)] E H).2.2.2 =
        H.addHash put i j (Function.update E put ⟨i, false, j, v⟩) ∧
      put + 1 ≤ (l.addHard i 1 [(j, v)] E H).2.1.numberElements_ := by
  have hd : decide (H.maximumItems ≠ 0) = true := by
    simp only [decide_eq_true_eq]
    exact hH
  unfold CoinModelLinkedList.addHard
  dsimp only
  rw [hd]
  have ht : List.take (1 : Int).toNat [(j, v)] = [(j, v)] := rfl
  rw [ht, List.foldl_cons, List.foldl_nil]
  exact addHardStep_spec _ n _ _ _ _ _ _ hl

theorem addHash_spec (H : CoinModelHash2) (put r c : Int) (E : Int → CoinModelTriple) :
    put + 1 ≤ (H.addHash put r c E).numberItems_ ∧ put ∈ (H.addHash put r c E).index ∧
    ∀ q ∈ (H.addHash put r c E).index,
      q = put ∨ q ∈ H.index ∨ (0 ≤ q ∧ q < H.numberItems_) := by
  unfold CoinModelHash2.addHash
  dsimp only
  refine ⟨le_max_right _ _, ?_, ?_⟩
  · split_ifs with h1 h2 h2
    · exact h2
    · exact List.mem_append_right _ (List.mem_singleton_self _)
    · exact h2
    · exact List.mem_append_right _ (List.mem_singleton_self _)
  · intro q hq
    split_ifs at hq with h1 h2 h2
    · exact Or.inr (hash_resize_index _ _ _ _ q hq)
    · rcases List.mem_append.1 hq with h | h
      · exact Or.inr (hash_resize_index _ _ _ _ q h)
      · exact Or.inl (List.mem_singleton.1 h)
    · exact Or.inr (Or.inl hq)
    · rcases List.mem_append.1 hq with h | h
      · exact Or.inr (Or.inl h)
      · exact Or.inl (List.mem_singleton.1 h)

/-- The last block of `setElement` stores the triple `(r, c, v)` in one slot and enters
that slot in the hash index. -/
theorem setElementStore_fields (d : CoinModel) (r c : Int) (v : Value) (hF : Fresh d r c) :
    ∃ put, 0 ≤ put ∧
      (setElementStore d r c v).elements_ = Function.update d.elements_ put ⟨r, false, c, v⟩ ∧
      (setElementStore d r c v).hashElements_ =
        d.hashElements_.addHash put r c (Function.update d.elements_ put ⟨r, false, c, v⟩) ∧
      put < (setElementStore d r c v).numberElements_ := by
  obtain ⟨_, a2, ⟨a3, _, a5, a6⟩, a4, _⟩ := hF
  have hH : d.hashElements_.maximumItems_ ≠ 0 := by omega
  rcases links_cases a3 with h0 | h0 | h0 | h0
  · exact absurd h0 a2
  · obtain ⟨put, p1, p2, p3, p4⟩ := addEasy_single d.rowList_ d.numberElements_ r c v
      d.elements_ d.hashElements_ (a5 (by rw [h0]; decide)) hH
    refine ⟨put, p1, ?_, ?_, ?_⟩
    · unfold setElementStore
      dsimp only
      rw [if_pos (by rw [h0]; decide), if_neg (by rw [h0]; decide)]
      exact p2
    · unfold setElementStore
      dsimp only
      rw [if_pos (by rw [h0]; decide), if_neg (by rw [h0]; decide)]
      exact p3
    · unfold setElementStore
      dsimp only
      rw [if_pos (by rw [h0]; decide), if_neg (by rw [h0]; decide)]
      exact lt_of_lt_of_le (by omega) (le_trans p4 (le_max_right _ _))
  · obtain ⟨put, p1, p2, p3, p4⟩ := addHard_single d.columnList_ d.numberElements_ r c v
      d.elements_ d.hashElements_ (a6 (by rw [h0]; decide)) hH
    refine ⟨put, p1, ?_, ?_, ?_⟩
    · unfold setElementStore
      dsimp only
      rw [if_neg (by rw [h0]; decide), if_pos h0]
      exact p2
    · unfold setElementStore
      dsimp only
      rw [if_neg (by rw [h0]; decide), if_pos h0]
      exact p3
    · unfold setElementStore
      dsimp only
      rw [if_neg (by rw [h0]; decide), if_pos h0]
      exact lt_of_lt_of_le (by omega) (le_trans p4 (le_max_right _ _))
  · obtain ⟨put, p1, p2, p3, p4⟩ := addEasy_single d.rowList_ d.numberElements_ r c v
      d.elements_ d.hashElements_ (a5 (by rw [h0]; decide)) hH
    refine ⟨put, p1, ?_, ?_, ?_⟩
    · unfold setElementStore
      dsimp only
      rw [if_pos (by rw [h0]; decide), if_pos h0]
      exact p2
    · unfold setElementStore
      dsimp only
      rw [if_pos (by rw [h0]; decide), if_pos h0]
      exact p3
    · unfold setElementStore
      dsimp only
      rw [if_pos (by rw [h0]; decide), if_pos h0]
      exact lt_of_lt_of_le (by omega) (le_trans p4 (le_max_right _ _))

theorem setElementStore_reads (d : CoinModel) (r c : Int) (v : Value) (hF : Fresh d r c) :
    (getElement (setElementStore d r c v) r c).1 = v ∧
    0 ≤ (position (setElementStore d r c v) r c).1 ∧
    (position (setElementStore d r c v) r c).1 < (setElementStore d r c v).numberElements_ := by
  obtain ⟨put, p1, p2, p3, p4⟩ := setElementStore_fields d r c v hF
  obtain ⟨_, _, _, _, _, a6, a7⟩ := hF
  obtain ⟨s1, s2, s3⟩ := addHash_spec d.hashElements_ put r c
    (Function.update d.elements_ put ⟨r, false, c, v⟩)
  have hni : (setElementStore d r c v).hashElements_.numberItems_ ≠ 0 := by
    rw [p3]
    omega
  have hlook : (setElementStore d r c v).hashElements_.hash r c
      (setElementStore d r c v).elements_ = put := by
    rw [p2, p3]
    apply hash_eq_of_unique _ _ _ _ _ s2
    · rw [Function.update_same]
      unfold holds rowInTriple
      simp
    · intro q hq hhold
      by_contra hne
      rw [Function.update_noteq hne] at hhold
      rcases s3 q hq with h | h | h
      · exact hne h
      · have := a6 q h
        rw [a7 q this.1 this.2] at hhold
        exact absurd hhold (by decide)
      · rw [a7 q h.1 h.2] at hhold
        exact absurd hhold (by decide)
  refine ⟨?_, ?_, ?_⟩
  · unfold getElement
    dsimp only
    rw [buildHash_of_ne _ false hni, hlook, if_pos p1, p2, Function.update_same]
  · unfold position
    dsimp only
    rw [buildHash_of_ne _ true hni, hlook]
    exact p1
  · unfold position
    dsimp only
    rw [buildHash_of_ne _ true hni, hlook]
    exact p4

theorem keeps_setElementGrow (m : CoinModel) (i j : Int) (h : m.type_ ≠ 3) :
    (setElementGrow m i j).Returns (Keeps m) := by
  unfold setElementGrow
  dsimp only
  split_ifs
  all_goals first
    | exact keeps_resize m _ _ _ h
    | exact Outcome.returns_returned (Keeps.refl m h)

/-- On a usable model whose lists and hash index are in step, `setElement(r, c, v)`
returns, and afterwards `getElement(r, c)` is `v` and `position(r, c)` is a slot below
`numberElements_`. -/
theorem setElement_reads (m : CoinModel) (r c : Int) (v : Value) (hc : 0 ≤ c)
    (hm : Usable m) (hl : ListsOK m) (hh : HashOK m r c) :
    (setElement m r c v).Returns fun m' =>
      (getElement m' r c).1 = v ∧ 0 ≤ (position m' r c).1 ∧
        (position m' r c).1 < m'.numberElements_ := by
  unfold setElement
  apply Outcome.returns_bind (setElementMode_spec m r c hm hl hh)
  rintro a ⟨b1, b2, b3, b4, b5⟩
  dsimp only
  have hR := setElementHash_ready a r c hc b1 b2 b3 b4 b5
  by_cases hpos : (setElementHash a).hashElements_.hash r c (setElementHash a).elements_ ≥ 0
  · rw [if_pos hpos]
    exact Outcome.returns_returned (setElement_found_reads _ r c v hR hpos _ rfl)
  · rw [if_neg hpos]
    have hF := fresh_of_ready _ r c hR hpos
    apply Outcome.returns_bind (keeps_setElementGrow _ r c hR.1)
    intro x hx
    apply Outcome.returns_bind (keeps_fillColumns x c false false hx.2.2.1)
    intro y hy
    apply Outcome.returns_bind (keeps_fillRows y r false false hy.2.2.1)
    intro z hz
    exact Outcome.returns_returned
      (setElementStore_reads z r c v (fresh_keeps r c hF (Keeps.trans (Keeps.trans hx hy) hz)))

/-! ### Error counts of the export and of `computeAssociated` -/

theorem fillStep_errors (E : Int → CoinModelTriple) (assoc : Int → Value) (start : Int → Int)
    (s : FillState) (p : Int) :
    (fillStep E assoc start s p).numberErrors =
      s.numberErrors + (if isUnresolved assoc (E p) = true then 1 else 0) := by
  unfold fillStep isUnresolved
  dsimp only
  by_cases h0 : (E p).column ≥ 0
  · rw [if_pos h0]
    by_cases hs : stringInTriple (E p) = true
    · by_cases hu : assoc (toInt (E p).value) = unsetValue
      · simp [h0, hs, hu]
      · simp [h0, hs, hu]
        split_ifs <;> rfl
    · simp [h0, hs]
      split_ifs <;> rfl
  · rw [if_neg h0]
    have : ¬ (0 ≤ (E p).column) := h0
    simp [this]

theorem fillStep_fold_errors (E : Int → CoinModelTriple) (assoc : Int → Value)
    (start : Int → Int) (l : List Int) (s : FillState) :
    (l.foldl (fillStep E assoc start) s).numberErrors =
      s.numberErrors + ((unresolved E assoc l).length : Int) := by
  induction l generalizing s with
  | nil => simp [unresolved]
  | cons p l ih =>
    rw [List.foldl_cons, ih, fillStep_errors]
    unfold unresolved
    by_cases h : isUnresolved assoc (E p) = true
    · rw [List.filter_cons, if_pos h, if_pos h]
      simp only [List.length_cons]
      push_cast
      ring
    · rw [List.filter_cons, if_neg h, if_neg h]
      ring

/-- The error count of the export is the number of non-deleted string triples whose
associated value is unset. -/
theorem exportMatrix_errors (nr nc n : Int) (E : Int → CoinModelTriple) (assoc : Int → Value) :
    (exportMatrix nr nc n E assoc).2 = ((unresolved E assoc (positionsBelow n)).length : Int) := by
  unfold exportMatrix
  dsimp only
  rw [fillStep_fold_errors]
  simp

theorem unresolved_congr {E E' : Int → CoinModelTriple} (assoc : Int → Value)
    (l : List Int) (h : ∀ p ∈ l, E' p = E p) :
    unresolved E' assoc l = unresolved E assoc l := by
  unfold unresolved
  apply List.filter_congr
  intro p hp
  rw [h p hp]

/-- `createPackedMatrix` returns on every model; on a model that is not externally
packed the stored triples are those of the model and the result is the export of
them. -/
theorem createPackedMatrix_returns (m : CoinModel) (M0 : CoinPackedMatrix)
    (assoc : Int → Value) :
    (createPackedMatrix m M0 assoc).Returns fun r =>
      (m.type_ = 3 → r = (m, M0, 0)) ∧
      (m.type_ ≠ 3 → Keeps m r.1 ∧ m.numberColumns_ ≤ r.1.numberColumns_ ∧
        m.numberRows_ ≤ r.1.numberRows_ ∧
        r.2 = exportMatrix r.1.numberRows_ r.1.numberColumns_ r.1.numberElements_
          r.1.elements_ assoc) := by
  unfold createPackedMatrix
  by_cases ht : m.type_ = 3
  · rw [if_pos ht]
    exact Outcome.returns_returned ⟨fun _ => rfl, fun h => absurd ht h⟩
  · rw [if_neg ht]
    have h2 : ({ m with type_ := 2 } : CoinModel).type_ ≠ 3 := by
      show (2 : Int) ≠ 3
      decide
    apply Outcome.returns_bind
      (Outcome.returns_and
        (keeps_resize { m with type_ := 2 } m.numberRows_ m.numberColumns_ m.numberElements_ h2)
        (counts_resize { m with type_ := 2 } m.numberRows_ m.numberColumns_ m.numberElements_
          h2))
    rintro a ⟨hk, hc⟩
    refine Outcome.returns_returned ⟨fun h => absurd h ht, fun _ => ⟨?_, hc.2, hc.1, rfl⟩⟩
    exact hk

/-- The export of a model that is not externally packed and whose stored triples lie in
columns below `numberColumns_`, in terms of the triples of the model: the error count,
the element count and the content of every column. -/
theorem createPackedMatrix_spec (m : CoinModel) (M0 : CoinPackedMatrix) (assoc : Int → Value)
    (ht : m.type_ ≠ 3)
    (hcol : ∀ p ∈ positionsBelow m.numberElements_,
      (m.elements_ p).column < m.numberColumns_) :
    (createPackedMatrix m M0 assoc).Returns fun r =>
      r.2.2 = ((unresolved m.elements_ assoc (positionsBelow m.numberElements_)).length : Int) ∧
      r.2.1.numberElements =
        ((exported m.elements_ assoc (positionsBelow m.numberElements_)).length : Int) ∧
      r.2.1.minorDim = r.1.numberRows_ ∧ r.2.1.majorDim = r.1.numberColumns_ ∧
      ∀ c, 0 ≤ c → c < m.numberColumns_ →
        (r.2.1.column c).Perm
          ((exportedTo m.elements_ assoc c (positionsBelow m.numberElements_)).map
            (exportEntry m.elements_ assoc)) := by
  apply Outcome.returns_mono (createPackedMatrix_returns m M0 assoc)
  rintro ⟨a, M, e⟩ ⟨_, h⟩
  obtain ⟨hk, hnc, _, hex⟩ := h ht
  dsimp only at hk hnc hex ⊢
  have hn : a.numberElements_ = m.numberElements_ := hk.1
  have hE : ∀ p ∈ positionsBelow m.numberElements_, a.elements_ p = m.elements_ p := by
    intro p hp
    rw [mem_positionsBelow] at hp
    exact hk.2.1 p hp.1 hp.2
  have hcol' : ∀ p, 0 ≤ p → p < a.numberElements_ →
      (a.elements_ p).column < a.numberColumns_ := by
    intro p h0 h1
    rw [hn] at h1
    have hp : p ∈ positionsBelow m.numberElements_ := mem_positionsBelow.2 ⟨h0, h1⟩
    rw [hE p hp]
    exact lt_of_lt_of_le (hcol p hp) hnc
  have hs := exportMatrix_spec a.numberRows_ a.numberColumns_ a.numberElements_ a.elements_
    assoc hcol'
  have he := exportMatrix_errors a.numberRows_ a.numberColumns_ a.numberElements_ a.elements_
    assoc
  rw [hn] at hs he
  rw [exported_congr assoc _ hE] at hs
  rw [unresolved_congr assoc _ hE] at he
  have hM : M = (exportMatrix a.numberRows_ a.numberColumns_ m.numberElements_ a.elements_
      assoc).1 := by
    have := congrArg Prod.fst hex
    rw [hn] at this
    exact this
  have hErr : e = (exportMatrix a.numberRows_ a.numberColumns_ m.numberElements_ a.elements_
      assoc).2 := by
    have := congrArg Prod.snd hex
    rw [hn] at this
    exact this
  refine ⟨by rw [hErr]; exact he, by rw [hM]; exact hs.1, by rw [hM]; rfl, by rw [hM]; rfl, ?_⟩
  intro c h0 h1
  have := hs.2 c h0 (lt_of_lt_of_le h1 hnc)
  rw [exportEntries_congr assoc c _ hE] at this
  rw [hM]
  exact this

theorem resolved_of_unresolved (assoc : Int → Value) (t : CoinModelTriple)
    (h : isUnresolved assoc t = true) : resolvedValue assoc t = 0 := by
  unfold isUnresolved at h
  simp only [Bool.and_eq_true, decide_eq_true_eq] at h
  unfold resolvedValue
  rw [if_pos h.1.2, if_pos h.2]

/-- The error count of `createPackedMatrix` in terms of the triples of the model. -/
theorem createPackedMatrix_errors (m : CoinModel) (M0 : CoinPackedMatrix)
    (assoc : Int → Value) :
    (createPackedMatrix m M0 assoc).Returns fun r =>
      r.2.2 = if m.type_ = 3 then 0
        else ((unresolved m.elements_ assoc (positionsBelow m.numberElements_)).length : Int) := by
  apply Outcome.returns_mono (createPackedMatrix_returns m M0 assoc)
  rintro ⟨a, M, e⟩ ⟨h3, h⟩
  by_cases ht : m.type_ = 3
  · rw [if_pos ht, h3 ht]
  · rw [if_neg ht]
    obtain ⟨hk, _, _, hex⟩ := h ht
    dsimp only at hk hex ⊢
    have hE : ∀ p ∈ positionsBelow m.numberElements_, a.elements_ p = m.elements_ p := by
      intro p hp
      rw [mem_positionsBelow] at hp
      exact hk.2.1 p hp.1 hp.2
    have he := exportMatrix_errors a.numberRows_ a.numberColumns_ a.numberElements_
      a.elements_ assoc
    rw [hk.1, unresolved_congr assoc _ hE] at he
    have := congrArg Prod.snd hex
    rw [hk.1] at this
    exact (show e = _ from this).trans he

theorem computeAssociatedStep_spec (m : CoinModel) (g : String → Value) (assoc : Int → Value)
    (s : (Int → Value) × Int) (i : Int) (hi : s.1 i = assoc i) :
    (computeAssociatedStep m g s i).2 =
      s.2 + (if isUnevaluated m g assoc i = true then 1 else 0) ∧
    ∀ j, j ≠ i → (computeAssociatedStep m g s i).1 j = s.1 j := by
  unfold computeAssociatedStep isUnevaluated
  cases hn : m.string_.name i with
  | none => simp
  | some n =>
    dsimp only
    by_cases hu : assoc i = unsetValue
    · rw [if_pos (by rw [hi]; exact hu)]
      by_cases hg : g n = unsetValue
      · rw [if_pos (by rw [Function.update_same]; exact hg)]
        refine ⟨by simp [hu, hg], fun j hj => Function.update_noteq hj _ _⟩
      · rw [if_neg (by rw [Function.update_same]; exact hg)]
        refine ⟨by simp [hu, hg], fun j hj => Function.update_noteq hj _ _⟩
    · rw [if_neg (by rw [hi]; exact hu)]
      exact ⟨by simp [hu], fun _ _ => rfl⟩

theorem computeAssociated_fold (m : CoinModel) (g : String → Value) (assoc : Int → Value) :
    ∀ (l : List Int), l.Nodup → ∀ (s : (Int → Value) × Int), (∀ i ∈ l, s.1 i = assoc i) →
      (l.foldl (computeAssociatedStep m g) s).2 =
        s.2 + ((unevaluated m g assoc l).length : Int)
  | [], _, s, _ => by simp [unevaluated]
  | i :: l, hnd, s, hs => by
    have hnd' := List.nodup_cons.1 hnd
    obtain ⟨h1, h2⟩ := computeAssociatedStep_spec m g assoc s i (hs i (List.mem_cons_self _ _))
    have hrest : ∀ j ∈ l, (computeAssociatedStep m g s i).1 j = assoc j := by
      intro j hj
      have hne : j ≠ i := fun h => hnd'.1 (h ▸ hj)
      rw [h2 j hne]
      exact hs j (List.mem_cons_of_mem _ hj)
    rw [List.foldl_cons, computeAssociated_fold m g assoc l hnd'.2 _ hrest, h1]
    unfold unevaluated
    rw [List.filter_cons]
    by_cases h : isUnevaluated m g assoc i = true
    · rw [if_pos h, if_pos h]
      simp only [List.length_cons]
      push_cast
      ring
    · rw [if_neg h, if_neg h]
      ring

/-- `computeAssociated` counts one error for every string of the table whose associated
value is unset and stays unset. -/
theorem computeAssociated_errors (m : CoinModel) (g : String → Value) (assoc : Int → Value) :
    (computeAssociated m g assoc).2 =
      ((unevaluated m g assoc (positionsBelow m.string_.numberItems)).length : Int) := by
  unfold computeAssociated
  have := computeAssociated_fold m g assoc (positionsBelow m.string_.numberItems)
    (positionsBelow_nodup _) (assoc, 0) (fun _ _ => rfl)
  rw [this]
  simp

/-! ### Packing -/

theorem packRank_succ (count : Int → Int) (k : Nat) :
    packRank count ((k : Int) + 1) =
      packRank count k + (if count k ≠ 0 then 1 else 0) := by
  unfold packRank
  rw [positionsBelow_succ, List.filter_append, List.length_append]
  by_cases h : count k ≠ 0
  · rw [if_pos h]
    simp [List.filter_cons, h]
  · rw [if_neg h]
    simp [List.filter_cons, h]

theorem packRank_zero (count : Int → Int) : packRank count 0 = 0 := by
  unfold packRank
  rw [positionsBelow_nonpos (le_refl _)]
  rfl

theorem packRank_nonneg (count : Int → Int) (i : Int) : 0 ≤ packRank count i := by
  unfold packRank
  exact Int.ofNat_nonneg _

theorem packRank_le (count : Int → Int) (k : Nat) : packRank count k ≤ k := by
  unfold packRank
  have h1 := List.length_filter_le (fun j => decide (count j ≠ 0)) (positionsBelow k)
  rw [positionsBelow_length] at h1
  have h2 : (k : Int).toNat = k := by omega
  rw [h2] at h1
  exact_mod_cast h1

/-- A loop whose body adds `w i` to cell `i` of an array of counts and touches no other
cell adds `w j` to every cell `j` it runs over. -/
theorem fold_marks (f : (Int → Int) → Int → (Int → Int)) (w : Int → Int)
    (hf : ∀ c i, f c i i = c i + w i ∧ ∀ j, j ≠ i → f c i j = c j) :
    ∀ (l : List Int), l.Nodup → ∀ (c : Int → Int) (j : Int),
      (l.foldl f c) j = c j + (if j ∈ l then w j else 0)
  | [], _, c, j => by simp
  | i :: l, hnd, c, j => by
    have hnd' := List.nodup_cons.1 hnd
    rw [List.foldl_cons, fold_marks f w hf l hnd'.2]
    by_cases hj : j = i
    · subst hj
      rw [(hf c j).1, if_neg hnd'.1, if_pos (List.mem_cons_self _ _)]
      ring
    · rw [(hf c i).2 j hj]
      by_cases hl : j ∈ l
      · rw [if_pos hl, if_pos (List.mem_cons_of_mem _ hl)]
      · rw [if_neg hl, if_neg (by simp [hj, hl])]

/-- The element counting loop of `packRows`/`packColumns` adds to cell `k` the number of
non-deleted triples with key `k`. -/
theorem packCount_fold (key : CoinModelTriple → Int) (E : Int → CoinModelTriple) (k : Int) :
    ∀ (l : List Int) (c : Int → Int),
      (l.foldl (packCount key E) c) k =
        c k + (l.countP (fun p => decide (0 ≤ (E p).column) && decide (key (E p) = k)))
  | [], c => by simp
  | p :: l, c => by
    rw [List.foldl_cons, packCount_fold key E k l, List.countP_cons]
    unfold packCount
    by_cases h0 : (E p).column ≥ 0
    · rw [if_pos h0]
      by_cases hk : key (E p) = k
      · rw [← hk, Function.update_same]
        simp [h0]
        ring
      · rw [Function.update_noteq (Ne.symm hk)]
        simp [hk]
    · rw [if_neg h0]
      have : ¬ (0 ≤ (E p).column) := h0
      simp [this]

theorem packRank_lt (count : Int → Int) (i : Int) (hi : 0 ≤ i) (hc : count i ≠ 0) :
    ∀ (k : Nat), i < k → packRank count i < packRank count k
  | 0, h => by omega
  | k + 1, h => by
    have hcast : ((k + 1 : Nat) : Int) = (k : Int) + 1 := by push_cast; rfl
    rw [hcast, packRank_succ]
    by_cases hik : i = k
    · rw [← hik, if_pos hc]
      omega
    · have := packRank_lt count i hi hc k (by omega)
      split_ifs <;> omega

/-- The renumbering loop of `packRows`/`packColumns`, seen through the counter `n` and the
array of new indices: after the indices below `k`, `n` is the number of kept indices, a
kept index has its rank as new index, any other index below `k` has `-1`. -/
theorem keep_fold_index {σ : Type} (step : σ → Int → σ) (nOf : σ → Int)
    (idx : σ → Int → Int)
    (hkeep : ∀ s i, idx s i ≠ 0 →
      nOf (step s i) = nOf s + 1 ∧ idx (step s i) = Function.update (idx s) i (nOf s))
    (hdrop : ∀ s i, idx s i = 0 →
      nOf (step s i) = nOf s ∧ idx (step s i) = Function.update (idx s) i (-1))
    (s0 : σ) (h0 : nOf s0 = 0) :
    ∀ (k : Nat),
      nOf ((positionsBelow k).foldl step s0) = packRank (idx s0) k ∧
      (∀ i : Int, 0 ≤ i → i < k → idx ((positionsBelow k).foldl step s0) i =
        if idx s0 i ≠ 0 then packRank (idx s0) i else -1) ∧
      (∀ i : Int, ¬ (0 ≤ i ∧ i < k) → idx ((positionsBelow k).foldl step s0) i = idx s0 i)
  | 0 => by
    rw [show ((0 : Nat) : Int) = 0 from rfl, positionsBelow_nonpos (le_refl _)]
    refine ⟨?_, fun i h1 h2 => by omega, fun _ _ => rfl⟩
    rw [packRank_zero]
    exact h0
  | k + 1 => by
    obtain ⟨ih1, ih2, ih3⟩ := keep_fold_index step nOf idx hkeep hdrop s0 h0 k
    have hcast : ((k + 1 : Nat) : Int) = (k : Int) + 1 := by push_cast; rfl
    rw [hcast, positionsBelow_succ, List.foldl_append, List.foldl_cons, List.foldl_nil]
    have hk : idx ((positionsBelow k).foldl step s0) k = idx s0 k :=
      ih3 k (by omega)
    by_cases hc : idx s0 k ≠ 0
    · obtain ⟨e1, e2⟩ := hkeep ((positionsBelow k).foldl step s0) k (by rw [hk]; exact hc)
      refine ⟨?_, ?_, ?_⟩
      · rw [e1, ih1, packRank_succ, if_pos hc]
      · intro i hi0 hi
        rw [e2]
        by_cases hik : i = k
        · rw [hik, Function.update_same, if_pos hc, ih1]
        · rw [Function.update_noteq hik]
          exact ih2 i hi0 (by omega)
      · intro i hi
        rw [e2, Function.update_noteq (by omega)]
        exact ih3 i (by omega)
    · have hc' : idx s0 k = 0 := by
        by_contra h
        exact hc h
      obtain ⟨e1, e2⟩ := hdrop ((positionsBelow k).foldl step s0) k (by rw [hk]; exact hc')
      refine ⟨?_, ?_, ?_⟩
      · rw [e1, ih1, packRank_succ, if_neg hc]
        ring
      · intro i hi0 hi
        rw [e2]
        by_cases hik : i = k
        · rw [hik, Function.update_same, if_neg hc]
        · rw [Function.update_noteq hik]
          exact ih2 i hi0 (by omega)
      · intro i hi
        rw [e2, Function.update_noteq (by omega)]
        exact ih3 i (by omega)

/-- The renumbering loop seen through one of the arrays it moves down: after the indices
below `k`, the cell of a kept index `i` is found at its rank, and the cells from the
number of kept indices on are as they were. -/
theorem keep_fold_array {σ α : Type} (step : σ → Int → σ) (nOf : σ → Int)
    (idx : σ → Int → Int) (arr : σ → Option (Int → α)) (junk : α)
    (hkeep : ∀ s i, idx s i ≠ 0 →
      nOf (step s i) = nOf s + 1 ∧ idx (step s i) = Function.update (idx s) i (nOf s) ∧
      arr (step s i) = store (arr s) (nOf s) (load (arr s) junk i))
    (hdrop : ∀ s i, idx s i = 0 →
      nOf (step s i) = nOf s ∧ idx (step s i) = Function.update (idx s) i (-1) ∧
      arr (step s i) = arr s)
    (s0 : σ) (h0 : nOf s0 = 0) :
    ∀ (k : Nat),
      (∀ i : Int, 0 ≤ i → i < k → idx s0 i ≠ 0 →
        load (arr ((positionsBelow k).foldl step s0)) junk (packRank (idx s0) i) =
          load (arr s0) junk i) ∧
      (∀ j, packRank (idx s0) k ≤ j →
        load (arr ((positionsBelow k).foldl step s0)) junk j = load (arr s0) junk j) ∧
      (arr ((positionsBelow k).foldl step s0)).isSome = (arr s0).isSome
  | 0 => by
    rw [show ((0 : Nat) : Int) = 0 from rfl, positionsBelow_nonpos (le_refl _)]
    exact ⟨fun i h1 h2 => by omega, fun _ _ => rfl, rfl⟩
  | k + 1 => by
    obtain ⟨ih1, ih2, ih3⟩ := keep_fold_array step nOf idx arr junk hkeep hdrop s0 h0 k
    obtain ⟨jn, _, jx⟩ := keep_fold_index step nOf idx
      (fun s i h => ⟨(hkeep s i h).1, (hkeep s i h).2.1⟩)
      (fun s i h => ⟨(hdrop s i h).1, (hdrop s i h).2.1⟩) s0 h0 k
    have hcast : ((k + 1 : Nat) : Int) = (k : Int) + 1 := by push_cast; rfl
    rw [hcast, positionsBelow_succ, List.foldl_append, List.foldl_cons, List.foldl_nil]
    have hk : idx ((positionsBelow k).foldl step s0) k = idx s0 k := jx k (by omega)
    have hle := packRank_le (idx s0) k
    have hload : ∀ (a : Option (Int → α)) (n : Int) (v : α) (j : Int),
        load (store a n v) junk j = if j = n then (if a.isSome then v else junk)
          else load a junk j := by
      intro a n v j
      cases a with
      | none => simp [store, load]
      | some f =>
        by_cases hj : j = n
        · subst hj
          simp [store, load]
        · simp [store, load, hj, Function.update_noteq hj]
    by_cases hc : idx s0 k ≠ 0
    · obtain ⟨_, _, e3⟩ := hkeep ((positionsBelow k).foldl step s0) k (by rw [hk]; exact hc)
      rw [e3, jn, packRank_succ, if_pos hc]
      have hsome : (arr ((positionsBelow k).foldl step s0)).isSome = true →
          load (arr ((positionsBelow k).foldl step s0)) junk k = load (arr s0) junk k :=
        fun _ => ih2 k hle
      refine ⟨?_, ?_, ?_⟩
      · intro i hi0 hi hci
        rw [hload]
        by_cases hik : i = k
        · rw [hik, if_pos rfl]
          cases hs : (arr ((positionsBelow k).foldl step s0)).isSome with
          | true =>
            simp only [if_true]
            exact ih2 k hle
          | false =>
            simp only [Bool.false_eq_true, if_false]
            have hn : (arr s0).isSome = false := by rw [← ih3, hs]
            cases ha : arr s0 with
            | none => rfl
            | some f => rw [ha] at hn; cases hn
        · have hlt : i < k := by omega
          have hrank := packRank_lt (idx s0) i hi0 hci k hlt
          rw [if_neg (by omega)]
          exact ih1 i hi0 hlt hci
      · intro j hj
        rw [hload, if_neg (by omega)]
        exact ih2 j (by omega)
      · cases ha : arr ((positionsBelow k).foldl step s0) with
        | none => rw [← ih3, ha]; rfl
        | some f => rw [← ih3, ha]; rfl
    · have hc' : idx s0 k = 0 := by
        by_contra h
        exact hc h
      obtain ⟨_, _, e3⟩ := hdrop ((positionsBelow k).foldl step s0) k (by rw [hk]; exact hc')
      rw [e3, packRank_succ, if_neg hc]
      refine ⟨?_, ?_, ih3⟩
      · intro i hi0 hi hci
        have hik : i ≠ k := fun h => hc (h ▸ hci)
        exact ih1 i hi0 (by omega) hci
      · intro j hj
        exact ih2 j (by omega)

/-- The positions among `l` that hold a non-deleted triple. -/
theorem storedPositions_eq (m : CoinModel) :
    storedPositions m =
      (positionsBelow m.numberElements_).filter (fun p => decide (0 ≤ (m.elements_ p).column)) :=
  rfl

theorem map_update_positionsBelow {α : Type} (f : Int → α) (n : Nat) (j : Int) (v : α)
    (hj : (n : Int) ≤ j) :
    (positionsBelow n).map (Function.update f j v) = (positionsBelow n).map f := by
  apply List.map_congr_left
  intro q hq
  have := mem_positionsBelow.1 hq
  rw [Function.update_noteq (by omega)]

/-- The loop of `packRows`/`packColumns` that moves the surviving triples to the front:
after the positions below `k` the counter is the number of non-deleted triples among
them, the front of the block holds their renumbered copies in order, and the block from
`k` on is as it was. -/
theorem packMove_fold (key : CoinModelTriple → Int)
    (renumber : CoinModelTriple → Int → CoinModelTriple) (newIndex : Int → Int)
    (E : Int → CoinModelTriple) :
    ∀ (k : Nat),
      ((positionsBelow k).foldl (packMove key renumber newIndex) (0, E)).1 =
        (((positionsBelow k).filter (fun p => decide (0 ≤ (E p).column))).length : Int) ∧
      (positionsBelow ((positionsBelow k).foldl (packMove key renumber newIndex) (0, E)).1).map
          ((positionsBelow k).foldl (packMove key renumber newIndex) (0, E)).2 =
        ((positionsBelow k).filter (fun p => decide (0 ≤ (E p).column))).map
          (fun p => renumber (E p) (newIndex (key (E p)))) ∧
      ∀ j : Int, (k : Int) ≤ j →
        ((positionsBelow k).foldl (packMove key renumber newIndex) (0, E)).2 j = E j
  | 0 => by
    rw [show ((0 : Nat) : Int) = 0 from rfl, positionsBelow_nonpos (le_refl _)]
    refine ⟨rfl, ?_, fun _ _ => rfl⟩
    simp [positionsBelow_nonpos (le_refl (0 : Int))]
  | k + 1 => by
    obtain ⟨ih1, ih2, ih3⟩ := packMove_fold key renumber newIndex E k
    have hcast : ((k + 1 : Nat) : Int) = (k : Int) + 1 := by push_cast; rfl
    rw [hcast, positionsBelow_succ, List.foldl_append, List.foldl_cons, List.foldl_nil,
      List.filter_append]
    generalize hs : (positionsBelow k).foldl (packMove key renumber newIndex) (0, E) = s
      at ih1 ih2 ih3 ⊢
    have hle : ((positionsBelow k).filter (fun p => decide (0 ≤ (E p).column))).length ≤ k := by
      have h1 := List.length_filter_le (fun p => decide (0 ≤ (E p).column)) (positionsBelow k)
      rw [positionsBelow_length] at h1
      have h2 : (k : Int).toNat = k := by omega
      rw [h2] at h1
      exact h1
    have hk : s.2 k = E k := ih3 k (le_refl _)
    unfold packMove
    by_cases hl : (E k).column ≥ 0
    · rw [if_pos (by rw [hk]; exact hl)]
      dsimp only
      have hf : List.filter (fun p => decide (0 ≤ (E p).column)) [(k : Int)] = [(k : Int)] := by
        simp [List.filter_cons, hl]
      rw [hf, Function.update_same, Function.update_idem]
      have hek : Function.update s.2 s.1 (s.2 k) k = E k := by
        by_cases h : (k : Int) = s.1
        · rw [h, Function.update_same, ← h, hk]
        · rw [Function.update_noteq h, hk]
      rw [hek, hk]
      refine ⟨?_, ?_, ?_⟩
      · rw [ih1]
        simp
      · rw [List.map_append, ← ih2, ih1]
        have : ((List.filter (fun p => decide (0 ≤ (E p).column)) (positionsBelow k)).length : Int)
            + 1 = (((List.filter (fun p => decide (0 ≤ (E p).column))
              (positionsBelow k)).length : Nat) : Int) + 1 := rfl
        rw [this, positionsBelow_succ, List.map_append, map_update_positionsBelow _ _ _ _
          (le_refl _)]
        simp
      · intro j hj
        rw [Function.update_noteq, ih3 j (by omega)]
        rw [ih1]
        have : ((List.filter (fun p => decide (0 ≤ (E p).column)) (positionsBelow k)).length : Int)
            ≤ k := by exact_mod_cast hle
        omega
    · rw [if_neg (by rw [hk]; exact hl)]
      have hf : List.filter (fun p => decide (0 ≤ (E p).column)) [(k : Int)] = [] := by
        have : ¬ (0 ≤ (E k).column) := hl
        simp [List.filter_cons, this]
      rw [hf, List.append_nil]
      exact ⟨ih1, ih2, fun j hj => ih3 j (by omega)⟩

theorem sameData_createList (m : CoinModel) (t : Int) : SameData m (createList m t) := by
  unfold createList
  dsimp only
  split_ifs <;>
    exact ⟨rfl, rfl, rfl, rfl, rfl, rfl, rfl, rfl, rfl, rfl, rfl, rfl, rfl, rfl, rfl, rfl,
      fun _ => (by decide : (2 : Int) ≠ 3)⟩

theorem SameData.compose {a b c : CoinModel} (h1 : SameData a b) (h2 : SameData b c) :
    SameData a c := by
  obtain ⟨a1, a2, a3, a4, a5, a6, a7, a8, a9, a10, a11, a12, a13, a14, a15, a16, a17⟩ := h1
  obtain ⟨b1, b2, b3, b4, b5, b6, b7, b8, b9, b10, b11, b12, b13, b14, b15, b16, b17⟩ := h2
  exact ⟨b1.trans a1, b2.trans a2, b3.trans a3, b4.trans a4, b5.trans a5, b6.trans a6,
    b7.trans a7, b8.trans a8, b9.trans a9, b10.trans a10, b11.trans a11, b12.trans a12,
    b13.trans a13, b14.trans a14, b15.trans a15, b16.trans a16, fun h => b17 (a17 h)⟩

theorem sameData_packStarts (m : CoinModel) : SameData m (packStarts m) := by
  unfold packStarts
  split_ifs <;>
    exact ⟨rfl, rfl, rfl, rfl, rfl, rfl, rfl, rfl, rfl, rfl, rfl, rfl, rfl, rfl, rfl, rfl,
      fun h => h⟩

theorem sameData_packRedo (m : CoinModel) : SameData m (packRedo m) := by
  have hid : ∀ a : CoinModel, SameData a a := fun a =>
    ⟨rfl, rfl, rfl, rfl, rfl, rfl, rfl, rfl, rfl, rfl, rfl, rfl, rfl, rfl, rfl, rfl, fun h => h⟩
  unfold packRedo
  dsimp only
  have h1 : SameData m (if m.hashElements_.numberItems ≠ 0 then
      { m with hashElements_ :=
          ((m.hashElements_.setNumberItems m.numberElements_).resize
            m.hashElements_.maximumItems m.elements_ true) }
    else m) := by
    split_ifs
    · exact ⟨rfl, rfl, rfl, rfl, rfl, rfl, rfl, rfl, rfl, rfl, rfl, rfl, rfl, rfl, rfl, rfl,
        fun h => h⟩
    · exact hid m
  generalize (if m.hashElements_.numberItems ≠ 0 then
      { m with hashElements_ :=
          ((m.hashElements_.setNumberItems m.numberElements_).resize
            m.hashElements_.maximumItems m.elements_ true) }
    else m) = a at h1 ⊢
  have h2 := SameData.compose h1 (sameData_packStarts a)
  generalize packStarts a = b at h2 ⊢
  have h3 : SameData b (if b.links_ &&& 1 ≠ 0 then
      CoinModel.createList
        { b with rowList_ := CoinModelLinkedList.empty, links_ := clearBit b.links_ 1 } 1
    else b) := by
    split_ifs
    · exact SameData.compose
        (⟨rfl, rfl, rfl, rfl, rfl, rfl, rfl, rfl, rfl, rfl, rfl, rfl, rfl, rfl, rfl, rfl,
          fun h => h⟩ : SameData b
            { b with rowList_ := CoinModelLinkedList.empty, links_ := clearBit b.links_ 1 })
        (sameData_createList _ 1)
    · exact hid b
  have h4 := SameData.compose h2 h3
  generalize (if b.links_ &&& 1 ≠ 0 then
      CoinModel.createList
        { b with rowList_ := CoinModelLinkedList.empty, links_ := clearBit b.links_ 1 } 1
    else b) = c at h4 ⊢
  split_ifs
  · exact SameData.compose h4 (SameData.compose
      (⟨rfl, rfl, rfl, rfl, rfl, rfl, rfl, rfl, rfl, rfl, rfl, rfl, rfl, rfl, rfl, rfl,
        fun h => h⟩ : SameData c
          { c with columnList_ := CoinModelLinkedList.empty, links_ := clearBit c.links_ 2 })
      (sameData_createList _ 2))
  · exact h4

theorem packRowsScan_eq (m : CoinModel) :
    packRowsScan m =
      (positionsBelow m.numberRows_).foldl
        (packRowsKeep (decide (m.rowName_.numberItems ≠ 0)))
        ⟨0, rowCounts m, m.rowLower_, m.rowUpper_, m.rowType_, m.rowName_⟩ := rfl

theorem packColumnsScan_eq (m : CoinModel) :
    packColumnsScan m =
      (positionsBelow m.numberColumns_).foldl
        (packColumnsKeep (decide (m.columnName_.numberItems ≠ 0)))
        ⟨0, columnCounts m, m.columnLower_, m.columnUpper_, m.objective_, m.integerType_,
          m.columnType_, m.columnName_⟩ := rfl

theorem packRowsKeep_keep (d : Bool) (s : PackRowsState) (i : Int) (h : s.newRow i ≠ 0) :
    (packRowsKeep d s i).n = s.n + 1 ∧
    (packRowsKeep d s i).newRow = Function.update s.newRow i s.n := by
  unfold packRowsKeep
  rw [if_pos h]
  exact ⟨rfl, rfl⟩

theorem packRowsKeep_drop (d : Bool) (s : PackRowsState) (i : Int) (h : s.newRow i = 0) :
    (packRowsKeep d s i).n = s.n ∧
    (packRowsKeep d s i).newRow = Function.update s.newRow i (-1) := by
  unfold packRowsKeep
  rw [if_neg (by rw [h]; decide)]
  exact ⟨rfl, rfl⟩

theorem packColumnsKeep_keep (d : Bool) (s : PackColumnsState) (i : Int)
    (h : s.newColumn i ≠ 0) :
    (packColumnsKeep d s i).n = s.n + 1 ∧
    (packColumnsKeep d s i).newColumn = Function.update s.newColumn i s.n := by
  unfold packColumnsKeep
  rw [if_pos h]
  exact ⟨rfl, rfl⟩

theorem packColumnsKeep_drop (d : Bool) (s : PackColumnsState) (i : Int)
    (h : s.newColumn i = 0) :
    (packColumnsKeep d s i).n = s.n ∧
    (packColumnsKeep d s i).newColumn = Function.update s.newColumn i (-1) := by
  unfold packColumnsKeep
  rw [if_neg (by rw [h]; decide)]
  exact ⟨rfl, rfl⟩

theorem toNat_cast_of_nonneg {n : Int} (h : 0 ≤ n) : ((n.toNat : Nat) : Int) = n := by omega

/-- The renumbering loop of `packRows`: the number of kept rows and the new index of
every row. -/
theorem packRowsScan_index (m : CoinModel) (h0 : 0 ≤ m.numberRows_) :
    (packRowsScan m).n = packRank (rowCounts m) m.numberRows_ ∧
    (∀ i : Int, 0 ≤ i → i < m.numberRows_ → (packRowsScan m).newRow i =
      if rowCounts m i ≠ 0 then packRank (rowCounts m) i else -1) ∧
    (∀ i : Int, ¬ (0 ≤ i ∧ i < m.numberRows_) → (packRowsScan m).newRow i = rowCounts m i) := by
  have h := keep_fold_index (packRowsKeep (decide (m.rowName_.numberItems ≠ 0)))
    PackRowsState.n PackRowsState.newRow (packRowsKeep_keep _) (packRowsKeep_drop _)
    ⟨0, rowCounts m, m.rowLower_, m.rowUpper_, m.rowType_, m.rowName_⟩ rfl m.numberRows_.toNat
  rw [toNat_cast_of_nonneg h0] at h
  rw [packRowsScan_eq]
  exact h

/-- The renumbering loop of `packColumns`: the number of kept columns and the new index
of every column. -/
theorem packColumnsScan_index (m : CoinModel) (h0 : 0 ≤ m.numberColumns_) :
    (packColumnsScan m).n = packRank (columnCounts m) m.numberColumns_ ∧
    (∀ i : Int, 0 ≤ i → i < m.numberColumns_ → (packColumnsScan m).newColumn i =
      if columnCounts m i ≠ 0 then packRank (columnCounts m) i else -1) ∧
    (∀ i : Int, ¬ (0 ≤ i ∧ i < m.numberColumns_) →
      (packColumnsScan m).newColumn i = columnCounts m i) := by
  have h := keep_fold_index (packColumnsKeep (decide (m.columnName_.numberItems ≠ 0)))
    PackColumnsState.n PackColumnsState.newColumn (packColumnsKeep_keep _)
    (packColumnsKeep_drop _)
    ⟨0, columnCounts m, m.columnLower_, m.columnUpper_, m.objective_, m.integerType_,
      m.columnType_, m.columnName_⟩ rfl m.numberColumns_.toNat
  rw [toNat_cast_of_nonneg h0] at h
  rw [packColumnsScan_eq]
  exact h

theorem packRowsMark_spec (m : CoinModel) (c : Int → Int) (i : Int) :
    packRowsMark m c i i = c i +
      ((if load m.rowLower_ 0 i ≠ -COIN_DBL_MAX then 1 else 0) +
       (if load m.rowUpper_ 0 i ≠ COIN_DBL_MAX then 1 else 0) +
       (if m.noNames_ = false ∧ (m.rowName_.name i).isSome = true then 1 else 0)) ∧
    ∀ j, j ≠ i → packRowsMark m c i j = c j := by
  unfold packRowsMark
  constructor
  · split_ifs <;> simp [Function.update_same] <;> ring
  · intro j hj
    split_ifs <;> simp [Function.update_noteq hj]

theorem packColumnsMark_spec (m : CoinModel) (c : Int → Int) (i : Int) :
    packColumnsMark m c i i = c i +
      ((if load m.columnLower_ 0 i ≠ 0 then 1 else 0) +
       (if load m.columnUpper_ 0 i ≠ COIN_DBL_MAX then 1 else 0) +
       (if load m.objective_ 0 i ≠ 0 then 1 else 0) +
       (if m.noNames_ = false ∧ (m.columnName_.name i).isSome = true then 1 else 0)) ∧
    ∀ j, j ≠ i → packColumnsMark m c i j = c j := by
  unfold packColumnsMark
  constructor
  · split_ifs <;> simp [Function.update_same] <;> ring
  · intro j hj
    split_ifs <;> simp [Function.update_noteq hj]

theorem countP_eq_zero_stored (m : CoinModel) (key : CoinModelTriple → Int) (i : Int) :
    (positionsBelow m.numberElements_).countP
        (fun p => decide (0 ≤ (m.elements_ p).column) && decide (key (m.elements_ p) = i)) = 0 ↔
      ∀ p ∈ storedPositions m, key (m.elements_ p) ≠ i := by
  rw [List.countP_eq_zero]
  unfold storedPositions
  constructor
  · intro h p hp
    obtain ⟨hp1, hp2⟩ := List.mem_filter.1 hp
    have := h p hp1
    simp only [Bool.and_eq_true, decide_eq_true_eq, not_and] at this hp2
    exact this hp2
  · intro h p hp
    simp only [Bool.and_eq_true, decide_eq_true_eq, not_and]
    intro h0
    exact h p (List.mem_filter.2 ⟨hp, by simpa using h0⟩)

/-- A row below `numberRows_` has count zero in `packRows` exactly when it is bare. -/
theorem rowCounts_eq_zero_iff (m : CoinModel) (i : Int) (h0 : 0 ≤ i) (h1 : i < m.numberRows_) :
    rowCounts m i = 0 ↔ RowIsBare m i := by
  unfold rowCounts RowIsBare
  rw [packCount_fold, fold_marks (packRowsMark m) _ (packRowsMark_spec m) _
    (positionsBelow_nodup _), if_pos (mem_positionsBelow.2 ⟨h0, h1⟩)]
  rw [← countP_eq_zero_stored m rowInTriple i]
  constructor
  · intro h
    have hc : 0 ≤ ((List.countP (fun p => decide (0 ≤ (m.elements_ p).column) &&
        decide (rowInTriple (m.elements_ p) = i)) (positionsBelow m.numberElements_) : Nat) : Int) :=
      Int.ofNat_nonneg _
    refine ⟨?_, ?_, ?_, ?_⟩
    · by_contra hl
      rw [if_pos hl] at h
      split_ifs at h <;> omega
    · by_contra hl
      rw [if_pos hl] at h
      split_ifs at h <;> omega
    · intro hl
      rw [if_pos hl] at h
      split_ifs at h <;> omega
    · split_ifs at h <;> omega
  · rintro ⟨a1, a2, a3, a4⟩
    rw [if_neg (by simpa using a1), if_neg (by simpa using a2), if_neg a3, a4]
    rfl

/-- A column below `numberColumns_` has count zero in `packColumns` exactly when it is
bare. -/
theorem columnCounts_eq_zero_iff (m : CoinModel) (i : Int) (h0 : 0 ≤ i)
    (h1 : i < m.numberColumns_) : columnCounts m i = 0 ↔ ColumnIsBare m i := by
  unfold columnCounts ColumnIsBare
  rw [packCount_fold, fold_marks (packColumnsMark m) _ (packColumnsMark_spec m) _
    (positionsBelow_nodup _), if_pos (mem_positionsBelow.2 ⟨h0, h1⟩)]
  rw [← countP_eq_zero_stored m (fun t => t.column) i]
  constructor
  · intro h
    have hc : 0 ≤ ((List.countP (fun p => decide (0 ≤ (m.elements_ p).column) &&
        decide ((m.elements_ p).column = i)) (positionsBelow m.numberElements_) : Nat) : Int) :=
      Int.ofNat_nonneg _
    refine ⟨?_, ?_, ?_, ?_, ?_⟩
    · by_contra hl
      rw [if_pos hl] at h
      split_ifs at h <;> omega
    · by_contra hl
      rw [if_pos hl] at h
      split_ifs at h <;> omega
    · by_contra hl
      rw [if_pos hl] at h
      split_ifs at h <;> omega
    · intro hl
      rw [if_pos hl] at h
      split_ifs at h <;> omega
    · split_ifs at h <;> omega
  · rintro ⟨a1, a2, a3, a4, a5⟩
    rw [if_neg (by simpa using a1), if_neg (by simpa using a2), if_neg (by simpa using a3),
      if_neg a4, a5]
    rfl

/-- The result of `packRows` in terms of its loops. -/
theorem packRows_spec (m : CoinModel) (h3 : m.type_ ≠ 3) :
    (packRows m).Returns fun r =>
      r.2 = m.numberRows_ - (packRowsScan m).n ∧ r.1.type_ ≠ 3 ∧
      r.1.rowLower_ = (packRowsScan m).rowLower ∧ r.1.rowUpper_ = (packRowsScan m).rowUpper ∧
      r.1.rowType_ = (packRowsScan m).rowType ∧
      (r.1.numberColumns_ = m.numberColumns_ ∧ r.1.columnLower_ = m.columnLower_ ∧
        r.1.columnUpper_ = m.columnUpper_ ∧ r.1.objective_ = m.objective_ ∧
        r.1.integerType_ = m.integerType_ ∧ r.1.columnType_ = m.columnType_ ∧
        r.1.columnName_ = m.columnName_ ∧ r.1.noNames_ = m.noNames_ ∧
        r.1.string_ = m.string_) ∧
      (r.2 ≠ 0 →
        r.1.numberRows_ = (packRowsScan m).n ∧
        r.1.numberElements_ = ((positionsBelow m.numberElements_).foldl
          (packMove rowInTriple setRowInTriple (packRowsScan m).newRow) (0, m.elements_)).1 ∧
        r.1.elements_ = ((positionsBelow m.numberElements_).foldl
          (packMove rowInTriple setRowInTriple (packRowsScan m).newRow) (0, m.elements_)).2 ∧
        r.1.rowName_ =
          if m.rowName_.numberItems ≠ 0 then
            (((packRowsScan m).rowName.setNumberItems (packRowsScan m).n).rebuild
              (packRowsScan m).rowName.maximumItems)
          else (packRowsScan m).rowName) ∧
      (r.2 = 0 → r.1.numberRows_ = m.numberRows_ ∧ r.1.numberElements_ = m.numberElements_ ∧
        r.1.elements_ = m.elements_ ∧ r.1.rowName_ = (packRowsScan m).rowName) := by
  unfold packRows
  rw [if_neg h3]
  show Outcome.Returns (if m.numberRows_ - (packRowsScan m).n ≠ 0 then _ else _) _
  by_cases hd : m.numberRows_ - (packRowsScan m).n ≠ 0
  · rw [if_pos hd]
    refine Outcome.returns_returned ?_
    dsimp only
    by_cases hn : m.rowName_.numberItems ≠ 0
    · rw [if_pos (by simpa using hn), if_pos hn]
      exact ⟨rfl, (sameData_packRedo _).2.2.2.2.2.2.2.2.2.2.2.2.2.2.2.2 h3,
        (sameData_packRedo _).2.2.2.2.1, (sameData_packRedo _).2.2.2.2.2.1,
        (sameData_packRedo _).2.2.2.2.2.2.1,
        ⟨(sameData_packRedo _).2.1, (sameData_packRedo _).2.2.2.2.2.2.2.1,
          (sameData_packRedo _).2.2.2.2.2.2.2.2.1, (sameData_packRedo _).2.2.2.2.2.2.2.2.2.1,
          (sameData_packRedo _).2.2.2.2.2.2.2.2.2.2.1,
          (sameData_packRedo _).2.2.2.2.2.2.2.2.2.2.2.1,
          (sameData_packRedo _).2.2.2.2.2.2.2.2.2.2.2.2.2.1,
          (sameData_packRedo _).2.2.2.2.2.2.2.2.2.2.2.2.2.2.2.1,
          (sameData_packRedo _).2.2.2.2.2.2.2.2.2.2.2.2.2.2.1⟩,
        fun _ => ⟨(sameData_packRedo _).1, (sameData_packRedo _).2.2.1,
          (sameData_packRedo _).2.2.2.1, (sameData_packRedo _).2.2.2.2.2.2.2.2.2.2.2.2.1⟩,
        fun h => absurd h hd⟩
    · rw [if_neg (by simpa using hn), if_neg hn]
      exact ⟨rfl, (sameData_packRedo _).2.2.2.2.2.2.2.2.2.2.2.2.2.2.2.2 h3,
        (sameData_packRedo _).2.2.2.2.1, (sameData_packRedo _).2.2.2.2.2.1,
        (sameData_packRedo _).2.2.2.2.2.2.1,
        ⟨(sameData_packRedo _).2.1, (sameData_packRedo _).2.2.2.2.2.2.2.1,
          (sameData_packRedo _).2.2.2.2.2.2.2.2.1, (sameData_packRedo _).2.2.2.2.2.2.2.2.2.1,
          (sameData_packRedo _).2.2.2.2.2.2.2.2.2.2.1,
          (sameData_packRedo _).2.2.2.2.2.2.2.2.2.2.2.1,
          (sameData_packRedo _).2.2.2.2.2.2.2.2.2.2.2.2.2.1,
          (sameData_packRedo _).2.2.2.2.2.2.2.2.2.2.2.2.2.2.2.1,
          (sameData_packRedo _).2.2.2.2.2.2.2.2.2.2.2.2.2.2.1⟩,
        fun _ => ⟨(sameData_packRedo _).1, (sameData_packRedo _).2.2.1,
          (sameData_packRedo _).2.2.2.1, (sameData_packRedo _).2.2.2.2.2.2.2.2.2.2.2.2.1⟩,
        fun h => absurd h hd⟩
  · rw [if_neg hd]
    refine Outcome.returns_returned ?_
    have hd' : m.numberRows_ - (packRowsScan m).n = 0 := by
      by_contra h
      exact hd h
    exact ⟨rfl, h3, rfl, rfl, rfl, ⟨rfl, rfl, rfl, rfl, rfl, rfl, rfl, rfl, rfl⟩,
      fun h => absurd hd' h, fun _ => ⟨rfl, rfl, rfl, rfl⟩⟩

/-- The result of `packColumns` in terms of its loops. -/
theorem packColumns_spec (m : CoinModel) (h3 : m.type_ ≠ 3) :
    (packColumns m).Returns fun r =>
      r.2 = m.numberColumns_ - (packColumnsScan m).n ∧ r.1.type_ ≠ 3 ∧
      (r.1.columnLower_ = (packColumnsScan m).columnLower ∧
        r.1.columnUpper_ = (packColumnsScan m).columnUpper ∧
        r.1.objective_ = (packColumnsScan m).objective ∧
        r.1.integerType_ = (packColumnsScan m).integerType ∧
        r.1.columnType_ = (packColumnsScan m).columnType) ∧
      (r.1.numberRows_ = m.numberRows_ ∧ r.1.rowLower_ = m.rowLower_ ∧
        r.1.rowUpper_ = m.rowUpper_ ∧ r.1.rowType_ = m.rowType_ ∧
        r.1.rowName_ = m.rowName_ ∧ r.1.noNames_ = m.noNames_ ∧ r.1.string_ = m.string_) ∧
      (r.2 ≠ 0 →
        r.1.numberColumns_ = (packColumnsScan m).n ∧
        r.1.numberElements_ = ((positionsBelow m.numberElements_).foldl
          (packMove (fun t => t.column) (fun t k => { t with column := k })
            (packColumnsScan m).newColumn) (0, m.elements_)).1 ∧
        r.1.elements_ = ((positionsBelow m.numberElements_).foldl
          (packMove (fun t => t.column) (fun t k => { t with column := k })
            (packColumnsScan m).newColumn) (0, m.elements_)).2 ∧
        r.1.columnName_ =
          if m.columnName_.numberItems ≠ 0 then
            (((packColumnsScan m).columnName.setNumberItems (packColumnsScan m).n).rebuild
              (packColumnsScan m).columnName.maximumItems)
          else (packColumnsScan m).columnName) ∧
      (r.2 = 0 → r.1.numberColumns_ = m.numberColumns_ ∧
        r.1.numberElements_ = m.numberElements_ ∧ r.1.elements_ = m.elements_ ∧
        r.1.columnName_ = (packColumnsScan m).columnName) := by
  unfold packColumns
  rw [if_neg h3]
  show Outcome.Returns (if m.numberColumns_ - (packColumnsScan m).n ≠ 0 then _ else _) _
  by_cases hd : m.numberColumns_ - (packColumnsScan m).n ≠ 0
  · rw [if_pos hd]
    refine Outcome.returns_returned ?_
    dsimp only
    by_cases hn : m.columnName_.numberItems ≠ 0
    · rw [if_pos (by simpa using hn), if_pos hn]
      exact ⟨rfl, (sameData_packRedo _).2.2.2.2.2.2.2.2.2.2.2.2.2.2.2.2 h3,
        ⟨(sameData_packRedo _).2.2.2.2.2.2.2.1, (sameData_packRedo _).2.2.2.2.2.2.2.2.1,
          (sameData_packRedo _).2.2.2.2.2.2.2.2.2.1,
          (sameData_packRedo _).2.2.2.2.2.2.2.2.2.2.1,
          (sameData_packRedo _).2.2.2.2.2.2.2.2.2.2.2.1⟩,
        ⟨(sameData_packRedo _).1, (sameData_packRedo _).2.2.2.2.1,
          (sameData_packRedo _).2.2.2.2.2.1, (sameData_packRedo _).2.2.2.2.2.2.1,
          (sameData_packRedo _).2.2.2.2.2.2.2.2.2.2.2.2.1,
          (sameData_packRedo _).2.2.2.2.2.2.2.2.2.2.2.2.2.2.2.1,
          (sameData_packRedo _).2.2.2.2.2.2.2.2.2.2.2.2.2.2.1⟩,
        fun _ => ⟨(sameData_packRedo _).2.1, (sameData_packRedo _).2.2.1,
          (sameData_packRedo _).2.2.2.1, (sameData_packRedo _).2.2.2.2.2.2.2.2.2.2.2.2.2.1⟩,
        fun h => absurd h hd⟩
    · rw [if_neg (by simpa using hn), if_neg hn]
      exact ⟨rfl, (sameData_packRedo _).2.2.2.2.2.2.2.2.2.2.2.2.2.2.2.2 h3,
        ⟨(sameData_packRedo _).2.2.2.2.2.2.2.1, (sameData_packRedo _).2.2.2.2.2.2.2.2.1,
          (sameData_packRedo _).2.2.2.2.2.2.2.2.2.1,
          (sameData_packRedo _).2.2.2.2.2.2.2.2.2.2.1,
          (sameData_packRedo _).2.2.2.2.2.2.2.2.2.2.2.1⟩,
        ⟨(sameData_packRedo _).1, (sameData_packRedo _).2.2.2.2.1,
          (sameData_packRedo _).2.2.2.2.2.1, (sameData_packRedo _).2.2.2.2.2.2.1,
          (sameData_packRedo _).2.2.2.2.2.2.2.2.2.2.2.2.1,
          (sameData_packRedo _).2.2.2.2.2.2.2.2.2.2.2.2.2.2.2.1,
          (sameData_packRedo _).2.2.2.2.2.2.2.2.2.2.2.2.2.2.1⟩,
        fun _ => ⟨(sameData_packRedo _).2.1, (sameData_packRedo _).2.2.1,
          (sameData_packRedo _).2.2.2.1, (sameData_packRedo _).2.2.2.2.2.2.2.2.2.2.2.2.2.1⟩,
        fun h => absurd h hd⟩
  · rw [if_neg hd]
    refine Outcome.returns_returned ?_
    have hd' : m.numberColumns_ - (packColumnsScan m).n = 0 := by
      by_contra h
      exact hd h
    exact ⟨rfl, h3, ⟨rfl, rfl, rfl, rfl, rfl⟩, ⟨rfl, rfl, rfl, rfl, rfl, rfl, rfl⟩,
      fun h => absurd hd' h, fun _ => ⟨rfl, rfl, rfl, rfl⟩⟩

theorem packRank_full (count : Int → Int) :
    ∀ (k : Nat), packRank count k = k →
      ∀ i : Int, 0 ≤ i → i < k → count i ≠ 0 ∧ packRank count i = i
  | 0, _ => fun i h0 h1 => by omega
  | k + 1, h => by
    have hcast : ((k + 1 : Nat) : Int) = (k : Int) + 1 := by push_cast; rfl
    rw [hcast, packRank_succ] at h
    have hle := packRank_le count k
    have hk : packRank count k = k ∧ count k ≠ 0 := by
      split_ifs at h with hc
      · exact ⟨by omega, hc⟩
      · omega
    intro i h0 h1
    by_cases hik : i = k
    · rw [hik]
      exact ⟨hk.2, hk.1⟩
    · exact packRank_full count k hk.1 i h0 (by omega)

/-- A row that holds a non-deleted triple has a count other than zero in `packRows`. -/
theorem rowCounts_ne_zero_of_stored (m : CoinModel) (p : Int) (hp : p ∈ storedPositions m)
    (h0 : 0 ≤ rowInTriple (m.elements_ p)) (h1 : rowInTriple (m.elements_ p) < m.numberRows_) :
    rowCounts m (rowInTriple (m.elements_ p)) ≠ 0 := by
  intro h
  exact ((rowCounts_eq_zero_iff m _ h0 h1).1 h).2.2.2 p hp rfl

/-- A column that holds a non-deleted triple has a count other than zero in
`packColumns`. -/
theorem columnCounts_ne_zero_of_stored (m : CoinModel) (p : Int) (hp : p ∈ storedPositions m)
    (h1 : (m.elements_ p).column < m.numberColumns_) :
    columnCounts m (m.elements_ p).column ≠ 0 := by
  intro h
  have h0 : 0 ≤ (m.elements_ p).column := by
    have := (List.mem_filter.1 hp).2
    simpa using this
  exact ((columnCounts_eq_zero_iff m _ h0 h1).1 h).2.2.2.2 p hp rfl

/-- The stored triples after the moving loop of a pack: the renumbered copies of the
stored triples, in order, with no deleted slot among them. -/
theorem packMove_stored (key : CoinModelTriple → Int)
    (renumber : CoinModelTriple → Int → CoinModelTriple) (newIndex : Int → Int)
    (m m' : CoinModel) (h0 : 0 ≤ m.numberElements_)
    (h1 : m'.numberElements_ = ((positionsBelow m.numberElements_).foldl
      (packMove key renumber newIndex) (0, m.elements_)).1)
    (h2 : m'.elements_ = ((positionsBelow m.numberElements_).foldl
      (packMove key renumber newIndex) (0, m.elements_)).2) :
    m'.numberElements_ = ((storedPositions m).length : Int) ∧
    (positionsBelow m'.numberElements_).map m'.elements_ =
      (storedPositions m).map
        (fun p => renumber (m.elements_ p) (newIndex (key (m.elements_ p)))) := by
  obtain ⟨a1, a2, _⟩ := packMove_fold key renumber newIndex m.elements_ m.numberElements_.toNat
  rw [toNat_cast_of_nonneg h0] at a1 a2
  rw [h1, h2]
  exact ⟨a1, a2⟩

theorem storedPositions_of_compact (m : CoinModel) (h : Compact m) :
    storedPositions m = positionsBelow m.numberElements_ := by
  unfold storedPositions
  apply List.filter_eq_self.2
  intro p hp
  simpa using h p hp

theorem compact_of_map (m' : CoinModel) (l : List CoinModelTriple)
    (h : (positionsBelow m'.numberElements_).map m'.elements_ = l)
    (hl : ∀ t ∈ l, 0 ≤ t.column) : Compact m' := by
  intro p hp
  apply hl
  rw [← h]
  exact List.mem_map_of_mem _ hp

/-- The content of the model after `packRows`. -/
theorem packRows_content (m : CoinModel) (h3 : m.type_ ≠ 3) (hr0 : 0 ≤ m.numberRows_)
    (hrow : RowsInRange m) :
    (packRows m).Returns fun r =>
      r.2 = m.numberRows_ - r.1.numberRows_ ∧
      r.1.numberRows_ = packRank (rowCounts m) m.numberRows_ ∧
      storedRecords r.1 = (storedRecords m).map
        (fun t => setRowInTriple t (packRank (rowCounts m) (rowInTriple t))) ∧
      (r.2 ≠ 0 → Compact r.1 ∧ r.1.numberElements_ = ((storedPositions m).length : Int)) ∧
      (r.2 = 0 → r.1.numberElements_ = m.numberElements_ ∧ r.1.elements_ = m.elements_) := by
  obtain ⟨i1, i2, _⟩ := packRowsScan_index m hr0
  apply Outcome.returns_mono (packRows_spec m h3)
  rintro ⟨a, k⟩ ⟨b1, _, _, _, _, _, b7, b8⟩
  dsimp only at b1 b7 b8 ⊢
  by_cases hk : k = 0
  · obtain ⟨c1, c2, c3, _⟩ := b8 hk
    have hfull : packRank (rowCounts m) m.numberRows_ = m.numberRows_ := by
      rw [← i1]
      omega
    have hall := packRank_full (rowCounts m) m.numberRows_.toNat
      (by rw [toNat_cast_of_nonneg hr0]; exact hfull)
    rw [toNat_cast_of_nonneg hr0] at hall
    refine ⟨by rw [c1, hk]; ring, by rw [c1, hfull], ?_, fun h => absurd hk h,
      fun _ => ⟨c2, c3⟩⟩
    have hsame : storedRecords a = storedRecords m := by
      unfold storedRecords storedPositions
      rw [c2, c3]
    rw [hsame]
    unfold storedRecords
    rw [List.map_map]
    apply List.map_congr_left
    intro p hp
    have := hrow.2 p hp
    show m.elements_ p = setRowInTriple (m.elements_ p) _
    rw [(hall _ this.1 this.2).2]
    rfl
  · obtain ⟨c1, c2, c3, _⟩ := b7 hk
    obtain ⟨d1, d2⟩ := packMove_stored rowInTriple setRowInTriple (packRowsScan m).newRow m a
      hrow.1 c2 c3
    have hmap : (positionsBelow a.numberElements_).map a.elements_ =
        (storedRecords m).map
          (fun t => setRowInTriple t (packRank (rowCounts m) (rowInTriple t))) := by
      rw [d2]
      unfold storedRecords
      rw [List.map_map]
      apply List.map_congr_left
      intro p hp
      have hr := hrow.2 p hp
      show setRowInTriple (m.elements_ p) _ = setRowInTriple (m.elements_ p) _
      rw [i2 _ hr.1 hr.2, if_pos (rowCounts_ne_zero_of_stored m p hp hr.1 hr.2)]
    have hcomp : Compact a := by
      apply compact_of_map a _ hmap
      intro t ht
      obtain ⟨t0, ht0, rfl⟩ := List.mem_map.1 ht
      unfold storedRecords at ht0
      obtain ⟨p, hp, rfl⟩ := List.mem_map.1 ht0
      have := (List.mem_filter.1 hp).2
      simpa [setRowInTriple] using this
    refine ⟨by rw [c1, b1], by rw [c1, i1], ?_, fun _ => ⟨hcomp, d1⟩, fun h => absurd h hk⟩
    unfold storedRecords at hmap ⊢
    rw [storedPositions_of_compact a hcomp]
    exact hmap

/-- The content of the model after `packColumns`. -/
theorem packColumns_content (m : CoinModel) (h3 : m.type_ ≠ 3) (hc0 : 0 ≤ m.numberColumns_)
    (hcol : ColumnsInRange m) :
    (packColumns m).Returns fun r =>
      r.2 = m.numberColumns_ - r.1.numberColumns_ ∧
      r.1.numberColumns_ = packRank (columnCounts m) m.numberColumns_ ∧
      storedRecords r.1 = (storedRecords m).map
        (fun t => { t with column := packRank (columnCounts m) t.column }) ∧
      (r.2 ≠ 0 → Compact r.1 ∧ r.1.numberElements_ = ((storedPositions m).length : Int)) ∧
      (r.2 = 0 → r.1.numberElements_ = m.numberElements_ ∧ r.1.elements_ = m.elements_) := by
  obtain ⟨i1, i2, _⟩ := packColumnsScan_index m hc0
  have hlive : ∀ p ∈ storedPositions m, 0 ≤ (m.elements_ p).column := by
    intro p hp
    have := (List.mem_filter.1 hp).2
    simpa using this
  apply Outcome.returns_mono (packColumns_spec m h3)
  rintro ⟨a, k⟩ ⟨b1, _, _, _, b7, b8⟩
  dsimp only at b1 b7 b8 ⊢
  by_cases hk : k = 0
  · obtain ⟨c1, c2, c3, _⟩ := b8 hk
    have hfull : packRank (columnCounts m) m.numberColumns_ = m.numberColumns_ := by
      rw [← i1]
      omega
    have hall := packRank_full (columnCounts m) m.numberColumns_.toNat
      (by rw [toNat_cast_of_nonneg hc0]; exact hfull)
    rw [toNat_cast_of_nonneg hc0] at hall
    refine ⟨by rw [c1, hk]; ring, by rw [c1, hfull], ?_, fun h => absurd hk h,
      fun _ => ⟨c2, c3⟩⟩
    have hsame : storedRecords a = storedRecords m := by
      unfold storedRecords storedPositions
      rw [c2, c3]
    rw [hsame]
    unfold storedRecords
    rw [List.map_map]
    apply List.map_congr_left
    intro p hp
    show m.elements_ p = { m.elements_ p with
      column := packRank (columnCounts m) (m.elements_ p).column }
    rw [(hall _ (hlive p hp) (hcol.2 p hp)).2]
  · obtain ⟨c1, c2, c3, _⟩ := b7 hk
    obtain ⟨d1, d2⟩ := packMove_stored (fun t => t.column) (fun t k => { t with column := k })
      (packColumnsScan m).newColumn m a hcol.1 c2 c3
    have hmap : (positionsBelow a.numberElements_).map a.elements_ =
        (storedRecords m).map
          (fun t => { t with column := packRank (columnCounts m) t.column }) := by
      rw [d2]
      unfold storedRecords
      rw [List.map_map]
      apply List.map_congr_left
      intro p hp
      show ({ m.elements_ p with
          column := (packColumnsScan m).newColumn (m.elements_ p).column } : CoinModelTriple) =
        { m.elements_ p with column := packRank (columnCounts m) (m.elements_ p).column }
      rw [i2 _ (hlive p hp) (hcol.2 p hp),
        if_pos (columnCounts_ne_zero_of_stored m p hp (hcol.2 p hp))]
    have hcomp : Compact a := by
      apply compact_of_map a _ hmap
      intro t ht
      obtain ⟨t0, _, rfl⟩ := List.mem_map.1 ht
      exact packRank_nonneg _ _
    refine ⟨by rw [c1, b1], by rw [c1, i1], ?_, fun _ => ⟨hcomp, d1⟩, fun h => absurd h hk⟩
    unfold storedRecords at hmap ⊢
    rw [storedPositions_of_compact a hcomp]
    exact hmap

theorem columnsInRange_of_records (m a : CoinModel) (hcol : ColumnsInRange m)
    (f : CoinModelTriple → CoinModelTriple) (hf : ∀ t, (f t).column = t.column)
    (h0 : 0 ≤ a.numberElements_) (hc : a.numberColumns_ = m.numberColumns_)
    (h : storedRecords a = (storedRecords m).map f) : ColumnsInRange a := by
  refine ⟨h0, ?_⟩
  intro p hp
  have hmem : a.elements_ p ∈ storedRecords a := List.mem_map_of_mem _ hp
  rw [h] at hmem
  obtain ⟨t, ht, hte⟩ := List.mem_map.1 hmem
  obtain ⟨q, hq, rfl⟩ := List.mem_map.1 ht
  rw [← hte, hf, hc]
  exact hcol.2 q hq

theorem storedRecords_length (m : CoinModel) :
    (storedRecords m).length = (storedPositions m).length := by
  unfold storedRecords
  rw [List.length_map]

theorem newColumnIndex_eq (m : CoinModel) (c : Int) (hc : c ≤ m.numberColumns_) :
    packRank (columnCounts m) c = newColumnIndex m c := by
  unfold packRank newColumnIndex
  congr 2
  apply List.filter_congr
  intro j hj
  have hj' := mem_positionsBelow.1 hj
  by_cases h : columnCounts m j = 0
  · have hb := (columnCounts_eq_zero_iff m j hj'.1 (by omega)).1 h
    simp [h, hb]
  · have hb : ¬ ColumnIsBare m j := fun hb =>
      h ((columnCounts_eq_zero_iff m j hj'.1 (by omega)).2 hb)
    simp [h, hb]

theorem newRowIndex_eq (m : CoinModel) (i : Int) (hi : i ≤ m.numberRows_) :
    packRank (rowCounts m) i = newRowIndex m i := by
  unfold packRank newRowIndex
  congr 2
  apply List.filter_congr
  intro j hj
  have hj' := mem_positionsBelow.1 hj
  by_cases h : rowCounts m j = 0
  · have hb := (rowCounts_eq_zero_iff m j hj'.1 (by omega)).1 h
    simp [h, hb]
  · have hb : ¬ RowIsBare m j := fun hb =>
      h ((rowCounts_eq_zero_iff m j hj'.1 (by omega)).2 hb)
    simp [h, hb]

/-- The column arrays after the renumbering loop of `packColumns`: the cells of a kept
column are found at its new index. -/
theorem packColumnsScan_arrays (m : CoinModel) (h0 : 0 ≤ m.numberColumns_) (i : Int)
    (hi0 : 0 ≤ i) (hi : i < m.numberColumns_) (hk : columnCounts m i ≠ 0) :
    load (packColumnsScan m).columnLower 0 (packRank (columnCounts m) i) =
      load m.columnLower_ 0 i ∧
    load (packColumnsScan m).columnUpper 0 (packRank (columnCounts m) i) =
      load m.columnUpper_ 0 i ∧
    load (packColumnsScan m).objective 0 (packRank (columnCounts m) i) =
      load m.objective_ 0 i ∧
    load (packColumnsScan m).integerType 0 (packRank (columnCounts m) i) =
      load m.integerType_ 0 i ∧
    load (packColumnsScan m).columnType 0 (packRank (columnCounts m) i) =
      load m.columnType_ 0 i := by
  have hcast := toNat_cast_of_nonneg h0
  rw [packColumnsScan_eq]
  refine ⟨?_, ?_, ?_, ?_, ?_⟩
  · have h := (keep_fold_array (packColumnsKeep (decide (m.columnName_.numberItems ≠ 0)))
      PackColumnsState.n PackColumnsState.newColumn PackColumnsState.columnLower 0
      (fun s j hj => by unfold packColumnsKeep; rw [if_pos hj]; exact ⟨rfl, rfl, rfl⟩)
      (fun s j hj => by
        unfold packColumnsKeep
        rw [if_neg (by rw [hj]; decide)]
        exact ⟨rfl, rfl, rfl⟩)
      ⟨0, columnCounts m, m.columnLower_, m.columnUpper_, m.objective_, m.integerType_,
        m.columnType_, m.columnName_⟩ rfl m.numberColumns_.toNat).1
    rw [hcast] at h
    exact h i hi0 hi hk
  · have h := (keep_fold_array (packColumnsKeep (decide (m.columnName_.numberItems ≠ 0)))
      PackColumnsState.n PackColumnsState.newColumn PackColumnsState.columnUpper 0
      (fun s j hj => by unfold packColumnsKeep; rw [if_pos hj]; exact ⟨rfl, rfl, rfl⟩)
      (fun s j hj => by
        unfold packColumnsKeep
        rw [if_neg (by rw [hj]; decide)]
        exact ⟨rfl, rfl, rfl⟩)
      ⟨0, columnCounts m, m.columnLower_, m.columnUpper_, m.objective_, m.integerType_,
        m.columnType_, m.columnName_⟩ rfl m.numberColumns_.toNat).1
    rw [hcast] at h
    exact h i hi0 hi hk
  · have h := (keep_fold_array (packColumnsKeep (decide (m.columnName_.numberItems ≠ 0)))
      PackColumnsState.n PackColumnsState.newColumn PackColumnsState.objective 0
      (fun s j hj => by unfold packColumnsKeep; rw [if_pos hj]; exact ⟨rfl, rfl, rfl⟩)
      (fun s j hj => by
        unfold packColumnsKeep
        rw [if_neg (by rw [hj]; decide)]
        exact ⟨rfl, rfl, rfl⟩)
      ⟨0, columnCounts m, m.columnLower_, m.columnUpper_, m.objective_, m.integerType_,
        m.columnType_, m.columnName_⟩ rfl m.numberColumns_.toNat).1
    rw [hcast] at h
    exact h i hi0 hi hk
  · have h := (keep_fold_array (packColumnsKeep (decide (m.columnName_.numberItems ≠ 0)))
      PackColumnsState.n PackColumnsState.newColumn PackColumnsState.integerType 0
      (fun s j hj => by unfold packColumnsKeep; rw [if_pos hj]; exact ⟨rfl, rfl, rfl⟩)
      (fun s j hj => by
        unfold packColumnsKeep
        rw [if_neg (by rw [hj]; decide)]
        exact ⟨rfl, rfl, rfl⟩)
      ⟨0, columnCounts m, m.columnLower_, m.columnUpper_, m.objective_, m.integerType_,
        m.columnType_, m.columnName_⟩ rfl m.numberColumns_.toNat).1
    rw [hcast] at h
    exact h i hi0 hi hk
  · have h := (keep_fold_array (packColumnsKeep (decide (m.columnName_.numberItems ≠ 0)))
      PackColumnsState.n PackColumnsState.newColumn PackColumnsState.columnType 0
      (fun s j hj => by unfold packColumnsKeep; rw [if_pos hj]; exact ⟨rfl, rfl, rfl⟩)
      (fun s j hj => by
        unfold packColumnsKeep
        rw [if_neg (by rw [hj]; decide)]
        exact ⟨rfl, rfl, rfl⟩)
      ⟨0, columnCounts m, m.columnLower_, m.columnUpper_, m.objective_, m.integerType_,
        m.columnType_, m.columnName_⟩ rfl m.numberColumns_.toNat).1
    rw [hcast] at h
    exact h i hi0 hi hk
/-- The row arrays after the renumbering loop of `packRows`: the cells of a kept row are
found at its new index. -/
theorem packRowsScan_arrays (m : CoinModel) (h0 : 0 ≤ m.numberRows_) (i : Int)
    (hi0 : 0 ≤ i) (hi : i < m.numberRows_) (hk : rowCounts m i ≠ 0) :
    load (packRowsScan m).rowLower 0 (packRank (rowCounts m) i) = load m.rowLower_ 0 i ∧
    load (packRowsScan m).rowUpper 0 (packRank (rowCounts m) i) = load m.rowUpper_ 0 i ∧
    load (packRowsScan m).rowType 0 (packRank (rowCounts m) i) = load m.rowType_ 0 i := by
  have hcast := toNat_cast_of_nonneg h0
  rw [packRowsScan_eq]
  refine ⟨?_, ?_, ?_⟩
  · have h := (keep_fold_array (packRowsKeep (decide (m.rowName_.numberItems ≠ 0)))
      PackRowsState.n PackRowsState.newRow PackRowsState.rowLower 0
      (fun s j hj => by unfold packRowsKeep; rw [if_pos hj]; exact ⟨rfl, rfl, rfl⟩)
      (fun s j hj => by
        unfold packRowsKeep
        rw [if_neg (by rw [hj]; decide)]
        exact ⟨rfl, rfl, rfl⟩)
      ⟨0, rowCounts m, m.rowLower_, m.rowUpper_, m.rowType_, m.rowName_⟩ rfl
      m.numberRows_.toNat).1
    rw [hcast] at h
    exact h i hi0 hi hk
  · have h := (keep_fold_array (packRowsKeep (decide (m.rowName_.numberItems ≠ 0)))
      PackRowsState.n PackRowsState.newRow PackRowsState.rowUpper 0
      (fun s j hj => by unfold packRowsKeep; rw [if_pos hj]; exact ⟨rfl, rfl, rfl⟩)
      (fun s j hj => by
        unfold packRowsKeep
        rw [if_neg (by rw [hj]; decide)]
        exact ⟨rfl, rfl, rfl⟩)
      ⟨0, rowCounts m, m.rowLower_, m.rowUpper_, m.rowType_, m.rowName_⟩ rfl
      m.numberRows_.toNat).1
    rw [hcast] at h
    exact h i hi0 hi hk
  · have h := (keep_fold_array (packRowsKeep (decide (m.rowName_.numberItems ≠ 0)))
      PackRowsState.n PackRowsState.newRow PackRowsState.rowType 0
      (fun s j hj => by unfold packRowsKeep; rw [if_pos hj]; exact ⟨rfl, rfl, rfl⟩)
      (fun s j hj => by
        unfold packRowsKeep
        rw [if_neg (by rw [hj]; decide)]
        exact ⟨rfl, rfl, rfl⟩)
      ⟨0, rowCounts m, m.rowLower_, m.rowUpper_, m.rowType_, m.rowName_⟩ rfl
      m.numberRows_.toNat).1
    rw [hcast] at h
    exact h i hi0 hi hk

theorem packRowsKeep_keep_name (d : Bool) (s : PackRowsState) (i : Int)
    (h : s.newRow i ≠ 0) :
    (packRowsKeep d s i).rowName =
      if d then s.rowName.setName s.n (s.rowName.getName i) else s.rowName := by
  unfold packRowsKeep
  rw [if_pos h]

theorem packRowsKeep_drop_name (d : Bool) (s : PackRowsState) (i : Int)
    (h : s.newRow i = 0) : (packRowsKeep d s i).rowName = s.rowName := by
  unfold packRowsKeep
  rw [if_neg (by rw [h]; decide)]

/-- The name table in the renumbering loop of `packRows` when names are moved: after the
rows below `k`, the name of a kept row `i` is found at its rank, the slots from the number
of kept rows on are as they were, and the number of slots in use has not changed. -/
theorem packRowsKeep_names (s0 : PackRowsState) (h0 : s0.n = 0) :
    ∀ (k : Nat),
      ((positionsBelow k).foldl (packRowsKeep true) s0).rowName.numberItems_ =
        s0.rowName.numberItems_ ∧
      (∀ i : Int, 0 ≤ i → i < k → s0.newRow i ≠ 0 →
        ((positionsBelow k).foldl (packRowsKeep true) s0).rowName.names
          (packRank s0.newRow i) = s0.rowName.name i) ∧
      (∀ j, packRank s0.newRow k ≤ j →
        ((positionsBelow k).foldl (packRowsKeep true) s0).rowName.names j =
          s0.rowName.names j)
  | 0 => by
    rw [show ((0 : Nat) : Int) = 0 from rfl, positionsBelow_nonpos (le_refl _)]
    exact ⟨rfl, fun i h1 h2 => by omega, fun _ _ => rfl⟩
  | k + 1 => by
    obtain ⟨ih1, ih2, ih3⟩ := packRowsKeep_names s0 h0 k
    obtain ⟨jn, _, jx⟩ := keep_fold_index (packRowsKeep true) PackRowsState.n
      PackRowsState.newRow (packRowsKeep_keep _) (packRowsKeep_drop _) s0 h0 k
    have hcast : ((k + 1 : Nat) : Int) = (k : Int) + 1 := by push_cast; rfl
    rw [hcast, positionsBelow_succ, List.foldl_append, List.foldl_cons, List.foldl_nil]
    have hk : ((positionsBelow k).foldl (packRowsKeep true) s0).newRow k = s0.newRow k :=
      jx k (by omega)
    have hle := packRank_le s0.newRow k
    by_cases hc : s0.newRow k ≠ 0
    · have e : (packRowsKeep true ((positionsBelow k).foldl (packRowsKeep true) s0) k).rowName
          = ((positionsBelow k).foldl (packRowsKeep true) s0).rowName.setName
              (packRank s0.newRow k)
              (((positionsBelow k).foldl (packRowsKeep true) s0).rowName.getName k) := by
        rw [packRowsKeep_keep_name _ _ _ (by rw [hk]; exact hc), ← jn]
        rfl
      have hname : ((positionsBelow k).foldl (packRowsKeep true) s0).rowName.getName k =
          s0.rowName.name k := by
        unfold CoinModelHash.getName CoinModelHash.name
        rw [ih1, ih3 k hle]
      rw [e, hname, packRank_succ, if_pos hc]
      refine ⟨ih1, ?_, ?_⟩
      · intro i hi0 hi hci
        show Function.update _ _ _ _ = _
        by_cases hik : i = k
        · rw [hik, Function.update_same]
        · have hlt : i < k := by omega
          have hrank := packRank_lt s0.newRow i hi0 hci k hlt
          rw [Function.update_noteq (by omega)]
          exact ih2 i hi0 hlt hci
      · intro j hj
        show Function.update _ _ _ _ = _
        rw [Function.update_noteq (by omega)]
        exact ih3 j (by omega)
    · have hc' : s0.newRow k = 0 := by
        by_contra h
        exact hc h
      have e : (packRowsKeep true ((positionsBelow k).foldl (packRowsKeep true) s0) k).rowName
          = ((positionsBelow k).foldl (packRowsKeep true) s0).rowName := by
        exact packRowsKeep_drop_name _ _ _ (by rw [hk]; exact hc')
      rw [e, packRank_succ, if_neg hc]
      refine ⟨ih1, ?_, ?_⟩
      · intro i hi0 hi hci
        have hik : i ≠ k := fun h => hc (h ▸ hci)
        exact ih2 i hi0 (by omega) hci
      · intro j hj
        exact ih3 j (by omega)

/-- The renumbering loop of `packRows` leaves the name table alone when names are not
moved. -/
theorem packRowsKeep_no_names (s0 : PackRowsState) :
    ∀ (l : List Int), (l.foldl (packRowsKeep false) s0).rowName = s0.rowName := by
  intro l
  induction l using List.reverseRecOn with
  | nil => rfl
  | append_singleton l a ih =>
    rw [List.foldl_append, List.foldl_cons, List.foldl_nil]
    by_cases h : (l.foldl (packRowsKeep false) s0).newRow a = 0
    · rw [packRowsKeep_drop_name _ _ _ h]
      exact ih
    · rw [packRowsKeep_keep_name _ _ _ h]
      exact ih

/-- The names after `packRows`: the name of a kept row is found at its new index. -/
theorem packRows_names (m : CoinModel) (h3 : m.type_ ≠ 3) (hr0 : 0 ≤ m.numberRows_) :
    (packRows m).Returns fun r =>
      ∀ i : Int, 0 ≤ i → i < m.numberRows_ → rowCounts m i ≠ 0 →
        r.1.rowName_.name (packRank (rowCounts m) i) = m.rowName_.name i := by
  obtain ⟨i1, _, _⟩ := packRowsScan_index m hr0
  have hcast := toNat_cast_of_nonneg hr0
  apply Outcome.returns_mono (packRows_spec m h3)
  rintro ⟨a, k⟩ ⟨b1, _, _, _, _, _, b7, b8⟩
  dsimp only at b1 b7 b8 ⊢
  intro i hi0 hi hci
  have hlt := packRank_lt (rowCounts m) i hi0 hci m.numberRows_.toNat (by rw [hcast]; exact hi)
  rw [hcast] at hlt
  have hnn := packRank_nonneg (rowCounts m) i
  by_cases hn : m.rowName_.numberItems ≠ 0
  · have hscan := packRowsKeep_names
      ⟨0, rowCounts m, m.rowLower_, m.rowUpper_, m.rowType_, m.rowName_⟩ rfl
      m.numberRows_.toNat
    rw [hcast] at hscan
    have hs : packRowsScan m = (positionsBelow m.numberRows_).foldl (packRowsKeep true)
        ⟨0, rowCounts m, m.rowLower_, m.rowUpper_, m.rowType_, m.rowName_⟩ := by
      rw [packRowsScan_eq, decide_eq_true hn]
    rw [← hs] at hscan
    obtain ⟨n1, n2, n3⟩ := hscan
    dsimp only at n1 n2 n3
    by_cases hk : k = 0
    · obtain ⟨c1, _, _, c4⟩ := b8 hk
      have hfull : packRank (rowCounts m) m.numberRows_ = m.numberRows_ := by
        rw [← i1]
        omega
      rw [← hcast] at hfull
      have hid := (packRank_full (rowCounts m) m.numberRows_.toNat hfull i hi0
        (by rw [hcast]; exact hi)).2
      rw [c4]
      have := n2 i hi0 hi hci
      rw [hid] at this ⊢
      unfold CoinModelHash.name at this ⊢
      rw [n1, this]
      split_ifs <;> rfl
    · obtain ⟨c1, _, _, c4⟩ := b7 hk
      rw [c4, if_pos hn]
      have := n2 i hi0 hi hci
      rw [← this]
      unfold CoinModelHash.name CoinModelHash.rebuild CoinModelHash.setNumberItems
      dsimp only
      rw [if_pos ⟨hnn, by rw [i1]; exact hlt⟩]
  · have hn0 : m.rowName_.numberItems_ = 0 := by
      by_contra h
      exact hn h
    have hs : (packRowsScan m).rowName = m.rowName_ := by
      rw [packRowsScan_eq]
      rw [decide_eq_false hn]
      exact packRowsKeep_no_names _ _
    have hres : a.rowName_ = m.rowName_ := by
      by_cases hk : k = 0
      · rw [(b8 hk).2.2.2, hs]
      · rw [(b7 hk).2.2.2, if_neg hn, hs]
    rw [hres]
    unfold CoinModelHash.name
    rw [hn0, if_neg (by omega), if_neg (by omega)]
theorem deleteRow_eq (m : CoinModel) (r : Int) (h : r < m.numberRows_) :
    deleteRow m r = returned (deleteRowUnlink (deleteRowLists (deleteRowReset m r)) r) := by
  unfold deleteRow
  rw [if_pos h]
  rfl
theorem zap_stored (E : Int → CoinModelTriple) (ps Z : List Int)
    (h1 : ∀ p ∈ ps, p ∈ Z) (h2 : ∀ p ∈ Z, p ∈ ps ∨ (E p).column < 0) (p : Int) :
    (0 ≤ (CoinModelLinkedList.zap E Z p).column ↔ 0 ≤ (E p).column ∧ p ∉ ps) ∧
    (0 ≤ (CoinModelLinkedList.zap E Z p).column → CoinModelLinkedList.zap E Z p = E p) := by
  unfold CoinModelLinkedList.zap
  by_cases hz : p ∈ Z
  · rw [if_pos hz]
    have hneg : ¬ (0 : Int) ≤ -1 := by decide
    refine ⟨⟨fun h => absurd h hneg, fun h => ?_⟩, fun h => absurd h hneg⟩
    rcases h2 p hz with h' | h'
    · exact absurd h' h.2
    · omega
  · rw [if_neg hz]
    exact ⟨⟨fun h => ⟨h, fun hp => hz (h1 p hp)⟩, fun h => h.1⟩, fun _ => rfl⟩

/-- The first block of `deleteRow` touches the row arrays and the row names only. -/
theorem deleteRowReset_spec (m : CoinModel) (r : Int) :
    (deleteRowReset m r).numberRows_ = m.numberRows_ ∧
    (deleteRowReset m r).numberElements_ = m.numberElements_ ∧
    (deleteRowReset m r).elements_ = m.elements_ ∧
    (deleteRowReset m r).type_ = m.type_ ∧
    (deleteRowReset m r).links_ = m.links_ ∧
    (deleteRowReset m r).rowList_ = m.rowList_ ∧
    (deleteRowReset m r).columnList_ = m.columnList_ ∧
    (deleteRowReset m r).noNames_ = m.noNames_ ∧
    (deleteRowReset m r).rowLower_ =
      (if m.rowLower_.isSome then store m.rowLower_ r (-COIN_DBL_MAX) else m.rowLower_) ∧
    (deleteRowReset m r).rowUpper_ =
      (if m.rowLower_.isSome then store m.rowUpper_ r COIN_DBL_MAX else m.rowUpper_) ∧
    (deleteRowReset m r).rowType_ =
      (if m.rowLower_.isSome then store m.rowType_ r 0 else m.rowType_) ∧
    (deleteRowReset m r).rowName_ =
      (if m.rowLower_.isSome ∧ m.noNames_ = false then m.rowName_.deleteHash r
       else m.rowName_) := by
  unfold deleteRowReset
  by_cases h : m.rowLower_.isSome
  · by_cases hn : m.noNames_ = false
    · simp [h, hn]
    · simp [h, hn]
  · simp [h]
/-- The row list that `createList(1)` builds, and what else it changes. -/
theorem createList_rowList (m : CoinModel) :
    (∀ k p, p ∈ (createList m 1).rowList_.chain k ↔
      p ∈ storedPositions m ∧ rowInTriple (m.elements_ p) = k) ∧
    (createList m 1).rowList_.free =
      (if m.links_ = 2 then m.columnList_.free
       else (positionsBelow m.numberElements_).filter
         (fun p => decide ((m.elements_ p).column < 0))) ∧
    (createList m 1).columnList_ = m.columnList_ ∧
    (createList m 1).links_ = m.links_ ||| 1 := by
  unfold createList
  rw [if_pos rfl]
  dsimp only
  refine ⟨?_, ?_, rfl, rfl⟩
  · intro k p
    have hc : ∀ l : CoinModelLinkedList, p ∈ (l.synchronize m.columnList_).chain k ↔
        p ∈ l.chain k := fun l => Iff.rfl
    have hmem : p ∈ (m.rowList_.create m.maximumRows_ m.maximumElements_ m.numberRows_
        m.numberColumns_ 0 m.numberElements_ m.elements_).chain k ↔
        p ∈ storedPositions m ∧ rowInTriple (m.elements_ p) = k := by
      unfold CoinModelLinkedList.create storedPositions
      simp only [List.mem_filter, Bool.and_eq_true, decide_eq_true_eq,
        CoinModelLinkedList.majorOf, if_true]
      tauto
    split_ifs
    · exact (hc _).trans hmem
    · exact hmem
  · split_ifs <;> rfl

/-- The block `need lists` of `deleteRow`: the data of the model are kept, and the row
list that exists afterwards has the chain that `deleteRow` needs. -/
theorem deleteRowLists_spec (m : CoinModel) (r : Int) (hl : RowChainOK m r) :
    (deleteRowLists m).numberRows_ = m.numberRows_ ∧
    (deleteRowLists m).numberElements_ = m.numberElements_ ∧
    (deleteRowLists m).elements_ = m.elements_ ∧
    (m.type_ ≠ 3 → (deleteRowLists m).type_ ≠ 3) ∧
    (deleteRowLists m).noNames_ = m.noNames_ ∧
    (deleteRowLists m).rowLower_ = m.rowLower_ ∧
    (deleteRowLists m).rowUpper_ = m.rowUpper_ ∧
    (deleteRowLists m).rowType_ = m.rowType_ ∧
    (deleteRowLists m).rowName_ = m.rowName_ ∧
    (∀ p ∈ (deleteRowLists m).rowList_.chain r,
      p ∈ storedPositions m ∧ rowInTriple (m.elements_ p) = r) ∧
    (∀ p ∈ storedPositions m, rowInTriple (m.elements_ p) = r →
      p ∈ (deleteRowLists m).rowList_.chain r) ∧
    ((deleteRowLists m).links_ = 3 →
      (∀ p ∈ (deleteRowLists m).rowList_.free, (m.elements_ p).column < 0) ∧
      (∀ p ∈ (deleteRowLists m).columnList_.free, (m.elements_ p).column < 0)) := by
  obtain ⟨hl3, hl1, hl2⟩ := hl
  have key : ∀ m0 : CoinModel, m0.numberRows_ = m.numberRows_ →
      m0.numberElements_ = m.numberElements_ → m0.elements_ = m.elements_ →
      (m.type_ ≠ 3 → m0.type_ ≠ 3) → m0.noNames_ = m.noNames_ →
      m0.rowLower_ = m.rowLower_ → m0.rowUpper_ = m.rowUpper_ → m0.rowType_ = m.rowType_ →
      m0.rowName_ = m.rowName_ → m0.links_ = m.links_ → m0.rowList_ = m.rowList_ →
      m0.columnList_ = m.columnList_ →
      deleteRowLists m = (if m0.links_ &&& 1 = 0 then createList m0 1 else m0) →
      _ := fun m0 a1 a2 a3 a4 a5 a6 a7 a8 a9 a10 a11 a12 e => (show
        (deleteRowLists m).numberRows_ = m.numberRows_ ∧
        (deleteRowLists m).numberElements_ = m.numberElements_ ∧
        (deleteRowLists m).elements_ = m.elements_ ∧
        (m.type_ ≠ 3 → (deleteRowLists m).type_ ≠ 3) ∧
        (deleteRowLists m).noNames_ = m.noNames_ ∧
        (deleteRowLists m).rowLower_ = m.rowLower_ ∧
        (deleteRowLists m).rowUpper_ = m.rowUpper_ ∧
        (deleteRowLists m).rowType_ = m.rowType_ ∧
        (deleteRowLists m).rowName_ = m.rowName_ ∧
        (∀ p ∈ (deleteRowLists m).rowList_.chain r,
          p ∈ storedPositions m ∧ rowInTriple (m.elements_ p) = r) ∧
        (∀ p ∈ storedPositions m, rowInTriple (m.elements_ p) = r →
          p ∈ (deleteRowLists m).rowList_.chain r) ∧
        ((deleteRowLists m).links_ = 3 →
          (∀ p ∈ (deleteRowLists m).rowList_.free, (m.elements_ p).column < 0) ∧
          (∀ p ∈ (deleteRowLists m).columnList_.free, (m.elements_ p).column < 0)) from by
      have hst : storedPositions m0 = storedPositions m := by
        unfold storedPositions
        rw [a2, a3]
      rw [e]
      by_cases h1 : m0.links_ &&& 1 = 0
      · rw [if_pos h1]
        obtain ⟨c1, c2, c3, c4⟩ := createList_rowList m0
        have sd := sameData_createList m0 1
        refine ⟨sd.1.trans a1, sd.2.2.1.trans a2, sd.2.2.2.1.trans a3,
          fun h => sd.2.2.2.2.2.2.2.2.2.2.2.2.2.2.2.2 (a4 h),
          sd.2.2.2.2.2.2.2.2.2.2.2.2.2.2.2.1.trans a5, sd.2.2.2.2.1.trans a6,
          sd.2.2.2.2.2.1.trans a7, sd.2.2.2.2.2.2.1.trans a8,
          sd.2.2.2.2.2.2.2.2.2.2.2.2.1.trans a9, ?_, ?_, ?_⟩
        · intro p hp
          have := (c1 r p).1 hp
          rw [hst, a3] at this
          exact this
        · intro p hp hr
          apply (c1 r p).2
          rw [hst, a3]
          exact ⟨hp, hr⟩
        · intro h3
          rw [c4, a10] at h3
          rw [a10] at h1
          have h2 : m.links_ = 2 := by
            have hle := hl3
            interval_cases m.links_ <;> simp_all
          have hcol := hl2 (by rw [h2]; decide)
          rw [c2, c3, a10, if_pos h2, a12]
          exact ⟨hcol, hcol⟩
      · rw [if_neg h1]
        rw [a10] at h1
        obtain ⟨d1, d2, d3⟩ := hl1 h1
        refine ⟨a1, a2, a3, a4, a5, a6, a7, a8, a9, ?_, ?_, ?_⟩
        · rw [a11]
          exact d1
        · rw [a11]
          exact d2
        · intro h3
          rw [a10] at h3
          rw [a11, a12]
          exact ⟨d3, hl2 (by rw [h3]; decide)⟩)
  by_cases ht : m.type_ = 0
  · exact key { m with start_ := none } rfl rfl rfl (fun _ => by show m.type_ ≠ 3; omega)
      rfl rfl rfl rfl rfl rfl rfl rfl (by unfold deleteRowLists; rw [if_pos ht])
  · exact key m rfl rfl rfl id rfl rfl rfl rfl rfl rfl rfl rfl
      (by unfold deleteRowLists; rw [if_neg ht])
/-- The end of `deleteRow`: the triples that are marked deleted are those of the chain of
the row and, possibly, slots that were deleted before. -/
theorem deleteRowUnlink_zap (m : CoinModel) (r : Int)
    (h1 : ∀ p ∈ m.rowList_.chain r, 0 ≤ (m.elements_ p).column)
    (h3 : m.links_ = 3 →
      (∀ p ∈ m.rowList_.free, (m.elements_ p).column < 0) ∧
      (∀ p ∈ m.columnList_.free, (m.elements_ p).column < 0)) :
    (deleteRowUnlink m r).numberRows_ = m.numberRows_ ∧
    (deleteRowUnlink m r).numberElements_ = m.numberElements_ ∧
    (deleteRowUnlink m r).type_ = m.type_ ∧
    (deleteRowUnlink m r).noNames_ = m.noNames_ ∧
    (deleteRowUnlink m r).rowLower_ = m.rowLower_ ∧
    (deleteRowUnlink m r).rowUpper_ = m.rowUpper_ ∧
    (deleteRowUnlink m r).rowType_ = m.rowType_ ∧
    (deleteRowUnlink m r).rowName_ = m.rowName_ ∧
    ∃ Z : List Int, (deleteRowUnlink m r).elements_ = CoinModelLinkedList.zap m.elements_ Z ∧
      (∀ p ∈ m.rowList_.chain r, p ∈ Z) ∧
      (∀ p ∈ Z, p ∈ m.rowList_.chain r ∨ (m.elements_ p).column < 0) := by
  unfold deleteRowUnlink CoinModelLinkedList.deleteSame
  dsimp only
  by_cases h : m.links_ = 3
  · obtain ⟨f1, f2⟩ := h3 h
    rw [if_pos h]
    have hd : decide (m.links_ ≠ 3) = false := decide_eq_false (fun x => x h)
    simp only [hd, Bool.false_eq_true, if_false]
    unfold CoinModelLinkedList.updateDeleted
    dsimp only
    refine ⟨trivial, trivial, trivial, trivial, trivial, trivial, trivial, trivial, _, rfl, ?_, ?_⟩
    · intro p hp
      apply List.mem_filter.2
      refine ⟨List.mem_append_right _ hp, ?_⟩
      have : p ∉ m.columnList_.free := fun hc => by
        have a := f2 p hc
        have b := h1 p hp
        omega
      simpa using this
    · intro p hp
      rcases List.mem_append.1 (List.mem_filter.1 hp).1 with hf | hc
      · exact Or.inr (f1 p hf)
      · exact Or.inl hc
  · rw [if_neg h]
    have hd : decide (m.links_ ≠ 3) = true := decide_eq_true h
    simp only [hd, if_true]
    exact ⟨trivial, trivial, trivial, trivial, trivial, trivial, trivial, trivial, _, rfl, fun p hp => hp,
      fun p hp => Or.inl hp⟩

/-- What `deleteRow(r)` does to a model whose lists are in order: it returns; the counts
are kept; the bounds and flags of row `r` are reset and its name is removed, if the row
arrays exist; the non-deleted triples are those of the other rows, unchanged. -/
theorem deleteRow_spec (m : CoinModel) (r : Int) (hr : r < m.numberRows_)
    (hl : RowChainOK m r) :
    (deleteRow m r).Returns fun d =>
      d.numberRows_ = m.numberRows_ ∧ d.numberElements_ = m.numberElements_ ∧
      (m.type_ ≠ 3 → d.type_ ≠ 3) ∧ d.noNames_ = m.noNames_ ∧
      d.rowLower_ =
        (if m.rowLower_.isSome then store m.rowLower_ r (-COIN_DBL_MAX) else m.rowLower_) ∧
      d.rowUpper_ =
        (if m.rowLower_.isSome then store m.rowUpper_ r COIN_DBL_MAX else m.rowUpper_) ∧
      d.rowType_ = (if m.rowLower_.isSome then store m.rowType_ r 0 else m.rowType_) ∧
      d.rowName_ =
        (if m.rowLower_.isSome ∧ m.noNames_ = false then m.rowName_.deleteHash r
         else m.rowName_) ∧
      storedPositions d =
        (storedPositions m).filter (fun p => decide (rowInTriple (m.elements_ p) ≠ r)) ∧
      ∀ p ∈ storedPositions d, d.elements_ p = m.elements_ p := by
  rw [deleteRow_eq m r hr]
  refine Outcome.returns_returned ?_
  obtain ⟨a1, a2, a3, a4, a5, a6, a7, a8, a9, a10, a11, a12⟩ := deleteRowReset_spec m r
  have hst : storedPositions (deleteRowReset m r) = storedPositions m := by
    unfold storedPositions
    rw [a2, a3]
  have hl' : RowChainOK (deleteRowReset m r) r := by
    unfold RowChainOK
    rw [a5, a6, a7, hst, a3]
    exact hl
  obtain ⟨b1, b2, b3, b4, b5, b6, b7, b8, b9, b10, b11, b12⟩ :=
    deleteRowLists_spec (deleteRowReset m r) r hl'
  rw [hst, a3] at b10 b11
  rw [a3] at b12
  have hcol : ∀ p ∈ storedPositions m, 0 ≤ (m.elements_ p).column := by
    intro p hp
    have := (List.mem_filter.1 hp).2
    simpa using this
  obtain ⟨c1, c2, c3, c4, c5, c6, c7, c8, Z, c9, c10, c11⟩ :=
    deleteRowUnlink_zap (deleteRowLists (deleteRowReset m r)) r
      (fun p hp => by rw [b3, a3]; exact hcol p (b10 p hp).1)
      (fun h => by rw [b3, a3]; exact b12 h)
  rw [b3, a3] at c9 c11
  have hz := zap_stored m.elements_ _ Z c10 c11
  have hpos : storedPositions (deleteRowUnlink (deleteRowLists (deleteRowReset m r)) r) =
      (storedPositions m).filter (fun p => decide (rowInTriple (m.elements_ p) ≠ r)) := by
    unfold storedPositions
    rw [c2, b2, a2, c9, List.filter_filter]
    apply List.filter_congr
    intro p hp
    have hp' := mem_positionsBelow.1 hp
    have h0 := (hz p).1
    by_cases hs : 0 ≤ (m.elements_ p).column
    · have hmem : p ∈ storedPositions m := by
        unfold storedPositions
        exact List.mem_filter.2 ⟨hp, by simpa using hs⟩
      by_cases hrow : rowInTriple (m.elements_ p) = r
      · have : ¬ 0 ≤ (CoinModelLinkedList.zap m.elements_ Z p).column :=
          fun h => (h0.1 h).2 (b11 p hmem hrow)
        simp [this, hrow]
      · have : 0 ≤ (CoinModelLinkedList.zap m.elements_ Z p).column :=
          h0.2 ⟨hs, fun h => hrow (b10 p h).2⟩
        simp [this, hrow, hs]
    · have : ¬ 0 ≤ (CoinModelLinkedList.zap m.elements_ Z p).column :=
        fun h => hs (h0.1 h).1
      simp [this, hs]
  refine ⟨c1.trans (b1.trans a1), c2.trans (b2.trans a2), fun h => ?_, c4.trans (b5.trans a8),
    ?_, ?_, ?_, ?_, hpos, ?_⟩
  · rw [c3]
    exact b4 (by rw [a4]; exact h)
  · rw [c5, b6, a9]
  · rw [c6, b7, a10]
  · rw [c7, b8, a11]
  · rw [c8, b9, a12]
  · intro p hp
    have hp' : 0 ≤ ((deleteRowUnlink (deleteRowLists (deleteRowReset m r)) r).elements_ p).column := by
      have := (List.mem_filter.1 hp).2
      simpa using this
    rw [c9] at hp' ⊢
    exact (hz p).2 hp'
theorem load_store_of_isSome {α : Type} (a : Option (Int → α)) (h : a.isSome = true)
    (r : Int) (v junk : α) (i : Int) :
    load (store a r v) junk i = if i = r then v else load a junk i := by
  cases a with
  | none => cases h
  | some f =>
    by_cases hi : i = r
    · subst hi
      simp [store, load]
    · simp [store, load, hi, Function.update_noteq hi]

/-- The rows that are bare after `deleteRow(r)`: row `r` and the rows that were bare. -/
theorem rowIsBare_deleteRow (m d : CoinModel) (r : Int) (hra : RowArrays m)
    (e4 : d.noNames_ = m.noNames_)
    (e5 : d.rowLower_ = store m.rowLower_ r (-COIN_DBL_MAX))
    (e6 : d.rowUpper_ = store m.rowUpper_ r COIN_DBL_MAX)
    (e8 : d.rowName_ = if m.noNames_ = false then m.rowName_.deleteHash r else m.rowName_)
    (e9 : storedPositions d =
      (storedPositions m).filter (fun p => decide (rowInTriple (m.elements_ p) ≠ r)))
    (e10 : ∀ p ∈ storedPositions d, d.elements_ p = m.elements_ p) (i : Int) :
    RowIsBare d i ↔ i = r ∨ RowIsBare m i := by
  have hname : i ≠ r → d.rowName_.name i = m.rowName_.name i := by
    intro hi
    rw [e8]
    split_ifs
    · unfold CoinModelHash.name CoinModelHash.deleteHash
      dsimp only
      rw [Function.update_noteq hi]
    · rfl
  have hnamer : ¬ (d.noNames_ = false ∧ (d.rowName_.name r).isSome = true) := by
    rintro ⟨h1, h2⟩
    rw [e4] at h1
    rw [e8, if_pos h1] at h2
    unfold CoinModelHash.name CoinModelHash.deleteHash at h2
    dsimp only at h2
    rw [Function.update_same] at h2
    split_ifs at h2 <;> cases h2
  have hel : ∀ p ∈ storedPositions d, p ∈ storedPositions m ∧
      rowInTriple (m.elements_ p) ≠ r := by
    intro p hp
    rw [e9] at hp
    have := List.mem_filter.1 hp
    exact ⟨this.1, by simpa using this.2⟩
  unfold RowIsBare
  rw [e5, e6, load_store_of_isSome _ hra.2.1, load_store_of_isSome _ hra.2.2.1]
  by_cases hi : i = r
  · subst hi
    rw [if_pos rfl, if_pos rfl]
    refine ⟨fun _ => Or.inl rfl, fun _ => ⟨rfl, rfl, hnamer, ?_⟩⟩
    intro p hp
    rw [e10 p hp]
    exact (hel p hp).2
  · rw [if_neg hi, if_neg hi, hname hi, e4]
    constructor
    · rintro ⟨h1, h2, h3, h4⟩
      refine Or.inr ⟨h1, h2, h3, ?_⟩
      intro p hp hrow
      have hmem : p ∈ storedPositions d := by
        rw [e9]
        exact List.mem_filter.2 ⟨hp, by simpa using (fun h : rowInTriple (m.elements_ p) = r =>
          hi (hrow ▸ h))⟩
      exact h4 p hmem (by rw [e10 p hmem]; exact hrow)
    · rintro (h | ⟨h1, h2, h3, h4⟩)
      · exact absurd h hi
      · refine ⟨h1, h2, h3, ?_⟩
        intro p hp
        rw [e10 p hp]
        exact h4 p (hel p hp).1

/-- The new indices that `packRows` gives after `deleteRow(r)`, in terms of the model
before the deletion. -/
theorem newRowIndexAfterDelete_eq (m d : CoinModel) (r : Int)
    (hn : d.numberRows_ = m.numberRows_)
    (hb : ∀ i, RowIsBare d i ↔ i = r ∨ RowIsBare m i) (i : Int) (hi : i ≤ m.numberRows_) :
    packRank (rowCounts d) i = newRowIndexAfterDelete m r i := by
  unfold packRank newRowIndexAfterDelete
  congr 2
  apply List.filter_congr
  intro j hj
  have hj' := mem_positionsBelow.1 hj
  have hz := rowCounts_eq_zero_iff d j hj'.1 (by omega)
  have hbj := hb j
  by_cases h : rowCounts d j = 0
  · have h1 := hbj.1 (hz.1 h)
    have : ¬ (j ≠ r ∧ ¬ RowIsBare m j) := fun x => by
      rcases h1 with h1 | h1
      · exact x.1 h1
      · exact x.2 h1
    simp only [h, this, ne_eq, not_true_eq_false, decide_False]
  · have h1 : ¬ (j = r ∨ RowIsBare m j) := fun x => h (hz.2 (hbj.2 x))
    have : j ≠ r ∧ ¬ RowIsBare m j := ⟨fun x => h1 (Or.inl x), fun x => h1 (Or.inr x)⟩
    simp only [h, this, ne_eq, not_false_eq_true, decide_True, and_self]
theorem sameList_refl (l : CoinModelLinkedList) : SameList l l := ⟨rfl, rfl, rfl, rfl, rfl⟩

theorem sameList_trans {a b c : CoinModelLinkedList} (h1 : SameList a b) (h2 : SameList b c) :
    SameList a c :=
  ⟨h2.1.trans h1.1, h2.2.1.trans h1.2.1, h2.2.2.1.trans h1.2.2.1, h2.2.2.2.1.trans h1.2.2.2.1,
    h2.2.2.2.2.trans h1.2.2.2.2⟩

theorem sameList_resize (l : CoinModelLinkedList) (a b : Int) : SameList l (l.resize a b) :=
  ⟨rfl, rfl, rfl, rfl, rfl⟩

theorem arraysStay_refl (m : CoinModel) : ArraysStay m m := ⟨id, id, id, id, id, id, id, id⟩

theorem arraysStay_trans {a b c : CoinModel} (h1 : ArraysStay a b) (h2 : ArraysStay b c) :
    ArraysStay a c :=
  ⟨fun h => h2.1 (h1.1 h), fun h => h2.2.1 (h1.2.1 h), fun h => h2.2.2.1 (h1.2.2.1 h),
    fun h => h2.2.2.2.1 (h1.2.2.2.1 h), fun h => h2.2.2.2.2.1 (h1.2.2.2.2.1 h),
    fun h => h2.2.2.2.2.2.1 (h1.2.2.2.2.2.1 h),
    fun h => h2.2.2.2.2.2.2.1 (h1.2.2.2.2.2.2.1 h),
    fun h => h2.2.2.2.2.2.2.2 (h1.2.2.2.2.2.2.2 h)⟩

theorem steady_refl (m : CoinModel) : Steady m m :=
  ⟨rfl, rfl, rfl, rfl, rfl, rfl, sameList_refl _, sameList_refl _, arraysStay_refl m⟩

theorem steady_trans {a b c : CoinModel} (h1 : Steady a b) (h2 : Steady b c) : Steady a c := by
  obtain ⟨a1, a2, a3, a4, a5, a6, a7, a8, a9⟩ := h1
  obtain ⟨b1, b2, b3, b4, b5, b6, b7, b8, b9⟩ := h2
  exact ⟨b1.trans a1, b2.trans a2, b3.trans a3, b4.trans a4, b5.trans a5, b6.trans a6,
    sameList_trans a7 b7, sameList_trans a8 b8, arraysStay_trans a9 b9⟩

theorem isSome_fillRange {α : Type} (a : Option (Int → α)) (lo hi : Int) (v : α) :
    (fillRange a lo hi v).isSome = a.isSome := by
  cases a <;> rfl

theorem isSome_store {α : Type} (a : Option (Int → α)) (i : Int) (v : α) :
    (store a i v).isSome = a.isSome := by
  cases a <;> rfl

theorem steady_resizeElements (m : CoinModel) (E : Int) : Steady m (resizeElements m E) := by
  unfold resizeElements
  by_cases h1 : E > m.maximumElements_
  · rw [if_pos h1]
    dsimp only
    split_ifs
    all_goals exact ⟨rfl, rfl, rfl, rfl, rfl, rfl, sameList_refl _, sameList_refl _,
      arraysStay_refl m⟩
  · rw [if_neg h1]
    exact steady_refl m

/-- The second part of `fillRows` on a model without `start_`, in a call from `addRow`. -/
theorem steady_fillRowsFill_add (m : CoinModel) (w : Int) :
    Steady m (fillRowsFill m w true) := by
  unfold fillRowsFill
  dsimp only
  rw [if_neg (by decide)]
  split_ifs
  · exact ⟨rfl, rfl, rfl, rfl, rfl, rfl, sameList_refl _, sameList_refl _,
      ⟨fun h => by rw [isSome_fillRange]; exact h, fun h => by rw [isSome_fillRange]; exact h,
        fun h => by rw [isSome_fillRange]; exact h, id, id, id, id, id⟩⟩
  · exact steady_refl m

/-- The second part of `fillRows` on a model without `start_`, in a call that does not
come from `addRow`: the row count is raised. -/
theorem steady_fillRowsFill (m : CoinModel) (w : Int) (hs : m.start_ = none) :
    Steady { m with numberRows_ := max (w + 1) m.numberRows_ } (fillRowsFill m w false) := by
  unfold fillRowsFill
  dsimp only
  rw [if_pos rfl]
  split_ifs with h1 h2 h2
  · rw [hs] at h2
    cases h2
  · exact ⟨rfl, rfl, rfl, rfl, rfl, rfl, sameList_refl _, sameList_refl _,
      ⟨fun h => by rw [isSome_fillRange]; exact h, fun h => by rw [isSome_fillRange]; exact h,
        fun h => by rw [isSome_fillRange]; exact h, id, id, id, id, id⟩⟩
  · rw [hs] at h2
    cases h2
  · exact ⟨rfl, rfl, rfl, rfl, rfl, rfl, sameList_refl _, sameList_refl _, arraysStay_refl m⟩

theorem steady_fillColumnsFill_add (m : CoinModel) (w : Int) :
    Steady m (fillColumnsFill m w true) := by
  unfold fillColumnsFill
  dsimp only
  rw [if_neg (by decide)]
  split_ifs
  · exact ⟨rfl, rfl, rfl, rfl, rfl, rfl, sameList_refl _, sameList_refl _,
      ⟨id, id, id, fun h => by rw [isSome_fillRange]; exact h,
        fun h => by rw [isSome_fillRange]; exact h, fun h => by rw [isSome_fillRange]; exact h,
        fun h => by rw [isSome_fillRange]; exact h,
        fun h => by rw [isSome_fillRange]; exact h⟩⟩
  · exact steady_refl m

theorem steady_fillColumnsFill (m : CoinModel) (w : Int) (hs : m.start_ = none) :
    Steady { m with numberColumns_ := max (w + 1) m.numberColumns_ }
      (fillColumnsFill m w false) := by
  unfold fillColumnsFill
  dsimp only
  rw [if_pos rfl]
  split_ifs with h1 h2 h2
  · rw [hs] at h2
    cases h2
  · exact ⟨rfl, rfl, rfl, rfl, rfl, rfl, sameList_refl _, sameList_refl _,
      ⟨id, id, id, fun h => by rw [isSome_fillRange]; exact h,
        fun h => by rw [isSome_fillRange]; exact h, fun h => by rw [isSome_fillRange]; exact h,
        fun h => by rw [isSome_fillRange]; exact h,
        fun h => by rw [isSome_fillRange]; exact h⟩⟩
  · rw [hs] at h2
    cases h2
  · exact ⟨rfl, rfl, rfl, rfl, rfl, rfl, sameList_refl _, sameList_refl _, arraysStay_refl m⟩
/-- The nested `fillRows` call made by `resize`, on a model in the mixed mode without
`start_`: the row count becomes `max (w + 1) numberRows_`. -/
theorem steady_fillRows_nested (m : CoinModel) (w : Int) (h1 : m.type_ = 2)
    (hs : m.start_ = none) (h2 : m.rowLower_.isSome = true) (h3 : w < m.maximumRows_) :
    (fillRowsWith resizeStuck m w true false).Returns
      (Steady { m with numberRows_ := max (w + 1) m.numberRows_ }) := by
  have h2' := isNone_of_isSome h2
  unfold fillRowsWith
  apply Outcome.returns_bind (P := fun (x : CoinModel × Int) => x.1 = m ∧ x.2 = w)
  · rw [if_pos (by simp)]
    unfold fillRowsCreate
    rw [if_neg (by rw [h1]; decide), if_neg (by rw [h1]; decide)]
    show Outcome.Returns (Outcome.bind (if m.rowLower_.isNone = true then _ else _) _) _
    rw [if_neg (by simp [h2'])]
    show Outcome.Returns (if w ≥ m.maximumRows_ then _ else _) _
    rw [if_neg (by omega)]
    exact Outcome.returns_returned ⟨rfl, rfl⟩
  · rintro ⟨a, w'⟩ ⟨ha, hw⟩
    dsimp only at ha hw ⊢
    subst ha
    subst hw
    exact Outcome.returns_returned (steady_fillRowsFill _ _ hs)

theorem steady_fillColumns_nested (m : CoinModel) (w : Int) (h1 : m.type_ = 2)
    (hs : m.start_ = none) (h2 : m.objective_.isSome = true) (h3 : w < m.maximumColumns_) :
    (fillColumnsWith resizeStuck m w true false).Returns
      (Steady { m with numberColumns_ := max (w + 1) m.numberColumns_ }) := by
  have h2' := isNone_of_isSome h2
  unfold fillColumnsWith
  apply Outcome.returns_bind (P := fun (x : CoinModel × Int) => x.1 = m ∧ x.2 = w)
  · rw [if_pos (by simp)]
    unfold fillColumnsCreate
    rw [if_neg (by rw [h1]; decide), if_neg (by rw [h1]; decide)]
    show Outcome.Returns (Outcome.bind (if m.objective_.isNone = true then _ else _) _) _
    rw [if_neg (by simp [h2'])]
    show Outcome.Returns (if w ≥ m.maximumColumns_ then _ else _) _
    rw [if_neg (by omega)]
    exact Outcome.returns_returned ⟨rfl, rfl⟩
  · rintro ⟨a, w'⟩ ⟨ha, hw⟩
    dsimp only at ha hw ⊢
    subst ha
    subst hw
    exact Outcome.returns_returned (steady_fillColumnsFill _ _ hs)

/-- The row part of `resize` on a model in the mixed mode without `start_`. -/
theorem steady_resizeRows (m : CoinModel) (R E : Int) (h1 : m.type_ = 2)
    (hs : m.start_ = none) (h0 : 0 ≤ m.numberRows_) :
    (resizeRows (fillRowsWith resizeStuck) m R E).Returns (Steady m) := by
  unfold resizeRows
  rw [if_pos (Or.inr h1)]
  dsimp only
  by_cases hR : max R m.numberRows_ > m.maximumRows_
  · rw [if_pos hR]
    have hlt : m.numberRows_ - 1 < max R m.numberRows_ := by
      have := le_max_right R m.numberRows_
      omega
    have hmax : max (m.numberRows_ - 1 + 1) 0 = m.numberRows_ := by
      rw [max_eq_left (by omega)]
      omega
    have hrows : ArraysStay m
        { m with rowLower_ := some (copyN m.rowLower_ m.numberRows_ 0),
                 rowUpper_ := some (copyN m.rowUpper_ m.numberRows_ 0),
                 rowType_ := some (copyN m.rowType_ m.numberRows_ 0) } :=
      ⟨fun _ => rfl, fun _ => rfl, fun _ => rfl, id, id, id, id, id⟩
    have h20 : ¬ (m.type_ = 0) := by rw [h1]; decide
    split_ifs
    all_goals first
      | exact Outcome.returns_returned
          ⟨rfl, rfl, rfl, rfl, rfl, rfl, sameList_refl _, sameList_refl _, hrows⟩
      | (refine Outcome.returns_mono (steady_fillRows_nested _ _ h1 hs rfl hlt) ?_
         intro a ha
         obtain ⟨a1, a2, a3, a4, a5, a6, a7, a8, a9⟩ := ha
         dsimp only at a4
         rw [hmax] at a4
         exact ⟨a1, a2, a3, a4, a5, a6, a7, a8, arraysStay_trans hrows a9⟩)
  · rw [if_neg hR]
    exact Outcome.returns_returned (steady_refl m)

theorem steady_resizeColumns (m : CoinModel) (C E : Int) (h1 : m.type_ = 2)
    (hs : m.start_ = none) (h0 : 0 ≤ m.numberColumns_) :
    (resizeColumns (fillColumnsWith resizeStuck) m C E).Returns (Steady m) := by
  unfold resizeColumns
  rw [if_pos (Or.inr h1)]
  dsimp only
  by_cases hR : max C m.numberColumns_ > m.maximumColumns_
  · rw [if_pos hR]
    have hlt : m.numberColumns_ - 1 < max C m.numberColumns_ := by
      have := le_max_right C m.numberColumns_
      omega
    have hmax : max (m.numberColumns_ - 1 + 1) 0 = m.numberColumns_ := by
      rw [max_eq_left (by omega)]
      omega
    have hcols : ArraysStay m
        { m with columnLower_ := some (copyN m.columnLower_ m.numberColumns_ 0),
                 columnUpper_ := some (copyN m.columnUpper_ m.numberColumns_ 0),
                 objective_ := some (copyN m.objective_ m.numberColumns_ 0),
                 columnType_ := some (copyN m.columnType_ m.numberColumns_ 0),
                 integerType_ := some (copyN m.integerType_ m.numberColumns_ 0) } :=
      ⟨id, id, id, fun _ => rfl, fun _ => rfl, fun _ => rfl, fun _ => rfl, fun _ => rfl⟩
    have h21 : ¬ (m.type_ = 1) := by rw [h1]; decide
    split_ifs
    all_goals first
      | exact Outcome.returns_returned
          ⟨rfl, rfl, rfl, rfl, rfl, rfl, sameList_refl _, sameList_refl _, hcols⟩
      | (refine Outcome.returns_mono (steady_fillColumns_nested _ _ h1 hs rfl hlt) ?_
         intro a ha
         obtain ⟨a1, a2, a3, a4, a5, a6, a7, a8, a9⟩ := ha
         dsimp only at a5
         rw [hmax] at a5
         exact ⟨a1, a2, a3, a4, a5, a6, a7, a8, arraysStay_trans hcols a9⟩)
  · rw [if_neg hR]
    exact Outcome.returns_returned (steady_refl m)

/-- `resize` on a model in the mixed mode without `start_` keeps the mode, the counts
and the lists. -/
theorem steady_resize (m : CoinModel) (R C E : Int) (h1 : m.type_ = 2)
    (hs : m.start_ = none) (hr : 0 ≤ m.numberRows_) (hc : 0 ≤ m.numberColumns_) :
    (resize m R C E).Returns (Steady m) := by
  unfold resize resizeWith
  dsimp only
  apply Outcome.returns_bind (steady_resizeRows m R _ h1 hs hr)
  intro a ha
  apply Outcome.returns_bind
    (Outcome.returns_mono
      (steady_resizeColumns a C _ (ha.1.trans h1) (ha.2.2.1.trans hs) (by rw [ha.2.2.2.2.1]; exact hc))
      (fun b hb => steady_trans ha hb))
  intro b hb
  rw [if_neg (by rw [hb.1, h1]; decide)]
  exact Outcome.returns_returned (steady_trans hb (steady_resizeElements _ _))
/-- `fillRows(whichRow, false, true)`, the call made by `addRow`, on a model in the mixed
mode without `start_` whose row arrays exist. -/
theorem steady_fillRows_add (m : CoinModel) (w : Int) (h1 : m.type_ = 2)
    (hs : m.start_ = none) (hr : 0 ≤ m.numberRows_) (hc : 0 ≤ m.numberColumns_)
    (h2 : m.rowLower_.isSome = true) :
    (fillRows m w false true).Returns (Steady m) := by
  have h2' := isNone_of_isSome h2
  unfold fillRows fillRowsWith
  apply Outcome.returns_bind (P := fun (x : CoinModel × Int) => Steady m x.1)
  · rw [if_pos (by simp)]
    unfold fillRowsCreate
    rw [if_neg (by rw [h1]; decide), if_neg (by rw [h1]; decide)]
    show Outcome.Returns (Outcome.bind (if m.rowLower_.isNone = true then _ else _) _) _
    rw [if_neg (by simp [h2'])]
    show Outcome.Returns (if w ≥ m.maximumRows_ then _ else _) _
    split_ifs
    all_goals first
      | exact Outcome.returns_returned (steady_refl m)
      | (apply Outcome.returns_bind (steady_resize m _ _ _ h1 hs hr hc)
         intro b hb
         exact Outcome.returns_returned hb)
  · rintro ⟨a, w'⟩ ha
    exact Outcome.returns_returned (steady_trans ha (steady_fillRowsFill_add _ _))

/-- `fillRows(whichRow, false, false)`, the call made by `addColumn` and `setElement`, on
a model without `start_`: the row count becomes `max (whichRow + 1) numberRows_`. -/
theorem steady_fillRows_set (m : CoinModel) (w : Int) (hs : m.start_ = none) :
    (fillRows m w false false).Returns
      (Steady { m with numberRows_ := max (w + 1) m.numberRows_ }) := by
  unfold fillRows fillRowsWith
  rw [if_neg (by simp)]
  exact Outcome.returns_returned (steady_fillRowsFill m w hs)

theorem steady_fillColumns_add (m : CoinModel) (w : Int) (h1 : m.type_ = 2)
    (hs : m.start_ = none) (hr : 0 ≤ m.numberRows_) (hc : 0 ≤ m.numberColumns_)
    (h2 : m.objective_.isSome = true) :
    (fillColumns m w false true).Returns (Steady m) := by
  have h2' := isNone_of_isSome h2
  unfold fillColumns fillColumnsWith
  apply Outcome.returns_bind (P := fun (x : CoinModel × Int) => Steady m x.1)
  · rw [if_pos (by simp)]
    unfold fillColumnsCreate
    rw [if_neg (by rw [h1]; decide), if_neg (by rw [h1]; decide)]
    show Outcome.Returns (Outcome.bind (if m.objective_.isNone = true then _ else _) _) _
    rw [if_neg (by simp [h2'])]
    show Outcome.Returns (if w ≥ m.maximumColumns_ then _ else _) _
    split_ifs
    all_goals first
      | exact Outcome.returns_returned (steady_refl m)
      | (apply Outcome.returns_bind (steady_resize m _ _ _ h1 hs hr hc)
         intro b hb
         exact Outcome.returns_returned hb)
  · rintro ⟨a, w'⟩ ha
    exact Outcome.returns_returned (steady_trans ha (steady_fillColumnsFill_add _ _))

theorem steady_fillColumns_set (m : CoinModel) (w : Int) (hs : m.start_ = none) :
    (fillColumns m w false false).Returns
      (Steady { m with numberColumns_ := max (w + 1) m.numberColumns_ }) := by
  unfold fillColumns fillColumnsWith
  rw [if_neg (by simp)]
  exact Outcome.returns_returned (steady_fillColumnsFill m w hs)

/-! ### `resize` creates the row and column arrays when the capacity grows -/

theorem rowArrays_stay {m m' : CoinModel} (h : RowArrays m) (hs : ArraysStay m m')
    (h0 : 0 ≤ m'.numberRows_) : RowArrays m' :=
  ⟨h0, hs.1 h.2.1, hs.2.1 h.2.2.1, hs.2.2.1 h.2.2.2⟩

theorem columnArrays_stay {m m' : CoinModel} (h : ColumnArrays m) (hs : ArraysStay m m')
    (h0 : 0 ≤ m'.numberColumns_) : ColumnArrays m' :=
  ⟨h0, hs.2.2.2.1 h.2.1, hs.2.2.2.2.1 h.2.2.1, hs.2.2.2.2.2.1 h.2.2.2.1,
    hs.2.2.2.2.2.2.1 h.2.2.2.2.1, hs.2.2.2.2.2.2.2 h.2.2.2.2.2⟩

theorem resizeRows_creates (m : CoinModel) (R E : Int) (h1 : m.type_ = 2)
    (hs : m.start_ = none) (hR : m.maximumRows_ < R) :
    (resizeRows (fillRowsWith resizeStuck) m R E).Returns fun a =>
      a.rowLower_.isSome = true ∧ a.rowUpper_.isSome = true ∧ a.rowType_.isSome = true := by
  unfold resizeRows
  rw [if_pos (Or.inr h1)]
  dsimp only
  have hR' : max R m.numberRows_ > m.maximumRows_ := lt_of_lt_of_le hR (le_max_left _ _)
  rw [if_pos hR']
  have hlt : m.numberRows_ - 1 < max R m.numberRows_ := by
    have := le_max_right R m.numberRows_
    omega
  have h20 : ¬ (m.type_ = 0) := by rw [h1]; decide
  split_ifs
  all_goals first
    | exact Outcome.returns_returned ⟨rfl, rfl, rfl⟩
    | (refine Outcome.returns_mono (steady_fillRows_nested _ _ h1 hs rfl hlt) ?_
       intro a ha
       have a9 := ha.2.2.2.2.2.2.2.2
       exact ⟨a9.1 rfl, a9.2.1 rfl, a9.2.2.1 rfl⟩)

theorem resizeColumns_creates (m : CoinModel) (C E : Int) (h1 : m.type_ = 2)
    (hs : m.start_ = none) (hC : m.maximumColumns_ < C) :
    (resizeColumns (fillColumnsWith resizeStuck) m C E).Returns fun a =>
      a.columnLower_.isSome = true ∧ a.columnUpper_.isSome = true ∧
      a.objective_.isSome = true ∧ a.integerType_.isSome = true ∧
      a.columnType_.isSome = true := by
  unfold resizeColumns
  rw [if_pos (Or.inr h1)]
  dsimp only
  have hC' : max C m.numberColumns_ > m.maximumColumns_ := lt_of_lt_of_le hC (le_max_left _ _)
  rw [if_pos hC']
  have hlt : m.numberColumns_ - 1 < max C m.numberColumns_ := by
    have := le_max_right C m.numberColumns_
    omega
  have h21 : ¬ (m.type_ = 1) := by rw [h1]; decide
  split_ifs
  all_goals first
    | exact Outcome.returns_returned ⟨rfl, rfl, rfl, rfl, rfl⟩
    | (refine Outcome.returns_mono (steady_fillColumns_nested _ _ h1 hs rfl hlt) ?_
       intro a ha
       have a9 := ha.2.2.2.2.2.2.2.2
       exact ⟨a9.2.2.2.1 rfl, a9.2.2.2.2.1 rfl, a9.2.2.2.2.2.1 rfl, a9.2.2.2.2.2.2.1 rfl,
         a9.2.2.2.2.2.2.2 rfl⟩)

theorem resizeRows_maximumColumns (m : CoinModel) (R E : Int) (h1 : m.type_ = 2)
    (hrl : m.rowLower_.isSome = true) :
    (resizeRows (fillRowsWith resizeStuck) m R E).Returns fun a =>
      a.maximumColumns_ = m.maximumColumns_ := by
  have hn : ¬ (m.rowLower_.isNone = true) := by rw [isNone_of_isSome hrl]; decide
  have h20 : ¬ (m.type_ = 0) := by rw [h1]; decide
  unfold resizeRows
  rw [if_pos (Or.inr h1)]
  dsimp only
  by_cases hR : max R m.numberRows_ > m.maximumRows_
  · rw [if_pos hR]
    split_ifs
    all_goals exact Outcome.returns_returned rfl
  · rw [if_neg hR]
    exact Outcome.returns_returned rfl

/-- A call of `resize` that raises the row capacity leaves the row arrays allocated. -/
theorem resize_creates_rows (m : CoinModel) (R C E : Int) (h1 : m.type_ = 2)
    (hs : m.start_ = none) (hr : 0 ≤ m.numberRows_) (hc : 0 ≤ m.numberColumns_)
    (hR : m.maximumRows_ < R) :
    (resize m R C E).Returns fun a =>
      a.rowLower_.isSome = true ∧ a.rowUpper_.isSome = true ∧ a.rowType_.isSome = true := by
  unfold resize resizeWith
  dsimp only
  apply Outcome.returns_bind
    (Outcome.returns_and (steady_resizeRows m R _ h1 hs hr) (resizeRows_creates m R _ h1 hs hR))
  rintro a ⟨ha, hx⟩
  apply Outcome.returns_bind
    (steady_resizeColumns a C _ (ha.1.trans h1) (ha.2.2.1.trans hs)
      (by rw [ha.2.2.2.2.1]; exact hc))
  intro b hb
  rw [if_neg (by rw [hb.1, ha.1, h1]; decide)]
  have hy := arraysStay_trans hb.2.2.2.2.2.2.2.2
    (steady_resizeElements b (max E m.maximumElements_)).2.2.2.2.2.2.2.2
  exact Outcome.returns_returned ⟨hy.1 hx.1, hy.2.1 hx.2.1, hy.2.2.1 hx.2.2⟩

/-- A call of `resize` that raises the column capacity leaves the column arrays
allocated. -/
theorem resize_creates_columns (m : CoinModel) (R C E : Int) (h1 : m.type_ = 2)
    (hs : m.start_ = none) (hr : 0 ≤ m.numberRows_) (hc : 0 ≤ m.numberColumns_)
    (hrl : m.rowLower_.isSome = true) (hC : m.maximumColumns_ < C) :
    (resize m R C E).Returns fun a =>
      a.columnLower_.isSome = true ∧ a.columnUpper_.isSome = true ∧
      a.objective_.isSome = true ∧ a.integerType_.isSome = true ∧
      a.columnType_.isSome = true := by
  unfold resize resizeWith
  dsimp only
  apply Outcome.returns_bind
    (Outcome.returns_and (steady_resizeRows m R _ h1 hs hr)
      (resizeRows_maximumColumns m R _ h1 hrl))
  rintro a ⟨ha, hx⟩
  apply Outcome.returns_bind
    (Outcome.returns_and
      (steady_resizeColumns a C _ (ha.1.trans h1) (ha.2.2.1.trans hs)
        (by rw [ha.2.2.2.2.1]; exact hc))
      (resizeColumns_creates a C _ (ha.1.trans h1) (ha.2.2.1.trans hs)
        (by rw [hx]; exact hC)))
  rintro b ⟨hb, hy⟩
  rw [if_neg (by rw [hb.1, ha.1, h1]; decide)]
  have hz := (steady_resizeElements b (max E m.maximumElements_)).2.2.2.2.2.2.2.2
  exact Outcome.returns_returned
    ⟨hz.2.2.2.1 hy.1, hz.2.2.2.2.1 hy.2.1, hz.2.2.2.2.2.1 hy.2.2.1,
      hz.2.2.2.2.2.2.1 hy.2.2.2.1, hz.2.2.2.2.2.2.2 hy.2.2.2.2⟩

theorem cdiv_grow (n : Int) (h : 0 ≤ n) : n < cdiv (3 * n) 2 + 100 := by
  unfold cdiv
  rw [Int.tdiv_eq_ediv (by omega) (by decide)]
  omega

theorem listExact_of_sameList {t : Int} {l l' : CoinModelLinkedList} {n : Int}
    (h : ListExact t l n) (hs : SameList l l') : ListExact t l' n := by
  obtain ⟨a1, a2, a3, a4⟩ := h
  obtain ⟨b1, b2, _, b4, b5⟩ := hs
  exact ⟨b1.trans a1, b2.trans a2, b4.trans a3, by rw [b5]; exact a4⟩

theorem hashBelow_mono {H : CoinModelHash2} {n n' : Int} (h : HashBelow H n) (hn : n ≤ n') :
    HashBelow H n' := ⟨le_trans h.1 hn, h.2⟩

theorem hashBelow_addHash (H : CoinModelHash2) (n put r c : Int) (E : Int → CoinModelTriple)
    (h : HashBelow H n) (h0 : 0 ≤ put) (h1 : put < n) :
    HashBelow (H.addHash put r c E) n ∧
    H.maximumItems_ ≤ (H.addHash put r c E).maximumItems_ := by
  obtain ⟨s1, _, s3⟩ := addHash_spec H put r c E
  have hni : (H.addHash put r c E).numberItems_ = max H.numberItems_ (put + 1) := by
    unfold CoinModelHash2.addHash
    dsimp only
    split_ifs
    · rw [hash_resize_numberItems]
    · rfl
  have hmax : H.maximumItems_ ≤ (H.addHash put r c E).maximumItems_ := by
    unfold CoinModelHash2.addHash
    dsimp only
    split_ifs
    · exact hash_resize_max _ _ _ _
    · exact le_refl _
  refine ⟨⟨?_, ?_⟩, hmax⟩
  · rw [hni]
    exact max_le h.1 (by omega)
  · intro q hq
    rw [hni]
    rcases s3 q hq with hq' | hq' | hq'
    · rw [hq']
      exact ⟨h0, lt_of_lt_of_le (by omega) (le_max_right _ _)⟩
    · have := h.2 q hq'
      exact ⟨this.1, lt_of_lt_of_le this.2 (le_max_left _ _)⟩
    · exact ⟨hq'.1, lt_of_lt_of_le hq'.2 (le_max_left _ _)⟩

/-- One step of `addEasy` on a list without free slots: the entry goes to the slot `n`
at the end of the element store. -/
theorem addEasyStep_exact (t : Int) (l : CoinModelLinkedList) (n : Int)
    (hl : ListExact t l n) (major : Int) (d : Bool) (first : Int)
    (E : Int → CoinModelTriple) (H : CoinModelHash2) (e : Int × Value) :
    (CoinModelLinkedList.addEasyStep major d (first, l, E, H) e).1 =
      (if first < 0 then n else first) ∧
    ListExact t (CoinModelLinkedList.addEasyStep major d (first, l, E, H) e).2.1 (n + 1) ∧
    (CoinModelLinkedList.addEasyStep major d (first, l, E, H) e).2.1.numberMajor_ =
      max l.numberMajor_ (major + 1) ∧
    (CoinModelLinkedList.addEasyStep major d (first, l, E, H) e).2.1.chain =
      Function.update l.chain major (l.chain major ++ [n]) ∧
    (CoinModelLinkedList.addEasyStep major d (first, l, E, H) e).2.1.maximumElements_ =
      l.maximumElements_ ∧
    (CoinModelLinkedList.addEasyStep major d (first, l, E, H) e).2.2.1 =
      Function.update E n (tripleOf (decide (t = 0)) major e) ∧
    (CoinModelLinkedList.addEasyStep major d (first, l, E, H) e).2.2.2 =
      (if d then H.addHash n (rowInTriple (tripleOf (decide (t = 0)) major e))
        (tripleOf (decide (t = 0)) major e).column
        (Function.update E n (tripleOf (decide (t = 0)) major e)) else H) := by
  obtain ⟨a1, a2, a3, a4⟩ := hl
  have hts : l.takeSlot = (n, { l with numberElements_ := l.numberElements_ + 1 }) := by
    unfold CoinModelLinkedList.takeSlot
    rw [a3, a2]
    rfl
  have htr : (if l.type_ = 0 then
        ({ setRowAndStringInTriple (E n) major false with column := e.1, value := e.2 } :
          CoinModelTriple)
      else { setRowAndStringInTriple (E n) e.1 false with column := major, value := e.2 }) =
      tripleOf (decide (t = 0)) major e := by
    unfold tripleOf setRowAndStringInTriple
    rw [a1]
    by_cases h0 : t = 0
    · rw [if_pos h0, decide_eq_true h0, if_pos rfl]
    · rw [if_neg h0, decide_eq_false h0, if_neg (by simp)]
  unfold CoinModelLinkedList.addEasyStep
  simp only [hts]
  rw [htr]
  refine ⟨trivial, ⟨a1, ?_, a3, ?_⟩, rfl, rfl, rfl, rfl, rfl⟩
  · show max (l.numberElements_ + 1) (n + 1) = n + 1
    rw [a2, max_self]
  · intro k p hp
    change p ∈ Function.update l.chain major (l.chain major ++ [n]) k at hp
    by_cases hk : k = major
    · rw [hk, Function.update_same] at hp
      rcases List.mem_append.1 hp with h | h
      · have := a4 major p h
        omega
      · rw [List.mem_singleton.1 h]
        omega
    · rw [Function.update_noteq hk] at hp
      have := a4 k p hp
      omega
theorem positionsBelow_add_one {n : Int} (h : 0 ≤ n) :
    positionsBelow (n + 1) = positionsBelow n ++ [n] := by
  have := positionsBelow_succ n.toNat
  rw [toNat_cast_of_nonneg h] at this
  exact this

/-- The loop of `addEasy` on a list without free slots: the entries go, in their order,
to the slots at the end of the element store. -/
theorem addEasy_fold_exact (t major : Int) (d : Bool) :
    ∀ (es : List (Int × Value)) (first : Int) (l : CoinModelLinkedList) (n : Int)
      (E : Int → CoinModelTriple) (H : CoinModelHash2),
      ListExact t l n → 0 ≤ n → HashBelow H n →
      ListExact t (es.foldl (CoinModelLinkedList.addEasyStep major d) (first, l, E, H)).2.1
        (n + es.length) ∧
      (positionsBelow (n + es.length)).map
        (es.foldl (CoinModelLinkedList.addEasyStep major d) (first, l, E, H)).2.2.1 =
          (positionsBelow n).map E ++ es.map (tripleOf (decide (t = 0)) major) ∧
      HashBelow (es.foldl (CoinModelLinkedList.addEasyStep major d) (first, l, E, H)).2.2.2
        (n + es.length) ∧
      H.maximumItems_ ≤
        (es.foldl (CoinModelLinkedList.addEasyStep major d) (first, l, E, H)).2.2.2.maximumItems_
  | [], first, l, n, E, H, hl, h0, hH => by
    simp only [List.foldl_nil, List.length_nil, Nat.cast_zero, add_zero, List.map_nil,
      List.append_nil]
    exact ⟨hl, trivial, hH, le_refl _⟩
  | e :: es, first, l, n, E, H, hl, h0, hH => by
    obtain ⟨s1, s2, _, _, _, s6, s7⟩ := addEasyStep_exact t l n hl major d first E H e
    rw [List.foldl_cons]
    have hstate : CoinModelLinkedList.addEasyStep major d (first, l, E, H) e =
        ((CoinModelLinkedList.addEasyStep major d (first, l, E, H) e).1,
         (CoinModelLinkedList.addEasyStep major d (first, l, E, H) e).2.1,
         (CoinModelLinkedList.addEasyStep major d (first, l, E, H) e).2.2.1,
         (CoinModelLinkedList.addEasyStep major d (first, l, E, H) e).2.2.2) := rfl
    rw [hstate]
    have hH1 : HashBelow (CoinModelLinkedList.addEasyStep major d (first, l, E, H) e).2.2.2
        (n + 1) ∧ H.maximumItems_ ≤
        (CoinModelLinkedList.addEasyStep major d (first, l, E, H) e).2.2.2.maximumItems_ := by
      rw [s7]
      split_ifs
      · exact hashBelow_addHash H (n + 1) n _ _ _ (hashBelow_mono hH (by omega)) h0 (by omega)
      · exact ⟨hashBelow_mono hH (by omega), le_refl _⟩
    obtain ⟨i1, i2, i3, i4⟩ := addEasy_fold_exact t major d es _ _ (n + 1) _ _ s2 (by omega)
      hH1.1
    have hlen : n + ((e :: es).length : Int) = n + 1 + (es.length : Int) := by
      rw [List.length_cons]
      push_cast
      ring
    rw [hlen]
    refine ⟨i1, ?_, i3, le_trans hH1.2 i4⟩
    rw [i2, s6, positionsBelow_add_one h0, List.map_append, List.map_cons, List.map_nil,
      Function.update_same, List.map_cons, List.append_assoc, List.singleton_append]
    congr 1
    have := map_update_positionsBelow E n.toNat n (tripleOf (decide (t = 0)) major e)
      (by rw [toNat_cast_of_nonneg h0])
    rw [toNat_cast_of_nonneg h0] at this
    exact this
/-- The list that `addEasy` works on: the list it is given, up to its capacity and its
number of major indices. -/
theorem addEasy_eq (l : CoinModelLinkedList) (major : Int) (es : List (Int × Value))
    (E : Int → CoinModelTriple) (H : CoinModelHash2) (hne : es ≠ []) :
    ∃ l' : CoinModelLinkedList, l'.type_ = l.type_ ∧ l'.numberElements_ = l.numberElements_ ∧
      l'.free = l.free ∧ l'.chain = l.chain ∧ major < l'.numberMajor_ ∧
      l.numberMajor_ ≤ l'.numberMajor_ ∧
      l.addEasy major es.length es E H =
        es.foldl (CoinModelLinkedList.addEasyStep major (decide (H.maximumItems ≠ 0)))
          (-1, l', E, H) := by
  have hlen : (es.length : Int) ≠ 0 := by
    intro h
    exact hne (List.length_eq_zero.1 (by exact_mod_cast h))
  unfold CoinModelLinkedList.addEasy
  simp only [if_pos hlen, Int.toNat_ofNat, List.take_length]
  refine ⟨_, ?_, ?_, ?_, ?_, ?_, ?_, rfl⟩
  · split_ifs <;> rfl
  · split_ifs <;> rfl
  · split_ifs <;> rfl
  · split_ifs <;> rfl
  · split_ifs with h1 h2 h2
    · show major < major + 1
      omega
    · exact lt_of_not_ge h2
    · show major < major + 1
      omega
    · exact lt_of_not_ge h2
  · split_ifs with h1 h2 h2
    · show l.numberMajor_ ≤ major + 1
      have : major ≥ l.numberMajor_ := h2
      omega
    · exact le_refl _
    · show l.numberMajor_ ≤ major + 1
      have : major ≥ l.numberMajor_ := h2
      omega
    · exact le_refl _

/-- The member `addEasy` on a list without free slots: the entries go, in their order, to
the slots at the end of the element store. -/
theorem addEasy_exact (t : Int) (l : CoinModelLinkedList) (n : Int) (hl : ListExact t l n)
    (h0 : 0 ≤ n) (major : Int) (es : List (Int × Value)) (E : Int → CoinModelTriple)
    (H : CoinModelHash2) (hH : HashBelow H n) :
    ListExact t (l.addEasy major es.length es E H).2.1 (n + es.length) ∧
    (positionsBelow (n + es.length)).map (l.addEasy major es.length es E H).2.2.1 =
      (positionsBelow n).map E ++ es.map (tripleOf (decide (t = 0)) major) ∧
    HashBelow (l.addEasy major es.length es E H).2.2.2 (n + es.length) ∧
    H.maximumItems_ ≤ (l.addEasy major es.length es E H).2.2.2.maximumItems_ := by
  by_cases hne : es = []
  · subst hne
    unfold CoinModelLinkedList.addEasy
    simp only [List.length_nil, Nat.cast_zero, ne_eq, not_true_eq_false, if_false, add_zero,
      List.map_nil, List.append_nil]
    refine ⟨?_, trivial, hH, le_refl _⟩
    obtain ⟨a1, a2, a3, a4⟩ := hl
    split_ifs
    · exact ⟨a1, a2, a3, a4⟩
    · exact ⟨a1, a2, a3, a4⟩
  · obtain ⟨l', b1, b2, b3, b4, _, _, heq⟩ := addEasy_eq l major es E H hne
    rw [heq]
    obtain ⟨a1, a2, a3, a4⟩ := hl
    exact addEasy_fold_exact t major _ es (-1) l' n E H
      ⟨b1.trans a1, b2.trans a2, b3.trans a3, by rw [b4]; exact a4⟩ h0 hH
theorem entriesOf_unzip (es : List (Int × Value)) :
    entriesOf es.length (es.map Prod.fst) (es.map Prod.snd) = es := by
  unfold entriesOf
  apply List.ext_getElem
  · simp
  · intro i h1 h2
    simp only [List.getElem_map, List.getElem_range]
    rw [List.getD_eq_getElem _ _ (by simpa using h2), List.getD_eq_getElem _ _ (by simpa using h2)]
    simp

theorem sortedFrom_sorted : ∀ (l : List Int) (last : Int), sortedFrom last l = true →
    l.Sorted (fun a b => a ≤ b)
  | [], _, _ => List.sorted_nil
  | k :: ks, last, h => by
    unfold sortedFrom at h
    split_ifs at h with hk
    have h1 := (sortedFrom_spec ks k h).1
    exact List.sorted_cons.2 ⟨fun j hj => le_of_lt (h1 j hj), sortedFrom_sorted ks k h⟩

theorem getLastD_mem : ∀ (l : List Int) (d : Int), l ≠ [] → l.getLastD d ∈ l
  | [], _, h => absurd rfl h
  | [a], _, _ => List.mem_singleton.2 rfl
  | a :: b :: l, _, _ => by
    rw [List.getLastD_cons]
    exact List.mem_cons_of_mem _ (getLastD_mem (b :: l) a (List.cons_ne_nil _ _))

theorem sorted_le_getLastD : ∀ (l : List Int) (d : Int), l.Sorted (fun a b => a ≤ b) →
    ∀ k ∈ l, k ≤ l.getLastD d
  | [], _, _ => fun k hk => absurd hk (List.not_mem_nil k)
  | [a], _, _ => fun k hk => by
    rw [List.mem_singleton.1 hk]
    exact le_refl _
  | a :: b :: l, _, hs => fun k hk => by
    rw [List.getLastD_cons]
    rcases List.mem_cons.1 hk with h | h
    · rw [h]
      exact List.rel_of_sorted_cons hs _ (getLastD_mem (b :: l) a (List.cons_ne_nil _ _))
    · exact sorted_le_getLastD (b :: l) a hs.of_cons k h

/-- A good, non-empty batch passes `sortAndCheck`: the model is returned with at most a
larger sort buffer, the entries are returned in ascending order of their indices, and
the index returned is the largest one of the batch. -/
theorem sortAndCheck_entries (m : CoinModel) (es : List (Int × Value)) (hne : es ≠ [])
    (hb : ¬ BadIndices (es.map Prod.fst)) :
    ∃ (s : Int) (entries : List (Int × Value)) (last : Int),
      sortAndCheck m es.length (es.map Prod.fst) (es.map Prod.snd) =
        Outcome.returned ({ m with sortSize_ := s }, entries, last) ∧
      entries.Perm es ∧ (∀ e ∈ es, e.1 ≤ last) ∧ (∃ e ∈ es, e.1 = last) := by
  have hne' : es.map Prod.fst ≠ [] := fun h => hne (List.map_eq_nil_iff.1 h)
  have hlen : ((es.map Prod.fst).length : Int) = (es.length : Int) := by
    rw [List.length_map]
  have hkey := (checked_keys_bad_iff (es.map Prod.fst) (es.map Prod.snd) hne').not.2 hb
  have hpos := length_pos_of_ne_nil hne'
  rw [hlen] at hkey hpos
  rw [entriesOf_unzip] at hkey
  unfold sortAndCheck
  rw [if_pos hpos, entriesOf_unzip]
  dsimp only at hkey ⊢
  rw [not_or] at hkey
  rw [if_neg hkey.1, if_neg hkey.2]
  have hstate : ∃ s : Int, (if (es.length : Int) > m.sortSize_ then
      { m with sortSize_ := (es.length : Int) + 100 } else m) = { m with sortSize_ := s } := by
    split_ifs
    · exact ⟨_, rfl⟩
    · exact ⟨m.sortSize_, rfl⟩
  obtain ⟨s, hs⟩ := hstate
  rw [hs]
  have hperm : (if sortedFrom (-1) (es.map Prod.fst) = false then CoinSort_2 es else es).Perm es := by
    split_ifs
    · exact CoinSort_2_perm es
    · exact List.Perm.refl es
  have hsorted : ((if sortedFrom (-1) (es.map Prod.fst) = false then CoinSort_2 es
      else es).map Prod.fst).Sorted (fun a b => a ≤ b) := by
    split_ifs with h
    · exact CoinSort_2_keys_sorted es
    · exact sortedFrom_sorted _ (-1) (by simpa using h)
  have hkne : (if sortedFrom (-1) (es.map Prod.fst) = false then CoinSort_2 es
      else es).map Prod.fst ≠ [] := by
    intro h
    have := (hperm.map Prod.fst).length_eq
    rw [h] at this
    exact hne' (List.length_eq_zero.1 this.symm)
  have hmem := getLastD_mem _ (-1) hkne
  have hle := sorted_le_getLastD _ (-1) hsorted
  have hneg : ¬ ∃ k ∈ es.map Prod.fst, k < 0 := fun h => hb ⟨hne', Or.inl h⟩
  have hlast0 : 0 ≤ ((if sortedFrom (-1) (es.map Prod.fst) = false then CoinSort_2 es
      else es).map Prod.fst).getLastD (-1) := by
    by_contra hc
    exact hneg ⟨_, (hperm.map Prod.fst).mem_iff.1 hmem, by omega⟩
  refine ⟨s, _, _, rfl, hperm, ?_, ?_⟩
  · intro e he
    have : e.1 ∈ (if sortedFrom (-1) (es.map Prod.fst) = false then CoinSort_2 es
        else es).map Prod.fst :=
      (hperm.map Prod.fst).mem_iff.2 (List.mem_map_of_mem _ he)
    exact le_trans (hle _ this) (le_max_right _ _)
  · rw [max_eq_right (by omega)]
    obtain ⟨e, he, hk⟩ := List.mem_map.1 ((hperm.map Prod.fst).mem_iff.1 hmem)
    exact ⟨e, he, hk⟩
theorem addRowStore_eq (m : CoinModel) (n : Int) (es : List (Int × Value))
    (newColumn : Int) (lo up : Value) (name : Option String) :
    ∃ R C E : Int, (¬ newColumn < m.maximumColumns_ → C = cdiv (3 * newColumn) 2 + 100) ∧
      addRowStore m n es newColumn lo up name =
      ((if R ≠ 0 ∨ newColumn ≥ m.maximumColumns_ ∨ E ≠ 0 then resize m R C E
        else Outcome.returned m).bind fun a =>
      (fillRows a a.numberRows_ false true).bind fun b =>
      (fillColumns (addRowNamed b lo up name) newColumn false false).bind fun c =>
      Outcome.returned (addRowLinks c n es)) := by
  unfold addRowStore
  dsimp only
  by_cases h : newColumn < m.maximumColumns_
  · exact ⟨_, 0, _, fun h' => absurd h h', by simp only [if_pos h]; rfl⟩
  · exact ⟨_, _, _, fun _ => rfl, by simp only [if_neg h]; rfl⟩

theorem addColumnStore_eq (m : CoinModel) (n : Int) (es : List (Int × Value))
    (newRow : Int) (lo up obj : Value) (name : Option String) (isInt : Bool) :
    ∃ R C E : Int, (¬ newRow < m.maximumRows_ → R = cdiv (3 * newRow) 2 + 100) ∧
      addColumnStore m n es newRow lo up obj name isInt =
      ((if C ≠ 0 ∨ newRow ≥ m.maximumRows_ ∨ E ≠ 0 then resize m R C E
        else Outcome.returned m).bind fun a =>
      (fillColumns a a.numberColumns_ false true).bind fun b =>
      (fillRows (addColumnNamed b lo up obj name isInt) newRow false false).bind fun c =>
      Outcome.returned (addColumnLinks c n es)) := by
  unfold addColumnStore
  dsimp only
  by_cases h : newRow < m.maximumRows_
  · exact ⟨0, _, _, fun h' => absurd h h', by simp only [if_pos h]; rfl⟩
  · exact ⟨_, _, _, fun _ => rfl, by simp only [if_neg h]; rfl⟩
/-- What `Keeps` and `Steady` together say about a model in which nothing has been
deleted. -/
theorem plain_frame {m m' : CoinModel} (hp : Plain m) (hk : Keeps m m') (hs : Steady m m') :
    Plain m' ∧ records m' = records m ∧
    m.hashElements_.maximumItems_ ≤ m'.hashElements_.maximumItems_ := by
  obtain ⟨p1, p2, p3, p4, p5, p6, p7, p8, p9⟩ := hp
  obtain ⟨k1, k2, _, k4, k5, k6, _, _⟩ := hk
  obtain ⟨s1, s2, s3, s4, s5, s6, s7, s8, _⟩ := hs
  refine ⟨⟨s1.trans p1, s3.trans p2, by rw [s4]; exact p3, by rw [s5]; exact p4,
    by rw [s6]; exact p5, by rw [s2]; exact p6, ?_, ?_, ?_⟩, ?_, k6⟩
  · intro h
    rw [s2] at h
    rw [s6]
    exact listExact_of_sameList (p7 h) s7
  · intro h
    rw [s2] at h
    rw [s6]
    exact listExact_of_sameList (p8 h) s8
  · refine ⟨by rw [k4, s6]; exact p9.1, ?_⟩
    intro q hq
    rw [k4]
    rcases k5 q hq with h | h
    · exact p9.2 q h
    · exact h
  · unfold records
    rw [s6]
    apply List.map_congr_left
    intro p hp
    have := mem_positionsBelow.1 hp
    exact k2 p this.1 this.2

theorem frame_addRowNamed (m : CoinModel) (lo up : Value) (name : Option String)
    (h : m.type_ ≠ 3) :
    Keeps m (addRowNamed m lo up name) ∧ Steady m (addRowNamed m lo up name) := by
  have hst : ∀ a : CoinModel, Steady m a → Steady m
      { a with rowLower_ := store a.rowLower_ a.numberRows_ lo,
               rowUpper_ := store a.rowUpper_ a.numberRows_ up } := fun a ha =>
    steady_trans ha ⟨rfl, rfl, rfl, rfl, rfl, rfl, sameList_refl _, sameList_refl _,
      ⟨fun h => by rw [isSome_store]; exact h, fun h => by rw [isSome_store]; exact h,
        id, id, id, id, id, id⟩⟩
  have hnm : ∀ x : CoinModelHash, Steady m { m with rowName_ := x } := fun x =>
    ⟨rfl, rfl, rfl, rfl, rfl, rfl, sameList_refl _, sameList_refl _, arraysStay_refl m⟩
  unfold addRowNamed
  cases name with
  | none =>
    dsimp only
    split_ifs
    · exact ⟨keeps_of_eq _ _ rfl rfl h rfl rfl (fun _ h => h) (fun _ h => h), hst _ (hnm _)⟩
    · exact ⟨keeps_of_eq _ _ rfl rfl h rfl rfl (fun _ h => h) (fun _ h => h),
        hst m (steady_refl m)⟩
  | some s =>
    exact ⟨keeps_of_eq _ _ rfl rfl h rfl rfl (fun _ h => h) (fun _ h => h), hst _ (hnm _)⟩

theorem frame_addColumnNamed (m : CoinModel) (lo up obj : Value) (name : Option String)
    (isInt : Bool) (h : m.type_ ≠ 3) :
    Keeps m (addColumnNamed m lo up obj name isInt) ∧
    Steady m (addColumnNamed m lo up obj name isInt) := by
  unfold addColumnNamed
  cases name with
  | none =>
    dsimp only
    split_ifs
    all_goals
      refine ⟨keeps_of_eq _ _ rfl rfl h rfl rfl (fun _ h => h) (fun _ h => h), rfl, rfl, rfl,
        rfl, rfl, rfl, sameList_refl _, sameList_refl _, id, id, id, fun h => ?_, fun h => ?_,
        fun h => ?_, fun h => ?_, id⟩
      all_goals
        show (store _ _ _).isSome = true
        rw [isSome_store]
        exact h
  | some s =>
    refine ⟨keeps_of_eq _ _ rfl rfl h rfl rfl (fun _ h => h) (fun _ h => h), rfl, rfl, rfl,
      rfl, rfl, rfl, sameList_refl _, sameList_refl _, id, id, id, fun h => ?_, fun h => ?_,
      fun h => ?_, fun h => ?_, id⟩
    all_goals
      show (store _ _ _).isSome = true
      rw [isSome_store]
      exact h

/-- The last block of `addRow` on a model in which nothing has been deleted and only the
row list exists: the entries are stored at the end of the element store. -/
theorem addRowLinks_plain (c : CoinModel) (hp : Plain c) (hl : c.links_ = 1)
    (es : List (Int × Value)) (hne : es ≠ []) :
    Plain (addRowLinks c es.length es) ∧ (addRowLinks c es.length es).links_ = 1 ∧
    ArraysStay c (addRowLinks c es.length es) ∧
    (addRowLinks c es.length es).numberRows_ = c.numberRows_ + 1 ∧
    (addRowLinks c es.length es).numberColumns_ = c.numberColumns_ ∧
    records (addRowLinks c es.length es) =
      records c ++ es.map (tripleOf true c.numberRows_) ∧
    c.hashElements_.maximumItems_ ≤ (addRowLinks c es.length es).hashElements_.maximumItems_ := by
  obtain ⟨p1, p2, p3, p4, p5, p6, p7, p8, p9⟩ := hp
  have hlen : (es.length : Int) ≠ 0 := by
    intro h
    exact hne (List.length_eq_zero.1 (by exact_mod_cast h))
  have hrow := p7 (by rw [hl]; decide)
  obtain ⟨e1, e2, e3, e4⟩ := addEasy_exact 0 c.rowList_ c.numberElements_ hrow p5
    c.numberRows_ es c.elements_ c.hashElements_ p9
  have hform : addRowLinks c es.length es =
      { c with rowList_ := (c.rowList_.addEasy c.numberRows_ es.length es c.elements_
                 c.hashElements_).2.1,
               elements_ := (c.rowList_.addEasy c.numberRows_ es.length es c.elements_
                 c.hashElements_).2.2.1,
               hashElements_ := (c.rowList_.addEasy c.numberRows_ es.length es c.elements_
                 c.hashElements_).2.2.2,
               numberElements_ := c.numberElements_ + es.length,
               numberRows_ := c.numberRows_ + 1 } := by
    unfold addRowLinks
    rw [if_neg (by rw [p1]; decide), if_pos hlen, if_pos (Or.inl hl)]
    dsimp only
    rw [if_neg (by rw [hl]; decide)]
    dsimp only
    have hn1 : max c.numberElements_
        (c.rowList_.addEasy c.numberRows_ es.length es c.elements_
          c.hashElements_).2.1.numberElements = c.numberElements_ + es.length := by
      show max c.numberElements_ (c.rowList_.addEasy c.numberRows_ es.length es c.elements_
          c.hashElements_).2.1.numberElements_ = _
      rw [e1.2.1]
      exact max_eq_right (by omega)
    have hn2 : max (c.numberElements_ + es.length)
        (c.rowList_.addEasy c.numberRows_ es.length es c.elements_
          c.hashElements_).2.2.2.numberItems = c.numberElements_ + es.length :=
      max_eq_left e3.1
    rw [hn1, hn2]
  rw [hform]
  refine ⟨⟨p1, p2, by show 0 ≤ c.numberRows_ + 1; omega, p4,
    by show 0 ≤ c.numberElements_ + (es.length : Int); omega, p6, fun _ => e1,
    fun h => absurd hl h, e3⟩, hl, arraysStay_refl c, rfl, rfl, ?_, e4⟩
  unfold records
  exact e2
/-- The last block of `addColumn` on a model in which nothing has been deleted and only
the column list exists: the entries are stored at the end of the element store. -/
theorem addColumnLinks_plain (c : CoinModel) (hp : Plain c) (hl : c.links_ = 2)
    (es : List (Int × Value)) (hne : es ≠ []) :
    Plain (addColumnLinks c es.length es) ∧ (addColumnLinks c es.length es).links_ = 2 ∧
    ArraysStay c (addColumnLinks c es.length es) ∧
    (addColumnLinks c es.length es).numberColumns_ = c.numberColumns_ + 1 ∧
    (addColumnLinks c es.length es).numberRows_ = c.numberRows_ ∧
    records (addColumnLinks c es.length es) =
      records c ++ es.map (tripleOf false c.numberColumns_) ∧
    c.hashElements_.maximumItems_ ≤
      (addColumnLinks c es.length es).hashElements_.maximumItems_ := by
  obtain ⟨p1, p2, p3, p4, p5, p6, p7, p8, p9⟩ := hp
  have hlen : (es.length : Int) ≠ 0 := by
    intro h
    exact hne (List.length_eq_zero.1 (by exact_mod_cast h))
  have hcol := p8 (by rw [hl]; decide)
  obtain ⟨e1, e2, e3, e4⟩ := addEasy_exact 1 c.columnList_ c.numberElements_ hcol p5
    c.numberColumns_ es c.elements_ c.hashElements_ p9
  have hform : addColumnLinks c es.length es =
      { c with columnList_ := (c.columnList_.addEasy c.numberColumns_ es.length es c.elements_
                 c.hashElements_).2.1,
               elements_ := (c.columnList_.addEasy c.numberColumns_ es.length es c.elements_
                 c.hashElements_).2.2.1,
               hashElements_ := (c.columnList_.addEasy c.numberColumns_ es.length es
                 c.elements_ c.hashElements_).2.2.2,
               numberElements_ := c.numberElements_ + es.length,
               numberColumns_ := c.numberColumns_ + 1 } := by
    unfold addColumnLinks
    rw [if_neg (by rw [p1]; decide), if_pos hlen, if_pos (Or.inl hl)]
    dsimp only
    rw [if_neg (by rw [hl]; decide)]
    dsimp only
    have hn1 : max c.numberElements_
        (c.columnList_.addEasy c.numberColumns_ es.length es c.elements_
          c.hashElements_).2.1.numberElements = c.numberElements_ + es.length := by
      show max c.numberElements_ (c.columnList_.addEasy c.numberColumns_ es.length es
          c.elements_ c.hashElements_).2.1.numberElements_ = _
      rw [e1.2.1]
      exact max_eq_right (by omega)
    rw [hn1]
  rw [hform]
  refine ⟨⟨p1, p2, p3, by show 0 ≤ c.numberColumns_ + 1; omega,
    by show 0 ≤ c.numberElements_ + (es.length : Int); omega, p6, fun h => absurd hl h,
    fun _ => e1, e3⟩, hl, arraysStay_refl c, rfl, rfl, ?_, e4⟩
  unfold records
  exact e2

theorem plain_frame_rows {m m' : CoinModel} {X : Int} (hp : Plain m)
    (hX : m.numberRows_ ≤ X) (hk : Keeps m m')
    (hs : Steady { m with numberRows_ := X } m') :
    Plain m' ∧ records m' = records m ∧
    m.hashElements_.maximumItems_ ≤ m'.hashElements_.maximumItems_ := by
  obtain ⟨p1, p2, p3, p4, p5, p6, p7, p8, p9⟩ := hp
  have hp0 : Plain { m with numberRows_ := X } :=
    ⟨p1, p2, by show 0 ≤ X; omega, p4, p5, p6, p7, p8, p9⟩
  have h := @plain_frame { m with numberRows_ := X } m' hp0 hk hs
  exact h

theorem plain_frame_columns {m m' : CoinModel} {X : Int} (hp : Plain m)
    (hX : m.numberColumns_ ≤ X) (hk : Keeps m m')
    (hs : Steady { m with numberColumns_ := X } m') :
    Plain m' ∧ records m' = records m ∧
    m.hashElements_.maximumItems_ ≤ m'.hashElements_.maximumItems_ := by
  obtain ⟨p1, p2, p3, p4, p5, p6, p7, p8, p9⟩ := hp
  have hp0 : Plain { m with numberColumns_ := X } :=
    ⟨p1, p2, p3, by show 0 ≤ X; omega, p5, p6, p7, p8, p9⟩
  have h := @plain_frame { m with numberColumns_ := X } m' hp0 hk hs
  exact h

/-- The storing part of `addRow` on a model in which nothing has been deleted, only the
row list exists and the row arrays exist: the row is appended and its entries are stored
at the end of the element store. -/
theorem addRowStore_plain (m : CoinModel) (hp : Plain m) (hl : m.links_ = 1)
    (hrl : m.rowLower_.isSome = true) (es : List (Int × Value)) (hne : es ≠ [])
    (newColumn : Int) (lo up : Value) (name : Option String) :
    (addRowStore m es.length es newColumn lo up name).Returns fun m' =>
      Plain m' ∧ m'.links_ = 1 ∧ ArraysStay m m' ∧
      m'.numberRows_ = m.numberRows_ + 1 ∧
      m'.numberColumns_ = max (newColumn + 1) m.numberColumns_ ∧
      records m' = records m ++ es.map (tripleOf true m.numberRows_) ∧
      m.hashElements_.maximumItems_ ≤ m'.hashElements_.maximumItems_ ∧
      (m.maximumColumns_ ≤ newColumn → 0 ≤ newColumn → ColumnArrays m') := by
  obtain ⟨R, C, E, hC, heq⟩ := addRowStore_eq m es.length es newColumn lo up name
  rw [heq]
  have h3 : m.type_ ≠ 3 := by rw [hp.1]; decide
  apply Outcome.returns_bind (P := fun a => Keeps m a ∧ Steady m a ∧
    (m.maximumColumns_ ≤ newColumn → 0 ≤ newColumn →
      a.columnLower_.isSome = true ∧ a.columnUpper_.isSome = true ∧
      a.objective_.isSome = true ∧ a.integerType_.isSome = true ∧
      a.columnType_.isSome = true))
  · by_cases hx : m.maximumColumns_ ≤ newColumn ∧ 0 ≤ newColumn
    · rw [if_pos (Or.inr (Or.inl hx.1))]
      have hlt : m.maximumColumns_ < C := by
        rw [hC (not_lt.2 hx.1)]
        exact lt_of_le_of_lt hx.1 (cdiv_grow _ hx.2)
      exact Outcome.returns_mono
        (Outcome.returns_and (keeps_resize m R C E h3)
          (Outcome.returns_and (steady_resize m R C E hp.1 hp.2.1 hp.2.2.1 hp.2.2.2.1)
            (resize_creates_columns m R C E hp.1 hp.2.1 hp.2.2.1 hp.2.2.2.1 hrl hlt)))
        (fun a h => ⟨h.1, h.2.1, fun _ _ => h.2.2⟩)
    · split_ifs
      · exact Outcome.returns_mono
          (Outcome.returns_and (keeps_resize m _ _ _ h3)
            (steady_resize m _ _ _ hp.1 hp.2.1 hp.2.2.1 hp.2.2.2.1))
          (fun a h => ⟨h.1, h.2, fun h1 h2 => absurd ⟨h1, h2⟩ hx⟩)
      · exact Outcome.returns_returned
          ⟨Keeps.refl m h3, steady_refl m, fun h1 h2 => absurd ⟨h1, h2⟩ hx⟩
  · rintro a ⟨ak, as, acol⟩
    obtain ⟨ap, ar, ah⟩ := plain_frame hp ak as
    have a3 : a.type_ ≠ 3 := by rw [ap.1]; decide
    apply Outcome.returns_bind
      (Outcome.returns_and (keeps_fillRows a a.numberRows_ false true a3)
        (steady_fillRows_add a a.numberRows_ ap.1 ap.2.1 ap.2.2.1 ap.2.2.2.1
          (as.2.2.2.2.2.2.2.2.1 hrl)))
    rintro b ⟨bk, bs⟩
    obtain ⟨bp, br, bh⟩ := plain_frame ap bk bs
    have b3 : b.type_ ≠ 3 := by rw [bp.1]; decide
    obtain ⟨nk, ns⟩ := frame_addRowNamed b lo up name b3
    obtain ⟨np, nr, nh⟩ := plain_frame bp nk ns
    have n3 : (addRowNamed b lo up name).type_ ≠ 3 := by rw [np.1]; decide
    apply Outcome.returns_bind
      (Outcome.returns_and (keeps_fillColumns (addRowNamed b lo up name) newColumn false false n3)
        (steady_fillColumns_set (addRowNamed b lo up name) newColumn np.2.1))
    rintro c ⟨ck, cs⟩
    obtain ⟨cp, cr, ch⟩ := plain_frame_columns np (le_max_right _ _) ck cs
    refine Outcome.returns_returned ?_
    have cl : c.links_ = 1 := by
      rw [cs.2.1]
      show (addRowNamed b lo up name).links_ = 1
      rw [ns.2.1, bs.2.1, as.2.1, hl]
    have crows : c.numberRows_ = m.numberRows_ := by
      rw [cs.2.2.2.1]
      show (addRowNamed b lo up name).numberRows_ = _
      rw [ns.2.2.2.1, bs.2.2.2.1, as.2.2.2.1]
    have ccols : c.numberColumns_ = max (newColumn + 1) m.numberColumns_ := by
      rw [cs.2.2.2.2.1]
      show max (newColumn + 1) (addRowNamed b lo up name).numberColumns_ = _
      rw [ns.2.2.2.2.1, bs.2.2.2.2.1, as.2.2.2.2.1]
    obtain ⟨f1, f2, f3, f4, f5, f6, f7⟩ := addRowLinks_plain c cp cl es hne
    have hstay := arraysStay_trans bs.2.2.2.2.2.2.2.2
      (arraysStay_trans ns.2.2.2.2.2.2.2.2 (arraysStay_trans cs.2.2.2.2.2.2.2.2 f3))
    refine ⟨f1, f2, ?_, by rw [f4, crows], by rw [f5, ccols],
      by rw [f6, cr, nr, br, ar, crows], ?_, ?_⟩
    · exact arraysStay_trans as.2.2.2.2.2.2.2.2 hstay
    · exact le_trans ah (le_trans bh (le_trans nh (le_trans ch f7)))
    · intro h1 h2
      exact columnArrays_stay ⟨ap.2.2.2.1, acol h1 h2⟩ hstay f1.2.2.2.1
theorem addRowMode_plain (m : CoinModel) (h : m.type_ = 2) :
    addRowMode m = Outcome.returned m := by
  unfold addRowMode
  rw [if_neg (by rw [h]; decide), if_neg (by rw [h]; decide), if_neg (by rw [h]; decide)]

theorem addColumnMode_plain (m : CoinModel) (h : m.type_ = 2) :
    addColumnMode m = Outcome.returned m := by
  unfold addColumnMode
  rw [if_neg (by rw [h]; decide), if_neg (by rw [h]; decide), if_neg (by rw [h]; decide)]

theorem length_cast_of_perm {α : Type} {l l' : List α} (h : l.Perm l') :
    ((l.length : Nat) : Int) = ((l'.length : Nat) : Int) := by
  rw [h.length_eq]

/-- `addRow` with a good, non-empty batch on a model in which nothing has been deleted,
only the row list exists and the row arrays exist: the call returns and has appended the
row; the column count covers the largest column index of the batch; the entries of the
batch have been stored, in ascending order of their column indices, at the end of the
element store. -/
theorem addRow_plain (m : CoinModel) (hp : Plain m) (hl : m.links_ = 1)
    (hrl : m.rowLower_.isSome = true) (es : List (Int × Value)) (hne : es ≠ [])
    (hb : ¬ BadIndices (es.map Prod.fst)) (lo up : Value) (name : Option String) :
    (addRow m es.length (es.map Prod.fst) (es.map Prod.snd) lo up name).Returns fun m' =>
      Plain m' ∧ m'.links_ = 1 ∧ ArraysStay m m' ∧
      m'.numberRows_ = m.numberRows_ + 1 ∧
      (∃ last, (∀ e ∈ es, e.1 ≤ last) ∧ (∃ e ∈ es, e.1 = last) ∧
        m'.numberColumns_ = max (last + 1) m.numberColumns_) ∧
      (∃ entries : List (Int × Value), entries.Perm es ∧
        records m' = records m ++ entries.map (tripleOf true m.numberRows_)) ∧
      m.hashElements_.maximumItems_ ≤ m'.hashElements_.maximumItems_ ∧
      (m.maximumColumns_ ≤ 0 → (∀ e ∈ es, 0 ≤ e.1) → ColumnArrays m') := by
  obtain ⟨s, entries, last, hsort, hperm, hle, hmem⟩ := sortAndCheck_entries m es hne hb
  unfold addRow
  rw [addRowMode_plain m hp.1]
  show Outcome.Returns (Outcome.bind (sortAndCheck m es.length (es.map Prod.fst)
    (es.map Prod.snd)) _) _
  rw [hsort]
  show Outcome.Returns (addRowStore { m with sortSize_ := s } es.length entries last lo up name) _
  have hne' : entries ≠ [] := by
    intro h
    rw [h] at hperm
    exact hne (List.Perm.nil_eq hperm).symm
  rw [← length_cast_of_perm hperm]
  refine Outcome.returns_mono
    (addRowStore_plain { m with sortSize_ := s } hp hl hrl entries hne' last lo up name) ?_
  rintro a ⟨a1, a2, a3, a4, a5, a6, a7, a8⟩
  refine ⟨a1, a2, a3, a4, ⟨last, hle, hmem, a5⟩, ⟨entries, hperm, a6⟩, a7, fun h1 h2 => ?_⟩
  obtain ⟨e, he, hel⟩ := hmem
  have h0 : 0 ≤ last := hel ▸ h2 e he
  exact a8 (le_trans h1 h0) h0

/-- The storing part of `addColumn` on a model in which nothing has been deleted, only
the column list exists and the column arrays exist. -/
theorem addColumnStore_plain (m : CoinModel) (hp : Plain m) (hl : m.links_ = 2)
    (hobj : m.objective_.isSome = true) (es : List (Int × Value)) (hne : es ≠ [])
    (newRow : Int) (lo up obj : Value) (name : Option String) (isInt : Bool) :
    (addColumnStore m es.length es newRow lo up obj name isInt).Returns fun m' =>
      Plain m' ∧ m'.links_ = 2 ∧ ArraysStay m m' ∧
      m'.numberColumns_ = m.numberColumns_ + 1 ∧
      m'.numberRows_ = max (newRow + 1) m.numberRows_ ∧
      records m' = records m ++ es.map (tripleOf false m.numberColumns_) ∧
      m.hashElements_.maximumItems_ ≤ m'.hashElements_.maximumItems_ ∧
      (m.maximumRows_ ≤ newRow → 0 ≤ newRow → RowArrays m') := by
  obtain ⟨R, C, E, hR, heq⟩ := addColumnStore_eq m es.length es newRow lo up obj name isInt
  rw [heq]
  have h3 : m.type_ ≠ 3 := by rw [hp.1]; decide
  apply Outcome.returns_bind (P := fun a => Keeps m a ∧ Steady m a ∧
    (m.maximumRows_ ≤ newRow → 0 ≤ newRow →
      a.rowLower_.isSome = true ∧ a.rowUpper_.isSome = true ∧ a.rowType_.isSome = true))
  · by_cases hx : m.maximumRows_ ≤ newRow ∧ 0 ≤ newRow
    · rw [if_pos (Or.inr (Or.inl hx.1))]
      have hlt : m.maximumRows_ < R := by
        rw [hR (not_lt.2 hx.1)]
        exact lt_of_le_of_lt hx.1 (cdiv_grow _ hx.2)
      exact Outcome.returns_mono
        (Outcome.returns_and (keeps_resize m R C E h3)
          (Outcome.returns_and (steady_resize m R C E hp.1 hp.2.1 hp.2.2.1 hp.2.2.2.1)
            (resize_creates_rows m R C E hp.1 hp.2.1 hp.2.2.1 hp.2.2.2.1 hlt)))
        (fun a h => ⟨h.1, h.2.1, fun _ _ => h.2.2⟩)
    · split_ifs
      · exact Outcome.returns_mono
          (Outcome.returns_and (keeps_resize m _ _ _ h3)
            (steady_resize m _ _ _ hp.1 hp.2.1 hp.2.2.1 hp.2.2.2.1))
          (fun a h => ⟨h.1, h.2, fun h1 h2 => absurd ⟨h1, h2⟩ hx⟩)
      · exact Outcome.returns_returned
          ⟨Keeps.refl m h3, steady_refl m, fun h1 h2 => absurd ⟨h1, h2⟩ hx⟩
  · rintro a ⟨ak, as, arow⟩
    obtain ⟨ap, ar, ah⟩ := plain_frame hp ak as
    have a3 : a.type_ ≠ 3 := by rw [ap.1]; decide
    apply Outcome.returns_bind
      (Outcome.returns_and (keeps_fillColumns a a.numberColumns_ false true a3)
        (steady_fillColumns_add a a.numberColumns_ ap.1 ap.2.1 ap.2.2.1 ap.2.2.2.1
          (as.2.2.2.2.2.2.2.2.2.2.2.2.2.1 hobj)))
    rintro b ⟨bk, bs⟩
    obtain ⟨bp, br, bh⟩ := plain_frame ap bk bs
    have b3 : b.type_ ≠ 3 := by rw [bp.1]; decide
    obtain ⟨nk, ns⟩ := frame_addColumnNamed b lo up obj name isInt b3
    obtain ⟨np, nr, nh⟩ := plain_frame bp nk ns
    have n3 : (addColumnNamed b lo up obj name isInt).type_ ≠ 3 := by rw [np.1]; decide
    apply Outcome.returns_bind
      (Outcome.returns_and
        (keeps_fillRows (addColumnNamed b lo up obj name isInt) newRow false false n3)
        (steady_fillRows_set (addColumnNamed b lo up obj name isInt) newRow np.2.1))
    rintro c ⟨ck, cs⟩
    obtain ⟨cp, cr, ch⟩ := plain_frame_rows np (le_max_right _ _) ck cs
    refine Outcome.returns_returned ?_
    have cl : c.links_ = 2 := by
      rw [cs.2.1]
      show (addColumnNamed b lo up obj name isInt).links_ = 2
      rw [ns.2.1, bs.2.1, as.2.1, hl]
    have ccols : c.numberColumns_ = m.numberColumns_ := by
      rw [cs.2.2.2.2.1]
      show (addColumnNamed b lo up obj name isInt).numberColumns_ = _
      rw [ns.2.2.2.2.1, bs.2.2.2.2.1, as.2.2.2.2.1]
    have crows : c.numberRows_ = max (newRow + 1) m.numberRows_ := by
      rw [cs.2.2.2.1]
      show max (newRow + 1) (addColumnNamed b lo up obj name isInt).numberRows_ = _
      rw [ns.2.2.2.1, bs.2.2.2.1, as.2.2.2.1]
    obtain ⟨f1, f2, f3, f4, f5, f6, f7⟩ := addColumnLinks_plain c cp cl es hne
    have hstay := arraysStay_trans bs.2.2.2.2.2.2.2.2
      (arraysStay_trans ns.2.2.2.2.2.2.2.2 (arraysStay_trans cs.2.2.2.2.2.2.2.2 f3))
    refine ⟨f1, f2, ?_, by rw [f4, ccols], by rw [f5, crows],
      by rw [f6, cr, nr, br, ar, ccols], ?_, ?_⟩
    · exact arraysStay_trans as.2.2.2.2.2.2.2.2 hstay
    · exact le_trans ah (le_trans bh (le_trans nh (le_trans ch f7)))
    · intro h1 h2
      exact rowArrays_stay ⟨ap.2.2.1, arow h1 h2⟩ hstay f1.2.2.1

/-- `addColumn` with a good, non-empty batch on a model in which nothing has been
deleted, only the column list exists and the column arrays exist. -/
theorem addColumn_plain (m : CoinModel) (hp : Plain m) (hl : m.links_ = 2)
    (hobj : m.objective_.isSome = true) (es : List (Int × Value)) (hne : es ≠ [])
    (hb : ¬ BadIndices (es.map Prod.fst)) (lo up obj : Value) (name : Option String)
    (isInt : Bool) :
    (addColumn m es.length (es.map Prod.fst) (es.map Prod.snd) lo up obj name isInt).Returns
      fun m' =>
      Plain m' ∧ m'.links_ = 2 ∧ ArraysStay m m' ∧
      m'.numberColumns_ = m.numberColumns_ + 1 ∧
      (∃ last, (∀ e ∈ es, e.1 ≤ last) ∧ (∃ e ∈ es, e.1 = last) ∧
        m'.numberRows_ = max (last + 1) m.numberRows_) ∧
      (∃ entries : List (Int × Value), entries.Perm es ∧
        records m' = records m ++ entries.map (tripleOf false m.numberColumns_)) ∧
      m.hashElements_.maximumItems_ ≤ m'.hashElements_.maximumItems_ ∧
      (m.maximumRows_ ≤ 0 → (∀ e ∈ es, 0 ≤ e.1) → RowArrays m') := by
  obtain ⟨s, entries, last, hsort, hperm, hle, hmem⟩ := sortAndCheck_entries m es hne hb
  unfold addColumn
  rw [addColumnMode_plain m hp.1]
  show Outcome.Returns (Outcome.bind (sortAndCheck m es.length (es.map Prod.fst)
    (es.map Prod.snd)) _) _
  rw [hsort]
  show Outcome.Returns (addColumnStore { m with sortSize_ := s } es.length entries last lo up
    obj name isInt) _
  have hne' : entries ≠ [] := by
    intro h
    rw [h] at hperm
    exact hne (List.Perm.nil_eq hperm).symm
  rw [← length_cast_of_perm hperm]
  refine Outcome.returns_mono
    (addColumnStore_plain { m with sortSize_ := s } hp hl hobj entries hne' last lo up obj
      name isInt) ?_
  rintro a ⟨a1, a2, a3, a4, a5, a6, a7, a8⟩
  refine ⟨a1, a2, a3, a4, ⟨last, hle, hmem, a5⟩, ⟨entries, hperm, a6⟩, a7, fun h1 h2 => ?_⟩
  obtain ⟨e, he, hel⟩ := hmem
  have h0 : 0 ≤ last := hel ▸ h2 e he
  exact a8 (le_trans h1 h0) h0
theorem dropWhile_ne_append_last : ∀ (old : List Int) (n : Int), n ∉ old →
    (old ++ [n]).dropWhile (fun q => decide (q ≠ n)) = [n]
  | [], n, _ => by simp [List.dropWhile]
  | a :: old, n, h => by
    have ha : a ≠ n := fun e => h (e ▸ List.mem_cons_self _ _)
    have hold : n ∉ old := fun e => h (List.mem_cons_of_mem _ e)
    rw [List.cons_append, List.dropWhile_cons_of_pos (by simpa using ha)]
    exact dropWhile_ne_append_last old n hold

theorem successor_append_last (old : List Int) (n : Int) (h : n ∉ old) :
    CoinModelLinkedList.successor (old ++ [n]) n = -1 := by
  unfold CoinModelLinkedList.successor
  rw [dropWhile_ne_append_last old n h]

/-- The `next` link of a position that is the last one of the only chain that holds
it. -/
theorem next_of_last (r : CoinModelLinkedList) (n : Int) (hf : r.free = [])
    (hc : ∀ k, n ∈ r.chain k → CoinModelLinkedList.successor (r.chain k) n = -1) :
    r.next n = -1 := by
  unfold CoinModelLinkedList.next
  cases hfind : (r.free :: (positionsBelow r.numberMajor_).map r.chain).find?
      (fun xs => decide (n ∈ xs)) with
  | none => rfl
  | some xs =>
    have hmem : n ∈ xs := by
      have := List.find?_some hfind
      simpa using this
    have hin := List.mem_of_find?_eq_some hfind
    rw [hf] at hin
    rcases List.mem_cons.1 hin with h | h
    · rw [h] at hmem
      cases hmem
    · obtain ⟨k, _, hk⟩ := List.mem_map.1 h
      show CoinModelLinkedList.successor xs n = -1
      rw [← hk] at hmem ⊢
      exact hc k hmem

theorem follow_negative (nxt : Int → Int) (p : Int) (hp : p < 0) :
    ∀ k : Nat, CoinModelLinkedList.follow nxt k p = []
  | 0 => rfl
  | k + 1 => by
    unfold CoinModelLinkedList.follow
    rw [if_pos hp]

/-- The second list follows an insertion of one element, made through the first list at
the end of an element store without deleted slots. -/
theorem addHardLinks_one (c : CoinModelLinkedList) (t n : Int) (hc : ListExact t c n)
    (h0 : 0 ≤ n) (E : Int → CoinModelTriple) (nxt : Int → Int) (hn : nxt n = -1)
    (lastFree : Int) :
    ListExact t (c.addHardLinks n E (-1) lastFree nxt) (n + 1) := by
  obtain ⟨a1, a2, a3, a4⟩ := hc
  unfold CoinModelLinkedList.addHardLinks
  dsimp only
  have hfree : CoinModelLinkedList.follow nxt (c.maximumElements_.toNat + 1) (-1) = [] :=
    follow_negative nxt (-1) (by decide) _
  have hone : CoinModelLinkedList.follow nxt (c.maximumElements_.toNat + 1) n = [n] := by
    unfold CoinModelLinkedList.follow
    rw [if_neg (by omega), hn, follow_negative nxt (-1) (by decide)]
  rw [hfree, hone, List.foldl_cons, List.foldl_nil]
  refine ⟨a1, ?_, rfl, ?_⟩
  · show max c.numberElements_ (n + 1) = n + 1
    rw [a2]
    exact max_eq_right (by omega)
  · intro k p hp
    change p ∈ Function.update c.chain (CoinModelLinkedList.majorOf c.type_ (E n))
      (c.chain (CoinModelLinkedList.majorOf c.type_ (E n)) ++ [n]) k at hp
    by_cases hk : k = CoinModelLinkedList.majorOf c.type_ (E n)
    · rw [hk, Function.update_same] at hp
      rcases List.mem_append.1 hp with h | h
      · have := a4 _ p h
        omega
      · rw [List.mem_singleton.1 h]
        omega
    · rw [Function.update_noteq hk] at hp
      have := a4 k p hp
      omega
/-- The member `addEasy` for one entry of row `i`, on a row list without free slots: the
triple goes to the slot `n` at the end of the element store, which becomes the last
position of the chain of row `i`. -/
theorem addEasy_one (l : CoinModelLinkedList) (n : Int) (hl : ListExact 0 l n) (h0 : 0 ≤ n)
    (i j : Int) (v : Value) (E : Int → CoinModelTriple) (H : CoinModelHash2)
    (hH : HashBelow H n) :
    (l.addEasy i 1 [(j, v)] E H).1 = n ∧
    ListExact 0 (l.addEasy i 1 [(j, v)] E H).2.1 (n + 1) ∧
    (l.addEasy i 1 [(j, v)] E H).2.1.next n = -1 ∧
    (l.addEasy i 1 [(j, v)] E H).2.2.1 = Function.update E n ⟨i, false, j, v⟩ ∧
    HashBelow (l.addEasy i 1 [(j, v)] E H).2.2.2 (n + 1) ∧
    H.maximumItems_ ≤ (l.addEasy i 1 [(j, v)] E H).2.2.2.maximumItems_ := by
  have hone : l.addEasy i 1 [(j, v)] E H =
      l.addEasy i (([(j, v)] : List (Int × Value)).length : Int) [(j, v)] E H := rfl
  obtain ⟨l', b1, b2, b3, b4, _, _, heq⟩ :=
    addEasy_eq l i [(j, v)] E H (List.cons_ne_nil _ _)
  obtain ⟨a1, a2, a3, a4⟩ := hl
  have hl' : ListExact 0 l' n := ⟨b1.trans a1, b2.trans a2, b3.trans a3, by rw [b4]; exact a4⟩
  obtain ⟨s1, s2, _, s4, _, s6, s7⟩ := addEasyStep_exact 0 l' n hl' i
    (decide (H.maximumItems ≠ 0)) (-1) E H (j, v)
  rw [hone, heq, List.foldl_cons, List.foldl_nil]
  have htr : tripleOf (decide ((0 : Int) = 0)) i (j, v) = ⟨i, false, j, v⟩ := rfl
  refine ⟨?_, s2, ?_, ?_, ?_, ?_⟩
  · rw [s1, if_pos (by decide)]
  · apply next_of_last _ n s2.2.2.1
    intro k hk
    rw [s4] at hk ⊢
    by_cases hki : k = i
    · rw [hki, Function.update_same]
      apply successor_append_last
      intro hmem
      have := hl'.2.2.2 i n hmem
      omega
    · rw [Function.update_noteq hki] at hk
      have := hl'.2.2.2 k n hk
      omega
  · rw [s6, htr]
  · rw [s7]
    split_ifs
    · exact (hashBelow_addHash H (n + 1) n _ _ _ (hashBelow_mono hH (by omega)) h0
        (by omega)).1
    · exact hashBelow_mono hH (by omega)
  · rw [s7]
    split_ifs
    · exact (hashBelow_addHash H (n + 1) n _ _ _ (hashBelow_mono hH (by omega)) h0
        (by omega)).2
    · exact le_refl _

theorem firstFree_of_empty (r : CoinModelLinkedList) (h : r.free = []) :
    r.firstFree = -1 := by
  unfold CoinModelLinkedList.firstFree
  rw [h]
  rfl

/-- The last block of `setElement` on a model in which nothing has been deleted and both
lists exist: the triple `(i, j, v)` is stored at the end of the element store, and the
counts cover `i` and `j`. -/
theorem setElementStore_plain (d : CoinModel) (hp : Plain d) (hl : d.links_ = 3)
    (i j : Int) (v : Value) :
    Plain (setElementStore d i j v) ∧ (setElementStore d i j v).links_ = 3 ∧
    ArraysStay d (setElementStore d i j v) ∧
    (setElementStore d i j v).numberRows_ = max d.numberRows_ (i + 1) ∧
    (setElementStore d i j v).numberColumns_ = max d.numberColumns_ (j + 1) ∧
    records (setElementStore d i j v) = records d ++ [⟨i, false, j, v⟩] ∧
    d.hashElements_.maximumItems_ ≤ (setElementStore d i j v).hashElements_.maximumItems_ := by
  obtain ⟨p1, p2, p3, p4, p5, p6, p7, p8, p9⟩ := hp
  have hrow := p7 (by rw [hl]; decide)
  have hcol := p8 (by rw [hl]; decide)
  obtain ⟨e1, e2, e3, e4, e5, e6⟩ := addEasy_one d.rowList_ d.numberElements_ hrow p5 i j v
    d.elements_ d.hashElements_ p9
  have hform : setElementStore d i j v =
      { d with rowList_ := (d.rowList_.addEasy i 1 [(j, v)] d.elements_ d.hashElements_).2.1,
               elements_ := Function.update d.elements_ d.numberElements_ ⟨i, false, j, v⟩,
               hashElements_ :=
                 (d.rowList_.addEasy i 1 [(j, v)] d.elements_ d.hashElements_).2.2.2,
               columnList_ := (d.columnList_.addHardLinks d.numberElements_
                 (Function.update d.elements_ d.numberElements_ ⟨i, false, j, v⟩) (-1)
                 (d.rowList_.addEasy i 1 [(j, v)] d.elements_ d.hashElements_).2.1.lastFree
                 (d.rowList_.addEasy i 1 [(j, v)] d.elements_ d.hashElements_).2.1.next),
               numberElements_ := d.numberElements_ + 1,
               numberRows_ := max d.numberRows_ (i + 1),
               numberColumns_ := max d.numberColumns_ (j + 1) } := by
    unfold setElementStore
    rw [if_pos (by rw [hl]; decide)]
    dsimp only
    rw [if_pos hl]
    dsimp only
    have hn1 : max d.numberElements_
        (d.rowList_.addEasy i 1 [(j, v)] d.elements_ d.hashElements_).2.1.numberElements =
        d.numberElements_ + 1 := by
      show max d.numberElements_
        (d.rowList_.addEasy i 1 [(j, v)] d.elements_ d.hashElements_).2.1.numberElements_ = _
      rw [e2.2.1]
      exact max_eq_right (by omega)
    rw [hn1, e1, e4, firstFree_of_empty _ e2.2.2.1]
  have hcl := addHardLinks_one d.columnList_ 1 d.numberElements_ hcol p5
    (Function.update d.elements_ d.numberElements_ ⟨i, false, j, v⟩)
    (d.rowList_.addEasy i 1 [(j, v)] d.elements_ d.hashElements_).2.1.next e3
    (d.rowList_.addEasy i 1 [(j, v)] d.elements_ d.hashElements_).2.1.lastFree
  rw [hform]
  refine ⟨⟨p1, p2, ?_, ?_, by show 0 ≤ d.numberElements_ + 1; omega, p6, fun _ => e2,
    fun _ => hcl, e5⟩, hl, arraysStay_refl d, rfl, rfl, ?_, e6⟩
  · show 0 ≤ max d.numberRows_ (i + 1)
    exact le_trans p3 (le_max_left _ _)
  · show 0 ≤ max d.numberColumns_ (j + 1)
    exact le_trans p4 (le_max_left _ _)
  · unfold records
    show (positionsBelow (d.numberElements_ + 1)).map
      (Function.update d.elements_ d.numberElements_ ⟨i, false, j, v⟩) = _
    rw [positionsBelow_add_one p5, List.map_append, List.map_cons, List.map_nil,
      Function.update_same]
    congr 1
    have := map_update_positionsBelow d.elements_ d.numberElements_.toNat d.numberElements_
      (⟨i, false, j, v⟩ : CoinModelTriple) (by rw [toNat_cast_of_nonneg p5])
    rw [toNat_cast_of_nonneg p5] at this
    exact this
theorem setElementMode_plain (m : CoinModel) (h : m.type_ = 2) (hl : m.links_ ≠ 0) :
    setElementMode m = Outcome.returned m := by
  unfold setElementMode
  rw [if_neg (by rw [h]; decide), if_neg (by rw [h]; decide), if_neg hl]

theorem steady_setElementGrow (m : CoinModel) (i j : Int) (h1 : m.type_ = 2)
    (hs : m.start_ = none) (hr : 0 ≤ m.numberRows_) (hc : 0 ≤ m.numberColumns_) :
    (setElementGrow m i j).Returns (Steady m) := by
  unfold setElementGrow
  dsimp only
  split_ifs
  all_goals first
    | exact steady_resize m _ _ _ h1 hs hr hc
    | exact Outcome.returns_returned (steady_refl m)

/-- The sizing of the hash index in `setElement` on a model in which nothing has been
deleted. -/
theorem setElementHash_plain (m : CoinModel) (hp : Plain m) :
    Plain (setElementHash m) ∧ Steady m (setElementHash m) ∧
    records (setElementHash m) = records m ∧
    m.hashElements_.maximumItems_ ≤ (setElementHash m).hashElements_.maximumItems_ := by
  obtain ⟨p1, p2, p3, p4, p5, p6, p7, p8, p9⟩ := hp
  unfold setElementHash
  split_ifs
  · refine ⟨⟨p1, p2, p3, p4, p5, p6, p7, p8, ?_, ?_⟩,
      ⟨rfl, rfl, rfl, rfl, rfl, rfl, sameList_refl _, sameList_refl _, arraysStay_refl m⟩,
      rfl, hash_resize_max _ _ _ _⟩
    · show (m.hashElements_.resize m.maximumElements_ m.elements_ false).numberItems_ ≤ _
      rw [hash_resize_numberItems]
      exact p9.1
    · intro q hq
      show 0 ≤ q ∧ q < (m.hashElements_.resize m.maximumElements_ m.elements_ false).numberItems_
      rw [hash_resize_numberItems]
      rcases hash_resize_index _ _ _ _ q hq with h | h
      · exact p9.2 q h
      · exact h
  · exact ⟨⟨p1, p2, p3, p4, p5, p6, p7, p8, p9⟩, steady_refl m, rfl, le_refl _⟩

/-- The hash index of a model in which nothing has been deleted does not find a pair
that no stored triple holds. -/
theorem hash_fresh (m : CoinModel) (hp : Plain m) (i j : Int)
    (hf : ∀ t ∈ records m, holds t i j = false) :
    m.hashElements_.hash i j m.elements_ = -1 := by
  apply hash_absent
  intro q hq
  have hq' := hp.2.2.2.2.2.2.2.2.2 q hq
  apply hf
  unfold records
  exact List.mem_map.2 ⟨q, mem_positionsBelow.2
    ⟨hq'.1, lt_of_lt_of_le hq'.2 hp.2.2.2.2.2.2.2.2.1⟩, rfl⟩

/-- The numeric `setElement(i, j, v)` on a model in which nothing has been deleted and
both lists exist, for a pair that no stored triple holds: the call returns, the triple
`(i, j, v)` has been stored at the end of the element store, and the counts cover `i`
and `j`. -/
theorem setElement_plain (m : CoinModel) (hp : Plain m) (hl : m.links_ = 3) (i j : Int)
    (v : Value) (hf : ∀ t ∈ records m, holds t i j = false) :
    (setElement m i j v).Returns fun m' =>
      Plain m' ∧ m'.links_ = 3 ∧ ArraysStay m m' ∧
      m'.numberRows_ = max m.numberRows_ (i + 1) ∧
      m'.numberColumns_ = max m.numberColumns_ (j + 1) ∧
      records m' = records m ++ [⟨i, false, j, v⟩] ∧
      m.hashElements_.maximumItems_ ≤ m'.hashElements_.maximumItems_ := by
  obtain ⟨ap, as, ar, ah⟩ := setElementHash_plain m hp
  have hfa : ∀ t ∈ records (setElementHash m), holds t i j = false := by
    rw [ar]
    exact hf
  have hpos := hash_fresh (setElementHash m) ap i j hfa
  unfold setElement
  rw [setElementMode_plain m hp.1 (by rw [hl]; decide)]
  show Outcome.Returns (if (setElementHash m).hashElements_.hash i j (setElementHash m).elements_
    ≥ 0 then _ else _) _
  rw [if_neg (by rw [hpos]; decide)]
  have a3 : (setElementHash m).type_ ≠ 3 := by rw [ap.1]; decide
  apply Outcome.returns_bind
    (Outcome.returns_and (keeps_setElementGrow (setElementHash m) i j a3)
      (steady_setElementGrow (setElementHash m) i j ap.1 ap.2.1 ap.2.2.1 ap.2.2.2.1))
  rintro x ⟨xk, xs⟩
  obtain ⟨xp, xr, xh⟩ := plain_frame ap xk xs
  have x3 : x.type_ ≠ 3 := by rw [xp.1]; decide
  apply Outcome.returns_bind
    (Outcome.returns_and (keeps_fillColumns x j false false x3)
      (steady_fillColumns_set x j xp.2.1))
  rintro y ⟨yk, ys⟩
  obtain ⟨yp, yr, yh⟩ := plain_frame_columns xp (le_max_right _ _) yk ys
  have y3 : y.type_ ≠ 3 := by rw [yp.1]; decide
  apply Outcome.returns_bind
    (Outcome.returns_and (keeps_fillRows y i false false y3)
      (steady_fillRows_set y i yp.2.1))
  rintro z ⟨zk, zs⟩
  obtain ⟨zp, zr, zh⟩ := plain_frame_rows yp (le_max_right _ _) zk zs
  refine Outcome.returns_returned ?_
  have zl : z.links_ = 3 := by
    rw [zs.2.1]
    show y.links_ = 3
    rw [ys.2.1]
    show x.links_ = 3
    rw [xs.2.1, as.2.1, hl]
  have zrows : z.numberRows_ = max (i + 1) m.numberRows_ := by
    rw [zs.2.2.2.1]
    show max (i + 1) y.numberRows_ = _
    rw [ys.2.2.2.1]
    show max (i + 1) x.numberRows_ = _
    rw [xs.2.2.2.1, as.2.2.2.1]
  have zcols : z.numberColumns_ = max (j + 1) m.numberColumns_ := by
    rw [zs.2.2.2.2.1]
    show y.numberColumns_ = _
    rw [ys.2.2.2.2.1]
    show max (j + 1) x.numberColumns_ = _
    rw [xs.2.2.2.2.1, as.2.2.2.2.1]
  obtain ⟨f1, f2, f3, f4, f5, f6, f7⟩ := setElementStore_plain z zp zl i j v
  refine ⟨f1, f2, ?_, ?_, ?_, by rw [f6, zr, yr, xr, ar], ?_⟩
  · exact arraysStay_trans as.2.2.2.2.2.2.2.2 (arraysStay_trans xs.2.2.2.2.2.2.2.2
      (arraysStay_trans ys.2.2.2.2.2.2.2.2 (arraysStay_trans zs.2.2.2.2.2.2.2.2 f3)))
  · rw [f4, zrows, max_comm (i + 1), max_assoc, max_self]
  · rw [f5, zcols, max_comm (j + 1), max_assoc, max_self]
  · exact le_trans ah (le_trans xh (le_trans yh (le_trans zh f7)))

theorem Outcome.eq_returned_resultOr {α : Type} {o : Outcome α} (d : α)
    (h : o.isReturned = true) : o = Outcome.returned (o.resultOr d) := by
  cases o with
  | returned a => rfl
  | aborted m => cases h
  | stuck => cases h

theorem addRowMode_start : addRowMode CoinModel.default = Outcome.returned rowBuildStart :=
  Outcome.eq_returned_resultOr _ (by decide!)

theorem addColumnMode_start :
    addColumnMode CoinModel.default = Outcome.returned columnBuildStart :=
  Outcome.eq_returned_resultOr _ (by decide!)

theorem setElementMode_start :
    setElementMode CoinModel.default = Outcome.returned elementBuildStart :=
  Outcome.eq_returned_resultOr _ (by decide!)

theorem rowBuildStart_plain :
    Plain rowBuildStart ∧ rowBuildStart.links_ = 1 ∧ RowArrays rowBuildStart ∧
    rowBuildStart.numberRows_ = 0 ∧ rowBuildStart.numberColumns_ = 0 ∧
    rowBuildStart.maximumColumns_ = 0 ∧ records rowBuildStart = [] := by
  refine ⟨⟨by decide!, rfl, by decide!, by decide!, by decide!, by decide!,
    fun _ => ⟨by decide!, by decide!, by decide!, fun k p hp => ?_⟩,
    fun h => absurd (by decide! : rowBuildStart.links_ = 1) h,
    by unfold HashBelow; decide!⟩,
    by decide!, by decide!, by decide!, by decide!, by decide!, by decide!⟩
  rw [show rowBuildStart.rowList_.chain k = [] from rfl] at hp
  cases hp

theorem columnBuildStart_plain :
    Plain columnBuildStart ∧ columnBuildStart.links_ = 2 ∧ ColumnArrays columnBuildStart ∧
    columnBuildStart.numberRows_ = 0 ∧ columnBuildStart.numberColumns_ = 0 ∧
    columnBuildStart.maximumRows_ = 0 ∧ records columnBuildStart = [] := by
  refine ⟨⟨by decide!, rfl, by decide!, by decide!, by decide!, by decide!,
    fun h => absurd (by decide! : columnBuildStart.links_ = 2) h,
    fun _ => ⟨by decide!, by decide!, by decide!, fun k p hp => ?_⟩,
    by unfold HashBelow; decide!⟩,
    by decide!, by decide!, by decide!, by decide!, by decide!, by decide!⟩
  rw [show columnBuildStart.columnList_.chain k = [] from rfl] at hp
  cases hp

theorem elementBuildStart_plain :
    Plain elementBuildStart ∧ elementBuildStart.links_ = 3 ∧ RowArrays elementBuildStart ∧
    ColumnArrays elementBuildStart ∧
    elementBuildStart.numberRows_ = 0 ∧ elementBuildStart.numberColumns_ = 0 ∧
    records elementBuildStart = [] := by
  refine ⟨⟨by decide!, rfl, by decide!, by decide!, by decide!, by decide!,
    fun _ => ⟨by decide!, by decide!, by decide!, fun k p hp => ?_⟩,
    fun _ => ⟨by decide!, by decide!, by decide!, fun k p hp => ?_⟩,
    by unfold HashBelow; decide!⟩,
    by decide!, by decide!, by decide!, by decide!, by decide!, by decide!⟩
  · rw [show elementBuildStart.rowList_.chain k = [] from rfl] at hp
    cases hp
  · rw [show elementBuildStart.columnList_.chain k = [] from rfl] at hp
    cases hp

/-! ### The coefficient lists of the builds -/

theorem foldl_max_ge {α : Type} (f : α → Int) : ∀ (l : List α) (n : Int),
    n ≤ l.foldl (fun n e => max n (f e + 1)) n ∧
    ∀ e ∈ l, f e < l.foldl (fun n e => max n (f e + 1)) n
  | [], n => ⟨le_refl n, fun e he => by cases he⟩
  | a :: l, n => by
    obtain ⟨h1, h2⟩ := foldl_max_ge f l (max n (f a + 1))
    rw [List.foldl_cons]
    refine ⟨le_trans (le_max_left _ _) h1, fun e he => ?_⟩
    rcases List.mem_cons.1 he with rfl | he
    · have := le_max_right n (f e + 1)
      omega
    · exact h2 e he

theorem foldl_max_attained {α : Type} (f : α → Int) : ∀ (l : List α) (n : Int),
    l.foldl (fun n e => max n (f e + 1)) n = n ∨
    ∃ e ∈ l, l.foldl (fun n e => max n (f e + 1)) n = f e + 1
  | [], n => Or.inl rfl
  | a :: l, n => by
    rw [List.foldl_cons]
    rcases foldl_max_attained f l (max n (f a + 1)) with h | ⟨e, he, h⟩
    · rw [h]
      rcases max_cases n (f a + 1) with ⟨hm, _⟩ | ⟨hm, _⟩
      · exact Or.inl hm
      · exact Or.inr ⟨a, List.mem_cons_self _ _, hm⟩
    · exact Or.inr ⟨e, List.mem_cons_of_mem _ he, h⟩

theorem foldl_max_unique {α : Type} (f : α → Int) (l : List α) (C : Int) (h0 : 0 ≤ C)
    (hlt : ∀ e ∈ l, f e < C) (hat : C = 0 ∨ ∃ e ∈ l, C = f e + 1) :
    C = l.foldl (fun n e => max n (f e + 1)) 0 := by
  obtain ⟨g1, g2⟩ := foldl_max_ge f l 0
  apply le_antisymm
  · rcases hat with h | ⟨e, he, h⟩
    · rw [h]
      exact g1
    · have := g2 e he
      omega
  · rcases foldl_max_attained f l 0 with h | ⟨e, he, h⟩
    · rw [h]
      exact h0
    · have := hlt e he
      omega

theorem rowsOf_nonneg (es : List (Int × Int × Value)) : 0 ≤ rowsOf es :=
  (foldl_max_ge (fun e : Int × Int × Value => e.1) es 0).1

theorem columnsOf_nonneg (es : List (Int × Int × Value)) : 0 ≤ columnsOf es :=
  (foldl_max_ge (fun e : Int × Int × Value => e.2.1) es 0).1

theorem rowsOf_gt (es : List (Int × Int × Value)) : ∀ e ∈ es, e.1 < rowsOf es :=
  (foldl_max_ge (fun e : Int × Int × Value => e.1) es 0).2

theorem columnsOf_gt (es : List (Int × Int × Value)) : ∀ e ∈ es, e.2.1 < columnsOf es :=
  (foldl_max_ge (fun e : Int × Int × Value => e.2.1) es 0).2

theorem rowsOf_append (ps : List (Int × Int × Value)) (e : Int × Int × Value) :
    rowsOf (ps ++ [e]) = max (rowsOf ps) (e.1 + 1) := by
  unfold rowsOf
  rw [List.foldl_append]
  rfl

theorem columnsOf_append (ps : List (Int × Int × Value)) (e : Int × Int × Value) :
    columnsOf (ps ++ [e]) = max (columnsOf ps) (e.2.1 + 1) := by
  unfold columnsOf
  rw [List.foldl_append]
  rfl

theorem nodup_of_pairs {es : List (Int × Int × Value)}
    (hd : (es.map (fun e => (e.1, e.2.1))).Nodup) : es.Nodup :=
  List.Nodup.of_map _ hd

theorem eq_of_pair_eq {es : List (Int × Int × Value)}
    (hd : (es.map (fun e => (e.1, e.2.1))).Nodup) {x y : Int × Int × Value}
    (hx : x ∈ es) (hy : y ∈ es) (h1 : x.1 = y.1) (h2 : x.2.1 = y.2.1) : x = y :=
  List.inj_on_of_nodup_map hd hx hy (by rw [Prod.mk.injEq]; exact ⟨h1, h2⟩)

/-- The column indices of one row of a list of coefficients with distinct pairs and
indices that are not negative form a batch that `addRow` accepts. -/
theorem rowEntries_good (es : List (Int × Int × Value))
    (hd : (es.map (fun e => (e.1, e.2.1))).Nodup) (hn : ∀ e ∈ es, 0 ≤ e.1 ∧ 0 ≤ e.2.1)
    (i : Int) : ¬ BadIndices ((rowEntries es i).map Prod.fst) := by
  have hmap : (rowEntries es i).map Prod.fst =
      (es.filter (fun e => decide (e.1 = i))).map (fun e => e.2.1) := by
    unfold rowEntries
    rw [List.map_map]
    rfl
  rw [hmap]
  rintro ⟨_, ⟨k, hk, hneg⟩ | hnd⟩
  · obtain ⟨e, he, rfl⟩ := List.mem_map.1 hk
    have := (hn e (List.mem_of_mem_filter he)).2
    omega
  · apply hnd
    apply List.Nodup.map_on _ ((nodup_of_pairs hd).filter _)
    intro x hx y hy hxy
    have hx' := List.mem_filter.1 hx
    have hy' := List.mem_filter.1 hy
    have h1 : x.1 = i := by simpa using hx'.2
    have h2 : y.1 = i := by simpa using hy'.2
    exact eq_of_pair_eq hd hx'.1 hy'.1 (h1.trans h2.symm) hxy

theorem columnEntries_good (es : List (Int × Int × Value))
    (hd : (es.map (fun e => (e.1, e.2.1))).Nodup) (hn : ∀ e ∈ es, 0 ≤ e.1 ∧ 0 ≤ e.2.1)
    (j : Int) : ¬ BadIndices ((columnEntries es j).map Prod.fst) := by
  have hmap : (columnEntries es j).map Prod.fst =
      (es.filter (fun e => decide (e.2.1 = j))).map (fun e => e.1) := by
    unfold columnEntries
    rw [List.map_map]
    rfl
  rw [hmap]
  rintro ⟨_, ⟨k, hk, hneg⟩ | hnd⟩
  · obtain ⟨e, he, rfl⟩ := List.mem_map.1 hk
    have := (hn e (List.mem_of_mem_filter he)).1
    omega
  · apply hnd
    apply List.Nodup.map_on _ ((nodup_of_pairs hd).filter _)
    intro x hx y hy hxy
    have hx' := List.mem_filter.1 hx
    have hy' := List.mem_filter.1 hy
    have h1 : x.2.1 = j := by simpa using hx'.2
    have h2 : y.2.1 = j := by simpa using hy'.2
    exact eq_of_pair_eq hd hx'.1 hy'.1 hxy (h1.trans h2.symm)

theorem rowEntries_ne_nil (es : List (Int × Int × Value)) (i : Int)
    (h : ∃ e ∈ es, e.1 = i) : rowEntries es i ≠ [] := by
  obtain ⟨e, he, hi⟩ := h
  intro hnil
  have hmem : (e.2.1, e.2.2) ∈ rowEntries es i :=
    List.mem_map.2 ⟨e, List.mem_filter.2 ⟨he, by simpa using hi⟩, rfl⟩
  rw [hnil] at hmem
  cases hmem

theorem columnEntries_ne_nil (es : List (Int × Int × Value)) (j : Int)
    (h : ∃ e ∈ es, e.2.1 = j) : columnEntries es j ≠ [] := by
  obtain ⟨e, he, hj⟩ := h
  intro hnil
  have hmem : (e.1, e.2.2) ∈ columnEntries es j :=
    List.mem_map.2 ⟨e, List.mem_filter.2 ⟨he, by simpa using hj⟩, rfl⟩
  rw [hnil] at hmem
  cases hmem

theorem rowEntries_records (es : List (Int × Int × Value)) (i : Int) :
    (rowEntries es i).map (tripleOf true i) =
      (es.filter (fun e => decide (e.1 = i))).map toRecord := by
  unfold rowEntries
  rw [List.map_map]
  apply List.map_congr_left
  intro e he
  have h1 : e.1 = i := by simpa using (List.mem_filter.1 he).2
  show tripleOf true i (e.2.1, e.2.2) = toRecord e
  unfold tripleOf toRecord
  rw [if_pos rfl, h1]

theorem columnEntries_records (es : List (Int × Int × Value)) (j : Int) :
    (columnEntries es j).map (tripleOf false j) =
      (es.filter (fun e => decide (e.2.1 = j))).map toRecord := by
  unfold columnEntries
  rw [List.map_map]
  apply List.map_congr_left
  intro e he
  have h1 : e.2.1 = j := by simpa using (List.mem_filter.1 he).2
  show tripleOf false j (e.1, e.2.2) = toRecord e
  unfold tripleOf toRecord
  rw [if_neg (by decide), h1]

/-- The items with a key below `k + 1` are those with a key below `k` and those with
the key `k`. -/
theorem filter_lt_succ_perm {α : Type} (f : α → Int) (l : List α) (k : Int) :
    (l.filter (fun e => decide (f e < k + 1))).Perm
      (l.filter (fun e => decide (f e < k)) ++ l.filter (fun e => decide (f e = k))) := by
  induction l with
  | nil => exact List.Perm.refl _
  | cons a l ih =>
    by_cases h1 : f a < k
    · have h2 : f a < k + 1 := by omega
      have h3 : ¬ f a = k := by omega
      rw [List.filter_cons_of_pos (by simpa using h2), List.filter_cons_of_pos (by simpa using h1),
        List.filter_cons_of_neg (by simpa using h3)]
      exact List.Perm.cons a ih
    · by_cases h3 : f a = k
      · have h2 : f a < k + 1 := by omega
        rw [List.filter_cons_of_pos (by simpa using h2),
          List.filter_cons_of_neg (by simpa using h1),
          List.filter_cons_of_pos (by simpa using h3)]
        exact (List.Perm.cons a ih).trans List.perm_middle.symm
      · have h2 : ¬ f a < k + 1 := by omega
        rw [List.filter_cons_of_neg (by simpa using h2),
          List.filter_cons_of_neg (by simpa using h1),
          List.filter_cons_of_neg (by simpa using h3)]
        exact ih

/-! ### The build by rows -/

theorem addRow_default (n : Int) (columns : List Int) (elements : List Value)
    (lo up : Value) (name : Option String) :
    addRow CoinModel.default n columns elements lo up name =
      addRow rowBuildStart n columns elements lo up name := by
  unfold addRow
  rw [addRowMode_start, addRowMode_plain rowBuildStart rowBuildStart_plain.1.1]

theorem rowsBuilt_start (es : List (Int × Int × Value)) (hn : ∀ e ∈ es, 0 ≤ e.1 ∧ 0 ≤ e.2.1) :
    RowsBuilt es 0 rowBuildStart := by
  obtain ⟨h1, h2, h3, h4, h5, h6, h7⟩ := rowBuildStart_plain
  have hnil : es.filter (fun e => decide (e.1 < ((0 : Nat) : Int))) = [] := by
    apply List.filter_eq_nil_iff.2
    intro e he
    have := (hn e he).1
    simpa using this
  refine ⟨h1, h2, h3, by rw [h4]; rfl, fun h => absurd h (lt_irrefl 0),
    fun _ => ⟨le_of_eq h6, h5⟩, fun e he h => ?_, fun h => absurd h (lt_irrefl 0), ?_⟩
  · have := (hn e he).1
    have h' : e.1 < 0 := by exact_mod_cast h
    omega
  · rw [h7, hnil]
    exact List.Perm.refl _

/-- One step of the build by rows: `addRow` with the entries of row `k` on a model that
holds the rows below `k`. -/
theorem rowsBuilt_step (es : List (Int × Int × Value))
    (hd : (es.map (fun e => (e.1, e.2.1))).Nodup) (hn : ∀ e ∈ es, 0 ≤ e.1 ∧ 0 ≤ e.2.1)
    (k : Nat) (hk : ∃ e ∈ es, e.1 = (k : Int)) (m : CoinModel) (hm : RowsBuilt es k m) :
    (addRow m ((rowEntries es k).length : Int) ((rowEntries es k).map Prod.fst)
      ((rowEntries es k).map Prod.snd) (-COIN_DBL_MAX) COIN_DBL_MAX none).Returns
      (RowsBuilt es (k + 1)) := by
  obtain ⟨hp, hl, hra, hrows, hca, hz, hlt, hat, hperm⟩ := hm
  have hne := rowEntries_ne_nil es k hk
  have hgood := rowEntries_good es hd hn k
  have hkeys : ∀ x ∈ rowEntries es k, ∃ e ∈ es, e.1 = (k : Int) ∧ e.2.1 = x.1 := by
    intro x hx
    obtain ⟨e, he, rfl⟩ := List.mem_map.1 hx
    have he' := List.mem_filter.1 he
    exact ⟨e, he'.1, by simpa using he'.2, rfl⟩
  have hkeys0 : ∀ x ∈ rowEntries es k, 0 ≤ x.1 := by
    intro x hx
    obtain ⟨e, he, _, h2⟩ := hkeys x hx
    rw [← h2]
    exact (hn e he).2
  refine Outcome.returns_mono
    (addRow_plain m hp hl hra.2.1 (rowEntries es k) hne hgood (-COIN_DBL_MAX) COIN_DBL_MAX none)
    ?_
  rintro a ⟨a1, a2, a3, a4, ⟨last, l1, ⟨x, hx, l2⟩, l3⟩, ⟨entries, p1, p2⟩, _, a8⟩
  obtain ⟨ex, hex, hexk, hexc⟩ := hkeys x hx
  have hlast0 : 0 ≤ last := by
    rw [← l2]
    exact hkeys0 x hx
  have hcast : (((k + 1 : Nat) : Int)) = (k : Int) + 1 := by push_cast; rfl
  refine ⟨a1, a2, rowArrays_stay hra a3 a1.2.2.1, by rw [a4, hrows, hcast], fun _ => ?_,
    fun h => absurd h (Nat.succ_ne_zero k), fun e he h => ?_, fun _ => ?_, ?_⟩
  · rcases Nat.eq_zero_or_pos k with h0 | h0
    · exact a8 (hz h0).1 hkeys0
    · exact columnArrays_stay (hca h0) a3 a1.2.2.2.1
  · rw [l3]
    rw [hcast] at h
    by_cases hek : e.1 = (k : Int)
    · have hmem : (e.2.1, e.2.2) ∈ rowEntries es k :=
        List.mem_map.2 ⟨e, List.mem_filter.2 ⟨he, by simpa using hek⟩, rfl⟩
      have := l1 _ hmem
      have := le_max_left (last + 1) m.numberColumns_
      show e.2.1 < _
      have h' : e.2.1 ≤ last := l1 _ hmem
      omega
    · have := hlt e he (by omega)
      have := le_max_right (last + 1) m.numberColumns_
      omega
  · rw [l3]
    rcases max_cases (last + 1) m.numberColumns_ with ⟨h1, _⟩ | ⟨h1, h2⟩
    · exact ⟨ex, hex, by rw [h1, hexc, l2]⟩
    · rcases Nat.eq_zero_or_pos k with h0 | h0
      · have := (hz h0).2
        omega
      · obtain ⟨e, he, h3⟩ := hat h0
        exact ⟨e, he, by rw [h1, h3]⟩
  · rw [hrows] at p2
    rw [p2, hcast]
    refine List.Perm.trans ?_
      ((filter_lt_succ_perm (fun e : Int × Int × Value => e.1) es k).map toRecord).symm
    rw [List.map_append]
    refine List.Perm.append hperm ?_
    rw [← rowEntries_records]
    exact p1.map _

/-- The loop of the build by rows, up to row `k - 1`. -/
theorem buildByRows_fold (es : List (Int × Int × Value))
    (hd : (es.map (fun e => (e.1, e.2.1))).Nodup) (hn : ∀ e ∈ es, 0 ≤ e.1 ∧ 0 ≤ e.2.1) :
    ∀ (k : Nat), (∀ i : Int, 0 ≤ i → i < k → ∃ e ∈ es, e.1 = i) →
      (k = 0 → (positionsBelow k).foldl
        (fun o i => o.bind fun m =>
          CoinModel.addRow m ((rowEntries es i).length : Int) ((rowEntries es i).map Prod.fst)
            ((rowEntries es i).map Prod.snd) (-COIN_DBL_MAX) COIN_DBL_MAX none)
        (Outcome.returned CoinModel.default) = Outcome.returned CoinModel.default) ∧
      (0 < k → ((positionsBelow k).foldl
        (fun o i => o.bind fun m =>
          CoinModel.addRow m ((rowEntries es i).length : Int) ((rowEntries es i).map Prod.fst)
            ((rowEntries es i).map Prod.snd) (-COIN_DBL_MAX) COIN_DBL_MAX none)
        (Outcome.returned CoinModel.default)).Returns (RowsBuilt es k))
  | 0, _ => ⟨fun _ => rfl, fun h => absurd h (lt_irrefl 0)⟩
  | k + 1, hg => by
    obtain ⟨ih0, ih⟩ := buildByRows_fold es hd hn k (fun i h0 h1 => hg i h0 (by push_cast; omega))
    have hk : ∃ e ∈ es, e.1 = (k : Int) := hg k (by omega) (by push_cast; omega)
    refine ⟨fun h => absurd h (Nat.succ_ne_zero k), fun _ => ?_⟩
    have hcast : (((k + 1 : Nat) : Int)) = (k : Int) + 1 := by push_cast; rfl
    rw [hcast, positionsBelow_succ, List.foldl_append]
    rcases Nat.eq_zero_or_pos k with h0 | h0
    · rw [ih0 h0]
      show Outcome.Returns (addRow CoinModel.default _ _ _ _ _ _) _
      rw [addRow_default]
      have := rowsBuilt_step es hd hn k hk rowBuildStart (h0 ▸ rowsBuilt_start es hn)
      exact this
    · exact Outcome.returns_bind (ih h0) (fun m hm => rowsBuilt_step es hd hn k hk m hm)

theorem buildByRows_built (es : List (Int × Int × Value)) (hne : es ≠ [])
    (hd : (es.map (fun e => (e.1, e.2.1))).Nodup) (hn : ∀ e ∈ es, 0 ≤ e.1 ∧ 0 ≤ e.2.1)
    (hg : ∀ i : Int, 0 ≤ i → i < rowsOf es → ∃ e ∈ es, e.1 = i) :
    (buildByRows es).Returns (Built es) := by
  have hR0 := rowsOf_nonneg es
  have hcast : (((rowsOf es).toNat : Nat) : Int) = rowsOf es := by omega
  have hpos : 0 < (rowsOf es).toNat := by
    obtain ⟨e, he⟩ := List.exists_mem_of_ne_nil es hne
    have := rowsOf_gt es e he
    have := (hn e he).1
    omega
  have h := (buildByRows_fold es hd hn (rowsOf es).toNat
    (fun i h0 h1 => hg i h0 (by omega))).2 hpos
  rw [hcast] at h
  unfold buildByRows
  refine Outcome.returns_mono h ?_
  rintro m ⟨hp, _, hra, hrows, hca, _, hlt, hat, hperm⟩
  refine ⟨hp, hra, hca hpos, by rw [hrows, hcast], ?_, ?_⟩
  · unfold columnsOf
    apply foldl_max_unique (fun e : Int × Int × Value => e.2.1) es _ hp.2.2.2.1
    · intro e he
      exact hlt e he (by rw [hcast]; exact rowsOf_gt es e he)
    · exact Or.inr (hat hpos)
  · have hall : es.filter (fun e => decide (e.1 < (((rowsOf es).toNat : Nat) : Int))) = es := by
      apply List.filter_eq_self.2
      intro e he
      rw [hcast]
      simpa using rowsOf_gt es e he
    rw [hall] at hperm
    exact hperm

/-! ### The build by columns -/

theorem addColumn_default (n : Int) (rows : List Int) (elements : List Value)
    (lo up obj : Value) (name : Option String) (isInt : Bool) :
    addColumn CoinModel.default n rows elements lo up obj name isInt =
      addColumn columnBuildStart n rows elements lo up obj name isInt := by
  unfold addColumn
  rw [addColumnMode_start, addColumnMode_plain columnBuildStart columnBuildStart_plain.1.1]

theorem columnsBuilt_start (es : List (Int × Int × Value))
    (hn : ∀ e ∈ es, 0 ≤ e.1 ∧ 0 ≤ e.2.1) : ColumnsBuilt es 0 columnBuildStart := by
  obtain ⟨h1, h2, h3, h4, h5, h6, h7⟩ := columnBuildStart_plain
  have hnil : es.filter (fun e => decide (e.2.1 < ((0 : Nat) : Int))) = [] := by
    apply List.filter_eq_nil_iff.2
    intro e he
    have := (hn e he).2
    simpa using this
  refine ⟨h1, h2, h3, by rw [h5]; rfl, fun h => absurd h (lt_irrefl 0),
    fun _ => ⟨le_of_eq h6, h4⟩, fun e he h => ?_, fun h => absurd h (lt_irrefl 0), ?_⟩
  · have := (hn e he).2
    have h' : e.2.1 < 0 := by exact_mod_cast h
    omega
  · rw [h7, hnil]
    exact List.Perm.refl _

/-- One step of the build by columns: `addColumn` with the entries of column `k` on a
model that holds the columns below `k`. -/
theorem columnsBuilt_step (es : List (Int × Int × Value))
    (hd : (es.map (fun e => (e.1, e.2.1))).Nodup) (hn : ∀ e ∈ es, 0 ≤ e.1 ∧ 0 ≤ e.2.1)
    (k : Nat) (hk : ∃ e ∈ es, e.2.1 = (k : Int)) (m : CoinModel) (hm : ColumnsBuilt es k m) :
    (addColumn m ((columnEntries es k).length : Int) ((columnEntries es k).map Prod.fst)
      ((columnEntries es k).map Prod.snd) 0 COIN_DBL_MAX 0 none false).Returns
      (ColumnsBuilt es (k + 1)) := by
  obtain ⟨hp, hl, hca, hcols, hra, hz, hlt, hat, hperm⟩ := hm
  have hne := columnEntries_ne_nil es k hk
  have hgood := columnEntries_good es hd hn k
  have hkeys : ∀ x ∈ columnEntries es k, ∃ e ∈ es, e.2.1 = (k : Int) ∧ e.1 = x.1 := by
    intro x hx
    obtain ⟨e, he, rfl⟩ := List.mem_map.1 hx
    have he' := List.mem_filter.1 he
    exact ⟨e, he'.1, by simpa using he'.2, rfl⟩
  have hkeys0 : ∀ x ∈ columnEntries es k, 0 ≤ x.1 := by
    intro x hx
    obtain ⟨e, he, _, h2⟩ := hkeys x hx
    rw [← h2]
    exact (hn e he).1
  refine Outcome.returns_mono
    (addColumn_plain m hp hl hca.2.2.2.1 (columnEntries es k) hne hgood 0 COIN_DBL_MAX 0 none
      false) ?_
  rintro a ⟨a1, a2, a3, a4, ⟨last, l1, ⟨x, hx, l2⟩, l3⟩, ⟨entries, p1, p2⟩, _, a8⟩
  obtain ⟨ex, hex, hexk, hexc⟩ := hkeys x hx
  have hlast0 : 0 ≤ last := by
    rw [← l2]
    exact hkeys0 x hx
  have hcast : (((k + 1 : Nat) : Int)) = (k : Int) + 1 := by push_cast; rfl
  refine ⟨a1, a2, columnArrays_stay hca a3 a1.2.2.2.1, by rw [a4, hcols, hcast], fun _ => ?_,
    fun h => absurd h (Nat.succ_ne_zero k), fun e he h => ?_, fun _ => ?_, ?_⟩
  · rcases Nat.eq_zero_or_pos k with h0 | h0
    · exact a8 (hz h0).1 hkeys0
    · exact rowArrays_stay (hra h0) a3 a1.2.2.1
  · rw [l3]
    rw [hcast] at h
    by_cases hek : e.2.1 = (k : Int)
    · have hmem : (e.1, e.2.2) ∈ columnEntries es k :=
        List.mem_map.2 ⟨e, List.mem_filter.2 ⟨he, by simpa using hek⟩, rfl⟩
      have := le_max_left (last + 1) m.numberRows_
      have h' : e.1 ≤ last := l1 _ hmem
      omega
    · have := hlt e he (by omega)
      have := le_max_right (last + 1) m.numberRows_
      omega
  · rw [l3]
    rcases max_cases (last + 1) m.numberRows_ with ⟨h1, _⟩ | ⟨h1, h2⟩
    · exact ⟨ex, hex, by rw [h1, hexc, l2]⟩
    · rcases Nat.eq_zero_or_pos k with h0 | h0
      · have := (hz h0).2
        omega
      · obtain ⟨e, he, h3⟩ := hat h0
        exact ⟨e, he, by rw [h1, h3]⟩
  · rw [hcols] at p2
    rw [p2, hcast]
    refine List.Perm.trans ?_
      ((filter_lt_succ_perm (fun e : Int × Int × Value => e.2.1) es k).map toRecord).symm
    rw [List.map_append]
    refine List.Perm.append hperm ?_
    rw [← columnEntries_records]
    exact p1.map _

/-- The loop of the build by columns, up to column `k - 1`. -/
theorem buildByColumns_fold (es : List (Int × Int × Value))
    (hd : (es.map (fun e => (e.1, e.2.1))).Nodup) (hn : ∀ e ∈ es, 0 ≤ e.1 ∧ 0 ≤ e.2.1) :
    ∀ (k : Nat), (∀ j : Int, 0 ≤ j → j < k → ∃ e ∈ es, e.2.1 = j) →
      (k = 0 → (positionsBelow k).foldl
        (fun o j => o.bind fun m =>
          CoinModel.addColumn m ((columnEntries es j).length : Int)
            ((columnEntries es j).map Prod.fst) ((columnEntries es j).map Prod.snd)
            0 COIN_DBL_MAX 0 none false)
        (Outcome.returned CoinModel.default) = Outcome.returned CoinModel.default) ∧
      (0 < k → ((positionsBelow k).foldl
        (fun o j => o.bind fun m =>
          CoinModel.addColumn m ((columnEntries es j).length : Int)
            ((columnEntries es j).map Prod.fst) ((columnEntries es j).map Prod.snd)
            0 COIN_DBL_MAX 0 none false)
        (Outcome.returned CoinModel.default)).Returns (ColumnsBuilt es k))
  | 0, _ => ⟨fun _ => rfl, fun h => absurd h (lt_irrefl 0)⟩
  | k + 1, hg => by
    obtain ⟨ih0, ih⟩ :=
      buildByColumns_fold es hd hn k (fun i h0 h1 => hg i h0 (by push_cast; omega))
    have hk : ∃ e ∈ es, e.2.1 = (k : Int) := hg k (by omega) (by push_cast; omega)
    refine ⟨fun h => absurd h (Nat.succ_ne_zero k), fun _ => ?_⟩
    have hcast : (((k + 1 : Nat) : Int)) = (k : Int) + 1 := by push_cast; rfl
    rw [hcast, positionsBelow_succ, List.foldl_append]
    rcases Nat.eq_zero_or_pos k with h0 | h0
    · rw [ih0 h0]
      show Outcome.Returns (addColumn CoinModel.default _ _ _ _ _ _ _ _) _
      rw [addColumn_default]
      have := columnsBuilt_step es hd hn k hk columnBuildStart (h0 ▸ columnsBuilt_start es hn)
      exact this
    · exact Outcome.returns_bind (ih h0) (fun m hm => columnsBuilt_step es hd hn k hk m hm)

theorem buildByColumns_built (es : List (Int × Int × Value)) (hne : es ≠ [])
    (hd : (es.map (fun e => (e.1, e.2.1))).Nodup) (hn : ∀ e ∈ es, 0 ≤ e.1 ∧ 0 ≤ e.2.1)
    (hg : ∀ j : Int, 0 ≤ j → j < columnsOf es → ∃ e ∈ es, e.2.1 = j) :
    (buildByColumns es).Returns (Built es) := by
  have hC0 := columnsOf_nonneg es
  have hcast : (((columnsOf es).toNat : Nat) : Int) = columnsOf es := by omega
  have hpos : 0 < (columnsOf es).toNat := by
    obtain ⟨e, he⟩ := List.exists_mem_of_ne_nil es hne
    have := columnsOf_gt es e he
    have := (hn e he).2
    omega
  have h := (buildByColumns_fold es hd hn (columnsOf es).toNat
    (fun i h0 h1 => hg i h0 (by omega))).2 hpos
  rw [hcast] at h
  unfold buildByColumns
  refine Outcome.returns_mono h ?_
  rintro m ⟨hp, _, hca, hcols, hra, _, hlt, hat, hperm⟩
  refine ⟨hp, hra hpos, hca, ?_, by rw [hcols, hcast], ?_⟩
  · unfold rowsOf
    apply foldl_max_unique (fun e : Int × Int × Value => e.1) es _ hp.2.2.1
    · intro e he
      exact hlt e he (by rw [hcast]; exact columnsOf_gt es e he)
    · exact Or.inr (hat hpos)
  · have hall :
        es.filter (fun e => decide (e.2.1 < (((columnsOf es).toNat : Nat) : Int))) = es := by
      apply List.filter_eq_self.2
      intro e he
      rw [hcast]
      simpa using columnsOf_gt es e he
    rw [hall] at hperm
    exact hperm

/-! ### The build by elements -/

theorem setElement_default (i j : Int) (v : Value) :
    setElement CoinModel.default i j v = setElement elementBuildStart i j v := by
  unfold setElement
  rw [setElementMode_start, setElementMode_plain elementBuildStart
    elementBuildStart_plain.1.1 (by rw [elementBuildStart_plain.2.1]; decide)]

theorem built_start : Built [] elementBuildStart ∧ elementBuildStart.links_ = 3 := by
  obtain ⟨h1, h2, h3, h4, h5, h6, h7⟩ := elementBuildStart_plain
  exact ⟨⟨h1, h3, h4, h5, h6, by rw [h7]; exact List.Perm.refl _⟩, h2⟩

/-- One step of the build by elements: `setElement` for a coefficient whose pair the
model does not hold yet. -/
theorem built_step (ps : List (Int × Int × Value)) (e : Int × Int × Value)
    (hd : ((ps ++ [e]).map (fun e => (e.1, e.2.1))).Nodup) (m : CoinModel)
    (hm : Built ps m ∧ m.links_ = 3) :
    (setElement m e.1 e.2.1 e.2.2).Returns fun a => Built (ps ++ [e]) a ∧ a.links_ = 3 := by
  obtain ⟨⟨hp, hra, hca, hrows, hcols, hperm⟩, hl⟩ := hm
  have hfresh : ∀ t ∈ records m, holds t e.1 e.2.1 = false := by
    intro t ht
    obtain ⟨x, hx, rfl⟩ := List.mem_map.1 (hperm.subset ht)
    rw [List.map_append, List.nodup_append] at hd
    have hdis := hd.2.2
    by_contra hh
    have hh' : holds (toRecord x) e.1 e.2.1 = true := by simpa using hh
    unfold holds toRecord rowInTriple at hh'
    simp only [Bool.and_eq_true, decide_eq_true_eq] at hh'
    apply @hdis (x.1, x.2.1) (List.mem_map.2 ⟨x, hx, rfl⟩)
    rw [hh'.1, hh'.2]
    exact List.mem_singleton.2 rfl
  refine Outcome.returns_mono (setElement_plain m hp hl e.1 e.2.1 e.2.2 hfresh) ?_
  rintro a ⟨a1, a2, a3, a4, a5, a6, _⟩
  refine ⟨⟨a1, rowArrays_stay hra a3 a1.2.2.1, columnArrays_stay hca a3 a1.2.2.2.1, ?_, ?_, ?_⟩,
    a2⟩
  · rw [a4, hrows, rowsOf_append]
  · rw [a5, hcols, columnsOf_append]
  · rw [a6, List.map_append]
    exact List.Perm.append hperm (List.Perm.refl _)

theorem buildByElements_append (ps : List (Int × Int × Value)) (e : Int × Int × Value) :
    buildByElements (ps ++ [e]) =
      (buildByElements ps).bind fun m => CoinModel.setElement m e.1 e.2.1 e.2.2 := by
  unfold buildByElements
  rw [List.foldl_append]
  rfl

theorem buildByElements_built : ∀ (es : List (Int × Int × Value)),
    (es.map (fun e => (e.1, e.2.1))).Nodup →
    (es = [] → buildByElements es = Outcome.returned CoinModel.default) ∧
    (es ≠ [] → (buildByElements es).Returns fun a => Built es a ∧ a.links_ = 3) := by
  intro es
  induction es using List.reverseRecOn with
  | nil => exact fun _ => ⟨fun _ => rfl, fun h => absurd rfl h⟩
  | append_singleton ps e ih =>
    intro hd
    have hd' : (ps.map (fun e => (e.1, e.2.1))).Nodup := by
      rw [List.map_append] at hd
      exact (List.nodup_append.1 hd).1
    obtain ⟨ih0, ih1⟩ := ih hd'
    refine ⟨fun h => absurd h (by simp), fun _ => ?_⟩
    rw [buildByElements_append]
    by_cases hps : ps = []
    · rw [ih0 hps]
      show Outcome.Returns (setElement CoinModel.default _ _ _) _
      rw [setElement_default]
      subst hps
      exact built_step [] e hd elementBuildStart built_start
    · exact Outcome.returns_bind (ih1 hps) (fun m hm => built_step ps e hd m hm)

/-! ### `pack` on a model in which every row and column holds an element -/

theorem packRank_all (count : Int → Int) (n : Int) (h0 : 0 ≤ n)
    (h : ∀ i, 0 ≤ i → i < n → count i ≠ 0) : packRank count n = n := by
  unfold packRank
  have hf : (positionsBelow n).filter (fun j => decide (count j ≠ 0)) = positionsBelow n := by
    apply List.filter_eq_self.2
    intro i hi
    have hi' := mem_positionsBelow.1 hi
    simpa using h i hi'.1 hi'.2
  rw [hf, positionsBelow_length]
  omega

theorem packRowsKeep_isSome (d : Bool) (s : PackRowsState) (i : Int) :
    (packRowsKeep d s i).rowLower.isSome = s.rowLower.isSome ∧
    (packRowsKeep d s i).rowUpper.isSome = s.rowUpper.isSome ∧
    (packRowsKeep d s i).rowType.isSome = s.rowType.isSome := by
  unfold packRowsKeep
  by_cases h : s.newRow i ≠ 0
  · rw [if_pos h]
    exact ⟨isSome_store _ _ _, isSome_store _ _ _, isSome_store _ _ _⟩
  · rw [if_neg h]
    exact ⟨rfl, rfl, rfl⟩

theorem packRowsKeep_fold_isSome (d : Bool) : ∀ (l : List Int) (s : PackRowsState),
    (l.foldl (packRowsKeep d) s).rowLower.isSome = s.rowLower.isSome ∧
    (l.foldl (packRowsKeep d) s).rowUpper.isSome = s.rowUpper.isSome ∧
    (l.foldl (packRowsKeep d) s).rowType.isSome = s.rowType.isSome
  | [], _ => ⟨rfl, rfl, rfl⟩
  | i :: l, s => by
    obtain ⟨h1, h2, h3⟩ := packRowsKeep_fold_isSome d l (packRowsKeep d s i)
    obtain ⟨g1, g2, g3⟩ := packRowsKeep_isSome d s i
    rw [List.foldl_cons]
    exact ⟨h1.trans g1, h2.trans g2, h3.trans g3⟩

theorem packColumnsKeep_isSome (d : Bool) (s : PackColumnsState) (i : Int) :
    (packColumnsKeep d s i).columnLower.isSome = s.columnLower.isSome ∧
    (packColumnsKeep d s i).columnUpper.isSome = s.columnUpper.isSome ∧
    (packColumnsKeep d s i).objective.isSome = s.objective.isSome ∧
    (packColumnsKeep d s i).integerType.isSome = s.integerType.isSome ∧
    (packColumnsKeep d s i).columnType.isSome = s.columnType.isSome := by
  unfold packColumnsKeep
  by_cases h : s.newColumn i ≠ 0
  · rw [if_pos h]
    exact ⟨isSome_store _ _ _, isSome_store _ _ _, isSome_store _ _ _, isSome_store _ _ _,
      isSome_store _ _ _⟩
  · rw [if_neg h]
    exact ⟨rfl, rfl, rfl, rfl, rfl⟩

theorem packColumnsKeep_fold_isSome (d : Bool) : ∀ (l : List Int) (s : PackColumnsState),
    (l.foldl (packColumnsKeep d) s).columnLower.isSome = s.columnLower.isSome ∧
    (l.foldl (packColumnsKeep d) s).columnUpper.isSome = s.columnUpper.isSome ∧
    (l.foldl (packColumnsKeep d) s).objective.isSome = s.objective.isSome ∧
    (l.foldl (packColumnsKeep d) s).integerType.isSome = s.integerType.isSome ∧
    (l.foldl (packColumnsKeep d) s).columnType.isSome = s.columnType.isSome
  | [], _ => ⟨rfl, rfl, rfl, rfl, rfl⟩
  | i :: l, s => by
    obtain ⟨h1, h2, h3, h4, h5⟩ := packColumnsKeep_fold_isSome d l (packColumnsKeep d s i)
    obtain ⟨g1, g2, g3, g4, g5⟩ := packColumnsKeep_isSome d s i
    rw [List.foldl_cons]
    exact ⟨h1.trans g1, h2.trans g2, h3.trans g3, h4.trans g4, h5.trans g5⟩

/-- When no row is removed, `packRows` returns the model with its row arrays and row
names rewritten in place and nothing else changed. -/
theorem packRows_nothing (m : CoinModel) (h3 : m.type_ ≠ 3)
    (hn : (packRowsScan m).n = m.numberRows_) :
    ∃ m1, packRows m = Outcome.returned (m1, 0) ∧ (Plain m → Plain m1) ∧
      m1.type_ = m.type_ ∧ m1.numberRows_ = m.numberRows_ ∧
      m1.numberColumns_ = m.numberColumns_ ∧ m1.numberElements_ = m.numberElements_ ∧
      m1.elements_ = m.elements_ ∧ (RowArrays m → RowArrays m1) ∧
      (ColumnArrays m → ColumnArrays m1) := by
  obtain ⟨r1, r2, r3⟩ := packRowsKeep_fold_isSome (decide (m.rowName_.numberItems ≠ 0))
    (positionsBelow m.numberRows_) ⟨0, rowCounts m, m.rowLower_, m.rowUpper_, m.rowType_,
      m.rowName_⟩
  rw [← packRowsScan_eq] at r1 r2 r3
  refine ⟨
    { m with
      rowLower_ := (packRowsScan m).rowLower
      rowUpper_ := (packRowsScan m).rowUpper
      rowType_ := (packRowsScan m).rowType
      rowName_ := (packRowsScan m).rowName }, ?_, id, rfl, rfl, rfl, rfl, rfl, ?_, id⟩
  · unfold packRows
    rw [if_neg h3]
    show (if m.numberRows_ - (packRowsScan m).n ≠ 0 then _ else _) = _
    rw [if_neg (by rw [hn]; simp), hn, sub_self]
  · intro hra
    exact ⟨hra.1, r1.trans hra.2.1, r2.trans hra.2.2.1, r3.trans hra.2.2.2⟩

theorem packColumns_nothing (m : CoinModel) (h3 : m.type_ ≠ 3)
    (hn : (packColumnsScan m).n = m.numberColumns_) :
    ∃ m1, packColumns m = Outcome.returned (m1, 0) ∧ (Plain m → Plain m1) ∧
      m1.type_ = m.type_ ∧ m1.numberRows_ = m.numberRows_ ∧
      m1.numberColumns_ = m.numberColumns_ ∧ m1.numberElements_ = m.numberElements_ ∧
      m1.elements_ = m.elements_ ∧ (RowArrays m → RowArrays m1) ∧
      (ColumnArrays m → ColumnArrays m1) := by
  obtain ⟨c1, c2, c3, c4, c5⟩ :=
    packColumnsKeep_fold_isSome (decide (m.columnName_.numberItems ≠ 0))
      (positionsBelow m.numberColumns_) ⟨0, columnCounts m, m.columnLower_, m.columnUpper_,
        m.objective_, m.integerType_, m.columnType_, m.columnName_⟩
  rw [← packColumnsScan_eq] at c1 c2 c3 c4 c5
  refine ⟨
    { m with
      columnLower_ := (packColumnsScan m).columnLower
      columnUpper_ := (packColumnsScan m).columnUpper
      objective_ := (packColumnsScan m).objective
      integerType_ := (packColumnsScan m).integerType
      columnType_ := (packColumnsScan m).columnType
      columnName_ := (packColumnsScan m).columnName }, ?_, id, rfl, rfl, rfl, rfl, rfl, id, ?_⟩
  · unfold packColumns
    rw [if_neg h3]
    show (if m.numberColumns_ - (packColumnsScan m).n ≠ 0 then _ else _) = _
    rw [if_neg (by rw [hn]; simp), hn, sub_self]
  · intro hca
    exact ⟨hca.1, c1.trans hca.2.1, c2.trans hca.2.2.1, c3.trans hca.2.2.2.1,
      c4.trans hca.2.2.2.2.1, c5.trans hca.2.2.2.2.2⟩

theorem mem_records {m : CoinModel} {t : CoinModelTriple} (h : t ∈ records m) :
    ∃ p ∈ positionsBelow m.numberElements_, m.elements_ p = t :=
  List.mem_map.1 h

/-- A model that holds exactly the coefficients `es`, all with indices that are not
negative, has no deleted slot, and every coefficient is stored at some position. -/
theorem built_stored (es : List (Int × Int × Value)) (hn : ∀ e ∈ es, 0 ≤ e.1 ∧ 0 ≤ e.2.1)
    (m : CoinModel) (hb : Built es m) :
    Compact m ∧ RowsInRange m ∧ ColumnsInRange m ∧
    ∀ e ∈ es, ∃ p ∈ storedPositions m, m.elements_ p = toRecord e := by
  obtain ⟨hp, _, _, hrows, hcols, hperm⟩ := hb
  have hall : ∀ p ∈ positionsBelow m.numberElements_, ∃ e ∈ es, m.elements_ p = toRecord e := by
    intro p hp'
    have : m.elements_ p ∈ records m := List.mem_map_of_mem _ hp'
    obtain ⟨e, he, h⟩ := List.mem_map.1 (hperm.subset this)
    exact ⟨e, he, h.symm⟩
  have hc : Compact m := by
    intro p hp'
    obtain ⟨e, he, h⟩ := hall p hp'
    rw [h]
    exact (hn e he).2
  have hsp := storedPositions_of_compact m hc
  refine ⟨hc, ⟨hp.2.2.2.2.1, fun p hp' => ?_⟩, ⟨hp.2.2.2.2.1, fun p hp' => ?_⟩, fun e he => ?_⟩
  · rw [hsp] at hp'
    obtain ⟨e, he, h⟩ := hall p hp'
    rw [h, hrows]
    exact ⟨(hn e he).1, rowsOf_gt es e he⟩
  · rw [hsp] at hp'
    obtain ⟨e, he, h⟩ := hall p hp'
    rw [h, hcols]
    exact columnsOf_gt es e he
  · have : toRecord e ∈ records m := hperm.symm.subset (List.mem_map_of_mem _ he)
    obtain ⟨p, hp', h⟩ := mem_records this
    rw [← hsp] at hp'
    exact ⟨p, hp', h⟩

/-- What `pack()` does to a model that holds exactly the coefficients `es` when every row
and column index below the largest carries a coefficient: nothing is removed. -/
theorem pack_built (es : List (Int × Int × Value)) (hn : ∀ e ∈ es, 0 ≤ e.1 ∧ 0 ≤ e.2.1)
    (hgr : ∀ i : Int, 0 ≤ i → i < rowsOf es → ∃ e ∈ es, e.1 = i)
    (hgc : ∀ j : Int, 0 ≤ j → j < columnsOf es → ∃ e ∈ es, e.2.1 = j)
    (m : CoinModel) (hb : Built es m) :
    (pack m).Returns fun r => r.2 = 0 ∧ Built es r.1 := by
  obtain ⟨hc, hrr, hcr, hst⟩ := built_stored es hn m hb
  obtain ⟨hp, hra, hca, hrows, hcols, hperm⟩ := hb
  have h3 : m.type_ ≠ 3 := by rw [hp.1]; decide
  have hrc : ∀ i, 0 ≤ i → i < m.numberRows_ → rowCounts m i ≠ 0 := by
    intro i h0 h1
    obtain ⟨e, he, hei⟩ := hgr i h0 (by rw [← hrows]; exact h1)
    obtain ⟨p, hp', h⟩ := hst e he
    have hrow : rowInTriple (m.elements_ p) = i := by rw [h]; exact hei
    have := rowCounts_ne_zero_of_stored m p hp' (by rw [hrow]; exact h0) (by rw [hrow]; exact h1)
    rw [hrow] at this
    exact this
  have hnr : (packRowsScan m).n = m.numberRows_ := by
    rw [(packRowsScan_index m hra.1).1]
    exact packRank_all _ _ hra.1 hrc
  obtain ⟨m1, hm1, hpl1, e1, e0, e2, e3, e4, hr1, hc1⟩ := packRows_nothing m h3 hnr
  unfold pack
  rw [hm1]
  have hp1 : Plain m1 := hpl1 hp
  have hra1 : RowArrays m1 := hr1 hra
  have hca1 : ColumnArrays m1 := hc1 hca
  have hrec1 : records m1 = records m := by unfold records; rw [e3, e4]
  have hsp1 : storedPositions m1 = storedPositions m := by unfold storedPositions; rw [e3, e4]
  have hcc : ∀ j, 0 ≤ j → j < m1.numberColumns_ → columnCounts m1 j ≠ 0 := by
    intro j h0 h1
    obtain ⟨e, he, hej⟩ := hgc j h0 (by rw [← hcols, ← e2]; exact h1)
    obtain ⟨p, hp', h⟩ := hst e he
    rw [← hsp1] at hp'
    have hcol : (m1.elements_ p).column = j := by rw [e4, h]; exact hej
    have := columnCounts_ne_zero_of_stored m1 p hp' (by rw [hcol]; exact h1)
    rw [hcol] at this
    exact this
  have hnc : (packColumnsScan m1).n = m1.numberColumns_ := by
    rw [(packColumnsScan_index m1 hca1.1).1]
    exact packRank_all _ _ hca1.1 hcc
  obtain ⟨m2, hm2, hpl2, f1, f0, f2, f3, f4, hr2, hc2⟩ :=
    packColumns_nothing m1 (by rw [e1]; exact h3) hnc
  show Outcome.Returns (Outcome.bind (packColumns m1) _) _
  rw [hm2]
  refine Outcome.returns_returned ⟨rfl, hpl2 hp1, hr2 hra1, hc2 hca1, ?_, ?_, ?_⟩
  · show m2.numberRows_ = _
    rw [f0, e0, hrows]
  · show m2.numberColumns_ = _
    rw [f2, e2, hcols]
  · show (records m2).Perm _
    have : records m2 = records m1 := by unfold records; rw [f3, f4]
    rw [this, hrec1]
    exact hperm

/-! ### The export is determined by the stored triples -/

/-- The state of `createPackedMatrix` after its fill loop: the invariant of the loop over
all positions, and the areas of the columns, which do not overlap. -/
theorem exportMatrix_fill (nc n : Int) (E : Int → CoinModelTriple) (assoc : Int → Value)
    (hcol : ∀ p, 0 ≤ p → p < n → (E p).column < nc) :
    FillInv E assoc (buildStarts nc (countLengths E n).1) nc
      ((positionsBelow n).foldl (fillStep E assoc (buildStarts nc (countLengths E n).1))
        ⟨0, 0, fun _ => 0, fun _ => 0, fun _ => 0⟩) (positionsBelow n) ∧
    ∀ a b, (0 ≤ a ∧ a < nc) → (0 ≤ b ∧ b < nc) → a ≠ b → ∀ q,
      buildStarts nc (countLengths E n).1 a ≤ q →
      q < buildStarts nc (countLengths E n).1 a +
        ((positionsBelow n).foldl (fillStep E assoc (buildStarts nc (countLengths E n).1))
          ⟨0, 0, fun _ => 0, fun _ => 0, fun _ => 0⟩).length a →
      ¬ (buildStarts nc (countLengths E n).1 b ≤ q ∧
        q < buildStarts nc (countLengths E n).1 b +
          ((positionsBelow n).foldl (fillStep E assoc (buildStarts nc (countLengths E n).1))
            ⟨0, 0, fun _ => 0, fun _ => 0, fun _ => 0⟩).length b) := by
  have hL : ∀ i, 0 ≤ (countLengths E n).1 i := by
    intro i
    rw [countLengths_eq]
    exact Int.ofNat_nonneg _
  have hdis0 := buildStarts_disjoint (countLengths E n).1 nc hL
  have hinv : FillInv E assoc (buildStarts nc (countLengths E n).1) nc
      ((positionsBelow n).foldl (fillStep E assoc (buildStarts nc (countLengths E n).1))
        ⟨0, 0, fun _ => 0, fun _ => 0, fun _ => 0⟩) ([] ++ positionsBelow n) := by
    apply fillInv_fold E assoc _ nc (countLengths E n).1 hdis0 _ _ _ (fillInv_init E assoc _ nc)
    · intro p hp
      have := mem_positionsBelow.1 hp
      exact hcol p this.1 this.2
    · intro c hc _
      rw [List.nil_append]
      exact exportedTo_length_le E assoc n c hc
  rw [List.nil_append] at hinv
  refine ⟨hinv, ?_⟩
  intro a b ha hb hab q h1 h2
  have la := hinv.1 a ha.1
  have la' := exportedTo_length_le E assoc n a ha.1
  have lb := hinv.1 b hb.1
  have lb' := exportedTo_length_le E assoc n b hb.1
  rcases lt_or_gt_of_ne hab with hlt | hgt
  · have := hdis0 a b ha.1 hlt hb.2
    omega
  · have := hdis0 b a hb.1 hgt ha.2
    omega

/-- After the sorting loop the area of every column is in ascending order of its row
indices. -/
theorem sorted_segment_keys (start : Int → Int) (nc : Int) (s : FillState)
    (hdis : ∀ a b, (0 ≤ a ∧ a < nc) → (0 ≤ b ∧ b < nc) → a ≠ b → ∀ q,
      start a ≤ q → q < start a + s.length a → ¬ (start b ≤ q ∧ q < start b + s.length b))
    (c : Int) (hc : 0 ≤ c) (hc' : c < nc) :
    ((segment start s.length
      ((positionsBelow nc).foldl (sortColumn start s.length) (s.row, s.element)) c).map
        Prod.fst).Sorted (fun a b => a ≤ b) := by
  have hfold := (sortColumn_fold start s.length (fun i => 0 ≤ i ∧ i < nc) hdis
    (positionsBelow nc) (s.row, s.element) (positionsBelow_nodup nc)
    (fun i hi => mem_positionsBelow.1 hi)).2 c (mem_positionsBelow.2 ⟨hc, hc'⟩)
  rw [hfold]
  exact CoinSort_2_keys_sorted _

theorem exportEntries_map (E : Int → CoinModelTriple) (assoc : Int → Value) (c : Int)
    (l : List Int) :
    (exportedTo E assoc c l).map (exportEntry E assoc) = exportEntries assoc (l.map E) c := by
  unfold exportEntries exportedTo
  rw [List.filter_map, List.map_map]
  rfl

/-- What `createPackedMatrix` computes, in terms of the triples of the element store. -/
theorem exportMatrix_exportOf (nr nc n : Int) (E : Int → CoinModelTriple)
    (assoc : Int → Value) (hcol : ∀ p, 0 ≤ p → p < n → (E p).column < nc) :
    ExportOf assoc ((positionsBelow n).map E) nr nc (exportMatrix nr nc n E assoc) := by
  obtain ⟨hinv, hdis⟩ := exportMatrix_fill nc n E assoc hcol
  refine ⟨rfl, rfl, rfl, ?_, ?_, ?_, ?_⟩
  · rw [(exportMatrix_spec nr nc n E assoc hcol).1]
    unfold exported
    rw [List.filter_map, List.length_map]
    rfl
  · rw [exportMatrix_errors]
    unfold unresolved
    rw [List.filter_map, List.length_map]
    rfl
  · have hL : (countLengths E n).1 = fun c => ((((positionsBelow n).map E).countP
        (fun t => decide (0 ≤ t.column) && decide (t.column = c)) : Nat) : Int) := by
      funext c
      rw [countLengths_eq, List.countP_map]
      rfl
    show buildStarts nc (countLengths E n).1 = _
    rw [hL]
  · intro c hc hc'
    refine ⟨?_, ?_, ?_⟩
    · show ((positionsBelow n).foldl (fillStep E assoc (buildStarts nc (countLengths E n).1))
        ⟨0, 0, fun _ => 0, fun _ => 0, fun _ => 0⟩).length c = _
      rw [hinv.1 c hc, ← exportEntries_map, List.length_map]
    · rw [← exportEntries_map]
      exact (exportMatrix_spec nr nc n E assoc hcol).2 c hc hc'
    · exact sorted_segment_keys _ nc _ hdis c hc hc'

theorem exportEntries_perm (assoc : Int → Value) {ts ts' : List CoinModelTriple}
    (h : ts.Perm ts') (c : Int) :
    (exportEntries assoc ts c).Perm (exportEntries assoc ts' c) :=
  (h.filter _).map _

/-- An export of the triples `ts` is an export of the same triples in any order. -/
theorem exportOf_perm (assoc : Int → Value) {ts ts' : List CoinModelTriple}
    (h : ts.Perm ts') (nr nc : Int) (x : CoinPackedMatrix × Int)
    (hx : ExportOf assoc ts nr nc x) : ExportOf assoc ts' nr nc x := by
  obtain ⟨h1, h2, h3, h4, h5, h6, h7⟩ := hx
  refine ⟨h1, h2, h3, ?_, ?_, ?_, fun c hc hc' => ?_⟩
  · rw [h4, (h.filter _).length_eq]
  · rw [h5, (h.filter _).length_eq]
  · have hL : (fun c => ((ts.countP
        (fun t => decide (0 ≤ t.column) && decide (t.column = c)) : Nat) : Int)) =
        fun c => ((ts'.countP
          (fun t => decide (0 ≤ t.column) && decide (t.column = c)) : Nat) : Int) := by
      funext c
      rw [h.countP_eq]
    rw [h6, hL]
  · obtain ⟨g1, g2, g3⟩ := h7 c hc hc'
    exact ⟨by rw [g1, (exportEntries_perm assoc h c).length_eq],
      g2.trans (exportEntries_perm assoc h c), g3⟩

/-- Two lists with the same entries, both in ascending order of their keys, are equal
when no key occurs twice. -/
theorem eq_of_perm_sorted_keys {l1 l2 : List (Int × Value)} (h : l1.Perm l2)
    (h1 : (l1.map Prod.fst).Sorted (fun a b => a ≤ b))
    (h2 : (l2.map Prod.fst).Sorted (fun a b => a ≤ b)) (hd : (l1.map Prod.fst).Nodup) :
    l1 = l2 := by
  have hd2 : (l2.map Prod.fst).Nodup := (h.map Prod.fst).nodup_iff.1 hd
  have s1 : l1.Pairwise (fun a b => a.1 < b.1) :=
    List.pairwise_map.1 (List.Sorted.lt_of_le h1 hd)
  have s2 : l2.Pairwise (fun a b => a.1 < b.1) :=
    List.pairwise_map.1 (List.Sorted.lt_of_le h2 hd2)
  haveI : IsAntisymm (Int × Value) (fun a b => a.1 < b.1) :=
    ⟨fun a b hab hba => absurd hab (not_lt.2 (le_of_lt hba))⟩
  exact List.eq_of_perm_of_sorted h s1 s2

theorem exportEntries_keys_nodup (assoc : Int → Value) (ts : List CoinModelTriple)
    (hd : (ts.map (fun t => (rowInTriple t, t.column))).Nodup) (c : Int) :
    ((exportEntries assoc ts c).map Prod.fst).Nodup := by
  unfold exportEntries
  rw [List.map_map]
  apply List.Nodup.map_on _ ((List.Nodup.of_map _ hd).filter _)
  intro x hx y hy hxy
  have hx' := List.mem_filter.1 hx
  have hy' := List.mem_filter.1 hy
  have cx : x.column = c := by
    have := hx'.2
    simp only [Bool.and_eq_true, decide_eq_true_eq] at this
    exact this.1
  have cy : y.column = c := by
    have := hy'.2
    simp only [Bool.and_eq_true, decide_eq_true_eq] at this
    exact this.1
  have hrow : rowInTriple x = rowInTriple y := hxy
  exact List.inj_on_of_nodup_map hd hx'.1 hy'.1
    (by rw [Prod.mk.injEq]; exact ⟨hrow, cx.trans cy.symm⟩)

/-- Two exports of the same triples, no two of them with the same row and column, have
the same content. -/
theorem exportOf_unique (assoc : Int → Value) (ts : List CoinModelTriple) (nr nc : Int)
    (hd : (ts.map (fun t => (rowInTriple t, t.column))).Nodup)
    (x y : CoinPackedMatrix × Int) (hx : ExportOf assoc ts nr nc x)
    (hy : ExportOf assoc ts nr nc y) : SameMatrix x.1 y.1 ∧ y.2 = x.2 := by
  obtain ⟨h1, h2, h3, h4, h5, h6, h7⟩ := hx
  obtain ⟨g1, g2, g3, g4, g5, g6, g7⟩ := hy
  refine ⟨⟨by rw [g1, h1], by rw [g2, h2], by rw [g3, h3], by rw [g4, h4],
    fun c _ _ => by rw [g6, h6], fun c hc hc' => ?_⟩, by rw [g5, h5]⟩
  rw [h3] at hc'
  obtain ⟨a1, a2, a3⟩ := h7 c hc hc'
  obtain ⟨b1, b2, b3⟩ := g7 c hc hc'
  refine ⟨by rw [b1, a1], ?_⟩
  have hk : ((y.1.column c).map Prod.fst).Nodup :=
    (b2.map Prod.fst).nodup_iff.2 (exportEntries_keys_nodup assoc ts hd c)
  exact eq_of_perm_sorted_keys (b2.trans a2.symm) b3 a3 hk

/-- The export of a model that holds exactly the coefficients `es`. -/
theorem createPackedMatrix_built (es : List (Int × Int × Value))
    (hn : ∀ e ∈ es, 0 ≤ e.1 ∧ 0 ≤ e.2.1) (m : CoinModel) (hb : Built es m)
    (M0 : CoinPackedMatrix) (assoc : Int → Value) :
    (createPackedMatrix m M0 assoc).Returns fun x =>
      ExportOf assoc (es.map toRecord) (rowsOf es) (columnsOf es) (x.2.1, x.2.2) := by
  obtain ⟨hc, _, hcr, _⟩ := built_stored es hn m hb
  obtain ⟨hp, _, _, hrows, hcols, hperm⟩ := hb
  have h3 : m.type_ ≠ 3 := by rw [hp.1]; decide
  have h23 : ({ m with type_ := 2 } : CoinModel).type_ ≠ 3 := by
    show (2 : Int) ≠ 3
    decide
  unfold createPackedMatrix
  rw [if_neg h3]
  apply Outcome.returns_bind
    (Outcome.returns_and
      (keeps_resize { m with type_ := 2 } m.numberRows_ m.numberColumns_ m.numberElements_ h23)
      (steady_resize { m with type_ := 2 } m.numberRows_ m.numberColumns_ m.numberElements_
        rfl hp.2.1 hp.2.2.1 hp.2.2.2.1))
  rintro a ⟨hk, hs⟩
  refine Outcome.returns_returned ?_
  have e1 : a.numberRows_ = rowsOf es := by rw [hs.2.2.2.1]; exact hrows
  have e2 : a.numberColumns_ = columnsOf es := by rw [hs.2.2.2.2.1]; exact hcols
  have e3 : a.numberElements_ = m.numberElements_ := hk.1
  have hrec : (positionsBelow a.numberElements_).map a.elements_ = records m := by
    rw [e3]
    unfold records
    apply List.map_congr_left
    intro p hp'
    have := mem_positionsBelow.1 hp'
    exact hk.2.1 p this.1 this.2
  have hcol' : ∀ p, 0 ≤ p → p < a.numberElements_ →
      (a.elements_ p).column < a.numberColumns_ := by
    intro p h0 h1
    rw [e3] at h1
    have hp' : p ∈ positionsBelow m.numberElements_ := mem_positionsBelow.2 ⟨h0, h1⟩
    rw [hk.2.1 p h0 h1, hs.2.2.2.2.1]
    have := hcr.2 p (by rw [storedPositions_of_compact m hc]; exact hp')
    exact this
  have := exportMatrix_exportOf a.numberRows_ a.numberColumns_ a.numberElements_ a.elements_
    assoc hcol'
  rw [hrec] at this
  have hx := exportOf_perm assoc hperm _ _ _ this
  rw [← e1, ← e2]
  exact hx

/-! ### The three builds, packed and exported -/

theorem sameMatrix_refl (M : CoinPackedMatrix) : SameMatrix M M :=
  ⟨rfl, rfl, rfl, rfl, fun _ _ _ => rfl, fun _ _ _ => ⟨rfl, rfl⟩⟩

theorem packedExport_default (assoc : Int → Value) :
    (packedExport (Outcome.returned CoinModel.default) assoc).Returns fun a =>
      a.1.numberRows_ = 0 ∧ a.1.numberColumns_ = 0 := by
  have hp : (pack CoinModel.default).Returns fun r =>
      r.1.numberRows_ = 0 ∧ r.1.numberColumns_ = 0 := by decide!
  unfold packedExport
  apply Outcome.returns_bind
    (show (Outcome.returned CoinModel.default).Returns (fun m => m = CoinModel.default) from
      ⟨_, rfl, rfl⟩)
  intro m hm
  rw [hm]
  apply Outcome.returns_bind hp
  intro r hr
  apply Outcome.returns_bind (createPackedMatrix_returns r.1 CoinPackedMatrix.empty assoc)
  intro x _
  exact Outcome.returns_returned hr

/-- A build that holds exactly the coefficients `es`, every index carrying a
coefficient, is left as it is by `pack()` and exported as the coefficients `es`. -/
theorem packedExport_built (es : List (Int × Int × Value))
    (hn : ∀ e ∈ es, 0 ≤ e.1 ∧ 0 ≤ e.2.1)
    (hgr : ∀ i : Int, 0 ≤ i → i < rowsOf es → ∃ e ∈ es, e.1 = i)
    (hgc : ∀ j : Int, 0 ≤ j → j < columnsOf es → ∃ e ∈ es, e.2.1 = j)
    (o : Outcome CoinModel) (ho : o.Returns (Built es)) (assoc : Int → Value) :
    (packedExport o assoc).Returns fun a =>
      Built es a.1 ∧
      ExportOf assoc (es.map toRecord) (rowsOf es) (columnsOf es) (a.2.1, a.2.2) := by
  unfold packedExport
  apply Outcome.returns_bind ho
  intro m hm
  apply Outcome.returns_bind (pack_built es hn hgr hgc m hm)
  rintro r ⟨_, hr⟩
  apply Outcome.returns_bind (createPackedMatrix_built es hn r.1 hr CoinPackedMatrix.empty assoc)
  intro x hx
  exact Outcome.returns_returned ⟨hr, hx⟩


/-! ### The string table -/

theorem nameHash_found (h : CoinModelHash) (n : String) (hp : 0 ≤ h.hash n) :
    h.name (h.hash n) = some n ∧ h.hash n < h.numberItems_ := by
  unfold CoinModelHash.hash at hp ⊢
  cases hf : (positionsBelow h.numberItems_).find? (fun i => decide (h.names i = some n)) with
  | none =>
    rw [hf] at hp
    exact absurd hp (by decide)
  | some i =>
    have hmem := mem_positionsBelow.1 (List.mem_of_find?_eq_some hf)
    have hn : h.names i = some n := by simpa using List.find?_some hf
    dsimp only
    unfold CoinModelHash.name
    rw [if_pos hmem]
    exact ⟨hn, hmem.2⟩

theorem nameHash_absent (h : CoinModelHash) (n : String) (hp : h.hash n < 0) :
    ∀ i, h.name i ≠ some n := by
  unfold CoinModelHash.hash at hp
  cases hf : (positionsBelow h.numberItems_).find? (fun i => decide (h.names i = some n)) with
  | none =>
    intro i hi
    unfold CoinModelHash.name at hi
    by_cases hr : 0 ≤ i ∧ i < h.numberItems_
    · rw [if_pos hr] at hi
      have := List.find?_eq_none.1 hf i (mem_positionsBelow.2 hr)
      simp [hi] at this
    · rw [if_neg hr] at hi
      cases hi
  | some i =>
    rw [hf] at hp
    have hmem := mem_positionsBelow.1 (List.mem_of_find?_eq_some hf)
    dsimp only at hp
    omega

theorem nameHash_present (h : CoinModelHash) (n : String) (i : Int)
    (hi : h.name i = some n) : 0 ≤ h.hash n := by
  by_contra hc
  exact nameHash_absent h n (by omega) i hi

/-- What `addString` does to the string table. -/
theorem addString_spec (m : CoinModel) (s : String) (h0 : 0 ≤ m.string_.numberItems_) :
    ((∃ i, m.string_.name i = some s) →
      (addString m s).2 = m ∧ m.string_.name (addString m s).1 = some s) ∧
    ((¬ ∃ i, m.string_.name i = some s) →
      (addString m s).1 = m.string_.numberItems ∧
      (addString m s).2 = { m with string_ := (addString m s).2.string_ } ∧
      (addString m s).2.string_.numberItems = m.string_.numberItems + 1 ∧
      (addString m s).2.string_.name m.string_.numberItems = some s ∧
      ∀ i, i ≠ m.string_.numberItems →
        (addString m s).2.string_.name i = m.string_.name i) := by
  constructor
  · rintro ⟨i, hi⟩
    have hp := nameHash_present m.string_ s i hi
    have hnot : ¬ (m.string_.hash s < 0) := by omega
    unfold addString
    dsimp only
    rw [if_neg hnot]
    exact ⟨rfl, (nameHash_found m.string_ s hp).1⟩
  · intro hne
    have hneg : m.string_.hash s < 0 := by
      by_contra hc
      exact hne ⟨_, (nameHash_found m.string_ s (by omega)).1⟩
    unfold addString
    dsimp only
    rw [if_pos hneg]
    refine ⟨rfl, rfl, ?_, ?_, ?_⟩
    · show max m.string_.numberItems_ (m.string_.numberItems_ + 1) = m.string_.numberItems_ + 1
      exact max_eq_right (by omega)
    · show CoinModelHash.name _ _ = _
      unfold CoinModelHash.name CoinModelHash.addHash CoinModelHash.numberItems
      dsimp only
      rw [if_pos ⟨h0, by rw [max_eq_right (by omega)]; omega⟩, Function.update_same]
    · intro i hi
      show CoinModelHash.name _ _ = _
      unfold CoinModelHash.name CoinModelHash.addHash CoinModelHash.numberItems at *
      dsimp only
      rw [Function.update_noteq hi, max_eq_right (by omega)]
      by_cases hr : 0 ≤ i ∧ i < m.string_.numberItems_
      · rw [if_pos hr, if_pos ⟨hr.1, by omega⟩]
      · rw [if_neg hr]
        by_cases hr' : 0 ≤ i ∧ i < m.string_.numberItems_ + 1
        · exfalso
          omega
        · rw [if_neg hr']

/-- The id returned by `addString` holds the string, the count of the table stays
non-negative, and no id that held a string loses it. -/
theorem addString_name (m : CoinModel) (s : String) (h0 : 0 ≤ m.string_.numberItems_) :
    (addString m s).2.string_.name (addString m s).1 = some s ∧
    0 ≤ (addString m s).1 ∧ (addString m s).1 < (addString m s).2.string_.numberItems_ ∧
    0 ≤ (addString m s).2.string_.numberItems_ ∧
    ∀ i u, m.string_.name i = some u → (addString m s).2.string_.name i = some u := by
  obtain ⟨h1, h2⟩ := addString_spec m s h0
  by_cases hp : ∃ i, m.string_.name i = some s
  · obtain ⟨e1, e2⟩ := h1 hp
    obtain ⟨i, hi⟩ := hp
    have hf := nameHash_present m.string_ s i hi
    have hid : (addString m s).1 = m.string_.hash s := by
      unfold addString
      dsimp only
      rw [if_neg (by omega)]
    rw [e1]
    refine ⟨e2, by rw [hid]; exact hf, ?_, h0, fun _ _ h => h⟩
    rw [hid]
    exact (nameHash_found m.string_ s hf).2
  · obtain ⟨e1, _, e3, e4, e5⟩ := h2 hp
    have e3' : (addString m s).2.string_.numberItems_ = m.string_.numberItems_ + 1 := e3
    have e1' : (addString m s).1 = m.string_.numberItems_ := e1
    refine ⟨by rw [e1]; exact e4, by rw [e1']; exact h0, by rw [e1', e3']; omega,
      by rw [e3']; omega, fun i u hu => ?_⟩
    have hne : i ≠ m.string_.numberItems := by
      intro hc
      unfold CoinModelHash.name at hu
      rw [hc] at hu
      unfold CoinModelHash.numberItems at hu
      rw [if_neg (by omega)] at hu
      cases hu
    rw [e5 i hne]
    exact hu

/-! ### The mixed mode is kept by `resize`, `fillRows` and `fillColumns` -/

theorem mixed_fillRowsFill (m : CoinModel) (w : Int) (f : Bool) (h : m.type_ = 2) :
    (fillRowsFill m w f).type_ = 2 := by
  unfold fillRowsFill
  dsimp only
  split_ifs
  all_goals first
    | exact h
    | exact createList_type _ _

theorem mixed_fillColumnsFill (m : CoinModel) (w : Int) (f : Bool) (h : m.type_ = 2) :
    (fillColumnsFill m w f).type_ = 2 := by
  unfold fillColumnsFill
  dsimp only
  split_ifs
  all_goals first
    | exact h
    | exact createList_type _ _

theorem mixed_fillRows_nested (m : CoinModel) (w : Int) (h1 : m.type_ = 2)
    (h2 : m.rowLower_.isSome = true) (h3 : w < m.maximumRows_) :
    (fillRowsWith resizeStuck m w true false).Returns fun a => a.type_ = 2 := by
  have h2' := isNone_of_isSome h2
  unfold fillRowsWith
  apply Outcome.returns_bind (P := fun (x : CoinModel × Int) => x.1 = m ∧ x.2 = w)
  · rw [if_pos (by simp)]
    unfold fillRowsCreate
    rw [if_neg (by rw [h1]; decide), if_neg (by rw [h1]; decide)]
    show Outcome.Returns (Outcome.bind (if m.rowLower_.isNone = true then _ else _) _) _
    rw [if_neg (by simp [h2'])]
    show Outcome.Returns (if w ≥ m.maximumRows_ then _ else _) _
    rw [if_neg (by omega)]
    exact Outcome.returns_returned ⟨rfl, rfl⟩
  · rintro ⟨a, w'⟩ ⟨ha, hw⟩
    dsimp only at ha hw ⊢
    subst ha
    subst hw
    exact Outcome.returns_returned (mixed_fillRowsFill _ _ _ h1)

theorem mixed_fillColumns_nested (m : CoinModel) (w : Int) (h1 : m.type_ = 2)
    (h2 : m.objective_.isSome = true) (h3 : w < m.maximumColumns_) :
    (fillColumnsWith resizeStuck m w true false).Returns fun a => a.type_ = 2 := by
  have h2' := isNone_of_isSome h2
  unfold fillColumnsWith
  apply Outcome.returns_bind (P := fun (x : CoinModel × Int) => x.1 = m ∧ x.2 = w)
  · rw [if_pos (by simp)]
    unfold fillColumnsCreate
    rw [if_neg (by rw [h1]; decide), if_neg (by rw [h1]; decide)]
    show Outcome.Returns (Outcome.bind (if m.objective_.isNone = true then _ else _) _) _
    rw [if_neg (by simp [h2'])]
    show Outcome.Returns (if w ≥ m.maximumColumns_ then _ else _) _
    rw [if_neg (by omega)]
    exact Outcome.returns_returned ⟨rfl, rfl⟩
  · rintro ⟨a, w'⟩ ⟨ha, hw⟩
    dsimp only at ha hw ⊢
    subst ha
    subst hw
    exact Outcome.returns_returned (mixed_fillColumnsFill _ _ _ h1)

theorem mixed_resizeRows (m : CoinModel) (R E : Int) (h1 : m.type_ = 2) :
    (resizeRows (fillRowsWith resizeStuck) m R E).Returns fun a => a.type_ = 2 := by
  unfold resizeRows
  rw [if_pos (Or.inr h1)]
  dsimp only
  by_cases hR : max R m.numberRows_ > m.maximumRows_
  · rw [if_pos hR]
    have hlt : m.numberRows_ - 1 < max R m.numberRows_ := by
      have := le_max_right R m.numberRows_
      omega
    have h20 : ¬ (m.type_ = 0) := by rw [h1]; decide
    split_ifs
    all_goals first
      | exact Outcome.returns_returned h1
      | exact mixed_fillRows_nested _ _ h1 rfl hlt
  · rw [if_neg hR]
    exact Outcome.returns_returned h1

theorem mixed_resizeColumns (m : CoinModel) (C E : Int) (h1 : m.type_ = 2) :
    (resizeColumns (fillColumnsWith resizeStuck) m C E).Returns fun a => a.type_ = 2 := by
  unfold resizeColumns
  rw [if_pos (Or.inr h1)]
  dsimp only
  by_cases hR : max C m.numberColumns_ > m.maximumColumns_
  · rw [if_pos hR]
    have hlt : m.numberColumns_ - 1 < max C m.numberColumns_ := by
      have := le_max_right C m.numberColumns_
      omega
    have h21 : ¬ (m.type_ = 1) := by rw [h1]; decide
    split_ifs
    all_goals first
      | exact Outcome.returns_returned h1
      | exact mixed_fillColumns_nested _ _ h1 rfl hlt
  · rw [if_neg hR]
    exact Outcome.returns_returned h1

theorem mixed_resizeElements (m : CoinModel) (E : Int) (h1 : m.type_ = 2) :
    (resizeElements m E).type_ = 2 := by
  unfold resizeElements
  dsimp only
  split_ifs <;> exact h1

/-- `resize` on a model in the mixed mode returns a model in the mixed mode. -/
theorem mixed_resize (m : CoinModel) (R C E : Int) (h1 : m.type_ = 2) :
    (resize m R C E).Returns fun a => a.type_ = 2 := by
  unfold resize resizeWith
  dsimp only
  apply Outcome.returns_bind (mixed_resizeRows m R _ h1)
  intro a ha
  apply Outcome.returns_bind (mixed_resizeColumns a C _ ha)
  intro b hb
  rw [if_neg (by rw [hb]; decide)]
  exact Outcome.returns_returned (mixed_resizeElements _ _ hb)

theorem createList_links (m : CoinModel) (t : Int) : (createList m t).links_ ≠ 0 := by
  unfold createList
  dsimp only
  split_ifs
  all_goals first
    | exact lor_one_ne_zero _
    | exact lor_two_ne_zero _

/-- The first block of `setElement` leaves a model in the mixed mode with a list, when
the model is in one of the modes -1, 0, 1, 2 and has no list in the modes 0 and 1. -/
theorem setElementMode_mixed (m : CoinModel)
    (hm : m.type_ = -1 ∨ m.type_ = 0 ∨ m.type_ = 1 ∨ m.type_ = 2)
    (hl : m.type_ = 0 ∨ m.type_ = 1 → m.links_ = 0) :
    (setElementMode m).Returns fun a => a.type_ = 2 ∧ a.links_ ≠ 0 := by
  unfold setElementMode
  by_cases h1 : m.type_ = -1
  · rw [if_pos h1]
    apply Outcome.returns_bind
      (keeps_resize { m with type_ := 0 } 100 100 1000 (by decide : (0 : Int) ≠ 3))
    intro a _
    exact Outcome.returns_returned ⟨createList_type _ _, createList_links _ _⟩
  · rw [if_neg h1]
    have h3 : ¬ (m.type_ = 3) := by omega
    rw [if_neg h3]
    by_cases h0 : m.links_ = 0
    · rw [if_pos h0]
      by_cases h02 : m.type_ = 0 ∨ m.type_ = 2
      · rw [if_pos h02]
        exact Outcome.returns_returned ⟨createList_type _ _, createList_links _ _⟩
      · rw [if_neg h02]
        have h11 : m.type_ = 1 := by omega
        rw [if_pos h11]
        exact Outcome.returns_returned ⟨createList_type _ _, createList_links _ _⟩
    · rw [if_neg h0]
      have h2 : m.type_ = 2 := by
        by_contra hc
        exact h0 (hl (by omega))
      exact Outcome.returns_returned ⟨h2, h0⟩

theorem setElementStore_mode (d : CoinModel) (i j : Int) (v : Value) :
    (setElementStore d i j v).type_ = d.type_ ∧ (setElementStore d i j v).links_ = d.links_ := by
  unfold setElementStore
  dsimp only
  split_ifs <;> exact ⟨rfl, rfl⟩

/-- The part of `setElement` for a pair that is not found keeps the mixed mode and the
existence of a list. -/
theorem setElement_insert_mixed (a : CoinModel) (i j : Int) (k : CoinModel → CoinModel)
    (hk : ∀ d, (k d).type_ = d.type_ ∧ (k d).links_ = d.links_) (h2 : a.type_ = 2)
    (hl : a.links_ ≠ 0) :
    ((setElementGrow a i j).bind fun m =>
      (fillColumns m j false false).bind fun m =>
      (fillRows m i false false).bind fun m => Outcome.returned (k m)).Returns fun d =>
      d.type_ = 2 ∧ d.links_ ≠ 0 := by
  have h3 : a.type_ ≠ 3 := by rw [h2]; decide
  apply Outcome.returns_bind (P := fun b => b.type_ = 2 ∧ b.links_ ≠ 0)
  · refine Outcome.returns_mono
      (Outcome.returns_and (keeps_setElementGrow a i j h3) ?_)
      (fun b hb => ⟨hb.2, hb.1.2.2.2.2.2.2.1 hl⟩)
    unfold setElementGrow
    dsimp only
    split_ifs
    all_goals first
      | exact mixed_resize _ _ _ _ h2
      | exact Outcome.returns_returned h2
  · rintro b ⟨hb2, hbl⟩
    have hb3 : b.type_ ≠ 3 := by rw [hb2]; decide
    apply Outcome.returns_bind (P := fun c => c.type_ = 2 ∧ c.links_ ≠ 0)
    · unfold fillColumns fillColumnsWith
      rw [if_neg (by simp)]
      exact Outcome.returns_returned ⟨mixed_fillColumnsFill _ _ _ hb2,
        (keeps_fillColumnsFill b j false hb3).2.2.2.2.2.2.1 hbl⟩
    · rintro c ⟨hc2, hcl⟩
      have hc3 : c.type_ ≠ 3 := by rw [hc2]; decide
      apply Outcome.returns_bind (P := fun c => c.type_ = 2 ∧ c.links_ ≠ 0)
      · unfold fillRows fillRowsWith
        rw [if_neg (by simp)]
        exact Outcome.returns_returned ⟨mixed_fillRowsFill _ _ _ hc2,
          (keeps_fillRowsFill c i false hc3).2.2.2.2.2.2.1 hcl⟩
      · intro d hd
        exact Outcome.returns_returned
          ⟨(hk d).1.trans hd.1, by rw [(hk d).2]; exact hd.2⟩

theorem setElementStringValue_mode (d : CoinModel) (p : Int) (s : String) :
    (setElementStringValue d p s).type_ = d.type_ ∧
      (setElementStringValue d p s).links_ = d.links_ := by
  unfold setElementStringValue addString
  dsimp only
  split_ifs <;> exact ⟨rfl, rfl⟩

theorem setElementHash_mode (d : CoinModel) :
    (setElementHash d).type_ = d.type_ ∧ (setElementHash d).links_ = d.links_ := by
  unfold setElementHash
  split_ifs <;> exact ⟨rfl, rfl⟩

theorem setElementStringHash_mode (d : CoinModel) :
    (setElementStringHash d).type_ = d.type_ ∧ (setElementStringHash d).links_ = d.links_ := by
  unfold setElementStringHash
  split_ifs <;> exact ⟨rfl, rfl⟩

/-- After the numeric `setElement` the model is in the mixed mode and has a list. -/
theorem setElement_mixed (m : CoinModel) (i j : Int) (v : Value)
    (hm : m.type_ = -1 ∨ m.type_ = 0 ∨ m.type_ = 1 ∨ m.type_ = 2)
    (hl : m.type_ = 0 ∨ m.type_ = 1 → m.links_ = 0) :
    (setElement m i j v).Returns fun a => a.type_ = 2 ∧ a.links_ ≠ 0 := by
  unfold setElement
  apply Outcome.returns_bind (setElementMode_mixed m hm hl)
  rintro a ⟨h2, hk⟩
  dsimp only
  have e := setElementHash_mode a
  split_ifs
  · exact Outcome.returns_returned ⟨e.1.trans h2, by rw [show _ = a.links_ from e.2]; exact hk⟩
  · exact setElement_insert_mixed (setElementHash a) i j (fun d => setElementStore d i j v)
      (fun d => setElementStore_mode d i j v) (e.1.trans h2) (by rw [e.2]; exact hk)

/-- After the string form of `setElement` the model is in the mixed mode and has a
list. -/
theorem setElementString_mixed (m : CoinModel) (i j : Int) (s : String)
    (hm : m.type_ = -1 ∨ m.type_ = 0 ∨ m.type_ = 1 ∨ m.type_ = 2)
    (hl : m.type_ = 0 ∨ m.type_ = 1 → m.links_ = 0) :
    (setElementString m i j s).Returns fun a => a.type_ = 2 ∧ a.links_ ≠ 0 := by
  unfold setElementString
  apply Outcome.returns_bind (setElementMode_mixed m hm hl)
  rintro a ⟨h2, hk⟩
  dsimp only
  have e := setElementStringHash_mode a
  split_ifs
  · refine Outcome.returns_returned ⟨(setElementStringValue_mode _ _ _).1.trans (e.1.trans h2), ?_⟩
    rw [(setElementStringValue_mode _ _ _).2, e.2]
    exact hk
  · exact setElement_insert_mixed (setElementStringHash a) i j
      (fun d => setElementStringValue (setElementStore d i j 1)
        ((setElementStore d i j 1).hashElements_.hash i j (setElementStore d i j 1).elements_) s)
      (fun d => ⟨(setElementStringValue_mode _ _ _).1.trans (setElementStore_mode d i j 1).1,
        (setElementStringValue_mode _ _ _).2.trans (setElementStore_mode d i j 1).2⟩)
      (e.1.trans h2) (by rw [e.2]; exact hk)

/-! ### `resize` never shrinks and keeps the rows, the columns and the elements -/

theorem rowFields_refl (m : CoinModel) : RowFields m m := ⟨rfl, rfl, rfl, rfl, rfl⟩

theorem columnFields_refl (m : CoinModel) : ColumnFields m m :=
  ⟨rfl, rfl, rfl, rfl, rfl, rfl, rfl⟩

theorem rowView_of_fields (m a : CoinModel) (h : RowFields m a) (i : Int) :
    rowView a i = rowView m i := by
  obtain ⟨h1, _, h3, h4, h5⟩ := h
  unfold rowView getRowLower getRowUpper
  rw [h1, h3, h4, h5]

theorem columnView_of_fields (m a : CoinModel) (h : ColumnFields m a) (i : Int) :
    columnView a i = columnView m i := by
  obtain ⟨h1, _, h3, h4, h5, h6, h7⟩ := h
  unfold columnView getColumnLower getColumnUpper getColumnObjective getColumnIsInteger
  rw [h1, h3, h4, h5, h6, h7]

theorem rowsGrown_of_fields (m a : CoinModel) (h : RowFields m a) : RowsGrown m a :=
  ⟨le_of_eq h.2.1.symm, fun _ => h.1, fun i _ _ => rowView_of_fields m a h i⟩

theorem columnsGrown_of_fields (m a : CoinModel) (h : ColumnFields m a) : ColumnsGrown m a :=
  ⟨le_of_eq h.2.1.symm, fun _ => h.1, fun i _ _ => columnView_of_fields m a h i⟩

theorem load_copyN {α : Type} (src : Option (Int → α)) (n : Int) (d : α) (i : Int)
    (h0 : 0 ≤ i) (h1 : i < n) : load (some (copyN src n d)) d i = load src d i := by
  unfold load copyN
  dsimp only
  rw [if_pos ⟨h0, h1⟩]

/-- The rows after the row arrays, which existed, have been copied to larger ones. -/
theorem rowsGrown_of_copy (m a : CoinModel) (hn : a.numberRows_ = m.numberRows_)
    (h1 : a.rowLower_ = some (copyN m.rowLower_ m.numberRows_ 0))
    (h2 : a.rowUpper_ = some (copyN m.rowUpper_ m.numberRows_ 0))
    (h3 : a.rowType_ = some (copyN m.rowType_ m.numberRows_ 0))
    (hmax : m.maximumRows_ ≤ a.maximumRows_) (ht : RowsTogether m)
    (hs : m.rowLower_.isSome = true) : RowsGrown m a := by
  refine ⟨hmax, fun _ => hn, fun i h0 hi => ?_⟩
  have hu : m.rowUpper_.isSome = true := ht.1.trans hs
  unfold rowView getRowLower getRowUpper
  rw [hn, h1, h2, h3, load_copyN _ _ _ i h0 hi, load_copyN _ _ _ i h0 hi,
    load_copyN _ _ _ i h0 hi, hs, hu]
  rfl

theorem fillRowsFill_rows (m : CoinModel) (w : Int) :
    (fillRowsFill m w false).numberRows_ = max (w + 1) m.numberRows_ ∧
    (fillRowsFill m w false).maximumRows_ = m.maximumRows_ ∧
    (fillRowsFill m w false).rowLower_ =
      (if w ≥ m.numberRows_ ∧ m.rowLower_.isSome then
        fillRange m.rowLower_ m.numberRows_ w (-COIN_DBL_MAX) else m.rowLower_) ∧
    (fillRowsFill m w false).rowUpper_ =
      (if w ≥ m.numberRows_ ∧ m.rowLower_.isSome then
        fillRange m.rowUpper_ m.numberRows_ w COIN_DBL_MAX else m.rowUpper_) ∧
    (fillRowsFill m w false).rowType_ =
      (if w ≥ m.numberRows_ ∧ m.rowLower_.isSome then
        fillRange m.rowType_ m.numberRows_ w 0 else m.rowType_) := by
  unfold fillRowsFill createList
  dsimp only
  refine ⟨?_, ?_, ?_, ?_, ?_⟩ <;> split_ifs <;> first | rfl | exact absurd rfl ‹_›

theorem fillRowsFill_columns (m : CoinModel) (w : Int) (f : Bool) :
    ColumnFields m (fillRowsFill m w f) ∧
    (fillRowsFill m w f).maximumElements_ = m.maximumElements_ ∧
    ((fillRowsFill m w f).type_ = m.type_ ∨ (fillRowsFill m w f).type_ = 2) := by
  unfold fillRowsFill createList ColumnFields
  dsimp only
  split_ifs
  all_goals first
    | exact ⟨⟨rfl, rfl, rfl, rfl, rfl, rfl, rfl⟩, rfl, Or.inl rfl⟩
    | exact ⟨⟨rfl, rfl, rfl, rfl, rfl, rfl, rfl⟩, rfl, Or.inr rfl⟩

/-- The nested call of `fillRows` made by `resize` only fills. -/
theorem fillRows_nested_eq (m : CoinModel) (w : Int) (h1 : m.type_ ≠ -1) (h1' : m.type_ ≠ 1)
    (h2 : m.rowLower_.isSome = true) (h3 : w < m.maximumRows_) :
    fillRowsWith resizeStuck m w true false = returned (fillRowsFill m w false) := by
  have h2' := isNone_of_isSome h2
  unfold fillRowsWith fillRowsCreate
  rw [if_pos (by simp), if_neg h1, if_neg h1']
  show Outcome.bind (Outcome.bind (if m.rowLower_.isNone = true then _ else _) _) _ = _
  rw [if_neg (by simp [h2'])]
  show Outcome.bind (if w ≥ m.maximumRows_ then _ else _) _ = _
  rw [if_neg (by omega)]
  rfl

theorem fillRows_nested_returns (m : CoinModel) (w : Int) (P : CoinModel → Prop)
    (h1 : m.type_ ≠ -1) (h1' : m.type_ ≠ 1) (h2 : m.rowLower_.isSome = true)
    (h3 : w < m.maximumRows_) (hP : P (fillRowsFill m w false)) :
    (fillRowsWith resizeStuck m w true false).Returns P := by
  rw [fillRows_nested_eq m w h1 h1' h2 h3]
  exact Outcome.returns_returned hP

/-- The rows after the nested `fillRows` of `resize` has filled arrays that did not
exist before. -/
theorem rowsGrown_of_fill (m a : CoinModel) (f1 f2 : Int → Value) (f3 : Int → Nat)
    (hn : a.numberRows_ = 0)
    (h1 : a.rowLower_ = some f1) (h2 : a.rowUpper_ = some f2) (h3 : a.rowType_ = some f3)
    (hmax : m.maximumRows_ ≤ a.maximumRows_) (ht : RowsTogether m)
    (hs : m.rowLower_.isSome = false) :
    RowsGrown m (fillRowsFill a (m.numberRows_ - 1) false) := by
  obtain ⟨e1, e2, e3, e4, e5⟩ := fillRowsFill_rows a (m.numberRows_ - 1)
  unfold RowsGrown
  refine ⟨by rw [e2]; exact hmax, fun h => ?_, fun i h0 hi => ?_⟩
  · rw [hs] at h
    cases h
  have hu : m.rowUpper_.isSome = false := ht.1.trans hs
  have hy : m.rowType_.isSome = false := ht.2.trans hs
  have hc : m.numberRows_ - 1 ≥ a.numberRows_ ∧ a.rowLower_.isSome = true :=
    ⟨by rw [hn]; omega, by rw [h1]; rfl⟩
  have hr : 0 ≤ i ∧ i ≤ m.numberRows_ - 1 := ⟨h0, by omega⟩
  have hlt : i < max (m.numberRows_ - 1 + 1) 0 := lt_of_lt_of_le (by omega) (le_max_left _ _)
  unfold rowView getRowLower getRowUpper
  rw [e1, e3, e4, e5, if_pos hc, if_pos hc, if_pos hc, hn, h1, h2, h3, hs, hu]
  have hty : m.rowType_ = none := by
    cases h : m.rowType_ with
    | none => rfl
    | some f => rw [h] at hy; cases hy
  rw [hty]
  unfold fillRange load
  simp only [Option.map_some', Option.isSome_some, and_true, if_pos hlt, if_pos hr]
  simp

theorem columnFields_trans {m a b : CoinModel} (h1 : ColumnFields m a)
    (h2 : ColumnFields a b) : ColumnFields m b := by
  obtain ⟨a1, a2, a3, a4, a5, a6, a7⟩ := h1
  obtain ⟨b1, b2, b3, b4, b5, b6, b7⟩ := h2
  exact ⟨b1.trans a1, b2.trans a2, b3.trans a3, b4.trans a4, b5.trans a5, b6.trans a6,
    b7.trans a7⟩

theorem rowFields_trans {m a b : CoinModel} (h1 : RowFields m a)
    (h2 : RowFields a b) : RowFields m b := by
  obtain ⟨a1, a2, a3, a4, a5⟩ := h1
  obtain ⟨b1, b2, b3, b4, b5⟩ := h2
  exact ⟨b1.trans a1, b2.trans a2, b3.trans a3, b4.trans a4, b5.trans a5⟩

/-- The nested `fillRows` of `resize`, on row arrays that `resize` has just created. -/
theorem rowsGrown_fill_nested (m a : CoinModel) (w : Int) (hw : w = m.numberRows_ - 1)
    (hne : a.type_ ≠ -1) (hn1 : a.type_ ≠ 1)
    (hn : a.numberRows_ = 0) (h1 : a.rowLower_.isSome = true) (h2 : a.rowUpper_.isSome = true)
    (h3 : a.rowType_.isSome = true) (hlt : m.numberRows_ - 1 < a.maximumRows_)
    (hmax : m.maximumRows_ ≤ a.maximumRows_) (ht : RowsTogether m)
    (hs : m.rowLower_.isSome = false) (hc : ColumnFields m a)
    (he : a.maximumElements_ = m.maximumElements_) (hty : a.type_ = m.type_) :
    (fillRowsWith resizeStuck a w true false).Returns fun b =>
      RowsGrown m b ∧ ColumnFields m b ∧ b.maximumElements_ = m.maximumElements_ ∧
      (b.type_ = m.type_ ∨ b.type_ = 2) := by
  subst hw
  obtain ⟨f1, e1⟩ := Option.isSome_iff_exists.mp h1
  obtain ⟨f2, e2⟩ := Option.isSome_iff_exists.mp h2
  obtain ⟨f3, e3⟩ := Option.isSome_iff_exists.mp h3
  refine fillRows_nested_returns a _ _ hne hn1 h1 hlt ⟨?_, ?_, ?_, ?_⟩
  · exact rowsGrown_of_fill m a f1 f2 f3 hn e1 e2 e3 hmax ht hs
  · exact columnFields_trans hc (fillRowsFill_columns _ _ _).1
  · exact (fillRowsFill_columns _ _ _).2.1.trans he
  · rcases (fillRowsFill_columns a (m.numberRows_ - 1) false).2.2 with h | h
    · exact Or.inl (h.trans hty)
    · exact Or.inr h

/-- The row part of `resize` keeps the rows and does not touch the columns. -/
theorem rows_resizeRows (m : CoinModel) (R E : Int) (h : m.type_ ≠ 3) (ht : RowsTogether m) :
    (resizeRows (fillRowsWith resizeStuck) m R E).Returns fun a =>
      RowsGrown m a ∧ ColumnFields m a ∧ a.maximumElements_ = m.maximumElements_ ∧
      (a.type_ = m.type_ ∨ a.type_ = 2) := by
  unfold resizeRows
  by_cases h02 : m.type_ = 0 ∨ m.type_ = 2
  · rw [if_pos h02]
    dsimp only
    by_cases hR : max R m.numberRows_ > m.maximumRows_
    · rw [if_pos hR]
      have hlt : m.numberRows_ - 1 < max R m.numberRows_ := by
        have := le_max_right R m.numberRows_
        omega
      have hne : m.type_ ≠ -1 := by rcases h02 with h' | h' <;> omega
      have hn1 : m.type_ ≠ 1 := by rcases h02 with h' | h' <;> omega
      by_cases hs : m.rowLower_.isSome = true
      · have hsn : ¬ (m.rowLower_.isNone = true) := by simp [isNone_of_isSome hs]
        split_ifs
        all_goals
          refine Outcome.returns_returned ?_
          exact ⟨rowsGrown_of_copy m _ rfl rfl rfl rfl (le_of_lt hR) ht hs,
            ⟨rfl, rfl, rfl, rfl, rfl, rfl, rfl⟩, rfl, Or.inl rfl⟩
      · have hs' : m.rowLower_.isSome = false := by simpa using hs
        have hsn : m.rowLower_.isNone = true := by
          cases hq : m.rowLower_ with
          | none => rfl
          | some f => rw [hq] at hs; exact absurd rfl hs
        split_ifs
        all_goals
          refine rowsGrown_fill_nested m _ _ ?_ ?_ ?_ ?_ ?_ ?_ ?_ ?_ ?_ ht hs' ?_ ?_ ?_
          · rfl
          · exact hne
          · exact hn1
          · rfl
          · rfl
          · rfl
          · rfl
          · exact hlt
          · exact le_of_lt hR
          · exact ⟨rfl, rfl, rfl, rfl, rfl, rfl, rfl⟩
          · rfl
          · rfl
    · rw [if_neg hR]
      exact Outcome.returns_returned
        ⟨rowsGrown_of_fields m m (rowFields_refl m), columnFields_refl m, rfl, Or.inl rfl⟩
  · rw [if_neg h02, if_neg h]
    exact Outcome.returns_returned
      ⟨rowsGrown_of_fields m m (rowFields_refl m), columnFields_refl m, rfl, Or.inl rfl⟩

/-- The columns after the column arrays, which existed, have been copied to larger
ones. -/
theorem columnsGrown_of_copy (m a : CoinModel) (hn : a.numberColumns_ = m.numberColumns_)
    (h1 : a.columnLower_ = some (copyN m.columnLower_ m.numberColumns_ 0))
    (h2 : a.columnUpper_ = some (copyN m.columnUpper_ m.numberColumns_ 0))
    (h3 : a.objective_ = some (copyN m.objective_ m.numberColumns_ 0))
    (h4 : a.integerType_ = some (copyN m.integerType_ m.numberColumns_ 0))
    (h5 : a.columnType_ = some (copyN m.columnType_ m.numberColumns_ 0))
    (hmax : m.maximumColumns_ ≤ a.maximumColumns_) (ht : ColumnsTogether m)
    (hs : m.columnLower_.isSome = true) : ColumnsGrown m a := by
  refine ⟨hmax, fun _ => hn, fun i h0 hi => ?_⟩
  have hu : m.columnUpper_.isSome = true := ht.1.trans hs
  have ho : m.objective_.isSome = true := ht.2.1.trans hs
  have hi' : m.integerType_.isSome = true := ht.2.2.1.trans hs
  unfold columnView getColumnLower getColumnUpper getColumnObjective getColumnIsInteger
  rw [hn, h1, h2, h3, h4, h5, load_copyN _ _ _ i h0 hi, load_copyN _ _ _ i h0 hi,
    load_copyN _ _ _ i h0 hi, load_copyN _ _ _ i h0 hi, load_copyN _ _ _ i h0 hi, hs, hu, ho,
    hi']
  rfl

theorem fillColumnsFill_columns (m : CoinModel) (w : Int) :
    (fillColumnsFill m w false).numberColumns_ = max (w + 1) m.numberColumns_ ∧
    (fillColumnsFill m w false).maximumColumns_ = m.maximumColumns_ ∧
    (fillColumnsFill m w false).columnLower_ =
      (if w ≥ m.numberColumns_ ∧ m.objective_.isSome then
        fillRange m.columnLower_ m.numberColumns_ w 0 else m.columnLower_) ∧
    (fillColumnsFill m w false).columnUpper_ =
      (if w ≥ m.numberColumns_ ∧ m.objective_.isSome then
        fillRange m.columnUpper_ m.numberColumns_ w COIN_DBL_MAX else m.columnUpper_) ∧
    (fillColumnsFill m w false).objective_ =
      (if w ≥ m.numberColumns_ ∧ m.objective_.isSome then
        fillRange m.objective_ m.numberColumns_ w 0 else m.objective_) ∧
    (fillColumnsFill m w false).integerType_ =
      (if w ≥ m.numberColumns_ ∧ m.objective_.isSome then
        fillRange m.integerType_ m.numberColumns_ w 0 else m.integerType_) ∧
    (fillColumnsFill m w false).columnType_ =
      (if w ≥ m.numberColumns_ ∧ m.objective_.isSome then
        fillRange m.columnType_ m.numberColumns_ w 0 else m.columnType_) := by
  unfold fillColumnsFill createList
  dsimp only
  refine ⟨?_, ?_, ?_, ?_, ?_, ?_, ?_⟩ <;> split_ifs <;> first | rfl | exact absurd rfl ‹_›

theorem fillColumnsFill_rows (m : CoinModel) (w : Int) (f : Bool) :
    RowFields m (fillColumnsFill m w f) ∧
    (fillColumnsFill m w f).maximumElements_ = m.maximumElements_ ∧
    ((fillColumnsFill m w f).type_ = m.type_ ∨ (fillColumnsFill m w f).type_ = 2) := by
  unfold fillColumnsFill createList RowFields
  dsimp only
  split_ifs
  all_goals first
    | exact ⟨⟨rfl, rfl, rfl, rfl, rfl⟩, rfl, Or.inl rfl⟩
    | exact ⟨⟨rfl, rfl, rfl, rfl, rfl⟩, rfl, Or.inr rfl⟩

/-- The nested call of `fillColumns` made by `resize` only fills. -/
theorem fillColumns_nested_eq (m : CoinModel) (w : Int) (h1 : m.type_ ≠ -1)
    (h1' : m.type_ ≠ 0) (h2 : m.objective_.isSome = true) (h3 : w < m.maximumColumns_) :
    fillColumnsWith resizeStuck m w true false = returned (fillColumnsFill m w false) := by
  have h2' := isNone_of_isSome h2
  unfold fillColumnsWith fillColumnsCreate
  rw [if_pos (by simp), if_neg h1, if_neg h1']
  show Outcome.bind (Outcome.bind (if m.objective_.isNone = true then _ else _) _) _ = _
  rw [if_neg (by simp [h2'])]
  show Outcome.bind (if w ≥ m.maximumColumns_ then _ else _) _ = _
  rw [if_neg (by omega)]
  rfl

theorem fillColumns_nested_returns (m : CoinModel) (w : Int) (P : CoinModel → Prop)
    (h1 : m.type_ ≠ -1) (h1' : m.type_ ≠ 0) (h2 : m.objective_.isSome = true)
    (h3 : w < m.maximumColumns_) (hP : P (fillColumnsFill m w false)) :
    (fillColumnsWith resizeStuck m w true false).Returns P := by
  rw [fillColumns_nested_eq m w h1 h1' h2 h3]
  exact Outcome.returns_returned hP

theorem eq_none_of_isSome_false {α : Type} {o : Option α} (h : o.isSome = false) :
    o = none := by
  cases o with
  | none => rfl
  | some f => cases h

/-- The columns after the nested `fillColumns` of `resize` has filled arrays that did
not exist before. -/
theorem columnsGrown_of_fill (m a : CoinModel) (f1 f2 f3 : Int → Value) (f4 : Int → Int)
    (f5 : Int → Nat) (hn : a.numberColumns_ = 0)
    (h1 : a.columnLower_ = some f1) (h2 : a.columnUpper_ = some f2)
    (h3 : a.objective_ = some f3) (h4 : a.integerType_ = some f4)
    (h5 : a.columnType_ = some f5)
    (hmax : m.maximumColumns_ ≤ a.maximumColumns_) (ht : ColumnsTogether m)
    (hs : m.columnLower_.isSome = false) :
    ColumnsGrown m (fillColumnsFill a (m.numberColumns_ - 1) false) := by
  obtain ⟨e1, e2, e3, e4, e5, e6, e7⟩ := fillColumnsFill_columns a (m.numberColumns_ - 1)
  unfold ColumnsGrown
  refine ⟨by rw [e2]; exact hmax, fun h => ?_, fun i h0 hi => ?_⟩
  · rw [hs] at h
    cases h
  have hu : m.columnUpper_.isSome = false := ht.1.trans hs
  have ho : m.objective_.isSome = false := ht.2.1.trans hs
  have hi' : m.integerType_.isSome = false := ht.2.2.1.trans hs
  have hy : m.columnType_ = none := eq_none_of_isSome_false (ht.2.2.2.trans hs)
  have hc : m.numberColumns_ - 1 ≥ a.numberColumns_ ∧ a.objective_.isSome = true :=
    ⟨by rw [hn]; omega, by rw [h3]; rfl⟩
  have hr : 0 ≤ i ∧ i ≤ m.numberColumns_ - 1 := ⟨h0, by omega⟩
  have hlt : i < max (m.numberColumns_ - 1 + 1) 0 :=
    lt_of_lt_of_le (by omega) (le_max_left _ _)
  unfold columnView getColumnLower getColumnUpper getColumnObjective getColumnIsInteger
  rw [e1, e3, e4, e5, e6, e7, if_pos hc, if_pos hc, if_pos hc, if_pos hc, if_pos hc, hn, h1,
    h2, h3, h4, h5, hs, hu, ho, hi', hy]
  unfold fillRange load
  simp only [Option.map_some', Option.isSome_some, and_true, if_pos hlt, if_pos hr]
  simp

/-- The nested `fillColumns` of `resize`, on column arrays that `resize` has just
created. -/
theorem columnsGrown_fill_nested (m a : CoinModel) (w : Int) (hw : w = m.numberColumns_ - 1)
    (hne : a.type_ ≠ -1) (hn1 : a.type_ ≠ 0)
    (hn : a.numberColumns_ = 0) (h1 : a.columnLower_.isSome = true)
    (h2 : a.columnUpper_.isSome = true) (h3 : a.objective_.isSome = true)
    (h4 : a.integerType_.isSome = true) (h5 : a.columnType_.isSome = true)
    (hlt : m.numberColumns_ - 1 < a.maximumColumns_)
    (hmax : m.maximumColumns_ ≤ a.maximumColumns_) (ht : ColumnsTogether m)
    (hs : m.columnLower_.isSome = false) (hc : RowFields m a)
    (he : a.maximumElements_ = m.maximumElements_) (hty : a.type_ = m.type_) :
    (fillColumnsWith resizeStuck a w true false).Returns fun b =>
      ColumnsGrown m b ∧ RowFields m b ∧ b.maximumElements_ = m.maximumElements_ ∧
      (b.type_ = m.type_ ∨ b.type_ = 2) := by
  subst hw
  obtain ⟨f1, e1⟩ := Option.isSome_iff_exists.mp h1
  obtain ⟨f2, e2⟩ := Option.isSome_iff_exists.mp h2
  obtain ⟨f3, e3⟩ := Option.isSome_iff_exists.mp h3
  obtain ⟨f4, e4⟩ := Option.isSome_iff_exists.mp h4
  obtain ⟨f5, e5⟩ := Option.isSome_iff_exists.mp h5
  refine fillColumns_nested_returns a _ _ hne hn1 h3 hlt ⟨?_, ?_, ?_, ?_⟩
  · exact columnsGrown_of_fill m a f1 f2 f3 f4 f5 hn e1 e2 e3 e4 e5 hmax ht hs
  · exact rowFields_trans hc (fillColumnsFill_rows _ _ _).1
  · exact (fillColumnsFill_rows _ _ _).2.1.trans he
  · rcases (fillColumnsFill_rows a (m.numberColumns_ - 1) false).2.2 with h | h
    · exact Or.inl (h.trans hty)
    · exact Or.inr h

/-- The column part of `resize` keeps the columns and does not touch the rows. -/
theorem columns_resizeColumns (m : CoinModel) (C E : Int) (ht : ColumnsTogether m) :
    (resizeColumns (fillColumnsWith resizeStuck) m C E).Returns fun a =>
      ColumnsGrown m a ∧ RowFields m a ∧ a.maximumElements_ = m.maximumElements_ ∧
      (a.type_ = m.type_ ∨ a.type_ = 2) := by
  unfold resizeColumns
  by_cases h12 : m.type_ = 1 ∨ m.type_ = 2
  · rw [if_pos h12]
    dsimp only
    by_cases hR : max C m.numberColumns_ > m.maximumColumns_
    · rw [if_pos hR]
      have hlt : m.numberColumns_ - 1 < max C m.numberColumns_ := by
        have := le_max_right C m.numberColumns_
        omega
      have hne : m.type_ ≠ -1 := by rcases h12 with h' | h' <;> omega
      have hn1 : m.type_ ≠ 0 := by rcases h12 with h' | h' <;> omega
      by_cases hs : m.columnLower_.isSome = true
      · have hsn : ¬ (m.columnLower_.isNone = true) := by simp [isNone_of_isSome hs]
        split_ifs
        all_goals
          refine Outcome.returns_returned ?_
          exact ⟨columnsGrown_of_copy m _ rfl rfl rfl rfl rfl rfl (le_of_lt hR) ht hs,
            ⟨rfl, rfl, rfl, rfl, rfl⟩, rfl, Or.inl rfl⟩
      · have hs' : m.columnLower_.isSome = false := by simpa using hs
        have hsn : m.columnLower_.isNone = true := by
          rw [eq_none_of_isSome_false hs']
          rfl
        split_ifs
        all_goals
          refine columnsGrown_fill_nested m _ _ ?_ ?_ ?_ ?_ ?_ ?_ ?_ ?_ ?_ ?_ ?_ ht hs' ?_ ?_ ?_
          · rfl
          · exact hne
          · exact hn1
          · rfl
          · rfl
          · rfl
          · rfl
          · rfl
          · rfl
          · exact hlt
          · exact le_of_lt hR
          · exact ⟨rfl, rfl, rfl, rfl, rfl⟩
          · rfl
          · rfl
    · rw [if_neg hR]
      exact Outcome.returns_returned
        ⟨columnsGrown_of_fields m m (columnFields_refl m), rowFields_refl m, rfl, Or.inl rfl⟩
  · rw [if_neg h12]
    exact Outcome.returns_returned
      ⟨columnsGrown_of_fields m m (columnFields_refl m), rowFields_refl m, rfl, Or.inl rfl⟩

theorem resizeElements_fields (m : CoinModel) (E : Int) :
    RowFields m (resizeElements m E) ∧ ColumnFields m (resizeElements m E) ∧
    m.maximumElements_ ≤ (resizeElements m E).maximumElements_ ∧
    (resizeElements m E).type_ = m.type_ := by
  unfold resizeElements RowFields ColumnFields
  by_cases h1 : E > m.maximumElements_
  · rw [if_pos h1]
    dsimp only
    split_ifs
    all_goals exact ⟨⟨rfl, rfl, rfl, rfl, rfl⟩, ⟨rfl, rfl, rfl, rfl, rfl, rfl, rfl⟩,
      le_of_lt h1, rfl⟩
  · rw [if_neg h1]
    exact ⟨⟨rfl, rfl, rfl, rfl, rfl⟩, ⟨rfl, rfl, rfl, rfl, rfl, rfl, rfl⟩, le_refl _, rfl⟩

theorem rowsGrown_fields {m a b : CoinModel} (h1 : RowsGrown m a) (h2 : RowFields a b) :
    RowsGrown m b := by
  obtain ⟨g1, g2, g3⟩ := h1
  refine ⟨by rw [h2.2.1]; exact g1, fun h => h2.1.trans (g2 h), fun i h0 hi => ?_⟩
  rw [rowView_of_fields a b h2 i]
  exact g3 i h0 hi

theorem columnsGrown_fields {m a b : CoinModel} (h1 : ColumnsGrown m a)
    (h2 : ColumnFields a b) : ColumnsGrown m b := by
  obtain ⟨g1, g2, g3⟩ := h1
  refine ⟨by rw [h2.2.1]; exact g1, fun h => h2.1.trans (g2 h), fun i h0 hi => ?_⟩
  rw [columnView_of_fields a b h2 i]
  exact g3 i h0 hi

theorem fields_columnsGrown {m a b : CoinModel} (h1 : ColumnFields m a)
    (h2 : ColumnsGrown a b) : ColumnsGrown m b := by
  obtain ⟨a1, a2, a3, a4, a5, a6, a7⟩ := h1
  obtain ⟨g1, g2, g3⟩ := h2
  refine ⟨by rw [← a2]; exact g1, fun h => (g2 (by rw [a3]; exact h)).trans a1,
    fun i h0 hi => ?_⟩
  rw [g3 i h0 (by rw [a1]; exact hi)]
  exact columnView_of_fields m a ⟨a1, a2, a3, a4, a5, a6, a7⟩ i

theorem columnsTogether_of_fields {m a : CoinModel} (h1 : ColumnFields m a)
    (h : ColumnsTogether m) : ColumnsTogether a := by
  obtain ⟨_, _, a3, a4, a5, a6, a7⟩ := h1
  unfold ColumnsTogether
  rw [a3, a4, a5, a6, a7]
  exact h

/-- `resize` returns on every model that is not externally packed and whose bound
arrays exist together; it does not lower a capacity, keeps the counts of rows and
columns whose arrays existed, and every existing row and column shows what it
showed. -/
theorem grown_resize (m : CoinModel) (R C E : Int) (h : m.type_ ≠ 3) (hr : RowsTogether m)
    (hc : ColumnsTogether m) :
    (resize m R C E).Returns fun a =>
      RowsGrown m a ∧ ColumnsGrown m a ∧ m.maximumElements_ ≤ a.maximumElements_ := by
  unfold resize resizeWith
  dsimp only
  apply Outcome.returns_bind (rows_resizeRows m R _ h hr)
  rintro a ⟨a1, a2, a3, a4⟩
  apply Outcome.returns_bind (columns_resizeColumns a C _ (columnsTogether_of_fields a2 hc))
  rintro b ⟨b1, b2, b3, b4⟩
  have hb3 : ¬ (b.type_ = 3) := by
    rcases b4 with e | e
    · rcases a4 with e' | e'
      · rw [e, e']
        exact h
      · rw [e, e']
        decide
    · rw [e]
      decide
  rw [if_neg hb3]
  obtain ⟨c1, c2, c3, _⟩ := resizeElements_fields b (max E m.maximumElements_)
  refine Outcome.returns_returned ⟨?_, ?_, ?_⟩
  · exact rowsGrown_fields (rowsGrown_fields a1 b2) c1
  · exact columnsGrown_fields (fields_columnsGrown a2 b1) c2
  · refine le_trans ?_ c3
    rw [b3, a3]

/-! ### The value of an element as a string -/

theorem toInt_cast (k : Int) : toInt (k : Value) = k := by
  unfold toInt
  simp

theorem holds_update_flag (E : Int → CoinModelTriple) (p q r c : Int) (v : Value) (b : Bool) :
    holds (Function.update E p (setStringInTriple { E p with value := v } b) q) r c =
      holds (E q) r c := by
  by_cases h : q = p
  · rw [h, Function.update_same]
    rfl
  · rw [Function.update_noteq h]

/-- What `getElementAsString` returns when the hash index is built and finds the pair. -/
theorem getElementAsString_found (m : CoinModel) (r c : Int)
    (hni : m.hashElements_.numberItems_ ≠ 0)
    (hpos : m.hashElements_.hash r c m.elements_ ≥ 0) :
    (getElementAsString m r c).1 =
      if stringInTriple (m.elements_ (m.hashElements_.hash r c m.elements_)) then
        m.string_.name (toInt (m.elements_ (m.hashElements_.hash r c m.elements_)).value)
      else some numeric := by
  unfold getElementAsString
  dsimp only
  rw [buildHash_of_ne m false hni, if_pos hpos]
  split_ifs <;> rfl

theorem setElementStringValue_fields (m : CoinModel) (p : Int) (s : String) :
    (setElementStringValue m p s).hashElements_ = m.hashElements_ ∧
    (setElementStringValue m p s).elements_ = Function.update m.elements_ p
      (setStringInTriple { m.elements_ p with value := ((addString m s).1 : Value) } true) ∧
    (setElementStringValue m p s).string_ = (addString m s).2.string_ ∧
    (setElementStringValue m p s).numberElements_ = m.numberElements_ := by
  unfold setElementStringValue addString
  dsimp only
  split_ifs <;> exact ⟨rfl, rfl, rfl, rfl⟩

/-- After the value of the slot that holds `(r, c)` has been set to the string `s`,
`getElementAsString(r, c)` returns `s`. -/
theorem stringValue_reads (m : CoinModel) (r c : Int) (s : String)
    (h0 : 0 ≤ m.string_.numberItems_) (hni : m.hashElements_.numberItems_ ≠ 0)
    (hpos : m.hashElements_.hash r c m.elements_ ≥ 0) :
    (getElementAsString
      (setElementStringValue m (m.hashElements_.hash r c m.elements_) s) r c).1 = some s := by
  obtain ⟨e1, e2, e3, _⟩ :=
    setElementStringValue_fields m (m.hashElements_.hash r c m.elements_) s
  have hlook : (setElementStringValue m (m.hashElements_.hash r c m.elements_) s).hashElements_.hash
      r c (setElementStringValue m (m.hashElements_.hash r c m.elements_) s).elements_ =
      m.hashElements_.hash r c m.elements_ := by
    rw [e1, e2]
    exact hash_congr _ r c _ _ (fun q => holds_update_flag _ _ _ _ _ _ _)
  rw [getElementAsString_found _ r c (by rw [e1]; exact hni) (by rw [hlook]; exact hpos),
    hlook, e2, Function.update_same, e3]
  show (addString m s).2.string_.name (toInt ((addString m s).1 : Value)) = some s
  rw [toInt_cast]
  exact (addString_name m s h0).1

/-- After the value of the slot that holds `(r, c)` has been set to a number,
`getElementAsString(r, c)` returns `"Numeric"`. -/
theorem numericValue_reads (m : CoinModel) (r c : Int) (v : Value)
    (hni : m.hashElements_.numberItems_ ≠ 0)
    (hpos : m.hashElements_.hash r c m.elements_ ≥ 0) (m' : CoinModel)
    (hm' : m' = { m with elements_ := (Function.update m.elements_
      (m.hashElements_.hash r c m.elements_)
      (setStringInTriple { m.elements_ (m.hashElements_.hash r c m.elements_) with
        value := v } false)) }) :
    (getElementAsString m' r c).1 = some numeric := by
  have hlook : m'.hashElements_.hash r c m'.elements_ = m.hashElements_.hash r c m.elements_ := by
    rw [hm']
    show m.hashElements_.hash r c (Function.update m.elements_ _ _) = _
    exact hash_congr _ r c _ _ (fun q => holds_update_flag _ _ _ _ _ _ _)
  have hni' : m'.hashElements_.numberItems_ ≠ 0 := by
    rw [hm']
    exact hni
  rw [getElementAsString_found m' r c hni' (by rw [hlook]; exact hpos), hlook]
  have : m'.elements_ (m.hashElements_.hash r c m.elements_) =
      setStringInTriple { m.elements_ (m.hashElements_.hash r c m.elements_) with
        value := v } false := by
    rw [hm']
    show Function.update m.elements_ _ _ _ = _
    rw [Function.update_same]
  rw [this]
  rfl

theorem ready_items (m : CoinModel) (r c : Int) (hR : Ready m r c)
    (hpos : m.hashElements_.hash r c m.elements_ ≥ 0) : m.hashElements_.numberItems_ ≠ 0 := by
  obtain ⟨_, _, _, _, _, h2, _⟩ := hR
  have := h2 _ (hash_found _ r c _ hpos).1
  omega

/-- The lookup of a pair that `setElementStore` has just stored. -/
theorem setElementStore_lookup (d : CoinModel) (r c : Int) (v : Value) (hF : Fresh d r c) :
    (setElementStore d r c v).hashElements_.numberItems_ ≠ 0 ∧
    0 ≤ (setElementStore d r c v).hashElements_.hash r c (setElementStore d r c v).elements_ ∧
    (setElementStore d r c v).elements_
      ((setElementStore d r c v).hashElements_.hash r c (setElementStore d r c v).elements_) =
      ⟨r, false, c, v⟩ := by
  obtain ⟨put, p1, p2, p3, p4⟩ := setElementStore_fields d r c v hF
  obtain ⟨_, _, _, _, _, a6, a7⟩ := hF
  obtain ⟨s1, s2, s3⟩ := addHash_spec d.hashElements_ put r c
    (Function.update d.elements_ put ⟨r, false, c, v⟩)
  have hni : (setElementStore d r c v).hashElements_.numberItems_ ≠ 0 := by
    rw [p3]
    omega
  have hlook : (setElementStore d r c v).hashElements_.hash r c
      (setElementStore d r c v).elements_ = put := by
    rw [p2, p3]
    apply hash_eq_of_unique _ _ _ _ _ s2
    · rw [Function.update_same]
      unfold holds rowInTriple
      simp
    · intro q hq hhold
      by_contra hne
      rw [Function.update_noteq hne] at hhold
      rcases s3 q hq with h | h | h
      · exact hne h
      · have := a6 q h
        rw [a7 q this.1 this.2] at hhold
        exact absurd hhold (by decide)
      · rw [a7 q h.1 h.2] at hhold
        exact absurd hhold (by decide)
  refine ⟨hni, by rw [hlook]; exact p1, ?_⟩
  rw [hlook, p2, Function.update_same]

theorem setElementStringHash_ready (a : CoinModel) (r c : Int) (hc : 0 ≤ c)
    (h3 : a.type_ ≠ 3) (hl0 : a.links_ ≠ 0) (hl : ListsOK a) (hcap : 0 < a.maximumElements_)
    (hh : HashOK a r c) : Ready (setElementStringHash a) r c := by
  unfold setElementStringHash
  by_cases h0 : a.hashElements_.maximumItems = 0
  · rw [if_pos h0]
    have h0' : a.hashElements_.maximumItems_ = 0 := h0
    have hne : ¬ (a.maximumElements_ ≤
        (a.hashElements_.setNumberItems a.numberElements_).maximumItems_ ∧ false = false) := by
      show ¬ (a.maximumElements_ ≤ a.hashElements_.maximumItems_ ∧ false = false)
      rw [h0']
      intro h
      omega
    have hnum : ((a.hashElements_.setNumberItems a.numberElements_).resize a.maximumElements_
        a.elements_ false).numberItems_ = a.numberElements_ := by
      rw [hash_resize_numberItems]
      rfl
    refine ⟨h3, hl0, hl, ?_, ?_, ?_, ?_⟩
    · show 0 < ((a.hashElements_.setNumberItems a.numberElements_).resize a.maximumElements_
        a.elements_ false).maximumItems_
      unfold CoinModelHash2.resize
      rw [if_neg hne]
      exact lt_of_lt_of_le hcap (le_max_left _ _)
    · show ((a.hashElements_.setNumberItems a.numberElements_).resize a.maximumElements_
        a.elements_ false).numberItems_ ≤ a.numberElements_
      rw [hnum]
    · intro q hq
      have hq' : q ∈ ((a.hashElements_.setNumberItems a.numberElements_).resize
        a.maximumElements_ a.elements_ false).index := hq
      show 0 ≤ q ∧ q < ((a.hashElements_.setNumberItems a.numberElements_).resize
        a.maximumElements_ a.elements_ false).numberItems_
      rw [hnum]
      unfold CoinModelHash2.resize at hq'
      rw [if_neg hne] at hq'
      exact mem_positionsBelow.1 (List.mem_of_mem_filter hq')
    · intro p hp0 hp hhold
      have hp' : p < ((a.hashElements_.setNumberItems a.numberElements_).resize
        a.maximumElements_ a.elements_ false).numberItems_ := hp
      rw [hnum] at hp'
      show p ∈ ((a.hashElements_.setNumberItems a.numberElements_).resize
        a.maximumElements_ a.elements_ false).index
      unfold CoinModelHash2.resize
      rw [if_neg hne]
      apply List.mem_filter.2
      refine ⟨mem_positionsBelow.2 ⟨hp0, hp'⟩, ?_⟩
      have hh2 : holds (a.elements_ p) r c = true := hhold
      unfold holds at hh2
      simp only [Bool.and_eq_true, decide_eq_true_eq] at hh2
      simp only [decide_eq_true_eq]
      omega
  · rw [if_neg h0]
    have h0' : a.hashElements_.maximumItems_ ≠ 0 := h0
    have := hh.1
    exact ⟨h3, hl0, hl, by omega, hh.2.1, hh.2.2.1,
      fun p hp0 hp => hh.2.2.2 p (mem_positionsBelow.2 ⟨hp0, hp⟩)⟩

theorem strings_fillRowsFill (m : CoinModel) (w : Int) (f : Bool) :
    (fillRowsFill m w f).string_ = m.string_ := by
  unfold fillRowsFill createList
  dsimp only
  split_ifs <;> rfl

theorem strings_fillColumnsFill (m : CoinModel) (w : Int) (f : Bool) :
    (fillColumnsFill m w f).string_ = m.string_ := by
  unfold fillColumnsFill createList
  dsimp only
  split_ifs <;> rfl

theorem strings_createList (m : CoinModel) (t : Int) : (createList m t).string_ = m.string_ := by
  unfold createList
  dsimp only
  split_ifs <;> rfl

theorem strings_resizeRows (m : CoinModel) (R E : Int) (h : m.type_ ≠ 3) :
    (resizeRows (fillRowsWith resizeStuck) m R E).Returns fun a => a.string_ = m.string_ := by
  unfold resizeRows
  by_cases h02 : m.type_ = 0 ∨ m.type_ = 2
  · rw [if_pos h02]
    dsimp only
    by_cases hR : max R m.numberRows_ > m.maximumRows_
    · rw [if_pos hR]
      have hlt : m.numberRows_ - 1 < max R m.numberRows_ := by
        have := le_max_right R m.numberRows_
        omega
      have hne : m.type_ ≠ -1 := by rcases h02 with h' | h' <;> omega
      have hn1 : m.type_ ≠ 1 := by rcases h02 with h' | h' <;> omega
      split_ifs
      all_goals first
        | exact Outcome.returns_returned rfl
        | (refine fillRows_nested_returns _ _ _ ?_ ?_ ?_ ?_ ?_
           · exact hne
           · exact hn1
           · rfl
           · exact hlt
           · exact strings_fillRowsFill _ _ _)
    · rw [if_neg hR]
      exact Outcome.returns_returned rfl
  · rw [if_neg h02, if_neg h]
    exact Outcome.returns_returned rfl

theorem strings_resizeColumns (m : CoinModel) (C E : Int) :
    (resizeColumns (fillColumnsWith resizeStuck) m C E).Returns fun a =>
      a.string_ = m.string_ := by
  unfold resizeColumns
  by_cases h12 : m.type_ = 1 ∨ m.type_ = 2
  · rw [if_pos h12]
    dsimp only
    by_cases hR : max C m.numberColumns_ > m.maximumColumns_
    · rw [if_pos hR]
      have hlt : m.numberColumns_ - 1 < max C m.numberColumns_ := by
        have := le_max_right C m.numberColumns_
        omega
      have hne : m.type_ ≠ -1 := by rcases h12 with h' | h' <;> omega
      have hn1 : m.type_ ≠ 0 := by rcases h12 with h' | h' <;> omega
      split_ifs
      all_goals first
        | exact Outcome.returns_returned rfl
        | (refine fillColumns_nested_returns _ _ _ ?_ ?_ ?_ ?_ ?_
           · exact hne
           · exact hn1
           · rfl
           · exact hlt
           · exact strings_fillColumnsFill _ _ _)
    · rw [if_neg hR]
      exact Outcome.returns_returned rfl
  · rw [if_neg h12]
    exact Outcome.returns_returned rfl

theorem strings_resizeElements (m : CoinModel) (E : Int) :
    (resizeElements m E).string_ = m.string_ := by
  unfold resizeElements
  dsimp only
  split_ifs <;> rfl

/-- `resize` keeps the table of strings. -/
theorem strings_resize (m : CoinModel) (R C E : Int) (h : m.type_ ≠ 3) :
    (resize m R C E).Returns fun a => a.string_ = m.string_ := by
  unfold resize resizeWith
  dsimp only
  apply Outcome.returns_bind
    (Outcome.returns_and (strings_resizeRows m R _ h) (keeps_resizeRows m R _ h))
  rintro a ⟨a1, a2⟩
  apply Outcome.returns_bind
    (Outcome.returns_and (strings_resizeColumns a C _) (keeps_resizeColumns a C _ a2.2.2.1))
  rintro b ⟨b1, b2⟩
  rw [if_neg b2.2.2.1]
  exact Outcome.returns_returned ((strings_resizeElements _ _).trans (b1.trans a1))

theorem strings_setElementMode (m : CoinModel) (h : m.type_ ≠ 3) :
    (setElementMode m).Returns fun a => a.string_ = m.string_ := by
  unfold setElementMode
  by_cases h1 : m.type_ = -1
  · rw [if_pos h1]
    apply Outcome.returns_bind
      (strings_resize { m with type_ := 0 } 100 100 1000 (by decide : (0 : Int) ≠ 3))
    intro a ha
    exact Outcome.returns_returned ((strings_createList _ _).trans ha)
  · rw [if_neg h1, if_neg h]
    split_ifs
    all_goals exact Outcome.returns_returned rfl

theorem strings_setElementStore (d : CoinModel) (i j : Int) (v : Value) :
    (setElementStore d i j v).string_ = d.string_ := by
  unfold setElementStore
  dsimp only
  split_ifs <;> rfl

/-- The part of `setElement` between the lookup and the store returns, keeps the table
of strings and keeps the element store. -/
theorem setElement_insert_returns (a : CoinModel) (i j : Int) (k : CoinModel → CoinModel)
    (h3 : a.type_ ≠ 3) :
    ((setElementGrow a i j).bind fun m =>
      (fillColumns m j false false).bind fun m =>
      (fillRows m i false false).bind fun m => Outcome.returned (k m)).Returns fun d =>
      ∃ z, d = k z ∧ z.string_ = a.string_ ∧ Keeps a z := by
  apply Outcome.returns_bind (P := fun b => b.string_ = a.string_ ∧ Keeps a b)
  · refine Outcome.returns_and ?_ (keeps_setElementGrow a i j h3)
    unfold setElementGrow
    dsimp only
    split_ifs
    all_goals first
      | exact strings_resize _ _ _ _ h3
      | exact Outcome.returns_returned rfl
  · rintro b ⟨hb, kb⟩
    apply Outcome.returns_bind (P := fun c => c.string_ = a.string_ ∧ Keeps a c)
    · unfold fillColumns fillColumnsWith
      rw [if_neg (by simp)]
      exact Outcome.returns_returned ⟨(strings_fillColumnsFill _ _ _).trans hb,
        Keeps.trans kb (keeps_fillColumnsFill b j false kb.2.2.1)⟩
    · rintro c ⟨hc, kc⟩
      apply Outcome.returns_bind (P := fun c => c.string_ = a.string_ ∧ Keeps a c)
      · unfold fillRows fillRowsWith
        rw [if_neg (by simp)]
        exact Outcome.returns_returned ⟨(strings_fillRowsFill _ _ _).trans hc,
          Keeps.trans kc (keeps_fillRowsFill c i false kc.2.2.1)⟩
      · intro d hd
        exact Outcome.returns_returned ⟨d, rfl, hd⟩

theorem usable_type (m : CoinModel) (hm : Usable m) : m.type_ ≠ 3 := by
  rcases hm with ⟨h, _⟩ | ⟨h, _⟩ <;> omega

theorem strings_setElementStringHash (a : CoinModel) :
    (setElementStringHash a).string_ = a.string_ := by
  unfold setElementStringHash
  split_ifs <;> rfl

theorem strings_setElementHash (a : CoinModel) : (setElementHash a).string_ = a.string_ := by
  unfold setElementHash
  split_ifs <;> rfl

/-- On a usable model whose lists and hash index are in step, the string form of
`setElement(r, c, s)` returns, and afterwards `getElementAsString(r, c)` is `s`. -/
theorem setElementString_reads (m : CoinModel) (r c : Int) (s : String) (hc : 0 ≤ c)
    (hm : Usable m) (hl : ListsOK m) (hh : HashOK m r c) (h0 : 0 ≤ m.string_.numberItems_) :
    (setElementString m r c s).Returns fun m' =>
      (getElementAsString m' r c).1 = some s := by
  unfold setElementString
  apply Outcome.returns_bind (Outcome.returns_and (setElementMode_spec m r c hm hl hh)
    (strings_setElementMode m (usable_type m hm)))
  rintro a ⟨⟨b1, b2, b3, b4, b5⟩, sa⟩
  dsimp only
  have hR := setElementStringHash_ready a r c hc b1 b2 b3 b4 b5
  have hs : 0 ≤ (setElementStringHash a).string_.numberItems_ := by
    rw [strings_setElementStringHash, sa]
    exact h0
  by_cases hpos : (setElementStringHash a).hashElements_.hash r c
      (setElementStringHash a).elements_ ≥ 0
  · rw [if_pos hpos]
    exact Outcome.returns_returned
      (stringValue_reads _ r c s hs (ready_items _ r c hR hpos) hpos)
  · rw [if_neg hpos]
    have hF := fresh_of_ready _ r c hR hpos
    refine Outcome.returns_mono (setElement_insert_returns (setElementStringHash a) r c
      (fun d => setElementStringValue (setElementStore d r c 1)
        ((setElementStore d r c 1).hashElements_.hash r c (setElementStore d r c 1).elements_) s)
      hR.1) ?_
    rintro d ⟨z, hz, sz, kz⟩
    rw [hz]
    obtain ⟨l1, l2, _⟩ := setElementStore_lookup z r c 1 (fresh_keeps r c hF kz)
    exact stringValue_reads (setElementStore z r c 1) r c s
      (by rw [strings_setElementStore, sz]; exact hs) l1 l2

/-- On a usable model whose lists and hash index are in step, the numeric form of
`setElement(r, c, v)` returns, and afterwards `getElementAsString(r, c)` is the
string for a numeric value. -/
theorem setElement_reads_numeric (m : CoinModel) (r c : Int) (v : Value) (hc : 0 ≤ c)
    (hm : Usable m) (hl : ListsOK m) (hh : HashOK m r c) :
    (setElement m r c v).Returns fun m' =>
      (getElementAsString m' r c).1 = some numeric := by
  unfold setElement
  apply Outcome.returns_bind (setElementMode_spec m r c hm hl hh)
  rintro a ⟨b1, b2, b3, b4, b5⟩
  dsimp only
  have hR := setElementHash_ready a r c hc b1 b2 b3 b4 b5
  by_cases hpos : (setElementHash a).hashElements_.hash r c (setElementHash a).elements_ ≥ 0
  · rw [if_pos hpos]
    exact Outcome.returns_returned
      (numericValue_reads _ r c v (ready_items _ r c hR hpos) hpos _ rfl)
  · rw [if_neg hpos]
    have hF := fresh_of_ready _ r c hR hpos
    refine Outcome.returns_mono (setElement_insert_returns (setElementHash a) r c
      (fun d => setElementStore d r c v) hR.1) ?_
    rintro d ⟨z, hz, _, kz⟩
    rw [hz]
    obtain ⟨l1, l2, l3⟩ := setElementStore_lookup z r c v (fresh_keeps r c hF kz)
    rw [getElementAsString_found _ r c l1 l2, l3]
    rfl

/-- A pair that no stored position holds has no value as a string:
`getElementAsString` returns `NULL`. -/
theorem absent_reads_null (m : CoinModel) (r c : Int)
    (h1 : m.hashElements_.numberItems_ ≤ m.numberElements_)
    (h2 : ∀ q ∈ m.hashElements_.index, 0 ≤ q ∧ q < m.hashElements_.numberItems_)
    (ha : ∀ p, 0 ≤ p → p < m.numberElements_ → holds (m.elements_ p) r c = false) :
    (getElementAsString m r c).1 = none := by
  have key : (buildHash m false).hashElements_.hash r c (buildHash m false).elements_ = -1 := by
    obtain ⟨e1, _, e3⟩ := buildHash_frame m false
    apply hash_absent
    intro q hq
    rw [e1]
    rcases e3 q hq with h | h
    · have := h2 q h
      exact ha q this.1 (by omega)
    · exact ha q h.1 h.2
  unfold getElementAsString
  dsimp only
  rw [key]
  rfl

/-! ### The capacities after `resize`, `fillRows` and `fillColumns` in the mixed mode -/

theorem sameCapacity_refl (m : CoinModel) : SameCapacity m m := ⟨rfl, rfl, rfl⟩

theorem sameCapacity_trans {a b c : CoinModel} (h1 : SameCapacity a b)
    (h2 : SameCapacity b c) : SameCapacity a c :=
  ⟨h2.1.trans h1.1, h2.2.1.trans h1.2.1, h2.2.2.trans h1.2.2⟩

theorem sameCapacity_fillRowsFill (m : CoinModel) (w : Int) (f : Bool) :
    SameCapacity m (fillRowsFill m w f) := by
  unfold fillRowsFill createList SameCapacity
  dsimp only
  split_ifs <;> exact ⟨rfl, rfl, rfl⟩

theorem sameCapacity_fillColumnsFill (m : CoinModel) (w : Int) (f : Bool) :
    SameCapacity m (fillColumnsFill m w f) := by
  unfold fillColumnsFill createList SameCapacity
  dsimp only
  split_ifs <;> exact ⟨rfl, rfl, rfl⟩

theorem sameCapacity_createList (m : CoinModel) (t : Int) : SameCapacity m (createList m t) := by
  unfold createList SameCapacity
  dsimp only
  split_ifs <;> exact ⟨rfl, rfl, rfl⟩

/-- The capacities after the row part of `resize` in the mixed mode. -/
theorem exact_resizeRows (m : CoinModel) (R E : Int) (h1 : m.type_ = 2) :
    (resizeRows (fillRowsWith resizeStuck) m R E).Returns fun a =>
      a.maximumRows_ = max m.maximumRows_ (max R m.numberRows_) ∧
      a.maximumColumns_ = m.maximumColumns_ ∧ a.maximumElements_ = m.maximumElements_ := by
  unfold resizeRows
  rw [if_pos (Or.inr h1)]
  dsimp only
  by_cases hR : max R m.numberRows_ > m.maximumRows_
  · rw [if_pos hR]
    have hlt : m.numberRows_ - 1 < max R m.numberRows_ := by
      have := le_max_right R m.numberRows_
      omega
    have hne : m.type_ ≠ -1 := by rw [h1]; decide
    have hn1 : m.type_ ≠ 1 := by rw [h1]; decide
    have h20 : ¬ (m.type_ = 0) := by rw [h1]; decide
    have hmx : max R m.numberRows_ = max m.maximumRows_ (max R m.numberRows_) :=
      (max_eq_right (le_of_lt hR)).symm
    split_ifs
    all_goals first
      | exact Outcome.returns_returned ⟨hmx, rfl, rfl⟩
      | (refine fillRows_nested_returns _ _ _ ?_ ?_ ?_ ?_ ?_
         · exact hne
         · exact hn1
         · rfl
         · exact hlt
         · exact ⟨(sameCapacity_fillRowsFill _ _ _).1.trans hmx,
             (sameCapacity_fillRowsFill _ _ _).2.1, (sameCapacity_fillRowsFill _ _ _).2.2⟩)
  · rw [if_neg hR]
    exact Outcome.returns_returned ⟨(max_eq_left (not_lt.1 hR)).symm, rfl, rfl⟩

/-- The capacities after the column part of `resize` in the mixed mode. -/
theorem exact_resizeColumns (m : CoinModel) (C E : Int) (h1 : m.type_ = 2) :
    (resizeColumns (fillColumnsWith resizeStuck) m C E).Returns fun a =>
      a.maximumColumns_ = max m.maximumColumns_ (max C m.numberColumns_) ∧
      a.maximumRows_ = m.maximumRows_ ∧ a.maximumElements_ = m.maximumElements_ := by
  unfold resizeColumns
  rw [if_pos (Or.inr h1)]
  dsimp only
  by_cases hR : max C m.numberColumns_ > m.maximumColumns_
  · rw [if_pos hR]
    have hlt : m.numberColumns_ - 1 < max C m.numberColumns_ := by
      have := le_max_right C m.numberColumns_
      omega
    have hne : m.type_ ≠ -1 := by rw [h1]; decide
    have hn1 : m.type_ ≠ 0 := by rw [h1]; decide
    have h21 : ¬ (m.type_ = 1) := by rw [h1]; decide
    have hmx : max C m.numberColumns_ = max m.maximumColumns_ (max C m.numberColumns_) :=
      (max_eq_right (le_of_lt hR)).symm
    split_ifs
    all_goals first
      | exact Outcome.returns_returned ⟨hmx, rfl, rfl⟩
      | (refine fillColumns_nested_returns _ _ _ ?_ ?_ ?_ ?_ ?_
         · exact hne
         · exact hn1
         · rfl
         · exact hlt
         · exact ⟨(sameCapacity_fillColumnsFill _ _ _).2.1.trans hmx,
             (sameCapacity_fillColumnsFill _ _ _).1, (sameCapacity_fillColumnsFill _ _ _).2.2⟩)
  · rw [if_neg hR]
    exact Outcome.returns_returned ⟨(max_eq_left (not_lt.1 hR)).symm, rfl, rfl⟩

theorem exact_resizeElements (m : CoinModel) (E : Int) :
    (resizeElements m E).maximumElements_ = max m.maximumElements_ E ∧
    (resizeElements m E).maximumRows_ = m.maximumRows_ ∧
    (resizeElements m E).maximumColumns_ = m.maximumColumns_ := by
  unfold resizeElements
  by_cases h1 : E > m.maximumElements_
  · rw [if_pos h1]
    dsimp only
    split_ifs
    all_goals exact ⟨(max_eq_right (le_of_lt h1)).symm, rfl, rfl⟩
  · rw [if_neg h1]
    exact ⟨(max_eq_left (not_lt.1 h1)).symm, rfl, rfl⟩

/-- The capacities after `resize(R, C, E)` on a model in the mixed mode without
`start_`: each is the larger of the old capacity, the request and the count. -/
theorem exact_resize (m : CoinModel) (R C E : Int) (h1 : m.type_ = 2)
    (hs : m.start_ = none) (hr : 0 ≤ m.numberRows_) (hc : 0 ≤ m.numberColumns_) :
    (resize m R C E).Returns fun a =>
      Steady m a ∧
      a.maximumRows_ = max m.maximumRows_ (max R m.numberRows_) ∧
      a.maximumColumns_ = max m.maximumColumns_ (max C m.numberColumns_) ∧
      a.maximumElements_ = max m.maximumElements_ E := by
  unfold resize resizeWith
  dsimp only
  apply Outcome.returns_bind
    (Outcome.returns_and (steady_resizeRows m R _ h1 hs hr) (exact_resizeRows m R _ h1))
  rintro a ⟨sa, a1, a2, a3⟩
  have ha2 : a.type_ = 2 := sa.1.trans h1
  apply Outcome.returns_bind
    (Outcome.returns_and
      (steady_resizeColumns a C _ ha2 (sa.2.2.1.trans hs) (by rw [sa.2.2.2.2.1]; exact hc))
      (exact_resizeColumns a C _ ha2))
  rintro b ⟨sb, b1, b2, b3⟩
  rw [if_neg (by rw [sb.1, ha2]; decide)]
  obtain ⟨c1, c2, c3⟩ := exact_resizeElements b (max E m.maximumElements_)
  refine Outcome.returns_returned
    ⟨steady_trans (steady_trans sa sb) (steady_resizeElements _ _), ?_, ?_, ?_⟩
  · rw [c2, b2, a1]
  · rw [c3, b1, a2, sa.2.2.2.2.1]
  · rw [c1, b3, a3, max_comm E, max_eq_right (le_max_left _ _), max_comm]

/-- The capacities after `fillRows(whichRow, true)`, the call made by the scalar row
setters, on a model in the mixed mode: the column and element capacities stay, and when
the row arrays exist the row capacity grows only for a row beyond it, to
`max((3 * maximumRows_) / 2, whichRow + 1)`. -/
theorem force_fillRows (m : CoinModel) (w : Int) (h2 : m.type_ = 2) (hs : m.start_ = none)
    (hr : 0 ≤ m.numberRows_) (hrm : m.numberRows_ ≤ m.maximumRows_)
    (hc : 0 ≤ m.numberColumns_) (hcm : m.numberColumns_ ≤ m.maximumColumns_)
    (he : 0 ≤ m.maximumElements_) :
    (fillRows m w true false).Returns fun b =>
      b.maximumColumns_ = m.maximumColumns_ ∧ b.maximumElements_ = m.maximumElements_ ∧
      (m.rowLower_.isSome = true →
        b.maximumRows_ = if w ≥ m.maximumRows_ then max (cdiv (3 * m.maximumRows_) 2) (w + 1)
          else m.maximumRows_) := by
  have hC : max m.maximumColumns_ (max 0 m.numberColumns_) = m.maximumColumns_ := by
    rw [max_eq_right hc, max_eq_left hcm]
  have hE : max m.maximumElements_ 0 = m.maximumElements_ := max_eq_left he
  unfold fillRows fillRowsWith
  apply Outcome.returns_bind (P := fun (x : CoinModel × Int) =>
    x.1.maximumColumns_ = m.maximumColumns_ ∧ x.1.maximumElements_ = m.maximumElements_ ∧
    (m.rowLower_.isSome = true →
      x.1.maximumRows_ = if w ≥ m.maximumRows_ then max (cdiv (3 * m.maximumRows_) 2) (w + 1)
        else m.maximumRows_))
  · rw [if_pos (by simp)]
    unfold fillRowsCreate
    rw [if_neg (by rw [h2]; decide), if_neg (by rw [h2]; decide)]
    show Outcome.Returns (Outcome.bind (if m.rowLower_.isNone = true then _ else _) _) _
    by_cases hn : m.rowLower_.isNone = true
    · rw [if_pos hn]
      have hsome : ¬ (m.rowLower_.isSome = true) := by
        cases hq : m.rowLower_ with
        | none => simp
        | some f => rw [hq] at hn; cases hn
      have h3 : ({ m with numberRows_ := 0 } : CoinModel).type_ ≠ 3 := by
        show m.type_ ≠ 3
        rw [h2]
        decide
      dsimp only
      rw [if_pos h3]
      apply Outcome.returns_bind
        (P := fun (x : CoinModel × Int) => x.1.maximumColumns_ = m.maximumColumns_ ∧
          x.1.maximumElements_ = m.maximumElements_ ∧ x.2 < x.1.maximumRows_ ∧ x.1.type_ = 2)
      · apply Outcome.returns_bind
          (exact_resize { m with numberRows_ := 0 } (max 100 (m.numberRows_ - 1 + 1)) 0 0
            h2 hs (le_refl _) hc)
        rintro a ⟨sa, a1, a2, a3⟩
        refine Outcome.returns_returned ⟨a2.trans hC, a3.trans hE, ?_, sa.1.trans h2⟩
        show m.numberRows_ - 1 < a.maximumRows_
        rw [a1]
        have := le_max_right (100 : Int) (m.numberRows_ - 1 + 1)
        have := le_max_left (max (100 : Int) (m.numberRows_ - 1 + 1)) (0 : Int)
        have := le_max_right m.maximumRows_ (max (max (100 : Int) (m.numberRows_ - 1 + 1)) 0)
        show m.numberRows_ - 1 <
          max m.maximumRows_ (max (max (100 : Int) (m.numberRows_ - 1 + 1)) 0)
        omega
      · rintro ⟨a, w'⟩ ⟨a2, a3, a4, _⟩
        dsimp only at a2 a3 a4 ⊢
        rw [if_neg (by omega)]
        exact Outcome.returns_returned ⟨a2, a3, fun h => absurd h hsome⟩
    · rw [if_neg hn]
      show Outcome.Returns (if w ≥ m.maximumRows_ then _ else _) _
      by_cases hw : w ≥ m.maximumRows_
      · rw [if_pos hw, if_pos (by rw [h2]; decide)]
        apply Outcome.returns_bind
          (exact_resize m (max (cdiv (3 * m.maximumRows_) 2) (w + 1)) 0 0 h2 hs hr hc)
        rintro a ⟨_, a1, a2, a3⟩
        refine Outcome.returns_returned ⟨a2.trans hC, a3.trans hE, fun _ => ?_⟩
        show a.maximumRows_ = _
        rw [a1, if_pos hw]
        have h1 := le_max_right (cdiv (3 * m.maximumRows_) 2) (w + 1)
        rw [max_eq_left (by omega : m.numberRows_ ≤ max (cdiv (3 * m.maximumRows_) 2) (w + 1)),
          max_eq_right (by omega)]
      · rw [if_neg hw]
        exact Outcome.returns_returned ⟨rfl, rfl, fun _ => by rw [if_neg hw]⟩
  · rintro ⟨a, w'⟩ ⟨a2, a3, a4⟩
    dsimp only at a2 a3 a4 ⊢
    obtain ⟨c1, c2, c3⟩ := sameCapacity_fillRowsFill a w' false
    exact Outcome.returns_returned ⟨c2.trans a2, c3.trans a3, fun h => c1.trans (a4 h)⟩

/-- The capacities after `fillColumns(whichColumn, true)`, the call made by the scalar
column setters, on a model in the mixed mode. -/
theorem force_fillColumns (m : CoinModel) (w : Int) (h2 : m.type_ = 2)
    (hs : m.start_ = none)
    (hr : 0 ≤ m.numberRows_) (hrm : m.numberRows_ ≤ m.maximumRows_)
    (hc : 0 ≤ m.numberColumns_) (hcm : m.numberColumns_ ≤ m.maximumColumns_)
    (he : 0 ≤ m.maximumElements_) :
    (fillColumns m w true false).Returns fun b =>
      b.maximumRows_ = m.maximumRows_ ∧ b.maximumElements_ = m.maximumElements_ ∧
      (m.objective_.isSome = true →
        b.maximumColumns_ =
          if w ≥ m.maximumColumns_ then max (cdiv (3 * m.maximumColumns_) 2) (w + 1)
          else m.maximumColumns_) := by
  have hR : max m.maximumRows_ (max 0 m.numberRows_) = m.maximumRows_ := by
    rw [max_eq_right hr, max_eq_left hrm]
  have hE : max m.maximumElements_ 0 = m.maximumElements_ := max_eq_left he
  unfold fillColumns fillColumnsWith
  apply Outcome.returns_bind (P := fun (x : CoinModel × Int) =>
    x.1.maximumRows_ = m.maximumRows_ ∧ x.1.maximumElements_ = m.maximumElements_ ∧
    (m.objective_.isSome = true →
      x.1.maximumColumns_ =
        if w ≥ m.maximumColumns_ then max (cdiv (3 * m.maximumColumns_) 2) (w + 1)
        else m.maximumColumns_))
  · rw [if_pos (by simp)]
    unfold fillColumnsCreate
    rw [if_neg (by rw [h2]; decide), if_neg (by rw [h2]; decide)]
    show Outcome.Returns (Outcome.bind (if m.objective_.isNone = true then _ else _) _) _
    by_cases hn : m.objective_.isNone = true
    · rw [if_pos hn]
      have hsome : ¬ (m.objective_.isSome = true) := by
        cases hq : m.objective_ with
        | none => simp
        | some f => rw [hq] at hn; cases hn
      have h3 : ({ m with numberColumns_ := 0 } : CoinModel).type_ ≠ 3 := by
        show m.type_ ≠ 3
        rw [h2]
        decide
      dsimp only
      rw [if_pos h3]
      apply Outcome.returns_bind
        (P := fun (x : CoinModel × Int) => x.1.maximumRows_ = m.maximumRows_ ∧
          x.1.maximumElements_ = m.maximumElements_ ∧ x.2 < x.1.maximumColumns_ ∧
          x.1.type_ = 2)
      · apply Outcome.returns_bind
          (exact_resize { m with numberColumns_ := 0 } 0 (max 100 (m.numberColumns_ - 1 + 1)) 0
            h2 hs hr (le_refl _))
        rintro a ⟨sa, a1, a2, a3⟩
        refine Outcome.returns_returned ⟨a1.trans hR, a3.trans hE, ?_, sa.1.trans h2⟩
        show m.numberColumns_ - 1 < a.maximumColumns_
        rw [a2]
        have := le_max_right (100 : Int) (m.numberColumns_ - 1 + 1)
        have := le_max_left (max (100 : Int) (m.numberColumns_ - 1 + 1)) (0 : Int)
        have := le_max_right m.maximumColumns_
          (max (max (100 : Int) (m.numberColumns_ - 1 + 1)) 0)
        show m.numberColumns_ - 1 <
          max m.maximumColumns_ (max (max (100 : Int) (m.numberColumns_ - 1 + 1)) 0)
        omega
      · rintro ⟨a, w'⟩ ⟨a2, a3, a4, _⟩
        dsimp only at a2 a3 a4 ⊢
        rw [if_neg (by omega)]
        exact Outcome.returns_returned ⟨a2, a3, fun h => absurd h hsome⟩
    · rw [if_neg hn]
      show Outcome.Returns (if w ≥ m.maximumColumns_ then _ else _) _
      by_cases hw : w ≥ m.maximumColumns_
      · rw [if_pos hw, if_pos (by rw [h2]; decide)]
        apply Outcome.returns_bind
          (exact_resize m 0 (max (cdiv (3 * m.maximumColumns_) 2) (w + 1)) 0 h2 hs hr hc)
        rintro a ⟨_, a1, a2, a3⟩
        refine Outcome.returns_returned ⟨a1.trans hR, a3.trans hE, fun _ => ?_⟩
        show a.maximumColumns_ = _
        rw [a2, if_pos hw]
        have h1 := le_max_right (cdiv (3 * m.maximumColumns_) 2) (w + 1)
        rw [max_eq_left
            (by omega : m.numberColumns_ ≤ max (cdiv (3 * m.maximumColumns_) 2) (w + 1)),
          max_eq_right (by omega)]
      · rw [if_neg hw]
        exact Outcome.returns_returned ⟨rfl, rfl, fun _ => by rw [if_neg hw]⟩
  · rintro ⟨a, w'⟩ ⟨a2, a3, a4⟩
    dsimp only at a2 a3 a4 ⊢
    obtain ⟨c1, c2, c3⟩ := sameCapacity_fillColumnsFill a w' false
    exact Outcome.returns_returned ⟨c1.trans a2, c3.trans a3, fun h => c2.trans (a4 h)⟩

/-! ### Capacity growth of `addRow`, `addColumn`, `setElement` and the scalar setters -/

theorem slack_refl (m : CoinModel) : GrowsWithSlack m m := ⟨Or.inl rfl, Or.inl rfl, Or.inl rfl⟩

theorem slack_of_sameCapacity {m a b : CoinModel} (h : GrowsWithSlack m a)
    (hs : SameCapacity a b) : GrowsWithSlack m b := by
  unfold GrowsWithSlack
  rw [hs.1, hs.2.1, hs.2.2]
  exact h

theorem two_cdiv (x : Int) (h : 0 ≤ x) : 3 * x - 1 ≤ 2 * cdiv (3 * x) 2 := by
  unfold cdiv
  rw [Int.tdiv_eq_ediv (by omega) (by decide)]
  omega

theorem slackGrowth_of_slack {old new : Int} (h : Slack old new) : SlackGrowth old new := by
  intro hlt
  rcases h with h | h
  · omega
  · have : ((3 * old + 199 : Int) : ℚ) ≤ ((2 * new : Int) : ℚ) := by exact_mod_cast h
    push_cast at this
    linarith

theorem sized_sortSize (m : CoinModel) (s : Int) (h : Sized m) :
    Sized { m with sortSize_ := s } := h

/-- The outcome of the index check: it aborts, or it returns the model with at most a
larger sort buffer. -/
theorem sortAndCheck_cases (m : CoinModel) (n : Int) (I : List Int) (V : List Value) :
    (sortAndCheck m n I V).isAborted = true ∨
    ∃ (s : Int) (es : List (Int × Value)) (last : Int),
      sortAndCheck m n I V = Outcome.returned ({ m with sortSize_ := s }, es, last) := by
  unfold sortAndCheck
  dsimp only
  split_ifs
  all_goals first
    | exact Or.inl rfl
    | exact Or.inr ⟨_, _, _, rfl⟩

theorem sameCapacity_addRowNamed (m : CoinModel) (lo up : Value) (name : Option String) :
    SameCapacity m (addRowNamed m lo up name) := by
  unfold addRowNamed SameCapacity
  cases name with
  | none =>
    dsimp only
    split_ifs <;> exact ⟨rfl, rfl, rfl⟩
  | some s => exact ⟨rfl, rfl, rfl⟩

theorem sameCapacity_addColumnNamed (m : CoinModel) (lo up obj : Value)
    (name : Option String) (isInt : Bool) :
    SameCapacity m (addColumnNamed m lo up obj name isInt) := by
  unfold addColumnNamed SameCapacity
  cases name with
  | none =>
    dsimp only
    split_ifs <;> exact ⟨rfl, rfl, rfl⟩
  | some s => exact ⟨rfl, rfl, rfl⟩

theorem sameCapacity_addRowLinks (m : CoinModel) (n : Int) (es : List (Int × Value)) :
    SameCapacity m (addRowLinks m n es) := by
  unfold addRowLinks SameCapacity
  dsimp only
  split_ifs <;> exact ⟨rfl, rfl, rfl⟩

theorem sameCapacity_addColumnLinks (m : CoinModel) (n : Int) (es : List (Int × Value)) :
    SameCapacity m (addColumnLinks m n es) := by
  unfold addColumnLinks SameCapacity
  dsimp only
  split_ifs <;> exact ⟨rfl, rfl, rfl⟩

theorem sameCapacity_setElementStore (m : CoinModel) (i j : Int) (v : Value) :
    SameCapacity m (setElementStore m i j v) := by
  unfold setElementStore SameCapacity
  dsimp only
  split_ifs <;> exact ⟨rfl, rfl, rfl⟩

theorem sameCapacity_setElementHash (m : CoinModel) : SameCapacity m (setElementHash m) := by
  unfold setElementHash SameCapacity
  split_ifs <;> exact ⟨rfl, rfl, rfl⟩

theorem sameCapacity_setElementStringHash (m : CoinModel) :
    SameCapacity m (setElementStringHash m) := by
  unfold setElementStringHash SameCapacity
  split_ifs <;> exact ⟨rfl, rfl, rfl⟩

theorem sameCapacity_setElementStringValue (m : CoinModel) (p : Int) (s : String) :
    SameCapacity m (setElementStringValue m p s) := by
  unfold setElementStringValue addString SameCapacity
  dsimp only
  split_ifs <;> exact ⟨rfl, rfl, rfl⟩

/-- `fillRows(numberRows_, false, true)`, the call made by `addRow`, when there is room
for the row and the row arrays exist: no capacity changes. -/
theorem sameCapacity_fillRows_add (m : CoinModel) (w : Int) (h1 : m.type_ = 2)
    (h2 : m.rowLower_.isSome = true) (hw : w < m.maximumRows_) :
    (fillRows m w false true).Returns (SameCapacity m) := by
  have h2' := isNone_of_isSome h2
  unfold fillRows fillRowsWith
  apply Outcome.returns_bind (P := fun (x : CoinModel × Int) => x.1 = m)
  · rw [if_pos (by simp)]
    unfold fillRowsCreate
    rw [if_neg (by rw [h1]; decide), if_neg (by rw [h1]; decide)]
    show Outcome.Returns (Outcome.bind (if m.rowLower_.isNone = true then _ else _) _) _
    rw [if_neg (by simp [h2'])]
    show Outcome.Returns (if w ≥ m.maximumRows_ then _ else _) _
    rw [if_neg (by omega)]
    exact Outcome.returns_returned rfl
  · rintro ⟨a, w'⟩ ha
    dsimp only at ha ⊢
    subst ha
    exact Outcome.returns_returned (sameCapacity_fillRowsFill _ _ _)

theorem sameCapacity_fillColumns_add (m : CoinModel) (w : Int) (h1 : m.type_ = 2)
    (h2 : m.objective_.isSome = true) (hw : w < m.maximumColumns_) :
    (fillColumns m w false true).Returns (SameCapacity m) := by
  have h2' := isNone_of_isSome h2
  unfold fillColumns fillColumnsWith
  apply Outcome.returns_bind (P := fun (x : CoinModel × Int) => x.1 = m)
  · rw [if_pos (by simp)]
    unfold fillColumnsCreate
    rw [if_neg (by rw [h1]; decide), if_neg (by rw [h1]; decide)]
    show Outcome.Returns (Outcome.bind (if m.objective_.isNone = true then _ else _) _) _
    rw [if_neg (by simp [h2'])]
    show Outcome.Returns (if w ≥ m.maximumColumns_ then _ else _) _
    rw [if_neg (by omega)]
    exact Outcome.returns_returned rfl
  · rintro ⟨a, w'⟩ ha
    dsimp only at ha ⊢
    subst ha
    exact Outcome.returns_returned (sameCapacity_fillColumnsFill _ _ _)

theorem sameCapacity_fillRows_set (m : CoinModel) (w : Int) :
    (fillRows m w false false).Returns (SameCapacity m) := by
  unfold fillRows fillRowsWith
  rw [if_neg (by simp)]
  exact Outcome.returns_returned (sameCapacity_fillRowsFill m w false)

theorem sameCapacity_fillColumns_set (m : CoinModel) (w : Int) :
    (fillColumns m w false false).Returns (SameCapacity m) := by
  unfold fillColumns fillColumnsWith
  rw [if_neg (by simp)]
  exact Outcome.returns_returned (sameCapacity_fillColumnsFill m w false)

/-- A call of `resize` that raises the column capacity leaves the column arrays
allocated. -/
theorem resize_creates_objective (m : CoinModel) (R C E : Int) (h1 : m.type_ = 2)
    (hs : m.start_ = none) (hr : 0 ≤ m.numberRows_) (hc : 0 ≤ m.numberColumns_)
    (hC : m.maximumColumns_ < C) :
    (resize m R C E).Returns fun a => a.objective_.isSome = true := by
  unfold resize resizeWith
  dsimp only
  apply Outcome.returns_bind
    (Outcome.returns_and (steady_resizeRows m R _ h1 hs hr) (exact_resizeRows m R _ h1))
  rintro a ⟨sa, _, a2, _⟩
  have ha2 : a.type_ = 2 := sa.1.trans h1
  have has : a.start_ = none := sa.2.2.1.trans hs
  apply Outcome.returns_bind
    (Outcome.returns_and
      (steady_resizeColumns a C _ ha2 has (by rw [sa.2.2.2.2.1]; exact hc))
      (resizeColumns_creates a C _ ha2 has (by rw [a2]; exact hC)))
  rintro b ⟨sb, hb⟩
  rw [if_neg (by rw [sb.1, ha2]; decide)]
  exact Outcome.returns_returned
    ((steady_resizeElements b _).2.2.2.2.2.2.2.2.2.2.2.2.2.1 hb.2.2.1)

theorem sized_start (m : CoinModel) (h : Sized m) : m.start_ = none :=
  eq_none_of_isSome_false h.2.1

/-- The capacity requests of `addRow`, and `addRow` after its index check as a call of
`resize` followed by the fills and the store. -/
theorem addRowStore_requests (m : CoinModel) (n : Int) (es : List (Int × Value))
    (newColumn : Int) (lo up : Value) (name : Option String) :
    ∃ R C E : Int,
      (R = 0 ∨ R = cdiv (m.maximumRows_ * 3) 2 + 100) ∧
      (m.numberRows_ = m.maximumRows_ → R = cdiv (m.maximumRows_ * 3) 2 + 100) ∧
      ((C = 0 ∧ newColumn < m.maximumColumns_) ∨
        (C = cdiv (3 * newColumn) 2 + 100 ∧ newColumn ≥ m.maximumColumns_)) ∧
      (E = 0 ∨ (E = cdiv (3 * (m.numberElements_ + n)) 2 + 1000 ∧
        m.numberElements_ + n > m.maximumElements_)) ∧
      addRowStore m n es newColumn lo up name =
      ((if R ≠ 0 ∨ newColumn ≥ m.maximumColumns_ ∨ E ≠ 0 then resize m R C E
        else Outcome.returned m).bind fun a =>
      (fillRows a a.numberRows_ false true).bind fun b =>
      (fillColumns (addRowNamed b lo up name) newColumn false false).bind fun c =>
      Outcome.returned (addRowLinks c n es)) := by
  unfold addRowStore
  dsimp only
  have hR : ∀ R : Int, R = (if m.numberRows_ = m.maximumRows_ then
      cdiv (m.maximumRows_ * 3) 2 + 100
    else if m.numberElements_ + n > m.maximumElements_ ∧
        m.numberRows_ * 10 > m.maximumRows_ * 9 then cdiv (m.maximumRows_ * 3) 2 + 100
      else 0) →
      (R = 0 ∨ R = cdiv (m.maximumRows_ * 3) 2 + 100) ∧
      (m.numberRows_ = m.maximumRows_ → R = cdiv (m.maximumRows_ * 3) 2 + 100) := by
    intro R hR
    rw [hR]
    split_ifs with h1 h2
    · exact ⟨Or.inr rfl, fun _ => rfl⟩
    · exact ⟨Or.inr rfl, fun _ => rfl⟩
    · exact ⟨Or.inl rfl, fun h => absurd h h1⟩
  have hE : ∀ E : Int, E = (if m.numberElements_ + n > m.maximumElements_ then
      cdiv (3 * (m.numberElements_ + n)) 2 + 1000 else 0) →
      (E = 0 ∨ (E = cdiv (3 * (m.numberElements_ + n)) 2 + 1000 ∧
        m.numberElements_ + n > m.maximumElements_)) := by
    intro E hE
    rw [hE]
    split_ifs with h1
    · exact Or.inr ⟨rfl, h1⟩
    · exact Or.inl rfl
  by_cases h : newColumn < m.maximumColumns_
  · exact ⟨_, 0, _, (hR _ rfl).1, (hR _ rfl).2, Or.inl ⟨rfl, h⟩, hE _ rfl,
      by simp only [if_pos h]; rfl⟩
  · exact ⟨_, _, _, (hR _ rfl).1, (hR _ rfl).2, Or.inr ⟨rfl, not_lt.1 h⟩, hE _ rfl,
      by simp only [if_neg h]; rfl⟩

/-- A call of `resize` made for requests that are zero or exceed the capacity with
slack, on a sized model: the capacities grow with slack, a nonzero request becomes the
capacity and leaves the arrays allocated. -/
theorem slack_request (m : CoinModel) (hz : Sized m) (R C E : Int) (P : Prop) [Decidable P]
    (hR : R = 0 ∨ (m.maximumRows_ < R ∧ 3 * m.maximumRows_ + 199 ≤ 2 * R))
    (hC : C = 0 ∨ (m.maximumColumns_ < C ∧ 3 * m.maximumColumns_ + 199 ≤ 2 * C))
    (hE : E = 0 ∨ (m.maximumElements_ < E ∧ 3 * m.maximumElements_ + 199 ≤ 2 * E))
    (hP : R ≠ 0 ∨ C ≠ 0 ∨ E ≠ 0 → P) :
    (if P then resize m R C E else Outcome.returned m).Returns fun a =>
      Steady m a ∧ GrowsWithSlack m a ∧
      (R ≠ 0 → a.maximumRows_ = R ∧ a.rowLower_.isSome = true) ∧
      (C ≠ 0 → a.maximumColumns_ = C ∧ a.objective_.isSome = true) ∧
      (R = 0 → a.maximumRows_ = m.maximumRows_) ∧
      (C = 0 → a.maximumColumns_ = m.maximumColumns_) := by
  have hs := sized_start m hz
  obtain ⟨h2, _, z3, z4, z5, z6, z7, z8, _, _⟩ := hz
  by_cases hp : P
  · rw [if_pos hp]
    have hrows : (resize m R C E).Returns fun a =>
        (m.maximumRows_ < R → a.rowLower_.isSome = true) := by
      by_cases h : m.maximumRows_ < R
      · exact Outcome.returns_mono (resize_creates_rows m R C E h2 hs z3 z5 h)
          (fun a ha _ => ha.1)
      · exact Outcome.returns_mono (steady_resize m R C E h2 hs z3 z5)
          (fun a _ h' => absurd h' h)
    have hcols : (resize m R C E).Returns fun a =>
        (m.maximumColumns_ < C → a.objective_.isSome = true) := by
      by_cases h : m.maximumColumns_ < C
      · exact Outcome.returns_mono (resize_creates_objective m R C E h2 hs z3 z5 h)
          (fun a ha _ => ha)
      · exact Outcome.returns_mono (steady_resize m R C E h2 hs z3 z5)
          (fun a _ h' => absurd h' h)
    refine Outcome.returns_mono
      (Outcome.returns_and (exact_resize m R C E h2 hs z3 z5)
        (Outcome.returns_and hrows hcols)) ?_
    rintro a ⟨⟨sa, a1, a2, a3⟩, ar, ac⟩
    have e1 : R = 0 → a.maximumRows_ = m.maximumRows_ := by
      intro h
      rw [a1, h, max_eq_right z3, max_eq_left z4]
    have e2 : C = 0 → a.maximumColumns_ = m.maximumColumns_ := by
      intro h
      rw [a2, h, max_eq_right z5, max_eq_left z6]
    have e3 : m.maximumRows_ < R → a.maximumRows_ = R := by
      intro h
      rw [a1, max_eq_left (by omega : m.numberRows_ ≤ R), max_eq_right (le_of_lt h)]
    have e4 : m.maximumColumns_ < C → a.maximumColumns_ = C := by
      intro h
      rw [a2, max_eq_left (by omega : m.numberColumns_ ≤ C), max_eq_right (le_of_lt h)]
    refine ⟨sa, ⟨?_, ?_, ?_⟩, ?_, ?_, e1, e2⟩
    · rcases hR with h | ⟨h, h'⟩
      · exact Or.inl (e1 h)
      · exact Or.inr (by rw [e3 h]; exact h')
    · rcases hC with h | ⟨h, h'⟩
      · exact Or.inl (e2 h)
      · exact Or.inr (by rw [e4 h]; exact h')
    · rcases hE with h | ⟨h, h'⟩
      · exact Or.inl (by rw [a3, h, max_eq_left (by omega)])
      · exact Or.inr (by rw [a3, max_eq_right (le_of_lt h)]; exact h')
    · intro hne
      rcases hR with h | ⟨h, _⟩
      · exact absurd h hne
      · exact ⟨e3 h, ar h⟩
    · intro hne
      rcases hC with h | ⟨h, _⟩
      · exact absurd h hne
      · exact ⟨e4 h, ac h⟩
  · rw [if_neg hp]
    have hr0 : R = 0 := by
      by_contra h
      exact hp (hP (Or.inl h))
    have hc0 : C = 0 := by
      by_contra h
      exact hp (hP (Or.inr (Or.inl h)))
    exact Outcome.returns_returned ⟨steady_refl m, slack_refl m, fun h => absurd hr0 h,
      fun h => absurd hc0 h, fun _ => rfl, fun _ => rfl⟩

/-- The capacities after the part of `addRow` that follows the index check, on a sized
model: each is unchanged or has grown with slack. -/
theorem slack_addRowStore (m : CoinModel) (hz : Sized m) (n : Int) (es : List (Int × Value))
    (newColumn : Int) (lo up : Value) (name : Option String) :
    (addRowStore m n es newColumn lo up name).Returns (GrowsWithSlack m) := by
  obtain ⟨R, C, E, r1, r2, r3, r4, heq⟩ := addRowStore_requests m n es newColumn lo up name
  rw [heq]
  obtain ⟨h2, _, z3, z4, z5, z6, z7, z8, z9, z10⟩ := id hz
  have hG := two_cdiv m.maximumRows_ (by omega)
  rw [mul_comm 3 m.maximumRows_] at hG
  have hR : R = 0 ∨ (m.maximumRows_ < R ∧ 3 * m.maximumRows_ + 199 ≤ 2 * R) := by
    rcases r1 with h | h
    · exact Or.inl h
    · exact Or.inr ⟨by omega, by omega⟩
  have hC : C = 0 ∨ (m.maximumColumns_ < C ∧ 3 * m.maximumColumns_ + 199 ≤ 2 * C) := by
    rcases r3 with ⟨h, _⟩ | ⟨h, h'⟩
    · exact Or.inl h
    · have := two_cdiv newColumn (by omega)
      exact Or.inr ⟨by omega, by omega⟩
  have hE : E = 0 ∨ (m.maximumElements_ < E ∧ 3 * m.maximumElements_ + 199 ≤ 2 * E) := by
    rcases r4 with h | ⟨h, h'⟩
    · exact Or.inl h
    · have := two_cdiv (m.numberElements_ + n) (by omega)
      exact Or.inr ⟨by omega, by omega⟩
  have hP : R ≠ 0 ∨ C ≠ 0 ∨ E ≠ 0 → (R ≠ 0 ∨ newColumn ≥ m.maximumColumns_ ∨ E ≠ 0) := by
    rintro (h | h | h)
    · exact Or.inl h
    · rcases r3 with ⟨h', _⟩ | ⟨_, h'⟩
      · exact absurd h' h
      · exact Or.inr (Or.inl h')
    · exact Or.inr (Or.inr h)
  apply Outcome.returns_bind (slack_request m hz R C E _ hR hC hE hP)
  rintro a ⟨sa, ga, ar, _, ar0, _⟩
  have ha2 : a.type_ = 2 := sa.1.trans h2
  have hrl : a.rowLower_.isSome = true := by
    by_cases h : R = 0
    · have h0 : 0 < m.maximumRows_ := by
        by_contra hc
        have : m.numberRows_ = m.maximumRows_ := by omega
        have := r2 this
        omega
      exact sa.2.2.2.2.2.2.2.2.1 (z9 h0)
    · exact (ar h).2
  have hlt : a.numberRows_ < a.maximumRows_ := by
    rw [sa.2.2.2.1]
    by_cases h : R = 0
    · rw [ar0 h]
      by_contra hc
      have : m.numberRows_ = m.maximumRows_ := by omega
      have := r2 this
      omega
    · rw [(ar h).1]
      rcases hR with h' | ⟨h', _⟩
      · exact absurd h' h
      · omega
  apply Outcome.returns_bind (sameCapacity_fillRows_add a a.numberRows_ ha2 hrl hlt)
  intro b hb
  apply Outcome.returns_bind (sameCapacity_fillColumns_set (addRowNamed b lo up name) newColumn)
  intro c hc
  exact Outcome.returns_returned
    (slack_of_sameCapacity ga (sameCapacity_trans hb (sameCapacity_trans
      (sameCapacity_addRowNamed b lo up name)
      (sameCapacity_trans hc (sameCapacity_addRowLinks c n es)))))

/-- The capacity requests of `addColumn`, and `addColumn` after its index check as a call
of `resize` followed by the fills and the store. -/
theorem addColumnStore_requests (m : CoinModel) (n : Int) (es : List (Int × Value))
    (newRow : Int) (lo up obj : Value) (name : Option String) (isInt : Bool) :
    ∃ R C E : Int,
      (C = 0 ∨ C = cdiv (m.maximumColumns_ * 3) 2 + 100) ∧
      (m.numberColumns_ = m.maximumColumns_ → C = cdiv (m.maximumColumns_ * 3) 2 + 100) ∧
      ((R = 0 ∧ newRow < m.maximumRows_) ∨
        (R = cdiv (3 * newRow) 2 + 100 ∧ newRow ≥ m.maximumRows_)) ∧
      (E = 0 ∨ (E = cdiv (3 * (m.numberElements_ + n)) 2 + 1000 ∧
        m.numberElements_ + n > m.maximumElements_)) ∧
      addColumnStore m n es newRow lo up obj name isInt =
      ((if C ≠ 0 ∨ newRow ≥ m.maximumRows_ ∨ E ≠ 0 then resize m R C E
        else Outcome.returned m).bind fun a =>
      (fillColumns a a.numberColumns_ false true).bind fun b =>
      (fillRows (addColumnNamed b lo up obj name isInt) newRow false false).bind fun c =>
      Outcome.returned (addColumnLinks c n es)) := by
  unfold addColumnStore
  dsimp only
  have hC : ∀ C : Int, C = (if m.numberColumns_ = m.maximumColumns_ then
      cdiv (m.maximumColumns_ * 3) 2 + 100
    else if m.numberElements_ + n > m.maximumElements_ ∧
        m.numberColumns_ * 10 > m.maximumColumns_ * 9 then
        cdiv (m.maximumColumns_ * 3) 2 + 100
      else 0) →
      (C = 0 ∨ C = cdiv (m.maximumColumns_ * 3) 2 + 100) ∧
      (m.numberColumns_ = m.maximumColumns_ → C = cdiv (m.maximumColumns_ * 3) 2 + 100) := by
    intro C hC
    rw [hC]
    split_ifs with h1 h2
    · exact ⟨Or.inr rfl, fun _ => rfl⟩
    · exact ⟨Or.inr rfl, fun _ => rfl⟩
    · exact ⟨Or.inl rfl, fun h => absurd h h1⟩
  have hE : ∀ E : Int, E = (if m.numberElements_ + n > m.maximumElements_ then
      cdiv (3 * (m.numberElements_ + n)) 2 + 1000 else 0) →
      (E = 0 ∨ (E = cdiv (3 * (m.numberElements_ + n)) 2 + 1000 ∧
        m.numberElements_ + n > m.maximumElements_)) := by
    intro E hE
    rw [hE]
    split_ifs with h1
    · exact Or.inr ⟨rfl, h1⟩
    · exact Or.inl rfl
  by_cases h : newRow < m.maximumRows_
  · exact ⟨0, _, _, (hC _ rfl).1, (hC _ rfl).2, Or.inl ⟨rfl, h⟩, hE _ rfl,
      by simp only [if_pos h]; rfl⟩
  · exact ⟨_, _, _, (hC _ rfl).1, (hC _ rfl).2, Or.inr ⟨rfl, not_lt.1 h⟩, hE _ rfl,
      by simp only [if_neg h]; rfl⟩

/-- The capacities after the part of `addColumn` that follows the index check, on a
sized model: each is unchanged or has grown with slack. -/
theorem slack_addColumnStore (m : CoinModel) (hz : Sized m) (n : Int)
    (es : List (Int × Value)) (newRow : Int) (lo up obj : Value) (name : Option String)
    (isInt : Bool) :
    (addColumnStore m n es newRow lo up obj name isInt).Returns (GrowsWithSlack m) := by
  obtain ⟨R, C, E, r1, r2, r3, r4, heq⟩ :=
    addColumnStore_requests m n es newRow lo up obj name isInt
  rw [heq]
  obtain ⟨h2, _, z3, z4, z5, z6, z7, z8, z9, z10⟩ := id hz
  have hG := two_cdiv m.maximumColumns_ (by omega)
  rw [mul_comm 3 m.maximumColumns_] at hG
  have hC : C = 0 ∨ (m.maximumColumns_ < C ∧ 3 * m.maximumColumns_ + 199 ≤ 2 * C) := by
    rcases r1 with h | h
    · exact Or.inl h
    · exact Or.inr ⟨by omega, by omega⟩
  have hR : R = 0 ∨ (m.maximumRows_ < R ∧ 3 * m.maximumRows_ + 199 ≤ 2 * R) := by
    rcases r3 with ⟨h, _⟩ | ⟨h, h'⟩
    · exact Or.inl h
    · have := two_cdiv newRow (by omega)
      exact Or.inr ⟨by omega, by omega⟩
  have hE : E = 0 ∨ (m.maximumElements_ < E ∧ 3 * m.maximumElements_ + 199 ≤ 2 * E) := by
    rcases r4 with h | ⟨h, h'⟩
    · exact Or.inl h
    · have := two_cdiv (m.numberElements_ + n) (by omega)
      exact Or.inr ⟨by omega, by omega⟩
  have hP : R ≠ 0 ∨ C ≠ 0 ∨ E ≠ 0 → (C ≠ 0 ∨ newRow ≥ m.maximumRows_ ∨ E ≠ 0) := by
    rintro (h | h | h)
    · rcases r3 with ⟨h', _⟩ | ⟨_, h'⟩
      · exact absurd h' h
      · exact Or.inr (Or.inl h')
    · exact Or.inl h
    · exact Or.inr (Or.inr h)
  apply Outcome.returns_bind (slack_request m hz R C E _ hR hC hE hP)
  rintro a ⟨sa, ga, _, ac, _, ac0⟩
  have ha2 : a.type_ = 2 := sa.1.trans h2
  have hcl : a.objective_.isSome = true := by
    by_cases h : C = 0
    · have h0 : 0 < m.maximumColumns_ := by
        by_contra hc
        have : m.numberColumns_ = m.maximumColumns_ := by omega
        have := r2 this
        omega
      exact sa.2.2.2.2.2.2.2.2.2.2.2.2.2.1 (z10 h0)
    · exact (ac h).2
  have hlt : a.numberColumns_ < a.maximumColumns_ := by
    rw [sa.2.2.2.2.1]
    by_cases h : C = 0
    · rw [ac0 h]
      by_contra hc
      have : m.numberColumns_ = m.maximumColumns_ := by omega
      have := r2 this
      omega
    · rw [(ac h).1]
      rcases hC with h' | ⟨h', _⟩
      · exact absurd h' h
      · omega
  apply Outcome.returns_bind (sameCapacity_fillColumns_add a a.numberColumns_ ha2 hcl hlt)
  intro b hb
  apply Outcome.returns_bind
    (sameCapacity_fillRows_set (addColumnNamed b lo up obj name isInt) newRow)
  intro c hc
  exact Outcome.returns_returned
    (slack_of_sameCapacity ga (sameCapacity_trans hb (sameCapacity_trans
      (sameCapacity_addColumnNamed b lo up obj name isInt)
      (sameCapacity_trans hc (sameCapacity_addColumnLinks c n es)))))

/-- On a sized model `addRow` aborts on its index check or returns, and then each
capacity is unchanged or has grown with slack. -/
theorem slack_addRow (m : CoinModel) (hz : Sized m) (n : Int) (I : List Int) (V : List Value)
    (lo up : Value) (name : Option String) :
    (addRow m n I V lo up name).isAborted = true ∨
    (addRow m n I V lo up name).Returns (GrowsWithSlack m) := by
  unfold addRow addRowMode
  rw [if_neg (by rw [hz.1]; decide), if_neg (by rw [hz.1]; decide),
    if_neg (by rw [hz.1]; decide)]
  show (Outcome.bind (sortAndCheck m n I V) _).isAborted = true ∨
    (Outcome.bind (sortAndCheck m n I V) _).Returns _
  rcases sortAndCheck_cases m n I V with h | ⟨s, es, last, h⟩
  · left
    cases hq : sortAndCheck m n I V with
    | returned x => rw [hq] at h; cases h
    | aborted x => rfl
    | stuck => rw [hq] at h; cases h
  · right
    rw [h]
    exact slack_addRowStore { m with sortSize_ := s } (sized_sortSize m s hz) n es last lo up
      name

/-- On a sized model `addColumn` aborts on its index check or returns, and then each
capacity is unchanged or has grown with slack. -/
theorem slack_addColumn (m : CoinModel) (hz : Sized m) (n : Int) (I : List Int)
    (V : List Value) (lo up obj : Value) (name : Option String) (isInt : Bool) :
    (addColumn m n I V lo up obj name isInt).isAborted = true ∨
    (addColumn m n I V lo up obj name isInt).Returns (GrowsWithSlack m) := by
  unfold addColumn addColumnMode
  rw [if_neg (by rw [hz.1]; decide), if_neg (by rw [hz.1]; decide),
    if_neg (by rw [hz.1]; decide)]
  show (Outcome.bind (sortAndCheck m n I V) _).isAborted = true ∨
    (Outcome.bind (sortAndCheck m n I V) _).Returns _
  rcases sortAndCheck_cases m n I V with h | ⟨s, es, last, h⟩
  · left
    cases hq : sortAndCheck m n I V with
    | returned x => rw [hq] at h; cases h
    | aborted x => rfl
    | stuck => rw [hq] at h; cases h
  · right
    rw [h]
    exact slack_addColumnStore { m with sortSize_ := s } (sized_sortSize m s hz) n es last
      lo up obj name isInt

/-- The capacities after the growth step of `setElement` on a sized model. -/
theorem slack_setElementGrow (m : CoinModel) (hz : Sized m) (i j : Int) :
    (setElementGrow m i j).Returns (GrowsWithSlack m) := by
  obtain ⟨h2, _, z3, z4, z5, z6, z7, z8, z9, z10⟩ := id hz
  unfold setElementGrow
  dsimp only
  refine Outcome.returns_mono (slack_request m hz _ _ _ _ ?_ ?_ ?_ ?_) (fun a ha => ha.2.1)
  · by_cases h : i ≥ m.maximumRows_
    · have := two_cdiv (i + 1) (by omega)
      rw [if_pos h, if_pos (by omega)]
      exact Or.inr ⟨by omega, by omega⟩
    · rw [if_neg h, if_neg (by omega)]
      exact Or.inl rfl
  · by_cases h : j ≥ m.maximumColumns_
    · have := two_cdiv (j + 1) (by omega)
      rw [if_pos h, if_pos (by omega)]
      exact Or.inr ⟨by omega, by omega⟩
    · rw [if_neg h, if_neg (by omega)]
      exact Or.inl rfl
  · by_cases h : m.numberElements_ = m.maximumElements_
    · have := two_cdiv m.numberElements_ z7
      rw [if_pos h]
      exact Or.inr ⟨by omega, by omega⟩
    · rw [if_neg h]
      exact Or.inl rfl
  · rintro (h | h | h)
    · left
      by_cases h' : i ≥ m.maximumRows_
      · rw [if_pos h']
        omega
      · rw [if_neg h', if_neg (by omega)] at h
        exact absurd rfl h
    · right
      left
      by_cases h' : j ≥ m.maximumColumns_
      · rw [if_pos h']
        omega
      · rw [if_neg h', if_neg (by omega)] at h
        exact absurd rfl h
    · exact Or.inr (Or.inr h)

theorem sized_createList (m : CoinModel) (t : Int) (hz : Sized m) : Sized (createList m t) := by
  obtain ⟨e1, e2, e3, _, e5, _, _, _, e9, _, e11, e12, e13⟩ := sameFields_createList m t
  have es : (createList m t).start_ = m.start_ := by
    unfold createList
    dsimp only
    split_ifs <;> rfl
  unfold Sized
  rw [createList_type, es, e1, e2, e3, e5, e9, e11, e12, e13]
  exact ⟨rfl, hz.2⟩

/-- The first block of `setElement` on a sized model keeps the capacities and leaves a
sized model. -/
theorem sized_setElementMode (m : CoinModel) (hz : Sized m) :
    (setElementMode m).Returns fun a => Sized a ∧ SameCapacity m a := by
  unfold setElementMode
  rw [if_neg (by rw [hz.1]; decide), if_neg (by rw [hz.1]; decide)]
  by_cases h0 : m.links_ = 0
  · rw [if_pos h0, if_pos (Or.inr hz.1)]
    exact Outcome.returns_returned ⟨sized_createList m 1 hz, sameCapacity_createList m 1⟩
  · rw [if_neg h0]
    exact Outcome.returns_returned ⟨hz, sameCapacity_refl m⟩

theorem sized_setElementHash (m : CoinModel) (hz : Sized m) : Sized (setElementHash m) := by
  unfold setElementHash
  split_ifs
  · exact hz
  · exact hz

theorem sized_setElementStringHash (m : CoinModel) (hz : Sized m) :
    Sized (setElementStringHash m) := by
  unfold setElementStringHash
  split_ifs
  · exact hz
  · exact hz

/-- The part of `setElement` for a pair that is not found, on a sized model, with any
final step that keeps the capacities. -/
theorem slack_setElement_insert (a : CoinModel) (i j : Int) (k : CoinModel → CoinModel)
    (hk : ∀ d, SameCapacity d (k d)) (hz : Sized a) :
    ((setElementGrow a i j).bind fun m =>
      (fillColumns m j false false).bind fun m =>
      (fillRows m i false false).bind fun m => Outcome.returned (k m)).Returns
      (GrowsWithSlack a) := by
  apply Outcome.returns_bind (slack_setElementGrow a hz i j)
  intro b hb
  apply Outcome.returns_bind (sameCapacity_fillColumns_set b j)
  intro c hc
  apply Outcome.returns_bind (sameCapacity_fillRows_set c i)
  intro d hd
  exact Outcome.returns_returned
    (slack_of_sameCapacity hb (sameCapacity_trans hc (sameCapacity_trans hd (hk d))))

/-- On a sized model the numeric `setElement` returns, and each capacity is unchanged or
has grown with slack. -/
theorem slack_setElement (m : CoinModel) (hz : Sized m) (i j : Int) (v : Value) :
    (setElement m i j v).Returns (GrowsWithSlack m) := by
  unfold setElement
  apply Outcome.returns_bind (sized_setElementMode m hz)
  rintro a ⟨za, ca⟩
  dsimp only
  have hh := sameCapacity_setElementHash a
  have hm : ∀ x, GrowsWithSlack (setElementHash a) x → GrowsWithSlack m x := by
    intro x hx
    unfold GrowsWithSlack at hx ⊢
    rw [hh.1, hh.2.1, hh.2.2, ca.1, ca.2.1, ca.2.2] at hx
    exact hx
  split_ifs
  · exact Outcome.returns_returned (hm _ ⟨Or.inl rfl, Or.inl rfl, Or.inl rfl⟩)
  · exact Outcome.returns_mono
      (slack_setElement_insert (setElementHash a) i j (fun d => setElementStore d i j v)
        (fun d => sameCapacity_setElementStore d i j v) (sized_setElementHash a za)) hm

/-- On a sized model the string form of `setElement` returns, and each capacity is
unchanged or has grown with slack. -/
theorem slack_setElementString (m : CoinModel) (hz : Sized m) (i j : Int) (s : String) :
    (setElementString m i j s).Returns (GrowsWithSlack m) := by
  unfold setElementString
  apply Outcome.returns_bind (sized_setElementMode m hz)
  rintro a ⟨za, ca⟩
  dsimp only
  have hh := sameCapacity_setElementStringHash a
  have hm : ∀ x, GrowsWithSlack (setElementStringHash a) x → GrowsWithSlack m x := by
    intro x hx
    unfold GrowsWithSlack at hx ⊢
    rw [hh.1, hh.2.1, hh.2.2, ca.1, ca.2.1, ca.2.2] at hx
    exact hx
  split_ifs
  · refine Outcome.returns_returned (hm _ ?_)
    obtain ⟨c1, c2, c3⟩ := sameCapacity_setElementStringValue (setElementStringHash a)
      ((setElementStringHash a).hashElements_.hash i j (setElementStringHash a).elements_) s
    exact ⟨Or.inl c1, Or.inl c2, Or.inl c3⟩
  · exact Outcome.returns_mono
      (slack_setElement_insert (setElementStringHash a) i j
        (fun d => setElementStringValue (setElementStore d i j 1)
          ((setElementStore d i j 1).hashElements_.hash i j (setElementStore d i j 1).elements_)
          s)
        (fun d => sameCapacity_trans (sameCapacity_setElementStore d i j 1)
          (sameCapacity_setElementStringValue _ _ _))
        (sized_setElementStringHash a za)) hm

/-- A scalar row setter, `fillRows(whichRow, true)` followed by stores that keep the
capacities, on a sized model: the column and element capacities stay and the row
capacity follows `SetterGrowth`. -/
theorem setter_rows (m : CoinModel) (hz : Sized m) (w : Int) (k : CoinModel → CoinModel)
    (hk : ∀ d, SameCapacity d (k d)) :
    ((fillRows m w true false).bind fun d => Outcome.returned (k d)).Returns fun a =>
      a.maximumColumns_ = m.maximumColumns_ ∧ a.maximumElements_ = m.maximumElements_ ∧
      SetterGrowth m.maximumRows_ a.maximumRows_ w := by
  have hs := sized_start m hz
  obtain ⟨h2, _, z3, z4, z5, z6, z7, z8, z9, _⟩ := hz
  apply Outcome.returns_bind (force_fillRows m w h2 hs z3 z4 z5 z6 (by omega))
  rintro b ⟨b1, b2, b3⟩
  obtain ⟨c1, c2, c3⟩ := hk b
  exact Outcome.returns_returned ⟨c2.trans b1, c3.trans b2, fun h => c1.trans (b3 (z9 h))⟩

/-- A scalar column setter on a sized model: the row and element capacities stay and the
column capacity follows `SetterGrowth`. -/
theorem setter_columns (m : CoinModel) (hz : Sized m) (w : Int) (k : CoinModel → CoinModel)
    (hk : ∀ d, SameCapacity d (k d)) :
    ((fillColumns m w true false).bind fun d => Outcome.returned (k d)).Returns fun a =>
      a.maximumRows_ = m.maximumRows_ ∧ a.maximumElements_ = m.maximumElements_ ∧
      SetterGrowth m.maximumColumns_ a.maximumColumns_ w := by
  have hs := sized_start m hz
  obtain ⟨h2, _, z3, z4, z5, z6, z7, z8, _, z10⟩ := hz
  apply Outcome.returns_bind (force_fillColumns m w h2 hs z3 z4 z5 z6 (by omega))
  rintro b ⟨b1, b2, b3⟩
  obtain ⟨c1, c2, c3⟩ := hk b
  exact Outcome.returns_returned ⟨c1.trans b1, c3.trans b2, fun h => c2.trans (b3 (z10 h))⟩

theorem growth_setRowLower (m : CoinModel) (hz : Sized m) (w : Int) (v : Value) :
    (setRowLower m w v).Returns fun a =>
      a.maximumColumns_ = m.maximumColumns_ ∧ a.maximumElements_ = m.maximumElements_ ∧
      SetterGrowth m.maximumRows_ a.maximumRows_ w :=
  setter_rows m hz w _ (fun _ => ⟨rfl, rfl, rfl⟩)

theorem growth_setRowUpper (m : CoinModel) (hz : Sized m) (w : Int) (v : Value) :
    (setRowUpper m w v).Returns fun a =>
      a.maximumColumns_ = m.maximumColumns_ ∧ a.maximumElements_ = m.maximumElements_ ∧
      SetterGrowth m.maximumRows_ a.maximumRows_ w :=
  setter_rows m hz w _ (fun _ => ⟨rfl, rfl, rfl⟩)

theorem growth_setColumnLower (m : CoinModel) (hz : Sized m) (w : Int) (v : Value) :
    (setColumnLower m w v).Returns fun a =>
      a.maximumRows_ = m.maximumRows_ ∧ a.maximumElements_ = m.maximumElements_ ∧
      SetterGrowth m.maximumColumns_ a.maximumColumns_ w :=
  setter_columns m hz w _ (fun _ => ⟨rfl, rfl, rfl⟩)

theorem growth_setColumnUpper (m : CoinModel) (hz : Sized m) (w : Int) (v : Value) :
    (setColumnUpper m w v).Returns fun a =>
      a.maximumRows_ = m.maximumRows_ ∧ a.maximumElements_ = m.maximumElements_ ∧
      SetterGrowth m.maximumColumns_ a.maximumColumns_ w :=
  setter_columns m hz w _ (fun _ => ⟨rfl, rfl, rfl⟩)

theorem growth_setColumnObjective (m : CoinModel) (hz : Sized m) (w : Int) (v : Value) :
    (setColumnObjective m w v).Returns fun a =>
      a.maximumRows_ = m.maximumRows_ ∧ a.maximumElements_ = m.maximumElements_ ∧
      SetterGrowth m.maximumColumns_ a.maximumColumns_ w :=
  setter_columns m hz w _ (fun _ => ⟨rfl, rfl, rfl⟩)

theorem growth_setColumnIsInteger (m : CoinModel) (hz : Sized m) (w : Int) (v : Bool) :
    (setColumnIsInteger m w v).Returns fun a =>
      a.maximumRows_ = m.maximumRows_ ∧ a.maximumElements_ = m.maximumElements_ ∧
      SetterGrowth m.maximumColumns_ a.maximumColumns_ w :=
  setter_columns m hz w _ (fun _ => ⟨rfl, rfl, rfl⟩)

theorem slackGrowth_all {m a : CoinModel} (h : GrowsWithSlack m a) :
    SlackGrowth m.maximumRows_ a.maximumRows_ ∧
    SlackGrowth m.maximumColumns_ a.maximumColumns_ ∧
    SlackGrowth m.maximumElements_ a.maximumElements_ :=
  ⟨slackGrowth_of_slack h.1, slackGrowth_of_slack h.2.1, slackGrowth_of_slack h.2.2⟩

/-! ### Generated names -/

theorem toNat_ofNat_small (n : Nat) (h : n < 200) : (Char.ofNat n).toNat = n := by
  have hv : n.isValidChar := Or.inl (by omega)
  unfold Char.ofNat
  rw [dif_pos hv]
  rfl

theorem digits7_spec (n : Nat) (h : n < 10000000) :
    (digits7 n).length = 7 ∧ (∀ c ∈ digits7 n, isDecimalDigit c = true) ∧
    decimalValue (digits7 n) = n := by
  have e : ∀ d : Nat, d < 10 → (Char.ofNat (48 + d)).toNat = 48 + d := fun d hd =>
    toNat_ofNat_small _ (by omega)
  refine ⟨rfl, ?_, ?_⟩
  · intro c hc
    unfold digits7 at hc
    obtain ⟨k, _, rfl⟩ := List.mem_map.1 hc
    unfold isDecimalDigit
    rw [e _ (Nat.mod_lt _ (by norm_num))]
    have := Nat.mod_lt (n / 10 ^ k) (show 10 > 0 by norm_num)
    exact decide_eq_true ⟨by omega, by omega⟩
  · unfold digits7 decimalValue
    simp only [List.map_cons, List.map_nil, List.foldl_cons, List.foldl_nil]
    rw [e _ (Nat.mod_lt _ (by norm_num)), e _ (Nat.mod_lt _ (by norm_num)),
      e _ (Nat.mod_lt _ (by norm_num)), e _ (Nat.mod_lt _ (by norm_num)),
      e _ (Nat.mod_lt _ (by norm_num)), e _ (Nat.mod_lt _ (by norm_num)),
      e _ (Nat.mod_lt _ (by norm_num))]
    norm_num
    omega

theorem lettersValue_append (l : List Char) (c : Char) :
    lettersValue (l ++ [c]) = 26 * lettersValue l + (c.toNat - 97) := by
  unfold lettersValue
  rw [List.foldl_append]
  rfl

theorem letters26_spec : ∀ (fuel k n : Nat), k ≤ fuel → 0 < n → n < 26 ^ k →
    lettersValue (letters26 fuel n) = n ∧
    (∀ c ∈ letters26 fuel n, isSmallLetter c = true) ∧
    0 < (letters26 fuel n).length ∧ (letters26 fuel n).length ≤ k := by
  intro fuel
  induction fuel with
  | zero =>
    intro k n hk h0 hn
    have : k = 0 := by omega
    subst this
    simp at hn
    omega
  | succ f ih =>
    intro k n hk h0 hn
    have e : (Char.ofNat (97 + n % 26)).toNat = 97 + n % 26 :=
      toNat_ofNat_small _ (by have := Nat.mod_lt n (show 26 > 0 by norm_num); omega)
    have hl : isSmallLetter (Char.ofNat (97 + n % 26)) = true := by
      unfold isSmallLetter
      rw [e]
      have := Nat.mod_lt n (show 26 > 0 by norm_num)
      exact decide_eq_true ⟨by omega, by omega⟩
    have hk0 : k ≠ 0 := by
      rintro rfl
      simp at hn
      omega
    obtain ⟨j, rfl⟩ := Nat.exists_eq_succ_of_ne_zero hk0
    unfold letters26
    by_cases h26 : n ≥ 26
    · rw [if_pos h26]
      have hq0 : 0 < n / 26 := Nat.div_pos h26 (by norm_num)
      have hq : n / 26 < 26 ^ j := by
        rw [Nat.div_lt_iff_lt_mul (by norm_num)]
        rw [pow_succ] at hn
        exact hn
      obtain ⟨i1, i2, i3, i4⟩ := ih j (n / 26) (by omega) hq0 hq
      refine ⟨?_, ?_, ?_, ?_⟩
      · rw [lettersValue_append, i1, e]
        have := Nat.div_add_mod n 26
        omega
      · intro c hc
        rcases List.mem_append.1 hc with h | h
        · exact i2 c h
        · rw [List.mem_singleton.1 h]
          exact hl
      · rw [List.length_append]
        simp
      · rw [List.length_append]
        simp
        omega
    · rw [if_neg h26, if_pos (by omega)]
      refine ⟨?_, ?_, by simp, by simp⟩
      · unfold lettersValue
        simp only [List.foldl_cons, List.foldl_nil]
        rw [e, Nat.mod_eq_of_lt (by omega)]
        omega
      · intro c hc
        rw [List.mem_singleton.1 hc]
        exact hl

theorem filter_letters_of_digits (l : List Char) (h : ∀ c ∈ l, isDecimalDigit c = true) :
    l.filter isSmallLetter = [] := by
  rw [List.filter_eq_nil_iff]
  intro c hc
  have := h c hc
  unfold isDecimalDigit at this
  unfold isSmallLetter
  have := of_decide_eq_true this
  simp only [decide_eq_true_eq, not_and, not_le]
  omega

theorem filter_letters_padded (l : List Char) (k : Nat)
    (h : ∀ c ∈ l, isSmallLetter c = true) :
    (l ++ List.replicate k (Char.ofNat 48)).filter isSmallLetter = l := by
  rw [List.filter_append, List.filter_eq_self.2 h]
  have : (List.replicate k (Char.ofNat 48)).filter isSmallLetter = [] := by
    rw [List.filter_eq_nil_iff]
    intro c hc
    rw [(List.mem_replicate.1 hc).2]
    decide
  rw [this, List.append_nil]

theorem name_spec (ch : Char) (n : Int) (h0 : 0 ≤ n) (h1 : n ≤ 2147483647) :
    (Coin8CharacterName ch n).length = 8 ∧ (Coin8CharacterName ch n).data.head? = some ch ∧
    numberOfName (Coin8CharacterName ch n).data.tail = n.toNat ∧
    (10000000 ≤ n → (letters26 8 n.toNat).length ≤ 7 ∧
      lettersValue (letters26 8 n.toNat) = n.toNat) := by
  unfold Coin8CharacterName
  by_cases hn : n < 10000000
  · rw [if_pos hn, if_neg (by omega), List.nil_append]
    obtain ⟨d1, d2, d3⟩ := digits7_spec n.natAbs (by omega)
    refine ⟨?_, rfl, ?_, fun h => absurd hn (by omega)⟩
    · show (ch :: digits7 n.natAbs).length = 8
      rw [List.length_cons, d1]
    · show numberOfName (digits7 n.natAbs) = n.toNat
      unfold numberOfName
      rw [filter_letters_of_digits _ d2]
      simp only [List.isEmpty_nil, if_true]
      rw [d3]
      omega
  · rw [if_neg hn]
    dsimp only
    obtain ⟨l1, l2, l3, l4⟩ := letters26_spec 8 7 n.toNat (by norm_num) (by omega)
      (by norm_num; omega)
    refine ⟨?_, rfl, ?_, fun _ => ⟨l4, l1⟩⟩
    · show (ch :: (letters26 8 n.toNat ++
        List.replicate (7 - (letters26 8 n.toNat).length) (Char.ofNat 48))).length = 8
      rw [List.length_cons, List.length_append, List.length_replicate]
      omega
    · show numberOfName (letters26 8 n.toNat ++
        List.replicate (7 - (letters26 8 n.toNat).length) (Char.ofNat 48)) = n.toNat
      unfold numberOfName
      rw [filter_letters_padded _ _ l2]
      have : (letters26 8 n.toNat).isEmpty = false := by
        cases hx : letters26 8 n.toNat with
        | nil => rw [hx] at l3; simp at l3
        | cons a b => rfl
      rw [this]
      simp only [Bool.false_eq_true, if_false]
      exact l1

theorem name_injective (ch : Char) (n k : Int) (h0 : 0 ≤ n) (h1 : n ≤ 2147483647)
    (k0 : 0 ≤ k) (k1 : k ≤ 2147483647)
    (h : Coin8CharacterName ch n = Coin8CharacterName ch k) : n = k := by
  have a := (name_spec ch n h0 h1).2.2.1
  have b := (name_spec ch k k0 k1).2.2.1
  rw [h, b] at a
  omega

/-! ### The names through `resize`, `fillRows`, `fillColumns`, `addRow` and `addColumn` -/

theorem namesKept_refl (m : CoinModel) : NamesKept m m :=
  ⟨rfl, rfl, rfl, rfl, rfl, fun _ => ⟨rfl, rfl⟩, id, id⟩

theorem namesKept_trans {a b c : CoinModel} (h1 : NamesKept a b) (h2 : NamesKept b c) :
    NamesKept a c := by
  obtain ⟨a1, a2, a3, a4, a5, a6, a7, a8⟩ := h1
  obtain ⟨b1, b2, b3, b4, b5, b6, b7, b8⟩ := h2
  refine ⟨b1.trans a1, b2.trans a2, b3.trans a3, b4.trans a4, b5.trans a5, fun h => ?_,
    fun h => b7 (a7 h), fun h => b8 (a8 h)⟩
  have hb := b6 (a1.trans h)
  have ha := a6 h
  exact ⟨hb.1.trans ha.1, hb.2.trans ha.2⟩

/-- A model whose name fields are those of `m`, up to the capacity of the tables when
names are switched on. -/
theorem namesKept_of_fields (m a : CoinModel) (h1 : a.noNames_ = m.noNames_)
    (h2 : a.rowName_ = m.rowName_ ∨
      (m.noNames_ = false ∧ ∃ k, a.rowName_ = m.rowName_.resize k))
    (h3 : a.columnName_ = m.columnName_ ∨
      (m.noNames_ = false ∧ ∃ k, a.columnName_ = m.columnName_.resize k))
    (h4 : 0 ≤ m.numberRows_ → 0 ≤ a.numberRows_)
    (h5 : 0 ≤ m.numberColumns_ → 0 ≤ a.numberColumns_) : NamesKept m a := by
  refine ⟨h1, ?_, ?_, ?_, ?_, fun h => ⟨?_, ?_⟩, h4, h5⟩
  · rcases h2 with e | ⟨_, k, e⟩
    · rw [e]
    · rw [e]
      rfl
  · rcases h2 with e | ⟨_, k, e⟩
    · rw [e]
    · rw [e]
      rfl
  · rcases h3 with e | ⟨_, k, e⟩
    · rw [e]
    · rw [e]
      rfl
  · rcases h3 with e | ⟨_, k, e⟩
    · rw [e]
    · rw [e]
      rfl
  · rcases h2 with e | ⟨e', _⟩
    · exact e
    · rw [h] at e'
      cases e'
  · rcases h3 with e | ⟨e', _⟩
    · exact e
    · rw [h] at e'
      cases e'

theorem names_createList (m : CoinModel) (t : Int) : NamesKept m (createList m t) := by
  unfold createList
  dsimp only
  split_ifs
  all_goals exact ⟨rfl, rfl, rfl, rfl, rfl, fun _ => ⟨rfl, rfl⟩, id, id⟩

theorem names_resizeElements (m : CoinModel) (E : Int) : NamesKept m (resizeElements m E) := by
  unfold resizeElements
  dsimp only
  split_ifs
  all_goals exact ⟨rfl, rfl, rfl, rfl, rfl, fun _ => ⟨rfl, rfl⟩, id, id⟩

theorem names_fillRowsFill (m : CoinModel) (w : Int) (f : Bool) :
    NamesKept m (fillRowsFill m w f) := by
  unfold fillRowsFill createList
  dsimp only
  split_ifs
  all_goals
    refine ⟨rfl, rfl, rfl, rfl, rfl, fun _ => ⟨rfl, rfl⟩, ?_, id⟩
    first
      | exact id
      | exact fun h => le_trans h (le_max_right _ _)

theorem names_fillColumnsFill (m : CoinModel) (w : Int) (f : Bool) :
    NamesKept m (fillColumnsFill m w f) := by
  unfold fillColumnsFill createList
  dsimp only
  split_ifs
  all_goals
    refine ⟨rfl, rfl, rfl, rfl, rfl, fun _ => ⟨rfl, rfl⟩, id, ?_⟩
    first
      | exact id
      | exact fun h => le_trans h (le_max_right _ _)

theorem names_fillRows_nested (m a : CoinModel) (w : Int) (h1 : a.type_ ≠ -1)
    (h1' : a.type_ ≠ 1) (h3' : a.type_ ≠ 3) (h2 : a.rowLower_.isSome = true)
    (h3 : w < a.maximumRows_) (hn : NamesKept m a) :
    (fillRowsWith resizeStuck a w true false).Returns fun x =>
      NamesKept m x ∧ x.type_ ≠ 3 :=
  fillRows_nested_returns a w _ h1 h1' h2 h3
    ⟨namesKept_trans hn (names_fillRowsFill a w false), (keeps_fillRowsFill a w false h3').2.2.1⟩

theorem names_fillColumns_nested (m a : CoinModel) (w : Int) (h1 : a.type_ ≠ -1)
    (h1' : a.type_ ≠ 0) (h3' : a.type_ ≠ 3) (h2 : a.objective_.isSome = true)
    (h3 : w < a.maximumColumns_) (hn : NamesKept m a) :
    (fillColumnsWith resizeStuck a w true false).Returns fun x =>
      NamesKept m x ∧ x.type_ ≠ 3 :=
  fillColumns_nested_returns a w _ h1 h1' h2 h3
    ⟨namesKept_trans hn (names_fillColumnsFill a w false),
      (keeps_fillColumnsFill a w false h3').2.2.1⟩

theorem names_resizeRows (m : CoinModel) (R E : Int) (h : m.type_ ≠ 3) :
    (resizeRows (fillRowsWith resizeStuck) m R E).Returns fun a =>
      NamesKept m a ∧ a.type_ ≠ 3 := by
  unfold resizeRows
  by_cases h02 : m.type_ = 0 ∨ m.type_ = 2
  · rw [if_pos h02]
    dsimp only
    by_cases hR : max R m.numberRows_ > m.maximumRows_
    · rw [if_pos hR]
      have hlt : m.numberRows_ - 1 < max R m.numberRows_ := by
        have := le_max_right R m.numberRows_
        omega
      have hne : m.type_ ≠ -1 := by rcases h02 with h' | h' <;> omega
      have hn1 : m.type_ ≠ 1 := by rcases h02 with h' | h' <;> omega
      split_ifs
      all_goals first
        | (refine Outcome.returns_returned ?_
           exact ⟨namesKept_of_fields m _ rfl (Or.inl rfl) (Or.inl rfl) id id, h⟩)
        | (refine Outcome.returns_returned ?_
           exact ⟨namesKept_of_fields m _ rfl (Or.inr ⟨‹_›, _, rfl⟩) (Or.inl rfl) id id, h⟩)
        | (refine names_fillRows_nested m _ _ ?_ ?_ ?_ ?_ ?_ ?_
           · exact hne
           · exact hn1
           · exact h
           · rfl
           · exact hlt
           · exact namesKept_of_fields m _ rfl (Or.inl rfl) (Or.inl rfl)
               (fun _ => le_refl 0) id)
        | (refine names_fillRows_nested m _ _ ?_ ?_ ?_ ?_ ?_ ?_
           · exact hne
           · exact hn1
           · exact h
           · rfl
           · exact hlt
           · exact namesKept_of_fields m _ rfl (Or.inr ⟨‹_›, _, rfl⟩) (Or.inl rfl)
               (fun _ => le_refl 0) id)
    · rw [if_neg hR]
      exact Outcome.returns_returned ⟨namesKept_refl m, h⟩
  · rw [if_neg h02, if_neg h]
    exact Outcome.returns_returned ⟨namesKept_refl m, h⟩

theorem names_resizeColumns (m : CoinModel) (C E : Int) (h : m.type_ ≠ 3) :
    (resizeColumns (fillColumnsWith resizeStuck) m C E).Returns fun a =>
      NamesKept m a ∧ a.type_ ≠ 3 := by
  unfold resizeColumns
  by_cases h12 : m.type_ = 1 ∨ m.type_ = 2
  · rw [if_pos h12]
    dsimp only
    by_cases hC : max C m.numberColumns_ > m.maximumColumns_
    · rw [if_pos hC]
      have hlt : m.numberColumns_ - 1 < max C m.numberColumns_ := by
        have := le_max_right C m.numberColumns_
        omega
      have hne : m.type_ ≠ -1 := by rcases h12 with h' | h' <;> omega
      have hn0 : m.type_ ≠ 0 := by rcases h12 with h' | h' <;> omega
      split_ifs
      all_goals first
        | (refine Outcome.returns_returned ?_
           exact ⟨namesKept_of_fields m _ rfl (Or.inl rfl) (Or.inl rfl) id id, h⟩)
        | (refine Outcome.returns_returned ?_
           exact ⟨namesKept_of_fields m _ rfl (Or.inl rfl) (Or.inr ⟨‹_›, _, rfl⟩) id id, h⟩)
        | (refine names_fillColumns_nested m _ _ ?_ ?_ ?_ ?_ ?_ ?_
           · exact hne
           · exact hn0
           · exact h
           · rfl
           · exact hlt
           · exact namesKept_of_fields m _ rfl (Or.inl rfl) (Or.inl rfl) id
               (fun _ => le_refl 0))
        | (refine names_fillColumns_nested m _ _ ?_ ?_ ?_ ?_ ?_ ?_
           · exact hne
           · exact hn0
           · exact h
           · rfl
           · exact hlt
           · exact namesKept_of_fields m _ rfl (Or.inl rfl) (Or.inr ⟨‹_›, _, rfl⟩) id
               (fun _ => le_refl 0))
    · rw [if_neg hC]
      exact Outcome.returns_returned ⟨namesKept_refl m, h⟩
  · rw [if_neg h12]
    exact Outcome.returns_returned ⟨namesKept_refl m, h⟩

/-- `resize` keeps the names. -/
theorem names_resize (m : CoinModel) (R C E : Int) (h : m.type_ ≠ 3) :
    (resize m R C E).Returns fun a => NamesKept m a ∧ a.type_ ≠ 3 := by
  unfold resize resizeWith
  dsimp only
  apply Outcome.returns_bind (names_resizeRows m R _ h)
  intro a ha
  apply Outcome.returns_bind (names_resizeColumns a C _ ha.2)
  intro b hb
  rw [if_neg hb.2]
  exact Outcome.returns_returned
    ⟨namesKept_trans ha.1 (namesKept_trans hb.1 (names_resizeElements b _)),
      (keeps_resizeElements b _ hb.2).2.2.1⟩

theorem namesKept_type (m : CoinModel) (t : Int) : NamesKept m { m with type_ := t } :=
  ⟨rfl, rfl, rfl, rfl, rfl, fun _ => ⟨rfl, rfl⟩, id, id⟩

theorem names_fillRowsCreate (m : CoinModel) (w : Int) (h : m.type_ ≠ 3) :
    (fillRowsCreate resize m w).Returns (fun x => NamesKept m x.1 ∧ x.1.type_ ≠ 3) := by
  unfold fillRowsCreate
  apply Outcome.returns_bind (P := fun (x : CoinModel) => NamesKept m x ∧ x.type_ ≠ 3)
  · split_ifs
    · exact Outcome.returns_mono
        (names_resize { m with type_ := 0 } _ _ _ (by decide : (0 : Int) ≠ 3))
        (fun a ha => ⟨namesKept_trans (namesKept_type m 0) ha.1, ha.2⟩)
    · exact Outcome.returns_returned ⟨namesKept_type m 2, (by decide : (2 : Int) ≠ 3)⟩
    · exact Outcome.returns_returned ⟨namesKept_refl m, h⟩
  · intro a ha
    have hk : NamesKept a { a with numberRows_ := 0 } :=
      ⟨rfl, rfl, rfl, rfl, rfl, fun _ => ⟨rfl, rfl⟩, fun _ => le_refl 0, id⟩
    apply Outcome.returns_bind
      (P := fun (x : CoinModel × Int) => NamesKept m x.1 ∧ x.1.type_ ≠ 3)
    · dsimp only
      split_ifs
      all_goals first
        | exact Outcome.returns_returned ha
        | (apply Outcome.returns_bind
            (Outcome.returns_mono (names_resize { a with numberRows_ := 0 } _ _ _ ha.2)
              (fun b hb => (⟨namesKept_trans ha.1 (namesKept_trans hk hb.1), hb.2⟩ :
                NamesKept m b ∧ b.type_ ≠ 3)))
           intro b hb
           exact Outcome.returns_returned hb)
    · rintro ⟨b, w'⟩ hb
      dsimp only at hb ⊢
      split_ifs
      all_goals first
        | exact Outcome.returns_returned hb
        | (apply Outcome.returns_bind
            (Outcome.returns_mono (names_resize _ _ _ _ hb.2)
              (fun c hc => (⟨namesKept_trans hb.1 hc.1, hc.2⟩ :
                NamesKept m c ∧ c.type_ ≠ 3)))
           intro c hc
           exact Outcome.returns_returned hc)

theorem names_fillColumnsCreate (m : CoinModel) (w : Int) (h : m.type_ ≠ 3) :
    (fillColumnsCreate resize m w).Returns (fun x => NamesKept m x.1 ∧ x.1.type_ ≠ 3) := by
  unfold fillColumnsCreate
  apply Outcome.returns_bind (P := fun (x : CoinModel) => NamesKept m x ∧ x.type_ ≠ 3)
  · split_ifs
    · exact Outcome.returns_mono
        (names_resize { m with type_ := 1 } _ _ _ (by decide : (1 : Int) ≠ 3))
        (fun a ha => ⟨namesKept_trans (namesKept_type m 1) ha.1, ha.2⟩)
    · exact Outcome.returns_returned ⟨namesKept_type m 2, (by decide : (2 : Int) ≠ 3)⟩
    · exact Outcome.returns_returned ⟨namesKept_refl m, h⟩
  · intro a ha
    have hk : NamesKept a { a with numberColumns_ := 0 } :=
      ⟨rfl, rfl, rfl, rfl, rfl, fun _ => ⟨rfl, rfl⟩, id, fun _ => le_refl 0⟩
    apply Outcome.returns_bind
      (P := fun (x : CoinModel × Int) => NamesKept m x.1 ∧ x.1.type_ ≠ 3)
    · dsimp only
      split_ifs
      all_goals first
        | exact Outcome.returns_returned ha
        | (apply Outcome.returns_bind
            (Outcome.returns_mono (names_resize { a with numberColumns_ := 0 } _ _ _ ha.2)
              (fun b hb => (⟨namesKept_trans ha.1 (namesKept_trans hk hb.1), hb.2⟩ :
                NamesKept m b ∧ b.type_ ≠ 3)))
           intro b hb
           exact Outcome.returns_returned hb)
    · rintro ⟨b, w'⟩ hb
      dsimp only at hb ⊢
      split_ifs
      all_goals first
        | exact Outcome.returns_returned hb
        | (apply Outcome.returns_bind
            (Outcome.returns_mono (names_resize _ _ _ _ hb.2)
              (fun c hc => (⟨namesKept_trans hb.1 hc.1, hc.2⟩ :
                NamesKept m c ∧ c.type_ ≠ 3)))
           intro c hc
           exact Outcome.returns_returned hc)

/-- `fillRows` keeps the names. -/
theorem names_fillRows (m : CoinModel) (w : Int) (f a : Bool) (h : m.type_ ≠ 3) :
    (fillRows m w f a).Returns fun x => NamesKept m x ∧ x.type_ ≠ 3 := by
  unfold fillRows fillRowsWith
  apply Outcome.returns_bind
    (P := fun (x : CoinModel × Int) => NamesKept m x.1 ∧ x.1.type_ ≠ 3)
  · split_ifs
    · exact names_fillRowsCreate m w h
    · exact Outcome.returns_returned ⟨namesKept_refl m, h⟩
  · rintro ⟨b, w'⟩ hb
    exact Outcome.returns_returned
      ⟨namesKept_trans hb.1 (names_fillRowsFill _ _ _), (keeps_fillRowsFill _ _ _ hb.2).2.2.1⟩

/-- `fillColumns` keeps the names. -/
theorem names_fillColumns (m : CoinModel) (w : Int) (f a : Bool) (h : m.type_ ≠ 3) :
    (fillColumns m w f a).Returns fun x => NamesKept m x ∧ x.type_ ≠ 3 := by
  unfold fillColumns fillColumnsWith
  apply Outcome.returns_bind
    (P := fun (x : CoinModel × Int) => NamesKept m x.1 ∧ x.1.type_ ≠ 3)
  · split_ifs
    · exact names_fillColumnsCreate m w h
    · exact Outcome.returns_returned ⟨namesKept_refl m, h⟩
  · rintro ⟨b, w'⟩ hb
    exact Outcome.returns_returned
      ⟨namesKept_trans hb.1 (names_fillColumnsFill _ _ _),
        (keeps_fillColumnsFill _ _ _ hb.2).2.2.1⟩

theorem names_addRowMode (m : CoinModel) (h : m.type_ ≠ 3) :
    (addRowMode m).Returns fun a => NamesKept m a ∧ a.type_ ≠ 3 := by
  unfold addRowMode
  split_ifs
  · exact Outcome.returns_mono
      (names_resize { m with type_ := 0 } _ _ _ (by decide : (0 : Int) ≠ 3))
      (fun a ha => ⟨namesKept_trans (namesKept_type m 0) ha.1, ha.2⟩)
  · exact Outcome.returns_returned ⟨names_createList m 1, (keeps_createList m 1).2.2.1⟩
  · exact Outcome.returns_returned ⟨namesKept_refl m, h⟩

theorem names_addColumnMode (m : CoinModel) (h : m.type_ ≠ 3) :
    (addColumnMode m).Returns fun a => NamesKept m a ∧ a.type_ ≠ 3 := by
  unfold addColumnMode
  split_ifs
  · exact Outcome.returns_mono
      (names_resize { m with type_ := 1 } _ _ _ (by decide : (1 : Int) ≠ 3))
      (fun a ha => ⟨namesKept_trans (namesKept_type m 1) ha.1, ha.2⟩)
  · exact Outcome.returns_returned ⟨names_createList m 2, (keeps_createList m 2).2.2.1⟩
  · exact Outcome.returns_returned ⟨namesKept_refl m, h⟩

theorem fillRows_set_eq (m : CoinModel) (w : Int) :
    fillRows m w false false = Outcome.returned (fillRowsFill m w false) := by
  unfold fillRows fillRowsWith
  rw [if_neg (by simp)]
  rfl

theorem fillColumns_set_eq (m : CoinModel) (w : Int) :
    fillColumns m w false false = Outcome.returned (fillColumnsFill m w false) := by
  unfold fillColumns fillColumnsWith
  rw [if_neg (by simp)]
  rfl

theorem addRowLinks_names (m : CoinModel) (n : Int) (es : List (Int × Value)) :
    (addRowLinks m n es).noNames_ = m.noNames_ ∧
    (addRowLinks m n es).rowName_ = m.rowName_ ∧
    (addRowLinks m n es).columnName_ = m.columnName_ ∧
    (addRowLinks m n es).numberRows_ = m.numberRows_ + 1 := by
  unfold addRowLinks
  dsimp only
  split_ifs <;> exact ⟨rfl, rfl, rfl, rfl⟩

theorem addColumnLinks_names (m : CoinModel) (n : Int) (es : List (Int × Value)) :
    (addColumnLinks m n es).noNames_ = m.noNames_ ∧
    (addColumnLinks m n es).rowName_ = m.rowName_ ∧
    (addColumnLinks m n es).columnName_ = m.columnName_ ∧
    (addColumnLinks m n es).numberColumns_ = m.numberColumns_ + 1 := by
  unfold addColumnLinks
  dsimp only
  split_ifs <;> exact ⟨rfl, rfl, rfl, rfl⟩

theorem name_addHash (h : CoinModelHash) (i : Int) (s : String) (h0 : 0 ≤ i) :
    (h.addHash i s).name i = some s := by
  unfold CoinModelHash.name CoinModelHash.addHash
  dsimp only
  rw [if_pos ⟨h0, lt_of_lt_of_le (by omega) (le_max_right _ _)⟩, Function.update_same]

theorem name_congr (h h' : CoinModelHash) (e1 : h'.names = h.names)
    (e2 : h'.numberItems_ = h.numberItems_) (i : Int) : h'.name i = h.name i := by
  unfold CoinModelHash.name
  rw [e1, e2]

theorem addRowNamed_names (b : CoinModel) (lo up : Value) :
    (addRowNamed b lo up none).noNames_ = b.noNames_ ∧
    (addRowNamed b lo up none).numberRows_ = b.numberRows_ ∧
    (addRowNamed b lo up none).type_ = b.type_ ∧
    (addRowNamed b lo up none).columnName_ = b.columnName_ ∧
    (b.noNames_ = false → (addRowNamed b lo up none).rowName_ =
      b.rowName_.addHash b.numberRows_ (Coin8CharacterName (Char.ofNat 114) b.numberRows_)) ∧
    (b.noNames_ = true → (addRowNamed b lo up none).rowName_ = b.rowName_) := by
  unfold addRowNamed
  dsimp only
  split_ifs with h
  · exact ⟨rfl, rfl, rfl, rfl, fun _ => rfl, fun h' => by rw [h] at h'; cases h'⟩
  · exact ⟨rfl, rfl, rfl, rfl, fun h' => absurd h' h, fun _ => rfl⟩

theorem addColumnNamed_names (b : CoinModel) (lo up obj : Value) (isInt : Bool) :
    (addColumnNamed b lo up obj none isInt).noNames_ = b.noNames_ ∧
    (addColumnNamed b lo up obj none isInt).numberColumns_ = b.numberColumns_ ∧
    (addColumnNamed b lo up obj none isInt).type_ = b.type_ ∧
    (addColumnNamed b lo up obj none isInt).rowName_ = b.rowName_ ∧
    (b.noNames_ = false → (addColumnNamed b lo up obj none isInt).columnName_ =
      b.columnName_.addHash b.numberColumns_
        (Coin8CharacterName (Char.ofNat 99) b.numberColumns_)) ∧
    (b.noNames_ = true → (addColumnNamed b lo up obj none isInt).columnName_ =
      b.columnName_) := by
  unfold addColumnNamed
  dsimp only
  split_ifs with h
  · exact ⟨rfl, rfl, rfl, rfl, fun _ => rfl, fun h' => by rw [h] at h'; cases h'⟩
  · exact ⟨rfl, rfl, rfl, rfl, fun h' => absurd h' h, fun _ => rfl⟩

/-- The name that `addRow` without a name leaves for the new row. -/
theorem addRowStore_names (m : CoinModel) (n : Int) (es : List (Int × Value))
    (nc : Int) (lo up : Value) (h : m.type_ ≠ 3) (h0 : 0 ≤ m.numberRows_) :
    (addRowStore m n es nc lo up none).Returns fun a =>
      0 ≤ a.numberRows_ - 1 ∧ a.noNames_ = m.noNames_ ∧
      (m.noNames_ = false → a.rowName_.name (a.numberRows_ - 1) =
        some (Coin8CharacterName (Char.ofNat 114) (a.numberRows_ - 1))) ∧
      (m.noNames_ = true → a.rowName_ = m.rowName_ ∧ a.columnName_ = m.columnName_) := by
  obtain ⟨R, C, E, _, e⟩ := addRowStore_eq m n es nc lo up none
  rw [e]
  apply Outcome.returns_bind (P := fun (x : CoinModel) => NamesKept m x ∧ x.type_ ≠ 3)
  · split_ifs
    · exact names_resize m R C E h
    · exact Outcome.returns_returned ⟨namesKept_refl m, h⟩
  intro a ha
  apply Outcome.returns_bind
    (Outcome.returns_mono (names_fillRows a a.numberRows_ false true ha.2)
      (fun b hb => (⟨namesKept_trans ha.1 hb.1, hb.2⟩ : NamesKept m b ∧ b.type_ ≠ 3)))
  intro b hb
  rw [fillColumns_set_eq]
  refine Outcome.returns_returned ?_
  obtain ⟨d1, d2, d3, d4, d5, d6⟩ := addRowNamed_names b lo up
  obtain ⟨l1, l2, l3, l4⟩ :=
    addRowLinks_names (fillColumnsFill (addRowNamed b lo up none) nc false) n es
  obtain ⟨c1, c2, c3, c4, c5, c6, c7, c8⟩ :=
    names_fillColumnsFill (addRowNamed b lo up none) nc false
  have cr := (fillColumnsFill_rows (addRowNamed b lo up none) nc false).1.1
  obtain ⟨b1, b2, b3, b4, b5, b6, b7, b8⟩ := hb.1
  have hb0 : 0 ≤ b.numberRows_ := b7 h0
  have hnum : (addRowLinks (fillColumnsFill (addRowNamed b lo up none) nc false) n es).numberRows_
      - 1 = b.numberRows_ := by
    rw [l4, cr, d2]
    omega
  refine ⟨by rw [hnum]; exact hb0, by rw [l1, c1, d1, b1], fun hno => ?_, fun hno => ?_⟩
  · rw [hnum, l2, name_congr _ _ c2 c3, d5 (b1.trans hno)]
    exact name_addHash _ _ _ hb0
  · have hd : (addRowNamed b lo up none).noNames_ = true := by rw [d1, b1, hno]
    rw [l2, l3, (c6 hd).1, (c6 hd).2, d6 (b1.trans hno), d4]
    exact b6 hno

/-- The name that `addColumn` without a name leaves for the new column. -/
theorem addColumnStore_names (m : CoinModel) (n : Int) (es : List (Int × Value))
    (nr : Int) (lo up obj : Value) (isInt : Bool) (h : m.type_ ≠ 3)
    (h0 : 0 ≤ m.numberColumns_) :
    (addColumnStore m n es nr lo up obj none isInt).Returns fun a =>
      0 ≤ a.numberColumns_ - 1 ∧ a.noNames_ = m.noNames_ ∧
      (m.noNames_ = false → a.columnName_.name (a.numberColumns_ - 1) =
        some (Coin8CharacterName (Char.ofNat 99) (a.numberColumns_ - 1))) ∧
      (m.noNames_ = true → a.rowName_ = m.rowName_ ∧ a.columnName_ = m.columnName_) := by
  obtain ⟨R, C, E, _, e⟩ := addColumnStore_eq m n es nr lo up obj none isInt
  rw [e]
  apply Outcome.returns_bind (P := fun (x : CoinModel) => NamesKept m x ∧ x.type_ ≠ 3)
  · split_ifs
    · exact names_resize m R C E h
    · exact Outcome.returns_returned ⟨namesKept_refl m, h⟩
  intro a ha
  apply Outcome.returns_bind
    (Outcome.returns_mono (names_fillColumns a a.numberColumns_ false true ha.2)
      (fun b hb => (⟨namesKept_trans ha.1 hb.1, hb.2⟩ : NamesKept m b ∧ b.type_ ≠ 3)))
  intro b hb
  rw [fillRows_set_eq]
  refine Outcome.returns_returned ?_
  obtain ⟨d1, d2, d3, d4, d5, d6⟩ := addColumnNamed_names b lo up obj isInt
  obtain ⟨l1, l2, l3, l4⟩ :=
    addColumnLinks_names (fillRowsFill (addColumnNamed b lo up obj none isInt) nr false) n es
  obtain ⟨c1, c2, c3, c4, c5, c6, c7, c8⟩ :=
    names_fillRowsFill (addColumnNamed b lo up obj none isInt) nr false
  have cr := (fillRowsFill_columns (addColumnNamed b lo up obj none isInt) nr false).1.1
  obtain ⟨b1, b2, b3, b4, b5, b6, b7, b8⟩ := hb.1
  have hb0 : 0 ≤ b.numberColumns_ := b8 h0
  have hnum : (addColumnLinks (fillRowsFill (addColumnNamed b lo up obj none isInt) nr false)
      n es).numberColumns_ - 1 = b.numberColumns_ := by
    rw [l4, cr, d2]
    omega
  refine ⟨by rw [hnum]; exact hb0, by rw [l1, c1, d1, b1], fun hno => ?_, fun hno => ?_⟩
  · rw [hnum, l3, name_congr _ _ c4 c5, d5 (b1.trans hno)]
    exact name_addHash _ _ _ hb0
  · have hd : (addColumnNamed b lo up obj none isInt).noNames_ = true := by rw [d1, b1, hno]
    rw [l2, l3, (c6 hd).1, (c6 hd).2, d6 (b1.trans hno), d4]
    exact b6 hno

/-- A good batch passes `sortAndCheck`, which hands on the model with at most another
size of the sort buffers. -/
theorem sortAndCheck_model (m : CoinModel) (indices : List Int) (elements : List Value)
    (hb : ¬ BadIndices indices) :
    (sortAndCheck m indices.length indices elements).Returns
      (fun r => r.1 = m ∨ r.1 = { m with sortSize_ := (indices.length : Int) + 100 }) := by
  unfold sortAndCheck
  by_cases hne : indices = []
  · subst hne
    rw [if_neg (by simp)]
    exact ⟨_, rfl, Or.inl rfl⟩
  · have hkey := (checked_keys_bad_iff indices elements hne).not.2 hb
    have hpos := length_pos_of_ne_nil hne
    rw [if_pos hpos]
    dsimp only at hkey ⊢
    rw [not_or] at hkey
    rw [if_neg hkey.1, if_neg hkey.2]
    split_ifs
    all_goals first
      | exact ⟨_, rfl, Or.inl rfl⟩
      | exact ⟨_, rfl, Or.inr rfl⟩

theorem addRow_names (m : CoinModel) (indices : List Int) (elements : List Value)
    (lo up : Value) (h : m.type_ ≠ 3) (h0 : 0 ≤ m.numberRows_) (hb : ¬ BadIndices indices) :
    (addRow m indices.length indices elements lo up none).Returns fun a =>
      0 ≤ a.numberRows_ - 1 ∧
      (m.noNames_ = false → a.rowName_.name (a.numberRows_ - 1) =
        some (Coin8CharacterName (Char.ofNat 114) (a.numberRows_ - 1))) ∧
      (m.noNames_ = true → a.rowName_ = m.rowName_ ∧ a.columnName_ = m.columnName_) := by
  unfold addRow
  apply Outcome.returns_bind (names_addRowMode m h)
  rintro a ⟨⟨a1, a2, a3, a4, a5, a6, a7, a8⟩, at3⟩
  apply Outcome.returns_bind (sortAndCheck_model a indices elements hb)
  rintro ⟨b, es, nc⟩ hb'
  dsimp only at hb' ⊢
  have e1 : b.type_ = a.type_ := by rcases hb' with e | e <;> rw [e]
  have e2 : b.numberRows_ = a.numberRows_ := by rcases hb' with e | e <;> rw [e]
  have e3 : b.noNames_ = a.noNames_ := by rcases hb' with e | e <;> rw [e]
  have e4 : b.rowName_ = a.rowName_ := by rcases hb' with e | e <;> rw [e]
  have e5 : b.columnName_ = a.columnName_ := by rcases hb' with e | e <;> rw [e]
  refine Outcome.returns_mono
    (addRowStore_names b _ es nc lo up (by rw [e1]; exact at3) (by rw [e2]; exact a7 h0)) ?_
  rintro c ⟨c1, c2, c3, c4⟩
  refine ⟨c1, fun hno => c3 (by rw [e3, a1, hno]), fun hno => ?_⟩
  have := c4 (by rw [e3, a1, hno])
  rw [this.1, this.2, e4, e5]
  exact a6 hno

theorem addColumn_names (m : CoinModel) (indices : List Int) (elements : List Value)
    (lo up obj : Value) (isInt : Bool) (h : m.type_ ≠ 3) (h0 : 0 ≤ m.numberColumns_)
    (hb : ¬ BadIndices indices) :
    (addColumn m indices.length indices elements lo up obj none isInt).Returns fun a =>
      0 ≤ a.numberColumns_ - 1 ∧
      (m.noNames_ = false → a.columnName_.name (a.numberColumns_ - 1) =
        some (Coin8CharacterName (Char.ofNat 99) (a.numberColumns_ - 1))) ∧
      (m.noNames_ = true → a.rowName_ = m.rowName_ ∧ a.columnName_ = m.columnName_) := by
  unfold addColumn
  apply Outcome.returns_bind (names_addColumnMode m h)
  rintro a ⟨⟨a1, a2, a3, a4, a5, a6, a7, a8⟩, at3⟩
  apply Outcome.returns_bind (sortAndCheck_model a indices elements hb)
  rintro ⟨b, es, nc⟩ hb'
  dsimp only at hb' ⊢
  have e1 : b.type_ = a.type_ := by rcases hb' with e | e <;> rw [e]
  have e2 : b.numberColumns_ = a.numberColumns_ := by rcases hb' with e | e <;> rw [e]
  have e3 : b.noNames_ = a.noNames_ := by rcases hb' with e | e <;> rw [e]
  have e4 : b.rowName_ = a.rowName_ := by rcases hb' with e | e <;> rw [e]
  have e5 : b.columnName_ = a.columnName_ := by rcases hb' with e | e <;> rw [e]
  refine Outcome.returns_mono
    (addColumnStore_names b _ es nc lo up obj isInt (by rw [e1]; exact at3)
      (by rw [e2]; exact a8 h0)) ?_
  rintro c ⟨c1, c2, c3, c4⟩
  refine ⟨c1, fun hno => c3 (by rw [e3, a1, hno]), fun hno => ?_⟩
  have := c4 (by rw [e3, a1, hno])
  rw [this.1, this.2, e4, e5]
  exact a6 hno

theorem name_decimal (ch : Char) (n : Int) (h0 : 0 ≤ n) (h1 : n < 10000000) :
    ∃ ds : List Char, Coin8CharacterName ch n = String.mk (ch :: ds) ∧ ds.length = 7 ∧
      (∀ c ∈ ds, isDecimalDigit c = true) ∧ (decimalValue ds : Int) = n := by
  obtain ⟨d1, d2, d3⟩ := digits7_spec n.natAbs (by omega)
  refine ⟨digits7 n.natAbs, ?_, d1, d2, by rw [d3]; omega⟩
  unfold Coin8CharacterName
  rw [if_pos h1, if_neg (by omega), List.nil_append]

/-! ### The counts of `countPlusMinusOne` -/

theorem counts_fillRows_nested_eq (m a : CoinModel) (w : Int) (h1 : a.type_ ≠ -1)
    (h1' : a.type_ ≠ 1) (h3' : a.type_ ≠ 3) (h2 : a.rowLower_.isSome = true)
    (h3 : w < a.maximumRows_) (hn : a.numberRows_ = 0) (hw : w = m.numberRows_ - 1)
    (hr : 0 ≤ m.numberRows_) (hc : a.numberColumns_ = m.numberColumns_) :
    (fillRowsWith resizeStuck a w true false).Returns fun x =>
      x.numberRows_ = m.numberRows_ ∧ x.numberColumns_ = m.numberColumns_ ∧ x.type_ ≠ 3 := by
  refine fillRows_nested_returns a w _ h1 h1' h2 h3 ?_
  obtain ⟨e1, e2⟩ := fillRowsFill_counts a w
  refine ⟨?_, by rw [e2, hc], (keeps_fillRowsFill a w false h3').2.2.1⟩
  rw [e1, hn, hw]
  have : m.numberRows_ - 1 + 1 = m.numberRows_ := by omega
  rw [this]
  exact max_eq_left hr

theorem counts_fillColumns_nested_eq (m a : CoinModel) (w : Int) (h1 : a.type_ ≠ -1)
    (h1' : a.type_ ≠ 0) (h3' : a.type_ ≠ 3) (h2 : a.objective_.isSome = true)
    (h3 : w < a.maximumColumns_) (hn : a.numberColumns_ = 0) (hw : w = m.numberColumns_ - 1)
    (hr : 0 ≤ m.numberColumns_) (hc : a.numberRows_ = m.numberRows_) :
    (fillColumnsWith resizeStuck a w true false).Returns fun x =>
      x.numberRows_ = m.numberRows_ ∧ x.numberColumns_ = m.numberColumns_ ∧ x.type_ ≠ 3 := by
  refine fillColumns_nested_returns a w _ h1 h1' h2 h3 ?_
  obtain ⟨e1, e2⟩ := fillColumnsFill_counts a w
  refine ⟨by rw [e2, hc], ?_, (keeps_fillColumnsFill a w false h3').2.2.1⟩
  rw [e1, hn, hw]
  have : m.numberColumns_ - 1 + 1 = m.numberColumns_ := by omega
  rw [this]
  exact max_eq_left hr

theorem counts_resizeRows_eq (m : CoinModel) (R E : Int) (h : m.type_ ≠ 3)
    (hr : 0 ≤ m.numberRows_) :
    (resizeRows (fillRowsWith resizeStuck) m R E).Returns fun a =>
      a.numberRows_ = m.numberRows_ ∧ a.numberColumns_ = m.numberColumns_ ∧ a.type_ ≠ 3 := by
  unfold resizeRows
  by_cases h02 : m.type_ = 0 ∨ m.type_ = 2
  · rw [if_pos h02]
    dsimp only
    by_cases hR : max R m.numberRows_ > m.maximumRows_
    · rw [if_pos hR]
      have hlt : m.numberRows_ - 1 < max R m.numberRows_ := by
        have := le_max_right R m.numberRows_
        omega
      have hne : m.type_ ≠ -1 := by rcases h02 with h' | h' <;> omega
      have hn1 : m.type_ ≠ 1 := by rcases h02 with h' | h' <;> omega
      split_ifs
      all_goals first
        | exact Outcome.returns_returned ⟨rfl, rfl, h⟩
        | (refine counts_fillRows_nested_eq m _ _ ?_ ?_ ?_ ?_ ?_ ?_ ?_ hr ?_
           · exact hne
           · exact hn1
           · exact h
           · rfl
           · exact hlt
           · rfl
           · rfl
           · rfl)
    · rw [if_neg hR]
      exact Outcome.returns_returned ⟨rfl, rfl, h⟩
  · rw [if_neg h02, if_neg h]
    exact Outcome.returns_returned ⟨rfl, rfl, h⟩

theorem counts_resizeColumns_eq (m : CoinModel) (C E : Int) (h : m.type_ ≠ 3)
    (hc : 0 ≤ m.numberColumns_) :
    (resizeColumns (fillColumnsWith resizeStuck) m C E).Returns fun a =>
      a.numberRows_ = m.numberRows_ ∧ a.numberColumns_ = m.numberColumns_ ∧ a.type_ ≠ 3 := by
  unfold resizeColumns
  by_cases h12 : m.type_ = 1 ∨ m.type_ = 2
  · rw [if_pos h12]
    dsimp only
    by_cases hC : max C m.numberColumns_ > m.maximumColumns_
    · rw [if_pos hC]
      have hlt : m.numberColumns_ - 1 < max C m.numberColumns_ := by
        have := le_max_right C m.numberColumns_
        omega
      have hne : m.type_ ≠ -1 := by rcases h12 with h' | h' <;> omega
      have hn0 : m.type_ ≠ 0 := by rcases h12 with h' | h' <;> omega
      split_ifs
      all_goals first
        | exact Outcome.returns_returned ⟨rfl, rfl, h⟩
        | (refine counts_fillColumns_nested_eq m _ _ ?_ ?_ ?_ ?_ ?_ ?_ ?_ hc ?_
           · exact hne
           · exact hn0
           · exact h
           · rfl
           · exact hlt
           · rfl
           · rfl
           · rfl)
    · rw [if_neg hC]
      exact Outcome.returns_returned ⟨rfl, rfl, h⟩
  · rw [if_neg h12]
    exact Outcome.returns_returned ⟨rfl, rfl, h⟩

/-- `resize` keeps the numbers of rows and columns when they are not negative. -/
theorem counts_resize_eq (m : CoinModel) (R C E : Int) (h : m.type_ ≠ 3)
    (hr : 0 ≤ m.numberRows_) (hc : 0 ≤ m.numberColumns_) :
    (resize m R C E).Returns fun a =>
      a.numberRows_ = m.numberRows_ ∧ a.numberColumns_ = m.numberColumns_ := by
  unfold resize resizeWith
  dsimp only
  apply Outcome.returns_bind (counts_resizeRows_eq m R _ h hr)
  rintro a ⟨a1, a2, a3⟩
  apply Outcome.returns_bind (counts_resizeColumns_eq a C _ a3 (by rw [a2]; exact hc))
  rintro b ⟨b1, b2, b3⟩
  rw [if_neg b3]
  refine Outcome.returns_returned ⟨?_, ?_⟩
  · rw [(resizeElements_counts b _).1, b1, a1]
  · rw [(resizeElements_counts b _).2, b2, a2]

theorem withValue_snoc (E : Int → CoinModelTriple) (assoc : Int → Value) (v : Value)
    (c : Int) (done : List Int) (i : Int) :
    withValue E assoc v c (done ++ [i]) = withValue E assoc v c done ++
      (if 0 ≤ (E i).column ∧ (E i).column = c ∧ plusMinusValue assoc (E i) = v then [i]
       else []) := by
  unfold withValue
  rw [List.filter_append]
  congr 1
  by_cases h : 0 ≤ (E i).column ∧ (E i).column = c ∧ plusMinusValue assoc (E i) = v
  · rw [if_pos h]
    have hc : 0 ≤ c := h.2.1 ▸ h.1
    simp [List.filter_cons, h.2.1, h.2.2, hc]
  · rw [if_neg h]
    simp only [List.filter_cons, List.filter_nil]
    rw [if_neg]
    simp only [Bool.and_eq_true, decide_eq_true_eq]
    exact fun h' => h ⟨h'.1.1, h'.1.2, h'.2⟩

theorem nonzeroTriples_snoc (E : Int → CoinModelTriple) (assoc : Int → Value)
    (done : List Int) (i : Int) :
    nonzeroTriples E assoc (done ++ [i]) = nonzeroTriples E assoc done ++
      (if 0 ≤ (E i).column ∧ plusMinusValue assoc (E i) ≠ 0 then [i] else []) := by
  unfold nonzeroTriples
  rw [List.filter_append]
  congr 1
  by_cases h : 0 ≤ (E i).column ∧ plusMinusValue assoc (E i) ≠ 0
  · rw [if_pos h]
    simp [List.filter_cons, h.1, h.2]
  · rw [if_neg h]
    simp only [List.filter_cons, List.filter_nil]
    rw [if_neg]
    simp only [Bool.and_eq_true, decide_eq_true_eq]
    exact fun h' => h ⟨h'.1, h'.2⟩

theorem countInv_step (E : Int → CoinModelTriple) (assoc : Int → Value) (P0 N0 : Int → Int)
    (s : CountState) (done : List Int) (i : Int) (h : CountInv E assoc P0 N0 s done) :
    CountInv E assoc P0 N0 (countPlusMinusOneStep E assoc s i) (done ++ [i]) := by
  unfold countPlusMinusOneStep
  cases hs : s.stopped with
  | true =>
    rw [if_pos rfl]
    refine ⟨fun h' => (by rw [hs] at h'; cases h'), fun _ => ?_⟩
    obtain ⟨a, p, hp, b⟩ := h.2 hs
    exact ⟨a, p, List.mem_append_left _ hp, b⟩
  | false =>
    rw [if_neg (by simp)]
    obtain ⟨h1, h2, h3, h4⟩ := h.1 hs
    dsimp only
    have hv : (if stringInTriple (E i) = true then assoc (toInt (E i).value)
        else (E i).value) = plusMinusValue assoc (E i) := rfl
    rw [hv]
    have keep : ∀ (s' : CountState), s'.stopped = false →
        isNotPlusMinusOne assoc (E i) = false →
        (∀ c, s'.startPositive c = s.startPositive c +
          (if 0 ≤ (E i).column ∧ (E i).column = c ∧ plusMinusValue assoc (E i) = 1 then 1
           else 0)) →
        (∀ c, s'.startNegative c = s.startNegative c +
          (if 0 ≤ (E i).column ∧ (E i).column = c ∧ plusMinusValue assoc (E i) = -1 then 1
           else 0)) →
        s'.numberElements = s.numberElements +
          (if 0 ≤ (E i).column ∧ plusMinusValue assoc (E i) ≠ 0 then 1 else 0) →
        CountInv E assoc P0 N0 s' (done ++ [i]) := by
      intro s' e0 e1 e2 e3 e4
      refine ⟨fun _ => ⟨?_, ?_, ?_, ?_⟩, fun h' => (by rw [e0] at h'; cases h')⟩
      · intro p hp
        rcases List.mem_append.1 hp with hp | hp
        · exact h1 p hp
        · rw [List.mem_singleton.1 hp]
          exact e1
      · intro c
        rw [e2 c, h2 c, withValue_snoc, List.length_append]
        split_ifs <;> simp
        omega
      · intro c
        rw [e3 c, h3 c, withValue_snoc, List.length_append]
        split_ifs <;> simp
        omega
      · rw [e4, h4, nonzeroTriples_snoc, List.length_append]
        split_ifs <;> simp
    have stop : ∀ (s' : CountState), s'.stopped = true → s'.startPositive 0 = -1 →
        isNotPlusMinusOne assoc (E i) = true → CountInv E assoc P0 N0 s' (done ++ [i]) := by
      intro s' e0 e1 e2
      exact ⟨fun h' => (by rw [e0] at h'; cases h'),
        fun _ => ⟨e1, i, List.mem_append_right _ (List.mem_singleton.2 rfl), e2⟩⟩
    by_cases hcol : (E i).column ≥ 0
    · rw [if_pos hcol]
      by_cases hu : stringInTriple (E i) = true ∧ assoc (toInt (E i).value) = unsetValue
      · rw [if_pos hu]
        refine stop _ rfl (by simp) ?_
        unfold isNotPlusMinusOne
        simp [hcol, hu.1, hu.2]
      · rw [if_neg hu]
        have hu' : (stringInTriple (E i) && decide (assoc (toInt (E i).value) = unsetValue))
            = false := by
          rcases not_and_or.1 hu with h' | h'
          · simp [h']
          · simp [h']
        by_cases h0 : plusMinusValue assoc (E i) ≠ 0
        · rw [if_pos h0]
          by_cases hp1 : plusMinusValue assoc (E i) = 1
          · rw [if_pos hp1]
            refine keep _ rfl ?_ ?_ ?_ ?_
            · unfold isNotPlusMinusOne
              simp [hu', hp1]
            · intro c
              by_cases hc : (E i).column = c
              · subst hc
                simp [Function.update_same, hcol, hp1]
              · simp [Function.update_noteq (Ne.symm hc), hc]
            · intro c
              have : ¬ plusMinusValue assoc (E i) = -1 := by rw [hp1]; norm_num
              simp [this]
            · simp [hcol, h0]
          · rw [if_neg hp1]
            by_cases hm1 : plusMinusValue assoc (E i) = -1
            · rw [if_pos hm1]
              refine keep _ rfl ?_ ?_ ?_ ?_
              · unfold isNotPlusMinusOne
                simp [hu', hm1]
              · intro c
                simp [hp1]
              · intro c
                by_cases hc : (E i).column = c
                · subst hc
                  simp [Function.update_same, hcol, hm1]
                · simp [Function.update_noteq (Ne.symm hc), hc]
              · simp [hcol, h0]
            · rw [if_neg hm1]
              refine stop _ rfl (by simp) ?_
              unfold isNotPlusMinusOne
              simp [hcol, h0, hp1, hm1]
        · rw [if_neg h0]
          have h0' : plusMinusValue assoc (E i) = 0 := not_not.1 h0
          refine keep _ hs ?_ ?_ ?_ ?_
          · unfold isNotPlusMinusOne
            simp [hu', h0']
          · intro c
            simp [h0']
          · intro c
            simp [h0']
          · simp [h0']
    · rw [if_neg hcol]
      have hneg : ¬ 0 ≤ (E i).column := hcol
      refine keep _ hs ?_ ?_ ?_ ?_
      · unfold isNotPlusMinusOne
        simp [hneg]
      · intro c
        simp [hneg]
      · intro c
        simp [hneg]
      · simp [hneg]

theorem countInv_fold (E : Int → CoinModelTriple) (assoc : Int → Value) (P0 N0 : Int → Int) :
    ∀ (l done : List Int) (s : CountState), CountInv E assoc P0 N0 s done →
      CountInv E assoc P0 N0 (l.foldl (countPlusMinusOneStep E assoc) s) (done ++ l) := by
  intro l
  induction l with
  | nil =>
    intro done s h
    rw [List.append_nil]
    exact h
  | cons i l ih =>
    intro done s h
    rw [List.foldl_cons]
    have := ih (done ++ [i]) _ (countInv_step E assoc P0 N0 s done i h)
    rw [List.append_assoc] at this
    exact this

theorem countInv_init (E : Int → CoinModelTriple) (assoc : Int → Value) (P0 N0 : Int → Int) :
    CountInv E assoc P0 N0 ⟨P0, N0, 0, 0, false⟩ [] := by
  refine ⟨fun _ => ⟨fun p hp => (by cases hp), fun c => ?_, fun c => ?_, rfl⟩,
    fun h => (by cases h)⟩
  · show P0 c = P0 c + ((withValue E assoc 1 c []).length : Int)
    unfold withValue
    simp
  · show N0 c = N0 c + ((withValue E assoc (-1) c []).length : Int)
    unfold withValue
    simp

theorem withValue_congr {E E' : Int → CoinModelTriple} (assoc : Int → Value) (v : Value)
    (c : Int) (l : List Int) (h : ∀ p ∈ l, E p = E' p) :
    withValue E assoc v c l = withValue E' assoc v c l := by
  unfold withValue
  apply List.filter_congr
  intro p hp
  rw [h p hp]

theorem nonzeroTriples_congr {E E' : Int → CoinModelTriple} (assoc : Int → Value)
    (l : List Int) (h : ∀ p ∈ l, E p = E' p) :
    nonzeroTriples E assoc l = nonzeroTriples E' assoc l := by
  unfold nonzeroTriples
  apply List.filter_congr
  intro p hp
  rw [h p hp]

/-- What `countPlusMinusOne` returns on a model that is not externally packed and has at
least one column. -/
theorem countPlusMinusOne_spec (m : CoinModel) (sp0 sn0 : Int → Int) (assoc : Int → Value)
    (h3 : m.type_ ≠ 3) (hr : 0 ≤ m.numberRows_) (hc : 0 < m.numberColumns_) :
    (countPlusMinusOne m sp0 sn0 assoc).Returns fun r =>
      (r.2.1 0 = -1 ↔ ∃ p ∈ positionsBelow m.numberElements_,
        isNotPlusMinusOne assoc (m.elements_ p) = true) ∧
      ((∀ p ∈ positionsBelow m.numberElements_,
          isNotPlusMinusOne assoc (m.elements_ p) = false) →
        (∀ c, 0 ≤ c → c < m.numberColumns_ →
          r.2.1 c = ((withValue m.elements_ assoc 1 c
            (positionsBelow m.numberElements_)).length : Int) ∧
          r.2.2.1 c = ((withValue m.elements_ assoc (-1) c
            (positionsBelow m.numberElements_)).length : Int)) ∧
        r.2.1 m.numberColumns_ = ((nonzeroTriples m.elements_ assoc
          (positionsBelow m.numberElements_)).length : Int)) ∧
      r.1.numberColumns_ = m.numberColumns_ ∧ r.1.numberElements_ = m.numberElements_ ∧
      r.1.type_ ≠ 3 ∧
      ∀ p ∈ positionsBelow m.numberElements_, r.1.elements_ p = m.elements_ p := by
  unfold countPlusMinusOne
  rw [if_neg h3]
  show Outcome.Returns (Outcome.bind (resize { m with type_ := 2 } m.numberRows_
    m.numberColumns_ m.numberElements_) _) _
  have h2 : ({ m with type_ := 2 } : CoinModel).type_ ≠ 3 := by
    show (2 : Int) ≠ 3
    decide
  apply Outcome.returns_bind
    (Outcome.returns_and
      (keeps_resize { m with type_ := 2 } m.numberRows_ m.numberColumns_ m.numberElements_ h2)
      (counts_resize_eq { m with type_ := 2 } m.numberRows_ m.numberColumns_
        m.numberElements_ h2 hr (le_of_lt hc)))
  rintro a ⟨hk, hcnt⟩
  refine Outcome.returns_returned ?_
  have hn : a.numberElements_ = m.numberElements_ := hk.1
  have hnc : a.numberColumns_ = m.numberColumns_ := hcnt.2
  have hE : ∀ p ∈ positionsBelow m.numberElements_, a.elements_ p = m.elements_ p := by
    intro p hp
    rw [mem_positionsBelow] at hp
    exact hk.2.1 p hp.1 hp.2
  have inv := countInv_fold a.elements_ assoc (zeroFirst sp0 m.numberColumns_)
    (zeroFirst sn0 m.numberColumns_) (positionsBelow a.numberElements_) [] _
    (countInv_init _ _ _ _)
  rw [List.nil_append, hn] at inv
  dsimp only
  rw [hn, hnc]
  generalize (positionsBelow m.numberElements_).foldl
    (countPlusMinusOneStep a.elements_ assoc)
    ⟨zeroFirst sp0 m.numberColumns_, zeroFirst sn0 m.numberColumns_, 0, 0, false⟩ = s at inv ⊢
  have hz : ∀ (f : Int → Int) (c : Int), 0 ≤ c → c < m.numberColumns_ →
      zeroFirst f m.numberColumns_ c = 0 := by
    intro f c h0 h1
    unfold zeroFirst
    rw [if_pos ⟨h0, h1⟩]
  refine ⟨?_, ?_, rfl, rfl, hk.2.2.1, hE⟩
  · cases hs : s.stopped with
    | false =>
      obtain ⟨i1, i2, i3, i4⟩ := inv.1 hs
      have h0 : s.startPositive 0 ≥ 0 := by
        rw [i2 0, hz sp0 0 (le_refl 0) hc]
        omega
      rw [if_pos h0, Function.update_noteq (by omega)]
      constructor
      · intro h
        omega
      · rintro ⟨p, hp, hbad⟩
        rw [← hE p hp, i1 p hp] at hbad
        cases hbad
    | true =>
      obtain ⟨i1, p, hp, hbad⟩ := inv.2 hs
      rw [if_neg (by rw [i1]; decide)]
      exact ⟨fun _ => ⟨p, hp, by rw [← hE p hp]; exact hbad⟩, fun _ => i1⟩
  · intro hgood
    cases hs : s.stopped with
    | false =>
      obtain ⟨i1, i2, i3, i4⟩ := inv.1 hs
      have h0 : s.startPositive 0 ≥ 0 := by
        rw [i2 0, hz sp0 0 (le_refl 0) hc]
        omega
      rw [if_pos h0]
      refine ⟨fun c c0 c1 => ⟨?_, ?_⟩, ?_⟩
      · rw [Function.update_noteq (by omega), i2 c, hz sp0 c c0 c1,
          withValue_congr assoc 1 c _ hE]
        omega
      · rw [i3 c, hz sn0 c c0 c1, withValue_congr assoc (-1) c _ hE]
        omega
      · rw [Function.update_same, i4, nonzeroTriples_congr assoc _ hE]
    | true =>
      obtain ⟨_, p, hp, hbad⟩ := inv.2 hs
      rw [hE p hp, hgood p hp] at hbad
      cases hbad

/-! ### The layout of `createPlusMinusOne` -/

theorem plusMinusOffset_zero (P N : Int → Int) : plusMinusOffset P N 0 = 0 := rfl

theorem plusMinusOffset_succ (P N : Int → Int) (c : Int) (h : 0 ≤ c) :
    plusMinusOffset P N (c + 1) = plusMinusOffset P N c + P c + N c := by
  obtain ⟨k, rfl⟩ := Int.eq_ofNat_of_zero_le h
  unfold plusMinusOffset
  rw [positionsBelow_succ, List.map_append, List.sum_append]
  simp
  ring

theorem plusMinusOffset_mono (P N : Int → Int) (nc : Int)
    (hP : ∀ c, 0 ≤ c → c < nc → 0 ≤ P c) (hN : ∀ c, 0 ≤ c → c < nc → 0 ≤ N c) :
    ∀ (d : Nat) (c : Int), 0 ≤ c → c + d ≤ nc →
      plusMinusOffset P N c ≤ plusMinusOffset P N (c + d) := by
  intro d
  induction d with
  | zero =>
    intro c _ _
    simp
  | succ d ih =>
    intro c h0 h1
    have e : c + ((d + 1 : Nat) : Int) = (c + d) + 1 := by push_cast; ring
    rw [e, plusMinusOffset_succ P N (c + d) (by omega)]
    have := ih c h0 (by push_cast at h1; omega)
    have := hP (c + d) (by omega) (by push_cast at h1; omega)
    have := hN (c + d) (by omega) (by push_cast at h1; omega)
    omega

/-- The areas of two columns do not overlap. -/
theorem plusMinusOffset_le (P N : Int → Int) (nc : Int)
    (hP : ∀ c, 0 ≤ c → c < nc → 0 ≤ P c) (hN : ∀ c, 0 ≤ c → c < nc → 0 ≤ N c)
    (c c' : Int) (h0 : 0 ≤ c) (h1 : c < c') (h2 : c' ≤ nc) :
    plusMinusOffset P N c + P c + N c ≤ plusMinusOffset P N c' := by
  rw [← plusMinusOffset_succ P N c h0]
  have := plusMinusOffset_mono P N nc hP hN (c' - (c + 1)).toNat (c + 1) (by omega)
    (by omega)
  have e : c + 1 + ((c' - (c + 1)).toNat : Int) = c' := by omega
  rw [e] at this
  exact this

/-- The first loop of `createPlusMinusOne` turns the counts into the starts of the
areas. -/
theorem plusMinusStart_fold (P N : Int → Int) : ∀ (k : Nat),
    ((positionsBelow k).foldl plusMinusStartStep (P, N, 0)).2.2 = plusMinusOffset P N k ∧
    ∀ c : Int, (0 ≤ c ∧ c < (k : Int) →
        ((positionsBelow k).foldl plusMinusStartStep (P, N, 0)).1 c = plusMinusOffset P N c ∧
        ((positionsBelow k).foldl plusMinusStartStep (P, N, 0)).2.1 c =
          plusMinusOffset P N c + P c) ∧
      (¬ (0 ≤ c ∧ c < (k : Int)) →
        ((positionsBelow k).foldl plusMinusStartStep (P, N, 0)).1 c = P c ∧
        ((positionsBelow k).foldl plusMinusStartStep (P, N, 0)).2.1 c = N c) := by
  intro k
  induction k with
  | zero =>
    refine ⟨rfl, fun c => ⟨fun h => ?_, fun _ => ⟨rfl, rfl⟩⟩⟩
    have := h.2
    simp at this
    omega
  | succ k ih =>
    obtain ⟨i1, i2⟩ := ih
    simp only [Nat.cast_add, Nat.cast_one]
    rw [positionsBelow_succ, List.foldl_append]
    simp only [List.foldl_cons, List.foldl_nil]
    generalize (positionsBelow k).foldl plusMinusStartStep (P, N, 0) = s at i1 i2 ⊢
    unfold plusMinusStartStep
    dsimp only
    have hk := (i2 k).2 (by omega)
    refine ⟨?_, fun c => ⟨fun h => ?_, fun h => ?_⟩⟩
    · rw [i1, hk.1, hk.2]
      rw [plusMinusOffset_succ P N k (by omega)]
    · by_cases hc : c = k
      · subst hc
        rw [Function.update_same, Function.update_same, i1, hk.1]
        exact ⟨rfl, rfl⟩
      · rw [Function.update_noteq hc, Function.update_noteq hc]
        exact (i2 c).1 ⟨h.1, by omega⟩
    · have hc : c ≠ k := by
        intro hc
        apply h
        rw [hc]
        omega
      rw [Function.update_noteq hc, Function.update_noteq hc]
      exact (i2 c).2 (fun h' => h ⟨h'.1, by omega⟩)

theorem withValue_length_snoc (E : Int → CoinModelTriple) (assoc : Int → Value) (v : Value)
    (c : Int) (done : List Int) (p : Int) :
    (withValue E assoc v c done).length ≤ (withValue E assoc v c (done ++ [p])).length := by
  rw [withValue_snoc, List.length_append]
  omega

/-- One step of the second loop of `createPlusMinusOne` keeps the invariant. -/
theorem placeInv_step (E : Int → CoinModelTriple) (assoc : Int → Value) (P N : Int → Int)
    (nc : Int) (s : (Int → Int) × (Int → Int) × (Int → Int)) (done : List Int) (p : Int)
    (hinv : PlaceInv E assoc P N nc s done) (hcol : (E p).column < nc)
    (hP : ∀ c, 0 ≤ c → c < nc → 0 ≤ P c) (hN : ∀ c, 0 ≤ c → c < nc → 0 ≤ N c)
    (hcapP : ∀ c, 0 ≤ c → c < nc →
      ((withValue E assoc 1 c (done ++ [p])).length : Int) ≤ P c)
    (hcapN : ∀ c, 0 ≤ c → c < nc →
      ((withValue E assoc (-1) c (done ++ [p])).length : Int) ≤ N c) :
    PlaceInv E assoc P N nc (plusMinusPlaceStep E assoc s p) (done ++ [p]) := by
  obtain ⟨hcnt, hpos, hneg⟩ := hinv
  have hv : (if stringInTriple (E p) = true then assoc (toInt (E p).value)
      else (E p).value) = plusMinusValue assoc (E p) := rfl
  have same : ∀ v : Value, ¬ (0 ≤ (E p).column ∧ plusMinusValue assoc (E p) = v) →
      ∀ c, withValue E assoc v c (done ++ [p]) = withValue E assoc v c done := by
    intro v h c
    rw [withValue_snoc, if_neg (fun h' => h ⟨h'.1, h'.2.2⟩), List.append_nil]
  have dis := plusMinusOffset_le P N nc hP hN
  unfold plusMinusPlaceStep
  dsimp only
  rw [hv]
  by_cases h0 : (E p).column ≥ 0
  · rw [if_pos h0]
    by_cases h1 : plusMinusValue assoc (E p) = 1
    · rw [if_pos h1]
      have hm : ¬ (0 ≤ (E p).column ∧ plusMinusValue assoc (E p) = -1) := by
        rw [h1]
        norm_num
      have hsn := same (-1) hm
      have hlen : (withValue E assoc 1 (E p).column (done ++ [p])).length =
          (withValue E assoc 1 (E p).column done).length + 1 := by
        rw [withValue_snoc, if_pos ⟨h0, rfl, h1⟩, List.length_append]
        rfl
      have hcap0 := hcapP _ h0 hcol
      rw [hlen] at hcap0
      have hw := (hcnt _ h0 hcol).1
      refine ⟨fun c c0 c1 => ⟨?_, ?_⟩, fun c c0 c1 k q hq => ?_, fun c c0 c1 k q hq => ?_⟩
      · dsimp only
        by_cases hc : (E p).column = c
        · subst hc
          rw [Function.update_same, hw, hlen]
          push_cast
          ring
        · rw [Function.update_noteq (Ne.symm hc), (hcnt c c0 c1).1, withValue_snoc,
            if_neg (fun h' => hc h'.2.1), List.append_nil]
      · dsimp only
        rw [(hcnt c c0 c1).2, hsn c]
      · show Function.update s.2.2 (s.1 (E p).column) (rowInTriple (E p))
          (plusMinusOffset P N c + k) = rowInTriple (E q)
        by_cases hc : (E p).column = c
        · subst hc
          rw [withValue_snoc, if_pos ⟨h0, rfl, h1⟩] at hq
          rcases getElem?_append_singleton hq with hq' | ⟨hk, rfl⟩
          · have hk := getElem?_lt hq'
            rw [Function.update_noteq (by rw [hw]; omega)]
            exact hpos _ c0 c1 k q hq'
          · rw [hw, hk, Function.update_same]
        · rw [withValue_snoc, if_neg (fun h' => hc h'.2.1), List.append_nil] at hq
          have hk := getElem?_lt hq
          have hcapc := hcapP c c0 c1
          have hle := withValue_length_snoc E assoc 1 c done p
          have hNc := hN c c0 c1
          have hN0 := hN _ h0 hcol
          have hne : plusMinusOffset P N c + (k : Int) ≠ s.1 (E p).column := by
            rw [hw]
            rcases lt_or_gt_of_ne hc with hlt | hgt
            · have := dis _ _ h0 hlt (le_of_lt c1)
              omega
            · have := dis _ _ c0 hgt (le_of_lt hcol)
              omega
          rw [Function.update_noteq hne]
          exact hpos c c0 c1 k q hq
      · show Function.update s.2.2 (s.1 (E p).column) (rowInTriple (E p))
          (plusMinusOffset P N c + P c + k) = rowInTriple (E q)
        rw [hsn c] at hq
        have hk := getElem?_lt hq
        have hcapc := hcapN c c0 c1
        rw [hsn c] at hcapc
        have hPc := hP c c0 c1
        have hN0 := hN _ h0 hcol
        have hne : plusMinusOffset P N c + P c + (k : Int) ≠ s.1 (E p).column := by
          rw [hw]
          by_cases hc : (E p).column = c
          · subst hc
            omega
          · rcases lt_or_gt_of_ne hc with hlt | hgt
            · have := dis _ _ h0 hlt (le_of_lt c1)
              omega
            · have := dis _ _ c0 hgt (le_of_lt hcol)
              omega
        rw [Function.update_noteq hne]
        exact hneg c c0 c1 k q hq
    · rw [if_neg h1]
      have hp1 : ¬ (0 ≤ (E p).column ∧ plusMinusValue assoc (E p) = 1) := fun h => h1 h.2
      have hsp := same 1 hp1
      by_cases hm1 : plusMinusValue assoc (E p) = -1
      · rw [if_pos hm1]
        have hlen : (withValue E assoc (-1) (E p).column (done ++ [p])).length =
            (withValue E assoc (-1) (E p).column done).length + 1 := by
          rw [withValue_snoc, if_pos ⟨h0, rfl, hm1⟩, List.length_append]
          rfl
        have hcap0 := hcapN _ h0 hcol
        rw [hlen] at hcap0
        have hw := (hcnt _ h0 hcol).2
        refine ⟨fun c c0 c1 => ⟨?_, ?_⟩, fun c c0 c1 k q hq => ?_, fun c c0 c1 k q hq => ?_⟩
        · dsimp only
          rw [(hcnt c c0 c1).1, hsp c]
        · by_cases hc : (E p).column = c
          · subst hc
            show Function.update s.2.1 (E p).column (s.2.1 (E p).column + 1) (E p).column = _
            rw [Function.update_same, hw, hlen]
            push_cast
            ring
          · show Function.update s.2.1 (E p).column (s.2.1 (E p).column + 1) c = _
            rw [Function.update_noteq (Ne.symm hc), (hcnt c c0 c1).2, withValue_snoc,
              if_neg (fun h' => hc h'.2.1), List.append_nil]
        · show Function.update s.2.2 (s.2.1 (E p).column) (rowInTriple (E p))
            (plusMinusOffset P N c + k) = rowInTriple (E q)
          rw [hsp c] at hq
          have hk := getElem?_lt hq
          have hcapc := hcapP c c0 c1
          rw [hsp c] at hcapc
          have hNc := hN c c0 c1
          have hP0 := hP _ h0 hcol
          have hne : plusMinusOffset P N c + (k : Int) ≠ s.2.1 (E p).column := by
            rw [hw]
            by_cases hc : (E p).column = c
            · subst hc
              omega
            · rcases lt_or_gt_of_ne hc with hlt | hgt
              · have := dis _ _ h0 hlt (le_of_lt c1)
                omega
              · have := dis _ _ c0 hgt (le_of_lt hcol)
                omega
          rw [Function.update_noteq hne]
          exact hpos c c0 c1 k q hq
        · show Function.update s.2.2 (s.2.1 (E p).column) (rowInTriple (E p))
            (plusMinusOffset P N c + P c + k) = rowInTriple (E q)
          by_cases hc : (E p).column = c
          · subst hc
            rw [withValue_snoc, if_pos ⟨h0, rfl, hm1⟩] at hq
            rcases getElem?_append_singleton hq with hq' | ⟨hk, rfl⟩
            · have hk := getElem?_lt hq'
              rw [Function.update_noteq (by rw [hw]; omega)]
              exact hneg _ c0 c1 k q hq'
            · rw [hw, hk, Function.update_same]
          · rw [withValue_snoc, if_neg (fun h' => hc h'.2.1), List.append_nil] at hq
            have hk := getElem?_lt hq
            have hcapc := hcapN c c0 c1
            have hle := withValue_length_snoc E assoc (-1) c done p
            have hPc := hP c c0 c1
            have hP0 := hP _ h0 hcol
            have hne : plusMinusOffset P N c + P c + (k : Int) ≠ s.2.1 (E p).column := by
              rw [hw]
              rcases lt_or_gt_of_ne hc with hlt | hgt
              · have := dis _ _ h0 hlt (le_of_lt c1)
                omega
              · have := dis _ _ c0 hgt (le_of_lt hcol)
                omega
            rw [Function.update_noteq hne]
            exact hneg c c0 c1 k q hq
      · rw [if_neg hm1]
        have hm : ¬ (0 ≤ (E p).column ∧ plusMinusValue assoc (E p) = -1) := fun h => hm1 h.2
        have hsn := same (-1) hm
        refine ⟨fun c c0 c1 => ?_, fun c c0 c1 k q hq => ?_, fun c c0 c1 k q hq => ?_⟩
        · rw [hsp c, hsn c]
          exact hcnt c c0 c1
        · rw [hsp c] at hq
          exact hpos c c0 c1 k q hq
        · rw [hsn c] at hq
          exact hneg c c0 c1 k q hq
  · rw [if_neg h0]
    have hp1 : ¬ (0 ≤ (E p).column ∧ plusMinusValue assoc (E p) = 1) := fun h => h0 h.1
    have hm : ¬ (0 ≤ (E p).column ∧ plusMinusValue assoc (E p) = -1) := fun h => h0 h.1
    have hsp := same 1 hp1
    have hsn := same (-1) hm
    refine ⟨fun c c0 c1 => ?_, fun c c0 c1 k q hq => ?_, fun c c0 c1 k q hq => ?_⟩
    · rw [hsp c, hsn c]
      exact hcnt c c0 c1
    · rw [hsp c] at hq
      exact hpos c c0 c1 k q hq
    · rw [hsn c] at hq
      exact hneg c c0 c1 k q hq

theorem withValue_length_append (E : Int → CoinModelTriple) (assoc : Int → Value) (v : Value)
    (c : Int) (l l' : List Int) :
    (withValue E assoc v c l).length ≤ (withValue E assoc v c (l ++ l')).length := by
  unfold withValue
  rw [List.filter_append, List.length_append]
  omega

/-- The second loop of `createPlusMinusOne` establishes the invariant for all the
positions it runs over. -/
theorem placeInv_fold (E : Int → CoinModelTriple) (assoc : Int → Value) (P N : Int → Int)
    (nc : Int) (hP : ∀ c, 0 ≤ c → c < nc → 0 ≤ P c) (hN : ∀ c, 0 ≤ c → c < nc → 0 ≤ N c) :
    ∀ (rest done : List Int) (s : (Int → Int) × (Int → Int) × (Int → Int)),
      PlaceInv E assoc P N nc s done → (∀ p ∈ rest, (E p).column < nc) →
      (∀ c, 0 ≤ c → c < nc →
        ((withValue E assoc 1 c (done ++ rest)).length : Int) ≤ P c) →
      (∀ c, 0 ≤ c → c < nc →
        ((withValue E assoc (-1) c (done ++ rest)).length : Int) ≤ N c) →
      PlaceInv E assoc P N nc (rest.foldl (plusMinusPlaceStep E assoc) s) (done ++ rest)
  | [], done, s, hinv, _, _, _ => by
    rw [List.append_nil]
    exact hinv
  | p :: rest, done, s, hinv, hcol, hcapP, hcapN => by
    have happ : done ++ p :: rest = (done ++ [p]) ++ rest := by simp
    rw [List.foldl_cons, happ]
    apply placeInv_fold E assoc P N nc hP hN rest (done ++ [p])
    · apply placeInv_step E assoc P N nc s done p hinv (hcol p (List.mem_cons_self _ _)) hP hN
      · intro c c0 c1
        have := hcapP c c0 c1
        rw [happ] at this
        have h' := withValue_length_append E assoc 1 c (done ++ [p]) rest
        omega
      · intro c c0 c1
        have := hcapN c c0 c1
        rw [happ] at this
        have h' := withValue_length_append E assoc (-1) c (done ++ [p]) rest
        omega
    · intro q hq
      exact hcol q (List.mem_cons_of_mem _ hq)
    · rw [← happ]
      exact hcapP
    · rw [← happ]
      exact hcapN

theorem placeInv_init (E : Int → CoinModelTriple) (assoc : Int → Value) (P N : Int → Int)
    (nc : Int) (s : (Int → Int) × (Int → Int) × (Int → Int))
    (h : ∀ c, 0 ≤ c → c < nc →
      s.1 c = plusMinusOffset P N c ∧ s.2.1 c = plusMinusOffset P N c + P c) :
    PlaceInv E assoc P N nc s [] := by
  refine ⟨fun c c0 c1 => ?_, fun c _ _ k p hq => ?_, fun c _ _ k p hq => ?_⟩
  · obtain ⟨h1, h2⟩ := h c c0 c1
    rw [h1, h2]
    unfold withValue
    simp
  · simp [withValue] at hq
  · simp [withValue] at hq

/-- The loop "and now redo starts" of `createPlusMinusOne`, run over the columns
`k - 1, ..., 0`: `startPositive[c + 1]` becomes the old `startNegative[c]` and
`startNegative[c]` the old `startPositive[c]`. -/
theorem plusMinusRedo_fold : ∀ (k : Nat) (s : (Int → Int) × (Int → Int)),
    ∀ c : Int,
      (0 ≤ c ∧ c < (k : Int) →
        ((positionsBelow k).reverse.foldl plusMinusRedoStep s).1 (c + 1) = s.2 c ∧
        ((positionsBelow k).reverse.foldl plusMinusRedoStep s).2 c = s.1 c) ∧
      (¬ (0 ≤ c ∧ c < (k : Int)) →
        ((positionsBelow k).reverse.foldl plusMinusRedoStep s).2 c = s.2 c) ∧
      (¬ (1 ≤ c ∧ c ≤ (k : Int)) →
        ((positionsBelow k).reverse.foldl plusMinusRedoStep s).1 c = s.1 c) := by
  intro k
  induction k with
  | zero =>
    intro s c
    refine ⟨fun h => ?_, fun _ => rfl, fun _ => rfl⟩
    have := h.2
    simp at this
    omega
  | succ k ih =>
    intro s c
    simp only [Nat.cast_add, Nat.cast_one]
    rw [positionsBelow_succ, List.reverse_append, List.reverse_singleton,
      List.singleton_append, List.foldl_cons]
    obtain ⟨i1, i2, i3⟩ := ih (plusMinusRedoStep s k) c
    have e1 : ∀ x : Int, x ≠ (k : Int) + 1 → (plusMinusRedoStep s k).1 x = s.1 x := by
      intro x hx
      unfold plusMinusRedoStep
      dsimp only
      rw [Function.update_noteq hx]
    have e2 : ∀ x : Int, x ≠ (k : Int) → (plusMinusRedoStep s k).2 x = s.2 x := by
      intro x hx
      unfold plusMinusRedoStep
      dsimp only
      rw [Function.update_noteq hx]
    have e3 : (plusMinusRedoStep s k).1 ((k : Int) + 1) = s.2 k := by
      unfold plusMinusRedoStep
      dsimp only
      rw [Function.update_same]
    have e4 : (plusMinusRedoStep s k).2 k = s.1 k := by
      unfold plusMinusRedoStep
      dsimp only
      rw [Function.update_same, Function.update_noteq (by omega)]
    refine ⟨fun h => ?_, fun h => ?_, fun h => ?_⟩
    · by_cases hc : c = k
      · subst hc
        obtain ⟨j1, j2, j3⟩ := ih (plusMinusRedoStep s k) ((k : Int) + 1)
        rw [j3 (by omega), e3]
        rw [i2 (by omega), e4]
        exact ⟨rfl, rfl⟩
      · have := i1 ⟨h.1, by omega⟩
        rw [this.1, this.2, e2 c hc, e1 c (by omega)]
        exact ⟨rfl, rfl⟩
    · rw [i2 (fun h' => h ⟨h'.1, by omega⟩), e2 c (fun hc => h ⟨by omega, by omega⟩)]
    · rw [i3 (fun h' => h ⟨h'.1, by omega⟩), e1 c (fun hc => h ⟨by omega, by omega⟩)]

theorem cells_congr (a b : Int → Int) (lo hi : Int)
    (h : ∀ q, lo ≤ q → q < hi → a q = b q) : cells a lo hi = cells b lo hi := by
  unfold cells
  apply List.map_congr_left
  intro k hk
  have hk' := mem_positionsBelow.1 hk
  exact h (lo + k) (by omega) (by omega)

theorem cells_length (a : Int → Int) (lo hi : Int) : (cells a lo hi).length = (hi - lo).toNat := by
  unfold cells
  rw [List.length_map, positionsBelow_length]

theorem sortRange_frame (a : Int → Int) (lo hi q : Int) (h : ¬ (lo ≤ q ∧ q < hi)) :
    sortRange a lo hi q = a q := by
  unfold sortRange
  rw [if_neg h]

theorem sortRange_cells (a : Int → Int) (lo hi : Int) :
    cells (sortRange a lo hi) lo hi = (cells a lo hi).insertionSort (fun x y => x ≤ y) := by
  have hlen : ((cells a lo hi).insertionSort (fun x y => x ≤ y)).length = (hi - lo).toNat := by
    rw [List.length_insertionSort, cells_length]
  conv_rhs => rw [← map_getD_positionsBelow _ (hi - lo) 0 hlen]
  unfold cells sortRange
  apply List.map_congr_left
  intro k hk
  have hk' := mem_positionsBelow.1 hk
  have hr : lo ≤ lo + k ∧ lo + k < hi := by
    constructor <;> omega
  rw [if_pos hr]
  have : (lo + k - lo).toNat = k.toNat := by
    congr 1
    omega
  rw [this]

theorem plusMinusSortStep_frame (sp sn : Int → Int) (a : Int → Int) (c q : Int)
    (h1 : sp c ≤ sn c) (h2 : sn c ≤ sp (c + 1)) (h : ¬ (sp c ≤ q ∧ q < sp (c + 1))) :
    plusMinusSortStep sp sn a c q = a q := by
  unfold plusMinusSortStep
  rw [sortRange_frame _ _ _ _ (fun h' => h ⟨by omega, h'.2⟩),
    sortRange_frame _ _ _ _ (fun h' => h ⟨h'.1, by omega⟩)]

theorem plusMinusSortStep_cells (sp sn : Int → Int) (a : Int → Int) (c : Int) :
    cells (plusMinusSortStep sp sn a c) (sp c) (sn c) =
      (cells a (sp c) (sn c)).insertionSort (fun x y => x ≤ y) ∧
    cells (plusMinusSortStep sp sn a c) (sn c) (sp (c + 1)) =
      (cells a (sn c) (sp (c + 1))).insertionSort (fun x y => x ≤ y) := by
  unfold plusMinusSortStep
  dsimp only
  constructor
  · rw [← sortRange_cells]
    apply cells_congr
    intro q h1 h2
    exact sortRange_frame _ _ _ _ (fun h' => by omega)
  · rw [sortRange_cells]
    congr 1
    apply cells_congr
    intro q h1 h2
    exact sortRange_frame _ _ _ _ (fun h' => by omega)

/-- The sorting loop of `createPlusMinusOne` sorts the two areas of every column it
visits and touches nothing else, provided the areas of the columns in `S` are in order
and do not overlap. -/
theorem plusMinusSort_fold (sp sn : Int → Int) (S : Int → Prop)
    (hord : ∀ c, S c → sp c ≤ sn c ∧ sn c ≤ sp (c + 1))
    (hdis : ∀ c c', S c → S c' → c ≠ c' → ∀ q, sp c ≤ q → q < sp (c + 1) →
      ¬ (sp c' ≤ q ∧ q < sp (c' + 1))) :
    ∀ (cs : List Int) (a : Int → Int), cs.Nodup → (∀ i ∈ cs, S i) →
      (∀ q, (∀ i ∈ cs, ¬ (sp i ≤ q ∧ q < sp (i + 1))) →
        cs.foldl (plusMinusSortStep sp sn) a q = a q) ∧
      (∀ c ∈ cs,
        cells (cs.foldl (plusMinusSortStep sp sn) a) (sp c) (sn c) =
          (cells a (sp c) (sn c)).insertionSort (fun x y => x ≤ y) ∧
        cells (cs.foldl (plusMinusSortStep sp sn) a) (sn c) (sp (c + 1)) =
          (cells a (sn c) (sp (c + 1))).insertionSort (fun x y => x ≤ y))
  | [], a, _, _ => ⟨fun _ _ => rfl, fun c hc => by cases hc⟩
  | c0 :: cs, a, hnd, hS => by
    obtain ⟨hc0, hnd'⟩ := List.nodup_cons.1 hnd
    have hS' : ∀ i ∈ cs, S i := fun i hi => hS i (List.mem_cons_of_mem _ hi)
    have hS0 : S c0 := hS c0 (List.mem_cons_self _ _)
    obtain ⟨ih1, ih2⟩ :=
      plusMinusSort_fold sp sn S hord hdis cs (plusMinusSortStep sp sn a c0) hnd' hS'
    rw [List.foldl_cons]
    refine ⟨fun q hq => ?_, fun c hc => ?_⟩
    · rw [ih1 q (fun i hi => hq i (List.mem_cons_of_mem _ hi))]
      exact plusMinusSortStep_frame sp sn a c0 q (hord c0 hS0).1 (hord c0 hS0).2
        (hq c0 (List.mem_cons_self _ _))
    · rcases List.mem_cons.1 hc with rfl | hc
      · obtain ⟨s1, s2⟩ := plusMinusSortStep_cells sp sn a c
        obtain ⟨o1, o2⟩ := hord c hS0
        have hfr : ∀ q, sp c ≤ q → q < sp (c + 1) →
            cs.foldl (plusMinusSortStep sp sn) (plusMinusSortStep sp sn a c) q =
              plusMinusSortStep sp sn a c q := by
          intro q hq1 hq2
          apply ih1 q
          intro i hi
          have hne : c ≠ i := fun h => hc0 (h ▸ hi)
          exact hdis c i hS0 (hS' i hi) hne q hq1 hq2
        constructor
        · rw [← s1]
          apply cells_congr
          intro q h1 h2
          exact hfr q h1 (by omega)
        · rw [← s2]
          apply cells_congr
          intro q h1 h2
          exact hfr q (by omega) h2
      · obtain ⟨j1, j2⟩ := ih2 c hc
        obtain ⟨o1, o2⟩ := hord c (hS' c hc)
        obtain ⟨p1, p2⟩ := hord c0 hS0
        have hne : c ≠ c0 := fun h => hc0 (h ▸ hc)
        have hfr : ∀ q, sp c ≤ q → q < sp (c + 1) → plusMinusSortStep sp sn a c0 q = a q := by
          intro q hq1 hq2
          exact plusMinusSortStep_frame sp sn a c0 q p1 p2
            (hdis c c0 (hS' c hc) hS0 hne q hq1 hq2)
        rw [j1, j2]
        constructor
        · congr 1
          apply cells_congr
          intro q h1 h2
          exact hfr q h1 (by omega)
        · congr 1
          apply cells_congr
          intro q h1 h2
          exact hfr q (by omega) h2

theorem length_filter_or (l : List Int) (A B : Int → Bool)
    (h : ∀ p ∈ l, ¬ (A p = true ∧ B p = true)) :
    (l.filter (fun p => A p || B p)).length = (l.filter A).length + (l.filter B).length := by
  induction l with
  | nil => rfl
  | cons a l ih =>
    have ih' := ih (fun p hp => h p (List.mem_cons_of_mem _ hp))
    have ha := h a (List.mem_cons_self _ _)
    simp only [List.filter_cons]
    cases hA : A a <;> cases hB : B a
    · simpa using ih'
    · simp [ih']
      omega
    · simp [ih']
      omega
    · exact absurd ⟨hA, hB⟩ ha

/-- The areas of the columns below `k` have as many cells as there are non-deleted
triples with value +1 or -1 in these columns, when `P` and `N` are the counts. -/
theorem plusMinusOffset_count (E : Int → CoinModelTriple) (assoc : Int → Value)
    (P N : Int → Int) (l : List Int) : ∀ (k : Nat),
    (∀ c : Int, 0 ≤ c → c < (k : Int) → P c = ((withValue E assoc 1 c l).length : Int)) →
    (∀ c : Int, 0 ≤ c → c < (k : Int) → N c = ((withValue E assoc (-1) c l).length : Int)) →
    plusMinusOffset P N k =
      (((plusMinusTriples E assoc l).filter
        (fun p => decide ((E p).column < (k : Int)))).length : Int) := by
  intro k
  induction k with
  | zero =>
    intro _ _
    rw [show ((0 : Nat) : Int) = 0 from rfl, plusMinusOffset_zero]
    have : (plusMinusTriples E assoc l).filter (fun p => decide ((E p).column < (0 : Int)))
        = [] := by
      rw [List.filter_eq_nil_iff]
      intro p hp
      unfold plusMinusTriples at hp
      have := (List.mem_filter.1 hp).2
      simp only [Bool.and_eq_true, decide_eq_true_eq] at this
      simp only [decide_eq_true_eq, not_lt]
      exact this.1
    rw [this]
    rfl
  | succ k ih =>
    intro hP hN
    have ih' := ih (fun c c0 c1 => hP c c0 (by push_cast; omega))
      (fun c c0 c1 => hN c c0 (by push_cast; omega))
    simp only [Nat.cast_add, Nat.cast_one]
    rw [plusMinusOffset_succ P N k (by omega), ih', hP k (by omega) (by push_cast; omega),
      hN k (by omega) (by push_cast; omega)]
    have split : (plusMinusTriples E assoc l).filter
        (fun p => decide ((E p).column < (k : Int) + 1)) =
        (plusMinusTriples E assoc l).filter (fun p => (decide ((E p).column < (k : Int)) ||
          (decide ((E p).column = (k : Int)) && decide (plusMinusValue assoc (E p) = 1))) ||
          (decide ((E p).column = (k : Int)) && decide (plusMinusValue assoc (E p) = -1))) := by
      apply List.filter_congr
      intro p hp
      unfold plusMinusTriples at hp
      have := (List.mem_filter.1 hp).2
      simp only [Bool.and_eq_true, Bool.or_eq_true, decide_eq_true_eq] at this
      by_cases h1 : (E p).column < (k : Int)
      · have : (E p).column < (k : Int) + 1 := by omega
        simp [h1, this]
      · by_cases h2 : (E p).column = (k : Int)
        · rcases this.2 with hv | hv
          · simp [h2, hv]
          · simp [h2, hv]
        · have : ¬ (E p).column < (k : Int) + 1 := by omega
          simp [h1, h2, this]
    have e1 : ∀ v : Value, (v = 1 ∨ v = -1) →
        (plusMinusTriples E assoc l).filter
          (fun p => decide ((E p).column = (k : Int)) && decide (plusMinusValue assoc (E p) = v))
        = withValue E assoc v k l := by
      intro v hv
      unfold plusMinusTriples withValue
      rw [List.filter_filter]
      apply List.filter_congr
      intro p _
      by_cases h2 : (E p).column = (k : Int)
      · by_cases h3 : plusMinusValue assoc (E p) = v
        · have h0 : 0 ≤ (E p).column := by rw [h2]; omega
          rcases hv with hv | hv
          · subst hv
            simp [h2, h3]
          · subst hv
            simp [h2, h3]
        · simp [h2, h3]
      · simp [h2]
    rw [split, length_filter_or, length_filter_or, e1 1 (Or.inl rfl), e1 (-1) (Or.inr rfl)]
    · push_cast
      ring
    · intro p _ h
      simp only [Bool.and_eq_true, decide_eq_true_eq] at h
      omega
    · intro p _ h
      simp only [Bool.and_eq_true, Bool.or_eq_true, decide_eq_true_eq] at h
      rcases h.1 with h' | h'
      · omega
      · have := h'.2
        rw [h.2.2] at this
        norm_num at this

/-- The rows that the second loop of `createPlusMinusOne` has stored for a column. -/
theorem cells_of_placed (E : Int → CoinModelTriple) (assoc : Int → Value) (P N : Int → Int)
    (nc : Int) (s : (Int → Int) × (Int → Int) × (Int → Int)) (all : List Int)
    (hinv : PlaceInv E assoc P N nc s all) (c : Int) (c0 : 0 ≤ c) (c1 : c < nc)
    (hP : P c = ((withValue E assoc 1 c all).length : Int))
    (hN : N c = ((withValue E assoc (-1) c all).length : Int)) :
    cells s.2.2 (plusMinusOffset P N c) (plusMinusOffset P N c + P c) =
      (withValue E assoc 1 c all).map (fun p => rowInTriple (E p)) ∧
    cells s.2.2 (plusMinusOffset P N c + P c) (plusMinusOffset P N c + P c + N c) =
      (withValue E assoc (-1) c all).map (fun p => rowInTriple (E p)) := by
  obtain ⟨_, hpos, hneg⟩ := hinv
  constructor
  · unfold cells
    have e : plusMinusOffset P N c + P c - plusMinusOffset P N c =
        ((withValue E assoc 1 c all).length : Int) := by rw [hP]; ring
    rw [e]
    have hmap := map_getD_positionsBelow (withValue E assoc 1 c all)
      ((withValue E assoc 1 c all).length : Int) 0 (by simp)
    conv_rhs => rw [← hmap, List.map_map]
    apply List.map_congr_left
    intro k hk
    have hk' := mem_positionsBelow.1 hk
    have hkl : k.toNat < (withValue E assoc 1 c all).length := by omega
    have hget : (withValue E assoc 1 c all)[k.toNat]? =
        some ((withValue E assoc 1 c all).getD k.toNat 0) := by
      rw [List.getD_eq_getElem _ _ hkl, List.getElem?_eq_getElem hkl]
    have := hpos c c0 c1 k.toNat _ hget
    have hkk : ((k.toNat : Nat) : Int) = k := by omega
    rw [hkk] at this
    exact this
  · unfold cells
    have e : plusMinusOffset P N c + P c + N c - (plusMinusOffset P N c + P c) =
        ((withValue E assoc (-1) c all).length : Int) := by rw [hN]; ring
    rw [e]
    have hmap := map_getD_positionsBelow (withValue E assoc (-1) c all)
      ((withValue E assoc (-1) c all).length : Int) 0 (by simp)
    conv_rhs => rw [← hmap, List.map_map]
    apply List.map_congr_left
    intro k hk
    have hk' := mem_positionsBelow.1 hk
    have hkl : k.toNat < (withValue E assoc (-1) c all).length := by omega
    have hget : (withValue E assoc (-1) c all)[k.toNat]? =
        some ((withValue E assoc (-1) c all).getD k.toNat 0) := by
      rw [List.getD_eq_getElem _ _ hkl, List.getElem?_eq_getElem hkl]
    have := hneg c c0 c1 k.toNat _ hget
    have hkk : ((k.toNat : Nat) : Int) = k := by omega
    rw [hkk] at this
    exact this

/-- The arrays that the four loops of `createPlusMinusOne` leave, when the arrays it is
given hold the counts of the triples with value +1 and -1 of every column. -/
theorem plusMinus_layout (E : Int → CoinModelTriple) (assoc : Int → Value)
    (sp0 sn0 ind0 : Int → Int) (k : Nat) (n : Int)
    (hcol : ∀ p ∈ positionsBelow n, (E p).column < (k : Int))
    (hP : ∀ c : Int, 0 ≤ c → c < (k : Int) →
      sp0 c = ((withValue E assoc 1 c (positionsBelow n)).length : Int))
    (hN : ∀ c : Int, 0 ≤ c → c < (k : Int) →
      sn0 c = ((withValue E assoc (-1) c (positionsBelow n)).length : Int))
    (s1 : (Int → Int) × (Int → Int) × Int) (s2 : (Int → Int) × (Int → Int) × (Int → Int))
    (r : (Int → Int) × (Int → Int)) (indF : Int → Int)
    (e1 : s1 = (positionsBelow k).foldl plusMinusStartStep (sp0, sn0, 0))
    (e2 : s2 = (positionsBelow n).foldl (plusMinusPlaceStep E assoc)
      (Function.update s1.1 k s1.2.2, s1.2.1, ind0))
    (e3 : r = (positionsBelow k).reverse.foldl plusMinusRedoStep (s2.1, s2.2.1))
    (e4 : indF = (positionsBelow k).foldl
      (plusMinusSortStep (Function.update r.1 0 0) r.2) s2.2.2) :
    Function.update r.1 0 0 0 = 0 ∧
    (∀ c : Int, 0 ≤ c → c < (k : Int) →
      Function.update r.1 0 0 c ≤ r.2 c ∧ r.2 c ≤ Function.update r.1 0 0 (c + 1) ∧
      cells indF (Function.update r.1 0 0 c) (r.2 c) =
        ((withValue E assoc 1 c (positionsBelow n)).map
          (fun p => rowInTriple (E p))).insertionSort (fun x y => x ≤ y) ∧
      cells indF (r.2 c) (Function.update r.1 0 0 (c + 1)) =
        ((withValue E assoc (-1) c (positionsBelow n)).map
          (fun p => rowInTriple (E p))).insertionSort (fun x y => x ≤ y)) ∧
    Function.update r.1 0 0 (k : Int) =
      ((plusMinusTriples E assoc (positionsBelow n)).length : Int) := by
  have hP0 : ∀ c : Int, 0 ≤ c → c < (k : Int) → 0 ≤ sp0 c := by
    intro c c0 c1
    rw [hP c c0 c1]
    omega
  have hN0 : ∀ c : Int, 0 ≤ c → c < (k : Int) → 0 ≤ sn0 c := by
    intro c c0 c1
    rw [hN c c0 c1]
    omega
  obtain ⟨p1, p2⟩ := plusMinusStart_fold sp0 sn0 k
  rw [← e1] at p1 p2
  have hinit : PlaceInv E assoc sp0 sn0 k (Function.update s1.1 k s1.2.2, s1.2.1, ind0) [] := by
    apply placeInv_init
    intro c c0 c1
    dsimp only
    rw [Function.update_noteq (by omega)]
    exact (p2 c).1 ⟨c0, c1⟩
  have hinv := placeInv_fold E assoc sp0 sn0 k hP0 hN0 (positionsBelow n) [] _ hinit hcol
    (fun c c0 c1 => by rw [List.nil_append, hP c c0 c1])
    (fun c c0 c1 => by rw [List.nil_append, hN c c0 c1])
  rw [List.nil_append, ← e2] at hinv
  have hredo := plusMinusRedo_fold k (s2.1, s2.2.1)
  rw [← e3] at hredo
  -- the final starts
  have hsn : ∀ c : Int, 0 ≤ c → c < (k : Int) →
      r.2 c = plusMinusOffset sp0 sn0 c + sp0 c := by
    intro c c0 c1
    rw [((hredo c).1 ⟨c0, c1⟩).2]
    show s2.1 c = _
    rw [(hinv.1 c c0 c1).1, hP c c0 c1]
  have hsp : ∀ c : Int, 0 ≤ c → c ≤ (k : Int) →
      Function.update r.1 0 0 c = plusMinusOffset sp0 sn0 c := by
    intro c c0 c1
    by_cases hc : c = 0
    · rw [hc, Function.update_same, plusMinusOffset_zero]
    · rw [Function.update_noteq hc]
      have h' := ((hredo (c - 1)).1 ⟨by omega, by omega⟩).1
      rw [show c - 1 + 1 = c by ring] at h'
      rw [h']
      show s2.2.1 (c - 1) = _
      rw [(hinv.1 (c - 1) (by omega) (by omega)).2, ← hN (c - 1) (by omega) (by omega),
        ← plusMinusOffset_succ sp0 sn0 (c - 1) (by omega), show c - 1 + 1 = c by ring]
  have dis := plusMinusOffset_le sp0 sn0 k hP0 hN0
  have hsort := plusMinusSort_fold (Function.update r.1 0 0) r.2 (fun c => 0 ≤ c ∧ c < (k : Int))
    (fun c hc => by
      rw [hsp c hc.1 (le_of_lt hc.2), hsp (c + 1) (by omega) (by omega), hsn c hc.1 hc.2,
        plusMinusOffset_succ sp0 sn0 c hc.1]
      have := hP0 c hc.1 hc.2
      have := hN0 c hc.1 hc.2
      constructor <;> omega)
    (fun c c' hc hc' hne q q1 q2 => by
      rw [hsp c hc.1 (le_of_lt hc.2)] at q1
      rw [hsp (c + 1) (by omega) (by omega), plusMinusOffset_succ sp0 sn0 c hc.1] at q2
      rw [hsp c' hc'.1 (le_of_lt hc'.2), hsp (c' + 1) (by omega) (by omega),
        plusMinusOffset_succ sp0 sn0 c' hc'.1]
      rcases lt_or_gt_of_ne hne with hlt | hgt
      · have := dis c c' hc.1 hlt (le_of_lt hc'.2)
        omega
      · have := dis c' c hc'.1 hgt (le_of_lt hc.2)
        omega)
    (positionsBelow k) s2.2.2 (positionsBelow_nodup k) (fun i hi => mem_positionsBelow.1 hi)
  rw [← e4] at hsort
  refine ⟨Function.update_same _ _ _, fun c c0 c1 => ?_, ?_⟩
  · obtain ⟨q1, q2⟩ := hsort.2 c (mem_positionsBelow.2 ⟨c0, c1⟩)
    obtain ⟨w1, w2⟩ := cells_of_placed E assoc sp0 sn0 k s2 (positionsBelow n) hinv c c0 c1
      (hP c c0 c1) (hN c c0 c1)
    have a1 := hsp c c0 (le_of_lt c1)
    have a2 := hsp (c + 1) (by omega) (by omega)
    have a3 := hsn c c0 c1
    rw [plusMinusOffset_succ sp0 sn0 c c0] at a2
    have := hP0 c c0 c1
    have := hN0 c c0 c1
    refine ⟨by omega, by omega, ?_, ?_⟩
    · rw [q1, a1, a3, w1]
    · rw [q2, a2, a3, w2]
  · rw [hsp k (by omega) (le_refl _), plusMinusOffset_count E assoc sp0 sn0 (positionsBelow n) k
      hP hN]
    congr 1
    congr 1
    apply List.filter_eq_self.2
    intro p hp
    unfold plusMinusTriples at hp
    have := hcol p (List.mem_filter.1 hp).1
    simpa using this

/-- What `createPlusMinusOne` returns when the arrays it is given hold the counts. -/
theorem createPlusMinusOne_spec (m : CoinModel) (sp0 sn0 ind0 : Int → Int)
    (assoc : Int → Value) (h3 : m.type_ ≠ 3) (hnc : 0 ≤ m.numberColumns_)
    (hcol : ∀ p ∈ positionsBelow m.numberElements_,
      (m.elements_ p).column < m.numberColumns_)
    (hP : ∀ c : Int, 0 ≤ c → c < m.numberColumns_ →
      sp0 c = ((withValue m.elements_ assoc 1 c (positionsBelow m.numberElements_)).length : Int))
    (hN : ∀ c : Int, 0 ≤ c → c < m.numberColumns_ →
      sn0 c = ((withValue m.elements_ assoc (-1) c
        (positionsBelow m.numberElements_)).length : Int)) :
    (createPlusMinusOne m sp0 sn0 ind0 assoc).Returns fun r =>
      r.1 0 = 0 ∧
      (∀ c : Int, 0 ≤ c → c < m.numberColumns_ →
        r.1 c ≤ r.2.1 c ∧ r.2.1 c ≤ r.1 (c + 1) ∧
        cells r.2.2 (r.1 c) (r.2.1 c) =
          ((withValue m.elements_ assoc 1 c (positionsBelow m.numberElements_)).map
            (fun p => rowInTriple (m.elements_ p))).insertionSort (fun x y => x ≤ y) ∧
        cells r.2.2 (r.2.1 c) (r.1 (c + 1)) =
          ((withValue m.elements_ assoc (-1) c (positionsBelow m.numberElements_)).map
            (fun p => rowInTriple (m.elements_ p))).insertionSort (fun x y => x ≤ y)) ∧
      r.1 m.numberColumns_ =
        ((plusMinusTriples m.elements_ assoc (positionsBelow m.numberElements_)).length : Int) := by
  obtain ⟨k, hk⟩ := Int.eq_ofNat_of_zero_le hnc
  unfold createPlusMinusOne
  rw [if_neg h3]
  refine Outcome.returns_returned ?_
  rw [hk] at hcol hP hN ⊢
  exact plusMinus_layout m.elements_ assoc sp0 sn0 ind0 k m.numberElements_ hcol hP hN
    _ _ _ _ rfl rfl rfl rfl

theorem find?_filter_congr (l : List Int) (f f' g : Int → Bool)
    (h1 : ∀ q ∈ l, g q = true → f' q = f q) (h2 : ∀ q ∈ l, g q = false → f q = false) :
    (l.filter g).find? f' = l.find? f := by
  induction l with
  | nil => rfl
  | cons a l ih =>
    have ih' := ih (fun q hq => h1 q (List.mem_cons_of_mem _ hq))
      (fun q hq => h2 q (List.mem_cons_of_mem _ hq))
    cases hg : g a with
    | true =>
      rw [List.filter_cons_of_pos hg]
      have := h1 a (List.mem_cons_self _ _) hg
      cases hf : f a with
      | true =>
        rw [List.find?_cons_of_pos _ (by rw [this, hf]), List.find?_cons_of_pos _ hf]
      | false =>
        rw [List.find?_cons_of_neg _ (by rw [this, hf]; simp),
          List.find?_cons_of_neg _ (by rw [hf]; simp)]
        exact ih'
    | false =>
      rw [List.filter_cons_of_neg (by rw [hg]; simp)]
      have := h2 a (List.mem_cons_self _ _) hg
      rw [List.find?_cons_of_neg _ (by rw [this]; simp)]
      exact ih'

theorem hash_filter_congr (h h' : CoinModelHash2) (E E' : Int → CoinModelTriple) (r c : Int)
    (g : Int → Bool) (hi : h'.index = h.index.filter g)
    (h1 : ∀ q ∈ h.index, g q = true → E' q = E q)
    (h2 : ∀ q ∈ h.index, g q = false → holds (E q) r c = false) :
    h'.hash r c E' = h.hash r c E := by
  unfold CoinModelHash2.hash
  rw [hi, find?_filter_congr h.index (fun p => holds (E p) r c) (fun p => holds (E' p) r c) g
    (fun q hq hg => by show holds (E' q) r c = holds (E q) r c; rw [h1 q hq hg]) h2]

theorem zap_of_not_mem (E : Int → CoinModelTriple) (Z : List Int) (p : Int) (h : p ∉ Z) :
    CoinModelLinkedList.zap E Z p = E p := by
  unfold CoinModelLinkedList.zap
  rw [if_neg h]

theorem holds_column {t : CoinModelTriple} {r c : Int} (h : holds t r c = true) :
    rowInTriple t = r ∧ t.column = c := by
  unfold holds at h
  simpa using h

/-- The index that a reader works with, in a model whose hash index is in step: the
positions of the non-deleted triples. -/
theorem buildHash_index (m : CoinModel) (f : Bool) (hs : HashInStep m) :
    ∀ q, q ∈ (buildHash m f).hashElements_.index → q ∈ storedPositions m := by
  intro q hq
  rcases hs with ⟨h0, hi, _⟩ | ⟨hn, _, hi⟩
  · unfold buildHash at hq
    rw [if_pos (show m.hashElements_.numberItems = 0 from h0)] at hq
    unfold CoinModelHash2.resize CoinModelHash2.setNumberItems at hq
    dsimp only at hq
    split_ifs at hq
    · rw [hi] at hq
      cases hq
    · exact hq
  · rw [buildHash_of_ne m f hn] at hq
    exact (hi q).1 hq

/-- What the readers see after triples have been marked deleted and their hash entries
removed: a pair all of whose holders were removed is absent, and a pair none of whose
holders was removed reads as before. -/
theorem reads_after_zap (m d : CoinModel) (Z ch : List Int) (K : CoinModelTriple → Bool)
    (hs : HashInStep m)
    (he : d.elements_ = CoinModelLinkedList.zap m.elements_ Z)
    (hz1 : ∀ p ∈ ch, p ∈ Z) (hz2 : ∀ p ∈ Z, p ∈ ch ∨ (m.elements_ p).column < 0)
    (hch : ∀ p, p ∈ ch ↔ p ∈ storedPositions m ∧ K (m.elements_ p) = true)
    (hn : d.numberElements_ = m.numberElements_)
    (hme : d.maximumElements_ = m.maximumElements_)
    (hh1 : d.hashElements_.numberItems_ = m.hashElements_.numberItems_)
    (hh2 : d.hashElements_.maximumItems_ = m.hashElements_.maximumItems_)
    (hh3 : d.hashElements_.index =
      if m.hashElements_.numberItems_ ≠ 0 then
        m.hashElements_.index.filter (fun p => decide (p ∉ ch))
      else m.hashElements_.index) :
    HashInStep d ∧
    (∀ r c, (∀ t, holds t r c = true → K t = true) →
      (position d r c).1 = -1 ∧ (getElement d r c).1 = 0) ∧
    (∀ r c, (∀ t, holds t r c = true → K t = false) →
      (getElement d r c).1 = (getElement m r c).1 ∧
      (position d r c).1 = (position m r c).1) := by
  have hzs := zap_stored m.elements_ ch Z hz1 hz2
  have hstored : ∀ q, q ∈ storedPositions d ↔ q ∈ storedPositions m ∧ q ∉ ch := by
    intro q
    unfold storedPositions
    rw [hn, he]
    simp only [List.mem_filter, decide_eq_true_eq]
    rw [(hzs q).1]
    tauto
  have hsame : ∀ q, q ∈ storedPositions m → q ∉ ch → d.elements_ q = m.elements_ q := by
    intro q hq hc
    rw [he]
    apply zap_of_not_mem
    intro hz
    rcases hz2 q hz with h | h
    · exact hc h
    · have := (List.mem_filter.1 hq).2
      simp only [decide_eq_true_eq] at this
      omega
  have hstoredList : storedPositions d =
      (storedPositions m).filter (fun p => decide (p ∉ ch)) := by
    unfold storedPositions
    rw [hn, he, List.filter_filter]
    apply List.filter_congr
    intro q _
    have := (hzs q).1
    by_cases h1 : 0 ≤ (CoinModelLinkedList.zap m.elements_ Z q).column
    · have h2 := this.1 h1
      simp [h1, h2.1, h2.2]
    · have h2 : ¬ (0 ≤ (m.elements_ q).column ∧ q ∉ ch) := fun h => h1 (this.2 h)
      simp only [h1, decide_False]
      by_cases h3 : q ∉ ch
      · have : ¬ 0 ≤ (m.elements_ q).column := fun h => h2 ⟨h, h3⟩
        simp [this]
      · simp [h3]
  have hd : HashInStep d := by
    rcases hs with ⟨h0, hi, h3⟩ | ⟨h0, h1, hi⟩
    · left
      refine ⟨hh1.trans h0, ?_, ?_⟩
      · rw [hh3, if_neg (by rw [h0]; simp), hi]
      · rw [hh2, hme, hn]
        exact h3
    · right
      refine ⟨by rw [hh1]; exact h0, by rw [hh1, hn]; exact h1, fun q => ?_⟩
      rw [hh3, if_pos h0, hstored q, List.mem_filter, hi q]
      simp
  -- the index that the readers of `d` work with
  have hidx : ∀ f, (buildHash d f).hashElements_.index =
      (buildHash m f).hashElements_.index.filter (fun p => decide (p ∉ ch)) ∧
      (buildHash d f).elements_ = d.elements_ ∧ (buildHash m f).elements_ = m.elements_ := by
    intro f
    refine ⟨?_, (buildHash_frame d f).1, (buildHash_frame m f).1⟩
    rcases hs with ⟨h0, hi, h3⟩ | ⟨h0, h1, hi⟩
    · have hd0 : d.hashElements_.numberItems = 0 := hh1.trans h0
      have hdi : d.hashElements_.index = [] := by
        rw [hh3, if_neg (by rw [h0]; simp), hi]
      unfold buildHash
      rw [if_pos hd0, if_pos (show m.hashElements_.numberItems = 0 from h0)]
      unfold CoinModelHash2.resize CoinModelHash2.setNumberItems
      dsimp only
      rw [hh2, hme, hn]
      split_ifs
      · rw [hdi, hi]
        rfl
      · have := hstoredList
        unfold storedPositions at this
        rw [hn] at this
        exact this
    · rw [buildHash_of_ne m f h0, buildHash_of_ne d f (by rw [hh1]; exact h0), hh3, if_pos h0]
  refine ⟨hd, fun r c hK => ?_, fun r c hK => ?_⟩
  · have key : ∀ f, (buildHash d f).hashElements_.hash r c (buildHash d f).elements_ = -1 := by
      intro f
      apply hash_absent
      intro q hq
      have hqs := (hstored q).1 (buildHash_index d f hd q hq)
      rw [(buildHash_frame d f).1, hsame q hqs.1 hqs.2]
      cases hh : holds (m.elements_ q) r c with
      | false => rfl
      | true => exact absurd ((hch q).2 ⟨hqs.1, hK _ hh⟩) hqs.2
    constructor
    · unfold position
      dsimp only
      exact key true
    · unfold getElement
      dsimp only
      rw [key false]
      rfl
  · have key : ∀ f, (buildHash d f).hashElements_.hash r c (buildHash d f).elements_ =
        (buildHash m f).hashElements_.hash r c (buildHash m f).elements_ := by
      intro f
      obtain ⟨i1, i2, i3⟩ := hidx f
      apply hash_filter_congr _ _ _ _ r c _ i1
      · intro q hq hg
        rw [i2, i3]
        exact hsame q (buildHash_index m f hs q hq) (by simpa using hg)
      · intro q hq hg
        rw [i3]
        have hqc : q ∈ ch := by simpa using hg
        cases hh : holds (m.elements_ q) r c with
        | false => rfl
        | true =>
          have h1 := hK _ hh
          rw [((hch q).1 hqc).2] at h1
          cases h1
    constructor
    · unfold getElement
      dsimp only
      rw [key false]
      by_cases hp : (buildHash m false).hashElements_.hash r c (buildHash m false).elements_ ≥ 0
      · rw [if_pos hp, if_pos hp]
        obtain ⟨f1, f2⟩ := hash_found _ r c _ hp
        generalize (buildHash m false).hashElements_.hash r c (buildHash m false).elements_ = p
          at f1 f2 ⊢
        have hq := buildHash_index m false hs _ f1
        rw [(buildHash_frame m false).1] at f2 ⊢
        rw [(buildHash_frame d false).1]
        have hnc : p ∉ ch := by
          intro hc'
          have h1 := hK _ f2
          rw [((hch _).1 hc').2] at h1
          cases h1
        show (d.elements_ p).value = (m.elements_ p).value
        rw [hsame p hq hnc]
      · rw [if_neg hp, if_neg hp]
    · unfold position
      dsimp only
      exact key true

theorem zap_singleton (E : Int → CoinModelTriple) (p : Int) :
    Function.update E p { E p with column := -1, value := 0 } =
      CoinModelLinkedList.zap E [p] := by
  funext q
  unfold CoinModelLinkedList.zap
  by_cases h : q = p
  · subst h
    rw [Function.update_same, if_pos (List.mem_singleton.2 rfl)]
  · rw [Function.update_noteq h, if_neg (fun h' => h (List.mem_singleton.1 h'))]

/-- What `deleteThisElement` changes: the triple at the position is marked deleted and
its hash entry is removed when the hash index has been built. -/
theorem deleteThisElement_fields (b : CoinModel) (r c p : Int) :
    SameData b { deleteThisElement b r c p with elements_ := b.elements_ } ∧
    (deleteThisElement b r c p).elements_ = CoinModelLinkedList.zap b.elements_ [p] ∧
    (deleteThisElement b r c p).maximumElements_ = b.maximumElements_ ∧
    (deleteThisElement b r c p).hashElements_.numberItems_ = b.hashElements_.numberItems_ ∧
    (deleteThisElement b r c p).hashElements_.maximumItems_ = b.hashElements_.maximumItems_ ∧
    (deleteThisElement b r c p).hashElements_.index =
      (if b.hashElements_.numberItems_ ≠ 0 then
        b.hashElements_.index.filter (fun q => decide (q ∉ [p]))
      else b.hashElements_.index) := by
  have hf : ∀ l : List Int, l.filter (fun q => decide (q ≠ p)) =
      l.filter (fun q => decide (q ∉ [p])) := by
    intro l
    apply List.filter_congr
    intro q _
    simp
  unfold deleteThisElement CoinModelLinkedList.deleteRowOne CoinModelHash2.deleteHash
    CoinModelHash2.numberItems createList
  dsimp only
  rw [← zap_singleton]
  split_ifs
  all_goals
    refine ⟨⟨rfl, rfl, rfl, rfl, rfl, rfl, rfl, rfl, rfl, rfl, rfl, rfl, rfl, rfl, rfl, rfl,
      ?_⟩, rfl, rfl, rfl, rfl, ?_⟩
    · first
        | exact id
        | exact fun _ => (by decide : (2 : Int) ≠ 3)
    · first
        | rfl
        | exact hf _

theorem buildHash_fields (m : CoinModel) (f : Bool) :
    SameData m (buildHash m f) ∧ (buildHash m f).maximumElements_ = m.maximumElements_ ∧
    (buildHash m f).hashElements_.index =
      (if m.hashElements_.numberItems_ = 0 then
        (if m.maximumElements_ ≤ m.hashElements_.maximumItems_ ∧ f = false then
          m.hashElements_.index
         else storedPositions m)
       else m.hashElements_.index) ∧
    (buildHash m f).hashElements_.numberItems_ =
      (if m.hashElements_.numberItems_ = 0 then m.numberElements_
       else m.hashElements_.numberItems_) ∧
    (buildHash m f).hashElements_.maximumItems_ =
      (if m.hashElements_.numberItems_ = 0 then
        (if m.maximumElements_ ≤ m.hashElements_.maximumItems_ ∧ f = false then
          m.hashElements_.maximumItems_
         else max m.maximumElements_ m.hashElements_.maximumItems_)
       else m.hashElements_.maximumItems_) := by
  unfold buildHash CoinModelHash2.numberItems
  by_cases h0 : m.hashElements_.numberItems_ = 0
  · rw [if_pos h0, if_pos h0, if_pos h0, if_pos h0]
    unfold CoinModelHash2.resize CoinModelHash2.setNumberItems
    dsimp only
    by_cases h1 : m.maximumElements_ ≤ m.hashElements_.maximumItems_ ∧ f = false
    · rw [if_pos h1, if_pos h1, if_pos h1]
      exact ⟨⟨rfl, rfl, rfl, rfl, rfl, rfl, rfl, rfl, rfl, rfl, rfl, rfl, rfl, rfl, rfl, rfl, id⟩,
        rfl, rfl, rfl, rfl⟩
    · rw [if_neg h1, if_neg h1, if_neg h1]
      exact ⟨⟨rfl, rfl, rfl, rfl, rfl, rfl, rfl, rfl, rfl, rfl, rfl, rfl, rfl, rfl, rfl, rfl, id⟩,
        rfl, rfl, rfl, rfl⟩
  · rw [if_neg h0, if_neg h0, if_neg h0, if_neg h0]
    exact ⟨⟨rfl, rfl, rfl, rfl, rfl, rfl, rfl, rfl, rfl, rfl, rfl, rfl, rfl, rfl, rfl, rfl, id⟩,
      rfl, rfl, rfl, rfl⟩

theorem hash_index_congr (h h' : CoinModelHash2) (r c : Int) (E : Int → CoinModelTriple)
    (hi : h'.index = h.index) : h'.hash r c E = h.hash r c E := by
  unfold CoinModelHash2.hash
  rw [hi]

theorem getElement_of_index (m m' : CoinModel) (r c : Int) (he : m'.elements_ = m.elements_)
    (hi : (buildHash m' false).hashElements_.index = (buildHash m false).hashElements_.index) :
    (getElement m' r c).1 = (getElement m r c).1 := by
  unfold getElement
  dsimp only
  rw [(buildHash_frame m' false).1, (buildHash_frame m false).1, he,
    hash_index_congr _ _ r c m.elements_ hi]
  split_ifs <;> rfl

theorem storedPositions_empty (m : CoinModel) (h : m.numberElements_ = 0) :
    storedPositions m = [] := by
  unfold storedPositions
  rw [h]
  rfl

/-- The forced build of the hash index that `position` makes leaves an index in step,
and the readers see through it what they saw before. -/
theorem buildHash_inStep (m : CoinModel) (hs : HashInStep m) :
    HashInStep (buildHash m true) ∧ SameData m (buildHash m true) ∧
    (buildHash m true).maximumElements_ = m.maximumElements_ ∧
    (∀ q, q ∈ (buildHash m true).hashElements_.index ↔ q ∈ storedPositions m) ∧
    ∀ r c, (getElement (buildHash m true) r c).1 = (getElement m r c).1 := by
  obtain ⟨t1, t2, t3, t4, t5⟩ := buildHash_fields m true
  have hst : storedPositions (buildHash m true) = storedPositions m := by
    unfold storedPositions
    rw [t1.2.2.2.1, t1.2.2.1]
  have hidx : (buildHash m true).hashElements_.index = storedPositions m ∨
      (m.hashElements_.numberItems_ ≠ 0 ∧
        (buildHash m true).hashElements_.index = m.hashElements_.index) := by
    by_cases h0 : m.hashElements_.numberItems_ = 0
    · left
      rw [t3, if_pos h0, if_neg (by simp)]
    · right
      exact ⟨h0, by rw [t3, if_neg h0]⟩
  have hmem : ∀ q, q ∈ (buildHash m true).hashElements_.index ↔ q ∈ storedPositions m := by
    intro q
    rcases hidx with h | ⟨h0, h⟩
    · rw [h]
    · rw [h]
      rcases hs with ⟨h0', _, _⟩ | ⟨_, _, hi⟩
      · exact absurd h0' h0
      · exact hi q
  have hnum : (buildHash m true).hashElements_.numberItems_ = m.numberElements_ := by
    rw [t4]
    rcases hs with ⟨h0, _, _⟩ | ⟨h0, h1, _⟩
    · rw [if_pos h0]
    · rw [if_neg h0, h1]
  refine ⟨?_, t1, t2, hmem, fun r c => ?_⟩
  · by_cases hn : m.numberElements_ = 0
    · left
      refine ⟨hnum.trans hn, ?_, Or.inr (t1.2.2.1.trans hn)⟩
      have he := storedPositions_empty m hn
      cases hx : (buildHash m true).hashElements_.index with
      | nil => rfl
      | cons a l =>
        have := (hmem a).1 (by rw [hx]; exact List.mem_cons_self _ _)
        rw [he] at this
        cases this
    · right
      refine ⟨by rw [hnum]; exact hn, by rw [hnum, t1.2.2.1], fun q => ?_⟩
      rw [hst]
      exact hmem q
  · apply getElement_of_index m (buildHash m true) r c t1.2.2.2.1
    obtain ⟨u1, u2, u3, u4, u5⟩ := buildHash_fields (buildHash m true) false
    obtain ⟨v1, v2, v3, v4, v5⟩ := buildHash_fields m false
    rw [u3, v3, hst, t2]
    rcases hs with ⟨h0, hi, h3⟩ | ⟨h0, h1, hi⟩
    · have hbi : (buildHash m true).hashElements_.index = storedPositions m := by
        rw [t3, if_pos h0, if_neg (by simp)]
      rw [hnum, hbi, if_pos h0]
      by_cases hn : m.numberElements_ = 0
      · have he := storedPositions_empty m hn
        simp only [he, hi, ite_self]
      · have hlt : m.hashElements_.maximumItems_ < m.maximumElements_ := by
          rcases h3 with h | h
          · exact h
          · exact absurd h hn
        rw [if_neg hn, if_neg (by intro h; have := h.1; omega)]
    · have hbi : (buildHash m true).hashElements_.index = m.hashElements_.index := by
        rw [t3, if_neg h0]
      rw [hnum, hbi, if_neg h0, if_neg (by rw [← h1]; exact h0)]

/-- What `deleteElement(r, c)` does on a model whose hash index is in step and that holds
the pair `(r, c)` at most once. -/
theorem deleteElement_spec (m : CoinModel) (r c : Int) (hs : HashInStep m)
    (hu : ∀ p ∈ storedPositions m, ∀ q ∈ storedPositions m,
      holds (m.elements_ p) r c = true → holds (m.elements_ q) r c = true → p = q) :
    (∀ p ∈ storedPositions m, holds (m.elements_ p) r c = true →
      (deleteElement m r c).1 = p ∧
      (position (deleteElement m r c).2 r c).1 = -1 ∧
      (getElement (deleteElement m r c).2 r c).1 = 0 ∧
      (deleteElement m r c).2.elements_ p = { m.elements_ p with column := -1, value := 0 } ∧
      (∀ q, q ≠ p → (deleteElement m r c).2.elements_ q = m.elements_ q) ∧
      (∀ r' c', (r', c') ≠ (r, c) →
        (getElement (deleteElement m r c).2 r' c').1 = (getElement m r' c').1) ∧
      SameData m { (deleteElement m r c).2 with elements_ := m.elements_ }) ∧
    ((∀ p ∈ storedPositions m, holds (m.elements_ p) r c = false) →
      (deleteElement m r c).1 = -1 ∧ SameData m (deleteElement m r c).2) := by
  obtain ⟨b1, b2, b3, b4, b6⟩ := buildHash_inStep m hs
  have bE : (buildHash m true).elements_ = m.elements_ := b2.2.2.2.1
  have hpos : (position m r c).1 =
      (buildHash m true).hashElements_.hash r c m.elements_ := by
    unfold position
    dsimp only
    rw [bE]
  have hpm : (position m r c).2 = buildHash m true := rfl
  constructor
  · intro p hp hh
    have hfound : (position m r c).1 = p := by
      rw [hpos]
      apply hash_eq_of_unique _ _ _ _ _ ((b4 p).2 hp) hh
      intro q hq hq'
      exact hu q ((b4 q).1 hq) p hp hq' hh
    have hp0 : 0 ≤ p := (mem_positionsBelow.1 (List.mem_filter.1 hp).1).1
    have hde : deleteElement m r c = (p, deleteThisElement (buildHash m true) r c p) := by
      unfold deleteElement
      dsimp only
      rw [hfound, if_pos hp0, hpm]
    rw [hde]
    dsimp only
    obtain ⟨f1, f2, f3, f4, f5, f6⟩ := deleteThisElement_fields (buildHash m true) r c p
    have hst : storedPositions (buildHash m true) = storedPositions m := by
      unfold storedPositions
      rw [bE, b2.2.2.1]
    have hreads := reads_after_zap (buildHash m true) (deleteThisElement (buildHash m true) r c p)
      [p] [p] (fun t => holds t r c) b1 f2 (fun q hq => hq) (fun q hq => Or.inl hq)
      (fun q => by
        rw [hst, bE]
        constructor
        · intro hq
          rw [List.mem_singleton.1 hq]
          exact ⟨hp, hh⟩
        · intro hq
          exact List.mem_singleton.2 (hu q hq.1 p hp hq.2 hh))
      f1.2.2.1 f3 f4 f5 f6
    obtain ⟨_, g1, g2⟩ := hreads
    have ha := g1 r c (fun t ht => ht)
    refine ⟨rfl, ha.1, ha.2, ?_, ?_, ?_, ?_⟩
    · rw [f2, bE]
      unfold CoinModelLinkedList.zap
      rw [if_pos (List.mem_singleton.2 rfl)]
    · intro q hq
      rw [f2, bE]
      exact zap_of_not_mem _ _ _ (fun h => hq (List.mem_singleton.1 h))
    · intro r' c' hne
      rw [(g2 r' c' (fun t ht => by
        obtain ⟨t1, t2⟩ := holds_column ht
        cases hh' : holds t r c with
        | false => exact hh'
        | true =>
          obtain ⟨u1, u2⟩ := holds_column hh'
          exact absurd (by rw [← t1, ← t2, u1, u2]) hne)).1]
      exact b6 r' c'
    · obtain ⟨s1, s2, s3, s4, s5, s6, s7, s8, s9, s10, s11, s12, s13, s14, s15, s16, s17⟩ := f1
      obtain ⟨t1, t2, t3, t4, t5, t6, t7, t8, t9, t10, t11, t12, t13, t14, t15, t16, t17⟩ := b2
      exact ⟨s1.trans t1, s2.trans t2, s3.trans t3, rfl, s5.trans t5, s6.trans t6,
        s7.trans t7, s8.trans t8, s9.trans t9, s10.trans t10, s11.trans t11, s12.trans t12,
        s13.trans t13, s14.trans t14, s15.trans t15, s16.trans t16, fun h => s17 (t17 h)⟩
  · intro hno
    have habs : (position m r c).1 = -1 := by
      rw [hpos]
      apply hash_absent
      intro q hq
      exact hno q ((b4 q).1 hq)
    have hde : deleteElement m r c = (-1, buildHash m true) := by
      unfold deleteElement
      dsimp only
      rw [habs, if_neg (by decide), hpm]
    rw [hde]
    exact ⟨rfl, b2⟩

theorem deleteHash_fold (f g : Int → Int) : ∀ (ps : List Int) (h : CoinModelHash2),
    ps.foldl (fun h p => h.deleteHash p (f p) (g p)) h =
      { h with index := h.index.filter (fun q => decide (q ∉ ps)) }
  | [], h => by
    simp
  | p :: ps, h => by
    rw [List.foldl_cons, deleteHash_fold f g ps]
    unfold CoinModelHash2.deleteHash
    dsimp only
    rw [List.filter_filter]
    congr 1
    apply List.filter_congr
    intro q _
    by_cases h1 : q = p
    · simp [h1]
    · by_cases h2 : q ∈ ps
      · simp [h1, h2]
      · simp [h1, h2]

theorem deleteRowReset_more (m : CoinModel) (r : Int) :
    (deleteRowReset m r).numberColumns_ = m.numberColumns_ ∧
    (deleteRowReset m r).maximumElements_ = m.maximumElements_ ∧
    (deleteRowReset m r).hashElements_ = m.hashElements_ := by
  unfold deleteRowReset
  dsimp only
  split_ifs <;> exact ⟨rfl, rfl, rfl⟩

theorem deleteRowLists_more (m : CoinModel) :
    (deleteRowLists m).numberColumns_ = m.numberColumns_ ∧
    (deleteRowLists m).maximumElements_ = m.maximumElements_ ∧
    (deleteRowLists m).hashElements_ = m.hashElements_ := by
  unfold deleteRowLists createList
  dsimp only
  split_ifs <;> exact ⟨rfl, rfl, rfl⟩

theorem deleteRowUnlink_more (m : CoinModel) (r : Int) :
    (deleteRowUnlink m r).numberColumns_ = m.numberColumns_ ∧
    (deleteRowUnlink m r).maximumElements_ = m.maximumElements_ ∧
    (deleteRowUnlink m r).hashElements_.numberItems_ = m.hashElements_.numberItems_ ∧
    (deleteRowUnlink m r).hashElements_.maximumItems_ = m.hashElements_.maximumItems_ ∧
    (deleteRowUnlink m r).hashElements_.index =
      (if m.hashElements_.numberItems_ ≠ 0 then
        m.hashElements_.index.filter (fun p => decide (p ∉ m.rowList_.chain r))
      else m.hashElements_.index) := by
  unfold deleteRowUnlink CoinModelLinkedList.deleteSame CoinModelLinkedList.updateDeleted
    CoinModelHash2.numberItems
  dsimp only
  rw [deleteHash_fold]
  split_ifs <;> exact ⟨rfl, rfl, rfl, rfl, rfl⟩

/-- The triples and the hash index after `deleteRow(r)` on a model whose lists are in
order: the triples marked deleted are those of row `r` and, possibly, slots that were
deleted before, and the hash entries of the triples of row `r` are removed. -/
theorem deleteRow_zap (m : CoinModel) (r : Int) (hr : r < m.numberRows_)
    (hl : RowChainOK m r) :
    (deleteRow m r).Returns fun d =>
      d.numberColumns_ = m.numberColumns_ ∧ d.maximumElements_ = m.maximumElements_ ∧
      ∃ Z ch : List Int, d.elements_ = CoinModelLinkedList.zap m.elements_ Z ∧
        (∀ p ∈ ch, p ∈ Z) ∧ (∀ p ∈ Z, p ∈ ch ∨ (m.elements_ p).column < 0) ∧
        (∀ p, p ∈ ch ↔ p ∈ storedPositions m ∧
          decide (rowInTriple (m.elements_ p) = r) = true) ∧
        d.hashElements_.numberItems_ = m.hashElements_.numberItems_ ∧
        d.hashElements_.maximumItems_ = m.hashElements_.maximumItems_ ∧
        d.hashElements_.index =
          (if m.hashElements_.numberItems_ ≠ 0 then
            m.hashElements_.index.filter (fun p => decide (p ∉ ch))
          else m.hashElements_.index) := by
  rw [deleteRow_eq m r hr]
  refine Outcome.returns_returned ?_
  obtain ⟨a1, a2, a3, a4, a5, a6, a7, a8, a9, a10, a11, a12⟩ := deleteRowReset_spec m r
  obtain ⟨x1, x2, x3⟩ := deleteRowReset_more m r
  have hst : storedPositions (deleteRowReset m r) = storedPositions m := by
    unfold storedPositions
    rw [a2, a3]
  have hl' : RowChainOK (deleteRowReset m r) r := by
    unfold RowChainOK
    rw [a5, a6, a7, hst, a3]
    exact hl
  obtain ⟨b1, b2, b3, b4, b5, b6, b7, b8, b9, b10, b11, b12⟩ :=
    deleteRowLists_spec (deleteRowReset m r) r hl'
  obtain ⟨y1, y2, y3⟩ := deleteRowLists_more (deleteRowReset m r)
  rw [hst, a3] at b10 b11
  rw [a3] at b12
  have hcol : ∀ p ∈ storedPositions m, 0 ≤ (m.elements_ p).column := by
    intro p hp
    have := (List.mem_filter.1 hp).2
    simpa using this
  obtain ⟨c1, c2, c3, c4, c5, c6, c7, c8, Z, c9, c10, c11⟩ :=
    deleteRowUnlink_zap (deleteRowLists (deleteRowReset m r)) r
      (fun p hp => by rw [b3, a3]; exact hcol p (b10 p hp).1)
      (fun h => by rw [b3, a3]; exact b12 h)
  obtain ⟨z1, z2, z3, z4, z5⟩ := deleteRowUnlink_more (deleteRowLists (deleteRowReset m r)) r
  rw [b3, a3] at c9 c11
  rw [y3, x3] at z3 z4 z5
  refine ⟨z1.trans (y1.trans x1), z2.trans (y2.trans x2), Z,
    (deleteRowLists (deleteRowReset m r)).rowList_.chain r, c9, c10, c11, fun p => ?_,
    z3, z4, z5⟩
  constructor
  · intro hp
    exact ⟨(b10 p hp).1, decide_eq_true (b10 p hp).2⟩
  · intro hp
    exact b11 p hp.1 (of_decide_eq_true hp.2)

/-- What the readers see after `deleteRow(r)`. -/
theorem deleteRow_reads (m : CoinModel) (r : Int) (hr : r < m.numberRows_)
    (hl : RowChainOK m r) (hs : HashInStep m) (ht : RowsTogether m) :
    (deleteRow m r).Returns fun d =>
      getRowLower d r = -COIN_DBL_MAX ∧ getRowUpper d r = COIN_DBL_MAX ∧
      load d.rowType_ 0 r = 0 ∧
      (∀ c, (position d r c).1 = -1 ∧ (getElement d r c).1 = 0) ∧
      d.numberRows_ = m.numberRows_ ∧ d.numberColumns_ = m.numberColumns_ ∧
      (∀ i c, i ≠ r → (getElement d i c).1 = (getElement m i c).1 ∧
        (position d i c).1 = (position m i c).1) ∧
      HashInStep d := by
  apply Outcome.returns_mono (Outcome.returns_and (deleteRow_spec m r hr hl)
    (deleteRow_zap m r hr hl))
  rintro d ⟨⟨s1, s2, s3, s4, s5, s6, s7, s8, s9, s10⟩, z1, z2, Z, ch, e1, e2, e3, e4, e5, e6, e7⟩
  obtain ⟨g0, g1, g2⟩ := reads_after_zap m d Z ch (fun t => decide (rowInTriple t = r)) hs e1 e2
    e3 e4 s2 z2 e5 e6 e7
  refine ⟨?_, ?_, ?_, fun c => g1 r c (fun t h => decide_eq_true (holds_column h).1),
    s1, z1, fun i c hi => g2 i c (fun t h => decide_eq_false (by
      rw [(holds_column h).1]
      exact hi)), g0⟩
  · unfold getRowLower
    rw [s5]
    by_cases h : m.rowLower_.isSome = true
    · rw [if_pos h, isSome_store, load_store_of_isSome _ h, if_pos rfl]
      split_ifs <;> rfl
    · rw [if_neg h, if_neg (fun h' => h h'.2)]
  · unfold getRowUpper
    rw [s6]
    by_cases h : m.rowLower_.isSome = true
    · have hu : m.rowUpper_.isSome = true := ht.1.trans h
      rw [if_pos h, isSome_store, load_store_of_isSome _ hu, if_pos rfl]
      split_ifs <;> rfl
    · have hu : ¬ m.rowUpper_.isSome = true := fun h' => h (ht.1.symm.trans h')
      rw [if_neg h, if_neg (fun h' => hu h'.2)]
  · rw [s7]
    by_cases h : m.rowLower_.isSome = true
    · have hu : m.rowType_.isSome = true := ht.2.trans h
      rw [if_pos h, load_store_of_isSome _ hu, if_pos rfl]
    · have hu : ¬ m.rowType_.isSome = true := fun h' => h (ht.2.symm.trans h')
      rw [if_neg h]
      cases hx : m.rowType_ with
      | none => rfl
      | some f =>
        rw [hx] at hu
        exact absurd rfl hu

/-- The column list that `createList(2)` builds, and what else it changes. -/
theorem createList_columnList (m : CoinModel) :
    (∀ k p, p ∈ (createList m 2).columnList_.chain k ↔
      p ∈ storedPositions m ∧ (m.elements_ p).column = k) ∧
    (createList m 2).columnList_.free =
      (if m.links_ = 1 then m.rowList_.free
       else (positionsBelow m.numberElements_).filter
         (fun p => decide ((m.elements_ p).column < 0))) ∧
    (createList m 2).rowList_ = m.rowList_ ∧
    (createList m 2).links_ = m.links_ ||| 2 := by
  unfold createList
  rw [if_neg (by decide)]
  dsimp only
  refine ⟨?_, ?_, rfl, rfl⟩
  · intro k p
    have hc : ∀ l : CoinModelLinkedList, p ∈ (l.synchronize m.rowList_).chain k ↔
        p ∈ l.chain k := fun l => Iff.rfl
    have hmem : p ∈ (m.columnList_.create m.maximumColumns_ m.maximumElements_ m.numberColumns_
        m.numberRows_ 1 m.numberElements_ m.elements_).chain k ↔
        p ∈ storedPositions m ∧ (m.elements_ p).column = k := by
      unfold CoinModelLinkedList.create storedPositions
      simp only [List.mem_filter, Bool.and_eq_true, decide_eq_true_eq,
        CoinModelLinkedList.majorOf, if_true]
      tauto
    split_ifs
    · exact (hc _).trans hmem
    · exact hmem
  · split_ifs <;> rfl

/-- The block `need lists` of `deleteColumn`: the data of the model are kept, and the column
list that exists afterwards has the chain that `deleteColumn` needs. -/
theorem deleteColumnLists_spec (m : CoinModel) (r : Int) (hl : ColumnChainOK m r) :
    (deleteColumnLists m).numberColumns_ = m.numberColumns_ ∧
    (deleteColumnLists m).numberElements_ = m.numberElements_ ∧
    (deleteColumnLists m).elements_ = m.elements_ ∧
    (m.type_ ≠ 3 → (deleteColumnLists m).type_ ≠ 3) ∧
    (deleteColumnLists m).noNames_ = m.noNames_ ∧
    (deleteColumnLists m).columnLower_ = m.columnLower_ ∧
    (deleteColumnLists m).columnUpper_ = m.columnUpper_ ∧
    (deleteColumnLists m).columnType_ = m.columnType_ ∧
    (deleteColumnLists m).columnName_ = m.columnName_ ∧
    (∀ p ∈ (deleteColumnLists m).columnList_.chain r,
      p ∈ storedPositions m ∧ (m.elements_ p).column = r) ∧
    (∀ p ∈ storedPositions m, (m.elements_ p).column = r →
      p ∈ (deleteColumnLists m).columnList_.chain r) ∧
    ((deleteColumnLists m).links_ = 3 →
      (∀ p ∈ (deleteColumnLists m).columnList_.free, (m.elements_ p).column < 0) ∧
      (∀ p ∈ (deleteColumnLists m).rowList_.free, (m.elements_ p).column < 0)) := by
  obtain ⟨hl3, hl1, hl2⟩ := hl
  have key : ∀ m0 : CoinModel, m0.numberColumns_ = m.numberColumns_ →
      m0.numberElements_ = m.numberElements_ → m0.elements_ = m.elements_ →
      (m.type_ ≠ 3 → m0.type_ ≠ 3) → m0.noNames_ = m.noNames_ →
      m0.columnLower_ = m.columnLower_ → m0.columnUpper_ = m.columnUpper_ → m0.columnType_ = m.columnType_ →
      m0.columnName_ = m.columnName_ → m0.links_ = m.links_ → m0.columnList_ = m.columnList_ →
      m0.rowList_ = m.rowList_ →
      deleteColumnLists m = (if m0.links_ &&& 2 = 0 then createList m0 2 else m0) →
      _ := fun m0 a1 a2 a3 a4 a5 a6 a7 a8 a9 a10 a11 a12 e => (show
        (deleteColumnLists m).numberColumns_ = m.numberColumns_ ∧
        (deleteColumnLists m).numberElements_ = m.numberElements_ ∧
        (deleteColumnLists m).elements_ = m.elements_ ∧
        (m.type_ ≠ 3 → (deleteColumnLists m).type_ ≠ 3) ∧
        (deleteColumnLists m).noNames_ = m.noNames_ ∧
        (deleteColumnLists m).columnLower_ = m.columnLower_ ∧
        (deleteColumnLists m).columnUpper_ = m.columnUpper_ ∧
        (deleteColumnLists m).columnType_ = m.columnType_ ∧
        (deleteColumnLists m).columnName_ = m.columnName_ ∧
        (∀ p ∈ (deleteColumnLists m).columnList_.chain r,
          p ∈ storedPositions m ∧ (m.elements_ p).column = r) ∧
        (∀ p ∈ storedPositions m, (m.elements_ p).column = r →
          p ∈ (deleteColumnLists m).columnList_.chain r) ∧
        ((deleteColumnLists m).links_ = 3 →
          (∀ p ∈ (deleteColumnLists m).columnList_.free, (m.elements_ p).column < 0) ∧
          (∀ p ∈ (deleteColumnLists m).rowList_.free, (m.elements_ p).column < 0)) from by
      have hst : storedPositions m0 = storedPositions m := by
        unfold storedPositions
        rw [a2, a3]
      rw [e]
      by_cases h1 : m0.links_ &&& 2 = 0
      · rw [if_pos h1]
        obtain ⟨c1, c2, c3, c4⟩ := createList_columnList m0
        have sd := sameData_createList m0 2
        obtain ⟨s1, s2, s3, s4, s5, s6, s7, s8, s9, s10, s11, s12, s13, s14, s15, s16, s17⟩ := sd
        refine ⟨s2.trans a1, s3.trans a2, s4.trans a3, fun h => s17 (a4 h), s16.trans a5,
          s8.trans a6, s9.trans a7, s12.trans a8, s14.trans a9, ?_, ?_, ?_⟩
        · intro p hp
          have := (c1 r p).1 hp
          rw [hst, a3] at this
          exact this
        · intro p hp hr
          apply (c1 r p).2
          rw [hst, a3]
          exact ⟨hp, hr⟩
        · intro h3
          rw [c4, a10] at h3
          rw [a10] at h1
          have h2 : m.links_ = 1 := by
            have hle := hl3
            interval_cases m.links_ <;> simp_all
          have hcol := hl2 (by rw [h2]; decide)
          rw [c2, c3, a10, if_pos h2, a12]
          exact ⟨hcol, hcol⟩
      · rw [if_neg h1]
        rw [a10] at h1
        obtain ⟨d1, d2, d3⟩ := hl1 h1
        refine ⟨a1, a2, a3, a4, a5, a6, a7, a8, a9, ?_, ?_, ?_⟩
        · rw [a11]
          exact d1
        · rw [a11]
          exact d2
        · intro h3
          rw [a10] at h3
          rw [a11, a12]
          exact ⟨d3, hl2 (by rw [h3]; decide)⟩)
  by_cases ht : m.type_ = 0
  · exact key { m with start_ := none } rfl rfl rfl (fun _ => by show m.type_ ≠ 3; omega)
      rfl rfl rfl rfl rfl rfl rfl rfl (by unfold deleteColumnLists; rw [if_pos ht])
  · exact key m rfl rfl rfl id rfl rfl rfl rfl rfl rfl rfl rfl
      (by unfold deleteColumnLists; rw [if_neg ht])
/-- The end of `deleteColumn`: the triples that are marked deleted are those of the chain of
the row and, possibly, slots that were deleted before. -/
theorem deleteColumnUnlink_zap (m : CoinModel) (r : Int)
    (h1 : ∀ p ∈ m.columnList_.chain r, 0 ≤ (m.elements_ p).column)
    (h3 : m.links_ = 3 →
      (∀ p ∈ m.columnList_.free, (m.elements_ p).column < 0) ∧
      (∀ p ∈ m.rowList_.free, (m.elements_ p).column < 0)) :
    (deleteColumnUnlink m r).numberColumns_ = m.numberColumns_ ∧
    (deleteColumnUnlink m r).numberElements_ = m.numberElements_ ∧
    (deleteColumnUnlink m r).type_ = m.type_ ∧
    (deleteColumnUnlink m r).noNames_ = m.noNames_ ∧
    (deleteColumnUnlink m r).columnLower_ = m.columnLower_ ∧
    (deleteColumnUnlink m r).columnUpper_ = m.columnUpper_ ∧
    (deleteColumnUnlink m r).columnType_ = m.columnType_ ∧
    (deleteColumnUnlink m r).columnName_ = m.columnName_ ∧
    ∃ Z : List Int, (deleteColumnUnlink m r).elements_ = CoinModelLinkedList.zap m.elements_ Z ∧
      (∀ p ∈ m.columnList_.chain r, p ∈ Z) ∧
      (∀ p ∈ Z, p ∈ m.columnList_.chain r ∨ (m.elements_ p).column < 0) := by
  unfold deleteColumnUnlink CoinModelLinkedList.deleteSame
  dsimp only
  by_cases h : m.links_ = 3
  · obtain ⟨f1, f2⟩ := h3 h
    rw [if_pos h]
    have hd : decide (m.links_ ≠ 3) = false := decide_eq_false (fun x => x h)
    simp only [hd, Bool.false_eq_true, if_false]
    unfold CoinModelLinkedList.updateDeleted
    dsimp only
    refine ⟨trivial, trivial, trivial, trivial, trivial, trivial, trivial, trivial, _, rfl, ?_, ?_⟩
    · intro p hp
      apply List.mem_filter.2
      refine ⟨List.mem_append_right _ hp, ?_⟩
      have : p ∉ m.rowList_.free := fun hc => by
        have a := f2 p hc
        have b := h1 p hp
        omega
      simpa using this
    · intro p hp
      rcases List.mem_append.1 (List.mem_filter.1 hp).1 with hf | hc
      · exact Or.inr (f1 p hf)
      · exact Or.inl hc
  · rw [if_neg h]
    have hd : decide (m.links_ ≠ 3) = true := decide_eq_true h
    simp only [hd, if_true]
    exact ⟨trivial, trivial, trivial, trivial, trivial, trivial, trivial, trivial, _, rfl, fun p hp => hp,
      fun p hp => Or.inl hp⟩

/-- The first block of `deleteColumn` touches the column arrays and the column names
only. -/
theorem deleteColumnReset_spec (m : CoinModel) (r : Int) :
    (deleteColumnReset m r).numberColumns_ = m.numberColumns_ ∧
    (deleteColumnReset m r).numberElements_ = m.numberElements_ ∧
    (deleteColumnReset m r).elements_ = m.elements_ ∧
    (deleteColumnReset m r).type_ = m.type_ ∧
    (deleteColumnReset m r).links_ = m.links_ ∧
    (deleteColumnReset m r).rowList_ = m.rowList_ ∧
    (deleteColumnReset m r).columnList_ = m.columnList_ ∧
    (deleteColumnReset m r).noNames_ = m.noNames_ ∧
    (deleteColumnReset m r).columnLower_ =
      (if m.columnLower_.isSome then store m.columnLower_ r 0 else m.columnLower_) ∧
    (deleteColumnReset m r).columnUpper_ =
      (if m.columnLower_.isSome then store m.columnUpper_ r COIN_DBL_MAX
       else m.columnUpper_) ∧
    (deleteColumnReset m r).columnType_ =
      (if m.columnLower_.isSome then store m.columnType_ r 0 else m.columnType_) ∧
    (deleteColumnReset m r).objective_ =
      (if m.columnLower_.isSome then store m.objective_ r 0 else m.objective_) ∧
    (deleteColumnReset m r).integerType_ =
      (if m.columnLower_.isSome then store m.integerType_ r 0 else m.integerType_) := by
  unfold deleteColumnReset
  by_cases h : m.columnLower_.isSome
  · by_cases hn : m.noNames_ = false
    · simp [h, hn]
    · simp [h, hn]
  · simp [h]

theorem deleteColumnReset_more (m : CoinModel) (r : Int) :
    (deleteColumnReset m r).numberRows_ = m.numberRows_ ∧
    (deleteColumnReset m r).maximumElements_ = m.maximumElements_ ∧
    (deleteColumnReset m r).hashElements_ = m.hashElements_ := by
  unfold deleteColumnReset
  dsimp only
  split_ifs <;> exact ⟨rfl, rfl, rfl⟩

theorem deleteColumnLists_more (m : CoinModel) :
    (deleteColumnLists m).numberRows_ = m.numberRows_ ∧
    (deleteColumnLists m).maximumElements_ = m.maximumElements_ ∧
    (deleteColumnLists m).hashElements_ = m.hashElements_ ∧
    (deleteColumnLists m).objective_ = m.objective_ ∧
    (deleteColumnLists m).integerType_ = m.integerType_ := by
  unfold deleteColumnLists createList
  dsimp only
  split_ifs <;> exact ⟨rfl, rfl, rfl, rfl, rfl⟩

theorem deleteColumnUnlink_more (m : CoinModel) (r : Int) :
    (deleteColumnUnlink m r).numberRows_ = m.numberRows_ ∧
    (deleteColumnUnlink m r).maximumElements_ = m.maximumElements_ ∧
    (deleteColumnUnlink m r).hashElements_.numberItems_ = m.hashElements_.numberItems_ ∧
    (deleteColumnUnlink m r).hashElements_.maximumItems_ = m.hashElements_.maximumItems_ ∧
    (deleteColumnUnlink m r).hashElements_.index =
      (if m.hashElements_.numberItems_ ≠ 0 then
        m.hashElements_.index.filter (fun p => decide (p ∉ m.columnList_.chain r))
      else m.hashElements_.index) ∧
    (deleteColumnUnlink m r).objective_ = m.objective_ ∧
    (deleteColumnUnlink m r).integerType_ = m.integerType_ := by
  unfold deleteColumnUnlink CoinModelLinkedList.deleteSame CoinModelLinkedList.updateDeleted
    CoinModelHash2.numberItems
  dsimp only
  rw [deleteHash_fold]
  split_ifs <;> exact ⟨rfl, rfl, rfl, rfl, rfl, rfl, rfl⟩

theorem deleteColumn_eq (m : CoinModel) (r : Int) (h : r < m.numberColumns_)
    (h3 : m.type_ ≠ 3) :
    deleteColumn m r =
      Outcome.returned (deleteColumnUnlink (deleteColumnLists (deleteColumnReset m r)) r) := by
  have ht : (deleteColumnReset m r).type_ = m.type_ := (deleteColumnReset_spec m r).2.2.2.1
  have e : deleteColumn m r =
      ((if (deleteColumnReset m r).type_ = 0 then
          Outcome.returned { deleteColumnReset m r with start_ := none }
        else if (deleteColumnReset m r).type_ = 3 then badType (deleteColumnReset m r)
        else Outcome.returned (deleteColumnReset m r)).bind fun a =>
        Outcome.returned (deleteColumnUnlink
          (if a.links_ &&& 2 = 0 then createList a 2 else a) r)) := by
    unfold deleteColumn
    rw [if_pos h]
    rfl
  rw [e]
  unfold deleteColumnLists
  by_cases h0 : (deleteColumnReset m r).type_ = 0
  · rw [if_pos h0, if_pos h0]
    rfl
  · rw [if_neg h0, if_neg h0, if_neg (by rw [ht]; exact h3)]
    rfl

/-- The triples, the hash index and the column arrays after `deleteColumn(c)` on a
model that is not externally packed and whose lists are in order. -/
theorem deleteColumn_zap (m : CoinModel) (r : Int) (hr : r < m.numberColumns_)
    (h3 : m.type_ ≠ 3) (hl : ColumnChainOK m r) :
    (deleteColumn m r).Returns fun d =>
      d.numberRows_ = m.numberRows_ ∧ d.numberColumns_ = m.numberColumns_ ∧
      d.numberElements_ = m.numberElements_ ∧ d.maximumElements_ = m.maximumElements_ ∧
      d.type_ ≠ 3 ∧
      d.columnLower_ =
        (if m.columnLower_.isSome then store m.columnLower_ r 0 else m.columnLower_) ∧
      d.columnUpper_ =
        (if m.columnLower_.isSome then store m.columnUpper_ r COIN_DBL_MAX
         else m.columnUpper_) ∧
      d.columnType_ =
        (if m.columnLower_.isSome then store m.columnType_ r 0 else m.columnType_) ∧
      d.objective_ =
        (if m.columnLower_.isSome then store m.objective_ r 0 else m.objective_) ∧
      d.integerType_ =
        (if m.columnLower_.isSome then store m.integerType_ r 0 else m.integerType_) ∧
      ∃ Z ch : List Int, d.elements_ = CoinModelLinkedList.zap m.elements_ Z ∧
        (∀ p ∈ ch, p ∈ Z) ∧ (∀ p ∈ Z, p ∈ ch ∨ (m.elements_ p).column < 0) ∧
        (∀ p, p ∈ ch ↔ p ∈ storedPositions m ∧
          decide ((m.elements_ p).column = r) = true) ∧
        d.hashElements_.numberItems_ = m.hashElements_.numberItems_ ∧
        d.hashElements_.maximumItems_ = m.hashElements_.maximumItems_ ∧
        d.hashElements_.index =
          (if m.hashElements_.numberItems_ ≠ 0 then
            m.hashElements_.index.filter (fun p => decide (p ∉ ch))
          else m.hashElements_.index) := by
  rw [deleteColumn_eq m r hr h3]
  refine Outcome.returns_returned ?_
  obtain ⟨a1, a2, a3, a4, a5, a6, a7, a8, a9, a10, a11, a12, a13⟩ := deleteColumnReset_spec m r
  obtain ⟨x1, x2, x3⟩ := deleteColumnReset_more m r
  have hst : storedPositions (deleteColumnReset m r) = storedPositions m := by
    unfold storedPositions
    rw [a2, a3]
  have hl' : ColumnChainOK (deleteColumnReset m r) r := by
    unfold ColumnChainOK
    rw [a5, a6, a7, hst, a3]
    exact hl
  obtain ⟨b1, b2, b3, b4, b5, b6, b7, b8, b9, b10, b11, b12⟩ :=
    deleteColumnLists_spec (deleteColumnReset m r) r hl'
  obtain ⟨y1, y2, y3, y4, y5⟩ := deleteColumnLists_more (deleteColumnReset m r)
  rw [hst, a3] at b10 b11
  rw [a3] at b12
  have hcol : ∀ p ∈ storedPositions m, 0 ≤ (m.elements_ p).column := by
    intro p hp
    have := (List.mem_filter.1 hp).2
    simpa using this
  obtain ⟨c1, c2, c3, c4, c5, c6, c7, c8, Z, c9, c10, c11⟩ :=
    deleteColumnUnlink_zap (deleteColumnLists (deleteColumnReset m r)) r
      (fun p hp => by rw [b3, a3]; exact hcol p (b10 p hp).1)
      (fun h => by rw [b3, a3]; exact b12 h)
  obtain ⟨z1, z2, z3, z4, z5, z6, z7⟩ :=
    deleteColumnUnlink_more (deleteColumnLists (deleteColumnReset m r)) r
  rw [b3, a3] at c9 c11
  rw [y3, x3] at z3 z4 z5
  refine ⟨z1.trans (y1.trans x1), c1.trans (b1.trans a1), c2.trans (b2.trans a2),
    z2.trans (y2.trans x2), ?_, ?_, ?_, ?_, ?_, ?_, Z,
    (deleteColumnLists (deleteColumnReset m r)).columnList_.chain r, c9, c10, c11, fun p => ?_,
    z3, z4, z5⟩
  · rw [c3]
    exact b4 (by rw [a4]; exact h3)
  · rw [c5, b6, a9]
  · rw [c6, b7, a10]
  · rw [c7, b8, a11]
  · rw [z6, y4, a12]
  · rw [z7, y5, a13]
  · constructor
    · intro hp
      exact ⟨(b10 p hp).1, decide_eq_true (b10 p hp).2⟩
    · intro hp
      exact b11 p hp.1 (of_decide_eq_true hp.2)

/-- What the readers see after `deleteColumn(c)`. -/
theorem deleteColumn_reads (m : CoinModel) (c : Int) (hc : c < m.numberColumns_)
    (h3 : m.type_ ≠ 3) (hl : ColumnChainOK m c) (hs : HashInStep m) (ht : ColumnsTogether m) :
    (deleteColumn m c).Returns fun d =>
      getColumnLower d c = 0 ∧ getColumnUpper d c = COIN_DBL_MAX ∧
      getColumnObjective d c = 0 ∧ getColumnIsInteger d c = false ∧
      load d.columnType_ 0 c = 0 ∧
      (∀ i, (position d i c).1 = -1 ∧ (getElement d i c).1 = 0) ∧
      d.numberRows_ = m.numberRows_ ∧ d.numberColumns_ = m.numberColumns_ ∧
      (∀ i j, j ≠ c → (getElement d i j).1 = (getElement m i j).1 ∧
        (position d i j).1 = (position m i j).1) ∧
      HashInStep d := by
  apply Outcome.returns_mono (deleteColumn_zap m c hc h3 hl)
  rintro d ⟨s1, s2, s3, s4, s5, s6, s7, s8, s9, s10, Z, ch, e1, e2, e3, e4, e5, e6, e7⟩
  obtain ⟨g0, g1, g2⟩ := reads_after_zap m d Z ch (fun t => decide (t.column = c)) hs e1 e2
    e3 e4 s3 s4 e5 e6 e7
  obtain ⟨t1, t2, t3, t4⟩ := ht
  have none_of : ∀ {α : Type} (a : Option (Int → α)), ¬ a.isSome = true → a = none := by
    intro α a h
    cases a with
    | none => rfl
    | some f => exact absurd rfl h
  refine ⟨?_, ?_, ?_, ?_, ?_, fun i => g1 i c (fun t h => decide_eq_true (holds_column h).2),
    s1, s2, fun i j hj => g2 i j (fun t h => decide_eq_false (by
      rw [(holds_column h).2]
      exact hj)), g0⟩
  · unfold getColumnLower
    rw [s6]
    by_cases h : m.columnLower_.isSome = true
    · rw [if_pos h, isSome_store, load_store_of_isSome _ h, if_pos rfl]
      split_ifs <;> rfl
    · rw [if_neg h, if_neg (fun h' => h h'.2)]
  · unfold getColumnUpper
    rw [s7]
    by_cases h : m.columnLower_.isSome = true
    · have hu : m.columnUpper_.isSome = true := t1.trans h
      rw [if_pos h, isSome_store, load_store_of_isSome _ hu, if_pos rfl]
      split_ifs <;> rfl
    · have hu : ¬ m.columnUpper_.isSome = true := fun h' => h (t1.symm.trans h')
      rw [if_neg h, if_neg (fun h' => hu h'.2)]
  · unfold getColumnObjective
    rw [s9]
    by_cases h : m.columnLower_.isSome = true
    · have hu : m.objective_.isSome = true := t2.trans h
      rw [if_pos h, isSome_store, load_store_of_isSome _ hu, if_pos rfl]
      split_ifs <;> rfl
    · have hu : ¬ m.objective_.isSome = true := fun h' => h (t2.symm.trans h')
      rw [if_neg h, if_neg (fun h' => hu h'.2)]
  · unfold getColumnIsInteger
    rw [s10]
    by_cases h : m.columnLower_.isSome = true
    · have hu : m.integerType_.isSome = true := t3.trans h
      rw [if_pos h, isSome_store, load_store_of_isSome _ hu, if_pos rfl]
      split_ifs <;> simp
    · have hu : ¬ m.integerType_.isSome = true := fun h' => h (t3.symm.trans h')
      rw [if_neg h, if_neg (fun h' => hu h'.2)]
  · rw [s8]
    by_cases h : m.columnLower_.isSome = true
    · have hu : m.columnType_.isSome = true := t4.trans h
      rw [if_pos h, load_store_of_isSome _ hu, if_pos rfl]
    · have hu : ¬ m.columnType_.isSome = true := fun h' => h (t4.symm.trans h')
      rw [if_neg h, none_of _ hu]
      rfl

/-- C1 (defect shown at a concrete input): on a default model `addRow(1, {0}, {1.0}, 2, 5)`
stores the pair `(0,0)`.  The numeric `setElement(0, 0, 5.0)` that follows sizes the
hash index without telling it how many triples exist, does not find the pair and stores
it a second time: the element count goes from 1 to 2 and two non-deleted triples hold
`(0,0)`.  When a reader (`getElement`) has built the index first, the same call
overwrites in place. -/
theorem C1_setElement_stores_existing_pair_twice :
    (addRow CoinModel.default 1 [0] [1] 2 5 none).Returns fun m1 =>
      m1.numberElements_ = 1 ∧ storedTriples m1 = [(0, 0, 1)] ∧
      ((setElement m1 0 0 5).Returns fun m2 =>
        m2.numberElements_ = 2 ∧ storedTriples m2 = [(0, 0, 1), (0, 0, 5)]) ∧
      ((setElement (getElement m1 0 0).2 0 0 5).Returns fun m2 =>
        m2.numberElements_ = 1 ∧ storedTriples m2 = [(0, 0, 5)]) := by
  decide!

/-- C2 (defect shown at a concrete input): the state reached from the empty model by
`addColumn(1, {0}, {1.0}, ...)` followed by the numeric `setElement(0, 0, 5.0)` holds
the pair `(0,0)` in two non-deleted triples, although the pairs were unique before the
second call. -/
theorem C2_reachable_state_with_duplicate_pair :
    (addColumn CoinModel.default 1 [0] [1] 0 1 0 none false).Returns fun m1 =>
      (storedPairs m1).Nodup ∧
      (setElement m1 0 0 5).Returns fun m2 =>
        storedPairs m2 = [(0, 0), (0, 0)] ∧ ¬ (storedPairs m2).Nodup := by
  decide!

/-- C4: on a model that is not externally packed, `addRow` ends in `abort()` if and only
if the batch is not empty and its column indices hold a negative index or the same index
twice, whatever the order of the indices; otherwise it returns.  The same holds for
`addColumn` and its row indices. -/
theorem C4_add_fails_iff_bad_indices (m : CoinModel) (h : m.type_ ≠ 3) (indices : List Int)
    (elements : List Value) (lo up obj : Value) (name : Option String) (isInt : Bool) :
    ((addRow m indices.length indices elements lo up name).isAborted = true ↔
      BadIndices indices) ∧
    ((addRow m indices.length indices elements lo up name).isReturned = true ↔
      ¬ BadIndices indices) ∧
    ((addColumn m indices.length indices elements lo up obj name isInt).isAborted = true ↔
      BadIndices indices) ∧
    ((addColumn m indices.length indices elements lo up obj name isInt).isReturned = true ↔
      ¬ BadIndices indices) := by
  by_cases hb : BadIndices indices
  · have h1 := Outcome.isAborted_of_aborts
      (addRow_bad m indices elements lo up name hb _ (keeps_addRowMode m h))
    have h2 := Outcome.isAborted_of_aborts
      (addColumn_bad m indices elements lo up obj name isInt hb _ (keeps_addColumnMode m h))
    rw [h1.1, h1.2, h2.1, h2.2]
    simp [hb]
  · have h1 := Outcome.isReturned_of_returns (addRow_good m h indices elements lo up name hb)
    have h2 := Outcome.isReturned_of_returns
      (addColumn_good m h indices elements lo up obj name isInt hb)
    rw [h1.1, h1.2, h2.1, h2.2]
    simp [hb]

/-- C4 at a concrete input: the default model and the batch `{1, 1}`. -/
theorem C4_add_fails_iff_bad_indices_witness :
    CoinModel.default.type_ ≠ 3 ∧
    ((addRow CoinModel.default ([1, 1] : List Int).length [1, 1] [1, 2] 2 5 none).isAborted
        = true ↔ BadIndices [1, 1]) :=
  ⟨by decide,
   (C4_add_fails_iff_bad_indices CoinModel.default (by decide) [1, 1] [1, 2] 2 5 0 none
      false).1⟩

/-- C5 (the claim as stated fails): the first `addRow` on a default model, called with
the duplicate batch `{1, 1}`, aborts in a state whose mode is 2 instead of -1, with a row
list and with capacities 100 rows and 1000 elements instead of 0. -/
theorem C5_rejected_addRow_changes_mode_and_capacity :
    CoinModel.default.type_ = -1 ∧ CoinModel.default.maximumRows_ = 0 ∧
    CoinModel.default.maximumElements_ = 0 ∧ CoinModel.default.links_ = 0 ∧
    (addRow CoinModel.default 2 [1, 1] [1, 2] 2 5 none).Aborts fun m' =>
      m'.type_ = 2 ∧ m'.maximumRows_ = 100 ∧ m'.maximumElements_ = 1000 ∧ m'.links_ = 1 := by
  decide!

/-- C5 (amended): when `addRow` or `addColumn` is called with a bad batch, on a default
model or on a model in a mode other than -1 and 3, the call ends in `abort()`; in the state
reached there the counts, the stored triples and the bounds, objective and integrality
that the readers see are those before the call.  Unless the model was uninitialized the
capacities are unchanged too, and the mode is unchanged or has gone from 1 to 2 (`addRow`)
or from 0 to 2 (`addColumn`). -/
theorem C5_rejected_add_keeps_content (m : CoinModel)
    (hm : m = CoinModel.default ∨ (m.type_ ≠ -1 ∧ m.type_ ≠ 3)) (indices : List Int)
    (elements : List Value) (lo up obj : Value) (name : Option String) (isInt : Bool)
    (hb : BadIndices indices) :
    ((addRow m indices.length indices elements lo up name).Aborts fun m' =>
      SameContent m m' ∧
      (m.type_ ≠ -1 → SameCapacity m m' ∧ (m'.type_ = m.type_ ∨ (m.type_ = 1 ∧ m'.type_ = 2)))) ∧
    ((addColumn m indices.length indices elements lo up obj name isInt).Aborts fun m' =>
      SameContent m m' ∧
      (m.type_ ≠ -1 → SameCapacity m m' ∧ (m'.type_ = m.type_ ∨ (m.type_ = 0 ∧ m'.type_ = 2)))) := by
  rcases hm with rfl | ⟨h1, h3⟩
  · constructor
    · obtain ⟨m', he, a, ha, hs, _⟩ :=
        addRow_bad CoinModel.default indices elements lo up name hb _ addRowMode_default
      refine ⟨m', he, ?_, fun h => absurd rfl h⟩
      exact sameContent_of_empty rfl rfl rfl (hs.1.trans ha.1) (hs.2.1.trans ha.2.1)
        (hs.2.2.1.trans ha.2.2)
    · obtain ⟨m', he, a, ha, hs, _⟩ :=
        addColumn_bad CoinModel.default indices elements lo up obj name isInt hb _
          addColumnMode_default
      refine ⟨m', he, ?_, fun h => absurd rfl h⟩
      exact sameContent_of_empty rfl rfl rfl (hs.1.trans ha.1) (hs.2.1.trans ha.2.1)
        (hs.2.2.1.trans ha.2.2)
  · constructor
    · obtain ⟨m', he, a, ha, hs, ht⟩ :=
        addRow_bad m indices elements lo up name hb _ (addRowMode_same m h1 h3)
      have hsf := sameContent_of_sameFields (sameFields_trans ha.1 hs)
      refine ⟨m', he, hsf.1, fun _ => ⟨hsf.2, ?_⟩⟩
      rw [ht]
      exact ha.2
    · obtain ⟨m', he, a, ha, hs, ht⟩ :=
        addColumn_bad m indices elements lo up obj name isInt hb _ (addColumnMode_same m h1 h3)
      have hsf := sameContent_of_sameFields (sameFields_trans ha.1 hs)
      refine ⟨m', he, hsf.1, fun _ => ⟨hsf.2, ?_⟩⟩
      rw [ht]
      exact ha.2

/-- C5 (amended) at a concrete input: the default model and the batch `{1, 1}`. -/
theorem C5_rejected_add_keeps_content_witness :
    (CoinModel.default = CoinModel.default ∨
      (CoinModel.default.type_ ≠ -1 ∧ CoinModel.default.type_ ≠ 3)) ∧
    BadIndices [1, 1] ∧
    ((addRow CoinModel.default ([1, 1] : List Int).length [1, 1] [1, 2] 2 5 none).Aborts
      fun m' => SameContent CoinModel.default m' ∧
        (CoinModel.default.type_ ≠ -1 → SameCapacity CoinModel.default m' ∧
          (m'.type_ = CoinModel.default.type_ ∨
            (CoinModel.default.type_ = 1 ∧ m'.type_ = 2)))) :=
  ⟨Or.inl rfl, ⟨by decide, Or.inr (by decide)⟩,
   (C5_rejected_add_keeps_content CoinModel.default (Or.inl rfl) [1, 1] [1, 2] 2 5 0 none
      false ⟨by decide, Or.inr (by decide)⟩).1⟩

/-- C6 (defect shown at a concrete input): `createPackedMatrix` on a default model
sets the mode to 2 without creating a linked list; the `addRow(1, {0}, {1.0}, 2, 5)`
that follows adds the row but stores none of its coefficients, so `getElement(0, 0)`
reads 0 instead of 1. -/
theorem C6_addRow_loses_coefficients_without_lists :
    (createPackedMatrix CoinModel.default CoinPackedMatrix.empty (fun _ => 0)).Returns fun r =>
      r.1.type_ = 2 ∧ r.1.links_ = 0 ∧ r.1.numberRows_ = 0 ∧
      (addRow r.1 1 [0] [1] 2 5 none).Returns fun m1 =>
        m1.numberRows_ = 1 ∧ getRowLower m1 0 = 2 ∧ getRowUpper m1 0 = 5 ∧
        m1.numberElements_ = 0 ∧ (getElement m1 0 0).1 = 0 := by
  decide!

/-- C7 (defect shown at a concrete input): after one `addColumn` without entries no
row array exists; `setRowLower(5, 7.0)` then overwrites its own argument with
`numberRows_ - 1`, creates no row, and `getRowLower(5)` still reads `-COIN_DBL_MAX`. -/
theorem C7_setRowLower_lost_when_no_row_arrays :
    (addColumn CoinModel.default 0 [] [] 0 1 0 none false).Returns fun m1 =>
      m1.numberRows_ = 0 ∧ m1.rowLower_.isNone = true ∧
      (setRowLower m1 5 7).Returns fun m2 =>
        m2.numberRows_ = 0 ∧ getRowLower m2 5 = -COIN_DBL_MAX ∧ getRowLower m2 5 ≠ 7 := by
  decide!

/-- C8 (defect shown at a concrete input): after `addRow(1, {0}, {1.0}, ...)` and the
numeric `setElement(0, 0, 5.0)` the exported column 0 holds the pair `(0,0)` twice, once
with the value 1 that was overwritten and once with the last value 5. -/
theorem C8_export_repeats_pair_with_old_value :
    (addRow CoinModel.default 1 [0] [1] 2 5 none).Returns fun m1 =>
      (setElement m1 0 0 5).Returns fun m2 =>
        (createPackedMatrix m2 CoinPackedMatrix.empty (fun _ => 0)).Returns fun r =>
          r.2.1.numberElements = 2 ∧ r.2.1.column 0 = [(0, 1), (0, 5)] ∧ r.2.2 = 0 := by
  decide!

/-- C9 (counterexample): after `addRow` of the row `{(0, 1.0)}` and
`setElement(0, 2, 0.0)` the model stores two triples, one of them the explicit zero at
`(0, 2)`; the exported matrix has one element and its column 2 is empty. -/
theorem C9_explicit_zero_is_not_exported :
    (addRow CoinModel.default 1 [0] [1] 2 5 none).Returns fun m1 =>
      (setElement m1 0 2 0).Returns fun m2 =>
        m2.numberElements_ = 2 ∧ storedTriples m2 = [(0, 0, 1), (0, 2, 0)] ∧
        (createPackedMatrix m2 CoinPackedMatrix.empty (fun _ => 0)).Returns fun r =>
          r.2.1.numberElements = 1 ∧ r.2.1.column 0 = [(0, 1)] ∧ r.2.1.column 2 = [] ∧
          r.2.2 = 0 := by
  decide!

/-- C9 (amended): on a model that is not in mode 3 and whose stored triples lie in columns
below `numberColumns_`, `createPackedMatrix` returns; the element count of the matrix is
the number of non-deleted triples whose resolved value is not zero; column `c` of the
matrix holds, in some order, one entry `(row, value)` for each such triple of column `c`;
so every non-deleted triple with a non-zero value has its entry in its column. -/
theorem C9_export_materializes_nonzero_triples (m : CoinModel) (M0 : CoinPackedMatrix)
    (assoc : Int → Value) (ht : m.type_ ≠ 3)
    (hcol : ∀ p ∈ positionsBelow m.numberElements_,
      (m.elements_ p).column < m.numberColumns_) :
    (createPackedMatrix m M0 assoc).Returns fun r =>
      r.2.1.numberElements =
        ((exported m.elements_ assoc (positionsBelow m.numberElements_)).length : Int) ∧
      (∀ c, 0 ≤ c → c < m.numberColumns_ →
        (r.2.1.column c).Perm
          ((exportedTo m.elements_ assoc c (positionsBelow m.numberElements_)).map
            (exportEntry m.elements_ assoc))) ∧
      ∀ p ∈ positionsBelow m.numberElements_, 0 ≤ (m.elements_ p).column →
        resolvedValue assoc (m.elements_ p) ≠ 0 →
        (rowInTriple (m.elements_ p), resolvedValue assoc (m.elements_ p)) ∈
          r.2.1.column (m.elements_ p).column := by
  unfold createPackedMatrix
  rw [if_neg ht]
  have h2 : ({ m with type_ := 2 } : CoinModel).type_ ≠ 3 := by
    show (2 : Int) ≠ 3
    decide
  apply Outcome.returns_bind
    (Outcome.returns_and
      (keeps_resize { m with type_ := 2 } m.numberRows_ m.numberColumns_ m.numberElements_ h2)
      (counts_resize { m with type_ := 2 } m.numberRows_ m.numberColumns_ m.numberElements_
        h2))
  rintro a ⟨hk, hc⟩
  have hn : a.numberElements_ = m.numberElements_ := hk.1
  have hE : ∀ p ∈ positionsBelow m.numberElements_, a.elements_ p = m.elements_ p := by
    intro p hp
    rw [mem_positionsBelow] at hp
    exact hk.2.1 p hp.1 hp.2
  have hnc : m.numberColumns_ ≤ a.numberColumns_ := hc.2
  have hcol' : ∀ p, 0 ≤ p → p < a.numberElements_ → (a.elements_ p).column < a.numberColumns_ := by
    intro p h0 h1
    rw [hn] at h1
    have hp : p ∈ positionsBelow m.numberElements_ := mem_positionsBelow.2 ⟨h0, h1⟩
    rw [hE p hp]
    exact lt_of_lt_of_le (hcol p hp) hnc
  have hs := exportMatrix_spec a.numberRows_ a.numberColumns_ a.numberElements_ a.elements_
    assoc hcol'
  rw [hn] at hs
  rw [exported_congr assoc _ hE] at hs
  have hperm : ∀ c, 0 ≤ c → c < m.numberColumns_ →
      ((exportMatrix a.numberRows_ a.numberColumns_ m.numberElements_ a.elements_
          assoc).1.column c).Perm
        ((exportedTo m.elements_ assoc c (positionsBelow m.numberElements_)).map
          (exportEntry m.elements_ assoc)) := by
    intro c h0 h1
    have := hs.2 c h0 (lt_of_lt_of_le h1 hnc)
    rw [exportEntries_congr assoc c _ hE] at this
    exact this
  refine Outcome.returns_returned ⟨?_, ?_, ?_⟩
  · dsimp only
    rw [hn]
    exact hs.1
  · intro c h0 h1
    dsimp only
    rw [hn]
    exact hperm c h0 h1
  · intro p hp h0 hv
    dsimp only
    rw [hn]
    apply (hperm _ h0 (hcol p hp)).mem_iff.2
    apply List.mem_map.2
    refine ⟨p, ?_, rfl⟩
    unfold exportedTo
    rw [List.mem_filter]
    refine ⟨hp, ?_⟩
    simp only [Bool.and_eq_true, decide_eq_true_eq]
    exact ⟨trivial, hv⟩

/-- C9 (amended) at a concrete input: the model with the coefficient 1.0 at `(0, 0)` and
an explicit zero at `(0, 2)`. -/
theorem C9_export_materializes_nonzero_triples_witness :
    rowWithExplicitZero.type_ ≠ 3 ∧
    (∀ p ∈ positionsBelow rowWithExplicitZero.numberElements_,
      (rowWithExplicitZero.elements_ p).column < rowWithExplicitZero.numberColumns_) ∧
    ((createPackedMatrix rowWithExplicitZero CoinPackedMatrix.empty (fun _ => 0)).Returns
      fun r =>
        r.2.1.numberElements =
          ((exported rowWithExplicitZero.elements_ (fun _ => 0)
            (positionsBelow rowWithExplicitZero.numberElements_)).length : Int) ∧
        (∀ c, 0 ≤ c → c < rowWithExplicitZero.numberColumns_ →
          (r.2.1.column c).Perm
            ((exportedTo rowWithExplicitZero.elements_ (fun _ => 0) c
              (positionsBelow rowWithExplicitZero.numberElements_)).map
              (exportEntry rowWithExplicitZero.elements_ (fun _ => 0)))) ∧
        ∀ p ∈ positionsBelow rowWithExplicitZero.numberElements_,
          0 ≤ (rowWithExplicitZero.elements_ p).column →
          resolvedValue (fun _ => 0) (rowWithExplicitZero.elements_ p) ≠ 0 →
          (rowInTriple (rowWithExplicitZero.elements_ p),
            resolvedValue (fun _ => 0) (rowWithExplicitZero.elements_ p)) ∈
            r.2.1.column (rowWithExplicitZero.elements_ p).column) :=
  ⟨by decide!, by decide!,
   C9_export_materializes_nonzero_triples rowWithExplicitZero CoinPackedMatrix.empty
     (fun _ => 0) (by decide!) (by decide!)⟩

/-- C10 (defect shown at a concrete input): after `addColumn(1, {0}, {1.0}, ...)` and the
numeric `setElement(0, 0, 5.0)` the exported column 0 has length 2 and its row indices
are `0, 0`, which is sorted but not strictly increasing; the column starts are
`start[0] = 0` and `start[1] = 2`. -/
theorem C10_export_column_not_strictly_increasing :
    (addColumn CoinModel.default 1 [0] [1] 0 1 0 none false).Returns fun m1 =>
      (setElement m1 0 0 5).Returns fun m2 =>
        (createPackedMatrix m2 CoinPackedMatrix.empty (fun _ => 0)).Returns fun r =>
          r.2.1.start 0 = 0 ∧ r.2.1.start 1 = 2 ∧ r.2.1.length 0 = 2 ∧
          (r.2.1.column 0).map Prod.fst = [0, 0] ∧
          ¬ ((r.2.1.column 0).map Prod.fst).Sorted (fun a b => a < b) := by
  decide!

/-- C11: `createPackedMatrix` returns on every model and every table of associated
values.  On an externally packed model the error count is 0.  Otherwise the error count
is the number of non-deleted string triples whose associated value is unset, so no
triple with a resolved value is counted; and when the stored triples lie in columns
below `numberColumns_`, the element count is the number of non-deleted triples whose
resolved value is not zero, and every entry of an exported column comes from a triple of
that column that is not an unresolved string triple and carries the resolved value of
that triple, which is not zero: an unresolved string triple resolves to zero and has no
entry. -/
theorem C11_unresolved_symbols_are_counted_and_export_zero (m : CoinModel)
    (M0 : CoinPackedMatrix) (assoc : Int → Value)
    (hcol : ∀ p ∈ positionsBelow m.numberElements_,
      (m.elements_ p).column < m.numberColumns_) :
    (createPackedMatrix m M0 assoc).Returns fun r =>
      (m.type_ = 3 → r.2.2 = 0) ∧
      (m.type_ ≠ 3 →
        r.2.2 =
          ((unresolved m.elements_ assoc (positionsBelow m.numberElements_)).length : Int) ∧
        (∀ p ∈ unresolved m.elements_ assoc (positionsBelow m.numberElements_),
          resolvedValue assoc (m.elements_ p) = 0) ∧
        r.2.1.numberElements =
          ((exported m.elements_ assoc (positionsBelow m.numberElements_)).length : Int) ∧
        ∀ c, 0 ≤ c → c < m.numberColumns_ → ∀ e ∈ r.2.1.column c,
          ∃ p ∈ positionsBelow m.numberElements_, (m.elements_ p).column = c ∧
            isUnresolved assoc (m.elements_ p) = false ∧
            e = (rowInTriple (m.elements_ p), resolvedValue assoc (m.elements_ p)) ∧
            e.2 ≠ 0) := by
  by_cases ht : m.type_ = 3
  · apply Outcome.returns_mono (createPackedMatrix_returns m M0 assoc)
    rintro r ⟨h3, _⟩
    refine ⟨fun _ => ?_, fun h => absurd ht h⟩
    rw [h3 ht]
  · apply Outcome.returns_mono (createPackedMatrix_spec m M0 assoc ht hcol)
    rintro r ⟨h1, h2, _, _, h5⟩
    refine ⟨fun h => absurd h ht, fun _ => ⟨h1, ?_, h2, ?_⟩⟩
    · intro p hp
      exact resolved_of_unresolved assoc _ (List.mem_filter.1 hp).2
    · intro c h0 hc e he
      have hmem := (h5 c h0 hc).mem_iff.1 he
      obtain ⟨p, hp, hpe⟩ := List.mem_map.1 hmem
      unfold exportedTo at hp
      obtain ⟨hp1, hp2⟩ := List.mem_filter.1 hp
      simp only [Bool.and_eq_true, decide_eq_true_eq] at hp2
      refine ⟨p, hp1, hp2.1, ?_, hpe.symm, ?_⟩
      · by_contra hu
        have hu' : isUnresolved assoc (m.elements_ p) = true := by simpa using hu
        exact hp2.2 (resolved_of_unresolved assoc _ hu')
      · rw [← hpe]
        exact hp2.2

/-- C11 at a concrete input: the model with two coefficients that use the string `x`,
exported against a table in which `x` is unset. -/
theorem C11_unresolved_symbols_are_counted_and_export_zero_witness :
    (∀ p ∈ positionsBelow twoUsesOfOneString.numberElements_,
      (twoUsesOfOneString.elements_ p).column < twoUsesOfOneString.numberColumns_) ∧
    twoUsesOfOneString.type_ ≠ 3 ∧
    unresolved twoUsesOfOneString.elements_ (fun _ => unsetValue)
      (positionsBelow twoUsesOfOneString.numberElements_) = [0, 1] ∧
    ((createPackedMatrix twoUsesOfOneString CoinPackedMatrix.empty
        (fun _ => unsetValue)).Returns fun r =>
      r.2.2 = 2 ∧ r.2.1.numberElements = 0) :=
  ⟨by decide!, by decide!, by decide!,
   Outcome.returns_mono
     (C11_unresolved_symbols_are_counted_and_export_zero twoUsesOfOneString
       CoinPackedMatrix.empty (fun _ => unsetValue) (by decide!))
     (fun r h => by
       have h2 := h.2 (by decide!)
       have e1 : unresolved twoUsesOfOneString.elements_ (fun _ => unsetValue)
           (positionsBelow twoUsesOfOneString.numberElements_) = [0, 1] := by decide!
       have e2 : exported twoUsesOfOneString.elements_ (fun _ => unsetValue)
           (positionsBelow twoUsesOfOneString.numberElements_) = [] := by decide!
       rw [e1] at h2
       rw [e2] at h2
       exact ⟨h2.1, h2.2.2.1⟩)⟩

/-- C12 (the claim as stated fails): after `setElement(0, 0, "x")` and
`setElement(1, 1, "x")` on a default model the string table holds the one string `x` and
both stored coefficients carry its id 0; with `x` unset, `createPackedMatrix` reports 2
errors, one for each coefficient, and `computeAssociated` with an evaluator that leaves
`x` unset reports 1. -/
theorem C12_export_counts_every_use_of_an_unset_string :
    (setElementString CoinModel.default 0 0 "x").Returns fun m1 =>
      (setElementString m1 1 1 "x").Returns fun m2 =>
        m2.string_.numberItems = 1 ∧
        (storedPositions m2).map
          (fun p => (stringInTriple (m2.elements_ p), toInt (m2.elements_ p).value)) =
            [(true, 0), (true, 0)] ∧
        ((createPackedMatrix m2 CoinPackedMatrix.empty (fun _ => unsetValue)).Returns
          fun r => r.2.2 = 2) ∧
        (computeAssociated m2 (fun _ => unsetValue) (fun _ => unsetValue)).2 = 1 := by
  decide!

/-- C12 (amended): the error count of `createPackedMatrix` is 0 on an externally packed
model and otherwise the number of non-deleted string coefficients whose associated value
is unset, one for each coefficient also when several coefficients use one string id; the
error count of `computeAssociated` is the number of string ids that exist, are unset in
the table and stay unset after evaluation, one for each id. -/
theorem C12_errors_per_use_in_export_and_per_id_in_computeAssociated (m : CoinModel)
    (M0 : CoinPackedMatrix) (assoc : Int → Value) (getDoubleFromString : String → Value) :
    ((createPackedMatrix m M0 assoc).Returns fun r =>
      r.2.2 = if m.type_ = 3 then 0
        else ((unresolved m.elements_ assoc (positionsBelow m.numberElements_)).length : Int)) ∧
    (computeAssociated m getDoubleFromString assoc).2 =
      ((unevaluated m getDoubleFromString assoc
        (positionsBelow m.string_.numberItems)).length : Int) :=
  ⟨createPackedMatrix_errors m M0 assoc, computeAssociated_errors m getDoubleFromString assoc⟩

/-- C13: on a default model, `addRow` with `{0: 1.0, 2: 3.0}` and bounds `[2, 5]`,
`addRow` with `{1: -1.0}` and bounds `[0, +inf]`, `setElement(0, 1, 7.0)` and
`createPackedMatrix` return; the matrix is column ordered with 2 rows and 3 columns, its
columns are `{0: 1.0}`, `{0: 7.0, 1: -1.0}` and `{0: 3.0}` (row 0 is
`{0: 1.0, 1: 7.0, 2: 3.0}`, row 1 is `{1: -1.0}`), and the error count is 0. -/
theorem C13_scenario_content :
    scenario.Returns fun m3 =>
      (createPackedMatrix m3 CoinPackedMatrix.empty (fun _ => 0)).Returns fun r =>
        r.2.1.colOrdered = true ∧ r.2.1.minorDim = 2 ∧ r.2.1.majorDim = 3 ∧
        r.2.1.column 0 = [(0, 1)] ∧ r.2.1.column 1 = [(0, 7), (1, -1)] ∧
        r.2.1.column 2 = [(0, 3)] ∧ r.2.2 = 0 := by
  decide!

/-- C14 (the claim as stated fails): in the scenario of C13 the exported matrix does not
have 3 nonzeros. -/
theorem C14_scenario_count_is_not_three :
    scenario.Returns fun m3 =>
      (createPackedMatrix m3 CoinPackedMatrix.empty (fun _ => 0)).Returns fun r =>
        r.2.1.numberElements ≠ 3 := by
  decide!

/-- C14 (amended): in the scenario of C13 the model stores four coefficients and the
exported matrix has exactly 4 nonzeros, in columns of lengths 1, 2 and 1 that start at
0, 1 and 3. -/
theorem C14_scenario_count_is_four :
    scenario.Returns fun m3 =>
      storedTriples m3 = [(0, 0, 1), (0, 2, 3), (1, 1, -1), (0, 1, 7)] ∧
      (createPackedMatrix m3 CoinPackedMatrix.empty (fun _ => 0)).Returns fun r =>
        r.2.1.numberElements = 4 ∧
        (positionsBelow 3).map r.2.1.length = [1, 2, 1] ∧
        (positionsBelow 4).map r.2.1.start = [0, 1, 3, 4] := by
  decide!

/-- C15 (defect shown at a concrete input): after `addRow(1, {0}, {1.0}, 2, 5)` the
string form `setElement(0, 0, "x")` overwrites the stored pair and, with `x` associated
with 5, the export has the one entry `(0, 0, 5)`; the numeric `setElement(0, 0, 5.0)`
on the same model stores the pair a second time and the export has two entries. -/
theorem C15_symbolic_and_numeric_exports_differ :
    (addRow CoinModel.default 1 [0] [1] 2 5 none).Returns fun m =>
      ((setElementString m 0 0 "x").Returns fun ms =>
        ms.string_.hash "x" = 0 ∧ ms.numberElements_ = 1 ∧
        (createPackedMatrix ms CoinPackedMatrix.empty (fun _ => 5)).Returns fun r =>
          r.2.1.numberElements = 1 ∧ r.2.1.column 0 = [(0, 5)] ∧ r.2.2 = 0) ∧
      ((setElement m 0 0 5).Returns fun mv =>
        mv.numberElements_ = 2 ∧
        (createPackedMatrix mv CoinPackedMatrix.empty (fun _ => 5)).Returns fun r =>
          r.2.1.numberElements = 2 ∧ r.2.1.column 0 = [(0, 1), (0, 5)] ∧ r.2.2 = 0) := by
  decide!

/-- C16 (the claim as stated fails): for the coefficients `(0, 0)` and `(2, 0)`, where
row 1 carries no coefficient, the build by `addRow` calls keeps three rows after
`pack()` (every row added by `addRow` has a default name, and `packRows` keeps a named
row), while the builds by `addColumn` calls and by `setElement` calls keep two. -/
theorem C16_builds_differ_on_a_row_without_coefficient :
    ((buildByRows [(0, 0, 1), (2, 0, 1)]).bind pack).Returns (fun r =>
      r.1.numberRows_ = 3 ∧ r.1.numberColumns_ = 1) ∧
    ((buildByColumns [(0, 0, 1), (2, 0, 1)]).bind pack).Returns (fun r =>
      r.1.numberRows_ = 2 ∧ r.1.numberColumns_ = 1) ∧
    ((buildByElements [(0, 0, 1), (2, 0, 1)]).bind pack).Returns (fun r =>
      r.1.numberRows_ = 2 ∧ r.1.numberColumns_ = 1) := by
  decide!

/-- C16 (amended): for every finite list of coefficients with distinct `(row, column)`
pairs and indices that are not negative, in which every row index and every column index
below the largest carries a coefficient, building the model purely by `addRow` calls,
purely by `addColumn` calls or purely by `setElement` calls (default names enabled, no
explicit names) and then calling `pack()` and `createPackedMatrix` returns in all three
cases; the three packed models have the same number of rows and the same number of
columns (one more than the largest index), and the three exported matrices have the same
dimensions, the same number of elements, the same column starts and lengths and the same
entries in every column, with the same number of errors. -/
theorem C16_builds_agree_when_every_index_carries_a_coefficient
    (es : List (Int × Int × Value)) (associated : Int → Value)
    (hd : (es.map (fun e => (e.1, e.2.1))).Nodup)
    (hn : ∀ e ∈ es, 0 ≤ e.1 ∧ 0 ≤ e.2.1)
    (hgr : ∀ i : Int, 0 ≤ i → i < rowsOf es → ∃ e ∈ es, e.1 = i)
    (hgc : ∀ j : Int, 0 ≤ j → j < columnsOf es → ∃ e ∈ es, e.2.1 = j) :
    ∃ a b c,
      packedExport (buildByRows es) associated = Outcome.returned a ∧
      packedExport (buildByColumns es) associated = Outcome.returned b ∧
      packedExport (buildByElements es) associated = Outcome.returned c ∧
      a.1.numberRows_ = rowsOf es ∧ b.1.numberRows_ = rowsOf es ∧
      c.1.numberRows_ = rowsOf es ∧
      a.1.numberColumns_ = columnsOf es ∧ b.1.numberColumns_ = columnsOf es ∧
      c.1.numberColumns_ = columnsOf es ∧
      SameMatrix a.2.1 b.2.1 ∧ SameMatrix a.2.1 c.2.1 ∧
      b.2.2 = a.2.2 ∧ c.2.2 = a.2.2 := by
  by_cases he : es = []
  · subst he
    obtain ⟨a, ha, h1, h2⟩ := packedExport_default associated
    exact ⟨a, a, a, ha, ha, ha, h1, h1, h1, h2, h2, h2, sameMatrix_refl _, sameMatrix_refl _,
      rfl, rfl⟩
  · obtain ⟨a, ha, hA, xA⟩ := packedExport_built es hn hgr hgc _
      (buildByRows_built es he hd hn hgr) associated
    obtain ⟨b, hb, hB, xB⟩ := packedExport_built es hn hgr hgc _
      (buildByColumns_built es he hd hn hgc) associated
    obtain ⟨c, hc, hC, xC⟩ := packedExport_built es hn hgr hgc _
      (Outcome.returns_mono ((buildByElements_built es hd).2 he) (fun _ h => h.1)) associated
    have hd' : ((es.map toRecord).map (fun t => (rowInTriple t, t.column))).Nodup := by
      rw [List.map_map]
      exact hd
    obtain ⟨sab, eab⟩ := exportOf_unique associated _ _ _ hd' (a.2.1, a.2.2) (b.2.1, b.2.2) xA xB
    obtain ⟨sac, eac⟩ := exportOf_unique associated _ _ _ hd' (a.2.1, a.2.2) (c.2.1, c.2.2) xA xC
    exact ⟨a, b, c, ha, hb, hc, hA.2.2.2.1, hB.2.2.2.1, hC.2.2.2.1, hA.2.2.2.2.1,
      hB.2.2.2.2.1, hC.2.2.2.2.1, sab, sac, eab, eac⟩

/-- C16 (amended) at a concrete input: the four coefficients of a full 2 x 2 matrix,
given in an order that is neither row-wise nor column-wise. -/
theorem C16_builds_agree_when_every_index_carries_a_coefficient_witness :
    (([(1, 1, 4), (0, 0, 1), (1, 0, 3), (0, 1, 2)] : List (Int × Int × Value)).map
      (fun e => (e.1, e.2.1))).Nodup ∧
    (∀ e ∈ ([(1, 1, 4), (0, 0, 1), (1, 0, 3), (0, 1, 2)] : List (Int × Int × Value)),
      0 ≤ e.1 ∧ 0 ≤ e.2.1) ∧
    ∃ a b c,
      packedExport (buildByRows [(1, 1, 4), (0, 0, 1), (1, 0, 3), (0, 1, 2)]) (fun _ => 0) =
        Outcome.returned a ∧
      packedExport (buildByColumns [(1, 1, 4), (0, 0, 1), (1, 0, 3), (0, 1, 2)]) (fun _ => 0) =
        Outcome.returned b ∧
      packedExport (buildByElements [(1, 1, 4), (0, 0, 1), (1, 0, 3), (0, 1, 2)]) (fun _ => 0) =
        Outcome.returned c ∧
      a.1.numberRows_ = 2 ∧ b.1.numberRows_ = 2 ∧ c.1.numberRows_ = 2 ∧
      a.1.numberColumns_ = 2 ∧ b.1.numberColumns_ = 2 ∧ c.1.numberColumns_ = 2 ∧
      SameMatrix a.2.1 b.2.1 ∧ SameMatrix a.2.1 c.2.1 ∧ b.2.2 = a.2.2 ∧ c.2.2 = a.2.2 :=
  ⟨by decide, by decide,
    C16_builds_agree_when_every_index_carries_a_coefficient
      [(1, 1, 4), (0, 0, 1), (1, 0, 3), (0, 1, 2)] (fun _ => 0) (by decide) (by decide)
      (fun i h0 h1 => by
        have h2 : i < 2 := h1
        interval_cases i
        · exact ⟨(0, 0, 1), by simp, rfl⟩
        · exact ⟨(1, 1, 4), by simp, rfl⟩)
      (fun j h0 h1 => by
        have h2 : j < 2 := h1
        interval_cases j
        · exact ⟨(0, 0, 1), by simp, rfl⟩
        · exact ⟨(1, 1, 4), by simp, rfl⟩)⟩

/-- On a model that is not externally packed, whose row arrays exist, whose stored
triples lie in rows of the model and whose linked lists are in order, `deleteRow(r)` for
a row `0 ≤ r < numberRows` followed by `packRows()` returns.  The rows left are the rows
other than `r` that are not bare (a bare row has no non-deleted element, no lower bound,
no upper bound and no name), so row `r` and the bare rows are the ones removed, and the
value returned by `packRows` is their number, which is at least one.  A row `i` that is
kept gets as new index the number of kept rows below it, which preserves the order of
the kept rows, and its bounds, flags and name are found at the new index.  The stored
triples are those of the rows other than `r`, in their order and with their columns,
values and string flags, each with the new index of its row. -/
theorem deleteRow_then_packRows_in_step (m : CoinModel) (r : Int) (h3 : m.type_ ≠ 3)
    (hr0 : 0 ≤ r) (hr : r < m.numberRows_) (hra : RowArrays m) (hrow : RowsInRange m)
    (hl : RowChainOK m r) :
    ((deleteRow m r).bind packRows).Returns fun res =>
      res.1.numberRows_ = newRowIndexAfterDelete m r m.numberRows_ ∧
      res.2 = m.numberRows_ - newRowIndexAfterDelete m r m.numberRows_ ∧
      1 ≤ res.2 ∧
      storedRecords res.1 =
        ((storedRecords m).filter (fun t => decide (rowInTriple t ≠ r))).map
          (fun t => setRowInTriple t (newRowIndexAfterDelete m r (rowInTriple t))) ∧
      ∀ i, 0 ≤ i → i < m.numberRows_ → i ≠ r → ¬ RowIsBare m i →
        (0 ≤ newRowIndexAfterDelete m r i ∧
          newRowIndexAfterDelete m r i < res.1.numberRows_) ∧
        (∀ j, i < j → j < m.numberRows_ → j ≠ r → ¬ RowIsBare m j →
          newRowIndexAfterDelete m r i < newRowIndexAfterDelete m r j) ∧
        load res.1.rowLower_ 0 (newRowIndexAfterDelete m r i) = load m.rowLower_ 0 i ∧
        load res.1.rowUpper_ 0 (newRowIndexAfterDelete m r i) = load m.rowUpper_ 0 i ∧
        load res.1.rowType_ 0 (newRowIndexAfterDelete m r i) = load m.rowType_ 0 i ∧
        res.1.rowName_.name (newRowIndexAfterDelete m r i) = m.rowName_.name i := by
  apply Outcome.returns_bind (deleteRow_spec m r hr hl)
  rintro d ⟨d1, d2, d3, d4, d5, d6, d7, d8, d9, d10⟩
  rw [if_pos hra.2.1] at d5 d6 d7
  have d8' : d.rowName_ =
      if m.noNames_ = false then m.rowName_.deleteHash r else m.rowName_ := by
    rw [d8]
    by_cases hn : m.noNames_ = false
    · rw [if_pos ⟨hra.2.1, hn⟩, if_pos hn]
    · rw [if_neg (fun x => hn x.2), if_neg hn]
  have hbare := rowIsBare_deleteRow m d r hra d4 d5 d6 d8' d9 d10
  have hrank := newRowIndexAfterDelete_eq m d r d1 hbare
  have hd0 : 0 ≤ d.numberRows_ := by rw [d1]; exact hra.1
  have hmem : ∀ p ∈ storedPositions d, p ∈ storedPositions m ∧
      rowInTriple (m.elements_ p) ≠ r := by
    intro p hp
    rw [d9] at hp
    have := List.mem_filter.1 hp
    exact ⟨this.1, by simpa using this.2⟩
  have hdrow : RowsInRange d := by
    refine ⟨by rw [d2]; exact hrow.1, fun p hp => ?_⟩
    rw [d10 p hp, d1]
    exact hrow.2 p (hmem p hp).1
  have hkept : ∀ i, 0 ≤ i → i < m.numberRows_ → i ≠ r → ¬ RowIsBare m i →
      rowCounts d i ≠ 0 := fun i h0 h1 hir hb h =>
    ((hbare i).1 ((rowCounts_eq_zero_iff d i h0 (by rw [d1]; exact h1)).1 h)).elim hir hb
  have hlast : newRowIndexAfterDelete m r m.numberRows_ < m.numberRows_ := by
    have hz : rowCounts d r = 0 :=
      (rowCounts_eq_zero_iff d r hr0 (by rw [d1]; exact hr)).2 ((hbare r).2 (Or.inl rfl))
    rw [← hrank _ (le_refl _)]
    have hcast := toNat_cast_of_nonneg hra.1
    by_contra hge
    have hle := packRank_le (rowCounts d) m.numberRows_.toNat
    rw [hcast] at hle
    have hfull : packRank (rowCounts d) (m.numberRows_.toNat : Int) =
        (m.numberRows_.toNat : Int) := by
      rw [hcast]
      omega
    exact (packRank_full (rowCounts d) m.numberRows_.toNat hfull r hr0
      (by rw [hcast]; exact hr)).1 hz
  apply Outcome.returns_mono
    (Outcome.returns_and (packRows_content d (d3 h3) hd0 hdrow)
      (Outcome.returns_and (packRows_spec d (d3 h3)) (packRows_names d (d3 h3) hd0)))
  rintro ⟨a, k⟩ ⟨⟨a1, a2, a3, _, _⟩, ⟨_, _, b3, b4, b5, _⟩, hnames⟩
  dsimp only at a1 a2 a3 b3 b4 b5 hnames ⊢
  rw [d1] at a1 a2 hnames
  have hN := hrank m.numberRows_ (le_refl _)
  rw [hN] at a2
  refine ⟨a2, by rw [a1, a2], by rw [a1, a2]; omega, ?_, ?_⟩
  · rw [a3]
    unfold storedRecords
    rw [d9, List.filter_map, List.map_map, List.map_map]
    apply List.map_congr_left
    intro p hp
    have hp' : p ∈ storedPositions d := by rw [d9]; exact hp
    show setRowInTriple (d.elements_ p) (packRank (rowCounts d) (rowInTriple (d.elements_ p)))
      = setRowInTriple (m.elements_ p)
          (newRowIndexAfterDelete m r (rowInTriple (m.elements_ p)))
    rw [d10 p hp', hrank _ (le_of_lt (hrow.2 p (hmem p hp').1).2)]
  · intro i h0 h1 hir hb
    have hk := hkept i h0 h1 hir hb
    have hc := hrank i (le_of_lt h1)
    have hcast := toNat_cast_of_nonneg hra.1
    have hlt := packRank_lt (rowCounts d) i h0 hk m.numberRows_.toNat
      (by rw [hcast]; exact h1)
    rw [hcast, hN] at hlt
    obtain ⟨e1, e2, e3⟩ := packRowsScan_arrays d hd0 i h0 (by rw [d1]; exact h1) hk
    have e4 := hnames i h0 h1 hk
    have hne : i ≠ r := hir
    rw [hc] at e1 e2 e3 e4 hlt
    rw [d5, load_store_of_isSome _ hra.2.1, if_neg hne] at e1
    rw [d6, load_store_of_isSome _ hra.2.2.1, if_neg hne] at e2
    rw [d7, load_store_of_isSome _ hra.2.2.2, if_neg hne] at e3
    have e4' : d.rowName_.name i = m.rowName_.name i := by
      rw [d8']
      split_ifs
      · unfold CoinModelHash.name CoinModelHash.deleteHash
        dsimp only
        rw [Function.update_noteq hne]
      · rfl
    refine ⟨⟨by rw [← hc]; exact packRank_nonneg _ _, by rw [a2]; exact hlt⟩, ?_,
      by rw [b3]; exact e1, by rw [b4]; exact e2, by rw [b5]; exact e3,
      by rw [e4, e4']⟩
    intro j hij hj hjr hbj
    have := packRank_lt (rowCounts d) i h0 hk j.toNat
      (by rw [toNat_cast_of_nonneg (by omega)]; exact hij)
    rw [toNat_cast_of_nonneg (by omega), hrank j (le_of_lt hj), hc] at this
    exact this

/-- C18 (the claim as stated fails): after `setElement(0, 0, 1.0)` and
`setColumnIsInteger(1, true)` on a default model, column 1 is integer and has no
coefficient, default bounds, objective 0 and no name; `packColumns` removes it: it
returns 1 and one column is left. -/
theorem C18_integer_column_is_removed :
    (setElement CoinModel.default 0 0 1).Returns fun m1 =>
      (setColumnIsInteger m1 1 true).Returns fun m2 =>
        m2.numberColumns_ = 2 ∧ getColumnIsInteger m2 1 = true ∧
        getColumnLower m2 1 = 0 ∧ getColumnUpper m2 1 = COIN_DBL_MAX ∧
        getColumnObjective m2 1 = 0 ∧ m2.columnName_.name 1 = none ∧
        (packColumns m2).Returns fun r =>
          r.2 = 1 ∧ r.1.numberColumns_ = 1 ∧ getColumnIsInteger r.1 1 = false := by
  decide!

/-- C18 (amended): on a model that is not externally packed, whose column arrays exist
and whose stored triples lie in columns of the model, `packColumns` returns.  The
columns it removes are exactly the bare ones: those with no non-deleted element, lower
bound 0, upper bound `COIN_DBL_MAX`, objective 0 and no name; whether a column is
integer plays no part.  The number of columns left is the number of columns that are
not bare and the value returned is the number removed.  A column `c` that is kept gets
as new index the number of kept columns below it, which preserves the order of the kept
columns, and its bounds, objective, integrality and flags are found at the new index.
Every stored triple lies in a kept column and is rewritten to the new index of its
column, the stored triples keeping their order, rows, values and string flags. -/
theorem C18_packColumns_removes_exactly_the_bare_columns (m : CoinModel) (h3 : m.type_ ≠ 3)
    (hca : ColumnArrays m) (hcol : ColumnsInRange m) :
    (packColumns m).Returns fun r =>
      r.1.numberColumns_ = newColumnIndex m m.numberColumns_ ∧
      r.2 = m.numberColumns_ - newColumnIndex m m.numberColumns_ ∧
      (∀ p ∈ storedPositions m, ¬ ColumnIsBare m (m.elements_ p).column) ∧
      storedRecords r.1 =
        (storedRecords m).map (fun t => { t with column := newColumnIndex m t.column }) ∧
      ∀ c, 0 ≤ c → c < m.numberColumns_ → ¬ ColumnIsBare m c →
        (0 ≤ newColumnIndex m c ∧ newColumnIndex m c < r.1.numberColumns_) ∧
        (∀ c', c < c' → c' < m.numberColumns_ → ¬ ColumnIsBare m c' →
          newColumnIndex m c < newColumnIndex m c') ∧
        load r.1.columnLower_ 0 (newColumnIndex m c) = load m.columnLower_ 0 c ∧
        load r.1.columnUpper_ 0 (newColumnIndex m c) = load m.columnUpper_ 0 c ∧
        load r.1.objective_ 0 (newColumnIndex m c) = load m.objective_ 0 c ∧
        load r.1.integerType_ 0 (newColumnIndex m c) = load m.integerType_ 0 c ∧
        load r.1.columnType_ 0 (newColumnIndex m c) = load m.columnType_ 0 c := by
  have hlive : ∀ p ∈ storedPositions m, 0 ≤ (m.elements_ p).column := by
    intro p hp
    have := (List.mem_filter.1 hp).2
    simpa using this
  have hkept : ∀ c, 0 ≤ c → c < m.numberColumns_ → ¬ ColumnIsBare m c →
      columnCounts m c ≠ 0 := fun c h0 h1 hb h =>
    hb ((columnCounts_eq_zero_iff m c h0 h1).1 h)
  apply Outcome.returns_mono
    (Outcome.returns_and (packColumns_content m h3 hca.1 hcol) (packColumns_spec m h3))
  rintro ⟨a, k⟩ ⟨⟨a1, a2, a3, _, _⟩, ⟨_, _, b3, _, _, _⟩⟩
  dsimp only at a1 a2 a3 b3 ⊢
  have hN := newColumnIndex_eq m m.numberColumns_ (le_refl _)
  refine ⟨by rw [a2, hN], by rw [a1, a2, hN], ?_, ?_, ?_⟩
  · intro p hp hb
    exact hb.2.2.2.2 p hp rfl
  · rw [a3]
    unfold storedRecords
    rw [List.map_map, List.map_map]
    apply List.map_congr_left
    intro p hp
    show ({ m.elements_ p with column := packRank (columnCounts m) (m.elements_ p).column } :
      CoinModelTriple) = { m.elements_ p with column := newColumnIndex m (m.elements_ p).column }
    rw [newColumnIndex_eq m _ (le_of_lt (hcol.2 p hp))]
  · intro c h0 h1 hb
    have hk := hkept c h0 h1 hb
    have hc := newColumnIndex_eq m c (le_of_lt h1)
    have hlt := packRank_lt (columnCounts m) c h0 hk m.numberColumns_.toNat
      (by rw [toNat_cast_of_nonneg hca.1]; exact h1)
    rw [toNat_cast_of_nonneg hca.1] at hlt
    obtain ⟨e1, e2, e3, e4, e5⟩ := packColumnsScan_arrays m hca.1 c h0 h1 hk
    rw [hc] at e1 e2 e3 e4 e5 hlt
    refine ⟨⟨by rw [← hc]; exact packRank_nonneg _ _, by rw [a2]; exact hlt⟩, ?_,
      by rw [b3.1]; exact e1, by rw [b3.2.1]; exact e2, by rw [b3.2.2.1]; exact e3,
      by rw [b3.2.2.2.1]; exact e4, by rw [b3.2.2.2.2]; exact e5⟩
    intro c' hcc hc' hb'
    have := packRank_lt (columnCounts m) c h0 hk c'.toNat
      (by rw [toNat_cast_of_nonneg (by omega)]; exact hcc)
    rw [toNat_cast_of_nonneg (by omega), newColumnIndex_eq m c' (le_of_lt hc'), hc] at this
    exact this

/-- C18 (amended) at a concrete input: the model whose column 1 is integer and otherwise
bare. -/
theorem C18_packColumns_removes_exactly_the_bare_columns_witness :
    modelWithIntegerColumn.type_ ≠ 3 ∧ ColumnArrays modelWithIntegerColumn ∧
    ColumnsInRange modelWithIntegerColumn ∧ ColumnIsBare modelWithIntegerColumn 1 ∧
    getColumnIsInteger modelWithIntegerColumn 1 = true ∧
    ((packColumns modelWithIntegerColumn).Returns fun r =>
      r.1.numberColumns_ = newColumnIndex modelWithIntegerColumn
        modelWithIntegerColumn.numberColumns_ ∧
      r.2 = modelWithIntegerColumn.numberColumns_ -
        newColumnIndex modelWithIntegerColumn modelWithIntegerColumn.numberColumns_) :=
  ⟨by decide!, by decide!, by decide!, by decide!, by decide!,
   Outcome.returns_mono
     (C18_packColumns_removes_exactly_the_bare_columns modelWithIntegerColumn (by decide!)
       (by decide!) (by decide!))
     (fun _ h => ⟨h.1, h.2.1⟩)⟩

/-- C19: on a model that is not externally packed, whose row and column arrays exist and
whose stored triples lie in rows and columns of the model, `packRows` returns the number
of rows before minus the number of rows after, `packColumns` returns the number of
columns before minus the number of columns after, and `pack` returns the sum of the two
differences; when the value returned is not zero, the element count afterwards is the
number of non-deleted triples before and no deleted slot remains below it. -/
theorem C19_pack_return_values (m : CoinModel) (h3 : m.type_ ≠ 3) (hra : RowArrays m)
    (hca : ColumnArrays m) (hrow : RowsInRange m) (hcol : ColumnsInRange m) :
    ((packRows m).Returns fun r =>
      r.2 = m.numberRows_ - r.1.numberRows_ ∧
      (r.2 ≠ 0 → Compact r.1 ∧ r.1.numberElements_ = ((storedPositions m).length : Int))) ∧
    ((packColumns m).Returns fun r =>
      r.2 = m.numberColumns_ - r.1.numberColumns_ ∧
      (r.2 ≠ 0 → Compact r.1 ∧ r.1.numberElements_ = ((storedPositions m).length : Int))) ∧
    ((pack m).Returns fun r =>
      r.2 = (m.numberRows_ - r.1.numberRows_) + (m.numberColumns_ - r.1.numberColumns_) ∧
      (r.2 ≠ 0 → Compact r.1 ∧ r.1.numberElements_ = ((storedPositions m).length : Int))) := by
  refine ⟨?_, ?_, ?_⟩
  · exact Outcome.returns_mono (packRows_content m h3 hra.1 hrow)
      (fun r h => ⟨h.1, h.2.2.2.1⟩)
  · exact Outcome.returns_mono (packColumns_content m h3 hca.1 hcol)
      (fun r h => ⟨h.1, h.2.2.2.1⟩)
  · unfold pack
    apply Outcome.returns_bind
      (Outcome.returns_and (packRows_content m h3 hra.1 hrow) (packRows_spec m h3))
    rintro ⟨a, k1⟩ ⟨⟨a1, _, a3, a4, a5⟩, ⟨_, b2, _, _, _, b6, _, _⟩⟩
    dsimp only at a1 a3 a4 a5 b2 b6 ⊢
    have ha0 : 0 ≤ a.numberElements_ := by
      by_cases hk : k1 = 0
      · rw [(a5 hk).1]
        exact hcol.1
      · rw [(a4 hk).2]
        exact Int.ofNat_nonneg _
    have hcola : ColumnsInRange a :=
      columnsInRange_of_records m a hcol
        (fun t => setRowInTriple t (packRank (rowCounts m) (rowInTriple t))) (fun _ => rfl)
        ha0 b6.1 a3
    have hlen : (storedPositions a).length = (storedPositions m).length := by
      rw [← storedRecords_length a, a3, List.length_map, storedRecords_length]
    apply Outcome.returns_bind
      (Outcome.returns_and (packColumns_content a b2 (by rw [b6.1]; exact hca.1) hcola)
        (packColumns_spec a b2))
    rintro ⟨b, k2⟩ ⟨⟨c1, _, _, c4, c5⟩, ⟨_, _, _, d4, _, _⟩⟩
    dsimp only at c1 c4 c5 d4 ⊢
    refine Outcome.returns_returned ⟨?_, ?_⟩
    · show k1 + k2 = _
      rw [a1, c1, d4.1, b6.1]
    · intro hk
      have hk' : k1 + k2 ≠ 0 := hk
      by_cases h2 : k2 = 0
      · have h1 : k1 ≠ 0 := by
          intro h
          exact hk' (by rw [h, h2]; rfl)
        obtain ⟨e1, e2⟩ := c5 h2
        obtain ⟨f1, f2⟩ := a4 h1
        refine ⟨?_, by show b.numberElements_ = _; rw [e1, f2]⟩
        intro p hp
        show 0 ≤ (b.elements_ p).column
        have hp' : p ∈ positionsBelow b.numberElements_ := hp
        rw [e1] at hp'
        rw [e2]
        exact f1 p hp'
      · obtain ⟨g1, g2⟩ := c4 h2
        refine ⟨g1, ?_⟩
        show b.numberElements_ = _
        rw [g2, hlen]

/-- C19 at a concrete input: the model with rows 0, 1, 2 of which row 1 is bare; `pack`
removes one row and no column. -/
theorem C19_pack_return_values_witness :
    modelWithBareRow.type_ ≠ 3 ∧ RowArrays modelWithBareRow ∧ ColumnArrays modelWithBareRow ∧
    RowsInRange modelWithBareRow ∧ ColumnsInRange modelWithBareRow ∧
    modelWithBareRow.numberRows_ = 3 ∧
    ((pack modelWithBareRow).Returns fun r =>
      r.2 = (modelWithBareRow.numberRows_ - r.1.numberRows_) +
        (modelWithBareRow.numberColumns_ - r.1.numberColumns_) ∧
      (r.2 ≠ 0 → Compact r.1 ∧
        r.1.numberElements_ = ((storedPositions modelWithBareRow).length : Int))) :=
  ⟨by decide!, by decide!, by decide!, by decide!, by decide!, by decide!,
   (C19_pack_return_values modelWithBareRow (by decide!) (by decide!) (by decide!)
      (by decide!) (by decide!)).2.2⟩

/-- C20 (defect shown at a concrete input): on the externally packed model obtained by
`addRow(1, {0}, {1.0}, 2, 5)` and `passInMatrix`, `deleteRow(0)` returns: the mode is
still 3, the bounds of row 0 have been reset and its coefficient has been deleted.  On
the same model `deleteColumn(0)`, `packRows()`, `packColumns()`, `addRow`, `addColumn`
and both forms of `setElement` end in `abort()`. -/
theorem C20_deleteRow_returns_on_externally_packed :
    (addRow CoinModel.default 1 [0] [1] 2 5 none).Returns fun m =>
      (passInMatrix m CoinPackedMatrix.empty).type_ = 3 ∧
      storedTriples (passInMatrix m CoinPackedMatrix.empty) = [(0, 0, 1)] ∧
      getRowLower (passInMatrix m CoinPackedMatrix.empty) 0 = 2 ∧
      ((deleteRow (passInMatrix m CoinPackedMatrix.empty) 0).Returns fun m' =>
        m'.type_ = 3 ∧ storedTriples m' = [] ∧ getRowLower m' 0 = -COIN_DBL_MAX) ∧
      (deleteColumn (passInMatrix m CoinPackedMatrix.empty) 0).isAborted = true ∧
      (packRows (passInMatrix m CoinPackedMatrix.empty)).isAborted = true ∧
      (packColumns (passInMatrix m CoinPackedMatrix.empty)).isAborted = true ∧
      (addRow (passInMatrix m CoinPackedMatrix.empty) 1 [0] [1] 2 5 none).isAborted = true ∧
      (addColumn (passInMatrix m CoinPackedMatrix.empty) 1 [0] [1] 0 1 0 none false).isAborted
        = true ∧
      (setElement (passInMatrix m CoinPackedMatrix.empty) 0 0 5).isAborted = true ∧
      (setElementString (passInMatrix m CoinPackedMatrix.empty) 0 0 "x").isAborted = true := by
  decide!

/-- C21 (defect shown at a concrete input): on the externally packed model obtained by
`addColumn(1, {0}, {1.0})` and `passInMatrix` (mode 3, one row, only the column list
exists), `deleteRow(0)` returns and leaves the model in the mixed mode 2, with both
lists.  On the same model `deleteColumn(0)` ends in `abort()`, and `createPackedMatrix`
and `setRowLower(0, 1.0)` return with the mode still 3. -/
theorem C21_deleteRow_leaves_the_externally_packed_mode :
    (addColumn CoinModel.default 1 [0] [1] 0 5 0 none false).Returns fun m =>
      (passInMatrix m CoinPackedMatrix.empty).type_ = 3 ∧
      (passInMatrix m CoinPackedMatrix.empty).numberRows_ = 1 ∧
      (passInMatrix m CoinPackedMatrix.empty).links_ = 2 ∧
      ((deleteRow (passInMatrix m CoinPackedMatrix.empty) 0).Returns fun m' =>
        m'.type_ = 2 ∧ m'.links_ = 3) ∧
      (deleteColumn (passInMatrix m CoinPackedMatrix.empty) 0).isAborted = true ∧
      ((createPackedMatrix (passInMatrix m CoinPackedMatrix.empty) CoinPackedMatrix.empty
        (fun _ => 0)).Returns fun r => r.1.type_ = 3) ∧
      ((setRowLower (passInMatrix m CoinPackedMatrix.empty) 0 1).Returns fun m' =>
        m'.type_ = 3) := by
  decide!

/-- C22 (defect shown at a concrete input): after the first `addRow` on a default model,
`addRow(1, {0}, {1.0}, 2, 5)` or an `addRow` without entries, the mode is 2 (mixed), the
row list exists and there is no `start_` array; after the first `addColumn` the mode is
2 as well, with the column list and no `start_` array. -/
theorem C22_first_add_gives_the_mixed_mode :
    CoinModel.default.type_ = -1 ∧
    ((addRow CoinModel.default 1 [0] [1] 2 5 none).Returns fun m =>
      m.type_ = 2 ∧ m.links_ = 1 ∧ m.start_.isSome = false) ∧
    ((addRow CoinModel.default 0 [] [] 2 5 none).Returns fun m =>
      m.type_ = 2 ∧ m.links_ = 1 ∧ m.start_.isSome = false) ∧
    ((addColumn CoinModel.default 1 [0] [1] 0 5 0 none false).Returns fun m =>
      m.type_ = 2 ∧ m.links_ = 2 ∧ m.start_.isSome = false) ∧
    ((addColumn CoinModel.default 0 [] [] 0 5 0 none false).Returns fun m =>
      m.type_ = 2 ∧ m.links_ = 2 ∧ m.start_.isSome = false) := by
  decide!

/-- C27 (defect shown at a concrete input): after `setRowLower(0, "expr")` on a default
model, `getRowLowerAsString(0)` reads `"expr"`; after `setRowLower(0, NULL)` the symbolic
flag (bit 1 of `rowType_[0]`) is still set while the slot holds `-COIN_DBL_MAX`, which is
no id of the string table (the table has one item), and `getRowLowerAsString(0)` finds no
string.  The numeric `setRowLower(0, 1.0)` on the same model clears the flag. -/
theorem C27_null_string_leaves_the_symbolic_flag :
    (setRowLowerString CoinModel.default 0 (some "expr")).Returns fun m =>
      getRowLowerAsString m 0 = some "expr" ∧
      ((setRowLowerString m 0 none).Returns fun m' =>
        load m'.rowType_ 0 0 &&& 1 ≠ 0 ∧ load m'.rowLower_ 0 0 = -COIN_DBL_MAX ∧
        ¬ (0 ≤ toInt (load m'.rowLower_ 0 0) ∧
          toInt (load m'.rowLower_ 0 0) < m'.string_.numberItems) ∧
        m'.string_.numberItems = 1 ∧ getRowLowerAsString m' 0 = none) ∧
      ((setRowLower m 0 1).Returns fun m' =>
        load m'.rowType_ 0 0 &&& 1 = 0 ∧ getRowLowerAsString m' 0 = some numeric) := by
  decide!

/-- C28 (defect shown at a concrete input): after one `addColumn` without entries no
row array exists; `setRowLower(5, "s")` then returns without creating row 5 (the number
of rows stays 0), and `getRowLowerAsString(5)` reads `"Numeric"` instead of `"s"`.  On a
default model the same call creates the row and the string is read back. -/
theorem C28_string_bound_lost_when_no_row_arrays :
    ((addColumn CoinModel.default 0 [] [] 0 1 0 none false).Returns fun m =>
      m.numberRows_ = 0 ∧ m.rowLower_.isNone = true ∧
      (setRowLowerString m 5 (some "s")).Returns fun m' =>
        m'.numberRows_ = 0 ∧ getRowLowerAsString m' 5 = some numeric ∧
        getRowLowerAsString m' 5 ≠ some "s") ∧
    ((setRowLowerString CoinModel.default 5 (some "s")).Returns fun m' =>
      m'.numberRows_ = 6 ∧ getRowLowerAsString m' 5 = some "s") := by
  decide!

/-- C29: on a model whose string table has a count that is not negative, `addString(s)`
leaves the model unchanged and returns an id that holds `s` if `s` is in the table;
otherwise it returns the previous number of items, the table has one item more, the new
item holds `s` and every other id holds what it held.  A second `addString(s)` returns
the same id and changes nothing, and a string `t` other than `s` that is added next gets
an id other than that of `s`. -/
theorem C29_addString_interns (m : CoinModel) (s t : String)
    (h0 : 0 ≤ m.string_.numberItems_) :
    ((∃ i, m.string_.name i = some s) →
      (addString m s).2 = m ∧ m.string_.name (addString m s).1 = some s) ∧
    ((¬ ∃ i, m.string_.name i = some s) →
      (addString m s).1 = m.string_.numberItems ∧
      (addString m s).2.string_.numberItems = m.string_.numberItems + 1 ∧
      (addString m s).2.string_.name m.string_.numberItems = some s ∧
      ∀ i, i ≠ m.string_.numberItems →
        (addString m s).2.string_.name i = m.string_.name i) ∧
    (addString (addString m s).2 s).1 = (addString m s).1 ∧
    (addString (addString m s).2 s).2 = (addString m s).2 ∧
    (s ≠ t → (addString (addString m s).2 t).1 ≠ (addString m s).1) := by
  obtain ⟨h1, h2⟩ := addString_spec m s h0
  obtain ⟨n1, n2, n3, n4, n5⟩ := addString_name m s h0
  have hpres : ∃ i, (addString m s).2.string_.name i = some s := ⟨_, n1⟩
  obtain ⟨g1, _⟩ := addString_spec (addString m s).2 s n4
  obtain ⟨e1, e2⟩ := g1 hpres
  refine ⟨h1, fun hp => ?_, ?_, e1, fun hne heq => ?_⟩
  · obtain ⟨a1, _, a3, a4, a5⟩ := h2 hp
    exact ⟨a1, a3, a4, a5⟩
  · by_cases hp : ∃ i, m.string_.name i = some s
    · rw [(h1 hp).1]
    · obtain ⟨a1, _, _, _, a5⟩ := h2 hp
      by_contra hc
      rw [a1] at hc
      have := a5 _ hc
      rw [e2] at this
      exact hp ⟨_, this.symm⟩
  · obtain ⟨k1, _, _, _, _⟩ := addString_name (addString m s).2 t n4
    have k5 := (addString_name (addString m s).2 t n4).2.2.2.2 _ _ n1
    rw [heq, k5] at k1
    exact hne (Option.some.inj k1)

/-- C29 at a concrete input: the string `"x"`, then `"y"`, on a default model. -/
theorem C29_addString_interns_witness :
    (0 : Int) ≤ CoinModel.default.string_.numberItems_ ∧
    (addString CoinModel.default "x").1 = 0 ∧
    (addString (addString CoinModel.default "x").2 "x").1 = 0 ∧
    (addString (addString CoinModel.default "x").2 "y").1 ≠
      (addString CoinModel.default "x").1 :=
  ⟨by decide, by decide!, by decide!,
    (C29_addString_interns CoinModel.default "x" "y" (by decide)).2.2.2.2 (by decide)⟩

/-- C23: `setElement` forces the mixed mode.  For every model in one of the modes -1, 0,
1 or 2 (not the externally packed mode 3) that has no linked list while it is in the
row-oriented or the column-oriented mode, and for every pair `(i, j)`, present or not,
both the numeric and the string form of `setElement(i, j, value)` return, and after
either of them the storage mode is 2 and at least one linked list exists
(`links_ != 0`). -/
theorem C23_setElement_forces_the_mixed_mode (m : CoinModel) (i j : Int) (v : Value)
    (s : String) (hm : m.type_ = -1 ∨ m.type_ = 0 ∨ m.type_ = 1 ∨ m.type_ = 2)
    (hl : m.type_ = 0 ∨ m.type_ = 1 → m.links_ = 0) :
    ((setElement m i j v).Returns fun a => a.type_ = 2 ∧ a.links_ ≠ 0) ∧
    ((setElementString m i j s).Returns fun a => a.type_ = 2 ∧ a.links_ ≠ 0) :=
  ⟨setElement_mixed m i j v hm hl, setElementString_mixed m i j s hm hl⟩

theorem C23_setElement_forces_the_mixed_mode_witness :
    (rowWithExplicitZero.type_ = -1 ∨ rowWithExplicitZero.type_ = 0 ∨
      rowWithExplicitZero.type_ = 1 ∨ rowWithExplicitZero.type_ = 2) ∧
    (rowWithExplicitZero.type_ = 0 ∨ rowWithExplicitZero.type_ = 1 →
      rowWithExplicitZero.links_ = 0) ∧
    ((setElement rowWithExplicitZero 0 2 7).Returns fun a => a.type_ = 2 ∧ a.links_ ≠ 0) ∧
    ((setElementString rowWithExplicitZero 3 4 "x").Returns fun a =>
      a.type_ = 2 ∧ a.links_ ≠ 0) :=
  ⟨by decide!, by decide!,
    (C23_setElement_forces_the_mixed_mode rowWithExplicitZero 0 2 7 "x" (by decide!)
      (by decide!)).1,
    (C23_setElement_forces_the_mixed_mode rowWithExplicitZero 3 4 7 "x" (by decide!)
      (by decide!)).2⟩

/-- C26: `resize` never shrinks and preserves content.  For every model that is not in
the externally packed mode (and whose row arrays exist together, as do its column
arrays) and all requested sizes, `resize(R, C, E)` returns, and afterwards each of
`maximumRows_`, `maximumColumns_` and `maximumElements_` is at least its value before,
`numberRows_` (`numberColumns_`) is unchanged when the row (column) arrays already
existed, `numberElements_` is unchanged, the bounds and the flag word of every existing
row, the bounds, objective, integrality and flag word of every existing column are
unchanged, and `elements_[p]` is unchanged for every `p < numberElements_`. -/
theorem C26_resize_never_shrinks_and_keeps_content (m : CoinModel) (R C E : Int)
    (h : m.type_ ≠ 3) (hr : RowsTogether m) (hc : ColumnsTogether m) :
    (resize m R C E).Returns fun a =>
      m.maximumRows_ ≤ a.maximumRows_ ∧ m.maximumColumns_ ≤ a.maximumColumns_ ∧
      m.maximumElements_ ≤ a.maximumElements_ ∧
      (m.rowLower_.isSome = true → a.numberRows_ = m.numberRows_) ∧
      (m.columnLower_.isSome = true → a.numberColumns_ = m.numberColumns_) ∧
      a.numberElements_ = m.numberElements_ ∧
      (∀ i, 0 ≤ i → i < m.numberRows_ →
        a.getRowLower i = m.getRowLower i ∧ a.getRowUpper i = m.getRowUpper i ∧
        load a.rowType_ 0 i = load m.rowType_ 0 i) ∧
      (∀ j, 0 ≤ j → j < m.numberColumns_ →
        a.getColumnLower j = m.getColumnLower j ∧ a.getColumnUpper j = m.getColumnUpper j ∧
        a.getColumnObjective j = m.getColumnObjective j ∧
        a.getColumnIsInteger j = m.getColumnIsInteger j ∧
        load a.columnType_ 0 j = load m.columnType_ 0 j) ∧
      (∀ p, 0 ≤ p → p < m.numberElements_ → a.elements_ p = m.elements_ p) := by
  refine Outcome.returns_mono
    (Outcome.returns_and (grown_resize m R C E h hr hc) (keeps_resize m R C E h)) ?_
  rintro a ⟨⟨⟨r1, r2, r3⟩, ⟨c1, c2, c3⟩, e1⟩, k⟩
  refine ⟨r1, c1, e1, r2, c2, k.1, fun i h0 hi => ?_, fun j h0 hj => ?_, k.2.1⟩
  · have := r3 i h0 hi
    unfold rowView at this
    simp only [Prod.mk.injEq] at this
    exact this
  · have := c3 j h0 hj
    unfold columnView at this
    simp only [Prod.mk.injEq] at this
    exact this

theorem C26_resize_never_shrinks_and_keeps_content_witness :
    (CoinModel.default.setElement 1 2 5).isReturned = true ∧
    ((CoinModel.default.setElement 1 2 5).resultOr CoinModel.default).type_ ≠ 3 ∧
    ((resize ((CoinModel.default.setElement 1 2 5).resultOr CoinModel.default)
        500 600 7000).Returns fun a =>
      (100 : Int) ≤ a.maximumRows_ ∧ a.numberRows_ = 2 ∧ a.numberColumns_ = 3 ∧
      a.numberElements_ = 1 ∧ a.getRowLower 1 = -COIN_DBL_MAX ∧
      a.elements_ 0 = ⟨1, false, 2, 5⟩) := by
  have hm : (CoinModel.default.setElement 1 2 5).isReturned = true := by decide!
  have h3 : ((CoinModel.default.setElement 1 2 5).resultOr CoinModel.default).type_ ≠ 3 := by
    decide!
  refine ⟨hm, h3, ?_⟩
  refine Outcome.returns_mono
    (C26_resize_never_shrinks_and_keeps_content
      ((CoinModel.default.setElement 1 2 5).resultOr CoinModel.default) 500 600 7000 h3
      (by unfold RowsTogether; decide!) (by unfold ColumnsTogether; decide!)) ?_
  rintro a ⟨a1, _, _, a4, a5, a6, a7, _, a9⟩
  have e1 : ((CoinModel.default.setElement 1 2 5).resultOr CoinModel.default).maximumRows_
      = 100 := by decide!
  rw [e1] at a1
  refine ⟨a1, ?_, ?_, ?_, ?_, ?_⟩
  · rw [a4 (by decide!)]
    decide!
  · rw [a5 (by decide!)]
    decide!
  · rw [a6]
    decide!
  · rw [(a7 1 (by decide) (by decide!)).1]
    decide!
  · rw [a9 0 (by decide) (by decide!)]
    decide!

/-- C25, counterexample: a scalar setter grows a capacity without slack.  On a default
model `setRowLower(0, 1.0)` returns with `maximumRows_ = 100`, and `setRowLower(100, 1.0)`
then raises it to `150`, which is `1.5 * 100` plus no positive slack; after
`addColumn` without entries and `setElement(0, 0, 1.0)` the row capacity is `101`, and
`setRowLower(101, 1.0)` raises it to `151`, which is less than `1.5 * 101`. -/
theorem C25_scalar_setter_grows_without_slack :
    ((setRowLower CoinModel.default 0 1).bind fun m => setRowLower m 100 1).isReturned = true ∧
    ((setRowLower CoinModel.default 0 1).resultOr CoinModel.default).maximumRows_ = 100 ∧
    (((setRowLower CoinModel.default 0 1).bind fun m =>
      setRowLower m 100 1).resultOr CoinModel.default).maximumRows_ = 150 ∧
    (∀ slack : ℚ, 0 < slack → ¬ ((3 / 2 : ℚ) * 100 + slack ≤ 150)) ∧
    (((addColumn CoinModel.default 0 [] [] 0 5 0 none false).bind fun m =>
      (setElement m 0 0 1).bind fun m => setRowLower m 101 1).isReturned = true) ∧
    (((addColumn CoinModel.default 0 [] [] 0 5 0 none false).bind fun m =>
      setElement m 0 0 1).resultOr CoinModel.default).maximumRows_ = 101 ∧
    (((addColumn CoinModel.default 0 [] [] 0 5 0 none false).bind fun m =>
      (setElement m 0 0 1).bind fun m =>
        setRowLower m 101 1).resultOr CoinModel.default).maximumRows_ = 151 ∧
    ¬ ((3 / 2 : ℚ) * 101 ≤ 151) := by
  refine ⟨by decide!, by decide!, by decide!, ?_, by decide!, by decide!, by decide!, ?_⟩
  · intro slack h0 h
    linarith
  · norm_num

/-- C25, amended: on every sized model (mixed mode, counts within the capacities, bound
arrays allocated where the capacity is positive), `addRow` and `addColumn` abort on
their index check or return, the numeric and the string form of `setElement` return,
and afterwards every capacity that has grown from `m` is at least `1.5 * m + 99.5` in
exact rational arithmetic; the scalar setters `setRowLower`, `setRowUpper`,
`setColumnLower`, `setColumnUpper`, `setColumnObjective` and `setColumnIsInteger`
return, change no other capacity, and raise a positive row or column capacity `m` only
for an index beyond it, to `max((3 * m) / 2, index + 1)` with integer division. -/
theorem C25_growth_with_slack_except_setters (m : CoinModel) (hz : Sized m) (i j n : Int)
    (I : List Int) (V : List Value) (v lo up obj : Value) (s : String) (b : Bool)
    (name : Option String) :
    ((addRow m n I V lo up name).isAborted = true ∨
      (addRow m n I V lo up name).Returns (SlackGrowthAll m)) ∧
    ((addColumn m n I V lo up obj name b).isAborted = true ∨
      (addColumn m n I V lo up obj name b).Returns (SlackGrowthAll m)) ∧
    (setElement m i j v).Returns (SlackGrowthAll m) ∧
    (setElementString m i j s).Returns (SlackGrowthAll m) ∧
    ((setRowLower m i v).Returns fun a => RowSetterGrowth m a i) ∧
    ((setRowUpper m i v).Returns fun a => RowSetterGrowth m a i) ∧
    ((setColumnLower m j v).Returns fun a => ColumnSetterGrowth m a j) ∧
    ((setColumnUpper m j v).Returns fun a => ColumnSetterGrowth m a j) ∧
    ((setColumnObjective m j v).Returns fun a => ColumnSetterGrowth m a j) ∧
    ((setColumnIsInteger m j b).Returns fun a => ColumnSetterGrowth m a j) := by
  refine ⟨?_, ?_, ?_, ?_, growth_setRowLower m hz i v, growth_setRowUpper m hz i v,
    growth_setColumnLower m hz j v, growth_setColumnUpper m hz j v,
    growth_setColumnObjective m hz j v, growth_setColumnIsInteger m hz j b⟩
  · rcases slack_addRow m hz n I V lo up name with h | h
    · exact Or.inl h
    · exact Or.inr (Outcome.returns_mono h (fun _ ha => slackGrowth_all ha))
  · rcases slack_addColumn m hz n I V lo up obj name b with h | h
    · exact Or.inl h
    · exact Or.inr (Outcome.returns_mono h (fun _ ha => slackGrowth_all ha))
  · exact Outcome.returns_mono (slack_setElement m hz i j v) (fun _ ha => slackGrowth_all ha)
  · exact Outcome.returns_mono (slack_setElementString m hz i j s)
      (fun _ ha => slackGrowth_all ha)

theorem C25_growth_with_slack_except_setters_witness :
    Sized ((setRowLower CoinModel.default 0 1).resultOr CoinModel.default) ∧
    ((setElement ((setRowLower CoinModel.default 0 1).resultOr CoinModel.default)
        100 0 1).Returns
      (SlackGrowthAll ((setRowLower CoinModel.default 0 1).resultOr CoinModel.default))) ∧
    ((setRowLower ((setRowLower CoinModel.default 0 1).resultOr CoinModel.default)
        100 1).Returns fun a =>
      RowSetterGrowth ((setRowLower CoinModel.default 0 1).resultOr CoinModel.default)
        a 100) :=
  ⟨by decide!,
    (C25_growth_with_slack_except_setters
      ((setRowLower CoinModel.default 0 1).resultOr CoinModel.default) (by decide!)
      100 0 1 [0] [1] 1 0 5 0 "x" false none).2.2.1,
    (C25_growth_with_slack_except_setters
      ((setRowLower CoinModel.default 0 1).resultOr CoinModel.default) (by decide!)
      100 0 1 [0] [1] 1 0 5 0 "x" false none).2.2.2.2.1⟩

/-- C33 (the code does not do what its comment says): the comment of `associateElement`
says "Returns string id (or -1 if does not exist)".  On the default model the string `x`
is not in the string table (`hash` gives -1), and `associateElement("x", 1.0)` returns 0,
the id under which it has added the string, with the value stored for it. -/
theorem C33_associateElement_adds_the_missing_string :
    CoinModel.default.string_.hash "x" = -1 ∧
    (associateElement CoinModel.default "x" 1).1 = 0 ∧
    (associateElement CoinModel.default "x" 1).2.string_.hash "x" = 0 ∧
    (associateElement CoinModel.default "x" 1).2.string_.numberItems = 1 ∧
    load (associateElement CoinModel.default "x" 1).2.associated_ unsetValue 0 = 1 := by
  decide!

/-- C34 (the code misses what the single setters do): on a model with one row and one
column, built by one `addRow` (100 rows allocated), `setRowLower(2, {7, 8})` returns with
one row still, so that `getRowLower(1)` is `-COIN_DBL_MAX` and not 8, and
`setRowUpper(2, {7, 8})` leaves `getRowUpper(1)` at `COIN_DBL_MAX`; `setObjective`,
`setColumnLower` and `setColumnUpper` with two values leave one column, which reads
0, 0 and `COIN_DBL_MAX` for column 1.  On the default model `setRowLower(1, {7})`
allocates no row array at all, so its store has no array to go to. -/
theorem C34_array_setters_do_not_create_rows_and_columns :
    (oneRowModel.numberRows_ = 1 ∧ oneRowModel.maximumRows_ = 100 ∧
      oneRowModel.numberColumns_ = 1 ∧ oneRowModel.maximumColumns_ = 100) ∧
    ((setRowLowerArray oneRowModel 2 [7, 8]).Returns fun a =>
      a.numberRows_ = 1 ∧ getRowLower a 0 = 7 ∧ getRowLower a 1 = -COIN_DBL_MAX) ∧
    ((setRowUpperArray oneRowModel 2 [7, 8]).Returns fun a =>
      a.numberRows_ = 1 ∧ getRowUpper a 0 = 7 ∧ getRowUpper a 1 = COIN_DBL_MAX) ∧
    ((setObjectiveArray oneRowModel 2 [7, 8]).Returns fun a =>
      a.numberColumns_ = 1 ∧ getColumnObjective a 0 = 7 ∧ getColumnObjective a 1 = 0) ∧
    ((setColumnLowerArray oneRowModel 2 [7, 8]).Returns fun a =>
      a.numberColumns_ = 1 ∧ getColumnLower a 0 = 7 ∧ getColumnLower a 1 = 0) ∧
    ((setColumnUpperArray oneRowModel 2 [7, 8]).Returns fun a =>
      a.numberColumns_ = 1 ∧ getColumnUpper a 0 = 7 ∧
      getColumnUpper a 1 = COIN_DBL_MAX) ∧
    ((setRowLowerArray CoinModel.default 1 [7]).Returns fun a =>
      a.rowLower_.isSome = false ∧ a.maximumRows_ = 0 ∧ a.objective_.isSome = true) := by
  decide!

/-- C39: `convertBoundToSense` with `inf = 1e30` gives sense `E` exactly when both
bounds are finite and equal (then right = upper, range = 0), `R` exactly when both are
finite and differ (right = upper, range = upper - lower), `G` exactly when only the
lower bound is finite (right = lower), `L` exactly when only the upper bound is finite
(right = upper), `N` exactly when neither is finite (right = 0); the range is 0 in every
case except `R`. -/
theorem C39_convertBoundToSense_classification (lower upper : Value) :
    ((convertBoundToSense lower upper).1 = 'E' ↔
      lower > -(10 : Value) ^ 30 ∧ upper < (10 : Value) ^ 30 ∧ upper = lower) ∧
    ((convertBoundToSense lower upper).1 = 'E' →
      convertBoundToSense lower upper = ('E', upper, 0)) ∧
    ((convertBoundToSense lower upper).1 = 'R' ↔
      lower > -(10 : Value) ^ 30 ∧ upper < (10 : Value) ^ 30 ∧ upper ≠ lower) ∧
    ((convertBoundToSense lower upper).1 = 'R' →
      convertBoundToSense lower upper = ('R', upper, upper - lower)) ∧
    ((convertBoundToSense lower upper).1 = 'G' ↔
      lower > -(10 : Value) ^ 30 ∧ upper ≥ (10 : Value) ^ 30) ∧
    ((convertBoundToSense lower upper).1 = 'G' →
      convertBoundToSense lower upper = ('G', lower, 0)) ∧
    ((convertBoundToSense lower upper).1 = 'L' ↔
      lower ≤ -(10 : Value) ^ 30 ∧ upper < (10 : Value) ^ 30) ∧
    ((convertBoundToSense lower upper).1 = 'L' →
      convertBoundToSense lower upper = ('L', upper, 0)) ∧
    ((convertBoundToSense lower upper).1 = 'N' ↔
      lower ≤ -(10 : Value) ^ 30 ∧ upper ≥ (10 : Value) ^ 30) ∧
    ((convertBoundToSense lower upper).1 = 'N' →
      convertBoundToSense lower upper = ('N', 0, 0)) ∧
    ((convertBoundToSense lower upper).1 ≠ 'R' → (convertBoundToSense lower upper).2.2 = 0) := by
  have e : (1000000000000000000000000000000 : Value) = (10 : Value) ^ 30 := by norm_num
  unfold convertBoundToSense
  dsimp only
  rw [e]
  by_cases h1 : lower > -(10 : Value) ^ 30
  · by_cases h2 : upper < (10 : Value) ^ 30
    · by_cases h3 : upper = lower
      · rw [if_pos h1, if_pos h2, if_pos h3]
        subst h3
        have h1' : ¬ upper ≤ -(10 : Value) ^ 30 := not_le.2 h1
        have h2' : ¬ upper ≥ (10 : Value) ^ 30 := not_le.2 h2
        simp [h1, h2, h1', h2']
      · rw [if_pos h1, if_pos h2, if_neg h3]
        have h1' : ¬ lower ≤ -(10 : Value) ^ 30 := not_le.2 h1
        have h2' : ¬ upper ≥ (10 : Value) ^ 30 := not_le.2 h2
        simp [h1, h2, h3, h1', h2']
    · rw [if_pos h1, if_neg h2]
      have h1' : ¬ lower ≤ -(10 : Value) ^ 30 := not_le.2 h1
      have h2' : upper ≥ (10 : Value) ^ 30 := not_lt.1 h2
      simp [h1, h2, h1', h2']
  · by_cases h2 : upper < (10 : Value) ^ 30
    · rw [if_neg h1, if_pos h2]
      have h1' : lower ≤ -(10 : Value) ^ 30 := not_lt.1 h1
      have h2' : ¬ upper ≥ (10 : Value) ^ 30 := not_le.2 h2
      simp [h1, h2, h1', h2']
    · rw [if_neg h1, if_neg h2]
      have h1' : lower ≤ -(10 : Value) ^ 30 := not_lt.1 h1
      have h2' : upper ≥ (10 : Value) ^ 30 := not_lt.1 h2
      simp [h1, h2, h1', h2']

/-- C35: `addRow` called without a name on a model that is not externally packed, with
a batch of indices that it accepts, returns; with names enabled the new row, the last
row `n` of the resulting model, has the name `Coin8CharacterName('r', n)`, and with
names disabled (`noNames_`) both name tables are what they were.  `addColumn` does the
same with the letter `c`.  For every `0 <= n < 10000000` the generated name is the
letter followed by exactly seven decimal digits that write `n`, zero padded. -/
theorem C35_generated_names (m : CoinModel) (indices : List Int) (elements : List Value)
    (lo up obj : Value) (isInt : Bool) (h3 : m.type_ ≠ 3) (hr : 0 ≤ m.numberRows_)
    (hc : 0 ≤ m.numberColumns_) (hb : ¬ BadIndices indices) :
    ((addRow m indices.length indices elements lo up none).Returns fun a =>
      0 ≤ a.numberRows_ - 1 ∧
      (m.noNames_ = false → a.rowName_.name (a.numberRows_ - 1) =
        some (Coin8CharacterName 'r' (a.numberRows_ - 1))) ∧
      (m.noNames_ = true → a.rowName_ = m.rowName_ ∧ a.columnName_ = m.columnName_)) ∧
    ((addColumn m indices.length indices elements lo up obj none isInt).Returns fun a =>
      0 ≤ a.numberColumns_ - 1 ∧
      (m.noNames_ = false → a.columnName_.name (a.numberColumns_ - 1) =
        some (Coin8CharacterName 'c' (a.numberColumns_ - 1))) ∧
      (m.noNames_ = true → a.rowName_ = m.rowName_ ∧ a.columnName_ = m.columnName_)) ∧
    (∀ (ch : Char) (n : Int), 0 ≤ n → n < 10000000 →
      ∃ ds : List Char, Coin8CharacterName ch n = String.mk (ch :: ds) ∧ ds.length = 7 ∧
        (∀ c ∈ ds, isDecimalDigit c = true) ∧ (decimalValue ds : Int) = n) :=
  ⟨addRow_names m indices elements lo up h3 hr hb,
    addColumn_names m indices elements lo up obj isInt h3 hc hb,
    fun ch n h0 h1 => name_decimal ch n h0 h1⟩

/-- C35 at a concrete input: the first `addRow` without a name on the default model
names row 0 `r0000000`. -/
theorem C35_generated_names_witness :
    CoinModel.default.type_ ≠ 3 ∧ 0 ≤ CoinModel.default.numberRows_ ∧
    0 ≤ CoinModel.default.numberColumns_ ∧ ¬ BadIndices [0] ∧
    ((addRow CoinModel.default ([0] : List Int).length [0] [1] 2 5 none).Returns fun a =>
      0 ≤ a.numberRows_ - 1 ∧
      (CoinModel.default.noNames_ = false → a.rowName_.name (a.numberRows_ - 1) =
        some (Coin8CharacterName 'r' (a.numberRows_ - 1))) ∧
      (CoinModel.default.noNames_ = true →
        a.rowName_ = CoinModel.default.rowName_ ∧
        a.columnName_ = CoinModel.default.columnName_)) ∧
    Coin8CharacterName 'r' 0 = "r0000000" :=
  ⟨by decide, by decide, by decide, by unfold BadIndices; decide,
    (C35_generated_names CoinModel.default [0] [1] 2 5 0 false (by decide) (by decide)
      (by decide) (by unfold BadIndices; decide)).1,
    by decide⟩

/-- C40: for every `0 <= n <= 2^31 - 1` the name `Coin8CharacterName(ch, n)` has
exactly 8 characters, the first of which is `ch`; from 10000000 on the base-26 loop
writes at least one and at most seven letters (so it stays inside `field[1..7]`) and
these letters write `n`; and for a fixed letter `ch` two numbers of that range with the
same name are equal, across the boundary 10000000 as well. -/
theorem C40_generated_names_are_unique (ch : Char) (n k : Int) (h0 : 0 ≤ n)
    (h1 : n ≤ 2147483647) (k0 : 0 ≤ k) (k1 : k ≤ 2147483647) :
    (Coin8CharacterName ch n).length = 8 ∧
    (Coin8CharacterName ch n).data.head? = some ch ∧
    (10000000 ≤ n → 0 < (letters26 8 n.toNat).length ∧ (letters26 8 n.toNat).length ≤ 7 ∧
      lettersValue (letters26 8 n.toNat) = n.toNat) ∧
    (Coin8CharacterName ch n = Coin8CharacterName ch k → n = k) := by
  obtain ⟨s1, s2, _, _⟩ := name_spec ch n h0 h1
  refine ⟨s1, s2, fun h => ?_, name_injective ch n k h0 h1 k0 k1⟩
  obtain ⟨l1, _, l3, l4⟩ := letters26_spec 8 7 n.toNat (by norm_num) (by omega)
    (by norm_num; omega)
  exact ⟨l3, l4, l1⟩

/-- C40 at a concrete input: the numbers 9999999 and 10000000 on either side of the
boundary. -/
theorem C40_generated_names_are_unique_witness :
    (0 : Int) ≤ 10000000 ∧ (10000000 : Int) ≤ 2147483647 ∧ (0 : Int) ≤ 9999999 ∧
    (9999999 : Int) ≤ 2147483647 ∧
    (Coin8CharacterName 'r' 10000000).length = 8 ∧
    (Coin8CharacterName 'r' 10000000 = Coin8CharacterName 'r' 9999999 →
      (10000000 : Int) = 9999999) :=
  ⟨by decide, by decide, by decide, by decide,
    (C40_generated_names_are_unique 'r' 10000000 9999999 (by decide) (by decide) (by decide)
      (by decide)).1,
    (C40_generated_names_are_unique 'r' 10000000 9999999 (by decide) (by decide) (by decide)
      (by decide)).2.2.2⟩

/-- C36 (the code reads a cell it has not set): the comment of `countPlusMinusOne` says
"If not +-1 then startPositive[0]==-1 otherwise counts and startPositive[numberColumns]==
size".  On the default model, which has no column and no triple, `memset` clears no cell,
so the test `startPositive[0] >= 0` reads what the caller left there: with -1 in that cell
on entry the call returns with `startPositive[0] = -1` although no triple exists, and
with 5 in it the call returns with `startPositive[0] = 0`. -/
theorem C36_count_without_columns_keeps_the_first_cell :
    CoinModel.default.numberColumns_ = 0 ∧ CoinModel.default.numberElements_ = 0 ∧
    ((countPlusMinusOne CoinModel.default (fun _ => -1) (fun _ => 0) (fun _ => 0)).Returns
      fun r => r.2.1 0 = -1 ∧ r.2.2.2 = 0 ∧ r.1.numberColumns_ = 0 ∧
        storedPositions r.1 = [] ∧
        (positionsBelow r.1.numberElements_).all
          (fun p => isNotPlusMinusOne (fun _ => 0) (r.1.elements_ p) = false) = true) ∧
    ((countPlusMinusOne CoinModel.default (fun _ => 5) (fun _ => 0) (fun _ => 0)).Returns
      fun r => r.2.1 0 = 0) := by
  decide!

/-- C37: on a model that is not externally packed and whose triples lie in columns
below `numberColumns_`, when `startPositive[c]` and `startNegative[c]` hold for every
column `c` the numbers of non-deleted triples of that column with value +1 and -1 (the
counts that `countPlusMinusOne` produces on a +-1 model), `createPlusMinusOne` returns
with `startPositive[0] = 0`, `startPositive[c] <= startNegative[c] <= startPositive[c+1]`
for every column, `indices[startPositive[c] .. startNegative[c])` the ascending list of
the rows that hold +1 in column `c`, `indices[startNegative[c] .. startPositive[c+1])`
the ascending list of the rows that hold -1 in column `c`, and
`startPositive[numberColumns_]` the number of non-deleted triples with value +1 or
-1. -/
theorem C37_createPlusMinusOne_layout (m : CoinModel) (startPositive startNegative
    indices : Int → Int) (associated : Int → Value) (h3 : m.type_ ≠ 3)
    (hnc : 0 ≤ m.numberColumns_)
    (hcol : ∀ p ∈ positionsBelow m.numberElements_,
      (m.elements_ p).column < m.numberColumns_)
    (hP : ∀ c : Int, 0 ≤ c → c < m.numberColumns_ →
      startPositive c = ((withValue m.elements_ associated 1 c
        (positionsBelow m.numberElements_)).length : Int))
    (hN : ∀ c : Int, 0 ≤ c → c < m.numberColumns_ →
      startNegative c = ((withValue m.elements_ associated (-1) c
        (positionsBelow m.numberElements_)).length : Int)) :
    (createPlusMinusOne m startPositive startNegative indices associated).Returns fun r =>
      r.1 0 = 0 ∧
      (∀ c : Int, 0 ≤ c → c < m.numberColumns_ →
        r.1 c ≤ r.2.1 c ∧ r.2.1 c ≤ r.1 (c + 1) ∧
        (cells r.2.2 (r.1 c) (r.2.1 c)).Sorted (fun x y => x ≤ y) ∧
        (cells r.2.2 (r.1 c) (r.2.1 c)).Perm
          ((withValue m.elements_ associated 1 c (positionsBelow m.numberElements_)).map
            (fun p => rowInTriple (m.elements_ p))) ∧
        (cells r.2.2 (r.2.1 c) (r.1 (c + 1))).Sorted (fun x y => x ≤ y) ∧
        (cells r.2.2 (r.2.1 c) (r.1 (c + 1))).Perm
          ((withValue m.elements_ associated (-1) c (positionsBelow m.numberElements_)).map
            (fun p => rowInTriple (m.elements_ p)))) ∧
      r.1 m.numberColumns_ = ((plusMinusTriples m.elements_ associated
        (positionsBelow m.numberElements_)).length : Int) := by
  apply Outcome.returns_mono
    (createPlusMinusOne_spec m startPositive startNegative indices associated h3 hnc hcol hP hN)
  rintro r ⟨r1, r2, r3⟩
  refine ⟨r1, fun c c0 c1 => ?_, r3⟩
  obtain ⟨a1, a2, a3, a4⟩ := r2 c c0 c1
  refine ⟨a1, a2, ?_, ?_, ?_, ?_⟩
  · rw [a3]
    exact List.sorted_insertionSort _ _
  · rw [a3]
    exact List.perm_insertionSort _ _
  · rw [a4]
    exact List.sorted_insertionSort _ _
  · rw [a4]
    exact List.perm_insertionSort _ _

/-- C37 at a concrete input: the model with +1 at (1,0) and (0,0) and -1 at (0,1), stored
in that order, and the counts 2, 0 and 0, 1 that `countPlusMinusOne` gives for its two
columns. -/
theorem C37_createPlusMinusOne_layout_witness :
    plusMinusModel.type_ ≠ 3 ∧ plusMinusModel.numberColumns_ = 2 ∧
    ((countPlusMinusOne plusMinusModel (fun _ => 0) (fun _ => 0) (fun _ => 0)).Returns
      fun r => r.2.1 0 = 2 ∧ r.2.1 1 = 0 ∧ r.2.2.1 0 = 0 ∧ r.2.2.1 1 = 1 ∧ r.2.1 2 = 3) ∧
    ((createPlusMinusOne plusMinusModel (fun c => if c = 0 then 2 else 0)
        (fun c => if c = 1 then 1 else 0) (fun _ => 0) (fun _ => 0)).Returns fun r =>
      r.1 0 = 0 ∧
      (∀ c : Int, 0 ≤ c → c < plusMinusModel.numberColumns_ →
        r.1 c ≤ r.2.1 c ∧ r.2.1 c ≤ r.1 (c + 1) ∧
        (cells r.2.2 (r.1 c) (r.2.1 c)).Sorted (fun x y => x ≤ y) ∧
        (cells r.2.2 (r.1 c) (r.2.1 c)).Perm
          ((withValue plusMinusModel.elements_ (fun _ => 0) 1 c
            (positionsBelow plusMinusModel.numberElements_)).map
            (fun p => rowInTriple (plusMinusModel.elements_ p))) ∧
        (cells r.2.2 (r.2.1 c) (r.1 (c + 1))).Sorted (fun x y => x ≤ y) ∧
        (cells r.2.2 (r.2.1 c) (r.1 (c + 1))).Perm
          ((withValue plusMinusModel.elements_ (fun _ => 0) (-1) c
            (positionsBelow plusMinusModel.numberElements_)).map
            (fun p => rowInTriple (plusMinusModel.elements_ p)))) ∧
      r.1 plusMinusModel.numberColumns_ = ((plusMinusTriples plusMinusModel.elements_
        (fun _ => 0) (positionsBelow plusMinusModel.numberElements_)).length : Int)) ∧
    ((createPlusMinusOne plusMinusModel (fun c => if c = 0 then 2 else 0)
        (fun c => if c = 1 then 1 else 0) (fun _ => 0) (fun _ => 0)).Returns fun r =>
      cells r.2.2 0 3 = [0, 1, 0] ∧ r.1 1 = 2 ∧ r.2.1 0 = 2 ∧ r.2.1 1 = 2 ∧ r.1 2 = 3) :=
  ⟨by decide!, by decide!, by decide!,
    C37_createPlusMinusOne_layout plusMinusModel (fun c => if c = 0 then 2 else 0)
      (fun c => if c = 1 then 1 else 0) (fun _ => 0) (fun _ => 0) (by decide!) (by decide!)
      (by decide!)
      (by
        intro c c0 c1
        have h2 : plusMinusModel.numberColumns_ = 2 := by decide!
        rw [h2] at c1
        interval_cases c <;> decide!)
      (by
        intro c c0 c1
        have h2 : plusMinusModel.numberColumns_ = 2 := by decide!
        rw [h2] at c1
        interval_cases c <;> decide!),
    by decide!⟩

/-- C17 (defect shown at a concrete input): after `addColumn(2, {1, 0}, {4, 5}, 0, 5, 0)`,
`deleteRow(0)` and `packRows()` the model has one row and one column with the triple
`(0, 0, 4.0)`, both lists exist, and the free list of each names slot 0, which holds
that triple.  On this model `deleteRow(0)` returns and leaves the triple stored, and
`packRows()` after it returns 0: row 0 is still there with its coefficient 4.0.  On the
model before the first `packRows()` the same two calls remove row 0. -/
theorem C17_deleteRow_then_packRows_keeps_the_row :
    (packedAfterDeleteRow.type_ = 2 ∧ packedAfterDeleteRow.links_ = 3 ∧
      packedAfterDeleteRow.numberRows_ = 1 ∧ packedAfterDeleteRow.numberColumns_ = 1 ∧
      storedTriples packedAfterDeleteRow = [(0, 0, 4)] ∧
      packedAfterDeleteRow.rowList_.free = [0] ∧
      packedAfterDeleteRow.columnList_.free = [0]) ∧
    ((deleteRow packedAfterDeleteRow 0).Returns fun d =>
      storedTriples d = [(0, 0, 4)] ∧ (getElement d 0 0).1 = 4 ∧
      getRowLower d 0 = -COIN_DBL_MAX ∧ getRowUpper d 0 = COIN_DBL_MAX ∧
      d.rowName_.name 0 = none) ∧
    (((deleteRow packedAfterDeleteRow 0).bind packRows).Returns fun r =>
      r.2 = 0 ∧ r.1.numberRows_ = 1 ∧ storedTriples r.1 = [(0, 0, 4)] ∧
      (getElement r.1 0 0).1 = 4) ∧
    (((addColumn CoinModel.default 2 [1, 0] [4, 5] 0 5 0 none false).bind fun m =>
      (deleteRow m 0).bind packRows).Returns fun r =>
      r.2 = 1 ∧ r.1.numberRows_ = 1 ∧ storedTriples r.1 = [(0, 0, 4)]) := by
  decide!

/-- C31 (defect shown at a concrete input): after `addRow(2, {0, 1}, {1, 2}, 2, 5)`,
`deleteColumn(0)` and `packColumns()` the model has one row and one column with the
triple `(0, 0, 2.0)`, and the free list of each list names slot 0, which holds that
triple.  On this model `deleteRow(0)` returns with the bounds of row 0 reset, but
`position(0, 0)` is 0 and `getElement(0, 0)` is 2.0; `deleteColumn(0)` leaves the triple
in the same way.  On the model before the pack, `deleteRow(0)` leaves `position(0, c)` at
-1 for both columns. -/
theorem C31_deleteRow_leaves_the_coefficient_after_pack :
    (packedAfterDeleteColumn.type_ = 2 ∧ packedAfterDeleteColumn.links_ = 3 ∧
      packedAfterDeleteColumn.numberRows_ = 1 ∧ packedAfterDeleteColumn.numberColumns_ = 1 ∧
      storedTriples packedAfterDeleteColumn = [(0, 0, 2)] ∧
      packedAfterDeleteColumn.rowList_.free = [0] ∧
      packedAfterDeleteColumn.columnList_.free = [0]) ∧
    ((deleteRow packedAfterDeleteColumn 0).Returns fun d =>
      getRowLower d 0 = -COIN_DBL_MAX ∧ getRowUpper d 0 = COIN_DBL_MAX ∧
      (position d 0 0).1 = 0 ∧ (getElement d 0 0).1 = 2 ∧ storedTriples d = [(0, 0, 2)]) ∧
    ((deleteColumn packedAfterDeleteColumn 0).Returns fun d =>
      getColumnLower d 0 = 0 ∧ getColumnUpper d 0 = COIN_DBL_MAX ∧
      (position d 0 0).1 = 0 ∧ (getElement d 0 0).1 = 2 ∧ storedTriples d = [(0, 0, 2)]) ∧
    (((addRow CoinModel.default 2 [0, 1] [1, 2] 2 5 none).bind fun m => deleteRow m 0).Returns
      fun d => (position d 0 0).1 = -1 ∧ (position d 0 1).1 = -1 ∧ storedTriples d = []) := by
  decide!

/-- C32 (defect shown at a concrete input): the scenario model stores `(0, 0, 1.0)` at
position 0, but its hash index, sized by the numeric `setElement`, covers four triples
and holds position 3 only.  `deleteElement(0, 0)` returns -1 and deletes nothing, while
`deleteElement(0, 1)`, the pair stored by `setElement`, returns its position 3.  When
`getElement(0, 0)` is called before the `setElement` of the scenario, so that the reader
builds the index, `deleteElement(0, 0)` returns 0 and the pair is gone. -/
theorem C32_deleteElement_misses_a_stored_pair :
    storedTriples scenarioModel = [(0, 0, 1), (0, 2, 3), (1, 1, -1), (0, 1, 7)] ∧
    scenarioModel.hashElements_.numberItems_ = 4 ∧ scenarioModel.hashElements_.index = [3] ∧
    (deleteElement scenarioModel 0 0).1 = -1 ∧
    storedTriples (deleteElement scenarioModel 0 0).2 =
      [(0, 0, 1), (0, 2, 3), (1, 1, -1), (0, 1, 7)] ∧
    (deleteElement scenarioModel 0 1).1 = 3 ∧
    storedTriples scenarioWithReader = [(0, 0, 1), (0, 2, 3), (1, 1, -1), (0, 1, 7)] ∧
    (deleteElement scenarioWithReader 0 0).1 = 0 ∧
    storedTriples (deleteElement scenarioWithReader 0 0).2 =
      [(0, 2, 3), (1, 1, -1), (0, 1, 7)] := by
  decide!

/-- C30 (the code breaks its own assertion): `createPackedMatrix` on a default model
leaves the mode 2 with no list and no element storage (`maximumElements_ = 0`).  On that
model `setElement(0, 0, "x")` sizes the hash index to 0 items, stores the dummy value 1.0
without hashing it, and its second lookup gives -1, where the source has
`assert(position >= 0)`; the string id goes to `elements_[-1]`.  The call returns, and
`getElementAsString(0, 0)` is `"Numeric"` and `getElement(0, 0)` is 1.0.  On a default
model the same call is read back as `"x"`. -/
theorem C30_string_element_reads_numeric_after_export :
    (exportedDefault.type_ = 2 ∧ exportedDefault.links_ = 0 ∧
      exportedDefault.maximumElements_ = 0 ∧ exportedDefault.numberElements_ = 0) ∧
    ((setElementString exportedDefault 0 0 "x").Returns fun m =>
      storedTriples m = [(0, 0, 1)] ∧ m.hashElements_.maximumItems_ = 0 ∧
      m.hashElements_.hash 0 0 m.elements_ = -1 ∧
      stringInTriple (m.elements_ 0) = false ∧ stringInTriple (m.elements_ (-1)) = true ∧
      (getElementAsString m 0 0).1 = some "Numeric" ∧ (getElement m 0 0).1 = 1) ∧
    ((setElementString CoinModel.default 0 0 "x").Returns fun m =>
      (getElementAsString m 0 0).1 = some "x") := by
  decide!

end CoinUtils
